import Mathlib

/-!
# Chtholly compiler: a shallow embedding of the front end and the MIR builder

The definitions below follow the C++ sources of the repository
(`src/Lexer/Lexer.cpp`, `include/AST/Types.h`, `include/Sema/Substituter.h`,
`src/Sema/SymbolTable.cpp`, `src/Sema/Sema.cpp`, `src/MIR/MIRBuilder.cpp`).
Stateful C++ objects become explicit state records, exceptions become
`Except String`, `std::string` becomes `String`, and nullable pointers become
`Option`.
-/

namespace Chtholly

/-! ## Type model (`include/AST/Types.h`) -/

/-- The kinds for which `PrimitiveType` objects exist (`Type::getI8` .. `Type::getVoid`). -/
inductive PrimKind where
  | I8 | I16 | I32 | I64 | U8 | U16 | U32 | U64 | F32 | F64 | Bool | Void
  deriving DecidableEq, Repr

/-- The enumeration `TypeKind`. -/
inductive TypeKind where
  | I8 | I16 | I32 | I64 | U8 | U16 | U32 | U64 | F32 | F64 | Bool | Void
  | Function | Pointer | Array | Struct | Enum | TypeParameter
  deriving DecidableEq, Repr

/-- The enumeration `EnumType::Variant::Kind` (also `EnumVariant::VariantKind`). -/
inductive VariantKind where
  | Unit | Tuple | Struct
  deriving DecidableEq, Repr

mutual
/-- The class hierarchy below `Type`.  `StructType` carries the flag
`m_isClassInternal` of its base class as `isClass`.  A `std::shared_ptr<StructType>` is
the address of the object together with the members of the object: the analyzer gives
every `StructType` that it makes the next free address, from 1 on, and the name-only
objects that the parser and the builder make have the address 0.  The members `name`,
`fields` and the class flag never change after the object is shared; `methods` is what
the constructor got, and `setMethods` is recorded in the analyzer by address. -/
inductive Ty where
  | primitive (kind : PrimKind)
  | pointer (baseType : Ty)
  | array (baseType : Ty) (size : Nat)
  | function (params : List Ty) (returnType : Ty) (isVariadic : Bool)
  | struct (name : String) (fields : List Field) (methods : List Field) (isClass : Bool)
      (address : Nat)
  | enum (name : String) (variants : List Variant)
  | typeParameter (name : String) (constraintName : String)
/-- `StructType::Field` and `StructType::Method` (same three members). -/
inductive Field where
  | mk (name : String) (type : Ty) (isPublic : Bool)
/-- `EnumType::Variant`. -/
inductive Variant where
  | mk (name : String) (kind : VariantKind) (tupleTypes : List Ty) (structFields : List Field)
end

namespace PrimKind

/-- `PrimitiveType::toString`. -/
def toString : PrimKind → String
  | I8 => "i8" | I16 => "i16" | I32 => "i32" | I64 => "i64"
  | U8 => "u8" | U16 => "u16" | U32 => "u32" | U64 => "u64"
  | F32 => "f32" | F64 => "f64" | Bool => "bool" | Void => "void"

/-- `PrimitiveType::getKind`. -/
def toKind : PrimKind → TypeKind
  | I8 => .I8 | I16 => .I16 | I32 => .I32 | I64 => .I64
  | U8 => .U8 | U16 => .U16 | U32 => .U32 | U64 => .U64
  | F32 => .F32 | F64 => .F64 | Bool => .Bool | Void => .Void

end PrimKind

namespace Field
/-- Member `name`. -/
def name : Field → String | mk n _ _ => n
/-- Member `type`. -/
def type : Field → Ty | mk _ t _ => t
/-- Member `isPublic`. -/
def isPublic : Field → Bool | mk _ _ p => p
end Field

namespace Variant
/-- Member `name`. -/
def name : Variant → String | mk n _ _ _ => n
/-- Member `kind`. -/
def kind : Variant → VariantKind | mk _ k _ _ => k
/-- Member `tupleTypes`. -/
def tupleTypes : Variant → List Ty | mk _ _ ts _ => ts
/-- Member `structFields`. -/
def structFields : Variant → List Field | mk _ _ _ fs => fs
end Variant

namespace Ty

/-- `Type::getKind`. -/
def getKind : Ty → TypeKind
  | primitive k => k.toKind
  | pointer _ => .Pointer
  | array _ _ => .Array
  | function _ _ _ => .Function
  | struct _ _ _ _ _ => .Struct
  | enum _ _ => .Enum
  | typeParameter _ _ => .TypeParameter

mutual
/-- `Type::toString` with its overrides. -/
def toString : Ty → String
  | primitive k => k.toString
  | pointer b => toString b ++ "*"
  | array b n => toString b ++ "[" ++ Nat.repr n ++ "]"
  | function ps r v =>
      "(" ++ paramsToString ps
        ++ (if v then (if ps.isEmpty then "" else ", ") ++ "..." else "")
        ++ "): " ++ toString r
  | struct n _ _ _ _ => n
  | enum n _ => n
  | typeParameter n _ => n
/-- The parameter loop of `FunctionType::toString`: the texts joined by `", "`. -/
def paramsToString : List Ty → String
  | [] => ""
  | [p] => toString p
  | p :: q :: ps => toString p ++ ", " ++ paramsToString (q :: ps)
end

/-- `Type::isStruct`. -/
def isStruct (t : Ty) : Bool := t.getKind == .Struct
/-- `Type::isEnum`. -/
def isEnum (t : Ty) : Bool := t.getKind == .Enum
/-- `Type::isPointer`. -/
def isPointer (t : Ty) : Bool := t.getKind == .Pointer
/-- `Type::isArray`. -/
def isArray (t : Ty) : Bool := t.getKind == .Array
/-- `Type::isVoid`. -/
def isVoid (t : Ty) : Bool := t.getKind == .Void
/-- `Type::isTypeParameter`. -/
def isTypeParameter (t : Ty) : Bool := t.getKind == .TypeParameter

/-- `Type::isClass`: a struct type whose class flag is set. -/
def isClass : Ty → Bool
  | struct _ _ _ c _ => c
  | _ => false

/-- `Type::isInteger`. -/
def isInteger : Ty → Bool
  | primitive .I8 | primitive .I16 | primitive .I32 | primitive .I64
  | primitive .U8 | primitive .U16 | primitive .U32 | primitive .U64 => true
  | _ => false

/-- `Type::isCopyType`. -/
def isCopyType (t : Ty) : Bool :=
  match t.getKind with
  | .I8 | .I16 | .I32 | .I64 | .U8 | .U16 | .U32 | .U64
  | .F32 | .F64 | .Bool | .Pointer => true
  | _ => false

/-- `StructType::getName` / `EnumType::getName` / `TypeParameterType::getName`
(the empty string for the other classes, which have no name). -/
def getName : Ty → String
  | struct n _ _ _ _ => n
  | enum n _ => n
  | typeParameter n _ => n
  | _ => ""

/-- The address of a `StructType` object; the other classes are not compared by address. -/
def address : Ty → Nat
  | struct _ _ _ _ a => a
  | _ => 0

/-- `StructType::getFields`. -/
def getFields : Ty → List Field
  | struct _ fs _ _ _ => fs
  | _ => []

/-- `EnumType::getVariants`. -/
def getVariants : Ty → List Variant
  | enum _ vs => vs
  | _ => []

end Ty

/-- `Type::getI32()`. -/
abbrev Ty.i32 : Ty := .primitive .I32
/-- `Type::getF64()`. -/
abbrev Ty.f64 : Ty := .primitive .F64
/-- `Type::getBool()`. -/
abbrev Ty.bool : Ty := .primitive .Bool
/-- `Type::getVoid()`. -/
abbrev Ty.void : Ty := .primitive .Void

/-! ## Name mangling (`Sema::mangleGenericName`, `src/Sema/Sema.cpp` 1294-1314) -/

/-- `std::string::find(c)`: index of the first occurrence. -/
def findChar (c : Char) : List Char → Option Nat
  | [] => none
  | x :: xs => if x = c then some 0 else (findChar c xs).map (· + 1)

/-- `std::string::replace(pos, 1, r)`. -/
def replaceAt (s : List Char) (pos : Nat) (r : List Char) : List Char :=
  s.take pos ++ r ++ s.drop (pos + 1)

/-- The loop `while ((pos = tyStr.find('*')) != npos) tyStr.replace(pos, 1, "Ptr")`.
Each round removes one `*` and adds none, so `fuel = length` rounds suffice. -/
def replaceStars : Nat → List Char → List Char
  | 0, s => s
  | fuel + 1, s =>
    match findChar '*' s with
    | none => s
    | some pos => replaceStars fuel (replaceAt s pos [ 'P', 't', 'r' ])

/-- The test of the second loop of `mangleGenericName`. -/
def isMangleSpecial (c : Char) : Bool :=
  c = '[' || c = ']' || c = ' ' || c = ',' || c = '(' || c = ')' || c = ':'

/-- The loop body of `mangleGenericName` applied to one textual form `tyStr`. -/
def mangleTypeString (tyStr : String) : String :=
  let s1 := replaceStars tyStr.data.length tyStr.data
  String.mk (s1.map fun c => if isMangleSpecial c then '_' else c)

/-- The loop of `mangleGenericName` from index `i` on: `none` entries are null
`typeArgs[i]`, for which the source throws. -/
def mangleLoop (mangled : String) (i : Nat) : List (Option Ty) → Except String String
  | [] => .ok mangled
  | none :: _ => .error ("mangleGenericName: null typeArg at index " ++ toString i)
  | some t :: rest =>
    let mangled1 := mangled ++ mangleTypeString t.toString
    let mangled2 := if rest.isEmpty then mangled1 else mangled1 ++ "_"
    mangleLoop mangled2 (i + 1) rest

/-- `Sema::mangleGenericName`. -/
def mangleGenericName (baseName : String) (typeArgs : List (Option Ty)) : Except String String :=
  mangleLoop (baseName ++ "_") 0 typeArgs

/-- The sanitising of the specification: every `*` becomes `Ptr`, each of
`[ ] , space ( ) :` becomes `_`, every other character is kept. -/
def sanitizeSpec (s : String) : String :=
  String.mk (s.data.flatMap fun c =>
    if c = '*' then [ 'P', 't', 'r' ]
    else if c = '[' ∨ c = ']' ∨ c = ',' ∨ c = ' ' ∨ c = '(' ∨ c = ')' ∨ c = ':' then [ '_' ]
    else [c])

/-- The characters that the specification says a mangled suffix never holds. -/
def mangleForbidden : List Char := [ '*', '[', ']', ',', ' ', '(', ')', ':' ]

/-- The `*`-expansion alone: what the first loop of `mangleGenericName` computes. -/
def expandStars (s : List Char) : List Char :=
  s.flatMap fun c => if c = '*' then [ 'P', 't', 'r' ] else [c]

/-- No character of `s` is one of the forbidden ones. -/
def MangleClean (s : String) : Prop := ∀ c ∈ s.data, c ∉ mangleForbidden

/-! ## Tokens (`include/Lexer/Token.h`) -/

/-- The enumeration `TokenType`. -/
inductive TokenType where
  | EndOfFile | Unknown
  | Identifier | Lifetime | Integer | Float | String | Char
  | Fn | Let | Mut | Class | Struct | Enum | If | Else | Switch | Case | While | For | Do
  | Return | Import | Package | Use | Pub | As | Break | Continue | Fallthrough | Default
  | Void | Bool | Self | CapitalSelf | True | False | Nullptr | Extern | Unsafe
  | Malloc | Alloca | Free | Sizeof | Alignof | Offsetof | Align | Packed
  | I8 | I16 | I32 | I64 | U8 | U16 | U32 | U64 | F32 | F64
  | Plus | Minus | Star | Slash | Percent | Question | Equal | EqualEqual | NotEqual
  | Greater | GreaterEqual | Less | LessEqual | Not | Ampersand | Pipe | Caret | Tilde | Tick
  | PlusEqual | MinusEqual | StarEqual | SlashEqual | PercentEqual | AmpersandEqual
  | PipeEqual | CaretEqual | ShiftLeftEqual | ShiftRightEqual
  | AndAnd | OrOr | PlusPlus | MinusMinus | ShiftLeft | ShiftRight | ColonColon | FatArrow
  | LParen | RParen | LBrace | RBrace | LBracket | RBracket | Comma | Semicolon | Colon
  | Dot | Ellipsis | Underscore
  deriving DecidableEq, Repr

/-- The struct `Token`; `value` is the source slice as a string. -/
structure Token where
  type : TokenType
  value : String
  line : Nat
  column : Nat
  deriving DecidableEq, Repr

/-! ## Lexer (`src/Lexer/Lexer.cpp`)

The source text is a list of `char`s; every loop of the lexer consumes at
least one character per round, so each loop runs with the length of the source
as its bound. -/

/-- The members of `Lexer`. -/
structure Lexer where
  m_source : List Char
  m_pos : Nat := 0
  m_line : Nat := 1
  m_column : Nat := 1
  start_pos : Nat := 0
  deriving DecidableEq, Repr

/-- The table `LOOKUP`, bit `Digit`. -/
def isDigitChar (c : Char) : Bool := '0' ≤ c && c ≤ '9'

/-- The table `LOOKUP`, bit `Alpha`: letters and `_`. -/
def isAlphaChar (c : Char) : Bool :=
  ('a' ≤ c && c ≤ 'z') || ('A' ≤ c && c ≤ 'Z') || c = '_'

/-- The table `LOOKUP`, bit `Hex`: digits, `a`..`f`, `A`..`F`. -/
def isHexChar (c : Char) : Bool :=
  ('0' ≤ c && c ≤ '9') || ('a' ≤ c && c ≤ 'f') || ('A' ≤ c && c ≤ 'F')

namespace Lexer

/-- `Lexer::Lexer(source)`. -/
def new (source : String) : Lexer := { m_source := source.data }

/-- `Lexer::isAtEnd`. -/
def isAtEnd (l : Lexer) : Bool := l.m_pos ≥ l.m_source.length

/-- `Lexer::peek(offset)` for the offsets `0` and `1` that the lexer uses:
the character at `m_pos + offset`, or `'\0'` past the end. -/
def peek (l : Lexer) (offset : Nat := 0) : Char :=
  if l.m_pos + offset ≥ l.m_source.length then Char.ofNat 0
  else l.m_source.getD (l.m_pos + offset) (Char.ofNat 0)

/-- `Lexer::advance`, the state change. -/
def advance (l : Lexer) : Lexer :=
  if l.isAtEnd then l
  else
    let c := l.m_source.getD l.m_pos (Char.ofNat 0)
    if c = '\n' then { l with m_pos := l.m_pos + 1, m_line := l.m_line + 1, m_column := 1 }
    else { l with m_pos := l.m_pos + 1, m_column := l.m_column + 1 }

/-- `Lexer::advance`, the returned character. -/
def advanceChar (l : Lexer) : Char :=
  if l.isAtEnd then Char.ofNat 0 else l.m_source.getD l.m_pos (Char.ofNat 0)

/-- `Lexer::match(expected)`: the result and the new state. -/
def matchChar (l : Lexer) (expected : Char) : Bool × Lexer :=
  if l.isAtEnd || l.peek ≠ expected then (false, l) else (true, l.advance)

/-- `Lexer::isDigit`. -/
def isDigit (_l : Lexer) (c : Char) : Bool := isDigitChar c
/-- `Lexer::isAlpha`. -/
def isAlpha (_l : Lexer) (c : Char) : Bool := isAlphaChar c
/-- `Lexer::isHexDigit`. -/
def isHexDigit (_l : Lexer) (c : Char) : Bool := isHexChar c
/-- `Lexer::isAlphaNumeric`. -/
def isAlphaNumeric (_l : Lexer) (c : Char) : Bool := isAlphaChar c || isDigitChar c

/-- A loop `while (cond) advance();` with at most `fuel` rounds. -/
def advanceWhile (cond : Lexer → Bool) : Nat → Lexer → Lexer
  | 0, l => l
  | fuel + 1, l => if cond l then advanceWhile cond fuel l.advance else l

/-- The nested-comment loop of `skipWhitespace`:
`while (nesting > 0 && !isAtEnd()) { ... }`. -/
def blockCommentLoop : Nat → Nat → Lexer → Lexer
  | 0, _, l => l
  | fuel + 1, nesting, l =>
    if nesting > 0 && !l.isAtEnd then
      if l.peek = '/' && l.peek 1 = '*' then
        blockCommentLoop fuel (nesting + 1) l.advance.advance
      else if l.peek = '*' && l.peek 1 = '/' then
        blockCommentLoop fuel (nesting - 1) l.advance.advance
      else
        blockCommentLoop fuel nesting l.advance
    else l

/-- The outer loop of `skipWhitespace`: `while (!isAtEnd()) { switch (peek()) ... }`. -/
def skipWhitespaceLoop : Nat → Lexer → Lexer
  | 0, l => l
  | fuel + 1, l =>
    if l.isAtEnd then l
    else
      let c := l.peek
      if c = ' ' || c = '\r' || c = '\t' || c = '\n' then
        skipWhitespaceLoop fuel l.advance
      else if c = '/' then
        if l.peek 1 = '/' then
          skipWhitespaceLoop fuel
            (advanceWhile (fun x => x.peek ≠ '\n' && !x.isAtEnd) l.m_source.length l)
        else if l.peek 1 = '*' then
          skipWhitespaceLoop fuel (blockCommentLoop l.m_source.length 1 l.advance.advance)
        else l
      else l

/-- `Lexer::skipWhitespace`. -/
def skipWhitespace (l : Lexer) : Lexer := skipWhitespaceLoop l.m_source.length l

/-- `std::string_view::substr(pos, len)`. -/
def substr (s : List Char) (pos len : Nat) : String := String.mk ((s.drop pos).take len)

/-- `Lexer::currentText`. -/
def currentText (l : Lexer) : String :=
  if l.start_pos ≥ l.m_source.length then ""
  else substr l.m_source l.start_pos (if l.m_pos > l.start_pos then l.m_pos - l.start_pos else 0)

/-- `Lexer::makeToken`. -/
def makeToken (l : Lexer) (type : TokenType) (line col : Nat) : Token :=
  { type := type, value := l.currentText, line := line, column := col }

/-- The static table `keywords` of `scanIdentifierOrKeyword`. -/
def keywords : List (String × TokenType) :=
  [("fn", .Fn), ("let", .Let), ("mut", .Mut), ("class", .Class), ("struct", .Struct),
   ("enum", .Enum), ("if", .If), ("else", .Else), ("switch", .Switch), ("case", .Case),
   ("while", .While), ("for", .For), ("do", .Do), ("return", .Return), ("import", .Import),
   ("package", .Package), ("use", .Use), ("pub", .Pub), ("as", .As), ("break", .Break),
   ("continue", .Continue), ("fallthrough", .Fallthrough), ("default", .Default),
   ("void", .Void), ("char", .Char), ("bool", .Bool), ("self", .Self), ("Self", .CapitalSelf),
   ("extern", .Extern), ("true", .True), ("false", .False), ("nullptr", .Nullptr),
   ("unsafe", .Unsafe), ("malloc", .Malloc), ("alloca", .Alloca), ("free", .Free),
   ("sizeof", .Sizeof), ("alignof", .Alignof), ("offsetof", .Offsetof), ("align", .Align),
   ("packed", .Packed), ("_", .Underscore),
   ("i8", .I8), ("i16", .I16), ("i32", .I32), ("i64", .I64),
   ("u8", .U8), ("u16", .U16), ("u32", .U32), ("u64", .U64), ("f32", .F32), ("f64", .F64)]

/-- `Lexer::scanIdentifierOrKeyword`. -/
def scanIdentifierOrKeyword (l : Lexer) (line col : Nat) : Token × Lexer :=
  let l1 := advanceWhile (fun x => x.isAlphaNumeric x.peek) l.m_source.length l
  let text := substr l1.m_source l1.start_pos (l1.m_pos - l1.start_pos)
  match keywords.lookup text with
  | some ty => (l1.makeToken ty line col, l1)
  | none => (l1.makeToken .Identifier line col, l1)

/-- The loops `while (isDigit(peek()) || peek() == '_') advance();` of `scanNumber`. -/
def skipDigits (l : Lexer) : Lexer :=
  advanceWhile (fun x => x.isDigit x.peek || x.peek = '_') l.m_source.length l

/-- The set `validSuffixes` of `scanNumber`. -/
def validSuffixes : List String :=
  ["i8", "i16", "i32", "i64", "u8", "u16", "u32", "u64", "f32", "f64"]

/-- Step 3 of `Lexer::scanNumber`, the fraction: returns the new `isFloat` and the state. -/
def scanFraction (l : Lexer) : Bool × Lexer :=
  if l.peek = '.' && l.isDigit (l.peek 1) then (true, skipDigits l.advance)
  else (false, l)

/-- The statement `if (peek() == '+' || peek() == '-') advance();` of `scanNumber`. -/
def skipSign (l : Lexer) : Lexer :=
  if l.peek = '+' || l.peek = '-' then l.advance else l

/-- Step 4 of `Lexer::scanNumber`, the exponent, which moves back to `ePos` when no digit
follows the `e` and its sign. -/
def scanExponent (isFloat : Bool) (l : Lexer) : Bool × Lexer :=
  if l.peek = 'e' || l.peek = 'E' then
    let ePos := l.m_pos
    let eCol := l.m_column
    let l3 := l.advance
    let l4 := skipSign l3
    if !l4.isDigit l4.peek then
      (isFloat, { l4 with m_pos := ePos, m_column := eCol })
    else
      (true, skipDigits l4)
  else (isFloat, l)

/-- Steps 1 to 4 of `Lexer::scanNumber`: prefix, digits, fraction and exponent;
returns `isFloat` and the state. -/
def scanNumberBody (l : Lexer) : Bool × Lexer :=
  if l.m_source.getD (l.m_pos - 1) (Char.ofNat 0) = '0' && (l.peek = 'x' || l.peek = 'X') then
    let l1 := l.advance
    (false, advanceWhile (fun x => x.isHexDigit x.peek || x.peek = '_') l1.m_source.length l1)
  else
    let l1 := skipDigits l
    let r := scanFraction l1
    scanExponent r.1 r.2

/-- The statements `bool hasUnderscore = (peek() == '_'); if (hasUnderscore) advance();`. -/
def skipUnderscore (l : Lexer) : Lexer :=
  if l.peek = '_' then l.advance else l

/-- Step 5 of `Lexer::scanNumber`: the optional suffix. -/
def scanNumberSuffix (l : Lexer) : Lexer :=
  let suffixStart := l.m_pos
  let suffixCol := l.m_column
  if l.isAlpha l.peek then
    let l1 := skipUnderscore l
    let nameStart := l1.m_pos
    let l2 := advanceWhile (fun x => x.isAlphaNumeric x.peek) l1.m_source.length l1
    let suffix := substr l2.m_source nameStart (l2.m_pos - nameStart)
    if validSuffixes.contains suffix then l2
    else { l2 with m_pos := suffixStart, m_column := suffixCol }
  else l

/-- `Lexer::scanNumber`. -/
def scanNumber (l : Lexer) (line col : Nat) : Token × Lexer :=
  let (isFloat, l1) := scanNumberBody l
  let l2 := scanNumberSuffix l1
  (l2.makeToken (if isFloat then .Float else .Integer) line col, l2)

/-- The escape branch of `scanString`: `advance(); if (!isAtEnd()) advance();`. -/
def skipEscape (l : Lexer) : Lexer :=
  let l1 := l.advance
  if !l1.isAtEnd then l1.advance else l1

/-- The loop of `Lexer::scanString`; `true` in the result means the loop left through
`return makeToken(Unknown)` at a newline. -/
def scanStringLoop : Nat → Lexer → Bool × Lexer
  | 0, l => (false, l)
  | fuel + 1, l =>
    if l.peek ≠ '"' && !l.isAtEnd then
      if l.peek = '\n' then (true, l)
      else if l.peek = '\\' then scanStringLoop fuel (skipEscape l)
      else scanStringLoop fuel l.advance
    else (false, l)

/-- `Lexer::scanString`. -/
def scanString (l : Lexer) (line col : Nat) : Token × Lexer :=
  let (stopped, l1) := scanStringLoop l.m_source.length l
  if stopped then (l1.makeToken .Unknown line col, l1)
  else if l1.isAtEnd then (l1.makeToken .Unknown line col, l1)
  else
    let l2 := l1.advance
    (l2.makeToken .String line col, l2)

/-- The tail of `Lexer::scanCharOrLifetime` (cases B and C). -/
def scanLifetimeOrTick (l : Lexer) (line col : Nat) : Token × Lexer :=
  if l.isAlpha l.peek then
    let l1 := advanceWhile (fun x => x.isAlphaNumeric x.peek) l.m_source.length l
    (l1.makeToken .Lifetime line col, l1)
  else (l.makeToken .Tick line col, l)

/-- The statement `if (peek() == '\\') advance();` of `scanCharOrLifetime`. -/
def skipBackslash (l : Lexer) : Lexer :=
  if l.peek = '\\' then l.advance else l

/-- `Lexer::scanCharOrLifetime`. -/
def scanCharOrLifetime (l : Lexer) (line col : Nat) : Token × Lexer :=
  if l.peek = '\\' || (l.peek ≠ '\'' && l.peek 1 = '\'') then
    let l1 := skipBackslash l
    let l2 := l1.advance
    if l2.peek = '\'' then
      let l3 := l2.advance
      (l3.makeToken .Char line col, l3)
    else scanLifetimeOrTick l2 line col
  else scanLifetimeOrTick l line col

/-- The pattern `match(c1) ? A : B` and its chains, used by the operator cases of
`nextToken`: the first alternative whose character matches wins, else `dflt`. -/
def matchFirst (l : Lexer) (line col : Nat) :
    List (Char × TokenType) → TokenType → Token × Lexer
  | [], dflt => (l.makeToken dflt line col, l)
  | (c, ty) :: rest, dflt =>
    let (ok, l1) := l.matchChar c
    if ok then (l1.makeToken ty line col, l1) else matchFirst l line col rest dflt

/-- The cases `'>'` and `'<'` of `nextToken`: `if (match(c)) { if (match('=')) A; B }
if (match('=')) C; D`. -/
def scanAngle (l : Lexer) (line col : Nat) (c : Char)
    (shiftEq shift cmpEq plain : TokenType) : Token × Lexer :=
  let r := l.matchChar c
  if r.1 then matchFirst r.2 line col [('=', shiftEq)] shift
  else matchFirst l line col [('=', cmpEq)] plain

/-- The operator `switch` of `Lexer::nextToken` (step 5), entered after `c` was consumed. -/
def scanOperator (l : Lexer) (c : Char) (line col : Nat) : Token × Lexer :=
  if c = '(' then (l.makeToken .LParen line col, l)
  else if c = ')' then (l.makeToken .RParen line col, l)
  else if c = '{' then (l.makeToken .LBrace line col, l)
  else if c = '}' then (l.makeToken .RBrace line col, l)
  else if c = '[' then (l.makeToken .LBracket line col, l)
  else if c = ']' then (l.makeToken .RBracket line col, l)
  else if c = ',' then (l.makeToken .Comma line col, l)
  else if c = ';' then (l.makeToken .Semicolon line col, l)
  else if c = '?' then (l.makeToken .Question line col, l)
  else if c = '~' then (l.makeToken .Tilde line col, l)
  else if c = '.' then
    if l.peek = '.' && l.peek 1 = '.' then
      let l2 := l.advance.advance
      (l2.makeToken .Ellipsis line col, l2)
    else (l.makeToken .Dot line col, l)
  else if c = ':' then matchFirst l line col [(':', .ColonColon)] .Colon
  else if c = '+' then matchFirst l line col [('=', .PlusEqual), ('+', .PlusPlus)] .Plus
  else if c = '-' then matchFirst l line col [('=', .MinusEqual), ('-', .MinusMinus)] .Minus
  else if c = '*' then matchFirst l line col [('=', .StarEqual)] .Star
  else if c = '/' then matchFirst l line col [('=', .SlashEqual)] .Slash
  else if c = '%' then matchFirst l line col [('=', .PercentEqual)] .Percent
  else if c = '=' then matchFirst l line col [('=', .EqualEqual), ('>', .FatArrow)] .Equal
  else if c = '!' then matchFirst l line col [('=', .NotEqual)] .Not
  else if c = '>' then
    scanAngle l line col '>' .ShiftRightEqual .ShiftRight .GreaterEqual .Greater
  else if c = '<' then
    scanAngle l line col '<' .ShiftLeftEqual .ShiftLeft .LessEqual .Less
  else if c = '&' then matchFirst l line col [('=', .AmpersandEqual), ('&', .AndAnd)] .Ampersand
  else if c = '|' then matchFirst l line col [('=', .PipeEqual), ('|', .OrOr)] .Pipe
  else if c = '^' then matchFirst l line col [('=', .CaretEqual)] .Caret
  else (l.makeToken .Unknown line col, l)

/-- `Lexer::nextToken`. -/
def nextToken (l : Lexer) : Token × Lexer :=
  let l1 := l.skipWhitespace
  let l2 := { l1 with start_pos := l1.m_pos }
  let line := l2.m_line
  let col := l2.m_column
  if l2.isAtEnd then (l2.makeToken .EndOfFile line col, l2)
  else
    let c := l2.advanceChar
    let l3 := l2.advance
    if l3.isAlpha c then scanIdentifierOrKeyword l3 line col
    else if l3.isDigit c then scanNumber l3 line col
    else if c = '"' then scanString l3 line col
    else if c = '\'' then scanCharOrLifetime l3 line col
    else scanOperator l3 c line col

/-- `Lexer::peekToken`: the next token, with the state restored. -/
def peekToken (l : Lexer) : Token × Lexer :=
  let (token, l1) := l.nextToken
  (token, { l1 with m_pos := l.m_pos, start_pos := l.start_pos,
                    m_line := l.m_line, m_column := l.m_column })

/-- The state after `n` calls of `nextToken`. -/
def afterTokens : Nat → Lexer → Lexer
  | 0, l => l
  | n + 1, l => afterTokens n l.nextToken.2

/-- The first `n` tokens that repeated calls of `nextToken` return. -/
def tokens : Nat → Lexer → List Token
  | 0, _ => []
  | n + 1, l => l.nextToken.1 :: tokens n l.nextToken.2

end Lexer

/-- The state `b` has the source of `a` and a position that is not smaller. -/
def Lexer.Follows (a b : Lexer) : Prop :=
  b.m_source = a.m_source ∧ a.m_pos ≤ b.m_pos

/-! ## AST (`include/AST/Expressions.h`, `Patterns.h`, `Statements.h`, `Declarations.h`)

Every node class becomes a constructor or a structure with the members of the class.
The member `m_type` of `Expr` is the first field `type` of every expression. -/

/-- The alternatives of `LiteralExpr::Value`; a `double` is kept as the text that
`std::to_string` renders for it. -/
inductive LiteralValue where
  | int (v : Int)
  | double (text : String)
  | bool (b : Bool)
  | string (s : String)
  | nullptr
  deriving DecidableEq, Repr

/-- The class `LiteralExpr`. -/
structure LiteralExpr where
  type : Option Ty := none
  value : LiteralValue
  explicitType : Option Ty := none

/-- The enumeration `IntrinsicExpr::IntrinsicKind`. -/
inductive IntrinsicKind where
  | Sizeof | Malloc | Alloca | Free | Alignof | Offsetof
  deriving DecidableEq, Repr

/-- `StructLiteralExpr::FieldInit`, over the expression type `E`. -/
structure FieldInitOf (E : Type) where
  name : String
  value : E

/-- The subclasses of `Expr` (`ConstraintExpr`, which only occurs inside a generic
parameter, is `ConstraintItem` below). -/
inductive Expr where
  | literal (lit : LiteralExpr)
  | identifier (type : Option Ty) (name : String)
  | binary (type : Option Ty) (left : Expr) (op : TokenType) (right : Expr)
  | unary (type : Option Ty) (op : TokenType) (operand : Expr)
  | call (type : Option Ty) (callee : Expr) (args : List Expr)
  | memberAccess (type : Option Ty) (base : Expr) (memberName : String) (isStatic : Bool)
  | structLiteral (type : Option Ty) (base : Expr) (fields : List (FieldInitOf Expr))
  | arrayLiteral (type : Option Ty) (elements : List Expr)
  | indexing (type : Option Ty) (base : Expr) (index : Expr)
  | addressOf (type : Option Ty) (operand : Expr)
  | dereference (type : Option Ty) (operand : Expr)
  | question (type : Option Ty) (operand : Expr)
  | specialization (type : Option Ty) (base : Expr) (typeArgs : List Ty) (mangledName : String)
  | intrinsic (type : Option Ty) (kind : IntrinsicKind) (typeArg : Option Ty) (args : List Expr)

/-- `StructLiteralExpr::FieldInit`. -/
abbrev FieldInit := FieldInitOf Expr

/-- The enumeration `ConstraintExpr::Logic`. -/
inductive ConstraintLogic where
  | NONE | AND | OR
  deriving DecidableEq, Repr

/-- `ConstraintExpr::ConstraintItem`. -/
structure ConstraintItem where
  traitName : String
  logic : ConstraintLogic := .NONE
  deriving DecidableEq, Repr

/-- The struct `GenericParam`: a name and an optional `ConstraintExpr` (its items). -/
structure GenericParam where
  name : String
  constraint : Option (List ConstraintItem) := none
  deriving DecidableEq, Repr

/-- The subclasses of `Pattern`. -/
inductive Pattern where
  | literal (lit : LiteralExpr)
  | identifier (name : String)
  | variant (enumName : String) (variantName : String) (subPatterns : List Pattern)
  | wildcard

/-- The class `VarDecl`. -/
structure VarDecl where
  name : String
  type : Option Ty
  initializer : Option Expr := none
  isMutable : Bool := false
  isPublic : Bool := false

/-- The class `Param`. -/
structure Param where
  name : String
  type : Ty

/-- The class `EnumVariant`. -/
structure EnumVariant where
  name : String
  variantKind : VariantKind
  tupleTypes : List Ty := []
  structFields : List VarDecl := []
  isDefault : Bool := false

/-- The class `StructDecl`. -/
structure StructDecl where
  name : String
  members : List VarDecl
  isPublic : Bool := false
  genericParams : List GenericParam := []
  requirements : List String := []

/-- The class `EnumDecl`; `type` is the member `m_type`. -/
structure EnumDecl where
  name : String
  variants : List EnumVariant
  type : Option Ty := none
  isPublic : Bool := false
  genericParams : List GenericParam := []
  requirements : List String := []

/-- The class `CaseStmt`, over the statement type `S`. -/
structure CaseStmtOf (S : Type) where
  pattern : Option Pattern
  body : List S
  isDefault : Bool := false

/-- The class `FunctionDecl`, over the statement type `S`. -/
structure FunctionDeclOf (S : Type) where
  name : String
  returnType : Ty
  params : List Param
  body : Option (List S)
  isExtern : Bool := false
  isPublic : Bool := false
  isVarArg : Bool := false
  genericParams : List GenericParam := []

/-- The class `MethodDecl`, over the statement type `S`. -/
structure MethodDeclOf (S : Type) where
  name : String
  returnType : Ty
  params : List Param
  body : Option (List S)
  isPublic : Bool := false
  genericParams : List GenericParam := []

/-- The class `ConstructorDecl`, over the statement type `S`. -/
structure ConstructorDeclOf (S : Type) where
  name : String
  params : List Param
  body : Option (List S)
  isPublic : Bool := false

/-- A member of a `ClassDecl` as `Parser::parseClassDecl` builds them: a field, a method
(or destructor) or a constructor. -/
inductive ClassMemberOf (S : Type) where
  | field (d : VarDecl)
  | method (d : MethodDeclOf S)
  | ctor (d : ConstructorDeclOf S)

/-- The class `ClassDecl`, over the statement type `S`. -/
structure ClassDeclOf (S : Type) where
  name : String
  members : List (ClassMemberOf S)
  isPublic : Bool := false
  genericParams : List GenericParam := []
  requirements : List String := []

/-- The node of a `RequestDecl::Member` as `Parser::parseRequestDecl` builds them. -/
inductive RequestMemberNodeOf (S : Type) where
  | field (d : VarDecl)
  | method (d : MethodDeclOf S)
  | variant (v : EnumVariant)

/-- `RequestDecl::Member`. -/
structure RequestMemberOf (S : Type) where
  decl : RequestMemberNodeOf S
  isDefault : Bool

/-- The enumeration `RequestDecl::RequestKind`. -/
inductive RequestKind where
  | Class | Enum
  deriving DecidableEq, Repr

/-- The class `RequestDecl`, over the statement type `S`. -/
structure RequestDeclOf (S : Type) where
  name : String
  kind : RequestKind
  members : List (RequestMemberOf S)
  bases : List String := []
  genericParams : List GenericParam := []
  isPublic : Bool := false

/-- The subclasses of `Stmt` that occur as statements (a `Block` is its statement list;
`CaseStmt`, `MethodDecl` and `ConstructorDecl` occur only inside a switch or a class). -/
inductive Stmt where
  | block (statements : List Stmt)
  | ifStmt (condition : Expr) (thenBlock : List Stmt) (elseBlock : Option (List Stmt))
  | whileStmt (condition : Expr) (body : List Stmt)
  | doWhileStmt (body : List Stmt) (condition : Expr)
  | forStmt (init : Option Stmt) (condition : Option Expr) (step : Option Expr)
      (body : List Stmt)
  | switchStmt (condition : Expr) (cases : List (CaseStmtOf Stmt))
  | breakStmt
  | continueStmt
  | returnStmt (expression : Option Expr)
  | exprStmt (expression : Expr)
  | varDecl (d : VarDecl)
  | functionDecl (d : FunctionDeclOf Stmt)
  | structDecl (d : StructDecl)
  | enumDecl (d : EnumDecl)
  | classDecl (d : ClassDeclOf Stmt)
  | requestDecl (d : RequestDeclOf Stmt)

/-- The class `Block`. -/
abbrev Block := List Stmt
/-- The class `CaseStmt`. -/
abbrev CaseStmt := CaseStmtOf Stmt
/-- The class `FunctionDecl`. -/
abbrev FunctionDecl := FunctionDeclOf Stmt
/-- The class `MethodDecl`. -/
abbrev MethodDecl := MethodDeclOf Stmt
/-- The class `ConstructorDecl`. -/
abbrev ConstructorDecl := ConstructorDeclOf Stmt
/-- A member of a class. -/
abbrev ClassMember := ClassMemberOf Stmt
/-- The class `ClassDecl`. -/
abbrev ClassDecl := ClassDeclOf Stmt
/-- `RequestDecl::Member`. -/
abbrev RequestMember := RequestMemberOf Stmt
/-- The class `RequestDecl`. -/
abbrev RequestDecl := RequestDeclOf Stmt

/-- `Expr::getType`. -/
def Expr.getType : Expr → Option Ty
  | .literal lit => lit.type
  | .identifier t _ | .binary t _ _ _ | .unary t _ _ | .call t _ _
  | .memberAccess t _ _ _ | .structLiteral t _ _ | .arrayLiteral t _
  | .indexing t _ _ | .addressOf t _ | .dereference t _ | .question t _
  | .specialization t _ _ _ | .intrinsic t _ _ _ => t

/-- `Expr::setType`. -/
def Expr.setType (t : Option Ty) : Expr → Expr
  | .literal lit => .literal { lit with type := t }
  | .identifier _ n => .identifier t n
  | .binary _ l op r => .binary t l op r
  | .unary _ op e => .unary t op e
  | .call _ c as => .call t c as
  | .memberAccess _ b m s => .memberAccess t b m s
  | .structLiteral _ b fs => .structLiteral t b fs
  | .arrayLiteral _ es => .arrayLiteral t es
  | .indexing _ b i => .indexing t b i
  | .addressOf _ e => .addressOf t e
  | .dereference _ e => .dereference t e
  | .question _ e => .question t e
  | .specialization _ b as m => .specialization t b as m
  | .intrinsic _ k ta as => .intrinsic t k ta as

/-- `FunctionDecl::getType`: the function type built from the parameters. -/
def FunctionDeclOf.getType {S : Type} (d : FunctionDeclOf S) : Ty :=
  .function (d.params.map (·.type)) d.returnType d.isVarArg

/-- The texts of a list joined by `", "`, as the `toString` loops of the AST do. -/
def joinComma : List String → String
  | [] => ""
  | [a] => a
  | a :: b :: rest => a ++ ", " ++ joinComma (b :: rest)

/-- `LiteralExpr::toString`. -/
def LiteralExpr.toString (lit : LiteralExpr) : String :=
  match lit.value with
  | .bool b => if b then "true" else "false"
  | .string s => s
  | .double text => text
  | .nullptr => "nullptr"
  | .int v => ToString.toString v

mutual
/-- `Expr::toString` with its overrides. -/
def Expr.toString : Expr → String
  | .literal lit => lit.toString
  | .identifier _ name => name
  | .binary _ l op r =>
    let opStr := match op with
      | .Plus => "+" | .Minus => "-" | .Star => "*" | .Slash => "/" | _ => "???"
    "(" ++ Expr.toString l ++ " " ++ opStr ++ " " ++ Expr.toString r ++ ")"
  | .unary _ op e =>
    let opStr := match op with
      | .Plus => "+" | .Minus => "-" | .Not => "!" | .Tilde => "~" | _ => "???"
    opStr ++ Expr.toString e
  | .call _ c as => Expr.toString c ++ "(" ++ joinComma (Expr.toStrings as) ++ ")"
  | .memberAccess _ b m isStatic => Expr.toString b ++ (if isStatic then "::" else ".") ++ m
  | .structLiteral _ b fs =>
    Expr.toString b ++ " \x7b " ++ joinComma (Expr.fieldsToStrings fs) ++ " \x7d"
  | .arrayLiteral _ es => "[" ++ joinComma (Expr.toStrings es) ++ "]"
  | .indexing _ b i => Expr.toString b ++ "[" ++ Expr.toString i ++ "]"
  | .addressOf _ e => "&" ++ Expr.toString e
  | .dereference _ e => "*" ++ Expr.toString e
  | .question _ e => Expr.toString e ++ "?"
  | .specialization _ b as _ =>
    Expr.toString b ++ "[" ++ joinComma (as.map Ty.toString) ++ "]"
  | .intrinsic _ k ta as =>
    let res := match k with
      | .Sizeof => "sizeof" | .Malloc => "malloc" | .Alloca => "alloca"
      | .Free => "free" | .Alignof => "alignof" | .Offsetof => "offsetof"
    res ++ (match ta with | some t => "[" ++ t.toString ++ "]" | none => "")
      ++ "(" ++ joinComma (Expr.toStrings as) ++ ")"
/-- The texts of a list of expressions. -/
def Expr.toStrings : List Expr → List String
  | [] => []
  | e :: es => Expr.toString e :: Expr.toStrings es
/-- The texts `name: value` of the fields of a struct literal. -/
def Expr.fieldsToStrings : List FieldInit → List String
  | [] => []
  | ⟨n, v⟩ :: fs => (n ++ ": " ++ Expr.toString v) :: Expr.fieldsToStrings fs
end

/-! ### Cloning (`clone`, `cloneExpr`, `cloneStmt`, `cloneDecl`)

A clone is built by the constructors, which leave `m_type` of an expression, the
mangled name of a specialization and `m_type` of an `EnumDecl` unset. -/

/-- `LiteralExpr::cloneExpr`. -/
def LiteralExpr.clone (lit : LiteralExpr) : LiteralExpr := { lit with type := none }

mutual
/-- `Expr::cloneExpr`. -/
def Expr.clone : Expr → Expr
  | .literal lit => .literal lit.clone
  | .identifier _ n => .identifier none n
  | .binary _ l op r => .binary none (Expr.clone l) op (Expr.clone r)
  | .unary _ op e => .unary none op (Expr.clone e)
  | .call _ c as => .call none (Expr.clone c) (Expr.cloneList as)
  | .memberAccess _ b m s => .memberAccess none (Expr.clone b) m s
  | .structLiteral _ b fs => .structLiteral none (Expr.clone b) (Expr.cloneFields fs)
  | .arrayLiteral _ es => .arrayLiteral none (Expr.cloneList es)
  | .indexing _ b i => .indexing none (Expr.clone b) (Expr.clone i)
  | .addressOf _ e => .addressOf none (Expr.clone e)
  | .dereference _ e => .dereference none (Expr.clone e)
  | .question _ e => .question none (Expr.clone e)
  | .specialization _ b as _ => .specialization none (Expr.clone b) as ""
  | .intrinsic _ k ta as => .intrinsic none k ta (Expr.cloneList as)
/-- Clones of a list of expressions. -/
def Expr.cloneList : List Expr → List Expr
  | [] => []
  | e :: es => Expr.clone e :: Expr.cloneList es
/-- Clones of the field initialisers of a struct literal. -/
def Expr.cloneFields : List FieldInit → List FieldInit
  | [] => []
  | ⟨n, v⟩ :: fs => ⟨n, Expr.clone v⟩ :: Expr.cloneFields fs
end

/-- `Pattern::clonePattern`. -/
def Pattern.clone : Pattern → Pattern
  | .literal lit => .literal lit.clone
  | .identifier n => .identifier n
  | .variant e v subs => .variant e v (cloneList subs)
  | .wildcard => .wildcard
where
  /-- Clones of a list of patterns. -/
  cloneList : List Pattern → List Pattern
    | [] => []
    | p :: ps => Pattern.clone p :: cloneList ps

/-- `VarDecl::cloneDecl`. -/
def VarDecl.clone (d : VarDecl) : VarDecl :=
  { d with initializer := d.initializer.map Expr.clone }

/-- `EnumVariant::clone`. -/
def EnumVariant.clone (v : EnumVariant) : EnumVariant :=
  { v with structFields := v.structFields.map VarDecl.clone }

/-- `StructDecl::cloneDecl`. -/
def StructDecl.clone (d : StructDecl) : StructDecl :=
  { d with members := d.members.map VarDecl.clone }

/-- `EnumDecl::cloneDecl`: the constructor leaves `m_type` null. -/
def EnumDecl.clone (d : EnumDecl) : EnumDecl :=
  { d with variants := d.variants.map EnumVariant.clone, type := none }

mutual
/-- `Stmt::cloneStmt` with its overrides. -/
def Stmt.clone : Stmt → Stmt
  | .block ss => .block (Stmt.cloneList ss)
  | .ifStmt c t e => .ifStmt c.clone (Stmt.cloneList t) (Stmt.cloneOptList e)
  | .whileStmt c b => .whileStmt c.clone (Stmt.cloneList b)
  | .doWhileStmt b c => .doWhileStmt (Stmt.cloneList b) c.clone
  | .forStmt i c s b =>
    .forStmt (Stmt.cloneOpt i) (c.map Expr.clone) (s.map Expr.clone) (Stmt.cloneList b)
  | .switchStmt c cs => .switchStmt c.clone (Stmt.cloneCases cs)
  | .breakStmt => .breakStmt
  | .continueStmt => .continueStmt
  | .returnStmt e => .returnStmt (e.map Expr.clone)
  | .exprStmt e => .exprStmt e.clone
  | .varDecl d => .varDecl d.clone
  | .functionDecl d => .functionDecl (Stmt.cloneFunction d)
  | .structDecl d => .structDecl d.clone
  | .enumDecl d => .enumDecl d.clone
  | .classDecl d => .classDecl (Stmt.cloneClass d)
  | .requestDecl d => .requestDecl (Stmt.cloneRequest d)
/-- Clones of a statement list (`Block::cloneStmt`). -/
def Stmt.cloneList : List Stmt → List Stmt
  | [] => []
  | s :: ss => Stmt.clone s :: Stmt.cloneList ss
/-- Clone of an optional block. -/
def Stmt.cloneOptList : Option (List Stmt) → Option (List Stmt)
  | none => none
  | some ss => some (Stmt.cloneList ss)
/-- Clone of an optional statement. -/
def Stmt.cloneOpt : Option Stmt → Option Stmt
  | none => none
  | some s => some (Stmt.clone s)
/-- `CaseStmt::cloneStmt` over the cases of a switch. -/
def Stmt.cloneCases : List CaseStmt → List CaseStmt
  | [] => []
  | ⟨p, b, d⟩ :: cs => ⟨p.map Pattern.clone, Stmt.cloneList b, d⟩ :: Stmt.cloneCases cs
/-- `FunctionDecl::cloneDecl`. -/
def Stmt.cloneFunction : FunctionDecl → FunctionDecl
  | ⟨n, r, ps, b, ex, pub, va, gps⟩ => ⟨n, r, ps, Stmt.cloneOptList b, ex, pub, va, gps⟩
/-- `MethodDecl::cloneStmt`. -/
def Stmt.cloneMethod : MethodDecl → MethodDecl
  | ⟨n, r, ps, b, pub, gps⟩ => ⟨n, r, ps, Stmt.cloneOptList b, pub, gps⟩
/-- `ConstructorDecl::cloneStmt`. -/
def Stmt.cloneCtor : ConstructorDecl → ConstructorDecl
  | ⟨n, ps, b, pub⟩ => ⟨n, ps, Stmt.cloneOptList b, pub⟩
/-- Clone of one class member. -/
def Stmt.cloneMember : ClassMember → ClassMember
  | .field d => .field d.clone
  | .method d => .method (Stmt.cloneMethod d)
  | .ctor d => .ctor (Stmt.cloneCtor d)
/-- Clones of the members of a class. -/
def Stmt.cloneMembers : List ClassMember → List ClassMember
  | [] => []
  | m :: ms => Stmt.cloneMember m :: Stmt.cloneMembers ms
/-- `ClassDecl::cloneDecl`. -/
def Stmt.cloneClass : ClassDecl → ClassDecl
  | ⟨n, ms, pub, gps, reqs⟩ => ⟨n, Stmt.cloneMembers ms, pub, gps, reqs⟩
/-- Clones of the members of a request. -/
def Stmt.cloneRequestMembers : List RequestMember → List RequestMember
  | [] => []
  | ⟨.field d, dflt⟩ :: ms => ⟨.field d.clone, dflt⟩ :: Stmt.cloneRequestMembers ms
  | ⟨.method d, dflt⟩ :: ms => ⟨.method (Stmt.cloneMethod d), dflt⟩ :: Stmt.cloneRequestMembers ms
  | ⟨.variant v, dflt⟩ :: ms => ⟨.variant v.clone, dflt⟩ :: Stmt.cloneRequestMembers ms
/-- `RequestDecl::cloneDecl`. -/
def Stmt.cloneRequest : RequestDecl → RequestDecl
  | ⟨n, k, ms, bases, gps, pub⟩ => ⟨n, k, Stmt.cloneRequestMembers ms, bases, gps, pub⟩
end

/-! ## Type substitution and structural equality (`include/AST/Types.h`) -/

/-- `std::map<std::string, std::shared_ptr<Type>>`: the first pair with a key is its entry. -/
abbrev TypeMapping := List (String × Ty)

mutual
/-- `Type::substitute` with its overrides. -/
def Ty.substitute (mapping : TypeMapping) : Ty → Ty
  | .primitive k => .primitive k
  | .pointer b => .pointer (Ty.substitute mapping b)
  | .array b n => .array (Ty.substitute mapping b) n
  | .function ps r v => .function (Ty.substituteList mapping ps) (Ty.substitute mapping r) v
  | .struct n fs ms c a =>
    match mapping.lookup n with
    | some t => t
    | none => .struct n fs ms c a
  | .enum n vs => .enum n vs
  | .typeParameter n c =>
    match mapping.lookup n with
    | some t => t
    | none => .typeParameter n c
/-- `substitute` over the parameter list of a function type. -/
def Ty.substituteList (mapping : TypeMapping) : List Ty → List Ty
  | [] => []
  | t :: ts => Ty.substitute mapping t :: Ty.substituteList mapping ts
end

mutual
/-- `Type::equals` with its overrides: the receiver decides which override runs. -/
def Ty.equals : Ty → Ty → Bool
  | .pointer b, other =>
    match other with
    | .pointer ob => Ty.equals b ob
    | _ => false
  | .array b n, other =>
    match other with
    | .array ob m => n == m && Ty.equals b ob
    | _ => false
  | .function ps r v, other =>
    match other with
    | .function ops oret ov =>
      if v != ov || ps.length != ops.length then false
      else if !Ty.equals r oret then false
      else Ty.equalsList ps ops
    | _ => false
  | .primitive k, other =>
    (Ty.primitive k).getKind == other.getKind && k.toString == other.toString
  | .struct n _ _ _ _, other => TypeKind.Struct == other.getKind && n == other.toString
  | .enum n _, other => TypeKind.Enum == other.getKind && n == other.toString
  | .typeParameter n _, other => TypeKind.TypeParameter == other.getKind && n == other.toString
/-- The parameter loop of `FunctionType::equals` (the lengths are equal when it runs). -/
def Ty.equalsList : List Ty → List Ty → Bool
  | p :: ps, o :: os => if !Ty.equals p o then false else Ty.equalsList ps os
  | _, _ => true
end

/-- `StructType::findMethod`. -/
def Ty.findMethod (t : Ty) (methodName : String) : Option Ty :=
  match t with
  | .struct _ _ ms _ _ => (ms.find? fun m => m.name == methodName).map Field.type
  | _ => none

/-- `EnumType::findVariant`. -/
def Ty.findVariant (t : Ty) (variantName : String) : Option Variant :=
  t.getVariants.find? fun v => v.name == variantName

/-- `EnumType::findVariantIndex` / `StructType::findFieldIndex`: the index or `-1`. -/
def findIndexByName (names : List String) (n : String) : Int :=
  match names.indexOf? n with
  | some i => (i : Nat)
  | none => -1

/-- `EnumType::findVariantIndex`. -/
def Ty.findVariantIndex (t : Ty) (variantName : String) : Int :=
  findIndexByName (t.getVariants.map Variant.name) variantName

/-! ## AST substituter (`include/Sema/Substituter.h`) -/

/-- `replaceTypes` on a `LiteralExpr`: only `m_type` is rewritten. -/
def LiteralExpr.replaceTypes (m : TypeMapping) (lit : LiteralExpr) : LiteralExpr :=
  { lit with type := lit.type.map (Ty.substitute m) }

mutual
/-- `ASTSubstituter::replaceTypes` on an expression. -/
def Expr.replaceTypes (m : TypeMapping) : Expr → Expr
  | .literal lit => .literal (lit.replaceTypes m)
  | .identifier t n => .identifier (t.map (Ty.substitute m)) n
  | .binary t l op r =>
    .binary (t.map (Ty.substitute m)) (Expr.replaceTypes m l) op (Expr.replaceTypes m r)
  | .unary t op e => .unary (t.map (Ty.substitute m)) op (Expr.replaceTypes m e)
  | .call t c as =>
    .call (t.map (Ty.substitute m)) (Expr.replaceTypes m c) (Expr.replaceTypesList m as)
  | .memberAccess t b mem s => .memberAccess (t.map (Ty.substitute m)) (Expr.replaceTypes m b) mem s
  | .structLiteral t b fs =>
    .structLiteral (t.map (Ty.substitute m)) (Expr.replaceTypes m b) (Expr.replaceTypesFields m fs)
  | .arrayLiteral t es => .arrayLiteral (t.map (Ty.substitute m)) (Expr.replaceTypesList m es)
  | .indexing t b i =>
    .indexing (t.map (Ty.substitute m)) (Expr.replaceTypes m b) (Expr.replaceTypes m i)
  | .addressOf t e => .addressOf (t.map (Ty.substitute m)) (Expr.replaceTypes m e)
  | .dereference t e => .dereference (t.map (Ty.substitute m)) (Expr.replaceTypes m e)
  | .question t e => .question (t.map (Ty.substitute m)) (Expr.replaceTypes m e)
  | .specialization t b as mn =>
    .specialization (t.map (Ty.substitute m)) (Expr.replaceTypes m b)
      (as.map (Ty.substitute m)) mn
  | .intrinsic t k ta as =>
    .intrinsic (t.map (Ty.substitute m)) k (ta.map (Ty.substitute m))
      (Expr.replaceTypesList m as)
/-- `replaceTypes` over a list of expressions. -/
def Expr.replaceTypesList (m : TypeMapping) : List Expr → List Expr
  | [] => []
  | e :: es => Expr.replaceTypes m e :: Expr.replaceTypesList m es
/-- `replaceTypes` over the field initialisers of a struct literal. -/
def Expr.replaceTypesFields (m : TypeMapping) : List FieldInit → List FieldInit
  | [] => []
  | ⟨n, v⟩ :: fs => ⟨n, Expr.replaceTypes m v⟩ :: Expr.replaceTypesFields m fs
end

/-- `replaceTypes` on a pattern. -/
def Pattern.replaceTypes (m : TypeMapping) : Pattern → Pattern
  | .literal lit => .literal (lit.replaceTypes m)
  | .identifier n => .identifier n
  | .variant e v subs => .variant e v (replaceList subs)
  | .wildcard => .wildcard
where
  /-- `replaceTypes` over the sub-patterns. -/
  replaceList : List Pattern → List Pattern
    | [] => []
    | p :: ps => Pattern.replaceTypes m p :: replaceList ps

/-- `replaceTypes`, case `VarDecl`. -/
def VarDecl.replaceTypes (m : TypeMapping) (d : VarDecl) : VarDecl :=
  { d with type := d.type.map (Ty.substitute m),
           initializer := d.initializer.map (Expr.replaceTypes m) }

/-- `replaceTypes`, case `Param`. -/
def Param.replaceTypes (m : TypeMapping) (p : Param) : Param :=
  { p with type := p.type.substitute m }

/-- `replaceTypes`, case `EnumVariant`. -/
def EnumVariant.replaceTypes (m : TypeMapping) (v : EnumVariant) : EnumVariant :=
  { v with tupleTypes := v.tupleTypes.map (Ty.substitute m),
           structFields := v.structFields.map (VarDecl.replaceTypes m) }

/-- `replaceTypes`, case `StructDecl`. -/
def StructDecl.replaceTypes (m : TypeMapping) (d : StructDecl) : StructDecl :=
  { d with members := d.members.map (VarDecl.replaceTypes m) }

/-- `replaceTypes`, case `EnumDecl`. -/
def EnumDecl.replaceTypes (m : TypeMapping) (d : EnumDecl) : EnumDecl :=
  { d with type := d.type.map (Ty.substitute m),
           variants := d.variants.map (EnumVariant.replaceTypes m) }

mutual
/-- `ASTSubstituter::replaceTypes` on a statement; a `RequestDecl` falls to `default`
and is left as it is. -/
def Stmt.replaceTypes (m : TypeMapping) : Stmt → Stmt
  | .block ss => .block (Stmt.replaceTypesList m ss)
  | .ifStmt c t e =>
    .ifStmt (c.replaceTypes m) (Stmt.replaceTypesList m t) (Stmt.replaceTypesOptList m e)
  | .whileStmt c b => .whileStmt (c.replaceTypes m) (Stmt.replaceTypesList m b)
  | .doWhileStmt b c => .doWhileStmt (Stmt.replaceTypesList m b) (c.replaceTypes m)
  | .forStmt i c s b =>
    .forStmt (Stmt.replaceTypesOpt m i) (c.map (Expr.replaceTypes m))
      (s.map (Expr.replaceTypes m)) (Stmt.replaceTypesList m b)
  | .switchStmt c cs => .switchStmt (c.replaceTypes m) (Stmt.replaceTypesCases m cs)
  | .breakStmt => .breakStmt
  | .continueStmt => .continueStmt
  | .returnStmt e => .returnStmt (e.map (Expr.replaceTypes m))
  | .exprStmt e => .exprStmt (e.replaceTypes m)
  | .varDecl d => .varDecl (d.replaceTypes m)
  | .functionDecl d => .functionDecl (Stmt.replaceTypesFunction m d)
  | .structDecl d => .structDecl (d.replaceTypes m)
  | .enumDecl d => .enumDecl (d.replaceTypes m)
  | .classDecl d => .classDecl (Stmt.replaceTypesClass m d)
  | .requestDecl d => .requestDecl d
/-- `replaceTypes`, case `Block`. -/
def Stmt.replaceTypesList (m : TypeMapping) : List Stmt → List Stmt
  | [] => []
  | s :: ss => Stmt.replaceTypes m s :: Stmt.replaceTypesList m ss
/-- `replaceTypes` on an optional block. -/
def Stmt.replaceTypesOptList (m : TypeMapping) : Option (List Stmt) → Option (List Stmt)
  | none => none
  | some ss => some (Stmt.replaceTypesList m ss)
/-- `replaceTypes` on an optional statement. -/
def Stmt.replaceTypesOpt (m : TypeMapping) : Option Stmt → Option Stmt
  | none => none
  | some s => some (Stmt.replaceTypes m s)
/-- `replaceTypes`, case `CaseStmt`, over the cases of a switch. -/
def Stmt.replaceTypesCases (m : TypeMapping) : List CaseStmt → List CaseStmt
  | [] => []
  | ⟨p, b, d⟩ :: cs =>
    ⟨p.map (Pattern.replaceTypes m), Stmt.replaceTypesList m b, d⟩ :: Stmt.replaceTypesCases m cs
/-- `replaceTypes`, case `FunctionDecl`. -/
def Stmt.replaceTypesFunction (m : TypeMapping) : FunctionDecl → FunctionDecl
  | ⟨n, r, ps, b, ex, pub, va, gps⟩ =>
    ⟨n, r.substitute m, ps.map (Param.replaceTypes m), Stmt.replaceTypesOptList m b,
      ex, pub, va, gps⟩
/-- `replaceTypes`, case `MethodDecl`. -/
def Stmt.replaceTypesMethod (m : TypeMapping) : MethodDecl → MethodDecl
  | ⟨n, r, ps, b, pub, gps⟩ =>
    ⟨n, r.substitute m, ps.map (Param.replaceTypes m), Stmt.replaceTypesOptList m b, pub, gps⟩
/-- `replaceTypes`, case `ConstructorDecl`. -/
def Stmt.replaceTypesCtor (m : TypeMapping) : ConstructorDecl → ConstructorDecl
  | ⟨n, ps, b, pub⟩ => ⟨n, ps.map (Param.replaceTypes m), Stmt.replaceTypesOptList m b, pub⟩
/-- `replaceTypes` over the members of a class. -/
def Stmt.replaceTypesMembers (m : TypeMapping) : List ClassMember → List ClassMember
  | [] => []
  | .field d :: ms => .field (d.replaceTypes m) :: Stmt.replaceTypesMembers m ms
  | .method d :: ms => .method (Stmt.replaceTypesMethod m d) :: Stmt.replaceTypesMembers m ms
  | .ctor d :: ms => .ctor (Stmt.replaceTypesCtor m d) :: Stmt.replaceTypesMembers m ms
/-- `replaceTypes`, case `ClassDecl`. -/
def Stmt.replaceTypesClass (m : TypeMapping) : ClassDecl → ClassDecl
  | ⟨n, ms, pub, gps, reqs⟩ => ⟨n, Stmt.replaceTypesMembers m ms, pub, gps, reqs⟩
end

/-- `ASTSubstituter::substituteStmt` / `substituteDecl` / `substitute`: clone, then
`replaceTypes`. -/
def ASTSubstituter.substituteStmt (m : TypeMapping) (s : Stmt) : Stmt :=
  Stmt.replaceTypes m s.clone

/-- `ASTSubstituter::substituteExpr`. -/
def ASTSubstituter.substituteExpr (m : TypeMapping) (e : Expr) : Expr :=
  Expr.replaceTypes m e.clone

/-- `substituteDecl` on a `FunctionDecl`. -/
def ASTSubstituter.substituteFunction (m : TypeMapping) (d : FunctionDecl) : FunctionDecl :=
  Stmt.replaceTypesFunction m (Stmt.cloneFunction d)

/-- `substituteStmt` on a `MethodDecl`. -/
def ASTSubstituter.substituteMethod (m : TypeMapping) (d : MethodDecl) : MethodDecl :=
  Stmt.replaceTypesMethod m (Stmt.cloneMethod d)

/-- `substituteDecl` on a `StructDecl`. -/
def ASTSubstituter.substituteStruct (m : TypeMapping) (d : StructDecl) : StructDecl :=
  (d.clone).replaceTypes m

/-- `substituteDecl` on an `EnumDecl`. -/
def ASTSubstituter.substituteEnum (m : TypeMapping) (d : EnumDecl) : EnumDecl :=
  (d.clone).replaceTypes m

/-- `substituteDecl` on a `ClassDecl`. -/
def ASTSubstituter.substituteClass (m : TypeMapping) (d : ClassDecl) : ClassDecl :=
  Stmt.replaceTypesClass m (Stmt.cloneClass d)

/-! ## Symbol table (`include/Sema/SymbolTable.h`, `src/Sema/SymbolTable.cpp`)

The vector `scopes` is kept as a list whose head is `scopes.back()` (the current,
innermost scope) and whose last element is `scopes.front()` (the module scope).
An `unordered_map` is an association list with one pair per key. -/

/-- `map[k] = v`: assign to the entry of `k`, or add one. -/
def mapSet {α : Type} (k : String) (v : α) : List (String × α) → List (String × α)
  | [] => [(k, v)]
  | (k1, v1) :: rest => if k1 = k then (k, v) :: rest else (k1, v1) :: mapSet k v rest

/-- `map.count(k) != 0`. -/
def mapHas {α : Type} (k : String) (m : List (String × α)) : Bool := (m.lookup k).isSome

/-- The struct `Symbol`; `decl` is the declaration that `ASTNode* decl` points to. -/
structure Symbol where
  name : String
  type : Option Ty
  isMutable : Bool
  isMoved : Bool := false
  isPublic : Bool := false
  decl : Option Stmt := none

/-- The struct `SymbolTable::Scope`. -/
structure Scope where
  symbols : List (String × Symbol) := []
  types : List (String × Option Ty) := []
  typeDecls : List (String × Option Stmt) := []
  typeVisibility : List (String × Bool) := []

/-- The class `SymbolTable`. -/
structure SymbolTable where
  scopes : List Scope

/-- Apply `f` to `scopes.front()`, the last element of the list. -/
def modifyGlobal (f : Scope → Scope) : List Scope → List Scope
  | [] => []
  | [g] => [f g]
  | s :: t :: rest => s :: modifyGlobal f (t :: rest)

/-- The loop of `markMoved` / `markAccessed`: set `isMoved` of the innermost symbol
called `name`. -/
def setMovedIn (flag : Bool) (name : String) : List Scope → List Scope
  | [] => []
  | sc :: rest =>
    match sc.symbols.lookup name with
    | some sym => { sc with symbols := mapSet name { sym with isMoved := flag } sc.symbols } :: rest
    | none => sc :: setMovedIn flag name rest

namespace SymbolTable

/-- `SymbolTable::SymbolTable`: one scope, the module scope. -/
def new : SymbolTable := ⟨[{}]⟩

/-- `SymbolTable::pushScope`. -/
def pushScope (t : SymbolTable) : SymbolTable := ⟨{} :: t.scopes⟩

/-- `SymbolTable::popScope`. -/
def popScope (t : SymbolTable) : SymbolTable :=
  if t.scopes.length > 1 then ⟨t.scopes.tail⟩ else t

/-- `SymbolTable::lookupCurrentScope`. -/
def lookupCurrentScope (t : SymbolTable) (name : String) : Option Symbol :=
  match t.scopes with
  | [] => none
  | sc :: _ => sc.symbols.lookup name

/-- `SymbolTable::insert`. -/
def insert (t : SymbolTable) (name : String) (type : Option Ty) (isMutable : Bool)
    (isPublic : Bool := false) (decl : Option Stmt := none) : Bool × SymbolTable :=
  if (t.lookupCurrentScope name).isSome then (false, t)
  else
    match t.scopes with
    | [] => (true, t)
    | sc :: rest =>
      let sym : Symbol := ⟨name, type, isMutable, false, isPublic, decl⟩
      (true, ⟨{ sc with symbols := mapSet name sym sc.symbols } :: rest⟩)

/-- `SymbolTable::insertGlobal`. -/
def insertGlobal (t : SymbolTable) (name : String) (type : Option Ty) (isMutable : Bool)
    (isPublic : Bool := false) (decl : Option Stmt := none) : Bool × SymbolTable :=
  match t.scopes.getLast? with
  | none => (true, t)
  | some g =>
    if mapHas name g.symbols then (false, t)
    else
      let sym : Symbol := ⟨name, type, isMutable, false, isPublic, decl⟩
      (true, ⟨modifyGlobal (fun sc => { sc with symbols := mapSet name sym sc.symbols })
        t.scopes⟩)

/-- `SymbolTable::lookup`. -/
def lookup (t : SymbolTable) (name : String) : Option Symbol :=
  t.scopes.findSome? fun sc => sc.symbols.lookup name

/-- `SymbolTable::lookupIgnoreMoved`. -/
def lookupIgnoreMoved (t : SymbolTable) (name : String) : Option Symbol := t.lookup name

/-- `SymbolTable::markMoved`. -/
def markMoved (t : SymbolTable) (name : String) : SymbolTable :=
  ⟨setMovedIn true name t.scopes⟩

/-- `SymbolTable::isMoved`. -/
def isMoved (t : SymbolTable) (name : String) : Bool :=
  match t.lookup name with
  | some sym => sym.isMoved
  | none => false

/-- `SymbolTable::markAccessed`. -/
def markAccessed (t : SymbolTable) (name : String) : SymbolTable :=
  ⟨setMovedIn false name t.scopes⟩

/-- The three assignments of `insertType` / `insertTypeGlobal` on one scope. -/
def addType (name : String) (type : Option Ty) (isPublic : Bool) (decl : Option Stmt)
    (sc : Scope) : Scope :=
  { sc with types := mapSet name type sc.types,
            typeDecls := mapSet name decl sc.typeDecls,
            typeVisibility := mapSet name isPublic sc.typeVisibility }

/-- `SymbolTable::insertType`. -/
def insertType (t : SymbolTable) (name : String) (type : Option Ty)
    (isPublic : Bool := false) (decl : Option Stmt := none) : Bool × SymbolTable :=
  match t.scopes with
  | [] => (true, t)
  | sc :: rest =>
    if mapHas name sc.types then (false, t)
    else (true, ⟨addType name type isPublic decl sc :: rest⟩)

/-- `SymbolTable::insertTypeGlobal`. -/
def insertTypeGlobal (t : SymbolTable) (name : String) (type : Option Ty)
    (isPublic : Bool := false) (decl : Option Stmt := none) : Bool × SymbolTable :=
  match t.scopes.getLast? with
  | none => (true, t)
  | some g =>
    if mapHas name g.types then (false, t)
    else (true, ⟨modifyGlobal (addType name type isPublic decl) t.scopes⟩)

/-- `SymbolTable::lookupType`: the stored pointer of the innermost scope that has the
name (it may be null), or null. -/
def lookupType (t : SymbolTable) (name : String) : Option Ty :=
  match t.scopes.findSome? fun sc => sc.types.lookup name with
  | some ty => ty
  | none => none

/-- `SymbolTable::lookupTypeDecl`. -/
def lookupTypeDecl (t : SymbolTable) (name : String) : Option Stmt :=
  match t.scopes.findSome? fun sc => sc.typeDecls.lookup name with
  | some d => d
  | none => none

/-- `SymbolTable::getPublicSymbols`. -/
def getPublicSymbols (t : SymbolTable) : List (String × Symbol) :=
  match t.scopes.getLast? with
  | none => []
  | some g => g.symbols.filter fun p => p.2.isPublic

/-- `SymbolTable::getPublicTypes`. -/
def getPublicTypes (t : SymbolTable) : List (String × Option Ty) :=
  match t.scopes.getLast? with
  | none => []
  | some g => g.types.filter fun p => (g.typeVisibility.lookup p.1).getD false

/-- The model's write-back for a class declaration that is changed after it was
registered: `typeDecls[name]` of the module scope points to the changed node. -/
def updateTypeDeclGlobal (t : SymbolTable) (name : String) (decl : Stmt) : SymbolTable :=
  ⟨modifyGlobal (fun sc => { sc with typeDecls := mapSet name (some decl) sc.typeDecls })
    t.scopes⟩

end SymbolTable

/-! ## Semantic analyzer (`include/Sema/Sema.h`, `src/Sema/Sema.cpp`)

The analyzer state is a record that is threaded through every function; a C++
exception is `Except.error`, after which the state is not observed.  Nodes of
the AST that the analyzer changes in place are returned in their changed form.
A pointer into `analyzedNodes` is the index of the node in that list.  A
`StructType` object has an address (see `Ty`): `nextAddress` is the next free one,
and `methodsAt` holds, by address, the methods that `setMethods` stored in an object;
both are memory that every analyzer shares.  Calls
that can recur go through a record of three functions, which `Sema.hooks` further
down instantiates with the analyzer itself. -/

/-- The members of the class `Sema`. -/
structure Sema where
  symbolTable : SymbolTable := SymbolTable.new
  registeredEnums : List Ty := []
  loadedModules : List String := []
  modules : List (String × SymbolTable) := []
  analyzedNodes : List Stmt := []
  m_monomorphizedFunctions : List (String × Nat) := []
  m_monomorphizedStructs : List (String × Nat) := []
  m_monomorphizedClasses : List (String × Nat) := []
  m_monomorphizedEnums : List (String × Nat) := []
  currentFunction : Option FunctionDecl := none
  currentMethod : Option MethodDecl := none
  currentClass : Option Ty := none
  loopDepth : Nat := 0
  switchDepth : Nat := 0
  nextAddress : Nat := 1
  methodsAt : List (Nat × List Field) := []

/-- A member function of `Sema`: it reads and changes the analyzer, and returns or
throws. -/
abbrev SemaM := StateT Sema (Except String)

/-- The recursive entry points of the analyzer: `Sema::resolveType`, `Sema::checkExpr`
and `Sema::analyze`. -/
structure SemaHooks where
  resolveType : Ty → SemaM Ty
  checkExpr : Expr → SemaM (Ty × Expr)
  analyze : Stmt → SemaM Stmt

/-- A loop over a vector whose body changes the element. -/
def mapMSema {α β : Type} (f : α → SemaM β) : List α → SemaM (List β)
  | [] => pure []
  | a :: as => do
    let b ← f a
    let bs ← mapMSema f as
    pure (b :: bs)

/-- The statement `if (c) throw std::runtime_error(msg);`. -/
def failIf (c : Bool) (msg : String) : SemaM Unit :=
  if c then throw msg else pure ()

/-- A value that is computed without the analyzer state, or an exception. -/
def liftExcept {α : Type} (r : Except String α) : SemaM α :=
  match r with
  | .ok a => pure a
  | .error e => throw e

/-- A pointer that the source dereferences: null is an error here. -/
def nonNull {α : Type} (o : Option α) : SemaM α :=
  match o with
  | some a => pure a
  | none => throw "null pointer"

/-- An assignment to the member `symbolTable`. -/
def setTable (t : SymbolTable) : SemaM Unit :=
  modify fun s => { s with symbolTable := t }

/-- The call `symbolTable.pushScope()`. -/
def pushScope : SemaM Unit :=
  modify fun s => { s with symbolTable := s.symbolTable.pushScope }

/-- The call `symbolTable.popScope()`. -/
def popScope : SemaM Unit :=
  modify fun s => { s with symbolTable := s.symbolTable.popScope }

/-- The names for which `Sema::resolveType` returns its argument at once. -/
def resolveFastPath : List String :=
  ["i8", "i16", "i32", "i64", "u8", "u16", "u32", "u64", "f32", "f64", "bool", "void",
   "i8*", "i16*", "i32*", "i64*", "u8*", "u16*", "u32*", "u64*", "f32*", "f64*", "bool*",
   "char", "char*"]

/-- The pieces that `while (std::getline(ss, arg, ','))` reads from `argsStr`. -/
def splitArgs (argsStr : String) : List String :=
  let pieces := (argsStr.data.splitOn ',').map String.mk
  if pieces.getLast? = some "" then pieces.dropLast else pieces

/-- The two `erase` calls of `resolveType` that strip the blanks around an argument. -/
def trimBlanks (arg : String) : String :=
  String.mk ((arg.data.dropWhile (· = ' ')).reverse.dropWhile (· = ' ')).reverse

/-- The chain `if (arg == "i8") ... else if (arg == "i8*")` of `resolveType`: the
primitive types and `i8*` by name. -/
def primitiveArg (arg : String) : Option Ty :=
  if arg = "i8" then some (.primitive .I8)
  else if arg = "i16" then some (.primitive .I16)
  else if arg = "i32" then some (.primitive .I32)
  else if arg = "i64" then some (.primitive .I64)
  else if arg = "u8" then some (.primitive .U8)
  else if arg = "u16" then some (.primitive .U16)
  else if arg = "u32" then some (.primitive .U32)
  else if arg = "u64" then some (.primitive .U64)
  else if arg = "f32" then some (.primitive .F32)
  else if arg = "f64" then some (.primitive .F64)
  else if arg = "bool" then some (.primitive .Bool)
  else if arg = "void" then some (.primitive .Void)
  else if arg = "i8*" then some (.pointer (.primitive .I8))
  else none

/-- The test of `resolveType` for "already monomorphized": a registered struct with
fields (or a class), or a registered enum with variants. -/
def isResolvedGeneric (existing : Option Ty) : Bool :=
  match existing with
  | some (.struct _ fs _ c _) => !fs.isEmpty || c
  | some (.enum _ vs) => !vs.isEmpty
  | _ => false

/-- The loop of the `monomorphize*` functions that fills `mapping`. -/
def buildMapping : List GenericParam → List Ty → TypeMapping → TypeMapping
  | gp :: gps, t :: ts, m => buildMapping gps ts (mapSet gp.name t m)
  | _, _, m => m

/-- A loop over a vector whose body only checks. -/
def forEachCheck {α : Type} (f : α → Except String Unit) : List α → Except String Unit
  | [] => .ok ()
  | a :: as =>
    match f a with
    | .error e => .error e
    | .ok _ => forEachCheck f as

/-- `Sema::checkConstraint`, on the symbol table that it reads. -/
def checkConstraint (t : SymbolTable) (requestName : String) (type : Ty) : Except String Unit :=
  match t.lookupTypeDecl requestName with
  | some (.requestDecl request) =>
    let reqMapping0 : TypeMapping := mapSet "Self" type []
    let reqMapping := match request.genericParams with
      | gp :: _ => mapSet gp.name type reqMapping0
      | [] => reqMapping0
    forEachCheck (fun (member : RequestMember) =>
      match member.decl with
      | .method reqMethod =>
        let reqFuncType := Ty.function (reqMethod.params.map (·.type)) reqMethod.returnType false
        let expectedType := reqFuncType.substitute reqMapping
        let actualMethodType := if type.isStruct then type.findMethod reqMethod.name else none
        match actualMethodType with
        | none => .error ("Type '" ++ type.toString ++ "' does not satisfy request '"
            ++ requestName ++ "': missing method '" ++ reqMethod.name ++ "'")
        | some actual =>
          if !actual.equals expectedType then
            .error ("Type '" ++ type.toString ++ "' does not satisfy request '"
              ++ requestName ++ "': method '" ++ reqMethod.name
              ++ "' has incorrect signature. Expected " ++ expectedType.toString ++ ", got "
              ++ actual.toString)
          else .ok ()
      | _ => .ok ()) request.members
  | _ => .error ("Unknown request constraint '" ++ requestName ++ "'")

/-- The constraint checks of the mapping loop of the `monomorphize*` functions. -/
def checkConstraints (t : SymbolTable) : List GenericParam → List Ty → Except String Unit
  | gp :: gps, a :: as =>
    match forEachCheck (fun (item : ConstraintItem) => checkConstraint t item.traitName a)
        (gp.constraint.getD []) with
    | .error e => .error e
    | .ok _ => checkConstraints t gps as
  | _, _ => .ok ()

/-- The parameter loop `if (!symbolTable.insert(param...)) throw` of the function and
method analysis. -/
def insertParams (t : SymbolTable) : List Param → Except String SymbolTable
  | [] => .ok t
  | p :: ps =>
    match t.insert p.name (some p.type) false with
    | (false, _) => .error ("Redefinition of parameter '" ++ p.name ++ "'")
    | (true, t1) => insertParams t1 ps

/-- The replacement of the placeholder `Self` in a method parameter by the class type
(step 4 of `Sema::analyzeClassDecl`); the Boolean says whether the parameter node was
changed. -/
def resolveSelf (classType : Ty) (pType : Ty) : Ty × Bool :=
  if pType.isStruct && pType.getName = "Self" then (classType, true)
  else
    match pType with
    | .pointer base =>
      if base.isStruct && base.getName = "Self" then (.pointer classType, true)
      else (pType, false)
    | _ => (pType, false)

namespace Sema

/-- `analyzedNodes.push_back(node)`: the pointer to the node is its index. -/
def pushNode (node : Stmt) : SemaM Nat := do
  let s ← get
  modify fun s => { s with analyzedNodes := s.analyzedNodes ++ [node] }
  pure s.analyzedNodes.length

/-- The node at `idx` of `analyzedNodes` after the analyzer changed it in place. -/
def setNode (idx : Nat) (node : Stmt) : SemaM Unit :=
  modify fun s => { s with analyzedNodes := s.analyzedNodes.set idx node }

/-- `Sema::resolveType` on a pointer that may be null; `rt` is the function on non-null
types. -/
def resolveTypeOpt (rt : Ty → SemaM Ty) : Option Ty → SemaM (Option Ty)
  | none => pure none
  | some t => do
    let r ← rt t
    pure (some r)

/-- The statement `varDecl->setType(resolveType(varDecl->getType()))`. -/
def resolveVarDeclType (h : SemaHooks) (d : VarDecl) : SemaM VarDecl := do
  let t ← resolveTypeOpt h.resolveType d.type
  pure { d with type := t }

/-- `Sema::analyzeBlock`. -/
def analyzeBlock (h : SemaHooks) (block : Block) : SemaM Block := do
  pushScope
  let stmts ← mapMSema h.analyze block
  popScope
  pure stmts

/-- `Sema::analyzeBlock` on the body pointer of a declaration. -/
def analyzeBody (h : SemaHooks) : Option Block → SemaM (Option Block)
  | none => throw "null pointer"
  | some body => do
    let b ← analyzeBlock h body
    pure (some b)

/-- `std::make_shared<StructType>(name, fields)` in the analyzer: the new object gets the
next free address, and no methods. -/
def newStructType (name : String) (fields : List Field) (isClass : Bool) : SemaM Ty := do
  let s ← get
  modify fun s0 => { s0 with nextAddress := s0.nextAddress + 1 }
  pure (.struct name fields [] isClass s.nextAddress)

/-- `StructType::setMethods` on the object at the address of `type`. -/
def setMethods (type : Ty) (methods : List Field) : SemaM Unit :=
  modify fun s => { s with methodsAt := (type.address, methods) :: s.methodsAt }

/-- The struct type as the object at its address is now: with the methods that
`setMethods` stored last, when it was called on the object. -/
def current (s : Sema) : Ty → Ty
  | .struct name fields methods isClass address =>
    .struct name fields ((s.methodsAt.lookup address).getD methods) isClass address
  | t => t

/-- `Sema::analyzeStructDecl`. -/
def analyzeStructDecl (h : SemaHooks) (decl : StructDecl) : SemaM StructDecl := do
  let members ← mapMSema (resolveVarDeclType h) decl.members
  failIf (members.any fun m => m.type.isNone) "null pointer"
  let fields := members.map fun m => Field.mk m.name (m.type.getD .void) m.isPublic
  let decl1 := { decl with members := members }
  let structType ← newStructType decl.name fields false
  let s ← get
  match s.symbolTable.insertTypeGlobal decl.name (some structType) decl.isPublic
      (some (.structDecl decl1)) with
  | (true, t) => do
    setTable t
    pure decl1
  | (false, _) =>
    match s.symbolTable.lookupType decl.name with
    | some existing =>
      if !existing.equals structType then
        throw ("Redefinition of type '" ++ decl.name ++ "'")
      else pure decl1
    | none => throw ("Redefinition of type '" ++ decl.name ++ "'")

/-- The variant loop body of `Sema::analyzeEnumDecl`: the changed node and the variant
of the enum type. -/
def analyzeEnumVariant (h : SemaHooks) (v : EnumVariant) : SemaM (EnumVariant × Variant) :=
  match v.variantKind with
  | .Unit => pure (v, Variant.mk v.name .Unit [] [])
  | .Tuple => do
    let resolvedTypes ← mapMSema h.resolveType v.tupleTypes
    pure ({ v with tupleTypes := resolvedTypes }, Variant.mk v.name .Tuple resolvedTypes [])
  | .Struct => do
    let fs ← mapMSema (resolveVarDeclType h) v.structFields
    failIf (fs.any fun f => f.type.isNone) "null pointer"
    pure ({ v with structFields := fs },
      Variant.mk v.name .Struct [] (fs.map fun f => Field.mk f.name (f.type.getD .void) true))

/-- `Sema::analyzeEnumDecl`. -/
def analyzeEnumDecl (h : SemaHooks) (decl : EnumDecl) : SemaM EnumDecl := do
  let vs ← mapMSema (analyzeEnumVariant h) decl.variants
  let enumType := Ty.enum decl.name (vs.map (·.2))
  let decl1 := { decl with variants := vs.map (·.1), type := some enumType }
  modify fun s => { s with registeredEnums := s.registeredEnums ++ [enumType] }
  let s ← get
  match s.symbolTable.insertTypeGlobal decl.name (some enumType) decl.isPublic
      (some (.enumDecl decl1)) with
  | (true, t) => do
    setTable t
    pure decl1
  | (false, _) => throw ("Redefinition of type '" ++ decl.name ++ "'")

/-- `Sema::analyzeMethodDecl`. -/
def analyzeMethodDecl (h : SemaHooks) (decl : MethodDecl) : SemaM MethodDecl :=
  if !decl.genericParams.isEmpty then pure decl
  else do
    let s ← get
    modify fun s => { s with currentFunction := none, currentMethod := some decl }
    pushScope
    let s1 ← get
    let t ← liftExcept (insertParams s1.symbolTable decl.params)
    setTable t
    let body ← match decl.body with
      | none => pure none
      | some b => analyzeBody h (some b)
    popScope
    modify fun s2 => { s2 with currentMethod := s.currentMethod,
                               currentFunction := s.currentFunction }
    pure { decl with body := body }

/-- The parameter loop body of `Sema::analyzeConstructorDecl`. -/
def analyzeCtorParam (h : SemaHooks) (p : Param) : SemaM Param := do
  let t ← h.resolveType p.type
  let s ← get
  match s.symbolTable.insert p.name (some t) false with
  | (false, _) => throw ("Redefinition of parameter '" ++ p.name ++ "'")
  | (true, t1) => do
    setTable t1
    pure { p with type := t }

/-- `Sema::analyzeConstructorDecl`. -/
def analyzeConstructorDecl (h : SemaHooks) (decl : ConstructorDecl) : SemaM ConstructorDecl := do
  let s ← get
  let currentClass ← nonNull s.currentClass
  if decl.name ≠ currentClass.getName then throw "Constructor name must match class name"
  else do
    modify fun s => { s with currentFunction := none, currentMethod := none }
    pushScope
    let params ← mapMSema (analyzeCtorParam h) decl.params
    modify fun s1 => { s1 with symbolTable :=
      (s1.symbolTable.insert "self" (some (.pointer currentClass)) false).2 }
    let body ← match decl.body with
      | none => pure none
      | some b => analyzeBody h (some b)
    popScope
    modify fun s2 => { s2 with currentMethod := s.currentMethod,
                               currentFunction := s.currentFunction }
    pure { decl with params := params, body := body }

/-- Step 1 of `Sema::analyzeClassDecl` for one member: the type of a field. -/
def analyzeClassField (h : SemaHooks) (member : ClassMember) : SemaM ClassMember :=
  match member with
  | .field d =>
    match d.type with
    | none => throw ("Field '" ++ d.name ++ "' must have an explicit type")
    | some t => do
      let t1 ← h.resolveType t
      pure (.field { d with type := some t1 })
  | other => pure other

/-- The parameter loop body of step 4 of `Sema::analyzeClassDecl`: the changed node and
the parameter type of the method type. -/
def analyzeMethodParam (h : SemaHooks) (classType : Ty) (p : Param) : SemaM (Param × Ty) := do
  let pType ← h.resolveType p.type
  let r := resolveSelf classType pType
  pure (if r.2 then { p with type := r.1 } else p, r.1)

/-- Step 4 of `Sema::analyzeClassDecl` for one member: the signature of a method. -/
def analyzeMethodSignature (h : SemaHooks) (classType : Ty) (member : ClassMember) :
    SemaM (ClassMember × Option Field) :=
  match member with
  | .method method => do
    let ps ← mapMSema (analyzeMethodParam h classType) method.params
    let ret ← h.resolveType method.returnType
    let funcType := Ty.function (ps.map (·.2)) ret false
    pure (.method { method with params := ps.map (·.1), returnType := ret },
      some (Field.mk method.name funcType method.isPublic))
  | other => pure (other, none)

/-- Step 5 of `Sema::analyzeClassDecl` for one member: the bodies. -/
def analyzeMemberBody (h : SemaHooks) (member : ClassMember) : SemaM ClassMember :=
  match member with
  | .method d => do
    let d1 ← analyzeMethodDecl h d
    pure (.method d1)
  | .ctor d => do
    let d1 ← analyzeConstructorDecl h d
    pure (.ctor d1)
  | .field d =>
    match d.initializer with
    | none => pure (.field d)
    | some init => do
      let r ← h.checkExpr init
      pure (.field { d with initializer := some r.2 })

/-- The fields of the class type, from the members that are `VarDecl`s. -/
def classFields (members : List ClassMember) : List Field :=
  members.filterMap fun m =>
    match m with
    | .field d => some (Field.mk d.name (d.type.getD .void) d.isPublic)
    | _ => none

/-- The registered declaration of the class after the analyzer changed it in place. -/
def updateClass (name : String) (decl : ClassDecl) : SemaM Unit :=
  modify fun s => { s with symbolTable :=
    s.symbolTable.updateTypeDeclGlobal name (.classDecl decl) }

/-- `Sema::analyzeClassDecl`.  The class type is one shared object: the registered type,
the `Self` parameters, the method types and `currentClass` hold its address, and the
methods that step 4 gathers are stored at that address. -/
def analyzeClassDecl (h : SemaHooks) (decl : ClassDecl) : SemaM ClassDecl := do
  let members1 ← mapMSema (analyzeClassField h) decl.members
  let fields := classFields members1
  let classType ← newStructType decl.name fields true
  let decl1 := { decl with members := members1 }
  let s ← get
  match s.symbolTable.insertTypeGlobal decl.name (some classType) decl.isPublic
      (some (.classDecl decl1)) with
  | (false, _) => throw ("Redefinition of type '" ++ decl.name ++ "'")
  | (true, t) => do
    setTable t
    if !decl.genericParams.isEmpty then pure decl1
    else do
      let ms ← mapMSema (analyzeMethodSignature h classType) members1
      setMethods classType (ms.filterMap (·.2))
      let decl2 := { decl1 with members := ms.map (·.1) }
      updateClass decl.name decl2
      let s3 ← get
      modify fun s4 => { s4 with currentClass := some classType }
      let members3 ← mapMSema (analyzeMemberBody h) decl2.members
      let decl3 := { decl2 with members := members3 }
      modify fun s5 => { s5 with
        symbolTable := s5.symbolTable.updateTypeDeclGlobal decl.name (.classDecl decl3),
        currentClass := s3.currentClass }
      pure decl3

/-- The clone of `monomorphizeStruct`: `substituteDecl`, `setName`,
`clearGenericParams`. -/
def structClone (mapping : TypeMapping) (mangledName : String) (decl : StructDecl) :
    StructDecl :=
  { ASTSubstituter.substituteStruct mapping decl with name := mangledName, genericParams := [] }

/-- The clone of `monomorphizeEnum`. -/
def enumClone (mapping : TypeMapping) (mangledName : String) (decl : EnumDecl) : EnumDecl :=
  { ASTSubstituter.substituteEnum mapping decl with name := mangledName, genericParams := [] }

/-- The clone of `monomorphizeClass`. -/
def classClone (mapping : TypeMapping) (mangledName : String) (decl : ClassDecl) : ClassDecl :=
  { ASTSubstituter.substituteClass mapping decl with name := mangledName, genericParams := [] }

/-- The clone of `monomorphizeFunction`. -/
def functionClone (mapping : TypeMapping) (mangledName : String) (decl : FunctionDecl) :
    FunctionDecl :=
  { ASTSubstituter.substituteFunction mapping decl with name := mangledName, genericParams := [] }

/-- The argument checks and the mapping of the `monomorphize*` functions. -/
def genericMapping (what : String) (name : String) (genericParams : List GenericParam)
    (typeArgs : List Ty) : SemaM TypeMapping := do
  failIf (genericParams.length ≠ typeArgs.length)
    ("Generic argument count mismatch for " ++ what ++ " " ++ name)
  let s ← get
  liftExcept (checkConstraints s.symbolTable genericParams (typeArgs.map s.current))
  pure (buildMapping genericParams typeArgs [])

/-- `Sema::monomorphizeStruct`; the result is the pointer that the function returns. -/
def monomorphizeStruct (h : SemaHooks) (decl : StructDecl) (typeArgs : List Ty) :
    SemaM (Option Ty) := do
  let mangledName ← liftExcept (mangleGenericName decl.name (typeArgs.map some))
  let s ← get
  let existing := s.symbolTable.lookupType mangledName
  if (existing.map Ty.isStruct).getD false then pure existing
  else do
    let mapping ← genericMapping "struct" decl.name decl.genericParams typeArgs
    let spec := structClone mapping mangledName decl
    let idx ← pushNode (.structDecl spec)
    modify fun s => { s with m_monomorphizedStructs := mapSet mangledName idx s.m_monomorphizedStructs }
    let spec1 ← analyzeStructDecl h spec
    setNode idx (.structDecl spec1)
    let s1 ← get
    pure (s1.symbolTable.lookupType mangledName)

/-- `Sema::monomorphizeEnum`. -/
def monomorphizeEnum (h : SemaHooks) (decl : EnumDecl) (typeArgs : List Ty) :
    SemaM (Option Ty) := do
  let mangledName ← liftExcept (mangleGenericName decl.name (typeArgs.map some))
  let s ← get
  let existing := s.symbolTable.lookupType mangledName
  if (existing.map Ty.isEnum).getD false then pure existing
  else do
    let mapping ← genericMapping "enum" decl.name decl.genericParams typeArgs
    let spec := enumClone mapping mangledName decl
    let idx ← pushNode (.enumDecl spec)
    modify fun s => { s with m_monomorphizedEnums := mapSet mangledName idx s.m_monomorphizedEnums }
    let spec1 ← analyzeEnumDecl h spec
    setNode idx (.enumDecl spec1)
    let s1 ← get
    pure (s1.symbolTable.lookupType mangledName)

/-- `Sema::monomorphizeClass`. -/
def monomorphizeClass (h : SemaHooks) (decl : ClassDecl) (typeArgs : List Ty) :
    SemaM (Option Ty) := do
  let mangledName ← liftExcept (mangleGenericName decl.name (typeArgs.map some))
  let s ← get
  let existing := s.symbolTable.lookupType mangledName
  if (existing.map Ty.isClass).getD false then pure existing
  else do
    let mapping ← genericMapping "class" decl.name decl.genericParams typeArgs
    let spec := classClone mapping mangledName decl
    let idx ← pushNode (.classDecl spec)
    modify fun s => { s with m_monomorphizedClasses := mapSet mangledName idx s.m_monomorphizedClasses }
    let spec1 ← analyzeClassDecl h spec
    setNode idx (.classDecl spec1)
    let s1 ← get
    pure (s1.symbolTable.lookupType mangledName)

/-- The last step of `Sema::resolveType`: the registered type of that name, else the
argument. -/
def resolveFallback (type : Ty) : SemaM Ty := do
  let s ← get
  match s.symbolTable.lookupType type.toString with
  | some existing => pure existing
  | none => pure type

/-- The loop body of `resolveType` that turns one piece of the argument text into a
type. -/
def resolveArg (h : SemaHooks) (piece : String) : SemaM Ty :=
  let arg := trimBlanks piece
  match primitiveArg arg with
  | some t => pure t
  | none =>
    if arg.data.getLast? = some '*' then do
      let t ← h.resolveType (.struct (String.mk arg.data.dropLast) [] [] false 0)
      pure (.pointer t)
    else h.resolveType (.struct arg [] [] false 0)

/-- The branch of `Sema::resolveType` for a name of the form `Base[...]`, with the
position of the first `[`. -/
def resolveGeneric (h : SemaHooks) (type : Ty) (bracketPos : Nat) : SemaM Ty := do
  let name := type.toString
  let s ← get
  let existing := s.symbolTable.lookupType name
  if existing.isSome && !(existing.map Ty.isTypeParameter).getD false
      && isResolvedGeneric existing then pure (existing.getD type)
  else do
    let baseName := String.mk (name.data.take bracketPos)
    let argsStr := String.mk
      ((name.data.drop (bracketPos + 1)).take (name.data.length - bracketPos - 2))
    match s.symbolTable.lookupTypeDecl baseName with
    | none => resolveFallback type
    | some baseDecl => do
      let typeArgs ← mapMSema (resolveArg h) (splitArgs argsStr)
      match baseDecl with
      | .structDecl d => do
        let r ← monomorphizeStruct h d typeArgs
        nonNull r
      | .enumDecl d => do
        let r ← monomorphizeEnum h d typeArgs
        nonNull r
      | .classDecl d => do
        let r ← monomorphizeClass h d typeArgs
        nonNull r
      | _ => resolveFallback type

/-- `Sema::resolveType` on a non-null type. -/
def resolveType (h : SemaHooks) (type : Ty) : SemaM Ty :=
  if resolveFastPath.contains type.toString then pure type
  else
    match type with
    | .pointer base => do
      let b ← h.resolveType base
      pure (.pointer b)
    | .array base size => do
      let b ← h.resolveType base
      pure (.array b size)
    | _ =>
      if type.isStruct || type.isEnum || type.getKind == .TypeParameter then
        match findChar '[' type.toString.data with
        | some bracketPos =>
          if type.toString.data.getLast? = some ']' then resolveGeneric h type bracketPos
          else resolveFallback type
        | none => resolveFallback type
      else pure type

/-- The parameter loop body of `Sema::analyzeFunctionDecl`. -/
def resolveParam (h : SemaHooks) (p : Param) : SemaM Param := do
  let t ← resolveType h p.type
  pure { p with type := t }

/-- The registration step of `Sema::analyzeFunctionDecl`: `insertGlobal`, and on
failure the comparison with the symbol that is there. -/
def registerFunction (decl : FunctionDecl) (funcType : Ty) : SemaM Unit := do
  let s ← get
  match s.symbolTable.insertGlobal decl.name (some funcType) false decl.isPublic
      (some (.functionDecl decl)) with
  | (true, t) => setTable t
  | (false, _) =>
    match s.symbolTable.lookup decl.name with
    | some existing =>
      match existing.type with
      | some ty => failIf (!ty.equals funcType) ("Redefinition of function '" ++ decl.name ++ "'")
      | none => throw "null pointer"
    | none => throw ("Redefinition of function '" ++ decl.name ++ "'")

/-- `Sema::analyzeFunctionDecl`. -/
def analyzeFunctionDecl (h : SemaHooks) (decl : FunctionDecl) : SemaM FunctionDecl := do
  let params ← mapMSema (resolveParam h) decl.params
  let ret ← resolveType h decl.returnType
  let decl1 := { decl with params := params, returnType := ret }
  registerFunction decl1 (Ty.function (params.map (·.type)) ret decl.isVarArg)
  if !decl.genericParams.isEmpty then pure decl1
  else do
    let s ← get
    modify fun s1 => { s1 with currentFunction := some decl1 }
    pushScope
    let s2 ← get
    let t ← liftExcept (insertParams s2.symbolTable params)
    setTable t
    let body ← if !decl.isExtern then analyzeBody h decl.body else pure decl.body
    popScope
    modify fun s3 => { s3 with currentFunction := s.currentFunction }
    pure { decl1 with body := body }

/-- The declaration that a `FunctionDecl*` into `analyzedNodes` points to. -/
def functionAt (idx : Nat) : SemaM FunctionDecl := do
  let s ← get
  match s.analyzedNodes.get? idx with
  | some (.functionDecl d) => pure d
  | _ => throw "null pointer"

/-- `Sema::monomorphizeFunction`; the result is the returned pointer, an index into
`analyzedNodes`. -/
def monomorphizeFunction (h : SemaHooks) (decl : FunctionDecl) (typeArgs : List Ty) :
    SemaM Nat := do
  let mangledName ← liftExcept (mangleGenericName decl.name (typeArgs.map some))
  let s ← get
  match s.m_monomorphizedFunctions.lookup mangledName with
  | some idx => pure idx
  | none => do
    let mapping ← genericMapping "function" decl.name decl.genericParams typeArgs
    let spec := functionClone mapping mangledName decl
    let idx ← pushNode (.functionDecl spec)
    modify fun s => { s with m_monomorphizedFunctions := mapSet mangledName idx s.m_monomorphizedFunctions }
    let spec1 ← analyzeFunctionDecl h spec
    setNode idx (.functionDecl spec1)
    pure idx

/-- `Sema::monomorphizeMethod`. -/
def monomorphizeMethod (h : SemaHooks) (clDecl : ClassDecl) (method : MethodDecl)
    (typeArgs : List Ty) : SemaM Nat := do
  let mangledName ← liftExcept
    (mangleGenericName (clDecl.name ++ "_" ++ method.name) (typeArgs.map some))
  let s ← get
  match s.m_monomorphizedFunctions.lookup mangledName with
  | some idx => pure idx
  | none => do
    let mapping ← genericMapping "method" method.name method.genericParams typeArgs
    let specMethod := ASTSubstituter.substituteMethod mapping method
    let body ← nonNull specMethod.body
    let specFunc : FunctionDecl :=
      { name := mangledName, returnType := specMethod.returnType,
        params := specMethod.params, body := some (Stmt.cloneList body),
        isExtern := false, isPublic := specMethod.isPublic }
    let idx ← pushNode (.functionDecl specFunc)
    modify fun s => { s with m_monomorphizedFunctions := mapSet mangledName idx s.m_monomorphizedFunctions }
    let s1 ← get
    let type := s1.symbolTable.lookupType clDecl.name
    modify fun s2 => { s2 with currentClass :=
      if (type.map Ty.isStruct).getD false then type else s2.currentClass }
    let res ← analyzeFunctionDecl h specFunc
    setNode idx (.functionDecl res)
    modify fun s3 => { s3 with currentClass := s1.currentClass }
    pure idx

end Sema

/-! ### Expressions -/

/-- `Type::isFloat`. -/
def Ty.isFloat : Ty → Bool
  | .primitive .F32 | .primitive .F64 => true
  | _ => false

/-- `Type::isBool`. -/
def Ty.isBool : Ty → Bool
  | .primitive .Bool => true
  | _ => false

/-- `StructType::getMethods`. -/
def Ty.getMethods : Ty → List Field
  | .struct _ _ ms _ _ => ms
  | _ => []

/-- The base type when the type is a pointer, else the type
(`if (baseType->isPointer()) baseType = ...->getBaseType()`). -/
def Ty.derefOnce : Ty → Ty
  | .pointer b => b
  | t => t

/-- The comparison `currentClass != structType` of two shared pointers to `StructType`
objects: of the addresses; `currentClass` is null outside of the classes. -/
def differsFromClass (currentClass : Option Ty) (structType : Ty) : Bool :=
  match currentClass with
  | some c => c.address != structType.address
  | none => true

namespace Sema

/-- `Sema::checkLiteralExpr`. -/
def checkLiteralExpr (lit : LiteralExpr) : Ty :=
  match lit.explicitType with
  | some t => t
  | none =>
    match lit.value with
    | .bool _ => .primitive .Bool
    | .string _ => .pointer (.primitive .I8)
    | .double _ => .primitive .F64
    | .nullptr => .pointer (.primitive .Void)
    | .int _ => .primitive .I32

/-- `Sema::checkIdentifierExpr`. -/
def checkIdentifierExpr (name : String) : SemaM Ty := do
  let s ← get
  match s.symbolTable.lookupIgnoreMoved name with
  | some symbol =>
    if symbol.isMoved then throw ("Use of moved variable: " ++ name)
    else nonNull symbol.type
  | none =>
    match s.symbolTable.lookupType name with
    | some type => pure type
    | none =>
      match s.registeredEnums.find? fun enumTy => (enumTy.findVariant name).isSome with
      | some enumTy => pure enumTy
      | none => throw ("Undefined identifier: " ++ name)

/-- The left side of an assignment in `Sema::checkBinaryExpr`: its type and the node. -/
def checkAssignTarget (h : SemaHooks) (left : Expr) : SemaM (Ty × Expr) :=
  match left with
  | .identifier t name => do
    let s ← get
    match s.symbolTable.lookupIgnoreMoved name with
    | none => throw ("Undefined identifier: " ++ name)
    | some sym => do
      setTable (s.symbolTable.markAccessed name)
      let leftType ← nonNull sym.type
      pure (leftType, .identifier t name)
  | other => h.checkExpr other

/-- The last step of an assignment in `Sema::checkBinaryExpr`: a right side that is an
identifier of a type that is not a copy type is marked as moved. -/
def moveRight (rightType : Ty) (right : Expr) : SemaM Unit :=
  if !rightType.isCopyType then
    match right with
    | .identifier _ name => modify fun s => { s with symbolTable := s.symbolTable.markMoved name }
    | _ => pure ()
  else pure ()

/-- The result type of a binary operator that is not the assignment. -/
def binaryResultType (op : TokenType) (leftType : Ty) : Ty :=
  match op with
  | .EqualEqual | .NotEqual | .Greater | .GreaterEqual | .Less | .LessEqual
  | .AndAnd | .OrOr => .primitive .Bool
  | _ => leftType

/-- `Sema::checkBinaryExpr`: the type and the two operand nodes. -/
def checkBinaryExpr (h : SemaHooks) (left : Expr) (op : TokenType) (right : Expr) :
    SemaM (Ty × Expr × Expr) :=
  if op = .Equal then do
    let r ← h.checkExpr right
    let l ← checkAssignTarget h left
    failIf (!l.1.equals r.1)
      ("Type mismatch in assignment: expected " ++ l.1.toString ++ ", got " ++ r.1.toString)
    moveRight r.1 right
    pure (l.1, l.2, r.2)
  else do
    let l ← h.checkExpr left
    let r ← h.checkExpr right
    failIf (!l.1.equals r.1)
      ("Type mismatch in binary expression: " ++ l.1.toString ++ " and " ++ r.1.toString)
    pure (binaryResultType op l.1, l.2, r.2)

/-- The messages of `Sema::checkUnaryExpr`; the operator name that `tokenTypeToString`
appends to the last message is left out. -/
def unaryError (operandType : Ty) (op : TokenType) : String :=
  match op with
  | .Minus => "Unary minus requires numeric type, got: " ++ operandType.toString
  | .Not => "Unary not requires boolean type, got: " ++ operandType.toString
  | .Tilde => "Unary tilde requires integer type, got: " ++ operandType.toString
  | .Plus => "Unary plus requires numeric type, got: " ++ operandType.toString
  | _ => "Unknown unary operator"

/-- The test of `Sema::checkUnaryExpr` on the operand type. -/
def unaryAccepts (operandType : Ty) (op : TokenType) : Bool :=
  match op with
  | .Minus | .Plus => operandType.isInteger || operandType.isFloat
  | .Not => operandType.isBool
  | .Tilde => operandType.isInteger
  | _ => false

/-- `Sema::checkUnaryExpr`. -/
def checkUnaryExpr (h : SemaHooks) (op : TokenType) (operand : Expr) : SemaM (Ty × Expr) := do
  let r ← h.checkExpr operand
  failIf (!unaryAccepts r.1 op) (unaryError r.1 op)
  pure r

/-- The loop `for (const auto& arg : expr->getArgs()) checkExpr(arg.get());`. -/
def checkArgs (h : SemaHooks) (args : List Expr) : SemaM (List Expr) :=
  mapMSema (fun a => do
    let r ← h.checkExpr a
    pure r.2) args

/-- The second check of the base of a method call in `Sema::checkCallExpr`. -/
def recheckBase (h : SemaHooks) (callee : Expr) : SemaM Expr :=
  match callee with
  | .memberAccess t base m st => do
    let r ← h.checkExpr base
    pure (.memberAccess t r.2 m st)
  | other => pure other

/-- Whether the node is a `MemberAccessExpr`. -/
def isMemberAccess : Expr → Bool
  | .memberAccess _ _ _ _ => true
  | _ => false

/-- The part of `Sema::checkCallExpr` after the special cases: the callee is checked
and must have a function type. -/
def checkCallRest (h : SemaHooks) (callee : Expr) (args : List Expr) :
    SemaM (Ty × Expr × List Expr) := do
  let rc ← h.checkExpr callee
  match rc.1 with
  | .function paramTypes returnType isVarArg => do
    let isMethodCall := isMemberAccess callee && paramTypes.length == args.length + 1
    let expectedArgs := paramTypes.length
    let providedArgs := if isMethodCall then args.length + 1 else args.length
    failIf (providedArgs != expectedArgs && (!isVarArg || providedArgs < expectedArgs))
      ("Argument count mismatch: expected " ++ toString expectedArgs ++ ", got "
        ++ toString providedArgs)
    let callee2 ← if isMethodCall then recheckBase h rc.2 else pure rc.2
    let args1 ← checkArgs h args
    pure (returnType, callee2, args1)
  | other => throw ("Called object is not a function: " ++ other.toString)

/-- The enum-variant case of `Sema::checkCallExpr` for an identifier callee, then the
general case. -/
def checkVariantCall (h : SemaHooks) (id : String) (callee : Expr) (args : List Expr) :
    SemaM (Ty × Expr × List Expr) := do
  let s ← get
  match s.registeredEnums.find? fun enumTy => (enumTy.findVariant id).isSome with
  | some enumTy => do
    let args1 ← checkArgs h args
    pure (enumTy, callee, args1)
  | none => checkCallRest h callee args

/-- `Sema::checkCallExpr`: the type, the callee node and the argument nodes. -/
def checkCallExpr (h : SemaHooks) (callee : Expr) (args : List Expr) :
    SemaM (Ty × Expr × List Expr) :=
  match callee with
  | .identifier _ id => do
    let s ← get
    match s.symbolTable.lookupType id with
    | some type =>
      if type.isStruct || type.isClass then do
        let args1 ← checkArgs h args
        pure (type, callee, args1)
      else checkVariantCall h id callee args
    | none => checkVariantCall h id callee args
  | .memberAccess t base m st => do
    let rb ← h.checkExpr base
    let baseType := rb.1.derefOnce
    let callee1 := Expr.memberAccess t rb.2 m st
    if baseType.isEnum && (baseType.findVariant m).isSome then do
      let args1 ← checkArgs h args
      pure (baseType, callee1, args1)
    else checkCallRest h callee1 args
  | other => checkCallRest h other args

/-- The module case of `Sema::checkMemberAccess`: `none` when the base is not the name
of an imported module. -/
def moduleMember (s : Sema) (base : Expr) (memberName : String) : Option (Except String Ty) :=
  match base with
  | .identifier _ baseName =>
    match s.modules.lookup baseName with
    | some moduleTable =>
      match moduleTable.getPublicSymbols.lookup memberName with
      | some sym =>
        match sym.type with
        | some t => some (.ok t)
        | none => some (.error "null pointer")
      | none =>
        match moduleTable.getPublicTypes.lookup memberName with
        | some (some t) => some (.ok t)
        | some none => some (.error "null pointer")
        | none => some (.error ("Module '" ++ baseName ++ "' has no public member named '"
            ++ memberName ++ "'"))
    | none => none
  | _ => none

/-- The field and method search of `Sema::checkMemberAccess` in a struct type. -/
def structMember (currentClass : Option Ty) (structType : Ty) (memberName : String) :
    Except String Ty :=
  match structType.getFields.find? fun f => f.name = memberName with
  | some field =>
    if !field.isPublic && differsFromClass currentClass structType then
      .error ("Cannot access private field '" ++ field.name ++ "' of class '"
        ++ structType.getName ++ "'")
    else .ok field.type
  | none =>
    match structType.getMethods.find? fun m => m.name = memberName with
    | some method =>
      if !method.isPublic && differsFromClass currentClass structType then
        .error ("Cannot access private method '" ++ method.name ++ "' of class '"
          ++ structType.getName ++ "'")
      else .ok method.type
    | none => .error ("Struct '" ++ structType.getName ++ "' has no member named '"
        ++ memberName ++ "'")

/-- `Sema::checkMemberAccess`: the type and the base node. -/
def checkMemberAccess (h : SemaHooks) (base : Expr) (memberName : String) :
    SemaM (Ty × Expr) := do
  let s ← get
  match moduleMember s base memberName with
  | some r => do
    let t ← liftExcept r
    pure (t, base)
  | none => do
    let rb ← h.checkExpr base
    let baseType := rb.1.derefOnce
    if baseType.isEnum && (baseType.findVariant memberName).isSome then pure (baseType, rb.2)
    else if !baseType.isStruct then
      throw ("Member access on non-struct type: " ++ baseType.toString)
    else do
      let s1 ← get
      let t ← liftExcept (structMember s1.currentClass (s1.current baseType) memberName)
      pure (t, rb.2)

/-- The inner loop of `Sema::checkStructLiteral`: the first initializer called like the
field is checked against the type of the field. -/
def checkInit (h : SemaHooks) (f : Field) (ctxMismatch ctxMissing : String) :
    List FieldInit → SemaM (List FieldInit)
  | [] => throw ("Missing field '" ++ f.name ++ "'" ++ ctxMissing)
  | init :: rest =>
    if init.name = f.name then do
      let r ← h.checkExpr init.value
      failIf (!r.1.equals f.type)
        ("Type mismatch for field '" ++ f.name ++ "'" ++ ctxMismatch ++ ": expected "
          ++ f.type.toString ++ ", got " ++ r.1.toString)
      pure ({ init with value := r.2 } :: rest)
    else do
      let rest1 ← checkInit h f ctxMismatch ctxMissing rest
      pure (init :: rest1)

/-- The outer loop of `Sema::checkStructLiteral` over the fields of the type. -/
def checkInits (h : SemaHooks) (ctxMismatch ctxMissing : String) :
    List Field → List FieldInit → SemaM (List FieldInit)
  | [], inits => pure inits
  | f :: fs, inits => do
    let inits1 ← checkInit h f ctxMismatch ctxMissing inits
    checkInits h ctxMismatch ctxMissing fs inits1

/-- The member name when the node is a `MemberAccessExpr`. -/
def memberNameOf : Expr → Option String
  | .memberAccess _ _ m _ => some m
  | _ => none

/-- The enum case of `Sema::checkStructLiteral`. -/
def checkVariantLiteral (h : SemaHooks) (enumTy : Ty) (base : Expr)
    (inits : List FieldInit) : SemaM (List FieldInit) :=
  match memberNameOf base with
  | some variantName =>
    match enumTy.findVariant variantName with
    | some variant =>
      if variant.kind ≠ .Struct then
        throw ("Variant '" ++ variantName ++ "' is not a struct variant")
      else if inits.length ≠ variant.structFields.length then
        throw ("Field count mismatch for variant '" ++ variantName ++ "'")
      else checkInits h "" "" variant.structFields inits
    | none => pure inits
  | none => pure inits

/-- `Sema::checkStructLiteral`: the type, the base node and the initializers. -/
def checkStructLiteral (h : SemaHooks) (base : Expr) (inits : List FieldInit) :
    SemaM (Ty × Expr × List FieldInit) := do
  let rb ← h.checkExpr base
  let baseType := rb.1
  if baseType.isEnum then do
    let inits1 ← checkVariantLiteral h baseType base inits
    pure (baseType, rb.2, inits1)
  else if !baseType.isStruct then
    throw ("'" ++ base.toString ++ "' is not a struct type")
  else if inits.length ≠ baseType.getFields.length then
    throw ("Field count mismatch for struct '" ++ baseType.getName ++ "': expected "
      ++ toString baseType.getFields.length ++ ", got " ++ toString inits.length)
  else do
    let inits1 ← checkInits h (" in struct '" ++ baseType.getName ++ "'")
      (" in initializer for struct '" ++ baseType.getName ++ "'") baseType.getFields inits
    pure (baseType, rb.2, inits1)

/-- The loop of `Sema::checkArrayLiteral` over the elements after the first. -/
def checkElements (h : SemaHooks) (baseType : Ty) : List Expr → SemaM (List Expr)
  | [] => pure []
  | e :: es => do
    let r ← h.checkExpr e
    failIf (!r.1.equals baseType) "Array literal elements must have the same type"
    let rest ← checkElements h baseType es
    pure (r.2 :: rest)

/-- `Sema::checkArrayLiteral`. -/
def checkArrayLiteral (h : SemaHooks) (elements : List Expr) : SemaM (Ty × List Expr) :=
  match elements with
  | [] => throw "Empty array literals are not supported yet"
  | e :: es => do
    let r ← h.checkExpr e
    let rest ← checkElements h r.1 es
    pure (.array r.1 elements.length, r.2 :: rest)

/-- `Sema::checkIndexing`. -/
def checkIndexing (h : SemaHooks) (base index : Expr) : SemaM (Ty × Expr × Expr) := do
  let rb ← h.checkExpr base
  let ri ← h.checkExpr index
  failIf (!ri.1.isInteger) "Array index must be an integer"
  match rb.1 with
  | .array b _ => pure (b, rb.2, ri.2)
  | .pointer b => pure (b, rb.2, ri.2)
  | other => throw ("Cannot index non-array/pointer type: " ++ other.toString)

/-- `Sema::checkAddressOf`. -/
def checkAddressOf (h : SemaHooks) (operand : Expr) : SemaM (Ty × Expr) := do
  let r ← h.checkExpr operand
  pure (.pointer r.1, r.2)

/-- `Sema::checkDereference`. -/
def checkDereference (h : SemaHooks) (operand : Expr) : SemaM (Ty × Expr) := do
  let r ← h.checkExpr operand
  match r.1 with
  | .pointer b => pure (b, r.2)
  | other => throw ("Cannot dereference non-pointer type: " ++ other.toString)

/-- `Sema::checkIntrinsic`: the type and the type argument of the node. -/
def checkIntrinsic (kind : IntrinsicKind) (typeArg : Option Ty) : SemaM (Ty × Option Ty) := do
  let s ← get
  let typeArg1 := match typeArg with
    | some t =>
      match s.symbolTable.lookupType t.toString with
      | some resolved => some resolved
      | none => some t
    | none => none
  match kind with
  | .Sizeof | .Alignof | .Offsetof => pure (.primitive .I64, typeArg1)
  | .Malloc | .Alloca => do
    let t ← nonNull typeArg1
    pure (.pointer t, typeArg1)
  | .Free => pure (.primitive .Void, typeArg1)

/-- The method of the class declaration that `Sema::checkSpecializationExpr` looks for. -/
def findMethodDecl (members : List ClassMember) (memberName : String) : Option MethodDecl :=
  members.findSome? fun m =>
    match m with
    | .method d => if d.name = memberName then some d else none
    | _ => none

/-- The type cases of `Sema::checkSpecializationExpr` for an identifier base: the type
and the mangled name, when the name is declared as a struct, class or enum. -/
def specializeType (h : SemaHooks) (baseName : String) (resolvedArgs : List Ty) :
    SemaM (Option (Ty × String)) := do
  let s ← get
  match s.symbolTable.lookupTypeDecl baseName with
  | some (.structDecl d) => do
    let r ← monomorphizeStruct h d resolvedArgs
    let t ← nonNull r
    pure (some (t, t.getName))
  | some (.classDecl d) => do
    let r ← monomorphizeClass h d resolvedArgs
    let t ← nonNull r
    pure (some (t, t.getName))
  | some (.enumDecl d) => do
    let r ← monomorphizeEnum h d resolvedArgs
    let t ← nonNull r
    pure (some (t, t.getName))
  | _ => pure none

/-- The identifier case of `Sema::checkSpecializationExpr`. -/
def specializeIdentifier (h : SemaHooks) (baseName : String) (resolvedArgs : List Ty) :
    SemaM (Option (Ty × String)) := do
  let s ← get
  match s.symbolTable.lookup baseName with
  | some sym =>
    match sym.decl with
    | some (.functionDecl funcDecl) => do
      let idx ← monomorphizeFunction h funcDecl resolvedArgs
      let d ← functionAt idx
      pure (some (d.getType, d.name))
    | _ => specializeType h baseName resolvedArgs
  | none => specializeType h baseName resolvedArgs

/-- The member-access case of `Sema::checkSpecializationExpr`, after the base of the
member access was checked. -/
def specializeMember (h : SemaHooks) (baseType : Ty) (memberName : String)
    (resolvedArgs : List Ty) : SemaM (Option (Ty × String)) :=
  if baseType.isStruct then do
    let s ← get
    match s.symbolTable.lookupTypeDecl baseType.getName with
    | some (.classDecl clDecl) =>
      match findMethodDecl clDecl.members memberName with
      | some method => do
        let idx ← monomorphizeMethod h clDecl method resolvedArgs
        let d ← functionAt idx
        pure (some (d.getType, d.name))
      | none => pure none
    | _ => pure none
  else pure none

/-- `Sema::checkSpecializationExpr`: the type, the base node, the resolved type
arguments and the mangled name of the node. -/
def checkSpecializationExpr (h : SemaHooks) (base : Expr) (typeArgs : List Ty)
    (mangledName : String) : SemaM (Ty × Expr × List Ty × String) := do
  let resolvedArgs ← mapMSema (resolveType h) typeArgs
  match base with
  | .identifier _ baseName => do
    let r ← specializeIdentifier h baseName resolvedArgs
    match r with
    | some (t, m) => pure (t, base, resolvedArgs, m)
    | none => pure (.primitive .Void, base, resolvedArgs, mangledName)
  | .memberAccess t0 mb memberName st => do
    let rb ← h.checkExpr mb
    let r ← specializeMember h rb.1.derefOnce memberName resolvedArgs
    match r with
    | some (t, m) => pure (t, .memberAccess t0 rb.2 memberName st, resolvedArgs, m)
    | none => pure (.primitive .Void, .memberAccess t0 rb.2 memberName st, resolvedArgs,
        mangledName)
  | other => pure (.primitive .Void, other, resolvedArgs, mangledName)

/-- The test `name.find("Result_") != 0`. -/
def notResultName (name : String) : Bool := !("Result_".data.isPrefixOf name.data)

/-- The return type that `Sema::checkQuestionExpr` reads from the current function or
method. -/
def currentReturnType (s : Sema) : Option Ty :=
  match s.currentFunction with
  | some f => some f.returnType
  | none =>
    match s.currentMethod with
    | some m => some m.returnType
    | none => none

/-- The checks of `Sema::checkQuestionExpr` on the operand type and the return type. -/
def questionType (opType : Ty) (retTy : Option Ty) : Except String Ty :=
  if !opType.isEnum then
    .error ("? operator can only be used on Result enum, got " ++ opType.toString)
  else if notResultName opType.getName then
    .error ("? operator can only be used on Result enum, got " ++ opType.getName)
  else
    match retTy with
    | none => .error "? operator used outside of function/method context"
    | some ret =>
      if !ret.isEnum || notResultName ret.getName then
        .error "? operator can only be used in functions returning Result"
      else
        match opType.getVariants, ret.getVariants with
        | opOk :: opErr :: _, _ :: retErr :: _ =>
          match opErr.tupleTypes, retErr.tupleTypes with
          | opE :: _, retE :: _ =>
            if !opE.equals retE then
              .error ("? operator error type mismatch: " ++ opE.toString ++ " vs "
                ++ retE.toString)
            else
              match opOk.tupleTypes with
              | t :: _ => .ok t
              | [] => .error "Result Ok variant must have 1 type argument"
          | _, _ => .error "Result Err variant must have 1 type argument"
        | _ :: _ :: _, _ => .error "Return Result enum must have at least 2 variants"
        | _, _ => .error "Result enum must have at least 2 variants"

/-- `Sema::checkQuestionExpr`. -/
def checkQuestionExpr (h : SemaHooks) (operand : Expr) : SemaM (Ty × Expr) := do
  let r ← h.checkExpr operand
  let s ← get
  let t ← liftExcept (questionType r.1 (currentReturnType s))
  pure (t, r.2)

/-- `Sema::checkExpr` on a non-null expression: the type, and the node with its type
set. -/
def checkExpr (h : SemaHooks) (expr : Expr) : SemaM (Ty × Expr) :=
  match expr with
  | .literal lit =>
    pure (checkLiteralExpr lit, .literal { lit with type := some (checkLiteralExpr lit) })
  | .identifier _ name => do
    let t ← checkIdentifierExpr name
    pure (t, .identifier (some t) name)
  | .binary _ l op r => do
    let res ← checkBinaryExpr h l op r
    pure (res.1, .binary (some res.1) res.2.1 op res.2.2)
  | .unary _ op e => do
    let res ← checkUnaryExpr h op e
    pure (res.1, .unary (some res.1) op res.2)
  | .call _ c args => do
    let res ← checkCallExpr h c args
    pure (res.1, .call (some res.1) res.2.1 res.2.2)
  | .memberAccess _ b m st => do
    let res ← checkMemberAccess h b m
    pure (res.1, .memberAccess (some res.1) res.2 m st)
  | .structLiteral _ b fs => do
    let res ← checkStructLiteral h b fs
    pure (res.1, .structLiteral (some res.1) res.2.1 res.2.2)
  | .arrayLiteral _ es => do
    let res ← checkArrayLiteral h es
    pure (res.1, .arrayLiteral (some res.1) res.2)
  | .indexing _ b i => do
    let res ← checkIndexing h b i
    pure (res.1, .indexing (some res.1) res.2.1 res.2.2)
  | .addressOf _ e => do
    let res ← checkAddressOf h e
    pure (res.1, .addressOf (some res.1) res.2)
  | .dereference _ e => do
    let res ← checkDereference h e
    pure (res.1, .dereference (some res.1) res.2)
  | .intrinsic _ k ta args => do
    let res ← checkIntrinsic k ta
    pure (res.1, .intrinsic (some res.1) k res.2 args)
  | .question _ e => do
    let res ← checkQuestionExpr h e
    pure (res.1, .question (some res.1) res.2)
  | .specialization _ b tas m => do
    let res ← checkSpecializationExpr h b tas m
    pure (res.1, .specialization (some res.1) res.2.1 res.2.2.1 res.2.2.2)

end Sema

/-! ### Statements -/

/-- The loop of `Sema::analyzePattern` that drops the underscores that follow an
underscore. -/
def collapseUnderscores : List Char → List Char → List Char
  | collapsed, [] => collapsed
  | collapsed, c :: rest =>
    if c = '_' && !collapsed.isEmpty && collapsed.getLast? = some '_' then
      collapseUnderscores collapsed rest
    else collapseUnderscores (collapsed ++ [c]) rest

/-- The loop `while (!s.empty() && s.back() == '_') s.pop_back();`. -/
def stripTrailingUnderscores (s : List Char) : List Char :=
  (s.reverse.dropWhile (· = '_')).reverse

/-- The canonical form of an enum name in `Sema::analyzePattern`. -/
def canonicalEnumName (enumName : String) : List Char :=
  let canonical := (replaceStars enumName.length enumName.data).map fun c =>
    if c = '[' || c = ']' || c = ',' || c = ' ' then '_' else c
  stripTrailingUnderscores (collapseUnderscores [] canonical)

/-- The test of `Sema::analyzePattern` that the enum name of a variant pattern does not
fit the matched enum type. -/
def enumNameMismatch (enumName : String) (enumTyName : String) : Bool :=
  if enumName.isEmpty then false
  else if enumName = enumTyName then false
  else
    canonicalEnumName enumName != stripTrailingUnderscores enumTyName.data
      && !((enumName ++ "_").data.isPrefixOf enumTyName.data)

namespace Sema

mutual
/-- `Sema::analyzePattern` on a non-null pattern. -/
def analyzePattern : Pattern → Ty → SemaM Pattern
  | .literal lit, matchType =>
    let litType := checkLiteralExpr lit
    if !litType.equals matchType then
      throw ("Pattern type mismatch: expected " ++ matchType.toString ++ ", got "
        ++ litType.toString)
    else pure (.literal { lit with type := some litType })
  | .identifier name, matchType => do
    let s ← get
    match s.symbolTable.insert name (some matchType) false with
    | (false, _) => throw ("Variable '" ++ name ++ "' already defined in this scope")
    | (true, t) => do
      setTable t
      pure (.identifier name)
  | .variant enumName variantName subPats, matchType =>
    if !matchType.isEnum then
      throw ("Cannot match variant against non-enum type: " ++ matchType.toString)
    else if enumNameMismatch enumName matchType.getName then
      throw ("Enum type mismatch: expected " ++ matchType.getName ++ ", got " ++ enumName)
    else
      match matchType.findVariant variantName with
      | none => throw ("Variant '" ++ variantName ++ "' not found in enum '"
          ++ (if enumName.isEmpty then matchType.getName else enumName) ++ "'")
      | some variant =>
        match variant.kind with
        | .Unit =>
          if !subPats.isEmpty then
            throw ("Unit variant '" ++ variant.name ++ "' expected 0 patterns, got "
              ++ toString subPats.length)
          else pure (.variant enumName variantName subPats)
        | .Tuple =>
          if subPats.length ≠ variant.tupleTypes.length then
            throw ("Tuple variant '" ++ variant.name ++ "' expected "
              ++ toString variant.tupleTypes.length ++ " patterns, got "
              ++ toString subPats.length)
          else do
            let ps ← analyzePatterns subPats variant.tupleTypes
            pure (.variant enumName variantName ps)
        | .Struct =>
          if subPats.length ≠ variant.structFields.length then
            throw ("Struct variant '" ++ variant.name ++ "' expected "
              ++ toString variant.structFields.length ++ " patterns, got "
              ++ toString subPats.length)
          else do
            let ps ← analyzePatterns subPats (variant.structFields.map (·.type))
            pure (.variant enumName variantName ps)
  | .wildcard, _ => pure .wildcard
/-- The loop of `Sema::analyzePattern` over the sub-patterns and their types. -/
def analyzePatterns : List Pattern → List Ty → SemaM (List Pattern)
  | p :: ps, t :: ts => do
    let p1 ← analyzePattern p t
    let ps1 ← analyzePatterns ps ts
    pure (p1 :: ps1)
  | ps, _ => pure ps
end

/-- The move step of `Sema::analyzeVarDecl`. -/
def moveInitializer (type : Ty) (init : Expr) : SemaM Unit :=
  if !type.isCopyType then
    match init with
    | .identifier _ name => modify fun s => { s with symbolTable := s.symbolTable.markMoved name }
    | _ => pure ()
  else pure ()

/-- The last step of `Sema::analyzeVarDecl`: the variable is declared in the current
scope. -/
def declareVar (decl : VarDecl) (type : Option Ty) : SemaM Unit := do
  let s ← get
  match s.symbolTable.insert decl.name type decl.isMutable decl.isPublic with
  | (false, _) => throw ("Redefinition of variable '" ++ decl.name ++ "'")
  | (true, t) => setTable t

/-- The declared type of `Sema::analyzeVarDecl` against the type of the initializer. -/
def initializedType (declared : Option Ty) (initType : Ty) : Except String Ty :=
  match declared with
  | none => .ok initType
  | some type =>
    if !type.equals initType then
      .error ("Type mismatch in variable declaration: expected " ++ type.toString
        ++ ", got " ++ initType.toString)
    else .ok type

/-- `Sema::analyzeVarDecl`. -/
def analyzeVarDecl (h : SemaHooks) (decl : VarDecl) : SemaM VarDecl := do
  let declared ← resolveTypeOpt (resolveType h) decl.type
  match decl.initializer with
  | some init => do
    let r ← checkExpr h init
    let type ← liftExcept (initializedType declared r.1)
    moveInitializer type init
    declareVar decl (some type)
    pure { decl with type := some type, initializer := some r.2 }
  | none => do
    declareVar decl declared
    pure { decl with type := declared }

/-- The condition check of the `if`, `while`, `do` and `for` statements. -/
def checkCondition (h : SemaHooks) (condition : Expr) : SemaM Expr := do
  let r ← checkExpr h condition
  failIf (!r.1.equals (.primitive .Bool))
    ("Condition must be of type bool, got " ++ r.1.toString)
  pure r.2

/-- `loopDepth++; analyzeBlock(body); loopDepth--;`. -/
def analyzeLoopBody (h : SemaHooks) (body : Block) : SemaM Block := do
  modify fun s => { s with loopDepth := s.loopDepth + 1 }
  let b ← analyzeBlock h body
  modify fun s => { s with loopDepth := s.loopDepth - 1 }
  pure b

/-- `Sema::analyzeIfStmt`. -/
def analyzeIfStmt (h : SemaHooks) (condition : Expr) (thenBlock : Block)
    (elseBlock : Option Block) : SemaM Stmt := do
  let c ← checkCondition h condition
  let t ← analyzeBlock h thenBlock
  match elseBlock with
  | some e => do
    let e1 ← analyzeBlock h e
    pure (.ifStmt c t (some e1))
  | none => pure (.ifStmt c t none)

/-- `Sema::analyzeWhileStmt`. -/
def analyzeWhileStmt (h : SemaHooks) (condition : Expr) (body : Block) : SemaM Stmt := do
  let c ← checkCondition h condition
  let b ← analyzeLoopBody h body
  pure (.whileStmt c b)

/-- `Sema::analyzeDoWhileStmt`. -/
def analyzeDoWhileStmt (h : SemaHooks) (body : Block) (condition : Expr) : SemaM Stmt := do
  let b ← analyzeLoopBody h body
  let c ← checkCondition h condition
  pure (.doWhileStmt b c)

/-- `Sema::analyzeForStmt`. -/
def analyzeForStmt (h : SemaHooks) (init : Option Stmt) (condition step : Option Expr)
    (body : Block) : SemaM Stmt := do
  pushScope
  let init1 ← match init with
    | some st => do
      let st1 ← h.analyze st
      pure (some st1)
    | none => pure none
  let cond1 ← match condition with
    | some c => do
      let c1 ← checkCondition h c
      pure (some c1)
    | none => pure none
  let step1 ← match step with
    | some e => do
      let r ← checkExpr h e
      pure (some r.2)
    | none => pure none
  let b ← analyzeLoopBody h body
  popScope
  pure (.forStmt init1 cond1 step1 b)

/-- The loop body of `Sema::analyzeSwitchStmt`. -/
def analyzeCase (h : SemaHooks) (condType : Ty) (c : CaseStmt) : SemaM CaseStmt := do
  pushScope
  let pat ← match c.isDefault, c.pattern with
    | false, some p => do
      let p1 ← analyzePattern p condType
      pure (some p1)
    | _, p => pure p
  let b ← analyzeBlock h c.body
  popScope
  pure { c with pattern := pat, body := b }

/-- `Sema::analyzeSwitchStmt`. -/
def analyzeSwitchStmt (h : SemaHooks) (condition : Expr) (cases : List CaseStmt) :
    SemaM Stmt := do
  let r ← checkExpr h condition
  modify fun s => { s with switchDepth := s.switchDepth + 1 }
  let cs ← mapMSema (analyzeCase h r.1) cases
  modify fun s => { s with switchDepth := s.switchDepth - 1 }
  pure (.switchStmt r.2 cs)

/-- `Sema::analyzeReturnStmt`. -/
def analyzeReturnStmt (h : SemaHooks) (expression : Option Expr) : SemaM Stmt := do
  let r ← match expression with
    | some e => do
      let r ← checkExpr h e
      pure (r.1, some r.2)
    | none => pure (Ty.primitive .Void, none)
  let s ← get
  match currentReturnType s with
  | some expectedTy =>
    if !r.1.equals expectedTy then
      throw ("Return type mismatch: expected " ++ expectedTy.toString ++ ", got "
        ++ r.1.toString)
    else pure (.returnStmt r.2)
  | none => pure (.returnStmt r.2)

/-- `Sema::analyzeBreakStmt`. -/
def analyzeBreakStmt : SemaM Stmt := do
  let s ← get
  if s.loopDepth = 0 ∧ s.switchDepth = 0 then
    throw "Break statement outside of loop or switch"
  else pure .breakStmt

/-- `Sema::analyzeContinueStmt`. -/
def analyzeContinueStmt : SemaM Stmt := do
  let s ← get
  if s.loopDepth = 0 then throw "Continue statement outside of loop"
  else pure .continueStmt

/-- The signature of a method prototype in `Sema::analyzeRequestDecl`. -/
def resolvePrototype (h : SemaHooks) (member : RequestMember) : SemaM RequestMember :=
  match member.decl with
  | .method method => do
    let ps ← mapMSema (resolveParam h) method.params
    let ret ← resolveType h method.returnType
    pure { member with decl := .method { method with params := ps, returnType := ret } }
  | _ => pure member

/-- The loop of `Sema::analyzeRequestDecl` that registers the generic parameters. -/
def insertTypeParams (t : SymbolTable) : List GenericParam → SymbolTable
  | [] => t
  | p :: ps => insertTypeParams (t.insertType p.name (some (.typeParameter p.name ""))).2 ps

/-- `Sema::analyzeRequestDecl`. -/
def analyzeRequestDecl (h : SemaHooks) (decl : RequestDecl) : SemaM RequestDecl := do
  let s ← get
  match s.symbolTable.insertTypeGlobal decl.name none decl.isPublic
      (some (.requestDecl decl)) with
  | (false, _) => throw ("Request '" ++ decl.name ++ "' already defined")
  | (true, t) => do
    setTable t
    pushScope
    modify fun s1 => { s1 with symbolTable := insertTypeParams s1.symbolTable decl.genericParams }
    let members ← mapMSema (resolvePrototype h) decl.members
    popScope
    let decl1 := { decl with members := members }
    modify fun s2 => { s2 with
      symbolTable := s2.symbolTable.updateTypeDeclGlobal decl.name (.requestDecl decl1) }
    pure decl1

/-- `Sema::analyze` on a non-null node. -/
def analyze (h : SemaHooks) (node : Stmt) : SemaM Stmt :=
  match node with
  | .varDecl d => do
    let d1 ← analyzeVarDecl h d
    pure (.varDecl d1)
  | .structDecl d => do
    let d1 ← analyzeStructDecl h d
    pure (.structDecl d1)
  | .enumDecl d => do
    let d1 ← analyzeEnumDecl h d
    pure (.enumDecl d1)
  | .classDecl d => do
    let d1 ← analyzeClassDecl h d
    pure (.classDecl d1)
  | .requestDecl d => do
    let d1 ← analyzeRequestDecl h d
    pure (.requestDecl d1)
  | .block b => do
    let b1 ← analyzeBlock h b
    pure (.block b1)
  | .functionDecl d => do
    let d1 ← analyzeFunctionDecl h d
    pure (.functionDecl d1)
  | .ifStmt c t e => analyzeIfStmt h c t e
  | .whileStmt c b => analyzeWhileStmt h c b
  | .doWhileStmt b c => analyzeDoWhileStmt h b c
  | .forStmt i c s b => analyzeForStmt h i c s b
  | .switchStmt c cs => analyzeSwitchStmt h c cs
  | .returnStmt e => analyzeReturnStmt h e
  | .breakStmt => analyzeBreakStmt
  | .continueStmt => analyzeContinueStmt
  | .exprStmt e => do
    let r ← checkExpr h e
    pure (.exprStmt r.2)

/-- The analyzer with its recursive calls bounded by `fuel`: at fuel 0 a recursive
call fails. -/
def hooks : Nat → SemaHooks
  | 0 => ⟨fun _ => throw "out of fuel", fun _ => throw "out of fuel",
          fun _ => throw "out of fuel"⟩
  | fuel + 1 => ⟨resolveType (hooks fuel), checkExpr (hooks fuel), analyze (hooks fuel)⟩

/-- The declaration that the parser returns for the source text
`enum Result[T, E] { Ok(T), Err(E) }` of the constructor of `Sema`. -/
def resultDecl : EnumDecl :=
  { name := "Result",
    variants := [{ name := "Ok", variantKind := .Tuple, tupleTypes := [.typeParameter "T" ""] },
                 { name := "Err", variantKind := .Tuple, tupleTypes := [.typeParameter "E" ""] }],
    genericParams := [{ name := "T" }, { name := "E" }] }

/-- The loop body of the constructor and of the drivers: `analyze(node.get());
analyzedNodes.push_back(std::move(node));`. -/
def analyzeAndKeep (h : SemaHooks) (node : Stmt) : SemaM Unit := do
  let node1 ← analyze h node
  let _ ← pushNode node1
  pure ()

/-- `Sema::Sema`: the analyzer after the built-in `Result` was analyzed. -/
def new : Sema :=
  match analyzeAndKeep (hooks 1) (.enumDecl resultDecl) {} with
  | .ok r => r.2
  | .error _ => {}

end Sema

/-! ## Notions used in the statements -/

/-- The number of `*` and `[k]` type constructors around the innermost type. -/
def Ty.depth : Ty → Nat
  | .pointer b => b.depth + 1
  | .array b _ => b.depth + 1
  | _ => 0

/-- The type is built from primitive types and the type parameters `params` by pointer
and array formation. -/
def Ty.simpleOver (params : List String) : Ty → Bool
  | .primitive _ => true
  | .typeParameter n _ => params.contains n
  | .pointer b => b.simpleOver params
  | .array b _ => b.simpleOver params
  | _ => false

/-- The struct type with the name `mangled` and the address `address` whose fields are
the fields of `S`, in declaration order, with the type arguments `A` substituted for the
generic parameters of `S`. -/
def instanceOf (S : StructDecl) (A : List Ty) (mangled : String) (address : Nat) : Ty :=
  .struct mangled
    (S.members.map fun m =>
      Field.mk m.name ((m.type.getD .void).substitute (buildMapping S.genericParams A [])) m.isPublic)
    [] false address

/-! ## Type-bearing positions of the AST -/

/-- The kinds of places where a node of the AST holds a type: a declared type (parameter
type, return type, field type, variant payload, variable annotation, type argument of a
specialization or of an intrinsic), the explicit type of a literal, and the type that the
analyzer computes (`m_type` of an expression or of an `EnumDecl`). -/
inductive TypePos where
  | declared | literal | computed
  deriving DecidableEq, Repr

/-- `P` holds for the type behind a pointer that may be null. -/
def optAll (P : Ty → Bool) : Option Ty → Bool
  | none => true
  | some t => P t

/-- `P` holds at every type-bearing position of a literal. -/
def LiteralExpr.typesAll (P : TypePos → Ty → Bool) (lit : LiteralExpr) : Bool :=
  optAll (P .computed) lit.type && optAll (P .literal) lit.explicitType

mutual
/-- `P` holds at every type-bearing position of an expression. -/
def Expr.typesAll (P : TypePos → Ty → Bool) : Expr → Bool
  | .literal lit => lit.typesAll P
  | .identifier t _ => optAll (P .computed) t
  | .binary t l _ r => optAll (P .computed) t && Expr.typesAll P l && Expr.typesAll P r
  | .unary t _ e => optAll (P .computed) t && Expr.typesAll P e
  | .call t c as => optAll (P .computed) t && Expr.typesAll P c && Expr.typesAllList P as
  | .memberAccess t b _ _ => optAll (P .computed) t && Expr.typesAll P b
  | .structLiteral t b fs =>
    optAll (P .computed) t && Expr.typesAll P b && Expr.typesAllFields P fs
  | .arrayLiteral t es => optAll (P .computed) t && Expr.typesAllList P es
  | .indexing t b i => optAll (P .computed) t && Expr.typesAll P b && Expr.typesAll P i
  | .addressOf t e => optAll (P .computed) t && Expr.typesAll P e
  | .dereference t e => optAll (P .computed) t && Expr.typesAll P e
  | .question t e => optAll (P .computed) t && Expr.typesAll P e
  | .specialization t b as _ =>
    optAll (P .computed) t && Expr.typesAll P b && as.all (P .declared)
  | .intrinsic t _ ta as =>
    optAll (P .computed) t && optAll (P .declared) ta && Expr.typesAllList P as
/-- `typesAll` over a list of expressions. -/
def Expr.typesAllList (P : TypePos → Ty → Bool) : List Expr → Bool
  | [] => true
  | e :: es => Expr.typesAll P e && Expr.typesAllList P es
/-- `typesAll` over the field initialisers of a struct literal. -/
def Expr.typesAllFields (P : TypePos → Ty → Bool) : List FieldInit → Bool
  | [] => true
  | ⟨_, v⟩ :: fs => Expr.typesAll P v && Expr.typesAllFields P fs
end

/-- `typesAll` on an expression that may be absent. -/
def Expr.typesAllOpt (P : TypePos → Ty → Bool) : Option Expr → Bool
  | none => true
  | some e => e.typesAll P

mutual
/-- `P` holds at every type-bearing position of a pattern. -/
def Pattern.typesAll (P : TypePos → Ty → Bool) : Pattern → Bool
  | .literal lit => lit.typesAll P
  | .identifier _ => true
  | .variant _ _ subs => Pattern.typesAllList P subs
  | .wildcard => true
/-- `typesAll` over the sub-patterns. -/
def Pattern.typesAllList (P : TypePos → Ty → Bool) : List Pattern → Bool
  | [] => true
  | p :: ps => Pattern.typesAll P p && Pattern.typesAllList P ps
end

/-- `P` holds at every type-bearing position of a `VarDecl`. -/
def VarDecl.typesAll (P : TypePos → Ty → Bool) (d : VarDecl) : Bool :=
  optAll (P .declared) d.type && Expr.typesAllOpt P d.initializer

/-- `P` holds at every type-bearing position of an `EnumVariant`. -/
def EnumVariant.typesAll (P : TypePos → Ty → Bool) (v : EnumVariant) : Bool :=
  v.tupleTypes.all (P .declared) && v.structFields.all (VarDecl.typesAll P)

/-- `P` holds at every type-bearing position of a `StructDecl`. -/
def StructDecl.typesAll (P : TypePos → Ty → Bool) (d : StructDecl) : Bool :=
  d.members.all (VarDecl.typesAll P)

/-- `P` holds at every type-bearing position of an `EnumDecl`. -/
def EnumDecl.typesAll (P : TypePos → Ty → Bool) (d : EnumDecl) : Bool :=
  optAll (P .computed) d.type && d.variants.all (EnumVariant.typesAll P)

/-- `P .declared` holds for the types of the parameters. -/
def paramsAll (P : TypePos → Ty → Bool) (ps : List Param) : Bool :=
  ps.all fun p => P .declared p.type

mutual
/-- `P` holds at every type-bearing position of a statement. -/
def Stmt.typesAll (P : TypePos → Ty → Bool) : Stmt → Bool
  | .block ss => Stmt.typesAllList P ss
  | .ifStmt c t e => c.typesAll P && Stmt.typesAllList P t && Stmt.typesAllOptList P e
  | .whileStmt c b => c.typesAll P && Stmt.typesAllList P b
  | .doWhileStmt b c => Stmt.typesAllList P b && c.typesAll P
  | .forStmt i c s b =>
    Stmt.typesAllOpt P i && Expr.typesAllOpt P c && Expr.typesAllOpt P s
      && Stmt.typesAllList P b
  | .switchStmt c cs => c.typesAll P && Stmt.typesAllCases P cs
  | .breakStmt => true
  | .continueStmt => true
  | .returnStmt e => Expr.typesAllOpt P e
  | .exprStmt e => e.typesAll P
  | .varDecl d => d.typesAll P
  | .functionDecl d => Stmt.typesAllFunction P d
  | .structDecl d => d.typesAll P
  | .enumDecl d => d.typesAll P
  | .classDecl d => Stmt.typesAllClass P d
  | .requestDecl d => Stmt.typesAllRequest P d
/-- `typesAll` over a statement list. -/
def Stmt.typesAllList (P : TypePos → Ty → Bool) : List Stmt → Bool
  | [] => true
  | s :: ss => Stmt.typesAll P s && Stmt.typesAllList P ss
/-- `typesAll` on an optional block. -/
def Stmt.typesAllOptList (P : TypePos → Ty → Bool) : Option (List Stmt) → Bool
  | none => true
  | some ss => Stmt.typesAllList P ss
/-- `typesAll` on an optional statement. -/
def Stmt.typesAllOpt (P : TypePos → Ty → Bool) : Option Stmt → Bool
  | none => true
  | some s => Stmt.typesAll P s
/-- `typesAll` over the cases of a switch. -/
def Stmt.typesAllCases (P : TypePos → Ty → Bool) : List CaseStmt → Bool
  | [] => true
  | ⟨p, b, _⟩ :: cs =>
    (match p with
      | none => true
      | some pat => pat.typesAll P) && Stmt.typesAllList P b && Stmt.typesAllCases P cs
/-- `typesAll` on a `FunctionDecl`. -/
def Stmt.typesAllFunction (P : TypePos → Ty → Bool) : FunctionDecl → Bool
  | ⟨_, r, ps, b, _, _, _, _⟩ => P .declared r && paramsAll P ps && Stmt.typesAllOptList P b
/-- `typesAll` on a `MethodDecl`. -/
def Stmt.typesAllMethod (P : TypePos → Ty → Bool) : MethodDecl → Bool
  | ⟨_, r, ps, b, _, _⟩ => P .declared r && paramsAll P ps && Stmt.typesAllOptList P b
/-- `typesAll` on a `ConstructorDecl`. -/
def Stmt.typesAllCtor (P : TypePos → Ty → Bool) : ConstructorDecl → Bool
  | ⟨_, ps, b, _⟩ => paramsAll P ps && Stmt.typesAllOptList P b
/-- `typesAll` over the members of a class. -/
def Stmt.typesAllMembers (P : TypePos → Ty → Bool) : List ClassMember → Bool
  | [] => true
  | .field d :: ms => d.typesAll P && Stmt.typesAllMembers P ms
  | .method d :: ms => Stmt.typesAllMethod P d && Stmt.typesAllMembers P ms
  | .ctor d :: ms => Stmt.typesAllCtor P d && Stmt.typesAllMembers P ms
/-- `typesAll` on a `ClassDecl`. -/
def Stmt.typesAllClass (P : TypePos → Ty → Bool) : ClassDecl → Bool
  | ⟨_, ms, _, _, _⟩ => Stmt.typesAllMembers P ms
/-- `typesAll` over the members of a request. -/
def Stmt.typesAllRequestMembers (P : TypePos → Ty → Bool) : List RequestMember → Bool
  | [] => true
  | ⟨.field d, _⟩ :: ms => d.typesAll P && Stmt.typesAllRequestMembers P ms
  | ⟨.method d, _⟩ :: ms => Stmt.typesAllMethod P d && Stmt.typesAllRequestMembers P ms
  | ⟨.variant v, _⟩ :: ms => v.typesAll P && Stmt.typesAllRequestMembers P ms
/-- `typesAll` on a `RequestDecl`. -/
def Stmt.typesAllRequest (P : TypePos → Ty → Bool) : RequestDecl → Bool
  | ⟨_, _, ms, _, _, _⟩ => Stmt.typesAllRequestMembers P ms
end

mutual
/-- A request declaration occurs in the statement. -/
def Stmt.hasRequest : Stmt → Bool
  | .block ss => Stmt.hasRequestList ss
  | .ifStmt _ t e => Stmt.hasRequestList t || Stmt.hasRequestOptList e
  | .whileStmt _ b => Stmt.hasRequestList b
  | .doWhileStmt b _ => Stmt.hasRequestList b
  | .forStmt i _ _ b => Stmt.hasRequestOpt i || Stmt.hasRequestList b
  | .switchStmt _ cs => Stmt.hasRequestCases cs
  | .functionDecl d => Stmt.hasRequestFunction d
  | .classDecl d => Stmt.hasRequestClass d
  | .requestDecl _ => true
  | _ => false
/-- `hasRequest` over a statement list. -/
def Stmt.hasRequestList : List Stmt → Bool
  | [] => false
  | s :: ss => Stmt.hasRequest s || Stmt.hasRequestList ss
/-- `hasRequest` on an optional block. -/
def Stmt.hasRequestOptList : Option (List Stmt) → Bool
  | none => false
  | some ss => Stmt.hasRequestList ss
/-- `hasRequest` on an optional statement. -/
def Stmt.hasRequestOpt : Option Stmt → Bool
  | none => false
  | some s => Stmt.hasRequest s
/-- `hasRequest` over the cases of a switch. -/
def Stmt.hasRequestCases : List CaseStmt → Bool
  | [] => false
  | ⟨_, b, _⟩ :: cs => Stmt.hasRequestList b || Stmt.hasRequestCases cs
/-- `hasRequest` on a `FunctionDecl`. -/
def Stmt.hasRequestFunction : FunctionDecl → Bool
  | ⟨_, _, _, b, _, _, _, _⟩ => Stmt.hasRequestOptList b
/-- `hasRequest` over the members of a class. -/
def Stmt.hasRequestMembers : List ClassMember → Bool
  | [] => false
  | .field _ :: ms => Stmt.hasRequestMembers ms
  | .method ⟨_, _, _, b, _, _⟩ :: ms => Stmt.hasRequestOptList b || Stmt.hasRequestMembers ms
  | .ctor ⟨_, _, b, _⟩ :: ms => Stmt.hasRequestOptList b || Stmt.hasRequestMembers ms
/-- `hasRequest` on a `ClassDecl`. -/
def Stmt.hasRequestClass : ClassDecl → Bool
  | ⟨_, ms, _, _, _⟩ => Stmt.hasRequestMembers ms
end

/-- The characters of an identifier. -/
def isIdentChar (c : Char) : Bool := c.isAlphanum || c = '_'

/-- The maximal runs of identifier characters of a text (between two neighbouring
separators, and at an end that is a separator, the run is empty). -/
def identTokens : List Char → List (List Char)
  | [] => [[]]
  | c :: cs =>
    if isIdentChar c then
      match identTokens cs with
      | t :: ts => (c :: t) :: ts
      | [] => [[c]]
    else [] :: identTokens cs

/-- The text mentions the name `p`: one of its identifiers is `p`. -/
def mentionsName (p : String) (text : String) : Bool :=
  (identTokens text.data).contains p.data

/-- The textual form of the type mentions the name `p`. -/
def Ty.mentions (p : String) (t : Ty) : Bool := mentionsName p t.toString

/-- A type as `Parser::parseType` builds it (primitive, named, type parameter, pointer,
array) in which a name that mentions `p` is `p` itself: no generic use such as `Box[p]`. -/
def Ty.plainFor (p : String) : Ty → Bool
  | .primitive _ => true
  | .typeParameter n _ => n = p || !mentionsName p n
  | .struct n _ _ _ _ => n = p || !mentionsName p n
  | .pointer b => b.plainFor p
  | .array b _ => b.plainFor p
  | _ => false

/-- What the substitution of `p` asks of a position: a declared type is plain for `p`,
the explicit type of a literal does not mention `p`. -/
def substitutableAt (p : String) : TypePos → Ty → Bool
  | .declared, t => t.plainFor p
  | .literal, t => !t.mentions p
  | .computed, _ => true

/-- No position mentions `p`. -/
def freeOfAt (p : String) : TypePos → Ty → Bool := fun _ t => !t.mentions p

/-! ## MIR (`include/MIR/MIR.h`)

One constructor per instruction class, with the members of the class as arguments. A
`double` is kept as its text, as in `LiteralValue`; a `std::shared_ptr<Type>` that the
builder may leave null is an `Option Ty`. -/

/-- The subclasses of `MIRInstruction`. -/
inductive MIRInstruction where
  | Alloca (name : String) (type : Option Ty)
  | ConstInt (dest : String) (value : Int)
  | ConstBool (dest : String) (value : Bool)
  | ConstString (dest : String) (value : String)
  | ConstDouble (dest : String) (value : String)
  | UnaryOp (dest : String) (operand : String) (op : TokenType)
  | BinOp (dest : String) (left : String) (right : String) (op : TokenType)
  | Store (src : String) (dest : String)
  | Load (dest : String) (src : String)
  | StructElementPtr (dest : String) (ptr : String) (structName : String)
      (fieldName : String)
  | ArrayElementPtr (dest : String) (ptr : String) (index : String)
      (elementType : Option Ty)
  | Sizeof (dest : String) (type : Option Ty)
  | Alignof (dest : String) (type : Option Ty)
  | Offsetof (dest : String) (type : Option Ty) (memberName : String)
  | VariantTag (dest : String) (enumPtr : String)
  | VariantData (dest : String) (enumPtr : String) (tag : Int) (args : List String)
  | VariantExtract (dest : String) (enumPtr : String) (tag : Int) (fieldIndex : Int)
      (fieldType : Option Ty)
  | Ret (val : String)
  | Call (dest : String) (callee : String) (args : List String)
  | Br (target : String)
  | CondBr (cond : String) (thenLabel : String) (elseLabel : String)

/-- The test of `BasicBlock::hasTerminator` on one instruction: its kind is `Br`,
`CondBr` or `Ret`. -/
def MIRInstruction.isTerminator : MIRInstruction → Bool
  | .Br _ => true
  | .CondBr _ _ _ => true
  | .Ret _ => true
  | _ => false

/-- The kind of a `Call` instruction. -/
def MIRInstruction.isCall : MIRInstruction → Bool
  | .Call _ _ _ => true
  | _ => false

/-- The class `BasicBlock`. -/
structure BasicBlock where
  name : String
  instructions : List MIRInstruction := []

/-- `BasicBlock::appendInstruction`. -/
def BasicBlock.appendInstruction (b : BasicBlock) (inst : MIRInstruction) : BasicBlock :=
  { b with instructions := b.instructions ++ [inst] }

/-- `BasicBlock::hasTerminator`: the block is not empty and its last instruction is a
terminator. -/
def BasicBlock.hasTerminator (b : BasicBlock) : Bool :=
  match b.instructions.getLast? with
  | none => false
  | some inst => inst.isTerminator

/-- The class `MIRFunction`. A function owns its blocks; `blocks` holds their addresses
in the block store of the builder, in the order of `appendBlock`. -/
structure MIRFunction where
  name : String
  returnType : Ty
  params : List (String × Ty) := []
  blocks : List Nat := []
  isVarArg : Bool := false

/-! ## Builder state (`include/MIR/MIRBuilder.h`)

A `std::map` is an association list ordered by key, a `std::vector` a list in the order of
`push_back`. Objects that the builder holds by pointer live in a store and the pointer is
the index: `blockStore` for `BasicBlock*`, `functionStore` for `MIRFunction*`; the module
lists the functions given to `MIRModule::appendFunction`. -/

/-- The order of `std::string`, on the characters of two strings: the first difference
decides, and a proper prefix is smaller. -/
def charsLt : List Char → List Char → Bool
  | [], [] => false
  | [], _ :: _ => true
  | _ :: _, [] => false
  | a :: as, b :: bs =>
    if a.toNat < b.toNat then true
    else if a = b then charsLt as bs
    else false

/-- `map[k] = v` on a `std::map`: the entry of `k` is assigned or added in key order. -/
def stdMapSet {α : Type} (k : String) (v : α) : List (String × α) → List (String × α)
  | [] => [(k, v)]
  | (k1, v1) :: rest =>
    if charsLt k.data k1.data then (k, v) :: (k1, v1) :: rest
    else if k1 = k then (k, v) :: rest
    else (k1, v1) :: stdMapSet k v rest

/-- `map.erase(k)`. -/
def stdMapErase {α : Type} (k : String) (m : List (String × α)) : List (String × α) :=
  m.filter fun p => p.1 != k

/-- The value of the expression `map[k]` of a `std::map<std::string, std::string>` and
the map after it: a missing key is added with the empty string. -/
def stdMapIndex (k : String) (m : List (String × String)) :
    String × List (String × String) :=
  match m.lookup k with
  | some v => (v, m)
  | none => ("", stdMapSet k "" m)

/-- `MIRBuilder::LocalVar`. -/
structure MIRBuilder.LocalVar where
  name : String
  type : Ty

/-- `MIRBuilder::ShadowedVar`. -/
structure MIRBuilder.ShadowedVar where
  name : String
  oldMirName : String := ""
  oldPtrType : String := ""

/-- `MIRBuilder::Scope`; `vars` is its member `variables`. -/
structure MIRBuilder.Scope where
  vars : List MIRBuilder.LocalVar := []
  shadowed : List MIRBuilder.ShadowedVar := []

/-- `MIRBuilder::LoopContext`. -/
structure MIRBuilder.LoopContext where
  breakLabel : String
  continueLabel : String

/-- `MIRBuilder::StructInfo`. -/
structure MIRBuilder.StructInfo where
  name : String := ""
  type : Option Ty := none
  fieldNames : List String := []
  hasDestructor : Bool := false

/-- The members of the class `MIRBuilder`, with the stores of the objects that it reaches
by pointer. `scopeStack` and `loopStack` keep the order of the vectors: the back is the
last element. -/
structure MIRBuilder where
  blockStore : List BasicBlock := []
  functionStore : List MIRFunction := []
  module : List Nat := []
  currentFunction : Option Nat := none
  currentBlock : Option Nat := none
  tempCount : Nat := 0
  blockCount : Nat := 0
  scopeStack : List MIRBuilder.Scope := []
  loopStack : List MIRBuilder.LoopContext := []
  varMap : List (String × String) := []
  ptrTypeMap : List (String × String) := []
  structTypes : List (String × MIRBuilder.StructInfo) := []
  enumTypes : List (String × Ty) := []
  moduleNames : List String := []

/-- The builder as a computation: a state transformer that may throw a
`std::runtime_error` (its message). A null pointer that the source dereferences is an
error as well. -/
abbrev BuildM := StateT MIRBuilder (Except String)

/-- A pointer to a `BasicBlock`: its address in the block store and the name that
`getName` reads, which never changes. -/
structure BlockPtr where
  index : Nat
  name : String

/-- `MIRModule::getFunctions` of the module that the builder writes to. -/
def MIRBuilder.getFunctions (s : MIRBuilder) : List MIRFunction :=
  s.module.filterMap fun f => s.functionStore[f]?

/-- `MIRFunction::getBlocks`. -/
def MIRBuilder.getBlocks (s : MIRBuilder) (f : MIRFunction) : List BasicBlock :=
  f.blocks.filterMap fun b => s.blockStore[b]?

namespace MIRBuilder

/-- `currentBlock->appendInstruction(inst)`. -/
def emit (inst : MIRInstruction) : BuildM Unit := fun s =>
  match s.currentBlock with
  | none => .error "null currentBlock"
  | some i =>
    match s.blockStore[i]? with
    | none => .error "null currentBlock"
    | some b => .ok ((), { s with blockStore := s.blockStore.set i (b.appendInstruction inst) })

/-- `currentBlock->hasTerminator()`. -/
def hasTerminator : BuildM Bool := fun s =>
  match s.currentBlock with
  | none => .error "null currentBlock"
  | some i =>
    match s.blockStore[i]? with
    | none => .error "null currentBlock"
    | some b => .ok (b.hasTerminator, s)

/-- The assignment `currentBlock = block`. -/
def setCurrentBlock (block : BlockPtr) : BuildM Unit := fun s =>
  .ok ((), { s with currentBlock := some block.index })

/-- The statement `if (!currentBlock->hasTerminator()) currentBlock->appendInstruction(inst)`. -/
def emitUnlessTerminated (inst : MIRInstruction) : BuildM Unit := do
  let terminated ← hasTerminator
  if terminated then pure () else emit inst

/-- `MIRBuilder::newTemp`. -/
def newTemp : BuildM String := fun s =>
  .ok ("%t" ++ Nat.repr s.tempCount, { s with tempCount := s.tempCount + 1 })

/-- `MIRBuilder::newBlock`. -/
def newBlock (name : String) : BuildM BlockPtr := fun s =>
  match s.currentFunction with
  | none => .error "No current function to add block to"
  | some f =>
    match s.functionStore[f]? with
    | none => .error "null currentFunction"
    | some func =>
      let uniqueName := name ++ "." ++ Nat.repr s.blockCount
      .ok (⟨s.blockStore.length, uniqueName⟩,
        { s with
          blockCount := s.blockCount + 1
          blockStore := s.blockStore ++ [{ name := uniqueName }]
          functionStore :=
            s.functionStore.set f { func with blocks := func.blocks ++ [s.blockStore.length] } })

/-- `MIRBuilder::pushScope`. -/
def pushScope : BuildM Unit :=
  modify fun s => { s with scopeStack := s.scopeStack ++ [{}] }

/-- The value of `ptrTypeMap[k]`. -/
def ptrTypeMapIndex (k : String) : BuildM String := fun s =>
  .ok ((stdMapIndex k s.ptrTypeMap).1, { s with ptrTypeMap := (stdMapIndex k s.ptrTypeMap).2 })

/-- The value of `varMap[k]`. -/
def varMapIndex (k : String) : BuildM String := fun s =>
  .ok ((stdMapIndex k s.varMap).1, { s with varMap := (stdMapIndex k s.varMap).2 })

/-- The assignment `ptrTypeMap[k] = v`. -/
def setPtrType (k v : String) : BuildM Unit :=
  modify fun s => { s with ptrTypeMap := stdMapSet k v s.ptrTypeMap }

/-- The assignment `varMap[k] = v`. -/
def setVar (k v : String) : BuildM Unit :=
  modify fun s => { s with varMap := stdMapSet k v s.varMap }

/-- The test `type->isClass() && structTypes.count(name) && structTypes[name].hasDestructor`
of `popScope` and `emitAllDestructors`. -/
def needsDestructor (structTypes : List (String × StructInfo)) (type : Ty) : Bool :=
  type.isClass && ((structTypes.lookup type.getName).map (·.hasDestructor)).getD false

/-- The name `C_~C` of the destructor of the class of `type`. -/
def dtorName (type : Ty) : String := type.getName ++ "_~" ++ type.getName

/-- The first statement of the variable loop of `popScope`: the destructor call for a
variable whose class has a destructor, on the address `varMap[name]`. -/
def destroyVariable (v : LocalVar) : BuildM Unit := do
  let s ← get
  if needsDestructor s.structTypes v.type then do
    let addr ← varMapIndex v.name
    emit (.Call "" (dtorName v.type) [addr])
  else pure ()

/-- The rest of the variable loop of `popScope`: a variable that shadows no other is
erased from `varMap`, and its address from `ptrTypeMap`. -/
def forgetVariable (shadowed : List ShadowedVar) (v : LocalVar) : BuildM Unit :=
  if shadowed.any fun sh => sh.name == v.name then pure ()
  else do
    let mirName ← varMapIndex v.name
    modify fun s => { s with
      varMap := stdMapErase v.name s.varMap
      ptrTypeMap := stdMapErase mirName s.ptrTypeMap }

/-- One turn of the variable loop of `popScope`. -/
def popVariable (shadowed : List ShadowedVar) (v : LocalVar) : BuildM Unit := do
  destroyVariable v
  forgetVariable shadowed v

/-- One turn of the loop of `popScope` over the shadowed variables. -/
def restoreShadowed (sh : ShadowedVar) : BuildM Unit := do
  setVar sh.name sh.oldMirName
  if sh.oldPtrType.isEmpty then pure () else setPtrType sh.oldMirName sh.oldPtrType

/-- A loop `for (x : xs) body(x)`. -/
def forEach {α : Type} (body : α → BuildM Unit) : List α → BuildM Unit
  | [] => pure ()
  | x :: xs => do
    body x
    forEach body xs

/-- `MIRBuilder::popScope`. -/
def popScope : BuildM Unit := do
  let s ← get
  match s.scopeStack.getLast? with
  | none => pure ()
  | some scope => do
    forEach (popVariable scope.shadowed) scope.vars.reverse
    forEach restoreShadowed scope.shadowed
    modify fun s => { s with scopeStack := s.scopeStack.dropLast }

/-- One turn of the inner loop of `emitAllDestructors`. -/
def emitDestructor (v : LocalVar) : BuildM Unit := do
  let s ← get
  if needsDestructor s.structTypes v.type then
    match s.varMap.lookup v.name with
    | some addr => emit (.Call "" (dtorName v.type) [addr])
    | none => pure ()
  else pure ()

/-- `MIRBuilder::emitAllDestructors`: the scopes from the back of the stack to its
front, the variables of each from the last to the first. -/
def emitAllDestructors : BuildM Unit := do
  let s ← get
  forEach (fun scope : Scope => forEach emitDestructor scope.vars.reverse)
    s.scopeStack.reverse

end MIRBuilder

/-! ## MIR builder, expressions (`src/MIR/MIRBuilder.cpp`)

A function of the builder that calls `lowerExpr` or `lowerAddr` on a part of its argument
takes the lowering of that part as a computation; `lowerExpr` and `lowerAddr` below pass
their own recursive calls. -/

/-- `std::string::find` of a pattern: the position of its first occurrence. -/
def findSub (pat : List Char) : List Char → Option Nat
  | [] => if pat.isEmpty then some 0 else none
  | c :: cs => if pat.isPrefixOf (c :: cs) then some 0 else (findSub pat cs).map (· + 1)

namespace MIRBuilder

/-- The loop `for (auto const& [name, enumTy] : enumTypes)` that looks for the first enum,
in key order, with a variant of the given name: the enum and the tag. -/
def findVariantOwner (enumTypes : List (String × Ty)) (name : String) : Option (Ty × Int) :=
  match enumTypes.find? fun p => p.2.findVariantIndex name != -1 with
  | some p => some (p.2, p.2.findVariantIndex name)
  | none => none

/-- The instructions that build a value of an enum variant: a slot, the lowered
arguments, `VariantData`, and a load of the slot. -/
def emitVariant (enumTy : Ty) (tag : Int) (args : BuildM (List String)) : BuildM String := do
  let enumPtr ← newTemp
  emit (.Alloca enumPtr (some enumTy))
  let variantArgs ← args
  let voidDest ← newTemp
  emit (.VariantData voidDest enumPtr tag variantArgs)
  let result ← newTemp
  emit (.Load result enumPtr)
  pure result

/-- The end of `lowerCallExpr`: a fresh destination and the `Call`. -/
def finishCall (calleeName : String) (args : List String) : BuildM String := do
  let dest ← newTemp
  emit (.Call dest calleeName args)
  pure dest

/-- `MIRBuilder::lowerLiteralExpr`. -/
def lowerLiteralExpr (expr : LiteralExpr) : BuildM String := do
  let temp ← newTemp
  emit (match expr.value with
    | .bool b => .ConstInt temp (if b then 1 else 0)
    | .int v => .ConstInt temp v
    | .string v => .ConstString temp v
    | .double v => .ConstDouble temp v
    | .nullptr => .ConstInt temp 0)
  pure temp

/-- `MIRBuilder::lowerBinaryExpr`; `leftAddr`, `left`, `right` are `lowerAddr` of the left
operand and `lowerExpr` of the two operands. -/
def lowerBinaryExpr (op : TokenType) (leftAddr left right : BuildM String) :
    BuildM String :=
  if op = .Equal then do
    let dest ← leftAddr
    let src ← right
    emit (.Store src dest)
    pure src
  else do
    let l ← left
    let r ← right
    let dest ← newTemp
    emit (.BinOp dest l r op)
    pure dest

/-- `MIRBuilder::lowerUnaryExpr`. -/
def lowerUnaryExpr (op : TokenType) (operand : BuildM String) : BuildM String := do
  let v ← operand
  let dest ← newTemp
  emit (.UnaryOp dest v op)
  pure dest

/-- `MIRBuilder::lowerIdentifierExpr`. -/
def lowerIdentifierExpr (name : String) : BuildM String := do
  let s ← get
  match s.varMap.lookup name with
  | some src => do
    let dest ← newTemp
    emit (.Load dest src)
    pure dest
  | none =>
    match findVariantOwner s.enumTypes name with
    | some (enumTy, tag) => emitVariant enumTy tag (pure [])
    | none => throw ("Undefined identifier in MIR lowering: " ++ name)

/-- The branch of `lowerCallExpr` for a callee `base.member`. -/
def lowerMemberCall (base : Expr) (memberName : String) (args : BuildM (List String)) :
    BuildM String := do
  let s ← get
  let baseName := match base with
    | .identifier _ n => n
    | .specialization _ _ _ m => m
    | _ => ""
  let isVariable := match base with
    | .identifier _ n => mapHas n s.varMap
    | _ => false
  if !baseName.isEmpty && !isVariable then
    if s.moduleNames.contains baseName then do
      let lowered ← args
      finishCall (baseName ++ "_" ++ memberName) lowered
    else
      match s.enumTypes.lookup baseName with
      | some enumTy =>
        if enumTy.findVariantIndex memberName != -1 then
          emitVariant enumTy (enumTy.findVariantIndex memberName) args
        else finishCall "" []
      | none =>
        if mapHas baseName s.structTypes then do
          let lowered ← args
          finishCall (baseName ++ "_" ++ memberName) lowered
        else finishCall "" []
  else if isVariable then
    let allocaPtr := (s.varMap.lookup baseName).getD ""
    match s.ptrTypeMap.lookup allocaPtr with
    | none => throw ("Unknown type for variable: " ++ baseName)
    | some className => do
      let lowered ← args
      finishCall (className ++ "_" ++ memberName) (allocaPtr :: lowered)
  else throw "Complex base in method call not supported yet"

/-- `MIRBuilder::lowerCallExpr`; `selfAddr` is `lowerAddr` of the object of a specialized
method call and `args` lowers the arguments in order. -/
def lowerCallExpr (callee : Expr) (selfAddr : BuildM String) (args : BuildM (List String)) :
    BuildM String := do
  let s ← get
  match callee with
  | .identifier _ calleeName =>
    match s.structTypes.lookup calleeName with
    | some info => do
      let objPtr ← newTemp
      emit (.Alloca objPtr info.type)
      setPtrType objPtr calleeName
      let lowered ← args
      let voidDest ← newTemp
      emit (.Call voidDest (calleeName ++ "_" ++ calleeName) (objPtr :: lowered))
      let result ← newTemp
      emit (.Load result objPtr)
      pure result
    | none =>
      match findVariantOwner s.enumTypes calleeName with
      | some (enumTy, tag) => emitVariant enumTy tag args
      | none => do
        let lowered ← args
        finishCall calleeName lowered
  | .specialization _ base _ mangledName =>
    if mangledName.isEmpty then
      throw ("Specialization name not resolved by Sema: " ++ callee.toString)
    else do
      let self ← match base with
        | .memberAccess _ _ _ _ => (do let a ← selfAddr; pure [a])
        | _ => pure []
      let lowered ← args
      finishCall mangledName (self ++ lowered)
  | .memberAccess _ base memberName _ => lowerMemberCall base memberName args
  | _ => throw ("Complex callee not supported in MIRBuilder yet: " ++ callee.toString)

/-- `MIRBuilder::lowerMemberAccessExpr`; `baseAddr` is `lowerAddr` of the base. -/
def lowerMemberAccessExpr (base : Expr) (memberName : String) (baseAddr : BuildM String) :
    BuildM String := do
  let s ← get
  let enumName : Option String := match base with
    | .identifier _ n => some n
    | .specialization _ _ _ m => some m
    | _ => none
  let variant : Option (Ty × Int) := match enumName.bind fun n => s.enumTypes.lookup n with
    | some enumTy =>
      if enumTy.findVariantIndex memberName != -1 then
        some (enumTy, enumTy.findVariantIndex memberName)
      else none
    | none => none
  match variant with
  | some (enumTy, tag) => emitVariant enumTy tag (pure [])
  | none => do
    let basePtr ← baseAddr
    let structName ← ptrTypeMapIndex basePtr
    let fieldPtr ← newTemp
    emit (.StructElementPtr fieldPtr basePtr structName memberName)
    let dest ← newTemp
    emit (.Load dest fieldPtr)
    pure dest

/-- The argument loop of the variant branch of `lowerStructLiteralExpr`: for every field
of the variant, the first initializer of that name. -/
def lowerVariantArgs (inits : List (String × BuildM String)) : List Field → BuildM (List String)
  | [] => pure []
  | f :: fs =>
    match inits.find? fun init => init.1 == f.name with
    | some init => do
      let v ← init.2
      let vs ← lowerVariantArgs inits fs
      pure (v :: vs)
    | none => lowerVariantArgs inits fs

/-- The field loop of `lowerStructLiteralExpr`. -/
def storeFields (structPtr name : String) : List (String × BuildM String) → BuildM Unit
  | [] => pure ()
  | init :: rest => do
    let val ← init.2
    let fieldPtr ← newTemp
    emit (.StructElementPtr fieldPtr structPtr name init.1)
    emit (.Store val fieldPtr)
    storeFields structPtr name rest

/-- The branch of `lowerStructLiteralExpr` for a name `Enum::Variant` that is no struct. -/
def lowerVariantLiteral (name : String) (inits : List (String × BuildM String)) :
    BuildM String := do
  let s ← get
  let unknown : BuildM String := throw ("Unknown struct type in MIR lowering: " ++ name)
  match findSub "::".data name.data with
  | none => unknown
  | some pos =>
    let enumName := String.mk (name.data.take pos)
    let variantName := String.mk (name.data.drop (pos + 2))
    match s.enumTypes.lookup enumName with
    | none => unknown
    | some enumTy =>
      if enumTy.findVariantIndex variantName != -1 then
        match enumTy.getVariants[(enumTy.findVariantIndex variantName).toNat]? with
        | none => throw "variant index out of range"
        | some variant => do
          let enumPtr ← newTemp
          emit (.Alloca enumPtr (some enumTy))
          setPtrType enumPtr enumName
          let args ← lowerVariantArgs inits variant.structFields
          let voidDest ← newTemp
          emit (.VariantData voidDest enumPtr (enumTy.findVariantIndex variantName) args)
          let result ← newTemp
          emit (.Load result enumPtr)
          pure result
      else unknown

/-- `MIRBuilder::lowerStructLiteralExpr`; `inits` pairs the name of every initializer
with `lowerExpr` of its value. -/
def lowerStructLiteralExpr (base : Expr) (inits : List (String × BuildM String)) :
    BuildM String := do
  let s ← get
  let name := match base with
    | .specialization _ _ _ mangledName => mangledName
    | _ => base.toString
  match s.structTypes.lookup name with
  | none => lowerVariantLiteral name inits
  | some info => do
    let structPtr ← newTemp
    emit (.Alloca structPtr info.type)
    setPtrType structPtr name
    storeFields structPtr name inits
    let dest ← newTemp
    emit (.Load dest structPtr)
    pure dest

/-- The element loop of `lowerArrayLiteralExpr`, from index `i`. -/
def storeElements (arrayPtr : String) : Nat → List (BuildM String) → BuildM Unit
  | _, [] => pure ()
  | i, element :: rest => do
    let val ← element
    let indexTemp ← newTemp
    emit (.ConstInt indexTemp i)
    let elPtr ← newTemp
    emit (.ArrayElementPtr elPtr arrayPtr indexTemp (some Ty.i32))
    emit (.Store val elPtr)
    storeElements arrayPtr (i + 1) rest

/-- `MIRBuilder::lowerArrayLiteralExpr`; `elements` are `lowerExpr` of the elements. -/
def lowerArrayLiteralExpr (elements : List (BuildM String)) : BuildM String := do
  let arrayPtr ← newTemp
  emit (.Alloca arrayPtr (some (.array Ty.i32 elements.length)))
  storeElements arrayPtr 0 elements
  let dest ← newTemp
  emit (.Load dest arrayPtr)
  pure dest

/-- The case `IndexingExpr` of `lowerAddr`; `baseType` is the type of the base, which is
cast to `ArrayType` and read. -/
def lowerIndexingAddr (baseType : Option Ty) (baseAddr index : BuildM String) :
    BuildM String := do
  let addr ← baseAddr
  let indexVal ← index
  let result ← newTemp
  match baseType with
  | some (.array elementType _) => do
    emit (.ArrayElementPtr result addr indexVal (some elementType))
    pure result
  | _ => throw "null ArrayType"

/-- The case `MemberAccessExpr` of `lowerAddr`. -/
def lowerMemberAddr (memberName : String) (baseAddr : BuildM String) : BuildM String := do
  let addr ← baseAddr
  let structName ← ptrTypeMapIndex addr
  let result ← newTemp
  emit (.StructElementPtr result addr structName memberName)
  pure result

/-- The case `IdentifierExpr` of `lowerAddr`. -/
def lowerIdentifierAddr (name : String) : BuildM String := do
  let s ← get
  match s.varMap.lookup name with
  | some addr => pure addr
  | none => throw ("Undefined variable: " ++ name)

/-- `MIRBuilder::lowerIndexingExpr`; `elementAddr` is `lowerAddr` of the expression. -/
def lowerIndexingExpr (elementAddr : BuildM String) : BuildM String := do
  let elPtr ← elementAddr
  let dest ← newTemp
  emit (.Load dest elPtr)
  pure dest

/-- `MIRBuilder::lowerDereferenceExpr`. -/
def lowerDereferenceExpr (operand : BuildM String) : BuildM String := do
  let ptr ← operand
  let dest ← newTemp
  emit (.Load dest ptr)
  pure dest

/-- The type `enumTy->getVariants()[0].tupleTypes[0]` read by `lowerQuestionExpr`. -/
def okTypeOf (enumTy : Option Ty) : Option Ty :=
  match enumTy with
  | some t => (t.getVariants.head?).bind fun v => v.tupleTypes.head?
  | none => none

/-- `MIRBuilder::lowerQuestionExpr`; `operandType` is the type of the operand, which is
cast to `EnumType`, and `operand` its lowering. -/
def lowerQuestionExpr (operandType : Option Ty) (operand : BuildM String) :
    BuildM String := do
  let resVal ← operand
  let enumTy := operandType.filter Ty.isEnum
  let resAddr ← newTemp
  emit (.Alloca resAddr enumTy)
  emit (.Store resVal resAddr)
  let tag ← newTemp
  emit (.VariantTag tag resAddr)
  let okBB ← newBlock "q.ok"
  let errBB ← newBlock "q.err"
  let mergeBB ← newBlock "q.merge"
  let isErr ← newTemp
  let zero ← newTemp
  emit (.ConstInt zero 0)
  emit (.BinOp isErr tag zero .NotEqual)
  emit (.CondBr isErr errBB.name okBB.name)
  setCurrentBlock errBB
  emitAllDestructors
  emit (.Ret resVal)
  setCurrentBlock okBB
  let okVal ← newTemp
  match okTypeOf enumTy with
  | none => throw "null EnumType"
  | some okType => do
    emit (.VariantExtract okVal resAddr 0 0 (some okType))
    emit (.Br mergeBB.name)
    setCurrentBlock mergeBB
    pure okVal

/-- The element `expr->getArgs()[0]` that an intrinsic reads. -/
def firstArg {α : Type} (arg0 : Option α) : BuildM α :=
  match arg0 with
  | some a => pure a
  | none => throw "argument index out of range"

/-- `MIRBuilder::lowerIntrinsicExpr`; `arg0Text` is `toString` of the first argument and
`arg0` its lowering, when there is one. -/
def lowerIntrinsicExpr (kind : IntrinsicKind) (typeArg : Option Ty)
    (arg0Text : Option String) (arg0 : Option (BuildM String)) : BuildM String := do
  let result ← newTemp
  match kind with
  | .Sizeof => do
    emit (.Sizeof result typeArg)
    pure result
  | .Alignof => do
    emit (.Alignof result typeArg)
    pure result
  | .Offsetof => do
    let memberName ← firstArg arg0Text
    emit (.Offsetof result typeArg memberName)
    pure result
  | .Malloc => do
    let sizeVal ← match arg0 with
      | none => (do
        let sizeTemp ← newTemp
        emit (.Sizeof sizeTemp typeArg)
        pure sizeTemp)
      | some lowerArg => lowerArg
    emit (.Call result "malloc" [sizeVal])
    pure result
  | .Alloca => do
    emit (.Alloca result typeArg)
    pure result
  | .Free => do
    let lowerArg ← firstArg arg0
    let ptrVal ← lowerArg
    emit (.Call "" "free" [ptrVal])
    pure result

mutual
/-- `MIRBuilder::lowerExpr`. -/
def lowerExpr : Expr → BuildM String
  | .literal lit => lowerLiteralExpr lit
  | .identifier _ name => lowerIdentifierExpr name
  | .binary _ left op right =>
    lowerBinaryExpr op (lowerAddr left) (lowerExpr left) (lowerExpr right)
  | .unary _ op operand => lowerUnaryExpr op (lowerExpr operand)
  | .call _ callee args => lowerCallExpr callee (lowerSelfAddr callee) (lowerArgs args)
  | .memberAccess _ base memberName _ =>
    lowerMemberAccessExpr base memberName (lowerAddr base)
  | .structLiteral _ base fields => lowerStructLiteralExpr base (lowerInits fields)
  | .arrayLiteral _ elements => lowerArrayLiteralExpr (lowerElements elements)
  | .indexing _ base index =>
    lowerIndexingExpr (lowerIndexingAddr base.getType (lowerAddr base) (lowerExpr index))
  | .addressOf _ operand => lowerAddr operand
  | .dereference _ operand => lowerDereferenceExpr (lowerExpr operand)
  | .question _ operand => lowerQuestionExpr operand.getType (lowerExpr operand)
  | .specialization _ _ _ _ => pure ""
  | .intrinsic _ kind typeArg args =>
    lowerIntrinsicExpr kind typeArg (args.head?.map Expr.toString) (lowerFirst args)
/-- `MIRBuilder::lowerAddr`. -/
def lowerAddr : Expr → BuildM String
  | .identifier _ name => lowerIdentifierAddr name
  | .memberAccess _ base memberName _ => lowerMemberAddr memberName (lowerAddr base)
  | .indexing _ base index =>
    lowerIndexingAddr base.getType (lowerAddr base) (lowerExpr index)
  | .dereference _ operand => lowerExpr operand
  | _ => pure ""
/-- The call `lowerAddr(memAccess->getBase())` of `lowerCallExpr` for a callee that is a
specialization of a member access. -/
def lowerSelfAddr : Expr → BuildM String
  | .specialization _ (.memberAccess _ base _ _) _ _ => lowerAddr base
  | _ => pure ""
/-- The loop `for (arg : args) push_back(lowerExpr(arg))`. -/
def lowerArgs : List Expr → BuildM (List String)
  | [] => pure []
  | arg :: rest => do
    let v ← lowerExpr arg
    let vs ← lowerArgs rest
    pure (v :: vs)
/-- The name of every initializer of a struct literal with `lowerExpr` of its value. -/
def lowerInits : List (FieldInitOf Expr) → List (String × BuildM String)
  | [] => []
  | ⟨name, value⟩ :: rest => (name, lowerExpr value) :: lowerInits rest
/-- `lowerExpr` of every element of an array literal. -/
def lowerElements : List Expr → List (BuildM String)
  | [] => []
  | element :: rest => lowerExpr element :: lowerElements rest
/-- `lowerExpr(expr->getArgs()[0])` of an intrinsic, when there is an argument. -/
def lowerFirst : List Expr → Option (BuildM String)
  | [] => none
  | arg :: _ => some (lowerExpr arg)
end

end MIRBuilder

/-! ## MIR builder, statements and declarations (`src/MIR/MIRBuilder.cpp`)

As for expressions, a function takes the lowering of the blocks and expressions of its
argument as computations, and `lower` passes its recursive calls. -/

namespace MIRBuilder

/-- `new MIRFunction(...)`: the function is put in the function store. -/
def newFunction (func : MIRFunction) : BuildM Nat := fun s =>
  .ok (s.functionStore.length, { s with functionStore := s.functionStore ++ [func] })

/-- The creation of the entry block of a function: `currentBlock = entry.get()` and
`currentFunction->appendBlock(std::move(entry))`. -/
def enterFunction (func : Nat) (entryName : String) : BuildM Unit := fun s =>
  match s.functionStore[func]? with
  | none => .error "null currentFunction"
  | some f =>
    .ok ((), { s with
      currentBlock := some s.blockStore.length
      blockStore := s.blockStore ++ [{ name := entryName }]
      functionStore := s.functionStore.set func { f with blocks := f.blocks ++ [s.blockStore.length] } })

/-- The end of the lowering of a function: `module.appendFunction(std::move(func))`,
`currentFunction = nullptr`, `currentBlock = nullptr`. -/
def leaveFunction (func : Nat) : BuildM Unit :=
  modify fun s => { s with
    module := s.module ++ [func]
    currentFunction := none
    currentBlock := none }

/-- The entries of `ptrTypeMap` for a parameter slot: the struct of the parameter or the
struct that it points to. -/
def registerParamType (stackName : String) (type : Ty) : BuildM Unit :=
  if type.isStruct then setPtrType stackName type.getName
  else
    match type with
    | .pointer baseType =>
      if baseType.isStruct then setPtrType stackName baseType.getName else pure ()
    | _ => pure ()

/-- `scopeStack.back().variables.push_back(v)` under `if (!scopeStack.empty())`. -/
def pushVariable (v : LocalVar) : BuildM Unit :=
  modify fun s =>
    match s.scopeStack.getLast? with
    | none => s
    | some scope =>
      { s with scopeStack := s.scopeStack.dropLast ++ [{ scope with vars := scope.vars ++ [v] }] }

/-- The record of a shadowed variable in `lowerVarDecl`, under
`if (!scopeStack.empty())` and `if (varMap.count(shadow.name))`. -/
def pushShadowed (name : String) : BuildM Unit :=
  modify fun s =>
    match s.scopeStack.getLast?, s.varMap.lookup name with
    | some scope, some oldMirName =>
      let shadow : ShadowedVar :=
        { name := name, oldMirName := oldMirName
          oldPtrType := (s.ptrTypeMap.lookup oldMirName).getD "" }
      { s with
        scopeStack := s.scopeStack.dropLast ++ [{ scope with shadowed := scope.shadowed ++ [shadow] }] }
    | _, _ => s

/-- The type of a declared variable in `lowerVarDecl`: the declared type, else the
registered struct of a struct literal initializer, else `i32`. -/
def varDeclType (structTypes : List (String × StructInfo)) (decl : VarDecl) : Ty :=
  let inferred : Option Ty :=
    match decl.type, decl.initializer with
    | some t, _ => some t
    | none, some (.structLiteral _ base _) =>
      (structTypes.lookup base.toString).bind fun info => info.type
    | none, _ => none
  inferred.getD Ty.i32

/-- `MIRBuilder::lowerVarDecl`; `init` is `lowerExpr` of the initializer. -/
def lowerVarDecl (decl : VarDecl) (init : Option (BuildM String)) : BuildM Unit := do
  let s0 ← get
  if s0.currentBlock.isNone then throw "No current block to lower VarDecl"
  else do
    let initVal ← match init with
      | some lowerInit => lowerInit
      | none => pure ""
    let s ← get
    let type := varDeclType s.structTypes decl
    let mirName := "%" ++ decl.name
    emit (.Alloca mirName (some type))
    pushVariable ⟨decl.name, type⟩
    pushShadowed decl.name
    setVar decl.name mirName
    (if type.isStruct then setPtrType mirName type.getName else pure ())
    if initVal.isEmpty then pure () else emit (.Store initVal mirName)

/-- One turn of the statement loop of `lowerBlock`: `if (currentBlock->hasTerminator())
break; lower(stmt);` and the rest of the loop. -/
def lowerNext (stmt rest : BuildM Unit) : BuildM Unit := do
  let terminated ← hasTerminator
  if terminated then pure ()
  else do
    stmt
    rest

/-- `MIRBuilder::lowerBlock`; `statements` is its statement loop. -/
def lowerBlock (statements : BuildM Unit) (shouldPushScope : Bool) : BuildM Unit := do
  (if shouldPushScope then pushScope else pure ())
  statements
  if shouldPushScope then popScope else pure ()

/-- A block that the source dereferences: `lowerBlock(nullptr)` is an error. -/
def lowerBody (body : Option (BuildM Unit)) : BuildM Unit :=
  match body with
  | some lowerIt => lowerIt
  | none => throw "null Block"

/-- One turn of the parameter loop of `lowerFunctionDecl`. -/
def lowerFunctionParam (param : Param) : BuildM Unit := do
  let stackName := "%" ++ param.name ++ ".addr"
  emit (.Alloca stackName (some param.type))
  emit (.Store ("%" ++ param.name) stackName)
  setVar param.name stackName
  pushVariable ⟨param.name, param.type⟩
  registerParamType stackName param.type

/-- The implicit return of `lowerFunctionDecl` when the body leaves its block open. -/
def implicitReturn (returnType : Ty) : BuildM Unit := do
  popScope
  if returnType.isVoid then emit (.Ret "")
  else if returnType.isInteger then do
    let temp ← newTemp
    emit (.ConstInt temp 0)
    emit (.Ret temp)
  else pure ()

/-- `MIRBuilder::lowerFunctionDecl`; `body` is `lowerBlock(decl->getBody(), false)`. The
parameters are given to the function when it is created. -/
def lowerFunctionDecl (decl : FunctionDecl) (body : Option (BuildM Unit)) : BuildM Unit := do
  modify fun s => { s with scopeStack := [], varMap := [], ptrTypeMap := [], tempCount := 0 }
  let func ← newFunction
    { name := decl.name, returnType := decl.returnType
      params := decl.params.map fun p => (p.name, p.type)
      isVarArg := decl.isVarArg }
  modify fun s => { s with currentFunction := some func }
  if decl.isExtern then
    modify fun s => { s with module := s.module ++ [func], currentFunction := none }
  else do
    enterFunction func "entry.0"
    modify fun s => { s with blockCount := s.blockCount + 1 }
    pushScope
    forEach lowerFunctionParam decl.params
    lowerBody body
    let terminated ← hasTerminator
    (if terminated then pure () else implicitReturn decl.returnType)
    leaveFunction func

/-- One turn of the parameter loop of `lowerMethodDecl` and `lowerConstructorDecl`. -/
def lowerMethodParam (param : Param) : BuildM Unit := do
  let stackName := "%" ++ param.name ++ ".addr"
  emit (.Alloca stackName (some param.type))
  emit (.Store ("%" ++ param.name) stackName)
  setVar param.name stackName
  registerParamType stackName param.type

/-- `MIRBuilder::lowerMethodDecl`; `body` is `lowerBlock(decl->getBody())`. -/
def lowerMethodDecl (decl : MethodDecl) (className : String) (body : Option (BuildM Unit)) :
    BuildM Unit := do
  let func ← newFunction
    { name := className ++ "_" ++ decl.name, returnType := decl.returnType
      params := decl.params.map fun p => (p.name, p.type) }
  modify fun s => { s with currentFunction := some func }
  enterFunction func "entry"
  forEach lowerMethodParam decl.params
  lowerBody body
  let terminated ← hasTerminator
  (if terminated then pure ()
    else if decl.returnType.isVoid then emit (.Ret "") else pure ())
  leaveFunction func

/-- `MIRBuilder::lowerConstructorDecl`; `body` is `lowerBlock(decl->getBody())`. -/
def lowerConstructorDecl (decl : ConstructorDecl) (className : String)
    (body : Option (BuildM Unit)) : BuildM Unit := do
  let s ← get
  let classType : Option Ty := ((s.structTypes.lookup className).getD {}).type
  match classType with
  | none => throw "null class type"
  | some classType => do
    let selfPtrType : Ty := .pointer classType
    let func ← newFunction
      { name := className ++ "_" ++ decl.name, returnType := Ty.void
        params := ("self", selfPtrType) :: decl.params.map fun p => (p.name, p.type) }
    modify fun s => { s with currentFunction := some func }
    enterFunction func "entry"
    emit (.Alloca "%self.addr" (some selfPtrType))
    emit (.Store "%self" "%self.addr")
    setVar "self" "%self.addr"
    setPtrType "%self.addr" className
    forEach lowerMethodParam decl.params
    lowerBody body
    emitUnlessTerminated (.Ret "")
    leaveFunction func

/-- The fields of the `StructType` that `lowerStructDecl` and `lowerClassDecl` build. A
member without a type, which the analyzer rejects, cannot be a `Field`: it is an error. -/
def fieldsOf : List VarDecl → Except String (List Field)
  | [] => .ok []
  | member :: rest =>
    match member.type, fieldsOf rest with
    | some t, .ok fields => .ok (Field.mk member.name t member.isPublic :: fields)
    | none, _ => .error "null field type"
    | _, .error e => .error e

/-- `MIRBuilder::lowerStructDecl`. -/
def lowerStructDecl (decl : StructDecl) : BuildM Unit :=
  match fieldsOf decl.members with
  | .error e => throw e
  | .ok structFields =>
    modify fun s => { s with
      structTypes := stdMapSet decl.name
        { name := decl.name, type := some (.struct decl.name structFields [] false 0)
          fieldNames := decl.members.map fun member => member.name }
        s.structTypes }

/-- `MIRBuilder::lowerEnumDecl`. -/
def lowerEnumDecl (decl : EnumDecl) : BuildM Unit :=
  match decl.type with
  | some enumTy =>
    if enumTy.isEnum then
      modify fun s => { s with enumTypes := stdMapSet decl.name enumTy s.enumTypes }
    else pure ()
  | none => pure ()

/-- The members of a class that are `VarDecl`s. -/
def classVarDecls : List ClassMember → List VarDecl
  | [] => []
  | .field d :: rest => d :: classVarDecls rest
  | _ :: rest => classVarDecls rest

/-- The destructor check of `lowerClassDecl`: a method named `~` and the class name. -/
def declaresDestructor (className : String) (members : List ClassMember) : Bool :=
  members.any fun member =>
    match member with
    | .method d => d.name == "~" ++ className
    | _ => false

/-- `MIRBuilder::lowerClassDecl`; `members` is its last loop, which lowers the methods
and the constructors. -/
def lowerClassDecl (decl : ClassDecl) (members : BuildM Unit) : BuildM Unit :=
  match fieldsOf (classVarDecls decl.members) with
  | .error e => throw e
  | .ok fields => do
    modify fun s => { s with
      structTypes := stdMapSet decl.name
        { name := decl.name, type := some (.struct decl.name fields [] false 0)
          fieldNames := (classVarDecls decl.members).map fun member => member.name
          hasDestructor := declaresDestructor decl.name decl.members }
        s.structTypes }
    members

/-- `MIRBuilder::lowerReturnStmt`; `expression` is `lowerExpr` of the returned expression. -/
def lowerReturnStmt (expression : Option (BuildM String)) : BuildM Unit := do
  let val ← match expression with
    | some lowerIt => lowerIt
    | none => pure ""
  emitAllDestructors
  emit (.Ret val)

/-- `MIRBuilder::lowerIfStmt`. -/
def lowerIfStmt (condition : BuildM String) (thenBlock : BuildM Unit)
    (elseBlock : Option (BuildM Unit)) : BuildM Unit := do
  let cond ← condition
  let thenBB ← newBlock "if.then"
  let elseBB ← match elseBlock with
    | some _ => (do
      let b ← newBlock "if.else"
      pure (some b))
    | none => pure none
  let mergeBB ← newBlock "if.merge"
  let elseLabel := match elseBB with
    | some b => b.name
    | none => mergeBB.name
  emit (.CondBr cond thenBB.name elseLabel)
  setCurrentBlock thenBB
  thenBlock
  emitUnlessTerminated (.Br mergeBB.name)
  (match elseBlock, elseBB with
    | some lowerElse, some b => do
      setCurrentBlock b
      lowerElse
      emitUnlessTerminated (.Br mergeBB.name)
    | _, _ => pure ())
  setCurrentBlock mergeBB

/-- `loopStack.push_back(ctx)`. -/
def pushLoop (ctx : LoopContext) : BuildM Unit :=
  modify fun s => { s with loopStack := s.loopStack ++ [ctx] }

/-- `loopStack.pop_back()`. -/
def popLoop : BuildM Unit :=
  modify fun s => { s with loopStack := s.loopStack.dropLast }

/-- `MIRBuilder::lowerWhileStmt`. -/
def lowerWhileStmt (condition : BuildM String) (body : BuildM Unit) : BuildM Unit := do
  let condBB ← newBlock "while.cond"
  let bodyBB ← newBlock "while.body"
  let mergeBB ← newBlock "while.merge"
  emit (.Br condBB.name)
  pushLoop ⟨mergeBB.name, condBB.name⟩
  setCurrentBlock condBB
  let cond ← condition
  emit (.CondBr cond bodyBB.name mergeBB.name)
  setCurrentBlock bodyBB
  body
  emitUnlessTerminated (.Br condBB.name)
  popLoop
  setCurrentBlock mergeBB

/-- `MIRBuilder::lowerDoWhileStmt`. -/
def lowerDoWhileStmt (body : BuildM Unit) (condition : BuildM String) : BuildM Unit := do
  let bodyBB ← newBlock "do.body"
  let condBB ← newBlock "do.cond"
  let mergeBB ← newBlock "do.merge"
  emit (.Br bodyBB.name)
  pushLoop ⟨mergeBB.name, condBB.name⟩
  setCurrentBlock bodyBB
  body
  emitUnlessTerminated (.Br condBB.name)
  setCurrentBlock condBB
  let cond ← condition
  emit (.CondBr cond bodyBB.name mergeBB.name)
  popLoop
  setCurrentBlock mergeBB

/-- `MIRBuilder::lowerForStmt`. -/
def lowerForStmt (init : Option (BuildM Unit)) (condition step : Option (BuildM String))
    (body : BuildM Unit) : BuildM Unit := do
  let condBB ← newBlock "for.cond"
  let bodyBB ← newBlock "for.body"
  let stepBB ← newBlock "for.step"
  let mergeBB ← newBlock "for.merge"
  (match init with
    | some lowerInit => lowerInit
    | none => pure ())
  emit (.Br condBB.name)
  pushLoop ⟨mergeBB.name, stepBB.name⟩
  setCurrentBlock condBB
  (match condition with
    | some lowerCond => do
      let cond ← lowerCond
      emit (.CondBr cond bodyBB.name mergeBB.name)
    | none => emit (.Br bodyBB.name))
  setCurrentBlock bodyBB
  body
  emitUnlessTerminated (.Br stepBB.name)
  setCurrentBlock stepBB
  (match step with
    | some lowerStep => do
      let _ ← lowerStep
      pure ()
    | none => pure ())
  emit (.Br condBB.name)
  popLoop
  setCurrentBlock mergeBB

/-- A pointer that the source dereferences. -/
def deref {α : Type} (o : Option α) (what : String) : BuildM α :=
  match o with
  | some a => pure a
  | none => throw ("null " ++ what)

/-- The pattern test of one case of `lowerSwitchStmt`: the instructions that end the
current block with a branch to the body or to the next case. -/
def lowerCaseTest (condAddr : String) (condType : Option Ty) (pattern : Option Pattern)
    (isDefault : Bool) (bodyLabel nextCaseLabel : String) : BuildM Unit :=
  if isDefault then emit (.Br bodyLabel)
  else do
    let type ← deref condType "condType"
    let pat ← deref pattern "pattern"
    if type.isEnum then
      match pat with
      | .variant _ variantName _ => do
        let actualTag ← newTemp
        emit (.VariantTag actualTag condAddr)
        let expectedTag ← newTemp
        emit (.ConstInt expectedTag (type.findVariantIndex variantName))
        let cmp ← newTemp
        emit (.BinOp cmp actualTag expectedTag .EqualEqual)
        emit (.CondBr cmp bodyLabel nextCaseLabel)
      | .wildcard => emit (.Br bodyLabel)
      | .identifier _ => emit (.Br bodyLabel)
      | .literal _ => emit (.Br nextCaseLabel)
    else
      match pat with
      | .literal lit => do
        let val ← lowerLiteralExpr lit
        let condVal ← newTemp
        emit (.Load condVal condAddr)
        let cmp ← newTemp
        emit (.BinOp cmp condVal val .EqualEqual)
        emit (.CondBr cmp bodyLabel nextCaseLabel)
      | .wildcard => emit (.Br bodyLabel)
      | .identifier _ => emit (.Br bodyLabel)
      | .variant _ _ _ => emit (.Br nextCaseLabel)

/-- The loop of `lowerSwitchStmt` over the sub-patterns of a variant pattern, from index
`j`: an identifier is bound to a slot that holds the extracted field. -/
def bindSubPatterns (condAddr : String) (enumTy : Ty) (variant : Option Variant) :
    Nat → List Pattern → BuildM Unit
  | _, [] => pure ()
  | j, .identifier name :: rest => do
    let fieldVal ← newTemp
    let v ← deref variant "variant"
    let fieldType ← deref
      (if v.kind = .Tuple then v.tupleTypes[j]? else (v.structFields[j]?).map Field.type)
      "field type"
    emit (.VariantExtract fieldVal condAddr (enumTy.findVariantIndex v.name) j (some fieldType))
    let localAddr ← newTemp
    emit (.Alloca localAddr (some fieldType))
    emit (.Store fieldVal localAddr)
    setVar name localAddr
    bindSubPatterns condAddr enumTy variant (j + 1) rest
  | j, _ :: rest => bindSubPatterns condAddr enumTy variant (j + 1) rest

/-- The bindings at the head of a case body in `lowerSwitchStmt`. -/
def lowerCaseBindings (condAddr : String) (condType : Option Ty) (pattern : Option Pattern)
    (isDefault : Bool) : BuildM Unit :=
  if isDefault then pure ()
  else do
    let type ← deref condType "condType"
    if type.isEnum then do
      let pat ← deref pattern "pattern"
      match pat with
      | .variant _ variantName subPatterns =>
        bindSubPatterns condAddr type (type.findVariant variantName) 0 subPatterns
      | _ => pure ()
    else pure ()

/-- A case of a switch for the builder: the pattern, the default flag and the lowering of
the body, `lowerBlock(c->getBody())`. -/
structure LoweredCase where
  pattern : Option Pattern
  isDefault : Bool
  body : BuildM Unit

/-- The loop of `lowerSwitchStmt` over the cases. -/
def lowerCases (condAddr : String) (condType : Option Ty) (endBB : BlockPtr) :
    List LoweredCase → BuildM Unit
  | [] => pure ()
  | c :: rest => do
    let bodyBB ← newBlock "case.body"
    let nextCaseBB ← match rest with
      | [] => pure none
      | _ :: _ => (do
        let b ← newBlock "case.next"
        pure (some b))
    let nextCaseLabel := match nextCaseBB with
      | some b => b.name
      | none => endBB.name
    lowerCaseTest condAddr condType c.pattern c.isDefault bodyBB.name nextCaseLabel
    setCurrentBlock bodyBB
    lowerCaseBindings condAddr condType c.pattern c.isDefault
    c.body
    emitUnlessTerminated (.Br endBB.name)
    (match nextCaseBB with
      | some b => setCurrentBlock b
      | none => pure ())
    lowerCases condAddr condType endBB rest

/-- `MIRBuilder::lowerSwitchStmt`; `condAddr` is `lowerAddr` of the condition. -/
def lowerSwitchStmt (condAddr : BuildM String) (condType : Option Ty)
    (cases : List LoweredCase) : BuildM Unit := do
  let addr ← condAddr
  let endBB ← newBlock "switch.end"
  pushLoop ⟨endBB.name, ""⟩
  lowerCases addr condType endBB cases
  setCurrentBlock endBB
  popLoop

/-- `MIRBuilder::lowerBreakStmt`. -/
def lowerBreakStmt : BuildM Unit := do
  let s ← get
  match s.loopStack.getLast? with
  | none => throw "Break outside of loop/switch context"
  | some ctx => emit (.Br ctx.breakLabel)

/-- `MIRBuilder::lowerContinueStmt`. -/
def lowerContinueStmt : BuildM Unit := do
  let s ← get
  match s.loopStack.getLast? with
  | none => throw "Continue outside of loop context"
  | some ctx =>
    if ctx.continueLabel.isEmpty then throw "Continue outside of loop context"
    else emit (.Br ctx.continueLabel)

/-- The case `ExprStmt` of `lower`: the value of `lowerExpr` is dropped. -/
def lowerExprStmt (expression : BuildM String) : BuildM Unit := do
  let _ ← expression
  pure ()

mutual
/-- `MIRBuilder::lower`. -/
def lower : Stmt → BuildM Unit
  | .varDecl d => lowerVarDecl d (d.initializer.map lowerExpr)
  | .structDecl d => if d.genericParams.isEmpty then lowerStructDecl d else pure ()
  | .enumDecl d => if d.genericParams.isEmpty then lowerEnumDecl d else pure ()
  | .classDecl d =>
    if d.genericParams.isEmpty then lowerClassDecl d (lowerClassMembers d) else pure ()
  | .block statements => lowerBlock (lowerStatements statements) true
  | .functionDecl d =>
    if d.genericParams.isEmpty then lowerFunctionDecl d (lowerFunctionBody d) else pure ()
  | .returnStmt expression => lowerReturnStmt (expression.map lowerExpr)
  | .ifStmt condition thenBlock elseBlock =>
    lowerIfStmt (lowerExpr condition) (lowerBlock (lowerStatements thenBlock) true)
      (lowerOptBlock elseBlock)
  | .whileStmt condition body =>
    lowerWhileStmt (lowerExpr condition) (lowerBlock (lowerStatements body) true)
  | .doWhileStmt body condition =>
    lowerDoWhileStmt (lowerBlock (lowerStatements body) true) (lowerExpr condition)
  | .forStmt init condition step body =>
    lowerForStmt (lowerOpt init) (condition.map lowerExpr) (step.map lowerExpr)
      (lowerBlock (lowerStatements body) true)
  | .switchStmt condition cases =>
    lowerSwitchStmt (lowerAddr condition) condition.getType (lowerCaseBodies cases)
  | .breakStmt => lowerBreakStmt
  | .continueStmt => lowerContinueStmt
  | .exprStmt expression => lowerExprStmt (lowerExpr expression)
  | .requestDecl _ => pure ()
/-- The statement loop of `lowerBlock`. -/
def lowerStatements : List Stmt → BuildM Unit
  | [] => pure ()
  | stmt :: rest => lowerNext (lower stmt) (lowerStatements rest)
/-- `lowerBlock` of a block that may be null. -/
def lowerOptBlock : Option (List Stmt) → Option (BuildM Unit)
  | none => none
  | some statements => some (lowerBlock (lowerStatements statements) true)
/-- `lower` of a statement that may be null. -/
def lowerOpt : Option Stmt → Option (BuildM Unit)
  | none => none
  | some stmt => some (lower stmt)
/-- The cases of a switch with the lowering of their bodies. -/
def lowerCaseBodies : List CaseStmt → List LoweredCase
  | [] => []
  | ⟨pattern, body, isDefault⟩ :: rest =>
    ⟨pattern, isDefault, lowerBlock (lowerStatements body) true⟩ :: lowerCaseBodies rest
/-- `lowerBlock(decl->getBody(), false)` of a function. -/
def lowerFunctionBody : FunctionDecl → Option (BuildM Unit)
  | ⟨_, _, _, none, _, _, _, _⟩ => none
  | ⟨_, _, _, some statements, _, _, _, _⟩ => some (lowerBlock (lowerStatements statements) false)
/-- `lowerBlock(decl->getBody())` of a method. -/
def lowerMethodBody : MethodDecl → Option (BuildM Unit)
  | ⟨_, _, _, body, _, _⟩ => lowerOptBlock body
/-- `lowerBlock(decl->getBody())` of a constructor. -/
def lowerConstructorBody : ConstructorDecl → Option (BuildM Unit)
  | ⟨_, _, body, _⟩ => lowerOptBlock body
/-- The last loop of `lowerClassDecl`: the methods and the constructors. -/
def lowerMembers (className : String) : List ClassMember → BuildM Unit
  | [] => pure ()
  | .field _ :: rest => lowerMembers className rest
  | .method d :: rest => do
    lowerMethodDecl d className (lowerMethodBody d)
    lowerMembers className rest
  | .ctor d :: rest => do
    lowerConstructorDecl d className (lowerConstructorBody d)
    lowerMembers className rest
/-- The member loop of a class declaration. -/
def lowerClassMembers : ClassDecl → BuildM Unit
  | ⟨name, members, _, _, _⟩ => lowerMembers name members
end

/-- The loops of `main` over the nodes that it hands to `MIRBuilder::lower`. -/
def lowerNodes (nodes : List Stmt) : BuildM Unit := forEach lower nodes

end MIRBuilder

/-! ## Parser (`include/Parser.h`, `src/Parser.cpp`)

The parser is a state machine over its three members; an exception is an error of
`Except`.  The functions of the parser call each other recursively: here every function
takes the functions it may re-enter as a record `ParserHooks`, and `Parser.hooks` ties the
knot with a bound on the nesting depth; every loop runs with the bound `ParserHooks.loops`.
A run that reaches a bound ends with the error `outOfFuel`, which no `throw` of the source
produces. -/

/-- The members of `Parser`; the back of the vector `m_activeGenericParams` is the head of
the list, and a `std::set` is a list without repetitions. -/
structure Parser where
  m_lexer : Lexer
  m_currentToken : Token
  m_activeGenericParams : List (List String) := []

/-- The monad of the parser functions. -/
abbrev ParseM := StateT Parser (Except String)

/-- The error of a run that reaches its bound. -/
def outOfFuel : String := "out of fuel"

/-- A node of the vector that `parseProgram` returns: a statement or declaration, or one of
the classes of `AST/ImportDecl.h` (`aliasName` is the member `alias`). -/
inductive ProgramNode where
  | stmt (s : Stmt)
  | importDecl (path : String) (isStd : Bool) (aliasName : String)
  | packageDecl (name : String)
  | useDecl (path : String) (aliasName : String)

/-- The functions that the parser re-enters, and the bound of its loops. -/
structure ParserHooks where
  loops : Nat
  parseExpression : Int → ParseM Expr
  parseUnary : ParseM Expr
  parseType : ParseM Ty
  parseStatement : ParseM Stmt
  parseIfStmt : ParseM Stmt
  parsePattern : ParseM Pattern

/-- The characters for which `isspace` is true in the C locale. -/
def isSpaceChar (c : Char) : Bool :=
  c = ' ' || c = '\t' || c = '\n' || c = Char.ofNat 11 || c = Char.ofNat 12 || c = '\r'

/-- The number that a list of decimal digits denotes. -/
def digitsValue (ds : List Char) : Nat :=
  ds.foldl (fun acc c => acc * 10 + (c.toNat - '0'.toNat)) 0

/-- The conversion of `std::stoll` and `std::stoi` (base 10): white space, an optional sign
and the longest run of digits; `lo` and `hi` bound the result type. -/
def stringToInt (what : String) (lo hi : Int) (s : String) : Except String Int :=
  let t := s.data.dropWhile isSpaceChar
  let negative := t.head? = some '-'
  let u := if t.head? = some '-' || t.head? = some '+' then t.tail else t
  let ds := u.takeWhile isDigitChar
  if ds.isEmpty then .error what
  else
    let v : Int := if negative then -(digitsValue ds : Int) else (digitsValue ds : Int)
    if v < lo || hi < v then .error what else .ok v

/-- `std::stoll` on a `std::string`. -/
def stoll (s : String) : Except String Int :=
  stringToInt "stoll" (-9223372036854775808) 9223372036854775807 s

/-- `std::stoi` on a `std::string`. -/
def stoi (s : String) : Except String Int :=
  stringToInt "stoi" (-2147483648) 2147483647 s

/-- The exponent part that `std::stod` converts: `e` or `E`, an optional sign and at least
one digit; empty when that form is not there. -/
def stodExponent (s : List Char) : List Char :=
  match s with
  | e :: rest =>
    if e = 'e' || e = 'E' then
      let sign := if rest.head? = some '-' || rest.head? = some '+' then rest.take 1 else []
      let ds := (rest.drop sign.length).takeWhile isDigitChar
      if ds.isEmpty then [] else e :: (sign ++ ds)
    else []
  | [] => []

/-- The number `2^1024 - 2^970`, the middle between the greatest `double` and `2^1024`:
decimal numbers from it on round to infinity. -/
def doubleOverflow : Nat :=
  179769313486231580793728971405303415079934132710037826936173778980444968292764750946649017977587207096330286416692887910946555547851940402630657488671505820681908902000708383676273854845817711531764475730270069855571366959622842914819860834936475292719074168444365510704342711559699508093042880177904174497792

/-- The number `2^1022`: the least normal `double` is `1 / 2^1022`. -/
def doubleNormal : Nat :=
  44942328371557897693232629769725618340449424473557664318357520289433168951375240783177119330601884005280028469967848339414697442203604155623211857659868531094441973356216371319075554900311523529863270738021251442209537670585615720368478277635206809290837627671146574559986811484619929076208839082406056034304

/-- The range error of `std::stod`, which throws `std::out_of_range` when `strtod` reports
`ERANGE`. The digits before and after the point and the exponent part `e`, sign, digits
denote the number `m * 10^p / 10^q`; it is out of range when it rounds to infinity (it is
not below `doubleOverflow`), or when it is not zero and below the least normal `double`. -/
def stodOutOfRange (digits fraction exponent : List Char) : Bool :=
  let m := digitsValue (digits ++ fraction)
  let x := digitsValue (exponent.filter isDigitChar)
  let negative := exponent.contains '-'
  let p := if negative then 0 else x
  let q := fraction.length + (if negative then x else 0)
  decide (doubleOverflow * 10 ^ q ≤ m * 10 ^ p)
    || (m != 0 && decide (m * 10 ^ p * doubleNormal < 10 ^ q))

/-- The characters of a text that starts with a digit which `std::stod` converts: digits, an
optional `.` with digits, an optional exponent; `std::stod` throws when the text starts with
no digit and when the number is out of the range of `double`.  The model keeps a `double`
that the parser builds as this text. -/
def stodText (s : String) : Except String String :=
  let ds := s.data.takeWhile isDigitChar
  if ds.isEmpty then .error "stod"
  else
    let r1 := s.data.drop ds.length
    let frac := if r1.head? = some '.' then '.' :: (r1.tail.takeWhile isDigitChar) else []
    let r2 := r1.drop frac.length
    if stodOutOfRange ds frac.tail (stodExponent r2) then .error "stod"
    else .ok (String.mk (ds ++ frac ++ stodExponent r2))

/-- The loop of the static function `unescapeString`. -/
def unescapeChars : List Char → List Char
  | '\\' :: c :: rest =>
    (if c = 'n' then '\n' else if c = 'r' then '\r' else if c = 't' then '\t'
      else if c = '\\' then '\\' else if c = '"' then '"' else c) :: unescapeChars rest
  | c :: rest => c :: unescapeChars rest
  | [] => []

/-- The static function `unescapeString`. -/
def unescapeString (s : String) : String := String.mk (unescapeChars s.data)

/-- `s.find('_')` followed by `s.substr(underscore + 1)`: the text after the first
underscore, when there is one. -/
def suffixAfterUnderscore (s : String) : Option String :=
  match findChar '_' s.data with
  | some i => some (String.mk (s.data.drop (i + 1)))
  | none => none

/-- The chain `if (suffix == "i8") ... else if (suffix == "u64") ...` of `parsePrimary`. -/
def integerSuffixType (suffix : String) : Option Ty :=
  if suffix = "i8" then some (.primitive .I8)
  else if suffix = "i16" then some (.primitive .I16)
  else if suffix = "i32" then some (.primitive .I32)
  else if suffix = "i64" then some (.primitive .I64)
  else if suffix = "u8" then some (.primitive .U8)
  else if suffix = "u16" then some (.primitive .U16)
  else if suffix = "u32" then some (.primitive .U32)
  else if suffix = "u64" then some (.primitive .U64)
  else none

/-- The chain `if (suffix == "f32") ... else if (suffix == "f64") ...` of `parsePrimary`. -/
def floatSuffixType (suffix : String) : Option Ty :=
  if suffix = "f32" then some (.primitive .F32)
  else if suffix = "f64" then some (.primitive .F64)
  else none

/-- The explicit type that `parsePrimary` derives from the text of a numeric token. -/
def explicitTypeOf (table : String → Option Ty) (s : String) : Option Ty :=
  match suffixAfterUnderscore s with
  | some suffix => table suffix
  | none => none

/-- The statements of `parsePrimary` that strip the quotes of a string token. -/
def stripQuotes (val : String) : String :=
  if val.data.length ≥ 2 && val.data.head? = some '"' && val.data.getLast? = some '"' then
    String.mk ((val.data.drop 1).take (val.data.length - 2))
  else val

namespace Parser

/-- `Parser::Parser`. -/
def new (source : String) : Parser :=
  let r := (Lexer.new source).nextToken
  { m_lexer := r.2, m_currentToken := r.1 }

/-- The state after `m_currentToken = m_lexer.nextToken()`. -/
def next (p : Parser) : Parser :=
  { p with m_currentToken := p.m_lexer.nextToken.1, m_lexer := p.m_lexer.nextToken.2 }

/-- `Parser::advance`. -/
def advance : ParseM Token := fun p => .ok (p.m_currentToken, p.next)

/-- `Parser::peek`. -/
def peek : ParseM Token := fun p => .ok (p.m_currentToken, p)

/-- `Parser::match`. -/
def matchToken (type : TokenType) : ParseM Bool := fun p =>
  if p.m_currentToken.type = type then .ok (true, p.next) else .ok (false, p)

/-- `Parser::consume`. -/
def consume (type : TokenType) (message : String) : ParseM Token := fun p =>
  if p.m_currentToken.type = type then .ok (p.m_currentToken, p.next)
  else .error (message ++ " at line " ++ Nat.repr p.m_currentToken.line)

/-- `Parser::getPrecedence`. -/
def getPrecedence : TokenType → Int
  | .Equal => 5
  | .OrOr => 8
  | .AndAnd => 10
  | .Pipe => 15
  | .Caret => 20
  | .Ampersand => 25
  | .EqualEqual | .NotEqual => 30
  | .Less | .LessEqual | .Greater | .GreaterEqual => 35
  | .ShiftLeft | .ShiftRight => 38
  | .Plus | .Minus => 40
  | .Star | .Slash | .Percent => 50
  | _ => -1

/-- The test of `Parser::isGenericContext` on the type of the peeked token. -/
def startsType : TokenType → Bool
  | .I8 | .I16 | .I32 | .I64 | .U8 | .U16 | .U32 | .U64 | .F32 | .F64 | .Bool | .Void
  | .Identifier | .Star | .Ampersand => true
  | _ => false

/-- `Parser::isGenericContext`: the lexer is the one that `peekToken` leaves. -/
def isGenericContext : ParseM Bool := fun p =>
  let r := p.m_lexer.peekToken
  .ok (startsType r.1.type, { p with m_lexer := r.2 })

/-- `m_activeGenericParams.push_back({})`. -/
def pushGenericParams : ParseM Unit := fun p =>
  .ok ((), { p with m_activeGenericParams := [] :: p.m_activeGenericParams })

/-- `m_activeGenericParams.pop_back()`. -/
def popGenericParams : ParseM Unit := fun p =>
  .ok ((), { p with m_activeGenericParams := p.m_activeGenericParams.tail })

/-- `m_activeGenericParams.back().insert(name)`; there is no back to insert into when the
vector is empty. -/
def insertGenericParam (name : String) : ParseM Unit := fun p =>
  match p.m_activeGenericParams with
  | [] => .error "m_activeGenericParams is empty"
  | s :: rest =>
    .ok ((), { p with m_activeGenericParams := (if s.contains name then s else name :: s) :: rest })

/-- The loop of `parseType` over `m_activeGenericParams`: some set has the name. -/
def isActiveGenericParam (name : String) : ParseM Bool := fun p =>
  .ok (p.m_activeGenericParams.any (fun s => s.contains name), p)

/-- A value that is computed without the parser state, or an exception. -/
def liftExcept {α : Type} (r : Except String α) : ParseM α := fun p =>
  match r with
  | .ok a => .ok (a, p)
  | .error e => .error e

/-- The loop `do { v.push_back(item()); } while (match(TokenType::Comma));`. -/
def commaList {α : Type} (item : ParseM α) : Nat → ParseM (List α)
  | 0 => throw outOfFuel
  | n + 1 => do
    let a ← item
    let more ← matchToken .Comma
    if more then do
      let rest ← commaList item n
      pure (a :: rest)
    else pure [a]

/-- The statement `if (!match(close)) { do { ... } while (match(Comma)); consume(close, message); }`. -/
def closedList {α : Type} (close : TokenType) (message : String) (item : ParseM α)
    (n : Nat) : ParseM (List α) := do
  let closed ← matchToken close
  if closed then pure []
  else do
    let items ← commaList item n
    let _ ← consume close message
    pure items

/-- The loop `while (!match(close)) { v.push_back(item()); }`. -/
def untilToken {α : Type} (close : TokenType) (item : ParseM α) : Nat → ParseM (List α)
  | 0 => throw outOfFuel
  | n + 1 => do
    let closed ← matchToken close
    if closed then pure []
    else do
      let a ← item
      let rest ← untilToken close item n
      pure (a :: rest)

end Parser

/-! ### Types and expressions -/

namespace Parser

/-- The chain of `match` calls of `parseType` over the type keywords: the primitive type
of a keyword. -/
def primitiveOf : TokenType → Option PrimKind
  | .I8 => some .I8 | .I16 => some .I16 | .I32 => some .I32 | .I64 => some .I64
  | .U8 => some .U8 | .U16 => some .U16 | .U32 => some .U32 | .U64 => some .U64
  | .F32 => some .F32 | .F64 => some .F64 | .Bool => some .Bool | .Void => some .Void
  | _ => none

/-- The first statement of `parseType`: the base type. -/
def parseBaseType : ParseM Ty := do
  let tok ← peek
  match primitiveOf tok.type with
  | some k => do
    let _ ← advance
    pure (.primitive k)
  | none =>
    if tok.type = .Identifier then do
      let name := tok.value
      let _ ← advance
      let isGenericParam ← isActiveGenericParam name
      if isGenericParam then pure (.typeParameter name "")
      else pure (.struct name [] [] false 0)
    else throw ("Expected base type at line " ++ Nat.repr tok.line)

/-- The inner loop `while (true) { auto t = parseType(); specName += t->toString(); ... }`
of `parseType` and `parsePattern`. -/
def parseSpecName (h : ParserHooks) : Nat → String → ParseM String
  | 0, _ => throw outOfFuel
  | n + 1, specName => do
    let t ← h.parseType
    let more ← matchToken .Comma
    if more then parseSpecName h n (specName ++ t.toString ++ ", ")
    else pure (specName ++ t.toString)

/-- The branch of `parseType` for a `[` in a generic context. -/
def parseGenericUse (h : ParserHooks) (baseType : Ty) : ParseM Ty := do
  let _ ← matchToken .LBracket
  let specName ← parseSpecName h h.loops (baseType.toString ++ "[")
  let _ ← consume .RBracket "Expected ']' after generic arguments"
  pure (.struct (specName ++ "]") [] [] false 0)

/-- The branch of `parseType` for a `[` outside a generic context: `T[N]`. -/
def parseArraySuffix (baseType : Ty) : ParseM Ty := do
  let _ ← matchToken .LBracket
  let sizeToken ← consume .Integer "Expected array size"
  let size ← liftExcept (stoi sizeToken.value)
  let _ ← consume .RBracket "Expected ']'"
  pure (.array baseType size.toNat)

/-- The loop `while (true)` of `parseType` over `*` and `[`. -/
def parseTypeSuffixes (h : ParserHooks) : Nat → Ty → ParseM Ty
  | 0, _ => throw outOfFuel
  | n + 1, baseType => do
    let star ← matchToken .Star
    if star then parseTypeSuffixes h n (.pointer baseType)
    else do
      let tok ← peek
      if tok.type = .LBracket then do
        let generic ← isGenericContext
        if generic then do
          let t ← parseGenericUse h baseType
          parseTypeSuffixes h n t
        else do
          let t ← parseArraySuffix baseType
          parseTypeSuffixes h n t
      else pure baseType

/-- `Parser::parseType`. -/
def parseType (h : ParserHooks) : ParseM Ty := do
  let baseType ← parseBaseType
  parseTypeSuffixes h h.loops baseType

/-- The loop of `parseStructLiteral`: one field initializer. -/
def parseFieldInit (h : ParserHooks) : ParseM FieldInit := do
  let fieldNameToken ← consume .Identifier "Expected field name"
  let _ ← consume .Colon "Expected ':' after field name"
  let value ← h.parseExpression 0
  pure { name := fieldNameToken.value, value := value }

/-- `Parser::parseStructLiteral`. -/
def parseStructLiteral (h : ParserHooks) (base : Expr) : ParseM Expr := do
  let fields ← closedList .RBrace "Expected '\x7d' after field initializers" (parseFieldInit h)
    h.loops
  pure (.structLiteral none base fields)

/-- The branch of `parsePrimary` for an integer token. -/
def parseIntegerLiteral : ParseM Expr := do
  let tok ← peek
  let s := tok.value
  let explicitType := explicitTypeOf integerSuffixType s
  let val ← liftExcept (stoll s)
  let _ ← advance
  pure (.literal { value := .int val, explicitType := explicitType })

/-- The branch of `parsePrimary` for a float token. -/
def parseFloatLiteral : ParseM Expr := do
  let tok ← peek
  let s := tok.value
  let explicitType := explicitTypeOf floatSuffixType s
  let val ← liftExcept (stodText s)
  let _ ← advance
  pure (.literal { value := .double val, explicitType := explicitType })

/-- The branch of `parsePrimary` for a string token. -/
def parseStringLiteral : ParseM Expr := do
  let tok ← peek
  let val := unescapeString (stripQuotes tok.value)
  let _ ← advance
  pure (.literal { value := .string val })

/-- The chain that sets `kind` from the token of an intrinsic. -/
def intrinsicKindOf : TokenType → Option IntrinsicKind
  | .Sizeof => some .Sizeof
  | .Malloc => some .Malloc
  | .Alloca => some .Alloca
  | .Free => some .Free
  | .Alignof => some .Alignof
  | .Offsetof => some .Offsetof
  | _ => none

/-- The optional type argument `[T]` of an intrinsic. -/
def parseIntrinsicTypeArg (h : ParserHooks) : ParseM (Option Ty) := do
  let bracket ← matchToken .LBracket
  if bracket then do
    let typeArg ← parseType h
    let _ ← consume .RBracket "Expected ']' after type argument"
    pure (some typeArg)
  else pure none

/-- One argument of an intrinsic: the first argument of `offsetof` is a member name. -/
def parseIntrinsicArg (h : ParserHooks) (kind : IntrinsicKind) (isFirst : Bool) :
    ParseM Expr :=
  if kind = .Offsetof && isFirst then do
    let memberTok ← consume .Identifier "Expected member name in offsetof"
    pure (.identifier none memberTok.value)
  else h.parseExpression 0

/-- The loop `do { ... } while (match(TokenType::Comma));` over the arguments of an
intrinsic; `isFirst` is `args.empty()`. -/
def parseIntrinsicArgs (h : ParserHooks) (kind : IntrinsicKind) : Nat → Bool →
    ParseM (List Expr)
  | 0, _ => throw outOfFuel
  | n + 1, isFirst => do
    let a ← parseIntrinsicArg h kind isFirst
    let more ← matchToken .Comma
    if more then do
      let rest ← parseIntrinsicArgs h kind n false
      pure (a :: rest)
    else pure [a]

/-- The branch of `parsePrimary` for `sizeof`, `malloc`, `alloca`, `free`, `alignof` and
`offsetof`. -/
def parseIntrinsic (h : ParserHooks) (kind : IntrinsicKind) : ParseM Expr := do
  let _ ← advance
  let typeArg ← parseIntrinsicTypeArg h
  let _ ← consume .LParen "Expected '('"
  let closed ← matchToken .RParen
  if closed then pure (.intrinsic none kind typeArg [])
  else do
    let args ← parseIntrinsicArgs h kind h.loops true
    let _ ← consume .RParen "Expected ')'"
    pure (.intrinsic none kind typeArg args)

/-- The branch of `parsePrimary` for an identifier or `self`. -/
def parseIdentifier (h : ParserHooks) : ParseM Expr := do
  let tok ← peek
  let name := tok.value
  let _ ← advance
  let brace ← matchToken .LBrace
  if brace then parseStructLiteral h (.identifier none name)
  else pure (.identifier none name)

/-- The branches of `parsePrimary` behind the one for `(`, chosen by the current token. -/
def parseAtom (h : ParserHooks) (tok : Token) : ParseM Expr :=
  if tok.type = .Integer then parseIntegerLiteral
  else if tok.type = .Float then parseFloatLiteral
  else if tok.type = .String then parseStringLiteral
  else if tok.type = .True then do
    let _ ← advance
    pure (.literal { value := .bool true })
  else if tok.type = .False then do
    let _ ← advance
    pure (.literal { value := .bool false })
  else if tok.type = .Nullptr then do
    let _ ← advance
    pure (.literal { value := .nullptr })
  else if tok.type = .LBracket then do
    let _ ← advance
    let elements ← closedList .RBracket "Expected ']' after array literal"
      (h.parseExpression 0) h.loops
    pure (.arrayLiteral none elements)
  else
    match intrinsicKindOf tok.type with
    | some kind => parseIntrinsic h kind
    | none =>
      if tok.type = .Identifier || tok.type = .Self then parseIdentifier h
      else throw ("Expected expression at line " ++ Nat.repr tok.line)

/-- `Parser::parsePrimary`. -/
def parsePrimary (h : ParserHooks) : ParseM Expr := do
  let paren ← matchToken .LParen
  if paren then do
    let expr ← h.parseExpression 0
    let _ ← consume .RParen "Expected ')'"
    pure expr
  else do
    let tok ← peek
    parseAtom h tok

/-- The test of `parsePostfix` on the kind of `left` before a `{`. -/
def takesStructLiteral : Expr → Bool
  | .identifier _ _ | .memberAccess _ _ _ _ | .specialization _ _ _ _ => true
  | _ => false

/-- The branch of `parsePostfix` for `.` and `::`, without the loop. -/
def parseMember (h : ParserHooks) (left : Expr) (isStatic : Bool) : ParseM Expr := do
  let _ ← advance
  let memberToken ← consume .Identifier "Expected member name after selector"
  let memberAccess := Expr.memberAccess none left memberToken.value isStatic
  let brace ← matchToken .LBrace
  if brace then parseStructLiteral h memberAccess
  else pure memberAccess

/-- The branch of `parsePostfix` for a `[` in a generic context, without the loop. -/
def parseSpecialization (h : ParserHooks) (left : Expr) : ParseM Expr := do
  let _ ← matchToken .LBracket
  let typeArgs ← closedList .RBracket "Expected ']' after generic arguments" (parseType h)
    h.loops
  pure (.specialization none left typeArgs "")

/-- The branch of `parsePostfix` for a `[` outside a generic context, without the loop. -/
def parseIndexing (h : ParserHooks) (left : Expr) : ParseM Expr := do
  let _ ← matchToken .LBracket
  let index ← h.parseExpression 0
  let _ ← consume .RBracket "Expected ']' after index"
  pure (.indexing none left index)

/-- The branch of `parsePostfix` for a `[`, without the loop. -/
def parseBracket (h : ParserHooks) (left : Expr) : ParseM Expr := do
  let generic ← isGenericContext
  if generic then parseSpecialization h left
  else parseIndexing h left

/-- The loop `while (true)` of `parsePostfix`. -/
def parsePostfixLoop (h : ParserHooks) : Nat → Expr → ParseM Expr
  | 0, _ => throw outOfFuel
  | n + 1, left => do
    let tok ← peek
    if tok.type = .Dot || tok.type = .ColonColon then do
      let e ← parseMember h left (tok.type = .ColonColon)
      parsePostfixLoop h n e
    else if tok.type = .LParen then do
      let _ ← advance
      let args ← closedList .RParen "Expected ')'" (h.parseExpression 0) h.loops
      parsePostfixLoop h n (.call none left args)
    else if tok.type = .LBracket then do
      let e ← parseBracket h left
      parsePostfixLoop h n e
    else if tok.type = .Question then do
      let _ ← advance
      parsePostfixLoop h n (.question none left)
    else if tok.type = .LBrace then
      if takesStructLiteral left then do
        let _ ← advance
        let e ← parseStructLiteral h left
        parsePostfixLoop h n e
      else pure left
    else pure left

/-- `Parser::parsePostfix`. -/
def parsePostfix (h : ParserHooks) : ParseM Expr := do
  let left ← parsePrimary h
  parsePostfixLoop h h.loops left

/-- `Parser::parseUnary`. -/
def parseUnary (h : ParserHooks) : ParseM Expr := do
  let tok ← peek
  if tok.type = .Ampersand then do
    let _ ← advance
    let operand ← h.parseUnary
    pure (.addressOf none operand)
  else if tok.type = .Star then do
    let _ ← advance
    let operand ← h.parseUnary
    pure (.dereference none operand)
  else if tok.type = .Minus || tok.type = .Not || tok.type = .Tilde then do
    let _ ← advance
    let operand ← h.parseUnary
    pure (.unary none tok.type operand)
  else parsePostfix h

/-- The loop `while (true)` of `parseExpression`. -/
def parseBinaryLoop (h : ParserHooks) (minPrec : Int) : Nat → Expr → ParseM Expr
  | 0, _ => throw outOfFuel
  | n + 1, left => do
    let tok ← peek
    let prec := getPrecedence tok.type
    if prec < minPrec then pure left
    else do
      let op := tok.type
      let _ ← advance
      let right ← h.parseExpression (prec + 1)
      parseBinaryLoop h minPrec n (.binary none left op right)

/-- `Parser::parseExpression`. -/
def parseExpression (h : ParserHooks) (minPrec : Int) : ParseM Expr := do
  let left ← h.parseUnary
  parseBinaryLoop h minPrec h.loops left

end Parser

/-! ### Patterns, statements and declarations -/

namespace Parser

/-- The test `m_lexer.peekToken().type == TokenType::EndOfFile` of `parseBlock`. -/
def nextIsEndOfFile : ParseM Bool := fun p =>
  let r := p.m_lexer.peekToken
  .ok (r.1.type = .EndOfFile, { p with m_lexer := r.2 })

/-- The sub-patterns of a variant pattern: a list in `( )`, a list in `{ }`, or `none` when
neither bracket follows. -/
def parseSubPatterns (h : ParserHooks) : ParseM (Option (List Pattern)) := do
  let paren ← matchToken .LParen
  if paren then do
    let ps ← closedList .RParen "Expected ')'" h.parsePattern h.loops
    pure (some ps)
  else do
    let brace ← matchToken .LBrace
    if brace then do
      let ps ← closedList .RBrace "Expected '\x7d'" h.parsePattern h.loops
      pure (some ps)
    else pure none

/-- The statement of `parsePattern` for a generic specialization `Enum[T]::Variant`. -/
def parsePatternSpec (h : ParserHooks) (first : String) : ParseM String := do
  let tok ← peek
  if tok.type = .LBracket then do
    let generic ← isGenericContext
    if generic then do
      let _ ← matchToken .LBracket
      let name ← parseSpecName h h.loops (first ++ "[")
      let _ ← consume .RBracket "Expected ']' after generic arguments"
      pure (name ++ "]")
    else pure first
  else pure first

/-- The branch of `parsePattern` for an identifier. -/
def parseNamePattern (h : ParserHooks) : ParseM Pattern := do
  let tok ← advance
  let first ← parsePatternSpec h tok.value
  let qualified ← matchToken .ColonColon
  if qualified then do
    let variant ← consume .Identifier "Expected variant name"
    let subPatterns ← parseSubPatterns h
    pure (.variant first variant.value (subPatterns.getD []))
  else do
    let subPatterns ← parseSubPatterns h
    match subPatterns with
    | some ps => pure (.variant "" first ps)
    | none => pure (.identifier first)

/-- The branch of `parsePattern` for a literal: the expression of `parsePrimary` is cast to
`LiteralExpr`. -/
def parseLiteralPattern (h : ParserHooks) : ParseM Pattern := do
  let expr ← parsePrimary h
  match expr with
  | .literal lit => pure (.literal lit)
  | _ => throw "parsePattern: not a literal"

/-- `Parser::parsePattern`. -/
def parsePattern (h : ParserHooks) : ParseM Pattern := do
  let wildcard ← matchToken .Underscore
  if wildcard then pure .wildcard
  else do
    let tok ← peek
    if tok.type = .Integer || tok.type = .Float || tok.type = .String || tok.type = .True
        || tok.type = .False then parseLiteralPattern h
    else if tok.type = .Identifier then parseNamePattern h
    else throw ("Unexpected token in pattern: " ++ tok.value)

/-- The optional `: type` of `parseVarDecl`. -/
def parseOptType (h : ParserHooks) : ParseM (Option Ty) := do
  let colon ← matchToken .Colon
  if colon then do
    let type ← parseType h
    pure (some type)
  else pure none

/-- The optional `= initializer` of `parseVarDecl`. -/
def parseOptInitializer (h : ParserHooks) : ParseM (Option Expr) := do
  let eq ← matchToken .Equal
  if eq then do
    let initializer ← parseExpression h 0
    pure (some initializer)
  else pure none

/-- `Parser::parseVarDecl`. -/
def parseVarDecl (h : ParserHooks) (isPublic : Bool) : ParseM VarDecl := do
  let _ ← consume .Let "Expected 'let'"
  let isMutable ← matchToken .Mut
  let nameToken ← consume .Identifier "Expected identifier"
  let type ← parseOptType h
  let initializer ← parseOptInitializer h
  let _ ← consume .Semicolon "Expected ';'"
  pure { name := nameToken.value, type := type, initializer := initializer,
         isMutable := isMutable, isPublic := isPublic }

/-- `Parser::parseStructField` (the warning that it prints for a `pub` is not kept). -/
def parseStructField (h : ParserHooks) : ParseM VarDecl := do
  let _ ← matchToken .Pub
  let _ ← consume .Let "Expected 'let' in struct field"
  let isMutable ← matchToken .Mut
  let nameToken ← consume .Identifier "Expected field name"
  let _ ← consume .Colon "Expected ':'"
  let type ← parseType h
  let _ ← matchToken .Semicolon
  pure { name := nameToken.value, type := some type, initializer := none,
         isMutable := isMutable, isPublic := true }

/-- `Parser::parseParam`. -/
def parseParam (h : ParserHooks) : ParseM Param := do
  let nameToken ← consume .Identifier "Expected identifier"
  let _ ← consume .Colon "Expected ':'"
  let type ← parseType h
  pure { name := nameToken.value, type := type }

/-- One round of the loop of `parseConstraintExpr`: the logic of the next item, or `none`
for the `break`. -/
def parseConstraintLogic (isFirst : Bool) : ParseM (Option ConstraintLogic) :=
  if isFirst then pure (some .NONE)
  else do
    let isAnd ← matchToken .AndAnd
    if isAnd then pure (some .AND)
    else do
      let isOr ← matchToken .OrOr
      if isOr then pure (some .OR) else pure none

/-- The loop `do { ... } while (peek().type == AndAnd || peek().type == OrOr)` of
`parseConstraintExpr`. -/
def parseConstraintItems : Nat → List ConstraintItem → ParseM (List ConstraintItem)
  | 0, _ => throw outOfFuel
  | n + 1, items => do
    let logic ← parseConstraintLogic items.isEmpty
    match logic with
    | none => pure items
    | some l => do
      let traitName ← consume .Identifier "Expected trait name in constraint"
      let items1 := items ++ [{ traitName := traitName.value, logic := l }]
      let tok ← peek
      if tok.type = .AndAnd || tok.type = .OrOr then parseConstraintItems n items1
      else pure items1

/-- `Parser::parseConstraintExpr`. -/
def parseConstraintExpr (h : ParserHooks) : ParseM (List ConstraintItem) :=
  parseConstraintItems h.loops []

/-- The body of the loop of `parseGenericParams`: one parameter. -/
def parseGenericParam (h : ParserHooks) : ParseM GenericParam := do
  let name ← consume .Identifier "Expected generic parameter name"
  let question ← matchToken .Question
  if question then do
    let constraint ← parseConstraintExpr h
    insertGenericParam name.value
    pure { name := name.value, constraint := some constraint }
  else do
    insertGenericParam name.value
    pure { name := name.value, constraint := none }

/-- `Parser::parseGenericParams`. -/
def parseGenericParams (h : ParserHooks) : ParseM (List GenericParam) := do
  let bracket ← matchToken .LBracket
  if bracket then
    closedList .RBracket "Expected ']' after generic parameters" (parseGenericParam h) h.loops
  else pure []

/-- The statement `if (match(TokenType::Identifier) && m_currentToken.value == "require")
{ ... }` of `parseStructDecl`, `parseEnumDecl` and `parseClassDecl`. -/
def parseRequirements (h : ParserHooks) : ParseM (List String) := do
  let isIdentifier ← matchToken .Identifier
  if isIdentifier then do
    let tok ← peek
    if tok.value = "require" then do
      let _ ← advance
      let names ← commaList (consume .Identifier "Expected constraint name") h.loops
      pure (names.map (fun t => t.value))
    else pure []
  else pure []

/-- The body of the loops `while (!match(TokenType::RBrace)) { fields.push_back(
parseStructField()); match(TokenType::Semicolon); }`. -/
def parseFieldEntry (h : ParserHooks) : ParseM VarDecl := do
  let field ← parseStructField h
  let _ ← matchToken .Semicolon
  pure field

/-- `Parser::parseStructDecl`. -/
def parseStructDecl (h : ParserHooks) (isPublic : Bool) : ParseM StructDecl := do
  let _ ← consume .Struct "Expected 'struct'"
  let nameToken ← consume .Identifier "Expected identifier"
  pushGenericParams
  let genericParams ← parseGenericParams h
  let requirements ← parseRequirements h
  let _ ← consume .LBrace "Expected '\x7b'"
  let members ← untilToken .RBrace (parseFieldEntry h) h.loops
  popGenericParams
  pure { name := nameToken.value, members := members, isPublic := isPublic,
         genericParams := genericParams, requirements := requirements }

/-- The payload of an enum variant: the kind, the tuple types and the struct fields. -/
def parseVariantPayload (h : ParserHooks) :
    ParseM (VariantKind × List Ty × List VarDecl) := do
  let paren ← matchToken .LParen
  if paren then do
    let tupleTypes ← closedList .RParen "Expected ')' after tuple variant types"
      (parseType h) h.loops
    pure (.Tuple, tupleTypes, [])
  else do
    let brace ← matchToken .LBrace
    if brace then do
      let structFields ← untilToken .RBrace (parseFieldEntry h) h.loops
      pure (.Struct, [], structFields)
    else pure (.Unit, [], [])

/-- The body of the loop of `parseEnumDecl`: one variant and the optional comma. -/
def parseEnumVariant (h : ParserHooks) : ParseM EnumVariant := do
  let vNameToken ← consume .Identifier "Expected variant name"
  let payload ← parseVariantPayload h
  let _ ← matchToken .Comma
  pure { name := vNameToken.value, variantKind := payload.1, tupleTypes := payload.2.1,
         structFields := payload.2.2 }

/-- `Parser::parseEnumDecl`. -/
def parseEnumDecl (h : ParserHooks) (isPublic : Bool) : ParseM EnumDecl := do
  let _ ← consume .Enum "Expected 'enum'"
  let nameToken ← consume .Identifier "Expected identifier"
  pushGenericParams
  let genericParams ← parseGenericParams h
  let requirements ← parseRequirements h
  let _ ← consume .LBrace "Expected '\x7b'"
  let variants ← untilToken .RBrace (parseEnumVariant h) h.loops
  popGenericParams
  pure { name := nameToken.value, variants := variants, isPublic := isPublic,
         genericParams := genericParams, requirements := requirements }

/-- The loop `while (!match(TokenType::RBrace))` of `parseBlock`. -/
def parseBlockLoop (h : ParserHooks) : Nat → ParseM (List Stmt)
  | 0 => throw outOfFuel
  | n + 1 => do
    let closed ← matchToken .RBrace
    if closed then pure []
    else do
      let atEnd ← nextIsEndOfFile
      if atEnd then throw "Unterminated block"
      else do
        let s ← h.parseStatement
        let rest ← parseBlockLoop h n
        pure (s :: rest)

/-- `Parser::parseBlock`. -/
def parseBlock (h : ParserHooks) : ParseM Block := do
  let _ ← consume .LBrace "Expected '\x7b'"
  parseBlockLoop h h.loops

/-- The loop over the parameters of `parseFunctionDecl`; the flag is `isVarArg`. -/
def parseFunctionParams (h : ParserHooks) : Nat → ParseM (List Param × Bool)
  | 0 => throw outOfFuel
  | n + 1 => do
    let ellipsis ← matchToken .Ellipsis
    if ellipsis then pure ([], true)
    else do
      let param ← parseParam h
      let more ← matchToken .Comma
      if more then do
        let rest ← parseFunctionParams h n
        pure (param :: rest.1, rest.2)
      else pure ([param], false)

/-- The parameter list of `parseFunctionDecl`, behind the `(`. -/
def parseFunctionParamList (h : ParserHooks) : ParseM (List Param × Bool) := do
  let closed ← matchToken .RParen
  if closed then pure ([], false)
  else do
    let params ← parseFunctionParams h h.loops
    let _ ← consume .RParen "Expected ')'"
    pure params

/-- The body of `parseFunctionDecl`: a block, or `;` for an extern function. -/
def parseFunctionBody (h : ParserHooks) (isExtern : Bool) : ParseM (Option Block) :=
  if !isExtern then do
    let body ← parseBlock h
    pure (some body)
  else do
    let _ ← consume .Semicolon "Expected ';' after extern function declaration"
    pure none

/-- `Parser::parseFunctionDecl`. -/
def parseFunctionDecl (h : ParserHooks) (isPublic : Bool) : ParseM FunctionDecl := do
  let isExtern ← matchToken .Extern
  let _ ← consume .Fn "Expected 'fn'"
  let nameToken ← consume .Identifier "Expected identifier"
  pushGenericParams
  let genericParams ← parseGenericParams h
  let _ ← consume .LParen "Expected '('"
  let params ← parseFunctionParamList h
  let _ ← consume .Colon "Expected ':' before return type"
  let returnType ← parseType h
  let body ← parseFunctionBody h isExtern
  popGenericParams
  pure { name := nameToken.value, returnType := returnType, params := params.1, body := body,
         isExtern := isExtern, isPublic := isPublic, isVarArg := params.2,
         genericParams := genericParams }

/-- The statement `if (peek().type != TokenType::RParen) consume(TokenType::Comma, ...)` of
`parseMethodDecl`. -/
def commaAfterSelf : ParseM Unit := do
  let tok ← peek
  if tok.type ≠ .RParen then do
    let _ ← consume .Comma "Expected ',' after self"
    pure ()
  else pure ()

/-- The `self` parameter of `parseMethodDecl`: `self`, `&self` or `&mut self`. -/
def parseSelfParam : ParseM (List Param) := do
  let self ← matchToken .Self
  if self then do
    commaAfterSelf
    pure [{ name := "self", type := .struct "Self" [] [] false 0 }]
  else do
    let amp ← matchToken .Ampersand
    if amp then do
      let _ ← matchToken .Mut
      let _ ← consume .Self "Expected 'self' after '&' or '&mut'"
      commaAfterSelf
      pure [{ name := "self", type := .pointer (.struct "Self" [] [] false 0) }]
    else pure []

/-- The return type of `parseMethodDecl`: `void` without a `:`. -/
def parseMethodReturnType (h : ParserHooks) : ParseM Ty := do
  let colon ← matchToken .Colon
  if colon then parseType h else pure (.primitive .Void)

/-- The body of `parseMethodDecl`: a block or `;`. -/
def parseMethodBody (h : ParserHooks) : ParseM (Option Block) := do
  let tok ← peek
  if tok.type = .LBrace then do
    let body ← parseBlock h
    pure (some body)
  else do
    let _ ← consume .Semicolon "Expected ';' or block after method declaration"
    pure none

/-- `Parser::parseMethodDecl`. -/
def parseMethodDecl (h : ParserHooks) (isPublic : Bool) : ParseM MethodDecl := do
  let _ ← matchToken .Fn
  let tilde ← matchToken .Tilde
  let nameToken ← consume .Identifier "Expected identifier"
  let name := (if tilde then "~" else "") ++ nameToken.value
  pushGenericParams
  let genericParams ← parseGenericParams h
  let _ ← consume .LParen "Expected '('"
  let selfParam ← parseSelfParam
  let params ← closedList .RParen "Expected ')'" (parseParam h) h.loops
  let returnType ← parseMethodReturnType h
  let body ← parseMethodBody h
  popGenericParams
  pure { name := name, returnType := returnType, params := selfParam ++ params, body := body,
         isPublic := isPublic, genericParams := genericParams }

/-- `Parser::parseConstructorDecl`. -/
def parseConstructorDecl (h : ParserHooks) (isPublic : Bool) : ParseM ConstructorDecl := do
  let nameToken ← consume .Identifier "Expected constructor name"
  let _ ← consume .LParen "Expected '('"
  let params ← closedList .RParen "Expected ')'" (parseParam h) h.loops
  let body ← parseBlock h
  pure { name := nameToken.value, params := params, body := some body, isPublic := isPublic }

/-- The body of the loop of `parseClassDecl`: one member. -/
def parseClassMember (h : ParserHooks) (name : String) : ParseM ClassMember := do
  let memberPublic ← matchToken .Pub
  let tok ← peek
  if tok.type = .Let then do
    let d ← parseVarDecl h memberPublic
    pure (.field d)
  else if tok.type = .Fn || tok.type = .Tilde then do
    let d ← parseMethodDecl h memberPublic
    pure (.method d)
  else if tok.type = .Identifier then
    if tok.value = name then do
      let d ← parseConstructorDecl h memberPublic
      pure (.ctor d)
    else throw ("Unexpected identifier in class body: " ++ tok.value)
  else throw "Expected field, method, or constructor declaration in class"

/-- `Parser::parseClassDecl`. -/
def parseClassDecl (h : ParserHooks) (isPublic : Bool) : ParseM ClassDecl := do
  let _ ← consume .Class "Expected 'class'"
  let nameToken ← consume .Identifier "Expected identifier"
  pushGenericParams
  let genericParams ← parseGenericParams h
  let requirements ← parseRequirements h
  let _ ← consume .LBrace "Expected '\x7b'"
  let members ← untilToken .RBrace (parseClassMember h nameToken.value) h.loops
  popGenericParams
  pure { name := nameToken.value, members := members, isPublic := isPublic,
         genericParams := genericParams, requirements := requirements }

/-- The first statements of `parseRequestDecl` behind the word `request`: the kind. -/
def parseRequestKind : ParseM RequestKind := do
  let isClass ← matchToken .Class
  if isClass then pure .Class
  else do
    let isEnum ← matchToken .Enum
    if isEnum then do
      let _ ← consume .Enum "Expected 'class' or 'enum' after 'request'"
      pure .Enum
    else throw "Expected 'class' or 'enum' after 'request'"

/-- The optional list of bases of `parseRequestDecl`. -/
def parseBases (h : ParserHooks) : ParseM (List String) := do
  let colon ← matchToken .Colon
  if colon then do
    let names ← commaList (consume .Identifier "Expected base request name") h.loops
    pure (names.map (fun t => t.value))
  else pure []

/-- The branch of `parseRequestDecl` for an enum variant in a request enum. -/
def parseRequestVariant (h : ParserHooks) (isDefault : Bool) : ParseM EnumVariant := do
  let vName ← consume .Identifier "Expected variant name"
  let payload ← parseVariantPayload h
  pure { name := vName.value, variantKind := payload.1, tupleTypes := payload.2.1,
         structFields := payload.2.2, isDefault := isDefault }

/-- The body of the loop of `parseRequestDecl`: one member. -/
def parseRequestMember (h : ParserHooks) (kind : RequestKind) : ParseM RequestMember := do
  let isDefault ← matchToken .Default
  let memberPublic ← matchToken .Pub
  let tok ← peek
  if tok.type = .Let then do
    let d ← parseVarDecl h memberPublic
    pure { decl := .field d, isDefault := isDefault }
  else if tok.type = .Fn then do
    let d ← parseMethodDecl h memberPublic
    pure { decl := .method d, isDefault := isDefault }
  else if kind = .Enum && tok.type = .Identifier then do
    let v ← parseRequestVariant h isDefault
    pure { decl := .variant v, isDefault := isDefault }
  else throw "Unexpected token in request body"

/-- `Parser::parseRequestDecl`. -/
def parseRequestDecl (h : ParserHooks) (isPublic : Bool) : ParseM RequestDecl := do
  let _ ← consume .Identifier "Expected 'request'"
  let kind ← parseRequestKind
  let nameToken ← consume .Identifier "Expected request name"
  pushGenericParams
  let genericParams ← parseGenericParams h
  let bases ← parseBases h
  let _ ← consume .LBrace "Expected '\x7b' in request body"
  let members ← untilToken .RBrace (parseRequestMember h kind) h.loops
  popGenericParams
  pure { name := nameToken.value, kind := kind, members := members, bases := bases,
         genericParams := genericParams, isPublic := isPublic }

/-- The condition of `parseIfStmt` and `parseWhileStmt`, with optional parentheses. -/
def parseCondition (h : ParserHooks) : ParseM Expr := do
  let hasParen ← matchToken .LParen
  let condition ← parseExpression h 0
  if hasParen then do
    let _ ← consume .RParen "Expected ')'"
    pure condition
  else pure condition

/-- The `else` part of `parseIfStmt`. -/
def parseElse (h : ParserHooks) : ParseM (Option Block) := do
  let hasElse ← matchToken .Else
  if hasElse then do
    let tok ← peek
    if tok.type = .If then do
      let nested ← h.parseIfStmt
      pure (some [nested])
    else do
      let elseBlock ← parseBlock h
      pure (some elseBlock)
  else pure none

/-- `Parser::parseIfStmt`. -/
def parseIfStmt (h : ParserHooks) : ParseM Stmt := do
  let _ ← consume .If "Expected 'if'"
  let condition ← parseCondition h
  let thenBlock ← parseBlock h
  let elseBlock ← parseElse h
  pure (.ifStmt condition thenBlock elseBlock)

/-- `Parser::parseWhileStmt`. -/
def parseWhileStmt (h : ParserHooks) : ParseM Stmt := do
  let _ ← consume .While "Expected 'while'"
  let condition ← parseCondition h
  let body ← parseBlock h
  pure (.whileStmt condition body)

/-- `Parser::parseReturnStmt`. -/
def parseReturnStmt (h : ParserHooks) : ParseM Stmt := do
  let _ ← consume .Return "Expected 'return'"
  let tok ← peek
  if tok.type ≠ .Semicolon then do
    let expr ← parseExpression h 0
    let _ ← consume .Semicolon "Expected ';'"
    pure (.returnStmt (some expr))
  else do
    let _ ← consume .Semicolon "Expected ';'"
    pure (.returnStmt none)

/-- `Parser::parseBreakStmt`. -/
def parseBreakStmt : ParseM Stmt := do
  let _ ← consume .Break "Expected 'break'"
  let _ ← consume .Semicolon "Expected ';'"
  pure .breakStmt

/-- `Parser::parseContinueStmt`. -/
def parseContinueStmt : ParseM Stmt := do
  let _ ← consume .Continue "Expected 'continue'"
  let _ ← consume .Semicolon "Expected ';'"
  pure .continueStmt

/-- `Parser::parseDoWhileStmt`. -/
def parseDoWhileStmt (h : ParserHooks) : ParseM Stmt := do
  let _ ← consume .Do "Expected 'do'"
  let body ← parseBlock h
  let _ ← consume .While "Expected 'while'"
  let _ ← consume .LParen "Expected '('"
  let condition ← parseExpression h 0
  let _ ← consume .RParen "Expected ')'"
  let _ ← consume .Semicolon "Expected ';'"
  pure (.doWhileStmt body condition)

/-- The initializer of `parseForStmt`. -/
def parseForInit (h : ParserHooks) : ParseM (Option Stmt) := do
  let empty ← matchToken .Semicolon
  if empty then pure none
  else do
    let tok ← peek
    if tok.type = .Let then do
      let d ← parseVarDecl h false
      pure (some (.varDecl d))
    else do
      let expr ← parseExpression h 0
      let _ ← consume .Semicolon "Expected ';'"
      pure (some (.exprStmt expr))

/-- The condition and the step of `parseForStmt`: an optional expression that `close`
ends. -/
def parseForPart (h : ParserHooks) (close : TokenType) (message : String) :
    ParseM (Option Expr) := do
  let empty ← matchToken close
  if empty then pure none
  else do
    let expr ← parseExpression h 0
    let _ ← consume close message
    pure (some expr)

/-- `Parser::parseForStmt`. -/
def parseForStmt (h : ParserHooks) : ParseM Stmt := do
  let _ ← consume .For "Expected 'for'"
  let _ ← consume .LParen "Expected '('"
  let init ← parseForInit h
  let condition ← parseForPart h .Semicolon "Expected ';'"
  let step ← parseForPart h .RParen "Expected ')'"
  let body ← parseBlock h
  pure (.forStmt init condition step body)

/-- The loop over the statements of `parseCaseStmt`. -/
def parseCaseBody (h : ParserHooks) : Nat → ParseM (List Stmt)
  | 0 => throw outOfFuel
  | n + 1 => do
    let tok ← peek
    if tok.type ≠ .Case && tok.type ≠ .Default && tok.type ≠ .RBrace
        && tok.type ≠ .EndOfFile then do
      let s ← h.parseStatement
      let rest ← parseCaseBody h n
      pure (s :: rest)
    else pure []

/-- The first statements of `parseCaseStmt`: the pattern, or `none` for `default`. -/
def parseCaseHead (h : ParserHooks) : ParseM (Option Pattern) := do
  let isCase ← matchToken .Case
  if isCase then do
    let pattern ← parsePattern h
    pure (some pattern)
  else do
    let isDefault ← matchToken .Default
    if isDefault then pure none
    else throw "Expected 'case' or 'default'"

/-- `Parser::parseCaseStmt`. -/
def parseCaseStmt (h : ParserHooks) : ParseM CaseStmt := do
  let pattern ← parseCaseHead h
  let _ ← consume .Colon "Expected ':'"
  let stmts ← parseCaseBody h h.loops
  pure { pattern := pattern, body := stmts, isDefault := pattern.isNone }

/-- `Parser::parseSwitchStmt`. -/
def parseSwitchStmt (h : ParserHooks) : ParseM Stmt := do
  let _ ← consume .Switch "Expected 'switch'"
  let _ ← consume .LParen "Expected '('"
  let condition ← parseExpression h 0
  let _ ← consume .RParen "Expected ')'"
  let _ ← consume .LBrace "Expected '\x7b'"
  let cases ← untilToken .RBrace (parseCaseStmt h) h.loops
  pure (.switchStmt condition cases)

/-- The fallback of `parseStatement`: an expression statement. -/
def parseExprStmt (h : ParserHooks) : ParseM Stmt := do
  let expr ← parseExpression h 0
  let _ ← consume .Semicolon "Expected ';'"
  pure (.exprStmt expr)

/-- The chain of tests of `parseStatement` on the current token. -/
def parseStatementAt (h : ParserHooks) (isPublic : Bool) (tok : Token) : ParseM Stmt :=
  if tok.type = .Let then do
    let d ← parseVarDecl h isPublic
    pure (.varDecl d)
  else if tok.type = .If then parseIfStmt h
  else if tok.type = .While then parseWhileStmt h
  else if tok.type = .Do then parseDoWhileStmt h
  else if tok.type = .For then parseForStmt h
  else if tok.type = .Switch then parseSwitchStmt h
  else if tok.type = .Return then parseReturnStmt h
  else if tok.type = .Break then parseBreakStmt
  else if tok.type = .Continue then parseContinueStmt
  else if tok.type = .Fn || tok.type = .Extern then do
    let d ← parseFunctionDecl h isPublic
    pure (.functionDecl d)
  else if tok.type = .Struct then do
    let d ← parseStructDecl h isPublic
    pure (.structDecl d)
  else if tok.type = .Enum then do
    let d ← parseEnumDecl h isPublic
    pure (.enumDecl d)
  else if tok.type = .Class then do
    let d ← parseClassDecl h isPublic
    pure (.classDecl d)
  else if tok.type = .Identifier && tok.value = "request" then do
    let d ← parseRequestDecl h false
    pure (.requestDecl d)
  else if tok.type = .LBrace then do
    let b ← parseBlock h
    pure (.block b)
  else parseExprStmt h

/-- `Parser::parseStatement`. -/
def parseStatement (h : ParserHooks) : ParseM Stmt := do
  let isPublic ← matchToken .Pub
  let tok ← peek
  parseStatementAt h isPublic tok

/-- The qualified name `a::b::c` of `parseImportDecl`, `parsePackageDecl` and
`parseUseDecl`: the loop that appends `::` and the next identifier. -/
def parseQualifiedTail : Nat → String → ParseM String
  | 0, _ => throw outOfFuel
  | n + 1, path => do
    let more ← matchToken .ColonColon
    if more then do
      let tok ← consume .Identifier "Expected identifier"
      parseQualifiedTail n (path ++ "::" ++ tok.value)
    else pure path

/-- The optional `as alias`. -/
def parseAlias (message : String) : ParseM String := do
  let isAs ← matchToken .As
  if isAs then do
    let tok ← consume .Identifier message
    pure tok.value
  else pure ""

/-- The path of `parseImportDecl`: a string, or a qualified name of the library. -/
def parseImportPath (h : ParserHooks) : ParseM (String × Bool) := do
  let tok ← peek
  if tok.type = .String then do
    let _ ← advance
    pure (stripQuotes tok.value, false)
  else do
    let first ← consume .Identifier "Expected identifier"
    let path ← parseQualifiedTail h.loops first.value
    pure (path, true)

/-- `Parser::parseImportDecl`. -/
def parseImportDecl (h : ParserHooks) : ParseM ProgramNode := do
  let _ ← consume .Import "Expected 'import'"
  let path ← parseImportPath h
  let aliasName ← parseAlias "Expected alias"
  let _ ← consume .Semicolon "Expected ';'"
  pure (.importDecl path.1 path.2 aliasName)

/-- `Parser::parsePackageDecl`. -/
def parsePackageDecl (h : ParserHooks) : ParseM ProgramNode := do
  let _ ← consume .Package "Expected 'package'"
  let first ← consume .Identifier "Expected package name"
  let name ← parseQualifiedTail h.loops first.value
  let _ ← consume .Semicolon "Expected ';'"
  pure (.packageDecl name)

/-- `Parser::parseUseDecl`. -/
def parseUseDecl (h : ParserHooks) : ParseM ProgramNode := do
  let _ ← consume .Use "Expected 'use'"
  let first ← consume .Identifier "Expected identifier"
  let path ← parseQualifiedTail h.loops first.value
  let aliasName ← parseAlias "Expected alias"
  let _ ← consume .Semicolon "Expected ';'"
  pure (.useDecl path aliasName)

/-- The chain of tests of `parseProgram` on the current token. -/
def parseProgramNode (h : ParserHooks) (isPublic : Bool) (tok : Token) : ParseM ProgramNode :=
  if tok.type = .Fn || tok.type = .Extern then do
    let d ← parseFunctionDecl h isPublic
    pure (.stmt (.functionDecl d))
  else if tok.type = .Struct then do
    let d ← parseStructDecl h isPublic
    pure (.stmt (.structDecl d))
  else if tok.type = .Enum then do
    let d ← parseEnumDecl h isPublic
    pure (.stmt (.enumDecl d))
  else if tok.type = .Class then do
    let d ← parseClassDecl h isPublic
    pure (.stmt (.classDecl d))
  else if tok.type = .Let then do
    let d ← parseVarDecl h isPublic
    pure (.stmt (.varDecl d))
  else if tok.type = .Package then parsePackageDecl h
  else if tok.type = .Import then parseImportDecl h
  else if tok.type = .Use then parseUseDecl h
  else if tok.type = .Identifier && tok.value = "request" then do
    let d ← parseRequestDecl h isPublic
    pure (.stmt (.requestDecl d))
  else do
    let s ← parseStatement h
    pure (.stmt s)

/-- The loop `while (peek().type != TokenType::EndOfFile)` of `parseProgram`. -/
def parseProgramLoop (h : ParserHooks) : Nat → ParseM (List ProgramNode)
  | 0 => throw outOfFuel
  | n + 1 => do
    let tok ← peek
    if tok.type ≠ .EndOfFile then do
      let isPublic ← matchToken .Pub
      let cur ← peek
      let node ← parseProgramNode h isPublic cur
      let rest ← parseProgramLoop h n
      pure (node :: rest)
    else pure []

/-- `Parser::parseProgram`. -/
def parseProgram (h : ParserHooks) : ParseM (List ProgramNode) :=
  parseProgramLoop h h.loops

/-- The functions of the parser with nesting depth and loops bounded by `fuel`. -/
def hooks : Nat → ParserHooks
  | 0 =>
    { loops := 0
      parseExpression := fun _ => throw outOfFuel
      parseUnary := throw outOfFuel
      parseType := throw outOfFuel
      parseStatement := throw outOfFuel
      parseIfStmt := throw outOfFuel
      parsePattern := throw outOfFuel }
  | fuel + 1 =>
    { loops := fuel + 1
      parseExpression := fun minPrec => parseExpression (hooks fuel) minPrec
      parseUnary := parseUnary (hooks fuel)
      parseType := parseType (hooks fuel)
      parseStatement := parseStatement (hooks fuel)
      parseIfStmt := parseIfStmt (hooks fuel)
      parsePattern := parsePattern (hooks fuel) }

/-- The bound that the runs below use for a source text: every round of a loop and every
nested call reads a token or a character, and the text has fewer than this many. -/
def fuelFor (source : String) : Nat := 2 * source.data.length + 8

end Parser

/-- The result of `Parser(source).parseExpression()`. -/
def parseExpressionOf (source : String) : Except String Expr :=
  match (Parser.hooks (Parser.fuelFor source)).parseExpression 0 (Parser.new source) with
  | .ok r => .ok r.1
  | .error e => .error e

/-- The result of `Parser(source).parseStatement()`. -/
def parseStatementOf (source : String) : Except String Stmt :=
  match (Parser.hooks (Parser.fuelFor source)).parseStatement (Parser.new source) with
  | .ok r => .ok r.1
  | .error e => .error e

/-- The result of `Parser(source).parseProgram()`. -/
def parseProgramOf (source : String) : Except String (List ProgramNode) :=
  match Parser.parseProgram (Parser.hooks (Parser.fuelFor source)) (Parser.new source) with
  | .ok r => .ok r.1
  | .error e => .error e

/-! ### Upcoming tokens of a parser state -/

/-- The state after `n` calls of `advance`. -/
def Parser.skip : Nat → Parser → Parser
  | 0, p => p
  | n + 1, p => Parser.skip n p.next

/-- The `i`-th upcoming token of a parser state: the current token for 0, then the tokens
that the lexer returns. -/
def Parser.tokenAt (p : Parser) (i : Nat) : Token := (p.skip i).m_currentToken

/-- The token types on which the loop of `parsePostfix` and the struct-literal test of
`parsePrimary` leave an identifier as it is. -/
def Parser.endsOperand : TokenType → Bool
  | .Dot | .ColonColon | .LParen | .LBracket | .Question | .LBrace => false
  | _ => true

/-- The token types that end an expression: not a binary operator and no postfix form. -/
def Parser.endsExpression (type : TokenType) : Bool :=
  Parser.endsOperand type && decide (Parser.getPrecedence type < 0)

/-- The expression that a postfix form is applied to: the callee of a call, the base of a
member access, struct literal, indexing or specialization, the operand of `?`. -/
def Expr.postfixBase : Expr → Option Expr
  | .call _ callee _ => some callee
  | .memberAccess _ base _ _ => some base
  | .structLiteral _ base _ => some base
  | .indexing _ base _ => some base
  | .question _ operand => some operand
  | .specialization _ base _ _ => some base
  | _ => none

/-- The expression `e` is `base` with zero or more postfix forms applied to it. -/
inductive Expr.Extends (base : Expr) : Expr → Prop where
  | refl : Expr.Extends base base
  | step {e b : Expr} : e.postfixBase = some b → Expr.Extends base b → Expr.Extends base e

/-- The parser of `add[i32](1, 2)` behind the identifier `add`: the current token is `[`. -/
def behindAdd : Parser := (Parser.new "add[i32](1, 2)").skip 1

/-! ## Example inputs -/

/-- The declaration that the parser returns for `let name = init;`. -/
def letDecl (name init : String) : VarDecl :=
  { name := name, type := none, initializer := some (.identifier none init) }

/-- The type of `struct Data { let x: i32 }`. -/
def dataType : Ty := .struct "Data" [Field.mk "x" Ty.i32 true] [] false 1

/-- An analyzer in whose current scope the variable `a` of type `Data` is declared. -/
def ownershipState : Sema :=
  { symbolTable := ⟨[{ symbols := [("a", { name := "a", type := some dataType, isMutable := false })] }]⟩ }

/-- The enum type that the analysis of the built-in declaration of `Result` builds. -/
def resultType : Ty :=
  .enum "Result" [Variant.mk "Ok" .Tuple [.typeParameter "T" ""] [],
                  Variant.mk "Err" .Tuple [.typeParameter "E" ""] []]

/-- The type that the parser returns for the text `Result[i32, bool]`. -/
def resultUse : Ty := .struct "Result[i32, bool]" [] [] false 0

/-- The enum type `Result_i32_bool` with the variants `Ok(i32)` and `Err(bool)`. -/
def resultI32Bool : Ty :=
  .enum "Result_i32_bool" [Variant.mk "Ok" .Tuple [Ty.i32] [], Variant.mk "Err" .Tuple [Ty.bool] []]

/-- The declaration that the parser returns for
`fn test(): Result[i32, bool] { return Result[i32, bool]::Ok(42); }`
(`tests/Sema/BuiltinResultTest.cpp`). -/
def resultTestFunction : FunctionDecl :=
  { name := "test", returnType := resultUse, params := [],
    body := some [.returnStmt (some (.call none
      (.memberAccess none
        (.specialization none (.identifier none "Result") [Ty.i32, Ty.bool] "") "Ok" true)
      [.literal { type := none, value := .int 42, explicitType := none }]))] }

/-- The declaration that the parser returns for `struct Point[T] { let x: T; let y: T }`. -/
def pointDecl : StructDecl :=
  { name := "Point",
    members := [{ name := "x", type := some (.typeParameter "T" ""), isPublic := true },
                { name := "y", type := some (.typeParameter "T" ""), isPublic := true }],
    genericParams := [{ name := "T" }] }

/-- The declaration that the parser returns for `struct Box[T] { let v: T }`. -/
def boxDecl : StructDecl :=
  { name := "Box",
    members := [{ name := "v", type := some (.typeParameter "T" ""), isPublic := true }],
    genericParams := [{ name := "T" }] }

/-- The declaration that the parser returns for `struct Wrap[T] { let b: Box[T] }`. -/
def wrapDecl : StructDecl :=
  { name := "Wrap",
    members := [{ name := "b", type := some (.struct "Box[T]" [] [] false 0), isPublic := true }],
    genericParams := [{ name := "T" }] }

/-- The declaration that the parser returns for `fn add[T](a: T, b: T): T { return a + b; }`
(`tests/Sema/GenericsSemaTest.cpp`). -/
def addDecl : FunctionDecl :=
  { name := "add", returnType := .typeParameter "T" "",
    params := [⟨"a", .typeParameter "T" ""⟩, ⟨"b", .typeParameter "T" ""⟩],
    body := some [.returnStmt (some (.binary none (.identifier none "a") .Plus
      (.identifier none "b")))],
    genericParams := [{ name := "T" }] }

/-- The prototype `fn m(p: Point[f64], q: Point[f64]);` as the parser returns it. -/
def shadowPrototype : MethodDecl :=
  { name := "m", returnType := Ty.void,
    params := [⟨"p", .struct "Point[f64]" [] [] false 0⟩, ⟨"q", .struct "Point[f64]" [] [] false 0⟩],
    body := none }

/-- The declaration that the parser returns for
`request class R[Point_f64] { fn m(p: Point[f64], q: Point[f64]); }`. -/
def shadowRequest : RequestDecl :=
  { name := "R", kind := .Class,
    members := [{ decl := .method shadowPrototype, isDefault := false }],
    genericParams := [{ name := "Point_f64" }] }

/-- The analyzer inside the scope of the request `R[Point_f64]`, as
`Sema::analyzeRequestDecl` sets it up before it resolves the prototypes: a new scope in
which the generic parameter `Point_f64` is registered as a type parameter. -/
def inRequestScope (s : Sema) : Sema :=
  { s with symbolTable :=
      Sema.insertTypeParams s.symbolTable.pushScope shadowRequest.genericParams }

/-- The declaration that the parser returns for `fn f[T](b: Box[T]): void { }`. -/
def boxParamDecl : FunctionDecl :=
  { name := "f", returnType := Ty.void, params := [⟨"b", .struct "Box[T]" [] [] false 0⟩],
    body := some [], genericParams := [{ name := "T" }] }

/-- The declaration that the parser returns for
`fn g[T](p: T*, a: T[4]): T { let x: T = sizeof[T](); return x; }`. -/
def nestedParamDecl : FunctionDecl :=
  { name := "g", returnType := .typeParameter "T" "",
    params := [⟨"p", .pointer (.typeParameter "T" "")⟩, ⟨"a", .array (.typeParameter "T" "") 4⟩],
    body := some [
      .varDecl { name := "x", type := some (.typeParameter "T" ""),
                 initializer := some (.intrinsic none .Sizeof (some (.typeParameter "T" "")) []) },
      .returnStmt (some (.identifier none "x"))],
    genericParams := [{ name := "T" }] }

/-! ## Example inputs of the MIR builder

The declarations are written as the analyzer leaves them: every expression and every
declared variable carries its type. -/

/-- The declaration of `fn f(): bool { }`. -/
def emptyBoolFunction : FunctionDecl :=
  { name := "f", returnType := Ty.bool, params := [], body := some [] }

/-- The literal `true` or `false`. -/
def boolLiteral (b : Bool) : Expr :=
  .literal { type := some Ty.bool, value := .bool b }

/-- The declaration of
`fn g(c: bool): i32 { if (c) { return 1; } else { return 2; } }`. -/
def bothReturnFunction : FunctionDecl :=
  { name := "g", returnType := Ty.i32, params := [⟨"c", Ty.bool⟩],
    body := some [.ifStmt (.identifier (some Ty.bool) "c")
      [.returnStmt (some (.literal { type := some Ty.i32, value := .int 1 }))]
      (some [.returnStmt (some (.literal { type := some Ty.i32, value := .int 2 }))])] }

/-- The declaration of `class Foo { fn ~Foo() { } }`. -/
def fooDecl : ClassDecl :=
  { name := "Foo",
    members := [.method { name := "~Foo", returnType := Ty.void, params := [], body := some [] }] }

/-- The class type `Foo` that the analyzer gives to a variable initialized by `Foo()`;
the builder reads its name and its class flag. -/
def fooType : Ty := .struct "Foo" [] [] true 1

/-- The statement `let f = Foo();`. -/
def letFoo : Stmt :=
  .varDecl { name := "f", type := some fooType,
             initializer := some (.call (some fooType) (.identifier none "Foo") []) }

/-- The declaration of `fn main(): void { while (true) { let f = Foo(); break; } }`. -/
def breakFunction : FunctionDecl :=
  { name := "main", returnType := Ty.void, params := [],
    body := some [.whileStmt (boolLiteral true) [letFoo, .breakStmt]] }

/-- The declaration of `fn main(): void { while (true) { let f = Foo(); continue; } }`. -/
def continueFunction : FunctionDecl :=
  { name := "main", returnType := Ty.void, params := [],
    body := some [.whileStmt (boolLiteral true) [letFoo, .continueStmt]] }

/-- The declaration of `fn main(): void { while (true) { let f = Foo(); return; } }`. -/
def returnFunction : FunctionDecl :=
  { name := "main", returnType := Ty.void, params := [],
    body := some [.whileStmt (boolLiteral true) [letFoo, .returnStmt none]] }

/-- The expression `g()?` where `g` returns `Result[i32, bool]`. -/
def questionCall : Expr :=
  .question (some Ty.i32) (.call (some resultI32Bool) (.identifier none "g") [])

/-- The declaration of
`fn f(): Result[i32, bool] { let x = g()?; return Result::Ok(x); }`. -/
def questionFunction : FunctionDecl :=
  { name := "f", returnType := resultI32Bool, params := [],
    body := some [
      .varDecl { name := "x", type := some Ty.i32, initializer := some questionCall },
      .returnStmt (some (.call (some resultI32Bool)
        (.memberAccess none (.identifier none "Result") "Ok" true)
        [.identifier (some Ty.i32) "x"]))] }


/-- The statement `let name = Foo();`. -/
def letFooNamed (name : String) : Stmt :=
  .varDecl { name := name, type := some fooType,
             initializer := some (.call (some fooType) (.identifier none "Foo") []) }

/-- The declaration of `fn main(): void { let f = Foo(); { let f2 = Foo(); } return; }`
(`tests/MIR/OwnershipMIRTest.cpp`, with the return type written). -/
def ownershipFunction : FunctionDecl :=
  { name := "main", returnType := Ty.void, params := [],
    body := some [letFooNamed "f", .block [letFooNamed "f2"], .returnStmt none] }

/-- The declaration of
`fn main(c: bool): void { let f = Foo(); if (c) { if (c) { let f2 = Foo(); } } }`. -/
def nestedIfFunction : FunctionDecl :=
  { name := "main", returnType := Ty.void, params := [⟨"c", Ty.bool⟩],
    body := some [letFooNamed "f",
      .ifStmt (.identifier (some Ty.bool) "c")
        [.ifStmt (.identifier (some Ty.bool) "c") [letFooNamed "f2"] none] none] }

/-! ## Notions used to state properties of the MIR builder -/

/-- The builder after the instructions `insts` are appended to the block at address `k`. -/
def MIRBuilder.appendTo (s : MIRBuilder) (k : Nat) (insts : List MIRInstruction) : MIRBuilder :=
  match s.blockStore[k]? with
  | some b =>
    { s with blockStore := s.blockStore.set k { b with instructions := b.instructions ++ insts } }
  | none => s

/-- The block `b` after the instructions `l` are appended to it. -/
def appended (l : List MIRInstruction) (b : BasicBlock) : BasicBlock :=
  { b with instructions := b.instructions ++ l }

/-- The call `C_~C(addr)` that destroys the variable `v`. -/
def MIRBuilder.destructorCall (v : MIRBuilder.LocalVar) (addr : String) : MIRInstruction :=
  .Call "" (MIRBuilder.dtorName v.type) [addr]

/-- The destructor call for a variable, when its class has a destructor and the variable
is bound in `varMap`. -/
def MIRBuilder.destructorOf (structTypes : List (String × MIRBuilder.StructInfo))
    (varMap : List (String × String)) (v : MIRBuilder.LocalVar) : Option MIRInstruction :=
  if MIRBuilder.needsDestructor structTypes v.type then
    (varMap.lookup v.name).map (MIRBuilder.destructorCall v)
  else none

/-- The destructor calls for the variables of one scope that are bound in `varMap`: the
variables whose class has a destructor, from the last declared to the first. -/
def MIRBuilder.scopeDestructors (structTypes : List (String × MIRBuilder.StructInfo))
    (varMap : List (String × String)) (vars : List MIRBuilder.LocalVar) : List MIRInstruction :=
  vars.reverse.filterMap (MIRBuilder.destructorOf structTypes varMap)

/-- The destructor calls for all scopes of the builder, innermost scope first. -/
def MIRBuilder.pendingDestructors (s : MIRBuilder) : List MIRInstruction :=
  s.scopeStack.reverse.flatMap fun scope =>
    MIRBuilder.scopeDestructors s.structTypes s.varMap scope.vars

/-- The text of a type operand, `null` for a null pointer. -/
def typeText (t : Option Ty) : String :=
  match t with
  | some type => type.toString
  | none => "null"

/-- The symbol of an operator token. -/
def operatorText : TokenType → String
  | .Plus => "+" | .Minus => "-" | .Star => "*" | .Slash => "/" | .Percent => "%"
  | .Equal => "=" | .EqualEqual => "==" | .NotEqual => "!=" | .Greater => ">"
  | .GreaterEqual => ">=" | .Less => "<" | .LessEqual => "<=" | .Not => "!"
  | .Ampersand => "&" | .Pipe => "|" | .Caret => "^" | .Tilde => "~" | .AndAnd => "&&"
  | .OrOr => "||" | .ShiftLeft => "<<" | .ShiftRight => ">>" | .PlusPlus => "++"
  | .MinusMinus => "--"
  | _ => "?"

/-- A readable text of an instruction for the statements below: the destination, the
name of the instruction class in lower case and all operands. -/
def MIRInstruction.describe : MIRInstruction → String
  | .Alloca name type => name ++ " = alloca " ++ typeText type
  | .ConstInt dest value => dest ++ " = const " ++ toString value
  | .ConstBool dest value => dest ++ " = const " ++ toString value
  | .ConstString dest value => dest ++ " = const string " ++ value
  | .ConstDouble dest value => dest ++ " = const double " ++ value
  | .UnaryOp dest operand op => dest ++ " = unaryop " ++ operatorText op ++ " " ++ operand
  | .BinOp dest left right op =>
    dest ++ " = binop " ++ operatorText op ++ " " ++ left ++ ", " ++ right
  | .Store src dest => "store " ++ src ++ ", " ++ dest
  | .Load dest src => dest ++ " = load " ++ src
  | .StructElementPtr dest ptr structName fieldName =>
    dest ++ " = struct_gep " ++ ptr ++ " (" ++ structName ++ "), " ++ fieldName
  | .ArrayElementPtr dest ptr index elementType =>
    dest ++ " = array_gep " ++ ptr ++ ", " ++ index ++ " (" ++ typeText elementType ++ ")"
  | .Sizeof dest type => dest ++ " = sizeof " ++ typeText type
  | .Alignof dest type => dest ++ " = alignof " ++ typeText type
  | .Offsetof dest type memberName =>
    dest ++ " = offsetof " ++ typeText type ++ ", " ++ memberName
  | .VariantTag dest enumPtr => dest ++ " = variant_tag " ++ enumPtr
  | .VariantData dest enumPtr tag args =>
    dest ++ " = variant_data " ++ enumPtr ++ ", tag " ++ toString tag
      ++ "(" ++ joinComma args ++ ")"
  | .VariantExtract dest enumPtr tag fieldIndex fieldType =>
    dest ++ " = variant_extract " ++ enumPtr ++ ", tag " ++ toString tag ++ ", index "
      ++ toString fieldIndex ++ " (" ++ typeText fieldType ++ ")"
  | .Ret val => "ret " ++ val
  | .Call dest callee args => dest ++ " = call " ++ callee ++ "(" ++ joinComma args ++ ")"
  | .Br target => "br " ++ target
  | .CondBr cond thenLabel elseLabel => "br " ++ cond ++ ", " ++ thenLabel ++ ", " ++ elseLabel

/-- The functions of the module after the nodes are lowered by a new builder: for every
function its name and, for every block, the name and the described instructions; `none`
when the lowering throws. -/
def loweredText (nodes : List Stmt) : Option (List (String × List (String × List String))) :=
  match MIRBuilder.lowerNodes nodes {} with
  | .ok (_, s) =>
    some (s.getFunctions.map fun f =>
      (f.name, (s.getBlocks f).map fun b => (b.name, b.instructions.map MIRInstruction.describe)))
  | .error _ => none

/-- The builder after `newBlock` adds the block `uniqueName` to the function `func` at
address `f` of the function store. -/
def MIRBuilder.withBlock (s : MIRBuilder) (f : Nat) (func : MIRFunction) (uniqueName : String) :
    MIRBuilder :=
  { s with
    blockCount := s.blockCount + 1
    blockStore := s.blockStore ++ [{ name := uniqueName }]
    functionStore := s.functionStore.set f { func with blocks := func.blocks ++ [s.blockStore.length] } }

/-- The name `%t` and a number that `newTemp` returns. -/
def tempName (n : Nat) : String := "%t" ++ Nat.repr n

/-- The name of a block that `newBlock` builds from a name and the block counter. -/
def blockName (name : String) (count : Nat) : String := name ++ "." ++ Nat.repr count

/-- The builder after `newTemp`. -/
def MIRBuilder.bumpTemp (s : MIRBuilder) : MIRBuilder :=
  { s with tempCount := s.tempCount + 1 }

/-- The builder after `currentBlock` is set to the block at address `k`. -/
def MIRBuilder.enter (s : MIRBuilder) (k : Nat) : MIRBuilder :=
  { s with currentBlock := some k }

/-- The builder with another `varMap`. -/
def MIRBuilder.withVarMap (s : MIRBuilder) (m : List (String × String)) : MIRBuilder :=
  { s with varMap := m }

/-- The builder `s'` has the block store, the current block and the registered structs
of `s`. -/
structure MIRBuilder.Quiet (s s' : MIRBuilder) : Prop where
  blockStore : s'.blockStore = s.blockStore
  currentBlock : s'.currentBlock = s.currentBlock
  structTypes : s'.structTypes = s.structTypes

/-- The variables of a scope for which `popScope` calls a destructor, in the order of
the calls: from the last declared to the first. -/
def MIRBuilder.destroyed (structTypes : List (String × MIRBuilder.StructInfo))
    (scope : MIRBuilder.Scope) : List MIRBuilder.LocalVar :=
  scope.vars.reverse.filter fun v => MIRBuilder.needsDestructor structTypes v.type

/-- The declaration of
`fn main(): void { while (true) { let f = Foo(); if (true) { break; } } }`. -/
def breakInIfFunction : FunctionDecl :=
  { name := "main", returnType := Ty.void, params := [],
    body := some [.whileStmt (boolLiteral true)
      [letFoo, .ifStmt (boolLiteral true) [.breakStmt] none]] }

/-- The declaration of
`fn main(): void { while (true) { let f = Foo(); if (true) { continue; } } }`. -/
def continueInIfFunction : FunctionDecl :=
  { name := "main", returnType := Ty.void, params := [],
    body := some [.whileStmt (boolLiteral true)
      [letFoo, .ifStmt (boolLiteral true) [.continueStmt] none]] }

/-- The declaration of
`fn main(): void { while (true) { let f = Foo(); if (true) { return; } } }`. -/
def returnInIfFunction : FunctionDecl :=
  { name := "main", returnType := Ty.void, params := [],
    body := some [.whileStmt (boolLiteral true)
      [letFoo, .ifStmt (boolLiteral true) [.returnStmt none] none]] }

/-- The call `g()` of type `Result[i32, bool]`. -/
def callG : Expr := .call (some resultI32Bool) (.identifier none "g") []

/-- A builder at the start of the body of `fn f(): Result[i32, bool]`: the function
holds its entry block, which is empty and current. -/
def inFunctionF : MIRBuilder :=
  { blockStore := [⟨"entry.0", []⟩]
    functionStore := [{ name := "f", returnType := resultI32Bool, blocks := [0] }]
    currentFunction := some 0
    currentBlock := some 0
    blockCount := 1
    scopeStack := [{}] }

/-- The builder `inFunctionF` after `g()` is lowered: the call is in the entry block. -/
def afterCallG : MIRBuilder :=
  { inFunctionF with
    blockStore := [⟨"entry.0", [.Call "%t0" "g" []]⟩]
    tempCount := 1 }

/-- The record of the class `Foo` that `lowerClassDecl` registers for `fooDecl`. -/
def fooInfo : MIRBuilder.StructInfo :=
  { name := "Foo", type := some (.struct "Foo" [] [] false 0), hasDestructor := true }

/-- A builder inside the inner block of
`fn main(): void { let f = Foo(); { let f2 = Foo(); } return; }`, before the scope of `f2` is
popped: the function scope records `f`, the scope of the block records `f2`. -/
def beforeInnerPop : MIRBuilder :=
  { blockStore := [⟨"entry.0", [.Alloca "%f" (some fooType), .Alloca "%f2" (some fooType)]⟩]
    functionStore := [{ name := "main", returnType := Ty.void, blocks := [0] }]
    currentFunction := some 0
    currentBlock := some 0
    blockCount := 1
    scopeStack := [{ vars := [⟨"f", fooType⟩] }, { vars := [⟨"f2", fooType⟩] }]
    varMap := [("f", "%f"), ("f2", "%f2")]
    ptrTypeMap := [("%f", "Foo"), ("%f2", "Foo")]
    structTypes := [("Foo", fooInfo)] }

/-! ## Call sequences on the symbol table -/

/-- One call of `SymbolTable::insert` or `SymbolTable::insertType`, with its arguments. -/
inductive SymbolTable.Op where
  | insert (name : String) (type : Option Ty) (isMutable isPublic : Bool) (decl : Option Stmt)
  | insertType (name : String) (type : Option Ty) (isPublic : Bool) (decl : Option Stmt)

/-- The table after one call (the returned flag is dropped). -/
def SymbolTable.Op.apply (t : SymbolTable) : SymbolTable.Op → SymbolTable
  | .insert name type isMutable isPublic decl => (t.insert name type isMutable isPublic decl).2
  | .insertType name type isPublic decl => (t.insertType name type isPublic decl).2

/-- The table after a sequence of calls, first call first. -/
def SymbolTable.applyOps (t : SymbolTable) (ops : List SymbolTable.Op) : SymbolTable :=
  ops.foldl SymbolTable.Op.apply t

/-- A module scope that binds `x`, used to show that outer bindings do not block `insert`. -/
def outerX : Scope :=
  { symbols := [("x", { name := "x", type := some Ty.i32, isMutable := false })] }

/-! ## Terminators in the blocks of lowered functions -/

/-- Every instruction of the block before its last one is no terminator. -/
def BasicBlock.terminatorsOnlyLast (b : BasicBlock) : Bool :=
  b.instructions.dropLast.all fun inst => !inst.isTerminator

/-- The number of terminators in the block. -/
def BasicBlock.terminatorCount (b : BasicBlock) : Nat :=
  (b.instructions.filter MIRInstruction.isTerminator).length

/-- The forms of the initializer of a `for` that `parseForStmt` builds: a variable
declaration or an expression statement. -/
def Stmt.isForInit : Stmt → Bool
  | .varDecl _ => true
  | .exprStmt _ => true
  | _ => false

/-- The nodes that declare something: functions, structs, enums, classes and requests. -/
def Stmt.isDeclaration : Stmt → Bool
  | .functionDecl _ => true
  | .structDecl _ => true
  | .enumDecl _ => true
  | .classDecl _ => true
  | .requestDecl _ => true
  | _ => false

mutual
/-- In the statement and in every statement below it, the initializer of a `for` has a
form that the parser builds and no class declares a destructor. -/
def Stmt.plain : Stmt → Bool
  | .block statements => Stmt.plainList statements
  | .ifStmt _ thenBlock elseBlock => Stmt.plainList thenBlock && Stmt.plainOptList elseBlock
  | .whileStmt _ body => Stmt.plainList body
  | .doWhileStmt body _ => Stmt.plainList body
  | .forStmt init _ _ body => Stmt.plainInit init && Stmt.plainList body
  | .switchStmt _ cases => Stmt.plainCases cases
  | .functionDecl d => Stmt.plainFunction d
  | .classDecl d => Stmt.plainClass d
  | _ => true
/-- `Stmt.plain` for the statements of a block. -/
def Stmt.plainList : List Stmt → Bool
  | [] => true
  | stmt :: rest => Stmt.plain stmt && Stmt.plainList rest
/-- `Stmt.plain` for a block that may be null. -/
def Stmt.plainOptList : Option (List Stmt) → Bool
  | none => true
  | some statements => Stmt.plainList statements
/-- The initializer of a `for`, when there is one, is a variable declaration or an
expression statement. -/
def Stmt.plainInit : Option Stmt → Bool
  | none => true
  | some stmt => stmt.isForInit && Stmt.plain stmt
/-- `Stmt.plain` for the bodies of the cases of a switch. -/
def Stmt.plainCases : List CaseStmt → Bool
  | [] => true
  | ⟨_, body, _⟩ :: rest => Stmt.plainList body && Stmt.plainCases rest
/-- `Stmt.plain` for the body of a function. -/
def Stmt.plainFunction : FunctionDecl → Bool
  | ⟨_, _, _, body, _, _, _, _⟩ => Stmt.plainOptList body
/-- `Stmt.plain` for the bodies of the methods and constructors of a class. -/
def Stmt.plainMembers : List ClassMember → Bool
  | [] => true
  | .field _ :: rest => Stmt.plainMembers rest
  | .method ⟨_, _, _, body, _, _⟩ :: rest => Stmt.plainOptList body && Stmt.plainMembers rest
  | .ctor ⟨_, _, body, _⟩ :: rest => Stmt.plainOptList body && Stmt.plainMembers rest
/-- A class that declares no destructor, with plain bodies. -/
def Stmt.plainClass : ClassDecl → Bool
  | ⟨name, members, _, _, _⟩ =>
    !MIRBuilder.declaresDestructor name members && Stmt.plainMembers members
end

/-- The declaration of
`fn h(c: bool): bool { if (c) { return true; } else { return false; } }`. -/
def bothReturnBool : FunctionDecl :=
  { name := "h", returnType := Ty.bool, params := [⟨"c", Ty.bool⟩],
    body := some [.ifStmt (.identifier (some Ty.bool) "c")
      [.returnStmt (some (boolLiteral true))]
      (some [.returnStmt (some (boolLiteral false))])] }

/-- The declaration `bothReturnBool` as the parser builds it, before the analyzer writes
the types of its expressions. -/
def bothReturnSource : FunctionDecl :=
  { name := "h", returnType := Ty.bool, params := [⟨"c", Ty.bool⟩],
    body := some [.ifStmt (.identifier none "c")
      [.returnStmt (some (.literal { value := .bool true }))]
      (some [.returnStmt (some (.literal { value := .bool false }))])] }

/-- The builder after the nodes are lowered by a new builder; `none` when the lowering
throws. -/
def lowered (nodes : List Stmt) : Option MIRBuilder :=
  match MIRBuilder.lowerNodes nodes {} with
  | .ok (_, s) => some s
  | .error _ => none

namespace MIRBuilder

/-- No registered struct or class has the destructor flag. -/
def NoDestructors (structTypes : List (String × StructInfo)) : Prop :=
  ∀ name info, structTypes.lookup name = some info → info.hasDestructor = false

/-- The invariant of the builder: in every block of the store the terminators stand in
last position only, and no registered class has a destructor. -/
structure Inv (s : MIRBuilder) : Prop where
  blocks : ∀ (j : Nat) (b : BasicBlock), s.blockStore[j]? = some b → b.terminatorsOnlyLast = true
  noDestructors : NoDestructors s.structTypes

/-- The current block exists and does not end in a terminator. -/
def Open (s : MIRBuilder) : Prop :=
  ∃ (k : Nat) (b : BasicBlock),
    s.currentBlock = some k ∧ s.blockStore[k]? = some b ∧ b.hasTerminator = false

/-- The block at address `n` exists, is empty and is not the current block. -/
def Idle (s : MIRBuilder) (n : Nat) : Prop :=
  (∃ b : BasicBlock, s.blockStore[n]? = some b ∧ b.instructions = []) ∧ s.currentBlock ≠ some n

/-- From `s` to `s'` the store has grown, the blocks of `s` other than its current block
are unchanged, and the current block of `s'` is that of `s` or a new block. -/
structure Frame (s s' : MIRBuilder) : Prop where
  length : s.blockStore.length ≤ s'.blockStore.length
  others : ∀ j, j < s.blockStore.length → s.currentBlock ≠ some j →
    s'.blockStore[j]? = s.blockStore[j]?
  current : ∀ k, s'.currentBlock = some k → s.currentBlock = some k ∨ s.blockStore.length ≤ k

/-- A computation that, run under the invariant, keeps the store and the current block
and registers no destructor. -/
def KSpec {α : Type} (x : BuildM α) : Prop :=
  ∀ s a s', x s = .ok (a, s') → Inv s →
    s'.blockStore = s.blockStore ∧ s'.currentBlock = s.currentBlock
      ∧ NoDestructors s'.structTypes

/-- A computation that, from an open current block, keeps the invariant and ends in an
open current block. -/
def ESpec {α : Type} (x : BuildM α) : Prop :=
  ∀ s a s', x s = .ok (a, s') → Inv s → Open s → Inv s' ∧ Frame s s' ∧ Open s'

/-- A computation that, from an open current block, keeps the invariant. -/
def SSpec {α : Type} (x : BuildM α) : Prop :=
  ∀ s a s', x s = .ok (a, s') → Inv s → Open s → Inv s' ∧ Frame s s'

/-- A computation that keeps the invariant from every state. -/
def DSpec {α : Type} (x : BuildM α) : Prop :=
  ∀ s a s', x s = .ok (a, s') → Inv s → Inv s' ∧ Frame s s'

/-- The facts that the proofs for the control statements carry from a state `s0` to a later
state `s`: the invariant, the frame, and a list of distinct idle blocks made after `s0`. -/
structure Track (s0 : MIRBuilder) (idle : List Nat) (s : MIRBuilder) : Prop where
  inv : Inv s
  frame : Frame s0 s
  nodup : idle.Nodup
  idle : ∀ n ∈ idle, Idle s n ∧ s0.blockStore.length ≤ n

/-- The state of a proof for a control statement: the tracked facts and, when `o` is
set, an open current block. -/
def Stage (s0 : MIRBuilder) (idle : List Nat) (o : Bool) (s : MIRBuilder) : Prop :=
  Track s0 idle s ∧ (o = true → Open s)

/-- A computation that, run from a state with `P`, gives a result and a state with `Q`. -/
def Triple {α : Type} (P : MIRBuilder → Prop) (x : BuildM α) (Q : α → MIRBuilder → Prop) :
    Prop :=
  ∀ s a s', x s = .ok (a, s') → P s → Q a s'

end MIRBuilder

/-! ## Repeated peeks of the lexer, and inputs for the expression checks -/

namespace Lexer

/-- The lexer after `k` calls of `peekToken`. -/
def afterPeeks : Nat → Lexer → Lexer
  | 0, l => l
  | k + 1, l => afterPeeks k l.peekToken.2

/-- The tokens that `k` calls of `peekToken` return, one after the other. -/
def peeks : Nat → Lexer → List Token
  | 0, _ => []
  | k + 1, l => l.peekToken.1 :: peeks k l.peekToken.2

end Lexer

/-- The node that the parser returns for a decimal integer literal without suffix. -/
def intLiteral (n : Int) : Expr := .literal { value := .int n }

/-- The operators for which `Sema::checkBinaryExpr` returns `bool`. -/
def comparisonOperators : List TokenType :=
  [.EqualEqual, .NotEqual, .Greater, .GreaterEqual, .Less, .LessEqual, .AndAnd, .OrOr]

/-! ## Modules (`Sema::analyzeImportDecl`, `Sema::analyzeUseDecl`) and the loop of the drivers

The files that `std::ifstream` can open are a list of paths with the text of the file. -/

/-- The text behind the last character of `s` for which `p` holds, all of `s` when there
is none (`find_last_of` and `substr(pos + 1)`). -/
def afterLastOf (p : Char → Bool) (s : List Char) : List Char :=
  (s.reverse.takeWhile fun c => !p c).reverse

/-- The text before the last `c` of `s`, all of `s` when there is none (`find_last_of` and
`substr(0, pos)`). -/
def beforeLastOf (c : Char) (s : List Char) : List Char :=
  if s.contains c then ((s.reverse.dropWhile fun x => x != c).drop 1).reverse else s

/-- The texts before and behind the last `::` of the path (`rfind("::")`, `substr(0, pos)`
and `substr(pos + 2)`); `none` when the path has no `::`. -/
def splitAtLastColons : List Char → Option (List Char × List Char)
  | [] => none
  | c :: rest =>
    match splitAtLastColons rest with
    | some (m, x) => some (c :: m, x)
    | none =>
      match c, rest with
      | ':', ':' :: tail => some ([], tail)
      | _, _ => none

namespace Sema

/-- The files that an analyzer can open: the path and the text. -/
abbrev Files := List (String × String)

/-- The module name of `analyzeImportDecl`: the alias, or the file name without its
directories and without its extension. -/
def moduleNameOf (filePath aliasName : String) : String :=
  if !aliasName.isEmpty then aliasName
  else String.mk (beforeLastOf '.' (afterLastOf (fun c => c = '/' || c = '\\') filePath.data))

/-- The loop of `analyzeImportDecl` that puts the module name before the names of the
functions, structs, enums and classes of the module. -/
def renameImported (moduleName : String) : Stmt → Stmt
  | .functionDecl d => .functionDecl { d with name := moduleName ++ "_" ++ d.name }
  | .structDecl d => .structDecl { d with name := moduleName ++ "_" ++ d.name }
  | .enumDecl d => .enumDecl { d with name := moduleName ++ "_" ++ d.name }
  | .classDecl d => .classDecl { d with name := moduleName ++ "_" ++ d.name }
  | other => other

/-- The statements and declarations among the nodes of a program. -/
def stmtsOf : List ProgramNode → List Stmt
  | [] => []
  | .stmt st :: rest => st :: stmtsOf rest
  | _ :: rest => stmtsOf rest

/-- `Sema::analyzeImportDecl`; `analyzeNode` is `Sema::analyze` for the nodes of the module.
Of the nodes that the source moves to `analyzedNodes`, the statements and declarations are
kept.  The analyzer `subSema` of the module is a new object; the addresses of the
`StructType` objects and the methods stored in them are memory that it shares with the
importing analyzer. -/
def analyzeImportDecl (analyzeNode : ProgramNode → SemaM ProgramNode) (files : Files)
    (filePath : String) (isStd : Bool) (aliasName : String) : SemaM Unit :=
  if isStd then pure ()
  else do
    let s ← get
    if s.loadedModules.contains filePath then pure ()
    else do
      modify fun s0 => { s0 with loadedModules := s0.loadedModules ++ [filePath] }
      let moduleName := moduleNameOf filePath aliasName
      match files.lookup filePath with
      | none => throw ("Could not open imported file: " ++ filePath)
      | some source =>
        match parseProgramOf source with
        | .error e => throw e
        | .ok nodes => do
          let s1 ← get
          let subSema : Sema := { Sema.new with loadedModules := s1.loadedModules,
                                                nextAddress := s1.nextAddress,
                                                methodsAt := s1.methodsAt }
          match mapMSema analyzeNode nodes subSema with
          | .error e => throw e
          | .ok (nodes1, sub) =>
            modify fun s2 => { s2 with
              loadedModules := sub.loadedModules
              analyzedNodes := s2.analyzedNodes ++ sub.analyzedNodes
                ++ (stmtsOf nodes1).map (renameImported moduleName)
              modules := mapSet moduleName sub.symbolTable s2.modules
              nextAddress := sub.nextAddress
              methodsAt := sub.methodsAt }

/-- `Sema::analyzeUseDecl`. -/
def analyzeUseDecl (path aliasName : String) : SemaM Unit :=
  match splitAtLastColons path.data with
  | none => throw ("Invalid use path (expected module::member): " ++ path)
  | some (moduleChars, memberChars) => do
    let moduleName := String.mk moduleChars
    let memberName := String.mk memberChars
    let s ← get
    match s.modules.lookup moduleName with
    | none => throw ("Unknown module: " ++ moduleName)
    | some moduleTable =>
      let newName := if aliasName.isEmpty then memberName else aliasName
      match moduleTable.getPublicSymbols.lookup memberName with
      | some sym =>
        match s.symbolTable.insert newName sym.type sym.isMutable false with
        | (true, t) => setTable t
        | (false, _) => throw ("Collision bringing '" ++ memberName ++ "' into scope as '"
            ++ newName ++ "'")
      | none =>
        match moduleTable.getPublicTypes.lookup memberName with
        | some type =>
          match s.symbolTable.insertType newName type false with
          | (true, t) => setTable t
          | (false, _) => throw ("Collision bringing type '" ++ memberName
              ++ "' into scope as '" ++ newName ++ "'")
        | none => throw ("Module '" ++ moduleName ++ "' has no public member named '"
            ++ memberName ++ "'")

/-- `Sema::analyze` on a node of a program, with the imports nested at most `fuel` deep
and the recursive calls of the analyzer bounded by `fuel`. -/
def analyzeNode : Nat → Files → ProgramNode → SemaM ProgramNode
  | fuel, _, .stmt st => do
    let st1 ← analyze (hooks fuel) st
    pure (.stmt st1)
  | _, _, .packageDecl name => pure (.packageDecl name)
  | _, _, .useDecl path aliasName => do
    analyzeUseDecl path aliasName
    pure (.useDecl path aliasName)
  | 0, _, .importDecl _ _ _ => throw "out of fuel"
  | fuel + 1, files, .importDecl filePath isStd aliasName => do
    analyzeImportDecl (analyzeNode fuel files) files filePath isStd aliasName
    pure (.importDecl filePath isStd aliasName)

/-- The loop of the tests and of `main`: the program is parsed and a new analyzer
analyzes its nodes one after the other. The result is the analyzer at the end, or the
message of the exception. -/
def analyzeProgramOf (fuel : Nat) (files : Files) (source : String) : Except String Sema :=
  match parseProgramOf source with
  | .error e => .error e
  | .ok nodes =>
    match mapMSema (analyzeNode fuel files) nodes Sema.new with
    | .error e => .error e
    | .ok (_, s) => .ok s

/-- The check `sema.checkExpr(Parser(source).parseExpression())` of the tests: the type,
or the message of the exception. -/
def checkSource (fuel : Nat) (source : String) (s : Sema) : Except String Ty :=
  match parseExpressionOf source with
  | .error e => .error e
  | .ok e =>
    match checkExpr (hooks fuel) e s with
    | .error e => .error e
    | .ok (r, _) => .ok r.1

end Sema

/-- The file of `testModuleLoading` (`tests/Sema/ModuleLoadingTest.cpp`). -/
def libFiles : Sema.Files :=
  [("lib.cns", "pub fn add(a: i32, b: i32): i32 \x7b return a + b; \x7d")]

/-- The file of `testModuleVisibility`. -/
def libVisFiles : Sema.Files :=
  [("lib_vis.cns", "pub fn public_add(a: i32, b: i32): i32 \x7b return a + b; \x7d\n"
      ++ "fn private_add(a: i32, b: i32): i32 \x7b return a + b; \x7d\n")]

/-- The program of `testModuleLoading`. -/
def moduleLoadingSource : String :=
  "import \x22lib.cns\x22; fn main(): i32 \x7b return lib::add(1, 2); \x7d"

/-- The program of `testModuleLoading` with the function named and not called. -/
def moduleAccessSource : String :=
  "import \x22lib.cns\x22; fn main(): i32 \x7b lib::add; return 0; \x7d"

/-- A program that names the private function of the file of `testModuleVisibility`. -/
def privateAccessSource : String :=
  "import \x22lib_vis.cns\x22; fn main(): i32 \x7b lib_vis::private_add; return 0; \x7d"

/-- The names of the public symbols of the module `name` of the analyzer. -/
def publicNamesOf (name : String) (s : Sema) : Option (List String) :=
  (s.modules.lookup name).map fun t => t.getPublicSymbols.map (·.1)

/-- The message of the exception, when there is one. -/
def failureOf {α : Type} (r : Except String α) : Option String :=
  match r with
  | .error e => some e
  | .ok _ => none

/-- The textual form of the type, when there is no exception. -/
def typeTextOf (r : Except String Ty) : Option String :=
  match r with
  | .ok t => some t.toString
  | .error _ => none

/-- The check of the expression `call` by an analyzer that has analyzed the program
`decls`. -/
def checkAfter (fuel : Nat) (decls call : String) : Except String Ty :=
  match Sema.analyzeProgramOf fuel [] decls with
  | .error e => .error e
  | .ok s => Sema.checkSource fuel call s

/-- The declaration of `testSemaFunctionCallAndReturn` (`tests/Sema/SemaTest.cpp`). -/
def addSource : String := "fn add(a: i32, b: i32): i32 \x7b return a + b; \x7d"

/-- A class with a method that has the parameter `self` only, and a function that calls the
method with one more argument. -/
def getterSource : String :=
  "class A \x7b pub fn get(self): i32 \x7b return 1; \x7d \x7d "
    ++ "fn main(): i32 \x7b let a = A(); return a.get(5); \x7d"

/-- The same class, and a function that calls the method with two more arguments. -/
def getterTwoSource : String :=
  "class A \x7b pub fn get(self): i32 \x7b return 1; \x7d \x7d "
    ++ "fn main(): i32 \x7b let a = A(); return a.get(5, 6); \x7d"

/-- An analyzer in whose module scope the function `add` of type `(i32, i32) -> i32` is
declared. -/
def addState : Sema :=
  { symbolTable := ⟨[{ symbols := [("add",
      { name := "add", type := some (.function [Ty.i32, Ty.i32] Ty.i32 false),
        isMutable := false })] }]⟩ }

/-- The type of `struct Point { let x: i32; let y: i32 }`. -/
def point2Type : Ty :=
  .struct "Point" [Field.mk "x" Ty.i32 true, Field.mk "y" Ty.i32 true] [] false 1

/-- An analyzer in whose module scope the struct type `Point` is registered. -/
def point2State : Sema :=
  { symbolTable := ⟨[{ types := [("Point", some point2Type)] }]⟩ }

/-- A program with an enum that the program declares under the name `Result_my`, and a
function that applies `?` to a value of that enum. -/
def ownResultSource : String :=
  "enum Result_my \x7b A(i32), B(bool) \x7d "
    ++ "fn f(r: Result_my): Result_my \x7b let x: i32 = r?; return r; \x7d"

/-- The same program with the enum called `Other`. -/
def otherEnumSource : String :=
  "enum Other \x7b A(i32), B(bool) \x7d "
    ++ "fn f(r: Other): Other \x7b let x: i32 = r?; return r; \x7d"

/-- An analyzer inside the function `test` of `tests/Sema/BuiltinResultTest.cpp`, which
returns `Result_i32_bool`, with a variable `r` of that type in scope. -/
def questionState : Sema :=
  { symbolTable := ⟨[{ symbols := [("r",
      { name := "r", type := some resultI32Bool, isMutable := false })] }]⟩,
    currentFunction := some { resultTestFunction with returnType := resultI32Bool } }

/-- The mapping of `Sema::checkConstraint`: `Self`, and the first generic parameter of the
request when there is one, are mapped to the candidate type. -/
def requestMapping (request : RequestDecl) (type : Ty) : TypeMapping :=
  match request.genericParams with
  | gp :: _ => mapSet gp.name type (mapSet "Self" type [])
  | [] => mapSet "Self" type []

/-- The function type that `Sema::checkConstraint` expects of the method of the candidate. -/
def expectedMethodType (request : RequestDecl) (type : Ty) (reqMethod : MethodDecl) : Ty :=
  (Ty.function (reqMethod.params.map (·.type)) reqMethod.returnType false).substitute
    (requestMapping request type)

/-- The request `request class Area { fn area(self: Self): f64; }`. -/
def areaRequest : RequestDecl :=
  { name := "Area", kind := .Class,
    members := [{ decl := .method { name := "area", returnType := Ty.f64,
                                    params := [⟨"self", .struct "Self" [] [] false 0⟩],
                                    body := none },
                  isDefault := false }] }

/-- The type of a class `Circle` with the method `area(self): f64`. -/
def circleType : Ty :=
  .struct "Circle" [Field.mk "r" Ty.f64 true]
    [Field.mk "area"
      (.function [.struct "Circle" [Field.mk "r" Ty.f64 true] [] true 1] Ty.f64 false) true]
    true 1

/-- A symbol table in whose module scope the request `Area` is registered. -/
def areaTable : SymbolTable :=
  ⟨[{ types := [("Area", none)], typeDecls := [("Area", some (.requestDecl areaRequest))],
      typeVisibility := [("Area", false)] }]⟩

/-- The name is a symbol of the current scope of the analyzer. -/
def Sema.declaredHere (s : Sema) (name : String) : Bool :=
  (s.symbolTable.lookupCurrentScope name).isSome

/-- The name is a type of the module scope of the analyzer. -/
def Sema.typeRegistered (s : Sema) (name : String) : Bool :=
  match s.symbolTable.scopes.getLast? with
  | some g => mapHas name g.types
  | none => false

/-- The name is a symbol of the module scope of the analyzer. -/
def Sema.symbolRegistered (s : Sema) (name : String) : Bool :=
  match s.symbolTable.scopes.getLast? with
  | some g => mapHas name g.symbols
  | none => false

/-- The source of the redefinition case of `testEnumSema` (`tests/Sema/EnumSemaTest.cpp`). -/
def enumTwiceSource : String := "enum Color \x7b Red \x7d enum Color \x7b Blue \x7d"

/-- Two declarations of a function `f` with the same parameter and return types. -/
def functionTwiceSource : String :=
  "fn f(): i32 \x7b return 1; \x7d fn f(): i32 \x7b return 2; \x7d"

/-- Two declarations of a function `f` with different parameter types. -/
def functionChangedSource : String :=
  "fn f(): i32 \x7b return 1; \x7d fn f(a: i32): i32 \x7b return 2; \x7d"

/-- Two declarations of a struct `P` with different members. -/
def structTwiceSource : String :=
  "struct P \x7b let x: i32; \x7d struct P \x7b let y: bool; \x7d"

/-- An analyzer in whose module scope the enum type `Color` with the variant `Red` is
registered. -/
def colorState : Sema :=
  { symbolTable := ⟨[{ types := [("Color", some (.enum "Color" [Variant.mk "Red" .Unit [] []]))],
                       typeDecls := [("Color", none)],
                       typeVisibility := [("Color", false)] }]⟩,
    registeredEnums := [.enum "Color" [Variant.mk "Red" .Unit [] []]] }

/-- The declaration `enum Color { Blue }`. -/
def colorBlueDecl : EnumDecl :=
  { name := "Color", variants := [{ name := "Blue", variantKind := .Unit }] }
/-! ## The driver (`src/main.cpp`) up to the MIR -/

/-- The steps of `main` from the source text to the MIR for a program without imported
files: the program is parsed, a new analyzer analyzes its nodes in place, and a new
builder lowers the nodes that the analyzer has added (`getAnalyzedNodes`) and then the
nodes of the program. The result is the builder at the end, or the message of the
exception. -/
def compileOf (fuel : Nat) (source : String) : Except String MIRBuilder :=
  match parseProgramOf source with
  | .error e => .error e
  | .ok nodes =>
    match mapMSema (Sema.analyzeNode fuel []) nodes Sema.new with
    | .error e => .error e
    | .ok (nodes1, s) =>
      match MIRBuilder.lowerNodes (s.analyzedNodes ++ Sema.stmtsOf nodes1)
          { moduleNames := s.modules.map (·.1) } with
      | .error e => .error e
      | .ok (_, b) => .ok b

/-- The functions of the module that `compileOf` builds: for every function its name and,
for every block, the name and the described instructions; `none` when a step throws. -/
def compiledText (fuel : Nat) (source : String) :
    Option (List (String × List (String × List String))) :=
  match compileOf fuel source with
  | .ok s =>
    some (s.getFunctions.map fun f =>
      (f.name, (s.getBlocks f).map fun b => (b.name, b.instructions.map MIRInstruction.describe)))
  | .error _ => none

/-- The destination name of an instruction that produces a value (`getDest`, `getName` of
an `AllocaInst`); a store, a terminator and a call with the empty destination have none. -/
def MIRInstruction.destination : MIRInstruction → Option String
  | .Alloca name _ => some name
  | .ConstInt dest _ => some dest
  | .ConstBool dest _ => some dest
  | .ConstString dest _ => some dest
  | .ConstDouble dest _ => some dest
  | .UnaryOp dest _ _ => some dest
  | .BinOp dest _ _ _ => some dest
  | .Store _ _ => none
  | .Load dest _ => some dest
  | .StructElementPtr dest _ _ _ => some dest
  | .ArrayElementPtr dest _ _ _ => some dest
  | .Sizeof dest _ => some dest
  | .Alignof dest _ => some dest
  | .Offsetof dest _ _ => some dest
  | .VariantTag dest _ => some dest
  | .VariantData dest _ _ _ => some dest
  | .VariantExtract dest _ _ _ _ => some dest
  | .Ret _ => none
  | .Call dest _ _ => if dest.isEmpty then none else some dest
  | .Br _ => none
  | .CondBr _ _ _ => none

/-- The names of values that an instruction reads; labels, callees and struct names are
no values, and the empty value of `ret` is none. -/
def MIRInstruction.operands : MIRInstruction → List String
  | .UnaryOp _ operand _ => [operand]
  | .BinOp _ left right _ => [left, right]
  | .Store src dest => [src, dest]
  | .Load _ src => [src]
  | .StructElementPtr _ ptr _ _ => [ptr]
  | .ArrayElementPtr _ ptr index _ => [ptr, index]
  | .VariantTag _ enumPtr => [enumPtr]
  | .VariantData _ enumPtr _ args => enumPtr :: args
  | .VariantExtract _ enumPtr _ _ _ => [enumPtr]
  | .Ret val => if val.isEmpty then [] else [val]
  | .Call _ _ args => args
  | .CondBr cond _ _ => [cond]
  | _ => []

/-- The instructions of a function, block after block. -/
def MIRBuilder.instructionsOf (s : MIRBuilder) (f : MIRFunction) : List MIRInstruction :=
  (s.getBlocks f).flatMap fun b => b.instructions

/-- The names that a function defines: its parameters, under the names by which the
instructions read them (`"%" + name`), and the destinations of its instructions. -/
def MIRBuilder.definedNames (s : MIRBuilder) (f : MIRFunction) : List String :=
  f.params.map (fun p => "%" ++ p.1) ++ (s.instructionsOf f).filterMap MIRInstruction.destination

/-- The names that each function of the module defines more than once. -/
def repeatedNames (s : MIRBuilder) : List (String × List String) :=
  s.getFunctions.map fun f =>
    (f.name, ((s.definedNames f).filter fun n => (s.definedNames f).count n > 1).eraseDups)

/-- The operands that each function of the module reads and does not define. -/
def undefinedOperands (s : MIRBuilder) : List (String × List String) :=
  s.getFunctions.map fun f =>
    (f.name, (((s.instructionsOf f).flatMap MIRInstruction.operands).filter fun n =>
      !(s.definedNames f).contains n).eraseDups)

/-- A function whose nested block declares a variable `x` again. -/
def shadowingSource : String :=
  "fn main(): i32 \x7b let x: i32 = 1; \x7b let x: i32 = 2; \x7d return x; \x7d"

/-- A function with a local variable that is named like the first temporary. -/
def temporaryNameSource : String :=
  "fn main(): i32 \x7b let t0: i32 = 1 + 2; return t0; \x7d"

/-- A function with distinct variable names, none of them the name of a temporary. -/
def distinctNamesSource : String :=
  "fn main(): i32 \x7b let x: i32 = 1; \x7b let y: i32 = 2; \x7d return x; \x7d"

/-- A class with a destructor, a function that returns while a local of the class is
live, and a class declared behind the function with a method that returns. -/
def staleScopeSource : String :=
  "class Foo \x7b fn ~Foo() \x7b \x7d \x7d "
    ++ "fn main(): void \x7b let f = Foo(); return; \x7d "
    ++ "class Bar \x7b fn m(self): void \x7b return; \x7d \x7d"

/-- The program `staleScopeSource` with the class `Bar` declared before the function. -/
def methodFirstSource : String :=
  "class Foo \x7b fn ~Foo() \x7b \x7d \x7d "
    ++ "class Bar \x7b fn m(self): void \x7b return; \x7d \x7d "
    ++ "fn main(): void \x7b let f = Foo(); return; \x7d"

/-- A function that returns from a nested block in which a local of a class with a
destructor is live. -/
def returnInBlockSource : String :=
  "class Foo \x7b fn ~Foo() \x7b \x7d \x7d "
    ++ "fn main(): void \x7b \x7b let f = Foo(); return; \x7d \x7d"

/-- The function of `returnInBlockSource` with the block left at its end. -/
def blockEndSource : String :=
  "class Foo \x7b fn ~Foo() \x7b \x7d \x7d "
    ++ "fn main(): void \x7b \x7b let f = Foo(); \x7d \x7d"

/-- A function with the array literal `[1.5, 2.5]`. -/
def floatArraySource : String := "fn main(): void \x7b let a = [1.5, 2.5]; let b = a[0]; \x7d"

/-- The function of `testArrayPointerMIR` (`tests/MIR/ArrayPointerMIRTest.cpp`), with the
return type written. -/
def intArraySource : String := "fn main(): void \x7b let a = [1, 2]; let b = a[0]; \x7d"

/-- The value and the explicit type of an integer literal node. -/
def intLiteralOf (r : Except String Expr) : Option (Int × Option String) :=
  match r with
  | .ok (.literal lit) =>
    match lit.value with
    | .int n => some (n, lit.explicitType.map Ty.toString)
    | _ => none
  | _ => none

/-- The type and the text of the first token of a source text. -/
def firstTokenOf (source : String) : TokenType × String :=
  ((Lexer.new source).nextToken.1.type, (Lexer.new source).nextToken.1.value)
/-! ## Call sequences on the symbol table, all member functions that change it -/

/-- One call of a member function of `SymbolTable` that changes the table, with its
arguments. -/
inductive SymbolTable.Call where
  | pushScope
  | popScope
  | insert (name : String) (type : Option Ty) (isMutable isPublic : Bool) (decl : Option Stmt)
  | insertGlobal (name : String) (type : Option Ty) (isMutable isPublic : Bool)
      (decl : Option Stmt)
  | insertType (name : String) (type : Option Ty) (isPublic : Bool) (decl : Option Stmt)
  | insertTypeGlobal (name : String) (type : Option Ty) (isPublic : Bool) (decl : Option Stmt)
  | markMoved (name : String)
  | markAccessed (name : String)

/-- The table after one call (a returned flag is dropped). -/
def SymbolTable.Call.apply (t : SymbolTable) : SymbolTable.Call → SymbolTable
  | .pushScope => t.pushScope
  | .popScope => t.popScope
  | .insert name type isMutable isPublic decl => (t.insert name type isMutable isPublic decl).2
  | .insertGlobal name type isMutable isPublic decl =>
    (t.insertGlobal name type isMutable isPublic decl).2
  | .insertType name type isPublic decl => (t.insertType name type isPublic decl).2
  | .insertTypeGlobal name type isPublic decl => (t.insertTypeGlobal name type isPublic decl).2
  | .markMoved name => t.markMoved name
  | .markAccessed name => t.markAccessed name

/-- The table that a sequence of calls, first call first, makes of a new table. -/
def SymbolTable.afterCalls (calls : List SymbolTable.Call) : SymbolTable :=
  calls.foldl SymbolTable.Call.apply SymbolTable.new

/-- The module scope `g1` has every binding of the module scope `g`: a symbol with the same
type and flags, except for the moved flag, and a type with the same value. -/
def Scope.Keeps (g g1 : Scope) : Prop :=
  (∀ name sym, g.symbols.lookup name = some sym →
      ∃ sym1, g1.symbols.lookup name = some sym1 ∧ sym1.name = sym.name
        ∧ sym1.type = sym.type ∧ sym1.isMutable = sym.isMutable
        ∧ sym1.isPublic = sym.isPublic)
    ∧ ∀ name type, g.types.lookup name = some type → g1.types.lookup name = some type

/-! ## Name mangling on plain names -/

/-- A textual form that is not empty and holds no `_` and none of the characters that
`mangleGenericName` replaces. -/
def PlainName (s : String) : Prop :=
  s ≠ "" ∧ ∀ c ∈ s.data, c ≠ '_' ∧ c ∉ mangleForbidden

/-- A struct type named `i32Ptr`. -/
def i32PtrStruct : Ty := .struct "i32Ptr" [] [] false 1

/-- A program that calls the generic function `id` with the pointer type `i32*` and then
with the struct type `i32Ptr`. -/
def sharedNameSource : String :=
  "struct i32Ptr \x7b let v: i32; \x7d fn id[T](x: T): T \x7b return x; \x7d "
    ++ "fn m(a: i32): void \x7b id[i32*](&a); "
    ++ "let s: i32Ptr = id[i32Ptr](i32Ptr \x7b v: 1 \x7d); \x7d"

/-- The program `sharedNameSource` without the call for the pointer type. -/
def singleUseSource : String :=
  "struct i32Ptr \x7b let v: i32; \x7d fn id[T](x: T): T \x7b return x; \x7d "
    ++ "fn m(a: i32): void \x7b "
    ++ "let s: i32Ptr = id[i32Ptr](i32Ptr \x7b v: 1 \x7d); \x7d"
/-! ## Nested block comments -/

/-- The state after `k` calls of `advance`. -/
def Lexer.advanceBy : Nat → Lexer → Lexer
  | 0, l => l
  | k + 1, l => Lexer.advanceBy k l.advance

/-- The specification of nested block comments on the text behind an opening `/*`:
`depth` comments are open, a `/*` opens one more and a `*/` closes the innermost one. The
result is the number of characters up to and including the `*/` that closes the last open
comment, `none` when the text ends before. -/
def commentBodyLength : Nat → List Char → Option Nat
  | 0, _ => some 0
  | _ + 1, [] => none
  | _ + 1, [_] => none
  | depth + 1, c :: c2 :: cs =>
    if c = '/' ∧ c2 = '*' then (commentBodyLength (depth + 2) cs).map (· + 2)
    else if c = '*' ∧ c2 = '/' then (commentBodyLength depth cs).map (· + 2)
    else (commentBodyLength (depth + 1) (c2 :: cs)).map (· + 1)

/-- The text of the example: a comment with an inner comment, and an identifier. -/
def nestedCommentSource : String := "/* a /* b */ c */ x"
/-! ## The blocks of a switch -/

namespace MIRBuilder

/-- A computation that, when it returns, leaves the loop stack as it found it. -/
def KeepsLoops {α : Type} (x : BuildM α) : Prop :=
  ∀ s a s1, x s = .ok (a, s1) → s1.loopStack = s.loopStack

end MIRBuilder
namespace MIRBuilder

/-- Running `x` from a state whose loop stack is `pre` ends, when it succeeds, in a state
whose loop stack is `post`. -/
def Stacks {α : Type} (pre : List LoopContext) (x : BuildM α) (post : List LoopContext) :
    Prop :=
  ∀ s a s1, x s = .ok (a, s1) → s.loopStack = pre → s1.loopStack = post

end MIRBuilder

/-- The builder `inFunctionF` while the body of a switch inside a `while` loop is lowered:
the record of the loop is below the record of the switch. -/
def inSwitchInLoop : MIRBuilder :=
  { inFunctionF with loopStack := [⟨"while.merge.3", "while.cond.1"⟩, ⟨"switch.end.4", ""⟩] }

/-- The builder `inFunctionF` while the body of a `for` loop inside a switch is lowered:
the record of the switch is below the record of the loop. -/
def inLoopInSwitch : MIRBuilder :=
  { inFunctionF with loopStack := [⟨"switch.end.1", ""⟩, ⟨"for.merge.5", "for.step.4"⟩] }

/-- A `for` loop whose body holds a switch with a `break`, and after it a `continue` and a
`break` of the loop, each below an `if` so that no branch is the one that ends
the block anyhow. -/
def nestedExitsSource : String :=
  "fn main(x: i32): void \x7b for (;;) \x7b switch (x) \x7b case 1: \x7b if (x < 2) "
    ++ "\x7b break; \x7d \x7d \x7d if (x < 1) \x7b continue; \x7d break; \x7d \x7d"

/-- A `while` loop with a `continue` and a `break`. -/
def whileExitsSource : String :=
  "fn main(x: i32): void \x7b while (x < 3) \x7b if (x < 1) \x7b continue; \x7d break; \x7d \x7d"

/-- A `do`-`while` loop with a `continue` and a `break`. -/
def doWhileExitsSource : String :=
  "fn main(x: i32): void \x7b do \x7b if (x < 1) \x7b continue; \x7d break; \x7d "
    ++ "while (x < 3); \x7d"

/-- A `continue` in a switch that is in the body of a `while` loop. -/
def continueInSwitchSource : String :=
  "fn main(x: i32): void \x7b while (x < 3) \x7b switch (x) \x7b case 1: "
    ++ "\x7b continue; \x7d \x7d \x7d \x7d"

/-! ## Programs with a generic use, an assignment chain and a struct literal -/

/-- A generic function whose parameter has the type `Box[T]`, a generic use of its own
parameter, and a function that calls its specialization for `i32`. -/
def boxUseSource : String :=
  "struct Box[T] \x7b let v: T; \x7d fn g[T](b: Box[T]): T \x7b return b.v; \x7d "
    ++ "fn m(): i32 \x7b let b = Box[i32] \x7b v: 1 \x7d; return g[i32](b); \x7d"

/-- A generic struct with a field of the type `Box[T]`, and a function that builds
`Wrap[i32]` from a `Box[i32]`. -/
def wrapUseSource : String :=
  "struct Box[T] \x7b let v: T; \x7d struct Wrap[T] \x7b let b: Box[T]; \x7d "
    ++ "fn m(): void \x7b let w = Wrap[i32] \x7b b: Box[i32] \x7b v: 1 \x7d \x7d; \x7d"

/-- A function with the statement `a = b = c;`. -/
def assignmentChainSource : String :=
  "fn f(a: i32, b: i32, c: i32): i32 \x7b a = b = c; return a; \x7d"

/-- The function of `assignmentChainSource` with the statement `a = (b = c);`. -/
def assignmentNestedSource : String :=
  "fn f(a: i32, b: i32, c: i32): i32 \x7b a = (b = c); return a; \x7d"

/-- The functions of the module that `compileOf` builds: for every function its name, the
names of its parameters and, for every block, the name and the described instructions;
`none` when a step throws. -/
def compiledFunctions (fuel : Nat) (source : String) :
    Option (List (String × List String × List (String × List String))) :=
  (compileOf fuel source).toOption.map fun s =>
    s.getFunctions.map fun f =>
      (f.name, f.params.map (·.1),
        (s.getBlocks f).map fun b => (b.name, b.instructions.map MIRInstruction.describe))

/-- An analyzer in whose module scope the struct type `Point`, the variable `v` of the
type `i32` and the function `one` of the type `() -> i32` are declared. -/
def literalState : Sema :=
  { symbolTable := ⟨[{
      types := [("Point", some point2Type)]
      symbols := [
        ("v", { name := "v", type := some Ty.i32, isMutable := false }),
        ("one", { name := "one", type := some (.function [] Ty.i32 false),
                  isMutable := false })] }]⟩ }

/-- The type to which the analyzer with the bound `fuel` checks the expression in the
state `s`; `none` when the check throws. -/
def checkedType (fuel : Nat) (s : Sema) (e : Expr) : Option Ty :=
  match (Sema.hooks fuel).checkExpr e s with
  | .ok ((t, _), _) => some t
  | .error _ => none

/-- A function that builds a `Point` from a sum and a parameter. -/
def literalSource : String :=
  "struct Point \x7b let x: i32; let y: i32; \x7d "
    ++ "fn m(v: i32): void \x7b let p = Point \x7b y: v + 1, x: v \x7d; \x7d"

/-- The check of the literal `Point { ... }` with the initializers `inits` in the analyzer
`literalState`: the message of the exception, when there is one. -/
def literalFailure (inits : List FieldInit) : Option String :=
  failureOf (Sema.checkStructLiteral (Sema.hooks 3) (.identifier none "Point") inits
    literalState)

/-! # Theorems -/

/-! ## Name mangling: theorems -/

theorem expandStars_cons (c : Char) (s : List Char) :
    expandStars (c :: s) = (if c = '*' then [ 'P', 't', 'r' ] else [c]) ++ expandStars s := by
  simp [expandStars, List.flatMap_cons]

theorem findChar_none_expand (s : List Char) (h : findChar '*' s = none) :
    expandStars s = s := by
  induction s with
  | nil => rfl
  | cons x xs ih =>
    unfold findChar at h
    by_cases hx : x = '*'
    · simp [hx] at h
    · simp [hx] at h
      rw [expandStars_cons, ih h]
      simp [hx]

theorem findChar_some_expand (s : List Char) (pos : Nat) (h : findChar '*' s = some pos) :
    expandStars (replaceAt s pos [ 'P', 't', 'r' ]) = expandStars s
      ∧ (replaceAt s pos [ 'P', 't', 'r' ]).count '*' + 1 = s.count '*' := by
  induction s generalizing pos with
  | nil => simp [findChar] at h
  | cons x xs ih =>
    unfold findChar at h
    by_cases hx : x = '*'
    · simp [hx] at h
      subst h; subst hx
      constructor
      · simp [replaceAt, expandStars]
      · simp [replaceAt, List.count_cons]
    · simp [hx] at h
      obtain ⟨p, hp, rfl⟩ := h
      have := ih p hp
      constructor
      · have h1 : replaceAt (x :: xs) (p + 1) [ 'P', 't', 'r' ] = x :: replaceAt xs p [ 'P', 't', 'r' ] := by
          simp [replaceAt]
        rw [h1, expandStars_cons, expandStars_cons, this.1]
      · have h1 : replaceAt (x :: xs) (p + 1) [ 'P', 't', 'r' ] = x :: replaceAt xs p [ 'P', 't', 'r' ] := by
          simp [replaceAt]
        rw [h1, List.count_cons, List.count_cons]
        have h2 : (x == '*') = false := by simp [hx]
        simp [h2]
        exact this.2

theorem findChar_none_of_count (s : List Char) (h : s.count '*' = 0) :
    findChar '*' s = none := by
  induction s with
  | nil => rfl
  | cons x xs ih =>
    rw [List.count_cons] at h
    unfold findChar
    by_cases hx : x = '*'
    · simp [hx] at h
    · simp [hx]
      apply ih
      omega

theorem replaceStars_eq (fuel : Nat) (s : List Char) (h : s.count '*' ≤ fuel) :
    replaceStars fuel s = expandStars s := by
  induction fuel generalizing s with
  | zero =>
    unfold replaceStars
    exact (findChar_none_expand s (findChar_none_of_count s (by omega))).symm
  | succ n ih =>
    unfold replaceStars
    cases hf : findChar '*' s with
    | none => simp; exact (findChar_none_expand s hf).symm
    | some pos =>
      simp
      have := findChar_some_expand s pos hf
      rw [ih _ (by omega), this.1]

theorem mangleTypeString_eq (s : String) : mangleTypeString s = sanitizeSpec s := by
  unfold mangleTypeString sanitizeSpec
  simp only
  rw [replaceStars_eq _ _ (List.count_le_length _ _)]
  congr 1
  unfold expandStars
  rw [List.map_flatMap]
  congr 1
  funext c
  have key : (isMangleSpecial c = true) ↔
      (c = '[' ∨ c = ']' ∨ c = ',' ∨ c = ' ' ∨ c = '(' ∨ c = ')' ∨ c = ':') := by
    simp [isMangleSpecial]; tauto
  by_cases h : c = '*'
  · subst h; simp [isMangleSpecial]
  · by_cases h2 : (c = '[' ∨ c = ']' ∨ c = ',' ∨ c = ' ' ∨ c = '(' ∨ c = ')' ∨ c = ':')
    · simp only [h, if_false, List.map_cons, List.map_nil, key.mpr h2, if_true, h2]
    · have h3 : isMangleSpecial c = false := by
        cases h4 : isMangleSpecial c with
        | false => rfl
        | true => exact absurd (key.mp h4) h2
      simp [h, h2, h3]

theorem intercalate_go_append (x y s : String) (l : List String) :
    String.intercalate.go (x ++ y) s l = x ++ String.intercalate.go y s l := by
  induction l generalizing y with
  | nil => simp [String.intercalate.go]
  | cons c cs ih =>
    simp only [String.intercalate.go]
    rw [String.append_assoc, String.append_assoc, ih, String.append_assoc]

theorem mangleLoop_cons (m : String) (i : Nat) (a : Ty) (rest : List Ty) :
    mangleLoop m i (some a :: rest.map some)
      = .ok (m ++ String.intercalate.go (sanitizeSpec a.toString) "_"
          (rest.map fun t => sanitizeSpec t.toString)) := by
  induction rest generalizing m i a with
  | nil => simp [mangleLoop, String.intercalate.go, mangleTypeString_eq]
  | cons b bs ih =>
    have := ih (m ++ mangleTypeString a.toString ++ "_") (i + 1) b
    simp only [List.map_cons]
    rw [mangleLoop]
    simp only [List.isEmpty_cons, Bool.false_eq_true, if_false]
    rw [this, String.intercalate.go, mangleTypeString_eq, intercalate_go_append]
    simp only [String.append_assoc]

theorem mangleGenericName_eq (base : String) (args : List Ty) :
    mangleGenericName base (args.map some)
      = .ok (base ++ "_" ++ "_".intercalate (args.map fun t => sanitizeSpec t.toString)) := by
  cases args with
  | nil => simp [mangleGenericName, mangleLoop, String.intercalate]
  | cons a rest =>
    simp only [mangleGenericName, List.map_cons, String.intercalate]
    exact mangleLoop_cons _ 0 a rest

theorem MangleClean.append {a b : String} (ha : MangleClean a) (hb : MangleClean b) :
    MangleClean (a ++ b) := by
  intro c hc
  rw [String.data_append, List.mem_append] at hc
  exact hc.elim (ha c) (hb c)

theorem mangleClean_underscore : MangleClean "_" := by
  intro c hc
  have : c = '_' := by simpa using hc
  subst this
  decide

theorem mangleClean_sanitize (s : String) : MangleClean (sanitizeSpec s) := by
  intro c hc
  simp only [sanitizeSpec, List.mem_flatMap] at hc
  obtain ⟨d, -, hd⟩ := hc
  by_cases h : d = '*'
  · simp only [h, if_true] at hd
    have : c = 'P' ∨ c = 't' ∨ c = 'r' := by simpa using hd
    rcases this with rfl | rfl | rfl <;> decide
  · by_cases h2 : (d = '[' ∨ d = ']' ∨ d = ',' ∨ d = ' ' ∨ d = '(' ∨ d = ')' ∨ d = ':')
    · simp only [h, if_false, h2, if_true] at hd
      have : c = '_' := by simpa using hd
      subst this; decide
    · simp only [h, if_false, h2] at hd
      have : c = d := by simpa using hd
      subst this
      simp only [mangleForbidden, List.mem_cons, List.mem_nil_iff, or_false, not_or]
      simp only [not_or] at h2
      tauto

theorem mangleClean_go (acc : String) (l : List String) (hacc : MangleClean acc)
    (hl : ∀ x ∈ l, MangleClean x) : MangleClean (String.intercalate.go acc "_" l) := by
  induction l generalizing acc with
  | nil => simpa [String.intercalate.go] using hacc
  | cons c cs ih =>
    simp only [String.intercalate.go]
    apply ih
    · exact (hacc.append mangleClean_underscore).append (hl c (List.mem_cons_self _ _))
    · intro x hx; exact hl x (List.mem_cons_of_mem _ hx)

theorem mangleClean_suffix (args : List Ty) :
    MangleClean ("_" ++ "_".intercalate (args.map fun t => sanitizeSpec t.toString)) := by
  apply mangleClean_underscore.append
  cases args with
  | nil => intro c hc; simp [String.intercalate] at hc
  | cons a rest =>
    simp only [List.map_cons, String.intercalate]
    apply mangleClean_go _ _ (mangleClean_sanitize _)
    intro x hx
    simp only [List.mem_map] at hx
    obtain ⟨t, -, rfl⟩ := hx
    exact mangleClean_sanitize _

/-- C7: `mangleGenericName` yields the base name, `_`, and the sanitised textual forms
of the arguments joined by `_`; the part after the base holds none of the characters
`* [ ] , space ( ) :`; arguments with the same textual forms give the same name; and the
three named examples evaluate as stated. -/
theorem mangleGenericName_spec (base : String) (args : List Ty) :
    mangleGenericName base (args.map some)
        = .ok (base ++ ("_" ++ "_".intercalate (args.map fun t => sanitizeSpec t.toString)))
      ∧ (∀ c ∈ mangleForbidden,
          c ∉ ("_" ++ "_".intercalate (args.map fun t => sanitizeSpec t.toString)).data)
      ∧ (∀ args2 : List Ty, args2.map Ty.toString = args.map Ty.toString →
          mangleGenericName base (args2.map some) = mangleGenericName base (args.map some))
      ∧ mangleGenericName "add" [some Ty.i32] = .ok "add_i32"
      ∧ mangleGenericName "Point" [some Ty.f64] = .ok "Point_f64"
      ∧ mangleGenericName "Result" [some Ty.i32, some Ty.bool] = .ok "Result_i32_bool" := by
  refine ⟨?_, ?_, ?_, rfl, rfl, rfl⟩
  · rw [mangleGenericName_eq, String.append_assoc]
  · intro c hc hmem
    exact mangleClean_suffix args c hmem hc
  · intro args2 h
    rw [mangleGenericName_eq, mangleGenericName_eq]
    have : (args2.map fun t => sanitizeSpec t.toString) = (args.map fun t => sanitizeSpec t.toString) := by
      have := congrArg (List.map sanitizeSpec) h
      simpa [List.map_map] using this
    rw [this]

/-! ## Lexer: progress and termination -/

namespace Lexer

theorem Follows.refl (a : Lexer) : Follows a a := ⟨rfl, Nat.le_refl _⟩

theorem Follows.trans {a b c : Lexer} (h1 : Follows a b) (h2 : Follows b c) : Follows a c :=
  ⟨h2.1.trans h1.1, Nat.le_trans h1.2 h2.2⟩

theorem follows_advance (l : Lexer) : Follows l l.advance := by
  unfold advance
  split
  · exact Follows.refl l
  · dsimp only
    split <;> exact ⟨rfl, Nat.le_succ _⟩

theorem Follows.ite {l a b : Lexer} {c : Prop} [Decidable c] (ha : Follows l a)
    (hb : Follows l b) : Follows l (if c then a else b) := by
  split <;> assumption

theorem advance_pos_of_not_atEnd (l : Lexer) (h : l.isAtEnd = false) :
    l.advance.m_pos = l.m_pos + 1 := by
  unfold advance
  simp only [h, Bool.false_eq_true, if_false]
  split <;> rfl

theorem follows_advanceWhile (cond : Lexer → Bool) (fuel : Nat) (l : Lexer) :
    Follows l (advanceWhile cond fuel l) := by
  induction fuel generalizing l with
  | zero => exact Follows.refl l
  | succ n ih =>
    unfold advanceWhile
    split
    · exact (follows_advance l).trans (ih _)
    · exact Follows.refl l

theorem follows_blockCommentLoop (fuel nesting : Nat) (l : Lexer) :
    Follows l (blockCommentLoop fuel nesting l) := by
  induction fuel generalizing l nesting with
  | zero => exact Follows.refl l
  | succ n ih =>
    unfold blockCommentLoop
    split
    · split
      · exact ((follows_advance l).trans (follows_advance _)).trans (ih _ _)
      · split
        · exact ((follows_advance l).trans (follows_advance _)).trans (ih _ _)
        · exact (follows_advance l).trans (ih _ _)
    · exact Follows.refl l

theorem follows_skipWhitespaceLoop (fuel : Nat) (l : Lexer) :
    Follows l (skipWhitespaceLoop fuel l) := by
  induction fuel generalizing l with
  | zero => exact Follows.refl l
  | succ n ih =>
    unfold skipWhitespaceLoop
    split
    · exact Follows.refl l
    · simp only
      split
      · exact (follows_advance l).trans (ih _)
      · split
        · split
          · exact (follows_advanceWhile _ _ l).trans (ih _)
          · split
            · exact ((follows_advance l).trans (follows_advance _)).trans
                ((follows_blockCommentLoop _ _ _).trans (ih _))
            · exact Follows.refl l
        · exact Follows.refl l

theorem follows_skipWhitespace (l : Lexer) : Follows l l.skipWhitespace :=
  follows_skipWhitespaceLoop _ l

theorem skipWhitespaceLoop_atEnd (fuel : Nat) (l : Lexer) (h : l.isAtEnd = true) :
    skipWhitespaceLoop fuel l = l := by
  cases fuel with
  | zero => rfl
  | succ n => unfold skipWhitespaceLoop; simp [h]

theorem follows_matchChar (l : Lexer) (c : Char) : Follows l (l.matchChar c).2 := by
  unfold matchChar
  split
  · exact Follows.refl l
  · exact follows_advance l

theorem follows_matchFirst (l : Lexer) (line col : Nat) (alts : List (Char × TokenType))
    (dflt : TokenType) : Follows l (matchFirst l line col alts dflt).2 := by
  induction alts with
  | nil => exact Follows.refl l
  | cons a rest ih =>
    obtain ⟨c, ty⟩ := a
    unfold matchFirst
    simp only
    split
    · exact follows_matchChar l c
    · exact ih

theorem follows_scanIdentifierOrKeyword (l : Lexer) (line col : Nat) :
    Follows l (scanIdentifierOrKeyword l line col).2 := by
  unfold scanIdentifierOrKeyword
  simp only
  split <;> exact follows_advanceWhile _ _ l

theorem follows_skipDigits (l : Lexer) : Follows l (skipDigits l) :=
  follows_advanceWhile _ _ l

theorem follows_scanFraction (l : Lexer) : Follows l (scanFraction l).2 := by
  unfold scanFraction
  split
  · exact (follows_advance l).trans (follows_skipDigits _)
  · exact Follows.refl l

theorem follows_skipSign (l : Lexer) : Follows l (skipSign l) :=
  Follows.ite (follows_advance l) (Follows.refl l)

theorem follows_skipUnderscore (l : Lexer) : Follows l (skipUnderscore l) :=
  Follows.ite (follows_advance l) (Follows.refl l)

theorem follows_skipBackslash (l : Lexer) : Follows l (skipBackslash l) :=
  Follows.ite (follows_advance l) (Follows.refl l)

theorem follows_skipEscape (l : Lexer) : Follows l (skipEscape l) :=
  (follows_advance l).trans (Follows.ite (follows_advance _) (Follows.refl _))

theorem follows_scanExponent (isFloat : Bool) (l : Lexer) :
    Follows l (scanExponent isFloat l).2 := by
  unfold scanExponent
  have h4 : Follows l (skipSign l.advance) := (follows_advance l).trans (follows_skipSign _)
  split
  · dsimp only
    split
    · exact ⟨h4.1, Nat.le_refl _⟩
    · exact h4.trans (follows_skipDigits _)
  · exact Follows.refl l

theorem follows_scanNumberBody (l : Lexer) : Follows l (scanNumberBody l).2 := by
  unfold scanNumberBody
  split
  · exact (follows_advance l).trans (follows_advanceWhile _ _ _)
  · exact ((follows_skipDigits l).trans (follows_scanFraction _)).trans
      (follows_scanExponent _ _)

theorem follows_scanNumberSuffix (l : Lexer) : Follows l (scanNumberSuffix l) := by
  unfold scanNumberSuffix
  dsimp only
  have h2 := (follows_skipUnderscore l).trans
    (follows_advanceWhile (fun x => x.isAlphaNumeric x.peek) (skipUnderscore l).m_source.length _)
  split
  · split
    · exact h2
    · exact ⟨h2.1, Nat.le_refl _⟩
  · exact Follows.refl l

theorem follows_scanNumber (l : Lexer) (line col : Nat) :
    Follows l (scanNumber l line col).2 := by
  unfold scanNumber
  exact (follows_scanNumberBody l).trans (follows_scanNumberSuffix _)

theorem follows_scanStringLoop (fuel : Nat) (l : Lexer) :
    Follows l (scanStringLoop fuel l).2 := by
  induction fuel generalizing l with
  | zero => exact Follows.refl l
  | succ n ih =>
    unfold scanStringLoop
    split
    · split
      · exact Follows.refl l
      · split
        · exact (follows_skipEscape l).trans (ih _)
        · exact (follows_advance l).trans (ih _)
    · exact Follows.refl l

theorem follows_scanString (l : Lexer) (line col : Nat) :
    Follows l (scanString l line col).2 := by
  unfold scanString
  have h := follows_scanStringLoop l.m_source.length l
  split
  rename_i stopped l1 heq
  rw [heq] at h
  split
  · exact h
  · split
    · exact h
    · exact h.trans (follows_advance _)

theorem follows_scanLifetimeOrTick (l : Lexer) (line col : Nat) :
    Follows l (scanLifetimeOrTick l line col).2 := by
  unfold scanLifetimeOrTick
  split
  · exact follows_advanceWhile _ _ l
  · exact Follows.refl l

theorem follows_scanCharOrLifetime (l : Lexer) (line col : Nat) :
    Follows l (scanCharOrLifetime l line col).2 := by
  unfold scanCharOrLifetime
  have h2 := (follows_skipBackslash l).trans (follows_advance _)
  split
  · dsimp only
    split
    · exact h2.trans (follows_advance _)
    · exact h2.trans (follows_scanLifetimeOrTick _ _ _)
  · exact follows_scanLifetimeOrTick _ _ _

theorem follows_scanAngle (l : Lexer) (line col : Nat) (c : Char)
    (shiftEq shift cmpEq plain : TokenType) :
    Follows l (scanAngle l line col c shiftEq shift cmpEq plain).2 := by
  unfold scanAngle
  dsimp only
  split
  · exact (follows_matchChar l c).trans (follows_matchFirst _ _ _ _ _)
  · exact follows_matchFirst _ _ _ _ _

theorem Follows.ite_snd {l : Lexer} {a b : Token × Lexer} {c : Prop} [Decidable c]
    (ha : Follows l a.2) (hb : Follows l b.2) : Follows l (if c then a else b).2 := by
  split <;> assumption

theorem follows_scanOperator (l : Lexer) (c : Char) (line col : Nat) :
    Follows l (scanOperator l c line col).2 := by
  unfold scanOperator
  repeat' (with_reducible apply Follows.ite_snd)
  all_goals first
    | exact Follows.refl l
    | exact follows_matchFirst _ _ _ _ _
    | exact follows_scanAngle _ _ _ _ _ _ _ _
    | exact (follows_advance l).trans (follows_advance _)

theorem follows_scan (l3 : Lexer) (c : Char) (line col : Nat) :
    Follows l3
      (if l3.isAlpha c then scanIdentifierOrKeyword l3 line col
       else if l3.isDigit c then scanNumber l3 line col
       else if c = '"' then scanString l3 line col
       else if c = '\'' then scanCharOrLifetime l3 line col
       else scanOperator l3 c line col).2 := by
  repeat' (with_reducible apply Follows.ite_snd)
  · exact follows_scanIdentifierOrKeyword _ _ _
  · exact follows_scanNumber _ _ _
  · exact follows_scanString _ _ _
  · exact follows_scanCharOrLifetime _ _ _
  · exact follows_scanOperator _ _ _ _

/-- The two ways a call of `nextToken` ends: at the end of the input with an
`EndOfFile` token, or at least one character further. -/
theorem nextToken_cases (l : Lexer) :
    (l.m_source.length ≤ l.skipWhitespace.m_pos ∧ l.nextToken.1.type = .EndOfFile
        ∧ l.nextToken.2.m_source = l.m_source)
      ∨ (l.m_pos < l.m_source.length ∧ l.m_pos + 1 ≤ l.nextToken.2.m_pos
        ∧ l.nextToken.2.m_source = l.m_source) := by
  have hs := follows_skipWhitespace l
  unfold nextToken
  dsimp only
  by_cases hend : ({ l.skipWhitespace with start_pos := l.skipWhitespace.m_pos } : Lexer).isAtEnd
      = true
  · left
    rw [if_pos hend]
    refine ⟨?_, rfl, hs.1⟩
    simpa [isAtEnd, hs.1] using hend
  · right
    rw [if_neg hend]
    have hend2 : ({ l.skipWhitespace with start_pos := l.skipWhitespace.m_pos } : Lexer).isAtEnd
        = false := by simpa using hend
    have hlt : l.skipWhitespace.m_pos < l.m_source.length := by
      simpa [isAtEnd, hs.1] using hend2
    have hadv := advance_pos_of_not_atEnd _ hend2
    have hfa := follows_advance
      ({ l.skipWhitespace with start_pos := l.skipWhitespace.m_pos } : Lexer)
    have hsc := follows_scan
      ({ l.skipWhitespace with start_pos := l.skipWhitespace.m_pos } : Lexer).advance
      ({ l.skipWhitespace with start_pos := l.skipWhitespace.m_pos } : Lexer).advanceChar
      l.skipWhitespace.m_line l.skipWhitespace.m_column
    refine ⟨Nat.lt_of_le_of_lt hs.2 hlt, ?_, ?_⟩
    · have h1 := hsc.2
      rw [hadv] at h1
      have h2 := hs.2
      dsimp only at h1
      omega
    · rw [hsc.1, hfa.1]
      exact hs.1

theorem afterTokens_reaches_EndOfFile (k : Nat) :
    ∀ l : Lexer, l.m_source.length - l.m_pos ≤ k →
      ∃ n, n ≤ k ∧ ((afterTokens n l).nextToken).1.type = .EndOfFile := by
  induction k with
  | zero =>
    intro l hk
    refine ⟨0, Nat.le_refl _, ?_⟩
    rcases nextToken_cases l with h | h
    · exact h.2.1
    · omega
  | succ k ih =>
    intro l hk
    rcases nextToken_cases l with h | h
    · exact ⟨0, Nat.zero_le _, h.2.1⟩
    · obtain ⟨n, hn, hty⟩ := ih l.nextToken.2 (by rw [h.2.2]; omega)
      exact ⟨n + 1, Nat.succ_le_succ hn, hty⟩

end Lexer

/-- C1: from every lexer state (in particular the initial state of every source string)
repeated calls of `nextToken` return an `EndOfFile` token after at most as many calls as
characters remain, and every call that returns another token ends at least one
character further than it began; the three inputs show this where `scanNumber` moves
back over a malformed exponent (`1e+`) or an invalid suffix (`42abc`) and where
`scanString` stops at a newline. -/
theorem lexer_reaches_EndOfFile_and_advances (l : Lexer) :
    (∃ n, n ≤ l.m_source.length - l.m_pos
        ∧ ((Lexer.afterTokens n l).nextToken).1.type = .EndOfFile)
      ∧ (l.nextToken.1.type ≠ .EndOfFile → l.m_pos + 1 ≤ l.nextToken.2.m_pos)
      ∧ ((Lexer.new "1e+").nextToken.1 = ⟨.Integer, "1", 1, 1⟩
          ∧ (Lexer.new "1e+").nextToken.2.m_pos = 1)
      ∧ ((Lexer.new "42abc").nextToken.1 = ⟨.Integer, "42", 1, 1⟩
          ∧ (Lexer.new "42abc").nextToken.2.m_pos = 2)
      ∧ ((Lexer.new "\"ab\nc").nextToken.1 = ⟨.Unknown, "\"ab", 1, 1⟩
          ∧ (Lexer.new "\"ab\nc").nextToken.2.m_pos = 3) := by
  refine ⟨Lexer.afterTokens_reaches_EndOfFile _ l (Nat.le_refl _), ?_,
    ⟨by decide, by decide⟩, ⟨by decide, by decide⟩, ⟨by decide, by decide⟩⟩
  intro hne
  rcases Lexer.nextToken_cases l with h | h
  · exact absurd h.2.1 hne
  · exact h.2.1

/-! ## The analyzer monad: how an action runs on a state -/

section SemaM

variable {α β : Type}

theorem run_pure (a : α) (s : Sema) : (pure a : SemaM α) s = .ok (a, s) := rfl

theorem run_throw (e : String) (s : Sema) : (throw e : SemaM α) s = .error e := rfl

theorem run_get (s : Sema) : (get : SemaM Sema) s = .ok (s, s) := rfl

theorem run_modify (f : Sema → Sema) (s : Sema) :
    (modify f : SemaM PUnit) s = .ok (PUnit.unit, f s) := rfl

theorem run_bind (x : SemaM α) (f : α → SemaM β) (s : Sema) :
    (x >>= f) s = match x s with
      | .ok r => f r.1 r.2
      | .error e => .error e := by
  show (x s >>= fun p => f p.1 p.2) = _
  cases x s <;> rfl

theorem run_bind_ok {x : SemaM α} {f : α → SemaM β} {s s1 : Sema} {a : α}
    (hx : x s = .ok (a, s1)) : (x >>= f) s = f a s1 := by
  rw [run_bind, hx]

theorem run_bind_error {x : SemaM α} {f : α → SemaM β} {s : Sema} {e : String}
    (hx : x s = .error e) : (x >>= f) s = .error e := by
  rw [run_bind, hx]

theorem bind_eq_ok {x : SemaM α} {f : α → SemaM β} {s s2 : Sema} {b : β} :
    (x >>= f) s = .ok (b, s2) ↔ ∃ a s1, x s = .ok (a, s1) ∧ f a s1 = .ok (b, s2) := by
  rw [run_bind]
  cases hx : x s with
  | error e => simp
  | ok r =>
    obtain ⟨a, s1⟩ := r
    constructor
    · intro h
      exact ⟨a, s1, rfl, h⟩
    · rintro ⟨a1, s11, h1, h2⟩
      cases h1
      exact h2

theorem run_failIf (c : Bool) (msg : String) (s : Sema) :
    failIf c msg s = if c then .error msg else .ok ((), s) := by
  unfold failIf
  cases c <;> rfl

theorem run_setTable (t : SymbolTable) (s : Sema) :
    setTable t s = .ok ((), { s with symbolTable := t }) := rfl

theorem run_nonNull_some (a : α) (s : Sema) : nonNull (some a) s = .ok (a, s) := rfl

theorem run_liftExcept_ok (a : α) (s : Sema) : liftExcept (.ok a) s = .ok (a, s) := rfl

theorem run_liftExcept_error (e : String) (s : Sema) :
    (liftExcept (.error e) : SemaM α) s = .error e := rfl

end SemaM

/-! ## Symbol table: lookups after an update -/

theorem lookup_cons_eq {α : Type} (k k2 : String) (v2 : α) (rest : List (String × α)) :
    List.lookup k ((k2, v2) :: rest) = if k = k2 then some v2 else List.lookup k rest := by
  by_cases h : k = k2
  · subst h
    simp [List.lookup]
  · have hb : (k == k2) = false := by simpa using h
    simp [List.lookup, hb, h]

theorem lookup_mapSet {α : Type} (k k1 : String) (v : α) (m : List (String × α)) :
    (mapSet k1 v m).lookup k = if k = k1 then some v else m.lookup k := by
  induction m with
  | nil =>
    show List.lookup k [(k1, v)] = _
    rw [lookup_cons_eq]
  | cons p rest ih =>
    obtain ⟨k2, v2⟩ := p
    simp only [mapSet]
    by_cases h21 : k2 = k1
    · subst h21
      simp only [if_true, lookup_cons_eq]
      split_ifs <;> rfl
    · simp only [h21, if_false, lookup_cons_eq, ih]
      by_cases hk2 : k = k2
      · subst hk2
        simp [h21]
      · simp [hk2]

theorem lookup_setMovedIn (flag : Bool) (a b : String) (scopes : List Scope) :
    (setMovedIn flag a scopes).findSome? (fun sc => sc.symbols.lookup b)
      = if b = a then
          (scopes.findSome? fun sc => sc.symbols.lookup a).map fun sym => { sym with isMoved := flag }
        else scopes.findSome? fun sc => sc.symbols.lookup b := by
  induction scopes with
  | nil => simp [setMovedIn]
  | cons sc rest ih =>
    unfold setMovedIn
    cases hsa : sc.symbols.lookup a with
    | some sym =>
      by_cases hba : b = a
      · subst hba
        simp [List.findSome?, lookup_mapSet, hsa]
      · simp [List.findSome?, lookup_mapSet, hba]
    | none =>
      by_cases hba : b = a
      · subst hba
        simp [List.findSome?, hsa, ih]
      · simp only [List.findSome?, ih, hba, if_false]

theorem lookup_markMoved (t : SymbolTable) (a b : String) :
    (t.markMoved a).lookup b
      = if b = a then (t.lookup a).map fun sym => { sym with isMoved := true }
        else t.lookup b :=
  lookup_setMovedIn true a b t.scopes

theorem lookup_markAccessed (t : SymbolTable) (a b : String) :
    (t.markAccessed a).lookup b
      = if b = a then (t.lookup a).map fun sym => { sym with isMoved := false }
        else t.lookup b :=
  lookup_setMovedIn false a b t.scopes

theorem lookupCurrentScope_setMovedIn (flag : Bool) (a b : String) (scopes : List Scope) :
    ((SymbolTable.mk (setMovedIn flag a scopes)).lookupCurrentScope b).isSome
      = ((SymbolTable.mk scopes).lookupCurrentScope b).isSome := by
  cases scopes with
  | nil => rfl
  | cons sc rest =>
    unfold setMovedIn
    cases hsa : sc.symbols.lookup a with
    | some sym =>
      by_cases hba : b = a
      · subst hba
        simp [SymbolTable.lookupCurrentScope, lookup_mapSet, hsa]
      · simp [SymbolTable.lookupCurrentScope, lookup_mapSet, hba]
    | none => simp [SymbolTable.lookupCurrentScope]

theorem lookup_insert (t t1 : SymbolTable) (name : String) (type : Option Ty)
    (isMutable isPublic : Bool) (decl : Option Stmt) (b : String)
    (hin : t.insert name type isMutable isPublic decl = (true, t1)) (hb : b ≠ name) :
    t1.lookup b = t.lookup b := by
  unfold SymbolTable.insert at hin
  split at hin
  · cases hin
  · cases hsc : t.scopes with
    | nil =>
      rw [hsc] at hin
      simp only [Prod.mk.injEq, true_and] at hin
      rw [← hin]
    | cons sc rest =>
      rw [hsc] at hin
      simp only [Prod.mk.injEq, true_and] at hin
      rw [← hin]
      simp [SymbolTable.lookup, hsc, List.findSome?, lookup_mapSet, hb]

theorem insert_of_fresh (t : SymbolTable) (name : String) (type : Option Ty)
    (isMutable isPublic : Bool) (decl : Option Stmt)
    (hfresh : (t.lookupCurrentScope name).isSome = false) :
    ∃ t1, t.insert name type isMutable isPublic decl = (true, t1) := by
  unfold SymbolTable.insert
  rw [hfresh]
  cases t.scopes with
  | nil => exact ⟨_, rfl⟩
  | cons sc rest => exact ⟨_, rfl⟩

/-! ## Move semantics of the analyzer -/

section Moves
open Sema

theorem checkIdentifier_live (s : Sema) (a : String) (sym : Symbol) (T : Ty)
    (ha : s.symbolTable.lookup a = some sym) (hT : sym.type = some T)
    (hl : sym.isMoved = false) : checkIdentifierExpr a s = .ok (T, s) := by
  unfold checkIdentifierExpr
  rw [run_bind, run_get]
  simp only [SymbolTable.lookupIgnoreMoved, ha, hl, hT]
  rfl

theorem checkIdentifier_moved (s : Sema) (a : String) (sym : Symbol)
    (ha : s.symbolTable.lookup a = some sym) (hm : sym.isMoved = true) :
    checkIdentifierExpr a s = .error ("Use of moved variable: " ++ a) := by
  unfold checkIdentifierExpr
  rw [run_bind, run_get]
  simp only [SymbolTable.lookupIgnoreMoved, ha, hm]
  rfl

theorem checkExpr_identifier (h : SemaHooks) (t : Option Ty) (a : String) (s : Sema) :
    checkExpr h (.identifier t a) s
      = match checkIdentifierExpr a s with
        | .ok r => .ok ((r.1, .identifier (some r.1) a), r.2)
        | .error e => .error e := by
  simp only [checkExpr]
  rw [run_bind]
  cases checkIdentifierExpr a s <;> rfl

/-- The state after `let b = a;` when `a` is live. -/
theorem analyzeVarDecl_identifier (h : SemaHooks) (s : Sema) (a : String) (sym : Symbol)
    (T : Ty) (d : VarDecl) (t : Option Ty)
    (ha : s.symbolTable.lookup a = some sym) (hT : sym.type = some T)
    (hl : sym.isMoved = false) (hty : d.type = none)
    (hinit : d.initializer = some (.identifier t a)) :
    analyzeVarDecl h d s
      = match (if T.isCopyType then s.symbolTable else s.symbolTable.markMoved a).insert d.name
            (some T) d.isMutable d.isPublic with
        | (true, t1) => .ok ({ d with type := some T,
                                      initializer := some (.identifier (some T) a) },
                             { s with symbolTable := t1 })
        | (false, _) => .error ("Redefinition of variable '" ++ d.name ++ "'") := by
  unfold analyzeVarDecl
  rw [hty, hinit]
  simp only [resolveTypeOpt]
  rw [run_bind, run_pure]
  simp only []
  rw [run_bind, checkExpr_identifier, checkIdentifier_live s a sym T ha hT hl]
  simp only [initializedType]
  rw [run_bind, run_liftExcept_ok]
  simp only []
  rw [run_bind]
  unfold moveInitializer declareVar
  cases hc : T.isCopyType
  · simp only [Bool.not_false, if_true, run_modify]
    rw [run_bind, run_bind, run_get]
    simp only [Bool.false_eq_true, if_false]
    generalize (s.symbolTable.markMoved a).insert d.name (some T) d.isMutable d.isPublic = r
    obtain ⟨b, t1⟩ := r
    cases b <;> rfl
  · simp only [Bool.not_true, Bool.false_eq_true, if_false, run_pure]
    rw [run_bind, run_bind, run_get]
    simp only [if_true]
    generalize s.symbolTable.insert d.name (some T) d.isMutable d.isPublic = r
    obtain ⟨b, t1⟩ := r
    cases b <;> rfl


theorem failIf_ok {c : Bool} {msg : String} {s s1 : Sema} {u : Unit}
    (hok : failIf c msg s = .ok (u, s1)) : c = false ∧ s1 = s := by
  rw [run_failIf] at hok
  cases c
  · simp only [Bool.false_eq_true, if_false, Except.ok.injEq, Prod.mk.injEq] at hok
    exact ⟨rfl, hok.2.symm⟩
  · simp at hok

theorem checkAssignTarget_identifier_ok {h : SemaHooks} {t : Option Ty} {a : String}
    {s s1 : Sema} {l : Ty × Expr}
    (hok : checkAssignTarget h (.identifier t a) s = .ok (l, s1)) :
    ∃ sym lt, s.symbolTable.lookup a = some sym ∧ sym.type = some lt
      ∧ s1 = { s with symbolTable := s.symbolTable.markAccessed a } := by
  simp only [checkAssignTarget] at hok
  rw [run_bind, run_get] at hok
  simp only [SymbolTable.lookupIgnoreMoved] at hok
  cases hl : s.symbolTable.lookup a with
  | none =>
    rw [hl] at hok
    cases hok
  | some sym =>
    rw [hl] at hok
    simp only [] at hok
    rw [run_bind, run_setTable] at hok
    simp only [] at hok
    cases hty : sym.type with
    | none =>
      rw [hty] at hok
      cases hok
    | some lt =>
      rw [hty] at hok
      rw [run_bind, run_nonNull_some] at hok
      simp only [run_pure, Except.ok.injEq, Prod.mk.injEq] at hok
      exact ⟨sym, lt, rfl, hty, hok.2.symm⟩

theorem moveRight_lookup {ty : Ty} {e : Expr} {s s1 : Sema} {u : Unit} {a : String}
    (hok : moveRight ty e s = .ok (u, s1)) (hne : ∀ t, e ≠ .identifier t a) :
    s1.symbolTable.lookup a = s.symbolTable.lookup a := by
  unfold moveRight at hok
  split at hok
  · split at hok
    · rename_i t name
      rw [run_modify] at hok
      simp only [Except.ok.injEq, Prod.mk.injEq] at hok
      rw [← hok.2]
      have hname : a ≠ name := by
        intro hh
        exact hne t (by rw [hh])
      simp only [lookup_markMoved, hname, if_false]
    · rw [run_pure] at hok
      simp only [Except.ok.injEq, Prod.mk.injEq] at hok
      rw [← hok.2]
  · rw [run_pure] at hok
    simp only [Except.ok.injEq, Prod.mk.injEq] at hok
    rw [← hok.2]

/-- After an accepted assignment `a = e`, with `e` not the identifier `a`, the symbol `a` is
not moved. -/
theorem assign_reinitializes {h : SemaHooks} {s1 s2 : Sema} {a : String} {e : Expr}
    {t0 t1 : Option Ty} {r : Ty × Expr} (hne : ∀ t, e ≠ .identifier t a)
    (hok : checkExpr h (.binary t0 (.identifier t1 a) .Equal e) s1 = .ok (r, s2)) :
    ∃ sym lt, s2.symbolTable.lookup a = some sym ∧ sym.type = some lt
      ∧ sym.isMoved = false := by
  simp only [checkExpr] at hok
  rw [bind_eq_ok] at hok
  obtain ⟨res, sA, hbin, hpure⟩ := hok
  rw [run_pure] at hpure
  simp only [Except.ok.injEq, Prod.mk.injEq] at hpure
  obtain ⟨-, rfl⟩ := hpure
  unfold checkBinaryExpr at hbin
  rw [if_pos rfl] at hbin
  rw [bind_eq_ok] at hbin
  obtain ⟨rr, sB, -, hbin⟩ := hbin
  rw [bind_eq_ok] at hbin
  obtain ⟨l, sC, hl, hbin⟩ := hbin
  rw [bind_eq_ok] at hbin
  obtain ⟨u, sD, hf, hbin⟩ := hbin
  rw [bind_eq_ok] at hbin
  obtain ⟨u2, sE, hm, hbin⟩ := hbin
  rw [run_pure] at hbin
  simp only [Except.ok.injEq, Prod.mk.injEq] at hbin
  obtain ⟨-, rfl⟩ := hbin
  obtain ⟨sym, lt, hsym, hty, rfl⟩ := checkAssignTarget_identifier_ok hl
  obtain ⟨-, rfl⟩ := failIf_ok hf
  refine ⟨{ sym with isMoved := false }, lt, ?_, hty, rfl⟩
  rw [moveRight_lookup hm hne]
  simp only [lookup_markAccessed, if_true, hsym, Option.map_some']


/-- C2.  Let `a` be a live variable of type `T` and `b` another name that is free in the
current scope.  The analyzer accepts `let b = a;`.  When `T` is not a copy type, it then
rejects `let c = a;` with the error `Use of moved variable: a`, and after any accepted
assignment `a = e`, with `e` not the identifier `a`, it accepts a read of `a` and leaves the
state as it is.  When `T` is a copy type, it accepts `let c = a;` for every `c` that is
free in the current scope. -/
theorem use_after_move_rejected_until_reassigned
    (h : SemaHooks) (s : Sema) (a : String) (sym : Symbol) (T : Ty) (db dc : VarDecl)
    (tb tc : Option Ty)
    (ha : s.symbolTable.lookup a = some sym) (hT : sym.type = some T)
    (hlive : sym.isMoved = false)
    (hb : db.type = none ∧ db.initializer = some (.identifier tb a) ∧ db.name ≠ a)
    (hc : dc.type = none ∧ dc.initializer = some (.identifier tc a))
    (hfresh : (s.symbolTable.lookupCurrentScope db.name).isSome = false) :
    ∃ db1 s1, analyzeVarDecl h db s = .ok (db1, s1)
      ∧ (T.isCopyType = false →
          analyzeVarDecl h dc s1 = .error ("Use of moved variable: " ++ a)
          ∧ ∀ (e : Expr) (t0 t1 t2 : Option Ty) (r : Ty × Expr) (s2 : Sema),
              (∀ t, e ≠ .identifier t a) →
              checkExpr h (.binary t0 (.identifier t1 a) .Equal e) s1 = .ok (r, s2) →
              ∃ ty, checkExpr h (.identifier t2 a) s2 = .ok ((ty, .identifier (some ty) a), s2))
      ∧ (T.isCopyType = true → (s1.symbolTable.lookupCurrentScope dc.name).isSome = false →
          ∃ dc1 s2, analyzeVarDecl h dc s1 = .ok (dc1, s2)) := by
  obtain ⟨hbt, hbi, hba⟩ := hb
  obtain ⟨hct, hci⟩ := hc
  have hfirst := analyzeVarDecl_identifier h s a sym T db tb ha hT hlive hbt hbi
  cases hcopy : T.isCopyType
  · -- not a copy type
    rw [hcopy] at hfirst
    simp only [Bool.false_eq_true, if_false] at hfirst
    have hfresh2 : ((s.symbolTable.markMoved a).lookupCurrentScope db.name).isSome = false := by
      rw [← hfresh]
      exact lookupCurrentScope_setMovedIn true a db.name s.symbolTable.scopes
    obtain ⟨t1, ht1⟩ := insert_of_fresh (s.symbolTable.markMoved a) db.name (some T)
      db.isMutable db.isPublic none hfresh2
    rw [ht1] at hfirst
    refine ⟨_, _, hfirst, ?_, ?_⟩
    · intro _
      have hmoved : t1.lookup a = some { sym with isMoved := true } := by
        rw [lookup_insert _ _ _ _ _ _ _ a ht1 (fun hh => hba hh.symm), lookup_markMoved]
        simp only [if_true, ha, Option.map_some']
      constructor
      · unfold analyzeVarDecl
        rw [hct, hci]
        simp only [resolveTypeOpt]
        rw [run_bind, run_pure]
        simp only []
        rw [run_bind, checkExpr_identifier,
          checkIdentifier_moved _ a { sym with isMoved := true } hmoved rfl]
      · intro e t0 t1x t2 r s2 hne hok
        obtain ⟨sym2, lt, hl2, hty2, hm2⟩ := assign_reinitializes hne hok
        refine ⟨lt, ?_⟩
        rw [checkExpr_identifier, checkIdentifier_live s2 a sym2 lt hl2 hty2 hm2]
    · intro hh
      cases hh
  · -- a copy type
    rw [hcopy] at hfirst
    simp only [if_true] at hfirst
    obtain ⟨t1, ht1⟩ := insert_of_fresh s.symbolTable db.name (some T)
      db.isMutable db.isPublic none hfresh
    rw [ht1] at hfirst
    refine ⟨_, _, hfirst, ?_, ?_⟩
    · intro hh
      cases hh
    · intro _ hfreshc
      have hlive1 : t1.lookup a = some sym := by
        rw [lookup_insert _ _ _ _ _ _ _ a ht1 (fun hh => hba hh.symm), ha]
      have hsecond := analyzeVarDecl_identifier h { s with symbolTable := t1 } a sym T dc tc
        hlive1 hT hlive hct hci
      rw [hcopy] at hsecond
      simp only [if_true] at hsecond
      obtain ⟨t2, ht2⟩ := insert_of_fresh t1 dc.name (some T) dc.isMutable dc.isPublic none
        hfreshc
      rw [ht2] at hsecond
      exact ⟨_, _, hsecond⟩

/-- C2 at a concrete input: `a` of the struct type `Data`, then `let b = a; let c = a;`. -/
theorem use_after_move_witness :
    ∃ db1 s1, analyzeVarDecl (hooks 1) (letDecl "b" "a") ownershipState = .ok (db1, s1)
      ∧ (dataType.isCopyType = false →
          analyzeVarDecl (hooks 1) (letDecl "c" "a") s1 = .error ("Use of moved variable: " ++ "a")
          ∧ ∀ (e : Expr) (t0 t1 t2 : Option Ty) (r : Ty × Expr) (s2 : Sema),
              (∀ t, e ≠ .identifier t "a") →
              checkExpr (hooks 1) (.binary t0 (.identifier t1 "a") .Equal e) s1 = .ok (r, s2) →
              ∃ ty, checkExpr (hooks 1) (.identifier t2 "a") s2
                = .ok ((ty, .identifier (some ty) "a"), s2))
      ∧ (dataType.isCopyType = true →
          (s1.symbolTable.lookupCurrentScope (letDecl "c" "a").name).isSome = false →
          ∃ dc1 s2, analyzeVarDecl (hooks 1) (letDecl "c" "a") s1 = .ok (dc1, s2)) :=
  use_after_move_rejected_until_reassigned (hooks 1) ownershipState "a"
    { name := "a", type := some dataType, isMutable := false } dataType
    (letDecl "b" "a") (letDecl "c" "a") none none rfl rfl rfl
    ⟨rfl, rfl, by decide⟩ ⟨rfl, rfl⟩ rfl

end Moves

/-! ## The built-in enum `Result` -/

section BuiltinResult
open Sema

/-- C9.  The analyzer that the constructor returns has one scope, the module scope, in
which `Result` is registered as the enum with exactly the two tuple variants `Ok(T)`, of
index 0, and `Err(E)`, of index 1, declared with the generic parameters `T` and `E`.  On
this analyzer the resolution of the type `Result[i32, bool]` returns, for every fuel of at
least 1, the enum `Result_i32_bool` with the variants `Ok(i32)` and `Err(bool)` and
registers it in the module scope; and the analysis of the function
`fn test(): Result[i32, bool] { return Result[i32, bool]::Ok(42); }` succeeds and
registers the same enum. -/
theorem builtin_Result_is_registered_and_monomorphizes :
    (∃ g, Sema.new.symbolTable.scopes = [g] ∧ g.types.lookup "Result" = some (some resultType))
      ∧ resultType.getVariants.map Variant.name = ["Ok", "Err"]
      ∧ resultType.findVariantIndex "Ok" = 0 ∧ resultType.findVariantIndex "Err" = 1
      ∧ (∃ d, Sema.new.symbolTable.lookupTypeDecl "Result" = some (.enumDecl d)
          ∧ d.genericParams.map GenericParam.name = ["T", "E"])
      ∧ (∀ n, ∃ s1 g1, resolveType (hooks (n + 1)) resultUse Sema.new = .ok (resultI32Bool, s1)
          ∧ s1.symbolTable.scopes = [g1]
          ∧ g1.types.lookup "Result_i32_bool" = some (some resultI32Bool))
      ∧ (∀ n, ∃ d1 s1, analyze (hooks (n + 4)) (.functionDecl resultTestFunction) Sema.new
            = .ok (d1, s1)
          ∧ s1.symbolTable.lookupType "Result_i32_bool" = some resultI32Bool) :=
  ⟨⟨_, rfl, rfl⟩, rfl, rfl, rfl, ⟨_, rfl, rfl⟩, fun _ => ⟨_, _, rfl, rfl, rfl⟩,
    fun _ => ⟨_, _, rfl, rfl⟩⟩

end BuiltinResult

/-! ## Monomorphization of structs -/

section ResolveGround
open Sema

theorem fastPath_primitive (k : PrimKind) :
    resolveFastPath.contains (Ty.primitive k).toString = true := by
  cases k <;> rfl

theorem resolveType_ground (m : Nat) : ∀ (t : Ty), t.simpleOver [] = true → t.depth ≤ m →
    ∀ s : Sema, resolveType (hooks m) t s = .ok (t, s) := by
  induction m with
  | zero =>
    intro t hs hd s
    cases t with
    | primitive k =>
      unfold resolveType
      rw [if_pos (fastPath_primitive k)]
      rfl
    | pointer b => simp [Ty.depth] at hd
    | array b k => simp [Ty.depth] at hd
    | function ps r v => simp [Ty.simpleOver] at hs
    | struct n fs ms c => simp [Ty.simpleOver] at hs
    | enum n vs => simp [Ty.simpleOver] at hs
    | typeParameter n c => simp [Ty.simpleOver] at hs
  | succ m ih =>
    intro t hs hd s
    cases t with
    | primitive k =>
      unfold resolveType
      rw [if_pos (fastPath_primitive k)]
      rfl
    | pointer b =>
      have hb : resolveType (hooks m) b s = .ok (b, s) :=
        ih b (by simpa [Ty.simpleOver] using hs) (by simp [Ty.depth] at hd; omega) s
      unfold resolveType
      split
      · rfl
      · show ((hooks (m + 1)).resolveType b >>= fun b1 => pure (Ty.pointer b1)) s = _
        rw [run_bind_ok (show (hooks (m + 1)).resolveType b s = .ok (b, s) from hb)]
        rfl
    | array b k =>
      have hb : resolveType (hooks m) b s = .ok (b, s) :=
        ih b (by simpa [Ty.simpleOver] using hs) (by simp [Ty.depth] at hd; omega) s
      unfold resolveType
      split
      · rfl
      · show ((hooks (m + 1)).resolveType b >>= fun b1 => pure (Ty.array b1 k)) s = _
        rw [run_bind_ok (show (hooks (m + 1)).resolveType b s = .ok (b, s) from hb)]
        rfl
    | function ps r v => simp [Ty.simpleOver] at hs
    | struct n fs ms c => simp [Ty.simpleOver] at hs
    | enum n vs => simp [Ty.simpleOver] at hs
    | typeParameter n c => simp [Ty.simpleOver] at hs

theorem hook_resolveType_ground (n : Nat) (t : Ty) (hs : t.simpleOver [] = true)
    (hd : t.depth < n) (s : Sema) : (hooks n).resolveType t s = .ok (t, s) := by
  cases n with
  | zero => omega
  | succ m => exact resolveType_ground m t hs (by omega) s


end ResolveGround

section StructLemmas
open Sema

theorem buildMapping_lookup_mem : ∀ (P : List GenericParam) (A : List Ty) (m : TypeMapping)
    (k : String) (v : Ty), (buildMapping P A m).lookup k = some v →
    v ∈ A ∨ m.lookup k = some v := by
  intro P
  induction P with
  | nil =>
    intro A m k v h
    cases A <;> exact Or.inr h
  | cons p ps ih =>
    intro A m k v h
    cases A with
    | nil => exact Or.inr h
    | cons a as =>
      simp only [buildMapping] at h
      rcases ih as _ k v h with h1 | h1
      · exact Or.inl (List.mem_cons_of_mem _ h1)
      · rw [lookup_mapSet] at h1
        split at h1
        · cases h1
          exact Or.inl (List.mem_cons_self _ _)
        · exact Or.inr h1

theorem buildMapping_lookup_isSome : ∀ (P : List GenericParam) (A : List Ty) (m : TypeMapping)
    (k : String), P.length = A.length →
    (k ∈ P.map GenericParam.name ∨ (m.lookup k).isSome = true) →
    ((buildMapping P A m).lookup k).isSome = true := by
  intro P
  induction P with
  | nil =>
    intro A m k hl h
    cases A with
    | nil =>
      rcases h with h | h
      · simp at h
      · exact h
    | cons a as => simp at hl
  | cons p ps ih =>
    intro A m k hl h
    cases A with
    | nil => simp at hl
    | cons a as =>
      simp only [buildMapping]
      apply ih as _ k (by simpa using hl)
      rcases h with h | h
      · simp only [List.map_cons, List.mem_cons] at h
        rcases h with h | h
        · right
          rw [lookup_mapSet, if_pos h]
          rfl
        · exact Or.inl h
      · right
        rw [lookup_mapSet]
        split
        · rfl
        · exact h

/-- Substitution of ground types for all parameters of a simple type gives a ground type. -/
theorem substitute_simple_ground (n : Nat) : ∀ (t : Ty) (P : List String) (m : TypeMapping),
    t.depth ≤ n → t.simpleOver P = true →
    (∀ k ∈ P, (m.lookup k).isSome = true) →
    (∀ k v, m.lookup k = some v → v.simpleOver [] = true) →
    (t.substitute m).simpleOver [] = true := by
  induction n with
  | zero =>
    intro t P m hd hs hP hm
    cases t with
    | primitive k => rfl
    | pointer b => simp [Ty.depth] at hd
    | array b k => simp [Ty.depth] at hd
    | function ps r v => simp [Ty.simpleOver] at hs
    | struct n fs ms c => simp [Ty.simpleOver] at hs
    | enum n vs => simp [Ty.simpleOver] at hs
    | typeParameter n c =>
      have hn : n ∈ P := by simpa [Ty.simpleOver] using hs
      have h1 := hP n hn
      simp only [Ty.substitute]
      cases hl : m.lookup n with
      | none => simp [hl] at h1
      | some v => exact hm n v hl
  | succ n ih =>
    intro t P m hd hs hP hm
    cases t with
    | primitive k => rfl
    | pointer b =>
      simp only [Ty.substitute, Ty.simpleOver]
      exact ih b P m (by simp [Ty.depth] at hd; omega) (by simpa [Ty.simpleOver] using hs) hP hm
    | array b k =>
      simp only [Ty.substitute, Ty.simpleOver]
      exact ih b P m (by simp [Ty.depth] at hd; omega) (by simpa [Ty.simpleOver] using hs) hP hm
    | function ps r v => simp [Ty.simpleOver] at hs
    | struct n fs ms c => simp [Ty.simpleOver] at hs
    | enum n vs => simp [Ty.simpleOver] at hs
    | typeParameter n c =>
      have hn : n ∈ P := by simpa [Ty.simpleOver] using hs
      have h1 := hP n hn
      simp only [Ty.substitute]
      cases hl : m.lookup n with
      | none => simp [hl] at h1
      | some v => exact hm n v hl

theorem mapMSema_const {α β : Type} (f : α → SemaM β) (g : α → β) (s : Sema) :
    ∀ l : List α, (∀ a ∈ l, f a s = .ok (g a, s)) → mapMSema f l s = .ok (l.map g, s) := by
  intro l
  induction l with
  | nil =>
    intro _
    rfl
  | cons a as ih =>
    intro hl
    unfold mapMSema
    rw [run_bind_ok (hl a (List.mem_cons_self _ _))]
    rw [run_bind_ok (ih fun b hb => hl b (List.mem_cons_of_mem _ hb))]
    rfl

theorem getLast_modifyGlobal (f : Scope → Scope) : ∀ scopes : List Scope,
    (modifyGlobal f scopes).getLast? = scopes.getLast?.map f := by
  intro scopes
  induction scopes with
  | nil => rfl
  | cons sc rest ih =>
    cases rest with
    | nil => rfl
    | cons t rest2 =>
      simp only [modifyGlobal]
      rw [List.getLast?_cons_cons]
      cases hm : modifyGlobal f (t :: rest2) with
      | nil =>
        cases rest2 <;> simp [modifyGlobal] at hm
      | cons x xs =>
        rw [List.getLast?_cons_cons, ← hm]
        exact ih

theorem findSome_modifyGlobal {β : Type} (f : Scope → Scope) (p : Scope → Option β) :
    ∀ scopes : List Scope, (∀ sc ∈ scopes, p sc = none) →
    (modifyGlobal f scopes).findSome? p = (scopes.getLast?.map f).bind p := by
  intro scopes
  induction scopes with
  | nil =>
    intro _
    rfl
  | cons sc rest ih =>
    intro hall
    cases rest with
    | nil =>
      show (match p (f sc) with
        | some b => some b
        | none => none) = p (f sc)
      cases p (f sc) <;> rfl
    | cons t rest2 =>
      simp only [modifyGlobal]
      rw [List.findSome?_cons, hall sc (List.mem_cons_self _ _), List.getLast?_cons_cons]
      exact ih fun x hx => hall x (List.mem_cons_of_mem _ hx)

theorem insertTypeGlobal_fresh (t : SymbolTable) (name : String) (type : Option Ty)
    (isPublic : Bool) (decl : Option Stmt) (hne : t.scopes ≠ [])
    (hfresh : ∀ sc ∈ t.scopes, sc.types.lookup name = none) :
    t.insertTypeGlobal name type isPublic decl
      = (true, ⟨modifyGlobal (SymbolTable.addType name type isPublic decl) t.scopes⟩) := by
  unfold SymbolTable.insertTypeGlobal
  cases hg : t.scopes.getLast? with
  | none => exact absurd (List.getLast?_eq_none_iff.mp hg) hne
  | some g =>
    have hmem : g ∈ t.scopes := List.mem_of_getLast?_eq_some hg
    simp only [mapHas, hfresh g hmem, Option.isSome_none, Bool.false_eq_true, if_false]

theorem registered_after_insert (t : SymbolTable) (name : String) (type : Option Ty)
    (isPublic : Bool) (decl : Option Stmt) (hne : t.scopes ≠ [])
    (hfresh : ∀ sc ∈ t.scopes, sc.types.lookup name = none) :
    (∃ g, (modifyGlobal (SymbolTable.addType name type isPublic decl) t.scopes).getLast? = some g
        ∧ g.types.lookup name = some type ∧ g.typeDecls.lookup name = some decl)
      ∧ (SymbolTable.mk (modifyGlobal (SymbolTable.addType name type isPublic decl)
          t.scopes)).lookupType name = type := by
  cases hg : t.scopes.getLast? with
  | none => exact absurd (List.getLast?_eq_none_iff.mp hg) hne
  | some g =>
    have hty : (SymbolTable.addType name type isPublic decl g).types.lookup name = some type := by
      simp only [SymbolTable.addType, lookup_mapSet, if_true]
    constructor
    · refine ⟨SymbolTable.addType name type isPublic decl g, ?_, hty, ?_⟩
      · rw [getLast_modifyGlobal, hg]
        rfl
      · simp only [SymbolTable.addType, lookup_mapSet, if_true]
    · unfold SymbolTable.lookupType
      simp only []
      rw [findSome_modifyGlobal _ _ _ hfresh, hg]
      show (match List.lookup name (SymbolTable.addType name type isPublic decl g).types with
        | some ty => ty
        | none => none) = type
      rw [hty]


theorem lookupType_none_of_fresh (t : SymbolTable) (name : String)
    (hfresh : ∀ sc ∈ t.scopes, sc.types.lookup name = none) : t.lookupType name = none := by
  unfold SymbolTable.lookupType
  have : (t.scopes.findSome? fun sc => sc.types.lookup name) = none := by
    rw [List.findSome?_eq_none_iff]
    exact hfresh
  rw [this]

theorem run_pushNode (node : Stmt) (s : Sema) :
    pushNode node s
      = .ok (s.analyzedNodes.length, { s with analyzedNodes := s.analyzedNodes ++ [node] }) := rfl

theorem run_newStructType (name : String) (fields : List Field) (isClass : Bool) (s : Sema) :
    newStructType name fields isClass s
      = .ok (.struct name fields [] isClass s.nextAddress,
          { s with nextAddress := s.nextAddress + 1 }) := rfl

theorem run_genericMapping (what name : String) (P : List GenericParam) (A : List Ty)
    (s : Sema) (harity : P.length = A.length)
    (hconstr : checkConstraints s.symbolTable P (A.map s.current) = .ok ()) :
    genericMapping what name P A s = .ok (buildMapping P A [], s) := by
  unfold genericMapping
  have h1 : failIf (decide (P.length ≠ A.length))
      ("Generic argument count mismatch for " ++ what ++ " " ++ name) s = .ok ((), s) := by
    rw [run_failIf]
    simp [harity]
  rw [run_bind_ok h1, run_bind_ok (run_get s), hconstr, run_bind_ok (run_liftExcept_ok () s)]
  rfl

theorem field_of_substituted (m : TypeMapping) (d : VarDecl) :
    Field.mk (VarDecl.replaceTypes m d.clone).name
        ((VarDecl.replaceTypes m d.clone).type.getD .void) (VarDecl.replaceTypes m d.clone).isPublic
      = Field.mk d.name ((d.type.getD .void).substitute m) d.isPublic := by
  simp only [VarDecl.replaceTypes, VarDecl.clone]
  cases d.type <;> rfl

/-- `analyzeStructDecl` on a declaration whose field types are ground and simple: the struct
type is registered in the module scope and nothing else changes. -/
theorem analyzeStructDecl_ground (n : Nat) (decl : StructDecl) (s : Sema)
    (hfields : ∀ m ∈ decl.members, ∃ t, m.type = some t ∧ t.simpleOver [] = true ∧ t.depth < n)
    (hscopes : s.symbolTable.scopes ≠ [])
    (hfresh : ∀ sc ∈ s.symbolTable.scopes, sc.types.lookup decl.name = none) :
    analyzeStructDecl (hooks n) decl s
      = .ok (decl, { s with
          symbolTable :=
            ⟨modifyGlobal (SymbolTable.addType decl.name
              (some (.struct decl.name
                (decl.members.map fun m => Field.mk m.name (m.type.getD .void) m.isPublic) []
                false s.nextAddress))
              decl.isPublic (some (.structDecl decl))) s.symbolTable.scopes⟩,
          nextAddress := s.nextAddress + 1 }) := by
  unfold analyzeStructDecl
  have hmap : mapMSema (resolveVarDeclType (hooks n)) decl.members s
      = .ok (decl.members.map id, s) := by
    apply mapMSema_const
    intro m hm
    obtain ⟨t, ht, hs, hd⟩ := hfields m hm
    unfold resolveVarDeclType
    rw [ht]
    simp only [resolveTypeOpt]
    rw [run_bind, run_bind, hook_resolveType_ground n t hs hd s]
    simp only [run_pure, id]
    have : m = { m with type := some t } := by
      cases m
      simp only [VarDecl.mk.injEq, true_and, and_true]
      exact ht
    rw [← this]
  rw [List.map_id] at hmap
  rw [run_bind_ok hmap]
  have hany : (decl.members.any fun m => m.type.isNone) = false := by
    rw [List.any_eq_false]
    intro m hm
    obtain ⟨t, ht, -, -⟩ := hfields m hm
    simp [ht]
  rw [hany, run_bind_ok (show failIf false "null pointer" s = .ok ((), s) from rfl),
    run_bind_ok (run_newStructType _ _ _ s), run_bind_ok (run_get _)]
  simp only []
  rw [insertTypeGlobal_fresh _ _ _ _ _ hscopes hfresh]
  rfl


end StructLemmas

section MonomorphizeStruct
open Sema

theorem set_length_append {α : Type} (l : List α) (x y : α) :
    (l ++ [x]).set l.length y = l ++ [y] := by
  induction l with
  | nil => rfl
  | cons a as ih => simp only [List.cons_append, List.length_cons, List.set_cons_succ, ih]

/-- `monomorphizeStruct` when no struct type of the mangled name is registered: the clone
is pushed, analyzed and written back, and the registered type of that name is returned. -/
theorem run_monomorphizeStruct_miss (h : SemaHooks) (S : StructDecl) (A : List Ty) (s : Sema)
    (mangled : String) (spec1 : StructDecl) (s3 : Sema)
    (hmangle : mangleGenericName S.name (A.map some) = .ok mangled)
    (hmiss : ((s.symbolTable.lookupType mangled).map Ty.isStruct).getD false = false)
    (harity : S.genericParams.length = A.length)
    (hconstr : checkConstraints s.symbolTable S.genericParams (A.map s.current) = .ok ())
    (hana : analyzeStructDecl h (structClone (buildMapping S.genericParams A []) mangled S)
        { s with
          analyzedNodes := s.analyzedNodes
            ++ [.structDecl (structClone (buildMapping S.genericParams A []) mangled S)],
          m_monomorphizedStructs := mapSet mangled s.analyzedNodes.length s.m_monomorphizedStructs }
      = .ok (spec1, s3)) :
    monomorphizeStruct h S A s
      = .ok (s3.symbolTable.lookupType mangled,
          { s3 with analyzedNodes := s3.analyzedNodes.set s.analyzedNodes.length
                                       (.structDecl spec1) }) := by
  unfold monomorphizeStruct
  rw [hmangle, run_bind_ok (run_liftExcept_ok mangled s), run_bind_ok (run_get s)]
  simp only [hmiss, Bool.false_eq_true, if_false]
  rw [run_bind_ok (run_genericMapping "struct" S.name S.genericParams A s harity hconstr),
    run_bind_ok (run_pushNode _ s), run_bind_ok (run_modify _ _), run_bind_ok hana]
  rfl

/-- The instance of a generic struct whose field types are built from its parameters by
pointers and arrays.  Let `S` be a generic struct declaration whose field types are built from
its generic parameters and the primitive types by pointer and array formation, `A` a list of
as many types built from primitive types in that way, which meets the constraints of the
parameters, and `mangled` the name `mangleGenericName(S, A)`, not yet registered in any scope.
Then `monomorphizeStruct`, with fuel above the nesting depth of the substituted field types,
returns the struct type named `mangled` whose fields are the fields of `S` in declaration
order with the arguments substituted for the parameters; this type and the clone, which has
the name `mangled` and no generic parameters, are registered in the module scope, and the
clone is the one node added to `analyzedNodes`. -/
theorem monomorphizeStruct_registers_instance
    (n : Nat) (S : StructDecl) (A : List Ty) (s : Sema) (mangled : String)
    (hmangle : mangleGenericName S.name (A.map some) = .ok mangled)
    (harity : S.genericParams.length = A.length)
    (hconstr : checkConstraints s.symbolTable S.genericParams (A.map s.current) = .ok ())
    (hfields : ∀ m ∈ S.members, ∃ t, m.type = some t
      ∧ t.simpleOver (S.genericParams.map GenericParam.name) = true
      ∧ (t.substitute (buildMapping S.genericParams A [])).depth < n)
    (hargs : ∀ a ∈ A, a.simpleOver [] = true)
    (hscopes : s.symbolTable.scopes ≠ [])
    (hfresh : ∀ sc ∈ s.symbolTable.scopes, sc.types.lookup mangled = none) :
    ∃ s1 g d,
      monomorphizeStruct (hooks n) S A s
          = .ok (some (instanceOf S A mangled s.nextAddress), s1)
      ∧ s1.symbolTable.scopes.getLast? = some g
      ∧ g.types.lookup mangled = some (some (instanceOf S A mangled s.nextAddress))
      ∧ g.typeDecls.lookup mangled = some (some (.structDecl d))
      ∧ d.name = mangled ∧ d.genericParams = []
      ∧ s1.symbolTable.lookupType mangled = some (instanceOf S A mangled s.nextAddress)
      ∧ s1.analyzedNodes = s.analyzedNodes ++ [.structDecl d] := by
  have hspecFields : ∀ m ∈ (structClone (buildMapping S.genericParams A []) mangled S).members,
      ∃ t, m.type = some t ∧ t.simpleOver [] = true ∧ t.depth < n := by
    intro m hm
    simp only [structClone, ASTSubstituter.substituteStruct, StructDecl.replaceTypes,
      StructDecl.clone, List.mem_map, exists_exists_and_eq_and] at hm
    obtain ⟨m0, hm0, rfl⟩ := hm
    obtain ⟨t, ht, hs, hd⟩ := hfields m0 hm0
    refine ⟨t.substitute (buildMapping S.genericParams A []), ?_, ?_, hd⟩
    · simp only [VarDecl.replaceTypes, VarDecl.clone, ht, Option.map_some']
    · apply substitute_simple_ground t.depth t _ _ (le_refl _) hs
      · intro k hk
        exact buildMapping_lookup_isSome _ _ _ k harity (Or.inl hk)
      · intro k v hkv
        rcases buildMapping_lookup_mem _ _ _ k v hkv with h1 | h1
        · exact hargs v h1
        · cases h1
  have hfieldsEq : Ty.struct mangled
      ((structClone (buildMapping S.genericParams A []) mangled S).members.map fun m =>
        Field.mk m.name (m.type.getD .void) m.isPublic) [] false s.nextAddress
      = instanceOf S A mangled s.nextAddress := by
    simp only [structClone, instanceOf, ASTSubstituter.substituteStruct,
      StructDecl.replaceTypes, StructDecl.clone, List.map_map]
    congr 1
    apply List.map_congr_left
    intro m _
    exact field_of_substituted _ m
  have hana := analyzeStructDecl_ground n
    (structClone (buildMapping S.genericParams A []) mangled S)
    { s with
      analyzedNodes := s.analyzedNodes
        ++ [.structDecl (structClone (buildMapping S.genericParams A []) mangled S)],
      m_monomorphizedStructs := mapSet mangled s.analyzedNodes.length s.m_monomorphizedStructs }
    hspecFields hscopes hfresh
  have hname : (structClone (buildMapping S.genericParams A []) mangled S).name = mangled := rfl
  rw [hname] at hana
  simp only [] at hana
  rw [hfieldsEq] at hana
  have hmiss : ((s.symbolTable.lookupType mangled).map Ty.isStruct).getD false = false := by
    rw [lookupType_none_of_fresh s.symbolTable mangled hfresh]
    rfl
  have hrun := run_monomorphizeStruct_miss (hooks n) S A s mangled _ _ hmangle hmiss harity
    hconstr hana
  obtain ⟨⟨g, hg, hgt, hgd⟩, hlook⟩ := registered_after_insert s.symbolTable mangled
    (some (instanceOf S A mangled s.nextAddress))
    (structClone (buildMapping S.genericParams A []) mangled S).isPublic
    (some (.structDecl (structClone (buildMapping S.genericParams A []) mangled S))) hscopes hfresh
  refine ⟨{ s with
      symbolTable := ⟨modifyGlobal (SymbolTable.addType mangled
        (some (instanceOf S A mangled s.nextAddress))
        (structClone (buildMapping S.genericParams A []) mangled S).isPublic
        (some (Stmt.structDecl (structClone (buildMapping S.genericParams A []) mangled S))))
        s.symbolTable.scopes⟩,
      analyzedNodes := (s.analyzedNodes
        ++ [Stmt.structDecl (structClone (buildMapping S.genericParams A []) mangled S)]).set
          s.analyzedNodes.length
          (Stmt.structDecl (structClone (buildMapping S.genericParams A []) mangled S)),
      m_monomorphizedStructs := mapSet mangled s.analyzedNodes.length s.m_monomorphizedStructs,
      nextAddress := s.nextAddress + 1 },
    g, _, ?_, hg, hgt, hgd, rfl, rfl, hlook, set_length_append _ _ _⟩
  rw [hrun]
  simp only [hlook]


/-- The instance `Point[f64]`: the registered type is `Point_f64` with two fields of type
`f64`. -/
theorem monomorphizeStruct_Point_f64_witness :
    instanceOf pointDecl [Ty.f64] "Point_f64" 1
        = .struct "Point_f64" [Field.mk "x" Ty.f64 true, Field.mk "y" Ty.f64 true] [] false 1
      ∧ ∃ s1 g d,
        monomorphizeStruct (hooks 1) pointDecl [Ty.f64] Sema.new
          = .ok (some (instanceOf pointDecl [Ty.f64] "Point_f64" 1), s1)
        ∧ s1.symbolTable.scopes.getLast? = some g
        ∧ g.types.lookup "Point_f64" = some (some (instanceOf pointDecl [Ty.f64] "Point_f64" 1))
        ∧ g.typeDecls.lookup "Point_f64" = some (some (.structDecl d))
        ∧ d.name = "Point_f64" ∧ d.genericParams = []
        ∧ s1.symbolTable.lookupType "Point_f64"
          = some (instanceOf pointDecl [Ty.f64] "Point_f64" 1)
        ∧ s1.analyzedNodes = Sema.new.analyzedNodes ++ [.structDecl d] :=
  ⟨rfl, monomorphizeStruct_registers_instance 1 pointDecl [Ty.f64] Sema.new "Point_f64" rfl rfl rfl
    (by
      intro m hm
      simp only [pointDecl, List.mem_cons, List.mem_singleton, List.not_mem_nil, or_false] at hm
      rcases hm with rfl | rfl <;> exact ⟨_, rfl, rfl, by decide⟩)
    (by
      intro a ha
      simp only [List.mem_singleton] at ha
      rw [ha]
      rfl)
    (by
      rw [show Sema.new.symbolTable.scopes = [_] from rfl]
      exact List.cons_ne_nil _ _)
    (by
      rw [show Sema.new.symbolTable.scopes = [_] from rfl]
      intro sc hsc
      simp only [List.mem_singleton] at hsc
      rw [hsc]
      rfl)⟩

/-- C8 fails in the code for a field whose type is a generic use of a parameter: with
`struct Box[T] { let v: T }` declared, `monomorphizeStruct` on
`struct Wrap[T] { let b: Box[T] }` and `[i32]` registers `Wrap_i32` with the field `b` of
the type `Box_T`, whose field `v` has the unknown type `T`, and registers no `Box_i32`;
the field type should be `Box[T]` with `i32` for `T`. So the analyzer rejects the program
that builds `Wrap[i32] { b: Box[i32] { v: 1 } }`. -/
theorem monomorphizeStruct_keeps_generic_use :
    (∃ s1 s3,
      analyze (hooks 3) (.structDecl boxDecl) Sema.new = .ok (.structDecl boxDecl, s1)
      ∧ monomorphizeStruct (hooks 3) wrapDecl [Ty.i32] s1
          = .ok (some (.struct "Wrap_i32"
              [Field.mk "b"
                (.struct "Box_T" [Field.mk "v" (.struct "T" [] [] false 0) true] [] false 2)
                true] [] false 3), s3)
      ∧ s3.symbolTable.lookupType "Wrap_i32"
          = some (.struct "Wrap_i32"
              [Field.mk "b"
                (.struct "Box_T" [Field.mk "v" (.struct "T" [] [] false 0) true] [] false 2)
                true] [] false 3)
      ∧ s3.symbolTable.lookupType "Box_i32" = none
      ∧ s3.symbolTable.lookupType "Box[i32]" = none)
      ∧ failureOf (Sema.analyzeProgramOf 12 [] wrapUseSource)
          = some "Type mismatch for field 'b' in struct 'Wrap_i32': expected Box_T, got Box_i32" := by
  refine ⟨⟨_, _, rfl, rfl, rfl, rfl, rfl⟩, ?_⟩
  decide!

end MonomorphizeStruct

/-! ## Monomorphization twice -/

section MonomorphizeTwice
open Sema

/-- C5 at a failing input.  After `struct Point[T] { let x: T; let y: T }`, inside the scope
of `request class R[Point_f64] { ... }`, where `Point_f64` names a type parameter, the first
call of `monomorphizeStruct` on `Point` and `[f64]` adds a node and returns the type
parameter, and the second call on the resulting analyzer throws; the analysis of the
request with two prototypes parameters of type `Point[f64]` fails in this way.  On the
analyzer that the constructor returns, the two calls of `monomorphizeStruct` return the
same type and the second call leaves the analyzer as it is, and so do two calls of
`monomorphizeFunction` on `fn add[T]` and `[i32]`, which reads its cache. -/
theorem monomorphizeStruct_twice_under_shadowing :
    (∃ d s1 s2,
      analyze (hooks 4) (.structDecl pointDecl) Sema.new = .ok (d, s1)
      ∧ monomorphizeStruct (hooks 4) pointDecl [Ty.f64] (inRequestScope s1)
          = .ok (some (.typeParameter "Point_f64" ""), s2)
      ∧ s2.analyzedNodes.length = (inRequestScope s1).analyzedNodes.length + 1
      ∧ monomorphizeStruct (hooks 4) pointDecl [Ty.f64] s2
          = .error "Redefinition of type 'Point_f64'"
      ∧ analyze (hooks 4) (.requestDecl shadowRequest) s1
          = .error "Redefinition of type 'Point_f64'")
    ∧ (∃ r s1, monomorphizeStruct (hooks 4) pointDecl [Ty.f64] Sema.new = .ok (r, s1)
        ∧ monomorphizeStruct (hooks 4) pointDecl [Ty.f64] s1 = .ok (r, s1))
    ∧ (∃ idx s1, monomorphizeFunction (hooks 4) addDecl [Ty.i32] Sema.new = .ok (idx, s1)
        ∧ monomorphizeFunction (hooks 4) addDecl [Ty.i32] s1 = .ok (idx, s1)) :=
  ⟨⟨_, _, _, rfl, rfl, rfl, rfl, rfl⟩, ⟨_, _, rfl, rfl⟩, ⟨_, _, rfl, rfl⟩⟩

end MonomorphizeTwice

/-! ## The substituter leaves no mention of the parameter -/

section SubstituterTokens
theorem identTokens_ne_nil (s : List Char) : identTokens s ≠ [] := by
  cases s with
  | nil => simp [identTokens]
  | cons c cs =>
    simp only [identTokens]
    split
    · split <;> simp
    · simp

theorem identTokens_cons (c : Char) (cs : List Char) :
    identTokens (c :: cs)
      = if isIdentChar c then
          match identTokens cs with
          | t :: ts => (c :: t) :: ts
          | [] => [[c]]
        else [] :: identTokens cs := rfl

theorem identTokens_append_sep (a b : List Char) (sep : Char) (hsep : isIdentChar sep = false) :
    identTokens (a ++ sep :: b) = identTokens a ++ identTokens b := by
  induction a with
  | nil =>
    show identTokens (sep :: b) = identTokens [] ++ identTokens b
    rw [identTokens_cons, hsep]
    rfl
  | cons c cs ih =>
    rw [List.cons_append, identTokens_cons, identTokens_cons, ih]
    by_cases hc : isIdentChar c = true
    · rw [if_pos hc, if_pos hc]
      cases hcs : identTokens cs with
      | nil => exact absurd hcs (identTokens_ne_nil cs)
      | cons t ts => rfl
    · rw [if_neg hc, if_neg hc]
      rfl

theorem mem_of_mem_identTokens : ∀ (s t : List Char), t ∈ identTokens s → ∀ c ∈ t, c ∈ s := by
  intro s
  induction s with
  | nil =>
    intro t ht c hc
    simp only [identTokens, List.mem_singleton] at ht
    rw [ht] at hc
    exact hc
  | cons x xs ih =>
    intro t ht c hc
    simp only [identTokens] at ht
    split at ht
    · cases hxs : identTokens xs with
      | nil => exact absurd hxs (identTokens_ne_nil xs)
      | cons t1 ts =>
        rw [hxs] at ht
        simp only [List.mem_cons] at ht
        rcases ht with rfl | ht
        · simp only [List.mem_cons] at hc
          rcases hc with rfl | hc
          · exact List.mem_cons_self _ _
          · exact List.mem_cons_of_mem _ (ih t1 (by rw [hxs]; exact List.mem_cons_self _ _) c hc)
        · exact List.mem_cons_of_mem _ (ih t (by rw [hxs]; exact List.mem_cons_of_mem _ ht) c hc)
    · simp only [List.mem_cons] at ht
      rcases ht with rfl | ht
      · cases hc
      · exact List.mem_cons_of_mem _ (ih t ht c hc)

theorem digitChar_ne_T (m : Fin 10) : Nat.digitChar m ≠ 'T' := by
  revert m
  decide

theorem toDigitsCore_no_T : ∀ (fuel n : Nat) (ds : List Char), 'T' ∉ ds →
    'T' ∉ Nat.toDigitsCore 10 fuel n ds := by
  intro fuel
  induction fuel with
  | zero =>
    intro n ds hds
    simpa [Nat.toDigitsCore] using hds
  | succ fuel ih =>
    intro n ds hds
    have hd : 'T' ∉ Nat.digitChar (n % 10) :: ds := by
      simp only [List.mem_cons, not_or]
      exact ⟨(digitChar_ne_T ⟨n % 10, Nat.mod_lt _ (by decide)⟩).symm, hds⟩
    simp only [Nat.toDigitsCore]
    split
    · exact hd
    · exact ih _ _ hd

theorem repr_no_T (n : Nat) : 'T' ∉ (Nat.repr n).data := by
  simp only [Nat.repr, Nat.toDigits, List.asString]
  exact toDigitsCore_no_T _ _ _ (List.not_mem_nil _)


theorem mentionsName_eq_false (p text : String) :
    mentionsName p text = false ↔ p.data ∉ identTokens text.data := by
  unfold mentionsName
  simp

theorem pointer_mentions_T (t : Ty) (h : t.mentions "T" = false) :
    (Ty.pointer t).mentions "T" = false := by
  unfold Ty.mentions at h ⊢
  rw [mentionsName_eq_false] at h ⊢
  have hs : (Ty.pointer t).toString.data = t.toString.data ++ '*' :: [] := by
    simp only [Ty.toString, String.data_append]
  rw [hs, identTokens_append_sep _ _ _ (by decide)]
  simp only [List.mem_append, not_or]
  exact ⟨h, by decide⟩

theorem array_mentions_T (t : Ty) (k : Nat) (h : t.mentions "T" = false) :
    (Ty.array t k).mentions "T" = false := by
  unfold Ty.mentions at h ⊢
  rw [mentionsName_eq_false] at h ⊢
  have hs : (Ty.array t k).toString.data
      = t.toString.data ++ '[' :: ((Nat.repr k).data ++ ']' :: []) := by
    simp only [Ty.toString, String.data_append, List.append_assoc]
    rfl
  rw [hs, identTokens_append_sep _ _ _ (by decide), identTokens_append_sep _ _ _ (by decide)]
  simp only [List.mem_append, not_or]
  refine ⟨h, ?_, by decide⟩
  intro hmem
  exact repr_no_T k (mem_of_mem_identTokens _ _ hmem 'T' (by decide))

theorem primitive_mentions_T (k : PrimKind) : (Ty.primitive k).mentions "T" = false := by
  cases k <;> decide

theorem named_substitute_T (n : String) (t : Ty) (htoString : t.toString = n)
    (h : (n = "T" || !mentionsName "T" n) = true) :
    (match [("T", Ty.i32)].lookup n with
      | some r => r
      | none => t).mentions "T" = false := by
  by_cases hn : n = "T"
  · subst hn
    have hl : List.lookup "T" [("T", Ty.i32)] = some Ty.i32 := rfl
    rw [hl]
    show Ty.mentions "T" Ty.i32 = false
    decide
  · have hl : List.lookup n [("T", Ty.i32)] = none := by
      rw [lookup_cons_eq, if_neg hn]
      rfl
    rw [hl]
    simp only [hn, decide_False, Bool.false_or, Bool.not_eq_true'] at h
    unfold Ty.mentions
    rw [htoString]
    exact h

/-- The substitution of `i32` for `T` in a type that is plain for `T` gives a type whose
textual form does not mention `T`. -/
theorem substitute_T_free (n : Nat) : ∀ t : Ty, t.depth ≤ n → t.plainFor "T" = true →
    (t.substitute [("T", Ty.i32)]).mentions "T" = false := by
  induction n with
  | zero =>
    intro t hd hp
    cases t with
    | primitive k => exact primitive_mentions_T k
    | pointer b => simp [Ty.depth] at hd
    | array b k => simp [Ty.depth] at hd
    | function ps r v => simp [Ty.plainFor] at hp
    | struct n fs ms c a =>
      exact named_substitute_T n (.struct n fs ms c a) rfl
        (by simpa [Ty.plainFor] using hp)
    | enum n vs => simp [Ty.plainFor] at hp
    | typeParameter n c =>
      exact named_substitute_T n (.typeParameter n c) rfl
        (by simpa [Ty.plainFor] using hp)
  | succ n ih =>
    intro t hd hp
    cases t with
    | primitive k => exact primitive_mentions_T k
    | pointer b =>
      exact pointer_mentions_T _ (ih b (by simp [Ty.depth] at hd; omega)
        (by simpa [Ty.plainFor] using hp))
    | array b k =>
      exact array_mentions_T _ k (ih b (by simp [Ty.depth] at hd; omega)
        (by simpa [Ty.plainFor] using hp))
    | function ps r v => simp [Ty.plainFor] at hp
    | struct n fs ms c a =>
      exact named_substitute_T n (.struct n fs ms c a) rfl
        (by simpa [Ty.plainFor] using hp)
    | enum n vs => simp [Ty.plainFor] at hp
    | typeParameter n c =>
      exact named_substitute_T n (.typeParameter n c) rfl
        (by simpa [Ty.plainFor] using hp)

theorem substitute_T_plain (t : Ty) (hp : t.plainFor "T" = true) :
    (t.substitute [("T", Ty.i32)]).mentions "T" = false :=
  substitute_T_free t.depth t (le_refl _) hp


end SubstituterTokens

section SubstituterExpr

theorem optAll_declared_substitute (t : Option Ty)
    (h : optAll (substitutableAt "T" .declared) t = true) :
    optAll (freeOfAt "T" .declared) (t.map (Ty.substitute [("T", Ty.i32)])) = true := by
  cases t with
  | none => rfl
  | some t =>
    simp only [optAll, substitutableAt] at h
    simp only [Option.map_some', optAll, freeOfAt, substitute_T_plain t h, Bool.not_false]

theorem all_declared_substitute (ts : List Ty)
    (h : ts.all (substitutableAt "T" .declared) = true) :
    (ts.map (Ty.substitute [("T", Ty.i32)])).all (freeOfAt "T" .declared) = true := by
  rw [List.all_eq_true] at h ⊢
  intro t ht
  rw [List.mem_map] at ht
  obtain ⟨t0, ht0, rfl⟩ := ht
  have := h t0 ht0
  simp only [substitutableAt] at this
  simp only [freeOfAt, substitute_T_plain t0 this, Bool.not_false]

theorem literal_free (lit : LiteralExpr) (h : lit.typesAll (substitutableAt "T") = true) :
    (lit.clone.replaceTypes [("T", Ty.i32)]).typesAll (freeOfAt "T") = true := by
  simp only [LiteralExpr.typesAll, Bool.and_eq_true] at h
  simp only [LiteralExpr.typesAll, LiteralExpr.replaceTypes, LiteralExpr.clone, Option.map_none',
    optAll, Bool.true_and]
  cases hex : lit.explicitType with
  | none => rfl
  | some t =>
    have h2 := h.2
    rw [hex] at h2
    exact h2

mutual
theorem expr_free : ∀ e : Expr, e.typesAll (substitutableAt "T") = true →
    (Expr.replaceTypes [("T", Ty.i32)] e.clone).typesAll (freeOfAt "T") = true
  | .literal lit, h => by
    simp only [Expr.typesAll] at h
    simp only [Expr.clone, Expr.replaceTypes, Expr.typesAll]
    exact literal_free lit h
  | .identifier t n, _ => by
    simp only [Expr.clone, Expr.replaceTypes, Expr.typesAll, Option.map_none', optAll]
  | .binary t l op r, h => by
    simp only [Expr.typesAll, Bool.and_eq_true] at h
    simp only [Expr.clone, Expr.replaceTypes, Expr.typesAll, Option.map_none', optAll,
      Bool.true_and, Bool.and_eq_true]
    exact ⟨expr_free l h.1.2, expr_free r h.2⟩
  | .unary t op e, h => by
    simp only [Expr.typesAll, Bool.and_eq_true] at h
    simp only [Expr.clone, Expr.replaceTypes, Expr.typesAll, Option.map_none', optAll,
      Bool.true_and]
    exact expr_free e h.2
  | .call t c as, h => by
    simp only [Expr.typesAll, Bool.and_eq_true] at h
    simp only [Expr.clone, Expr.replaceTypes, Expr.typesAll, Option.map_none', optAll,
      Bool.true_and, Bool.and_eq_true]
    exact ⟨expr_free c h.1.2, exprs_free as h.2⟩
  | .memberAccess t b mem st, h => by
    simp only [Expr.typesAll, Bool.and_eq_true] at h
    simp only [Expr.clone, Expr.replaceTypes, Expr.typesAll, Option.map_none', optAll,
      Bool.true_and]
    exact expr_free b h.2
  | .structLiteral t b fs, h => by
    simp only [Expr.typesAll, Bool.and_eq_true] at h
    simp only [Expr.clone, Expr.replaceTypes, Expr.typesAll, Option.map_none', optAll,
      Bool.true_and, Bool.and_eq_true]
    exact ⟨expr_free b h.1.2, fields_free fs h.2⟩
  | .arrayLiteral t es, h => by
    simp only [Expr.typesAll, Bool.and_eq_true] at h
    simp only [Expr.clone, Expr.replaceTypes, Expr.typesAll, Option.map_none', optAll,
      Bool.true_and]
    exact exprs_free es h.2
  | .indexing t b i, h => by
    simp only [Expr.typesAll, Bool.and_eq_true] at h
    simp only [Expr.clone, Expr.replaceTypes, Expr.typesAll, Option.map_none', optAll,
      Bool.true_and, Bool.and_eq_true]
    exact ⟨expr_free b h.1.2, expr_free i h.2⟩
  | .addressOf t e, h => by
    simp only [Expr.typesAll, Bool.and_eq_true] at h
    simp only [Expr.clone, Expr.replaceTypes, Expr.typesAll, Option.map_none', optAll,
      Bool.true_and]
    exact expr_free e h.2
  | .dereference t e, h => by
    simp only [Expr.typesAll, Bool.and_eq_true] at h
    simp only [Expr.clone, Expr.replaceTypes, Expr.typesAll, Option.map_none', optAll,
      Bool.true_and]
    exact expr_free e h.2
  | .question t e, h => by
    simp only [Expr.typesAll, Bool.and_eq_true] at h
    simp only [Expr.clone, Expr.replaceTypes, Expr.typesAll, Option.map_none', optAll,
      Bool.true_and]
    exact expr_free e h.2
  | .specialization t b as mn, h => by
    simp only [Expr.typesAll, Bool.and_eq_true] at h
    simp only [Expr.clone, Expr.replaceTypes, Expr.typesAll, Option.map_none', optAll,
      Bool.true_and, Bool.and_eq_true]
    exact ⟨expr_free b h.1.2, all_declared_substitute as h.2⟩
  | .intrinsic t k ta as, h => by
    simp only [Expr.typesAll, Bool.and_eq_true] at h
    simp only [Expr.clone, Expr.replaceTypes, Expr.typesAll, Option.map_none', optAll,
      Bool.true_and, Bool.and_eq_true]
    exact ⟨optAll_declared_substitute ta h.1.2, exprs_free as h.2⟩
theorem exprs_free : ∀ es : List Expr, Expr.typesAllList (substitutableAt "T") es = true →
    Expr.typesAllList (freeOfAt "T") (Expr.replaceTypesList [("T", Ty.i32)] (Expr.cloneList es))
      = true
  | [], _ => by
    simp only [Expr.cloneList, Expr.replaceTypesList, Expr.typesAllList]
  | e :: es, h => by
    simp only [Expr.typesAllList, Bool.and_eq_true] at h
    simp only [Expr.cloneList, Expr.replaceTypesList, Expr.typesAllList, Bool.and_eq_true]
    exact ⟨expr_free e h.1, exprs_free es h.2⟩
theorem fields_free : ∀ fs : List FieldInit,
    Expr.typesAllFields (substitutableAt "T") fs = true →
    Expr.typesAllFields (freeOfAt "T")
      (Expr.replaceTypesFields [("T", Ty.i32)] (Expr.cloneFields fs)) = true
  | [], _ => by
    simp only [Expr.cloneFields, Expr.replaceTypesFields, Expr.typesAllFields]
  | ⟨n, v⟩ :: fs, h => by
    simp only [Expr.typesAllFields, Bool.and_eq_true] at h
    simp only [Expr.cloneFields, Expr.replaceTypesFields, Expr.typesAllFields, Bool.and_eq_true]
    exact ⟨expr_free v h.1, fields_free fs h.2⟩
end


end SubstituterExpr

section SubstituterDecl

theorem exprOpt_free (e : Option Expr) (h : Expr.typesAllOpt (substitutableAt "T") e = true) :
    Expr.typesAllOpt (freeOfAt "T") ((e.map Expr.clone).map (Expr.replaceTypes [("T", Ty.i32)]))
      = true := by
  cases e with
  | none => rfl
  | some e => exact expr_free e h

mutual
theorem pattern_free : ∀ p : Pattern, p.typesAll (substitutableAt "T") = true →
    (Pattern.replaceTypes [("T", Ty.i32)] p.clone).typesAll (freeOfAt "T") = true
  | .literal lit, h => by
    simp only [Pattern.typesAll] at h
    simp only [Pattern.clone, Pattern.replaceTypes, Pattern.typesAll]
    exact literal_free lit h
  | .identifier n, _ => by
    simp only [Pattern.clone, Pattern.replaceTypes, Pattern.typesAll]
  | .variant e v subs, h => by
    simp only [Pattern.typesAll] at h
    simp only [Pattern.clone, Pattern.replaceTypes, Pattern.typesAll]
    exact patterns_free subs h
  | .wildcard, _ => by
    simp only [Pattern.clone, Pattern.replaceTypes, Pattern.typesAll]
theorem patterns_free : ∀ ps : List Pattern,
    Pattern.typesAllList (substitutableAt "T") ps = true →
    Pattern.typesAllList (freeOfAt "T")
      (Pattern.replaceTypes.replaceList [("T", Ty.i32)] (Pattern.clone.cloneList ps)) = true
  | [], _ => by
    simp only [Pattern.clone.cloneList, Pattern.replaceTypes.replaceList, Pattern.typesAllList]
  | p :: ps, h => by
    simp only [Pattern.typesAllList, Bool.and_eq_true] at h
    simp only [Pattern.clone.cloneList, Pattern.replaceTypes.replaceList, Pattern.typesAllList,
      Bool.and_eq_true]
    exact ⟨pattern_free p h.1, patterns_free ps h.2⟩
end

theorem varDecl_free (d : VarDecl) (h : d.typesAll (substitutableAt "T") = true) :
    (VarDecl.replaceTypes [("T", Ty.i32)] d.clone).typesAll (freeOfAt "T") = true := by
  simp only [VarDecl.typesAll, Bool.and_eq_true] at h
  simp only [VarDecl.typesAll, VarDecl.replaceTypes, VarDecl.clone, Bool.and_eq_true]
  exact ⟨optAll_declared_substitute d.type h.1, exprOpt_free d.initializer h.2⟩

theorem varDecls_free (ds : List VarDecl)
    (h : ds.all (VarDecl.typesAll (substitutableAt "T")) = true) :
    ((ds.map VarDecl.clone).map (VarDecl.replaceTypes [("T", Ty.i32)])).all
      (VarDecl.typesAll (freeOfAt "T")) = true := by
  rw [List.all_eq_true] at h ⊢
  intro d hd
  simp only [List.map_map, List.mem_map, Function.comp] at hd
  obtain ⟨d0, hd0, rfl⟩ := hd
  exact varDecl_free d0 (h d0 hd0)

theorem enumVariant_free (v : EnumVariant) (h : v.typesAll (substitutableAt "T") = true) :
    (EnumVariant.replaceTypes [("T", Ty.i32)] v.clone).typesAll (freeOfAt "T") = true := by
  simp only [EnumVariant.typesAll, Bool.and_eq_true] at h
  simp only [EnumVariant.typesAll, EnumVariant.replaceTypes, EnumVariant.clone, Bool.and_eq_true]
  exact ⟨all_declared_substitute v.tupleTypes h.1, varDecls_free v.structFields h.2⟩

theorem structDecl_free (d : StructDecl) (h : d.typesAll (substitutableAt "T") = true) :
    (StructDecl.replaceTypes [("T", Ty.i32)] d.clone).typesAll (freeOfAt "T") = true := by
  simp only [StructDecl.typesAll] at h
  simp only [StructDecl.typesAll, StructDecl.replaceTypes, StructDecl.clone]
  exact varDecls_free d.members h

theorem enumDecl_free (d : EnumDecl) (h : d.typesAll (substitutableAt "T") = true) :
    (EnumDecl.replaceTypes [("T", Ty.i32)] d.clone).typesAll (freeOfAt "T") = true := by
  simp only [EnumDecl.typesAll, Bool.and_eq_true] at h
  simp only [EnumDecl.typesAll, EnumDecl.replaceTypes, EnumDecl.clone, Option.map_none', optAll,
    Bool.true_and]
  rw [List.all_eq_true]
  intro v hv
  simp only [List.map_map, List.mem_map, Function.comp] at hv
  obtain ⟨v0, hv0, rfl⟩ := hv
  exact enumVariant_free v0 ((List.all_eq_true.mp h.2) v0 hv0)

theorem params_free (ps : List Param) (h : paramsAll (substitutableAt "T") ps = true) :
    paramsAll (freeOfAt "T") (ps.map (Param.replaceTypes [("T", Ty.i32)])) = true := by
  unfold paramsAll at h ⊢
  rw [List.all_eq_true] at h ⊢
  intro p hp
  rw [List.mem_map] at hp
  obtain ⟨p0, hp0, rfl⟩ := hp
  have := h p0 hp0
  simp only [substitutableAt] at this
  simp only [Param.replaceTypes, freeOfAt, substitute_T_plain p0.type this, Bool.not_false]

theorem declared_free (t : Ty) (h : substitutableAt "T" .declared t = true) :
    freeOfAt "T" .declared (t.substitute [("T", Ty.i32)]) = true := by
  simp only [substitutableAt] at h
  simp only [freeOfAt, substitute_T_plain t h, Bool.not_false]


end SubstituterDecl

section SubstituterStmt

mutual
theorem stmt_free : ∀ s : Stmt, s.hasRequest = false →
    s.typesAll (substitutableAt "T") = true →
    (Stmt.replaceTypes [("T", Ty.i32)] s.clone).typesAll (freeOfAt "T") = true
  | .block ss, hr, h => by
    simp only [Stmt.hasRequest] at hr
    simp only [Stmt.typesAll] at h
    simp only [Stmt.clone, Stmt.replaceTypes, Stmt.typesAll]
    exact stmts_free ss hr h
  | .ifStmt c t e, hr, h => by
    simp only [Stmt.hasRequest, Bool.or_eq_false_iff] at hr
    simp only [Stmt.typesAll, Bool.and_eq_true] at h
    simp only [Stmt.clone, Stmt.replaceTypes, Stmt.typesAll, Bool.and_eq_true]
    exact ⟨⟨expr_free c h.1.1, stmts_free t hr.1 h.1.2⟩, optList_free e hr.2 h.2⟩
  | .whileStmt c b, hr, h => by
    simp only [Stmt.hasRequest] at hr
    simp only [Stmt.typesAll, Bool.and_eq_true] at h
    simp only [Stmt.clone, Stmt.replaceTypes, Stmt.typesAll, Bool.and_eq_true]
    exact ⟨expr_free c h.1, stmts_free b hr h.2⟩
  | .doWhileStmt b c, hr, h => by
    simp only [Stmt.hasRequest] at hr
    simp only [Stmt.typesAll, Bool.and_eq_true] at h
    simp only [Stmt.clone, Stmt.replaceTypes, Stmt.typesAll, Bool.and_eq_true]
    exact ⟨stmts_free b hr h.1, expr_free c h.2⟩
  | .forStmt i c st b, hr, h => by
    simp only [Stmt.hasRequest, Bool.or_eq_false_iff] at hr
    simp only [Stmt.typesAll, Bool.and_eq_true] at h
    simp only [Stmt.clone, Stmt.replaceTypes, Stmt.typesAll, Bool.and_eq_true]
    exact ⟨⟨⟨opt_free i hr.1 h.1.1.1, exprOpt_free c h.1.1.2⟩, exprOpt_free st h.1.2⟩,
      stmts_free b hr.2 h.2⟩
  | .switchStmt c cs, hr, h => by
    simp only [Stmt.hasRequest] at hr
    simp only [Stmt.typesAll, Bool.and_eq_true] at h
    simp only [Stmt.clone, Stmt.replaceTypes, Stmt.typesAll, Bool.and_eq_true]
    exact ⟨expr_free c h.1, cases_free cs hr h.2⟩
  | .breakStmt, _, _ => by
    simp only [Stmt.clone, Stmt.replaceTypes, Stmt.typesAll]
  | .continueStmt, _, _ => by
    simp only [Stmt.clone, Stmt.replaceTypes, Stmt.typesAll]
  | .returnStmt e, _, h => by
    simp only [Stmt.typesAll] at h
    simp only [Stmt.clone, Stmt.replaceTypes, Stmt.typesAll]
    exact exprOpt_free e h
  | .exprStmt e, _, h => by
    simp only [Stmt.typesAll] at h
    simp only [Stmt.clone, Stmt.replaceTypes, Stmt.typesAll]
    exact expr_free e h
  | .varDecl d, _, h => by
    simp only [Stmt.typesAll] at h
    simp only [Stmt.clone, Stmt.replaceTypes, Stmt.typesAll]
    exact varDecl_free d h
  | .functionDecl d, hr, h => by
    simp only [Stmt.hasRequest] at hr
    simp only [Stmt.typesAll] at h
    simp only [Stmt.clone, Stmt.replaceTypes, Stmt.typesAll]
    exact function_free d hr h
  | .structDecl d, _, h => by
    simp only [Stmt.typesAll] at h
    simp only [Stmt.clone, Stmt.replaceTypes, Stmt.typesAll]
    exact structDecl_free d h
  | .enumDecl d, _, h => by
    simp only [Stmt.typesAll] at h
    simp only [Stmt.clone, Stmt.replaceTypes, Stmt.typesAll]
    exact enumDecl_free d h
  | .classDecl d, hr, h => by
    simp only [Stmt.hasRequest] at hr
    simp only [Stmt.typesAll] at h
    simp only [Stmt.clone, Stmt.replaceTypes, Stmt.typesAll]
    exact class_free d hr h
  | .requestDecl d, hr, _ => by
    simp only [Stmt.hasRequest] at hr
    cases hr
theorem stmts_free : ∀ ss : List Stmt, Stmt.hasRequestList ss = false →
    Stmt.typesAllList (substitutableAt "T") ss = true →
    Stmt.typesAllList (freeOfAt "T") (Stmt.replaceTypesList [("T", Ty.i32)] (Stmt.cloneList ss))
      = true
  | [], _, _ => by
    simp only [Stmt.cloneList, Stmt.replaceTypesList, Stmt.typesAllList]
  | s :: ss, hr, h => by
    simp only [Stmt.hasRequestList, Bool.or_eq_false_iff] at hr
    simp only [Stmt.typesAllList, Bool.and_eq_true] at h
    simp only [Stmt.cloneList, Stmt.replaceTypesList, Stmt.typesAllList, Bool.and_eq_true]
    exact ⟨stmt_free s hr.1 h.1, stmts_free ss hr.2 h.2⟩
theorem optList_free : ∀ b : Option (List Stmt), Stmt.hasRequestOptList b = false →
    Stmt.typesAllOptList (substitutableAt "T") b = true →
    Stmt.typesAllOptList (freeOfAt "T")
      (Stmt.replaceTypesOptList [("T", Ty.i32)] (Stmt.cloneOptList b)) = true
  | none, _, _ => by
    simp only [Stmt.cloneOptList, Stmt.replaceTypesOptList, Stmt.typesAllOptList]
  | some ss, hr, h => by
    simp only [Stmt.hasRequestOptList] at hr
    simp only [Stmt.typesAllOptList] at h
    simp only [Stmt.cloneOptList, Stmt.replaceTypesOptList, Stmt.typesAllOptList]
    exact stmts_free ss hr h
theorem opt_free : ∀ s : Option Stmt, Stmt.hasRequestOpt s = false →
    Stmt.typesAllOpt (substitutableAt "T") s = true →
    Stmt.typesAllOpt (freeOfAt "T") (Stmt.replaceTypesOpt [("T", Ty.i32)] (Stmt.cloneOpt s))
      = true
  | none, _, _ => by
    simp only [Stmt.cloneOpt, Stmt.replaceTypesOpt, Stmt.typesAllOpt]
  | some s, hr, h => by
    simp only [Stmt.hasRequestOpt] at hr
    simp only [Stmt.typesAllOpt] at h
    simp only [Stmt.cloneOpt, Stmt.replaceTypesOpt, Stmt.typesAllOpt]
    exact stmt_free s hr h
theorem cases_free : ∀ cs : List CaseStmt, Stmt.hasRequestCases cs = false →
    Stmt.typesAllCases (substitutableAt "T") cs = true →
    Stmt.typesAllCases (freeOfAt "T")
      (Stmt.replaceTypesCases [("T", Ty.i32)] (Stmt.cloneCases cs)) = true
  | [], _, _ => by
    simp only [Stmt.cloneCases, Stmt.replaceTypesCases, Stmt.typesAllCases]
  | ⟨p, b, d⟩ :: cs, hr, h => by
    simp only [Stmt.hasRequestCases, Bool.or_eq_false_iff] at hr
    simp only [Stmt.typesAllCases, Bool.and_eq_true] at h
    simp only [Stmt.cloneCases, Stmt.replaceTypesCases, Stmt.typesAllCases, Bool.and_eq_true]
    refine ⟨⟨?_, stmts_free b hr.1 h.1.2⟩, cases_free cs hr.2 h.2⟩
    cases p with
    | none => rfl
    | some pat => exact pattern_free pat h.1.1
theorem function_free : ∀ d : FunctionDecl, Stmt.hasRequestFunction d = false →
    Stmt.typesAllFunction (substitutableAt "T") d = true →
    Stmt.typesAllFunction (freeOfAt "T")
      (Stmt.replaceTypesFunction [("T", Ty.i32)] (Stmt.cloneFunction d)) = true
  | ⟨n, r, ps, b, ex, pub, va, gps⟩, hr, h => by
    simp only [Stmt.hasRequestFunction] at hr
    simp only [Stmt.typesAllFunction, Bool.and_eq_true] at h
    simp only [Stmt.cloneFunction, Stmt.replaceTypesFunction, Stmt.typesAllFunction,
      Bool.and_eq_true]
    exact ⟨⟨declared_free r h.1.1, params_free ps h.1.2⟩, optList_free b hr h.2⟩
theorem members_free : ∀ ms : List ClassMember, Stmt.hasRequestMembers ms = false →
    Stmt.typesAllMembers (substitutableAt "T") ms = true →
    Stmt.typesAllMembers (freeOfAt "T")
      (Stmt.replaceTypesMembers [("T", Ty.i32)] (Stmt.cloneMembers ms)) = true
  | [], _, _ => by
    simp only [Stmt.cloneMembers, Stmt.replaceTypesMembers, Stmt.typesAllMembers]
  | .field d :: ms, hr, h => by
    simp only [Stmt.hasRequestMembers] at hr
    simp only [Stmt.typesAllMembers, Bool.and_eq_true] at h
    simp only [Stmt.cloneMembers, Stmt.cloneMember, Stmt.replaceTypesMembers,
      Stmt.typesAllMembers, Bool.and_eq_true]
    exact ⟨varDecl_free d h.1, members_free ms hr h.2⟩
  | .method ⟨n, r, ps, b, pub, gps⟩ :: ms, hr, h => by
    simp only [Stmt.hasRequestMembers, Bool.or_eq_false_iff] at hr
    simp only [Stmt.typesAllMembers, Stmt.typesAllMethod, Bool.and_eq_true] at h
    simp only [Stmt.cloneMembers, Stmt.cloneMember, Stmt.cloneMethod, Stmt.replaceTypesMembers,
      Stmt.replaceTypesMethod, Stmt.typesAllMembers, Stmt.typesAllMethod, Bool.and_eq_true]
    exact ⟨⟨⟨declared_free r h.1.1.1, params_free ps h.1.1.2⟩, optList_free b hr.1 h.1.2⟩,
      members_free ms hr.2 h.2⟩
  | .ctor ⟨n, ps, b, pub⟩ :: ms, hr, h => by
    simp only [Stmt.hasRequestMembers, Bool.or_eq_false_iff] at hr
    simp only [Stmt.typesAllMembers, Stmt.typesAllCtor, Bool.and_eq_true] at h
    simp only [Stmt.cloneMembers, Stmt.cloneMember, Stmt.cloneCtor, Stmt.replaceTypesMembers,
      Stmt.replaceTypesCtor, Stmt.typesAllMembers, Stmt.typesAllCtor, Bool.and_eq_true]
    exact ⟨⟨params_free ps h.1.1, optList_free b hr.1 h.1.2⟩, members_free ms hr.2 h.2⟩
theorem class_free : ∀ d : ClassDecl, Stmt.hasRequestClass d = false →
    Stmt.typesAllClass (substitutableAt "T") d = true →
    Stmt.typesAllClass (freeOfAt "T")
      (Stmt.replaceTypesClass [("T", Ty.i32)] (Stmt.cloneClass d)) = true
  | ⟨n, ms, pub, gps, reqs⟩, hr, h => by
    simp only [Stmt.hasRequestClass] at hr
    simp only [Stmt.typesAllClass] at h
    simp only [Stmt.cloneClass, Stmt.replaceTypesClass, Stmt.typesAllClass]
    exact members_free ms hr h
end


/-- Substitution below pointers and arrays.  Let `d` be a declaration in which no request
declaration occurs, every
declared type (parameter type, return type, field type, variant payload, variable
annotation, type argument of a specialization or of an intrinsic) is built as the parser
builds types, with pointers and arrays around a primitive type, a type parameter or a named
type, and names `T` only as the parameter `T` itself (so not inside a generic use such as
`Box[T]`), and no explicit type of a literal mentions `T`.  Then in the clone that
`ASTSubstituter` produces with the mapping `T -> i32` no type at any type-bearing position
has a textual form that mentions `T`. -/
theorem substituter_leaves_no_mention (d : Stmt) (hreq : d.hasRequest = false)
    (hplain : d.typesAll (substitutableAt "T") = true) :
    (ASTSubstituter.substituteStmt [("T", Ty.i32)] d).typesAll (freeOfAt "T") = true :=
  stmt_free d hreq hplain

/-- The clone of `fn g[T](p: T*, a: T[4]): T { let x: T = sizeof[T](); return x; }`: its
types are `i32*`, `i32[4]` and `i32`. -/
theorem substituter_nested_witness :
    (Stmt.replaceTypesFunction [("T", Ty.i32)] (Stmt.cloneFunction nestedParamDecl)).params.map
        (fun p => p.type.toString) = ["i32*", "i32[4]"]
      ∧ (ASTSubstituter.substituteStmt [("T", Ty.i32)] (.functionDecl nestedParamDecl)).typesAll
          (freeOfAt "T") = true :=
  ⟨by decide, substituter_leaves_no_mention (.functionDecl nestedParamDecl) (by decide)
    (by decide)⟩

/-- C6 fails in the code for a generic use. In the clone of `fn f[T](b: Box[T]): void { }`
with the mapping `T -> i32` the parameter still has the type `Box[T]`, whose textual form
mentions `T`, while the parameter types `T*` and `T[4]` of another function become `i32*`
and `i32[4]`. So the analyzer rejects a program that calls the specialization `g[i32]` of
`fn g[T](b: Box[T]): T { return b.v; }` with a `Box[i32]`: the type of `b.v` in the clone
is `T`, not `i32`. -/
theorem generic_use_is_not_substituted :
    (ASTSubstituter.substituteFunction [("T", Ty.i32)] boxParamDecl).params.map
        (fun p => p.type.toString) = ["Box[T]"]
      ∧ Ty.mentions "T" (.struct "Box[T]" [] [] false 0) = true
      ∧ (ASTSubstituter.substituteStmt [("T", Ty.i32)] (.functionDecl boxParamDecl)).typesAll
          (freeOfAt "T") = false
      ∧ (ASTSubstituter.substituteFunction [("T", Ty.i32)] nestedParamDecl).params.map
          (fun p => p.type.toString) = ["i32*", "i32[4]"]
      ∧ failureOf (Sema.analyzeProgramOf 12 [] boxUseSource)
          = some "Return type mismatch: expected i32, got T" := by
  refine ⟨by decide, by decide, by decide, by decide, ?_⟩
  decide!

end SubstituterStmt

/-! ## The builder monad: how an action runs on a state -/

section BuildM

variable {α β : Type}

theorem build_pure (a : α) (s : MIRBuilder) : (pure a : BuildM α) s = .ok (a, s) := rfl

theorem build_throw (e : String) (s : MIRBuilder) : (throw e : BuildM α) s = .error e := rfl

theorem build_get (s : MIRBuilder) : (get : BuildM MIRBuilder) s = .ok (s, s) := rfl

theorem build_modify (f : MIRBuilder → MIRBuilder) (s : MIRBuilder) :
    (modify f : BuildM PUnit) s = .ok (PUnit.unit, f s) := rfl

theorem build_bind (x : BuildM α) (f : α → BuildM β) (s : MIRBuilder) :
    (x >>= f) s = match x s with
      | .ok r => f r.1 r.2
      | .error e => .error e := by
  show (x s >>= fun p => f p.1 p.2) = _
  cases x s <;> rfl

theorem build_bind_ok {x : BuildM α} {f : α → BuildM β} {s s1 : MIRBuilder} {a : α}
    (hx : x s = .ok (a, s1)) : (x >>= f) s = f a s1 := by
  rw [build_bind, hx]

theorem build_bind_error {x : BuildM α} {f : α → BuildM β} {s : MIRBuilder} {e : String}
    (hx : x s = .error e) : (x >>= f) s = .error e := by
  rw [build_bind, hx]

theorem build_bind_eq_ok {x : BuildM α} {f : α → BuildM β} {s s2 : MIRBuilder} {b : β} :
    (x >>= f) s = .ok (b, s2) ↔ ∃ a s1, x s = .ok (a, s1) ∧ f a s1 = .ok (b, s2) := by
  rw [build_bind]
  cases hx : x s with
  | error e => simp
  | ok r =>
    obtain ⟨a, s1⟩ := r
    constructor
    · intro h
      exact ⟨a, s1, rfl, h⟩
    · rintro ⟨a1, s11, h1, h2⟩
      cases h1
      exact h2

end BuildM

/-! ## Appending to a block of the store -/

namespace MIRBuilder

theorem getElem?_lt_length {α : Type} {l : List α} {k : Nat} {a : α} (h : l[k]? = some a) :
    k < l.length := by
  rcases Nat.lt_or_ge k l.length with hk | hk
  · exact hk
  · rw [List.getElem?_eq_none hk] at h
    cases h

theorem set_self_eq {α : Type} (l : List α) (k : Nat) (a : α) (h : l[k]? = some a) :
    l.set k a = l := by
  apply List.ext_getElem?
  intro i
  rw [List.getElem?_set]
  by_cases hik : k = i
  · subst hik
    simp [getElem?_lt_length h, h]
  · simp [hik]

theorem appendTo_eq (s : MIRBuilder) (k : Nat) (insts : List MIRInstruction) (b : BasicBlock)
    (hb : s.blockStore[k]? = some b) :
    s.appendTo k insts =
      { s with blockStore := s.blockStore.set k { b with instructions := b.instructions ++ insts } } := by
  unfold appendTo
  rw [hb]

theorem appendTo_none (s : MIRBuilder) (k : Nat) (insts : List MIRInstruction)
    (hb : s.blockStore[k]? = none) : s.appendTo k insts = s := by
  unfold appendTo
  rw [hb]

theorem appendTo_nil (s : MIRBuilder) (k : Nat) : s.appendTo k [] = s := by
  cases h : s.blockStore[k]? with
  | none => exact appendTo_none s k [] h
  | some b =>
    rw [appendTo_eq s k [] b h]
    simp only [List.append_nil]
    show { s with blockStore := s.blockStore.set k b } = s
    rw [set_self_eq _ _ _ h]

theorem appendTo_blockStore_get (s : MIRBuilder) (k : Nat) (insts : List MIRInstruction)
    (b : BasicBlock) (hb : s.blockStore[k]? = some b) :
    (s.appendTo k insts).blockStore[k]? =
      some { b with instructions := b.instructions ++ insts } := by
  rw [appendTo_eq s k insts b hb]
  show (s.blockStore.set k _)[k]? = _
  rw [List.getElem?_set]
  simp [getElem?_lt_length hb]

theorem appendTo_appendTo (s : MIRBuilder) (k : Nat) (l1 l2 : List MIRInstruction) :
    (s.appendTo k l1).appendTo k l2 = s.appendTo k (l1 ++ l2) := by
  cases hb : s.blockStore[k]? with
  | none =>
    rw [appendTo_none s k l1 hb, appendTo_none s k l2 hb, appendTo_none s k _ hb]
  | some b =>
    rw [appendTo_eq _ k l2 _ (appendTo_blockStore_get s k l1 b hb), appendTo_eq s k l1 b hb,
      appendTo_eq s k (l1 ++ l2) b hb]
    simp [List.set_set, List.append_assoc]

theorem appendTo_currentBlock (s : MIRBuilder) (k : Nat) (insts : List MIRInstruction) :
    (s.appendTo k insts).currentBlock = s.currentBlock := by
  unfold appendTo
  cases s.blockStore[k]? <;> rfl

theorem emit_run (inst : MIRInstruction) (s : MIRBuilder) (k : Nat) (b : BasicBlock)
    (hcur : s.currentBlock = some k) (hb : s.blockStore[k]? = some b) :
    emit inst s = .ok ((), s.appendTo k [inst]) := by
  rw [appendTo_eq s k [inst] b hb]
  unfold emit
  rw [hcur]
  simp only [hb]
  rfl

end MIRBuilder

/-! ## Scope exits in the MIR builder -/

/-- C4.  The lowering of
`class Foo { fn ~Foo() { } } fn main(): void { while (true) { let f = Foo(); if (true) { S } } }`
for `S` a `break`, a `continue` and a `return`.  The block `if.then.4` is the path that
leaves the scope of `f`: for `break` and `continue` it holds the branch alone, without a
call of `Foo_~Foo`, while for `return` the call of `Foo_~Foo` on the slot `%f` stands
before the `ret`. -/
theorem break_and_continue_skip_destructors :
    loweredText [.classDecl fooDecl, .functionDecl breakInIfFunction] = some [
      ("Foo_~Foo", [("entry", ["ret "])]),
      ("main", [
        ("entry.0", ["br while.cond.1"]),
        ("while.cond.1", ["%t0 = const 1", "br %t0, while.body.2, while.merge.3"]),
        ("while.body.2", ["%t1 = alloca Foo", "%t2 = call Foo_Foo(%t1)", "%t3 = load %t1",
          "%f = alloca Foo", "store %t3, %f", "%t4 = const 1",
          "br %t4, if.then.4, if.merge.5"]),
        ("while.merge.3", ["ret "]),
        ("if.then.4", ["br while.merge.3"]),
        ("if.merge.5", [" = call Foo_~Foo(%f)", "br while.cond.1"])])]
    ∧ loweredText [.classDecl fooDecl, .functionDecl continueInIfFunction] = some [
      ("Foo_~Foo", [("entry", ["ret "])]),
      ("main", [
        ("entry.0", ["br while.cond.1"]),
        ("while.cond.1", ["%t0 = const 1", "br %t0, while.body.2, while.merge.3"]),
        ("while.body.2", ["%t1 = alloca Foo", "%t2 = call Foo_Foo(%t1)", "%t3 = load %t1",
          "%f = alloca Foo", "store %t3, %f", "%t4 = const 1",
          "br %t4, if.then.4, if.merge.5"]),
        ("while.merge.3", ["ret "]),
        ("if.then.4", ["br while.cond.1"]),
        ("if.merge.5", [" = call Foo_~Foo(%f)", "br while.cond.1"])])]
    ∧ loweredText [.classDecl fooDecl, .functionDecl returnInIfFunction] = some [
      ("Foo_~Foo", [("entry", ["ret "])]),
      ("main", [
        ("entry.0", ["br while.cond.1"]),
        ("while.cond.1", ["%t0 = const 1", "br %t0, while.body.2, while.merge.3"]),
        ("while.body.2", ["%t1 = alloca Foo", "%t2 = call Foo_Foo(%t1)", "%t3 = load %t1",
          "%f = alloca Foo", "store %t3, %f", "%t4 = const 1",
          "br %t4, if.then.4, if.merge.5"]),
        ("while.merge.3", ["ret "]),
        ("if.then.4", [" = call Foo_~Foo(%f)", "ret "]),
        ("if.merge.5", [" = call Foo_~Foo(%f)", "br while.cond.1"])])] := by
  refine ⟨?_, ?_, ?_⟩ <;> decide!

/-! ## `emitAllDestructors` -/

namespace MIRBuilder

@[simp] theorem appendTo_structTypes (s : MIRBuilder) (k : Nat) (insts : List MIRInstruction) :
    (s.appendTo k insts).structTypes = s.structTypes := by
  unfold appendTo
  cases s.blockStore[k]? <;> rfl

@[simp] theorem appendTo_varMap (s : MIRBuilder) (k : Nat) (insts : List MIRInstruction) :
    (s.appendTo k insts).varMap = s.varMap := by
  unfold appendTo
  cases s.blockStore[k]? <;> rfl

@[simp] theorem appendTo_scopeStack (s : MIRBuilder) (k : Nat) (insts : List MIRInstruction) :
    (s.appendTo k insts).scopeStack = s.scopeStack := by
  unfold appendTo
  cases s.blockStore[k]? <;> rfl

theorem emitDestructor_run (v : LocalVar) (s : MIRBuilder) (k : Nat) (b : BasicBlock)
    (hcur : s.currentBlock = some k) (hb : s.blockStore[k]? = some b) :
    emitDestructor v s
      = .ok ((), s.appendTo k (destructorOf s.structTypes s.varMap v).toList) := by
  unfold emitDestructor destructorOf
  rw [build_bind_ok (build_get s)]
  cases hn : needsDestructor s.structTypes v.type with
  | false =>
    simp only [Bool.false_eq_true, if_false, Option.toList]
    rw [appendTo_nil]
    rfl
  | true =>
    simp only [if_true]
    cases hl : s.varMap.lookup v.name with
    | none =>
      simp only [Option.map_none', Option.toList]
      rw [appendTo_nil]
      rfl
    | some addr =>
      simp only [Option.map_some', Option.toList]
      exact emit_run _ s k b hcur hb

theorem forEach_emitDestructor (vars : List LocalVar) :
    ∀ (s : MIRBuilder) (k : Nat) (b : BasicBlock), s.currentBlock = some k →
      s.blockStore[k]? = some b →
      forEach emitDestructor vars s
        = .ok ((), s.appendTo k (vars.filterMap (destructorOf s.structTypes s.varMap))) := by
  induction vars with
  | nil =>
    intro s k b _ _
    rw [List.filterMap_nil, appendTo_nil]
    rfl
  | cons v rest ih =>
    intro s k b hcur hb
    unfold forEach
    rw [build_bind_ok (emitDestructor_run v s k b hcur hb)]
    rw [ih _ k _ (by rw [appendTo_currentBlock]; exact hcur)
      (appendTo_blockStore_get s k _ b hb)]
    rw [appendTo_appendTo, appendTo_structTypes, appendTo_varMap]
    congr 3
    rw [List.filterMap_cons]
    cases destructorOf s.structTypes s.varMap v <;> rfl

theorem forEach_scopes (scopes : List Scope) :
    ∀ (s : MIRBuilder) (k : Nat) (b : BasicBlock), s.currentBlock = some k →
      s.blockStore[k]? = some b →
      forEach (fun scope : Scope => forEach emitDestructor scope.vars.reverse) scopes s
        = .ok ((), s.appendTo k
            (scopes.flatMap fun scope => scopeDestructors s.structTypes s.varMap scope.vars)) := by
  induction scopes with
  | nil =>
    intro s k b _ _
    rw [List.flatMap_nil, appendTo_nil]
    rfl
  | cons scope rest ih =>
    intro s k b hcur hb
    unfold forEach
    rw [build_bind_ok (forEach_emitDestructor scope.vars.reverse s k b hcur hb)]
    rw [ih _ k _ (by rw [appendTo_currentBlock]; exact hcur)
      (appendTo_blockStore_get s k _ b hb)]
    rw [appendTo_appendTo, appendTo_structTypes, appendTo_varMap, List.flatMap_cons]
    rfl

theorem emitAllDestructors_run (s : MIRBuilder) (k : Nat) (b : BasicBlock)
    (hcur : s.currentBlock = some k) (hb : s.blockStore[k]? = some b) :
    emitAllDestructors s = .ok ((), s.appendTo k (pendingDestructors s)) := by
  unfold emitAllDestructors
  rw [build_bind_ok (build_get s)]
  exact forEach_scopes s.scopeStack.reverse s k b hcur hb

theorem destructorOf_isCall (structTypes : List (String × StructInfo))
    (varMap : List (String × String)) (v : LocalVar) (i : MIRInstruction)
    (h : destructorOf structTypes varMap v = some i) : i.isCall = true := by
  unfold destructorOf at h
  split at h
  · cases hl : varMap.lookup v.name with
    | none => rw [hl] at h; cases h
    | some a => rw [hl] at h; cases h; rfl
  · cases h

theorem pendingDestructors_isCall (s : MIRBuilder) :
    ∀ i ∈ pendingDestructors s, i.isCall = true := by
  intro i hi
  unfold pendingDestructors scopeDestructors at hi
  rw [List.mem_flatMap] at hi
  obtain ⟨scope, _, hi⟩ := hi
  rw [List.mem_filterMap] at hi
  obtain ⟨v, _, hv⟩ := hi
  exact destructorOf_isCall _ _ v i hv

end MIRBuilder

/-! ## Steps of the builder on a state -/

namespace MIRBuilder

variable {β : Type}

theorem newTemp_run (s : MIRBuilder) :
    newTemp s = .ok (tempName s.tempCount, s.bumpTemp) := rfl

theorem setCurrentBlock_run (p : BlockPtr) (s : MIRBuilder) :
    setCurrentBlock p s = .ok ((), s.enter p.index) := rfl

theorem newBlock_run (name : String) (s : MIRBuilder) (f : Nat) (func : MIRFunction)
    (hf : s.currentFunction = some f) (hfunc : s.functionStore[f]? = some func) :
    newBlock name s = .ok (⟨s.blockStore.length, blockName name s.blockCount⟩,
      s.withBlock f func (blockName name s.blockCount)) := by
  unfold newBlock withBlock blockName
  rw [hf]
  simp only [hfunc]

theorem newTemp_bind (g : String → BuildM β) (s : MIRBuilder) :
    (newTemp >>= g) s = g (tempName s.tempCount) s.bumpTemp :=
  build_bind_ok (newTemp_run s)

theorem setCurrentBlock_bind (p : BlockPtr) (g : Unit → BuildM β) (s : MIRBuilder) :
    (setCurrentBlock p >>= g) s = g () (s.enter p.index) :=
  build_bind_ok (setCurrentBlock_run p s)

theorem emit_bind (inst : MIRInstruction) (g : Unit → BuildM β) (s : MIRBuilder) (k : Nat)
    (hcur : s.currentBlock = some k) (hb : (s.blockStore[k]?).isSome = true) :
    (emit inst >>= g) s = g () (s.appendTo k [inst]) := by
  cases h : s.blockStore[k]? with
  | none => rw [h] at hb; cases hb
  | some b => exact build_bind_ok (emit_run inst s k b hcur h)

theorem newBlock_bind (name : String) (g : BlockPtr → BuildM β) (s : MIRBuilder) (f : Nat)
    (func : MIRFunction) (hf : s.currentFunction = some f)
    (hfunc : s.functionStore[f]? = some func) :
    (newBlock name >>= g) s = g ⟨s.blockStore.length, blockName name s.blockCount⟩
      (s.withBlock f func (blockName name s.blockCount)) :=
  build_bind_ok (newBlock_run name s f func hf hfunc)

theorem emitAllDestructors_bind (g : Unit → BuildM β) (s : MIRBuilder) (k : Nat)
    (hcur : s.currentBlock = some k) (hb : (s.blockStore[k]?).isSome = true) :
    (emitAllDestructors >>= g) s = g () (s.appendTo k (pendingDestructors s)) := by
  cases h : s.blockStore[k]? with
  | none => rw [h] at hb; cases hb
  | some b => exact build_bind_ok (emitAllDestructors_run s k b hcur h)

@[simp] theorem appendTo_currentFunction (s : MIRBuilder) (k : Nat) (l : List MIRInstruction) :
    (s.appendTo k l).currentFunction = s.currentFunction := by
  unfold appendTo
  cases s.blockStore[k]? <;> rfl

@[simp] theorem appendTo_functionStore (s : MIRBuilder) (k : Nat) (l : List MIRInstruction) :
    (s.appendTo k l).functionStore = s.functionStore := by
  unfold appendTo
  cases s.blockStore[k]? <;> rfl

@[simp] theorem appendTo_tempCount (s : MIRBuilder) (k : Nat) (l : List MIRInstruction) :
    (s.appendTo k l).tempCount = s.tempCount := by
  unfold appendTo
  cases s.blockStore[k]? <;> rfl

@[simp] theorem appendTo_blockCount (s : MIRBuilder) (k : Nat) (l : List MIRInstruction) :
    (s.appendTo k l).blockCount = s.blockCount := by
  unfold appendTo
  cases s.blockStore[k]? <;> rfl

@[simp] theorem appendTo_length (s : MIRBuilder) (k : Nat) (l : List MIRInstruction) :
    (s.appendTo k l).blockStore.length = s.blockStore.length := by
  unfold appendTo
  cases s.blockStore[k]? with
  | none => rfl
  | some b => exact List.length_set _ _ _

theorem appendTo_get (s : MIRBuilder) (k j : Nat) (l : List MIRInstruction) :
    (s.appendTo k l).blockStore[j]?
      = if k = j then (s.blockStore[k]?).map (appended l) else s.blockStore[j]? := by
  by_cases h : k = j
  · subst h
    rw [if_pos rfl]
    cases hb : s.blockStore[k]? with
    | none => rw [appendTo_none s k l hb, hb]; rfl
    | some b => rw [appendTo_blockStore_get s k l b hb]; rfl
  · rw [if_neg h]
    unfold appendTo
    cases s.blockStore[k]? with
    | none => rfl
    | some b =>
      show (s.blockStore.set k _)[j]? = _
      rw [List.getElem?_set]
      simp [h]

@[simp] theorem withBlock_length (s : MIRBuilder) (f : Nat) (func : MIRFunction) (name : String) :
    (s.withBlock f func name).blockStore.length = s.blockStore.length + 1 := by
  show (s.blockStore ++ _).length = _
  simp

theorem withBlock_get (s : MIRBuilder) (f : Nat) (func : MIRFunction) (name : String) (j : Nat) :
    (s.withBlock f func name).blockStore[j]?
      = if j < s.blockStore.length then s.blockStore[j]?
        else if j = s.blockStore.length then some ⟨name, []⟩ else none := by
  show (s.blockStore ++ [_])[j]? = _
  by_cases h : j < s.blockStore.length
  · rw [if_pos h]
    exact List.getElem?_append_left h
  · rw [if_neg h]
    by_cases h2 : j = s.blockStore.length
    · subst h2
      simp
    · rw [if_neg h2]
      apply List.getElem?_eq_none
      simp
      omega

@[simp] theorem withBlock_currentBlock (s : MIRBuilder) (f : Nat) (func : MIRFunction)
    (name : String) : (s.withBlock f func name).currentBlock = s.currentBlock := rfl

@[simp] theorem withBlock_currentFunction (s : MIRBuilder) (f : Nat) (func : MIRFunction)
    (name : String) : (s.withBlock f func name).currentFunction = s.currentFunction := rfl

@[simp] theorem withBlock_tempCount (s : MIRBuilder) (f : Nat) (func : MIRFunction)
    (name : String) : (s.withBlock f func name).tempCount = s.tempCount := rfl

@[simp] theorem withBlock_blockCount (s : MIRBuilder) (f : Nat) (func : MIRFunction)
    (name : String) : (s.withBlock f func name).blockCount = s.blockCount + 1 := rfl

@[simp] theorem withBlock_structTypes (s : MIRBuilder) (f : Nat) (func : MIRFunction)
    (name : String) : (s.withBlock f func name).structTypes = s.structTypes := rfl

@[simp] theorem withBlock_varMap (s : MIRBuilder) (f : Nat) (func : MIRFunction)
    (name : String) : (s.withBlock f func name).varMap = s.varMap := rfl

@[simp] theorem withBlock_scopeStack (s : MIRBuilder) (f : Nat) (func : MIRFunction)
    (name : String) : (s.withBlock f func name).scopeStack = s.scopeStack := rfl

theorem withBlock_function (s : MIRBuilder) (f : Nat) (func : MIRFunction) (name : String)
    (hfunc : (s.functionStore[f]?).isSome = true) :
    (s.withBlock f func name).functionStore[f]?
      = some { func with blocks := func.blocks ++ [s.blockStore.length] } := by
  show (s.functionStore.set f _)[f]? = _
  rw [List.getElem?_set]
  cases h : s.functionStore[f]? with
  | none => rw [h] at hfunc; cases hfunc
  | some a => simp [getElem?_lt_length h]

@[simp] theorem bumpTemp_blockStore (s : MIRBuilder) : s.bumpTemp.blockStore = s.blockStore := rfl
@[simp] theorem bumpTemp_functionStore (s : MIRBuilder) :
    s.bumpTemp.functionStore = s.functionStore := rfl
@[simp] theorem bumpTemp_currentFunction (s : MIRBuilder) :
    s.bumpTemp.currentFunction = s.currentFunction := rfl
@[simp] theorem bumpTemp_currentBlock (s : MIRBuilder) :
    s.bumpTemp.currentBlock = s.currentBlock := rfl
@[simp] theorem bumpTemp_tempCount (s : MIRBuilder) : s.bumpTemp.tempCount = s.tempCount + 1 := rfl
@[simp] theorem bumpTemp_blockCount (s : MIRBuilder) : s.bumpTemp.blockCount = s.blockCount := rfl
@[simp] theorem bumpTemp_structTypes (s : MIRBuilder) : s.bumpTemp.structTypes = s.structTypes := rfl
@[simp] theorem bumpTemp_varMap (s : MIRBuilder) : s.bumpTemp.varMap = s.varMap := rfl
@[simp] theorem bumpTemp_scopeStack (s : MIRBuilder) : s.bumpTemp.scopeStack = s.scopeStack := rfl

@[simp] theorem enter_blockStore (s : MIRBuilder) (k : Nat) :
    (s.enter k).blockStore = s.blockStore := rfl
@[simp] theorem enter_functionStore (s : MIRBuilder) (k : Nat) :
    (s.enter k).functionStore = s.functionStore := rfl
@[simp] theorem enter_currentFunction (s : MIRBuilder) (k : Nat) :
    (s.enter k).currentFunction = s.currentFunction := rfl
@[simp] theorem enter_currentBlock (s : MIRBuilder) (k : Nat) :
    (s.enter k).currentBlock = some k := rfl
@[simp] theorem enter_tempCount (s : MIRBuilder) (k : Nat) :
    (s.enter k).tempCount = s.tempCount := rfl
@[simp] theorem enter_blockCount (s : MIRBuilder) (k : Nat) :
    (s.enter k).blockCount = s.blockCount := rfl
@[simp] theorem enter_structTypes (s : MIRBuilder) (k : Nat) :
    (s.enter k).structTypes = s.structTypes := rfl
@[simp] theorem enter_varMap (s : MIRBuilder) (k : Nat) : (s.enter k).varMap = s.varMap := rfl
@[simp] theorem enter_scopeStack (s : MIRBuilder) (k : Nat) :
    (s.enter k).scopeStack = s.scopeStack := rfl

@[simp] theorem appendTo_currentBlock_simp (s : MIRBuilder) (k : Nat) (l : List MIRInstruction) :
    (s.appendTo k l).currentBlock = s.currentBlock := appendTo_currentBlock s k l

@[simp] theorem withBlock_functionStore_get (s : MIRBuilder) (f : Nat) (func : MIRFunction)
    (name : String) (j : Nat) :
    (s.withBlock f func name).functionStore[j]?
      = if f = j then
          (if f < s.functionStore.length then
            some { func with blocks := func.blocks ++ [s.blockStore.length] } else none)
        else s.functionStore[j]? := by
  show (s.functionStore.set f _)[j]? = _
  rw [List.getElem?_set]

@[simp] theorem withBlock_functionStore_length (s : MIRBuilder) (f : Nat) (func : MIRFunction)
    (name : String) :
    (s.withBlock f func name).functionStore.length = s.functionStore.length := by
  show (s.functionStore.set f _).length = _
  exact List.length_set _ _ _

theorem appendTo_get_same (s : MIRBuilder) (k : Nat) (l : List MIRInstruction) :
    (s.appendTo k l).blockStore[k]? = (s.blockStore[k]?).map (appended l) := by
  rw [appendTo_get, if_pos rfl]

theorem appendTo_get_ne (s : MIRBuilder) (k j : Nat) (l : List MIRInstruction) (h : k ≠ j) :
    (s.appendTo k l).blockStore[j]? = s.blockStore[j]? := by
  rw [appendTo_get, if_neg h]

theorem withBlock_get_lt (s : MIRBuilder) (f : Nat) (func : MIRFunction) (name : String)
    (j : Nat) (h : j < s.blockStore.length) :
    (s.withBlock f func name).blockStore[j]? = s.blockStore[j]? := by
  rw [withBlock_get, if_pos h]

theorem withBlock_get_len (s : MIRBuilder) (f : Nat) (func : MIRFunction) (name : String)
    (j : Nat) (h : j = s.blockStore.length) :
    (s.withBlock f func name).blockStore[j]? = some ⟨name, []⟩ := by
  rw [withBlock_get, if_neg (by omega), if_pos h]

end MIRBuilder

/-! ## The question operator -/

namespace MIRBuilder

theorem pendingDestructors_congr (s s1 : MIRBuilder) (h1 : s.structTypes = s1.structTypes)
    (h2 : s.varMap = s1.varMap) (h3 : s.scopeStack = s1.scopeStack) :
    pendingDestructors s = pendingDestructors s1 := by
  unfold pendingDestructors
  rw [h1, h2, h3]

theorem getBlocks_three (s2 : MIRBuilder) (func : MIRFunction) (bs : List Nat) (n : Nat)
    (x y z : BasicBlock) (h0 : s2.blockStore[n]? = some x) (h1 : s2.blockStore[n + 1]? = some y)
    (h2 : s2.blockStore[n + 2]? = some z) :
    3 ≤ (s2.getBlocks { func with blocks := bs ++ [n, n + 1, n + 2] }).length := by
  unfold getBlocks
  simp only [List.filterMap_append, List.length_append]
  have : List.filterMap (fun b => s2.blockStore[b]?) [n, n + 1, n + 2] = [x, y, z] := by
    simp [List.filterMap_cons, h0, h1, h2]
  rw [this]
  simp

theorem appended_appended (l1 l2 : List MIRInstruction) (b : BasicBlock) :
    appended l2 (appended l1 b) = appended (l1 ++ l2) b := by
  simp [appended, List.append_assoc]

end MIRBuilder

/-- C10.  Let the operand of `e?` have an enum type whose variant 0 has a first tuple
field (as the monomorphized `Result` has), and let its lowering return the value `resVal`
with a current block `c` in a current function.  Then `lowerQuestionExpr` succeeds.  To
the block `c` it appends: a fresh slot, the store of `resVal` in the slot, the read of the
variant tag of the slot, the constant 0, the comparison `tag != 0` and a conditional branch
on it to the error block, else to the ok block.  It adds three blocks to the function, in
this order: the ok block, which extracts field 0 of variant 0 of the slot and branches to
the merge block; the error block, which holds calls only (the pending destructors) and
then the return of `resVal`; and the merge block, which is empty and current.  The value
of the expression is the extracted field, and the function has at least three blocks. -/
theorem question_lowers_to_ok_err_merge (operand : BuildM String) (enumTy okType : Ty)
    (s s1 : MIRBuilder) (resVal : String) (c f : Nat) (b : BasicBlock) (func : MIRFunction)
    (hop : operand s = .ok (resVal, s1))
    (henum : enumTy.isEnum = true) (hok : MIRBuilder.okTypeOf (some enumTy) = some okType)
    (hcur : s1.currentBlock = some c) (hb : s1.blockStore[c]? = some b)
    (hf : s1.currentFunction = some f) (hfunc : s1.functionStore[f]? = some func) :
    ∃ s2, MIRBuilder.lowerQuestionExpr (some enumTy) operand s
        = .ok (tempName (s1.tempCount + 4), s2)
      ∧ s2.blockStore[c]? = some (appended
          [.Alloca (tempName s1.tempCount) (some enumTy),
           .Store resVal (tempName s1.tempCount),
           .VariantTag (tempName (s1.tempCount + 1)) (tempName s1.tempCount),
           .ConstInt (tempName (s1.tempCount + 3)) 0,
           .BinOp (tempName (s1.tempCount + 2)) (tempName (s1.tempCount + 1))
             (tempName (s1.tempCount + 3)) .NotEqual,
           .CondBr (tempName (s1.tempCount + 2)) (blockName "q.err" (s1.blockCount + 1))
             (blockName "q.ok" s1.blockCount)] b)
      ∧ s2.blockStore[s1.blockStore.length]? = some ⟨blockName "q.ok" s1.blockCount,
          [.VariantExtract (tempName (s1.tempCount + 4)) (tempName s1.tempCount) 0 0
             (some okType),
           .Br (blockName "q.merge" (s1.blockCount + 2))]⟩
      ∧ s2.blockStore[s1.blockStore.length + 1]? = some ⟨blockName "q.err" (s1.blockCount + 1),
          MIRBuilder.pendingDestructors s1 ++ [.Ret resVal]⟩
      ∧ (∀ i ∈ MIRBuilder.pendingDestructors s1, i.isCall = true)
      ∧ s2.blockStore[s1.blockStore.length + 2]?
          = some ⟨blockName "q.merge" (s1.blockCount + 2), []⟩
      ∧ s2.currentBlock = some (s1.blockStore.length + 2)
      ∧ s2.functionStore[f]? = some { func with blocks := func.blocks ++
          [s1.blockStore.length, s1.blockStore.length + 1, s1.blockStore.length + 2] }
      ∧ 3 ≤ (s2.getBlocks { func with blocks := func.blocks ++
          [s1.blockStore.length, s1.blockStore.length + 1, s1.blockStore.length + 2] }).length := by
  open MIRBuilder in
  have hc : c < s1.blockStore.length := getElem?_lt_length hb
  have henumf : (some enumTy).filter Ty.isEnum = some enumTy := by
    simp [Option.filter, henum]
  unfold lowerQuestionExpr
  rw [build_bind_ok hop, henumf]
  have hfl : f < s1.functionStore.length := getElem?_lt_length hfunc
  have hc1 : c < s1.blockStore.length + 1 := by omega
  have hc2 : c < s1.blockStore.length + 1 + 1 := by omega
  have hn0 : c ≠ s1.blockStore.length := by omega
  have hn1 : c ≠ s1.blockStore.length + 1 := by omega
  have hn2 : c ≠ s1.blockStore.length + 1 + 1 := by omega
  have hm1 : s1.blockStore.length + 1 ≠ s1.blockStore.length := by omega
  have hm2 : s1.blockStore.length ≠ s1.blockStore.length + 1 := by omega
  have hm3 : s1.blockStore.length < s1.blockStore.length + 1 + 1 := by omega
  have hm4 : s1.blockStore.length ≠ s1.blockStore.length + 2 := by omega
  have hm5 : s1.blockStore.length + 1 ≠ s1.blockStore.length + 2 := by omega
  have hn3 : c ≠ s1.blockStore.length + 2 := by omega
  rw [newTemp_bind]
  rw [emit_bind _ _ _ c]
  rotate_left
  · simp [hcur]
  · simp [hb, appendTo_get_same]
  rw [emit_bind _ _ _ c]
  rotate_left
  · simp [hcur]
  · simp [hb, appendTo_get_same]
  rw [newTemp_bind]
  rw [emit_bind _ _ _ c]
  rotate_left
  · simp [hcur]
  · simp [hb, appendTo_get_same]
  rw [newBlock_bind _ _ _ f func]
  rotate_left
  · simp [hf]
  · simp [hfunc]
  rw [newBlock_bind _ _ _ f { func with blocks := func.blocks ++ [s1.blockStore.length] }]
  rotate_left
  · simp [hf]
  · rw [withBlock_functionStore_get, if_pos rfl, if_pos (by simp [hfl])]
    simp
  rw [newBlock_bind _ _ _ f { func with blocks := func.blocks ++
      [s1.blockStore.length, s1.blockStore.length + 1] }]
  rotate_left
  · simp [hf]
  · rw [withBlock_functionStore_get, if_pos rfl, if_pos (by simp [hfl])]
    simp
  rw [newTemp_bind, newTemp_bind]
  rw [emit_bind _ _ _ c]
  rotate_left
  · simp [hcur]
  · simp [hb, appendTo_get_same, appendTo_get_ne, withBlock_get_lt, withBlock_get_len, hc, hc1,
      hc2, hn0, hn1, hn2, hm1, hm2, hm3]
  rw [emit_bind _ _ _ c]
  rotate_left
  · simp [hcur]
  · simp [hb, appendTo_get_same, appendTo_get_ne, withBlock_get_lt, withBlock_get_len, hc, hc1,
      hc2, hn0, hn1, hn2, hm1, hm2, hm3]
  rw [emit_bind _ _ _ c]
  rotate_left
  · simp [hcur]
  · simp [hb, appendTo_get_same, appendTo_get_ne, withBlock_get_lt, withBlock_get_len, hc, hc1,
      hc2, hn0, hn1, hn2, hm1, hm2, hm3]
  rw [setCurrentBlock_bind]
  rw [emitAllDestructors_bind _ _ (s1.blockStore.length + 1)]
  rotate_left
  · simp
  · simp [hb, appendTo_get_same, appendTo_get_ne, withBlock_get_lt, withBlock_get_len, hc, hc1,
      hc2, hn0, hn1, hn2, hm1, hm2, hm3]
  rw [emit_bind _ _ _ (s1.blockStore.length + 1)]
  rotate_left
  · simp
  · simp [hb, appendTo_get_same, appendTo_get_ne, withBlock_get_lt, withBlock_get_len, hc, hc1,
      hc2, hn0, hn1, hn2, hm1, hm2, hm3]
  rw [setCurrentBlock_bind, newTemp_bind, hok]
  show ∃ s2, (emit _ >>= _) _ = _ ∧ _
  rw [emit_bind _ _ _ s1.blockStore.length]
  rotate_left
  · simp
  · simp [hb, appendTo_get_same, appendTo_get_ne, withBlock_get_lt, withBlock_get_len, hc, hc1,
      hc2, hn0, hn1, hn2, hm1, hm2, hm3]
  rw [emit_bind _ _ _ s1.blockStore.length]
  rotate_left
  · simp
  · simp [hb, appendTo_get_same, appendTo_get_ne, withBlock_get_lt, withBlock_get_len, hc, hc1,
      hc2, hn0, hn1, hn2, hm1, hm2, hm3]
  rw [setCurrentBlock_bind]
  simp only [appendTo_tempCount, bumpTemp_tempCount, withBlock_tempCount, enter_tempCount,
    appendTo_length, withBlock_length, bumpTemp_blockStore, enter_blockStore,
    appendTo_blockCount, withBlock_blockCount, bumpTemp_blockCount, enter_blockCount]
  refine ⟨_, rfl, ?c, ?ok, ?err, pendingDestructors_isCall s1, ?merge, ?cur, ?fn,
    getBlocks_three _ _ _ _ _ _ _ ?ok ?err ?merge⟩
  case c =>
    simp only [enter_blockStore, bumpTemp_blockStore, appendTo_get_same, appendTo_get_ne,
      withBlock_get_lt, withBlock_get_len, appendTo_length, withBlock_length, hb, hc, hc1, hc2,
      hn0, hn1, hn2, hn3, hm1, hm2, hm3, hm4, hm5, hn0.symm, hn1.symm, hn2.symm, hn3.symm,
      hm1.symm, hm2.symm, hm4.symm, hm5.symm, Option.map_some', appended_appended,
      List.cons_append, List.nil_append, ne_eq, not_false_eq_true, Nat.lt_add_one]
  case ok =>
    simp only [enter_blockStore, bumpTemp_blockStore, appendTo_get_same, appendTo_get_ne,
      withBlock_get_lt, withBlock_get_len, appendTo_length, withBlock_length, hb, hc, hc1, hc2,
      hn0, hn1, hn2, hn3, hm1, hm2, hm3, hm4, hm5, hn0.symm, hn1.symm, hn2.symm, hn3.symm,
      hm1.symm, hm2.symm, hm4.symm, hm5.symm, Option.map_some', appended_appended,
      List.cons_append, List.nil_append, ne_eq, not_false_eq_true, Nat.lt_add_one]
    rfl
  case err =>
    rw [pendingDestructors_congr _ s1 (by simp) (by simp) (by simp)]
    simp only [enter_blockStore, bumpTemp_blockStore, appendTo_get_same, appendTo_get_ne,
      withBlock_get_lt, withBlock_get_len, appendTo_length, withBlock_length, hb, hc, hc1, hc2,
      hn0, hn1, hn2, hn3, hm1, hm2, hm3, hm4, hm5, hn0.symm, hn1.symm, hn2.symm, hn3.symm,
      hm1.symm, hm2.symm, hm4.symm, hm5.symm, Option.map_some', appended_appended,
      List.cons_append, List.nil_append, ne_eq, not_false_eq_true, Nat.lt_add_one]
    rfl
  case merge =>
    simp only [enter_blockStore, bumpTemp_blockStore, appendTo_get_same, appendTo_get_ne,
      withBlock_get_lt, withBlock_get_len, appendTo_length, withBlock_length, hb, hc, hc1, hc2,
      hn0, hn1, hn2, hn3, hm1, hm2, hm3, hm4, hm5, hn0.symm, hn1.symm, hn2.symm, hn3.symm,
      hm1.symm, hm2.symm, hm4.symm, hm5.symm, Option.map_some', appended_appended,
      List.cons_append, List.nil_append, ne_eq, not_false_eq_true, Nat.lt_add_one]
  case cur => simp
  case fn =>
    simp only [enter_functionStore, bumpTemp_functionStore, appendTo_functionStore]
    rw [withBlock_functionStore_get, if_pos rfl, if_pos (by simp [hfl])]
    simp

/-- The lowering of `g()?` at the start of `fn f(): Result[i32, bool]`: the value is
`%t5`, the merge block is current, and the blocks `q.ok.1`, `q.err.2` and `q.merge.3`
follow the entry block. -/
theorem question_witness :
    ∃ s2, MIRBuilder.lowerQuestionExpr (some resultI32Bool) (MIRBuilder.lowerExpr callG)
        inFunctionF = .ok ("%t5", s2)
      ∧ s2.blockStore[1]? = some ⟨"q.ok.1",
          [.VariantExtract "%t5" "%t1" 0 0 (some Ty.i32), .Br "q.merge.3"]⟩
      ∧ s2.blockStore[2]? = some ⟨"q.err.2", [.Ret "%t0"]⟩
      ∧ s2.blockStore[3]? = some ⟨"q.merge.3", []⟩
      ∧ s2.currentBlock = some 3 :=
  let ⟨s2, h, _, hok, herr, _, hmerge, hcur, _, _⟩ :=
    question_lowers_to_ok_err_merge (MIRBuilder.lowerExpr callG) resultI32Bool Ty.i32
      inFunctionF afterCallG "%t0" 0 0 ⟨"entry.0", [.Call "%t0" "g" []]⟩
      { name := "f", returnType := resultI32Bool, blocks := [0] } rfl rfl rfl rfl rfl rfl rfl
  ⟨s2, h, hok, herr, hmerge, hcur⟩

/-! ## `popScope` -/

namespace MIRBuilder

theorem lookup_stdMapSet {α : Type} (k k1 : String) (v : α) (m : List (String × α)) :
    (stdMapSet k1 v m).lookup k = if k = k1 then some v else m.lookup k := by
  induction m with
  | nil =>
    show List.lookup k [(k1, v)] = _
    rw [lookup_cons_eq]
  | cons p rest ih =>
    obtain ⟨k2, v2⟩ := p
    simp only [stdMapSet]
    by_cases hlt : charsLt k1.data k2.data = true
    · simp only [hlt, if_true, lookup_cons_eq]
    · simp only [hlt, Bool.false_eq_true, if_false]
      by_cases h21 : k2 = k1
      · subst h21
        simp only [if_true, lookup_cons_eq]
        split_ifs <;> rfl
      · simp only [h21, if_false, lookup_cons_eq, ih]
        by_cases hk2 : k = k2
        · subst hk2
          simp [h21]
        · simp [hk2]

theorem lookup_stdMapErase {α : Type} (k k1 : String) (m : List (String × α)) :
    (stdMapErase k1 m).lookup k = if k = k1 then none else m.lookup k := by
  induction m with
  | nil =>
    show List.lookup k [] = _
    simp
  | cons p rest ih =>
    obtain ⟨k2, v2⟩ := p
    unfold stdMapErase at ih ⊢
    by_cases h21 : k2 = k1
    · subst h21
      have : List.filter (fun p : String × α => p.1 != k2) ((k2, v2) :: rest)
          = List.filter (fun p : String × α => p.1 != k2) rest := by
        simp [List.filter_cons]
      rw [this, ih, lookup_cons_eq]
      split_ifs <;> rfl
    · have : List.filter (fun p : String × α => p.1 != k1) ((k2, v2) :: rest)
          = (k2, v2) :: List.filter (fun p : String × α => p.1 != k1) rest := by
        simp [List.filter_cons, h21]
      rw [this, lookup_cons_eq, lookup_cons_eq, ih]
      by_cases hk2 : k = k2
      · subst hk2
        simp [h21]
      · simp [hk2]

theorem stdMapIndex_fst (k : String) (m : List (String × String)) :
    (stdMapIndex k m).1 = (m.lookup k).getD "" := by
  unfold stdMapIndex
  cases m.lookup k <;> rfl

theorem lookup_stdMapIndex (k j : String) (m : List (String × String)) (h : j ≠ k) :
    (stdMapIndex k m).2.lookup j = m.lookup j := by
  unfold stdMapIndex
  cases m.lookup k with
  | some v => rfl
  | none =>
    show (stdMapSet k "" m).lookup j = _
    rw [lookup_stdMapSet, if_neg h]

theorem varMapIndex_run (k : String) (s : MIRBuilder) :
    varMapIndex k s
      = .ok ((s.varMap.lookup k).getD "", s.withVarMap (stdMapIndex k s.varMap).2) := by
  unfold varMapIndex
  rw [stdMapIndex_fst]
  rfl

theorem withVarMap_appendTo (s : MIRBuilder) (m : List (String × String)) (k : Nat)
    (l : List MIRInstruction) :
    (s.withVarMap m).appendTo k l = (s.appendTo k l).withVarMap m := by
  unfold appendTo withVarMap
  show (match s.blockStore[k]? with | some b => _ | none => _) = _
  cases s.blockStore[k]? <;> rfl

theorem quiet_refl (s : MIRBuilder) : Quiet s s := ⟨rfl, rfl, rfl⟩

theorem quiet_trans {s s1 s2 : MIRBuilder} (h1 : Quiet s s1) (h2 : Quiet s1 s2) : Quiet s s2 :=
  ⟨h2.blockStore.trans h1.blockStore, h2.currentBlock.trans h1.currentBlock,
    h2.structTypes.trans h1.structTypes⟩

/-- The call that `popScope` emits for a variable, if any. -/
theorem destroyVariable_run (v : LocalVar) (s : MIRBuilder) (k : Nat) (b : BasicBlock)
    (hcur : s.currentBlock = some k) (hb : s.blockStore[k]? = some b) :
    ∃ s1, destroyVariable v s = .ok ((), s1)
      ∧ Quiet (s.appendTo k (if needsDestructor s.structTypes v.type then
          [destructorCall v ((s.varMap.lookup v.name).getD "")] else [])) s1
      ∧ s1.scopeStack = s.scopeStack
      ∧ ∀ j, j ≠ v.name → s1.varMap.lookup j = s.varMap.lookup j := by
  unfold destroyVariable
  rw [build_bind_ok (build_get s)]
  cases hneed : needsDestructor s.structTypes v.type with
  | false =>
    refine ⟨s, rfl, ?_, rfl, fun _ _ => rfl⟩
    simp only [Bool.false_eq_true, if_false]
    rw [appendTo_nil]
    exact quiet_refl s
  | true =>
    simp only [if_true]
    rw [build_bind_ok (varMapIndex_run v.name s)]
    rw [emit_run _ (s.withVarMap (stdMapIndex v.name s.varMap).2) k b hcur hb]
    refine ⟨_, rfl, ?_, ?_, ?_⟩
    · rw [withVarMap_appendTo]
      exact ⟨rfl, rfl, rfl⟩
    · rw [withVarMap_appendTo]
      show (s.appendTo k _).scopeStack = _
      simp
    · intro j hj
      rw [withVarMap_appendTo]
      show (stdMapIndex v.name s.varMap).2.lookup j = _
      exact lookup_stdMapIndex _ _ _ hj

theorem forgetVariable_run (shadowed : List ShadowedVar) (v : LocalVar) (s : MIRBuilder) :
    ∃ s1, forgetVariable shadowed v s = .ok ((), s1) ∧ Quiet s s1
      ∧ s1.scopeStack = s.scopeStack
      ∧ ∀ j, j ≠ v.name → s1.varMap.lookup j = s.varMap.lookup j := by
  unfold forgetVariable
  cases hany : (shadowed.any fun sh => sh.name == v.name) with
  | true => exact ⟨s, rfl, quiet_refl s, rfl, fun _ _ => rfl⟩
  | false =>
    simp only [Bool.false_eq_true, if_false]
    rw [build_bind_ok (varMapIndex_run v.name s)]
    refine ⟨_, rfl, ⟨rfl, rfl, rfl⟩, rfl, ?_⟩
    intro j hj
    show (stdMapErase v.name (stdMapIndex v.name s.varMap).2).lookup j = _
    rw [lookup_stdMapErase, if_neg hj, lookup_stdMapIndex _ _ _ hj]

end MIRBuilder

namespace MIRBuilder

theorem appendTo_blockStore_congr (s s' : MIRBuilder) (k : Nat) (l : List MIRInstruction)
    (h : s'.blockStore = s.blockStore) :
    (s'.appendTo k l).blockStore = (s.appendTo k l).blockStore := by
  unfold appendTo
  rw [h]
  cases s.blockStore[k]? with
  | none => exact h
  | some b => rfl

theorem quiet_appendTo {s s' : MIRBuilder} (h : Quiet s s') (k : Nat) (l : List MIRInstruction) :
    Quiet (s.appendTo k l) (s'.appendTo k l) :=
  ⟨appendTo_blockStore_congr s s' k l h.blockStore,
    by rw [appendTo_currentBlock, appendTo_currentBlock]; exact h.currentBlock,
    by rw [appendTo_structTypes, appendTo_structTypes]; exact h.structTypes⟩

theorem popVariable_run (shadowed : List ShadowedVar) (v : LocalVar) (s : MIRBuilder) (k : Nat)
    (b : BasicBlock) (hcur : s.currentBlock = some k) (hb : s.blockStore[k]? = some b) :
    ∃ s2, popVariable shadowed v s = .ok ((), s2)
      ∧ Quiet (s.appendTo k (if needsDestructor s.structTypes v.type then
          [destructorCall v ((s.varMap.lookup v.name).getD "")] else [])) s2
      ∧ s2.scopeStack = s.scopeStack
      ∧ ∀ j, j ≠ v.name → s2.varMap.lookup j = s.varMap.lookup j := by
  obtain ⟨s1, h1, q1, sc1, l1⟩ := destroyVariable_run v s k b hcur hb
  obtain ⟨s2, h2, q2, sc2, l2⟩ := forgetVariable_run shadowed v s1
  refine ⟨s2, ?_, quiet_trans q1 q2, sc2.trans sc1, fun j hj => (l2 j hj).trans (l1 j hj)⟩
  unfold popVariable
  rw [build_bind_ok h1]
  exact h2

theorem popVariables_run (shadowed : List ShadowedVar) (vars : List LocalVar) :
    ∀ (s : MIRBuilder) (k : Nat) (b : BasicBlock), s.currentBlock = some k →
      s.blockStore[k]? = some b →
      ∃ slots s', forEach (popVariable shadowed) vars s = .ok ((), s')
        ∧ slots.length = (vars.filter fun v => needsDestructor s.structTypes v.type).length
        ∧ Quiet (s.appendTo k (List.zipWith destructorCall
            (vars.filter fun v => needsDestructor s.structTypes v.type) slots)) s'
        ∧ s'.scopeStack = s.scopeStack
        ∧ (∀ j, j ∉ vars.map (fun v => v.name) → s'.varMap.lookup j = s.varMap.lookup j)
        ∧ ((vars.map fun v => v.name).Nodup →
            slots = (vars.filter fun v => needsDestructor s.structTypes v.type).map
              fun v => (s.varMap.lookup v.name).getD "") := by
  induction vars with
  | nil =>
    intro s k b _ _
    refine ⟨[], s, rfl, rfl, ?_, rfl, fun _ _ => rfl, fun _ => rfl⟩
    show Quiet (s.appendTo k []) s
    rw [appendTo_nil]
    exact quiet_refl s
  | cons v rest ih =>
    intro s k b hcur hb
    obtain ⟨s2, h2, q2, sc2, l2⟩ := popVariable_run shadowed v s k b hcur hb
    have hcur2 : s2.currentBlock = some k := by
      rw [q2.currentBlock, appendTo_currentBlock]
      exact hcur
    have hb2 : s2.blockStore[k]? = some (appended (if needsDestructor s.structTypes v.type then
        [destructorCall v ((s.varMap.lookup v.name).getD "")] else []) b) := by
      rw [q2.blockStore, appendTo_get_same, hb]
      rfl
    have hst : s2.structTypes = s.structTypes := by
      rw [q2.structTypes, appendTo_structTypes]
    obtain ⟨slots, s', h', hlen, q', sc', l', hnd⟩ := ih s2 k _ hcur2 hb2
    rw [hst] at hlen q' hnd
    have hrun : forEach (popVariable shadowed) (v :: rest) s = .ok ((), s') := by
      unfold forEach
      rw [build_bind_ok h2]
      exact h'
    have hq : Quiet ((s.appendTo k (if needsDestructor s.structTypes v.type then
        [destructorCall v ((s.varMap.lookup v.name).getD "")] else [])).appendTo k
          (List.zipWith destructorCall
            (rest.filter fun v => needsDestructor s.structTypes v.type) slots)) s' :=
      quiet_trans (quiet_appendTo q2 k _) q'
    rw [appendTo_appendTo] at hq
    have hframe : ∀ j, j ∉ (v :: rest).map (fun v => v.name) →
        s'.varMap.lookup j = s.varMap.lookup j := by
      intro j hj
      rw [List.map_cons, List.mem_cons, not_or] at hj
      exact (l' j hj.2).trans (l2 j hj.1)
    cases hneed : needsDestructor s.structTypes v.type with
    | false =>
      refine ⟨slots, s', hrun, ?_, ?_, sc'.trans sc2, hframe, ?_⟩
      · rw [List.filter_cons, hneed]
        exact hlen
      · rw [List.filter_cons, hneed]
        simp only [hneed, Bool.false_eq_true, if_false, List.nil_append] at hq
        exact hq
      · intro hnodup
        rw [List.map_cons, List.nodup_cons] at hnodup
        rw [List.filter_cons, hneed]
        simp only [Bool.false_eq_true, if_false]
        rw [hnd hnodup.2]
        apply List.map_congr_left
        intro w hw
        have hwr : w ∈ rest := (List.mem_filter.mp hw).1
        have hne : w.name ≠ v.name := by
          intro heq
          exact hnodup.1 (heq ▸ List.mem_map_of_mem (fun v => v.name) hwr)
        rw [l2 _ hne]
    | true =>
      refine ⟨(s.varMap.lookup v.name).getD "" :: slots, s', hrun, ?_, ?_, sc'.trans sc2,
        hframe, ?_⟩
      · rw [List.filter_cons, hneed]
        simp only [if_true, List.length_cons]
        rw [hlen]
      · rw [List.filter_cons, hneed]
        simp only [hneed, if_true, List.singleton_append] at hq
        exact hq
      · intro hnodup
        rw [List.map_cons, List.nodup_cons] at hnodup
        rw [List.filter_cons, hneed]
        simp only [if_true, List.map_cons]
        congr 1
        rw [hnd hnodup.2]
        apply List.map_congr_left
        intro w hw
        have hwr : w ∈ rest := (List.mem_filter.mp hw).1
        have hne : w.name ≠ v.name := by
          intro heq
          exact hnodup.1 (heq ▸ List.mem_map_of_mem (fun v => v.name) hwr)
        rw [l2 _ hne]

theorem restoreShadowed_run (sh : ShadowedVar) (s : MIRBuilder) :
    ∃ s1, restoreShadowed sh s = .ok ((), s1) ∧ Quiet s s1 ∧ s1.scopeStack = s.scopeStack := by
  unfold restoreShadowed
  cases hEmpty : sh.oldPtrType.isEmpty with
  | true => exact ⟨_, rfl, ⟨rfl, rfl, rfl⟩, rfl⟩
  | false => exact ⟨_, rfl, ⟨rfl, rfl, rfl⟩, rfl⟩

theorem restoreAll_run (shadowed : List ShadowedVar) :
    ∀ s : MIRBuilder, ∃ s1, forEach restoreShadowed shadowed s = .ok ((), s1) ∧ Quiet s s1
      ∧ s1.scopeStack = s.scopeStack := by
  induction shadowed with
  | nil => exact fun s => ⟨s, rfl, quiet_refl s, rfl⟩
  | cons sh rest ih =>
    intro s
    obtain ⟨s1, h1, q1, sc1⟩ := restoreShadowed_run sh s
    obtain ⟨s2, h2, q2, sc2⟩ := ih s1
    refine ⟨s2, ?_, quiet_trans q1 q2, sc2.trans sc1⟩
    unfold forEach
    rw [build_bind_ok h1]
    exact h2

theorem popScope_run (s : MIRBuilder) (scope : Scope) (k : Nat) (b : BasicBlock)
    (hscope : s.scopeStack.getLast? = some scope)
    (hcur : s.currentBlock = some k) (hb : s.blockStore[k]? = some b) :
    ∃ slots s', popScope s = .ok ((), s')
      ∧ slots.length = (destroyed s.structTypes scope).length
      ∧ Quiet (s.appendTo k (List.zipWith destructorCall (destroyed s.structTypes scope) slots)) s'
      ∧ s'.scopeStack = s.scopeStack.dropLast
      ∧ ((scope.vars.map fun v => v.name).Nodup →
          slots = (destroyed s.structTypes scope).map
            fun v => (s.varMap.lookup v.name).getD "") := by
  obtain ⟨slots, s1, h1, hlen, q1, sc1, _, hnd⟩ :=
    popVariables_run scope.shadowed scope.vars.reverse s k b hcur hb
  obtain ⟨s2, h2, q2, sc2⟩ := restoreAll_run scope.shadowed s1
  refine ⟨slots, { s2 with scopeStack := s2.scopeStack.dropLast }, ?_, hlen, ?_, ?_, ?_⟩
  · unfold popScope
    rw [build_bind_ok (build_get s)]
    simp only [hscope]
    rw [build_bind_ok h1, build_bind_ok h2]
    rfl
  · exact quiet_trans q1 (quiet_trans q2 ⟨rfl, rfl, rfl⟩)
  · show s2.scopeStack.dropLast = _
    rw [sc2, sc1]
  · intro hnodup
    apply hnd
    rw [List.map_reverse]
    exact List.nodup_reverse.mpr hnodup

theorem popScope_empty (s : MIRBuilder) (h : s.scopeStack.getLast? = none) :
    popScope s = .ok ((), s) := by
  unfold popScope
  rw [build_bind_ok (build_get s)]
  simp only [h]
  rfl

end MIRBuilder

/-! ## Destructor calls at the end of a scope -/

/-- C11, as the code has it.  `lowerClassDecl` registers a class with the destructor flag
set exactly when the class declares a method named `~C`.  When `popScope` runs with the
scope `scope` at the back of the stack and a current block `k`, it succeeds and appends
to the block `k`, after the instructions that the block holds, one call `C_~C(slot)` for
every variable of the scope whose type is a class registered with a destructor, from the
last declared to the first, and nothing else; the other blocks keep their instructions and
the scope is removed.  When the names of the variables of the scope are distinct, the
slot of a variable is the address that `varMap` binds to its name. -/
theorem popScope_destroys_class_locals (s : MIRBuilder) (scope : MIRBuilder.Scope) (k : Nat)
    (b : BasicBlock) (d : ClassDecl) (fields : List Field) (members : BuildM Unit)
    (s0 : MIRBuilder)
    (hscope : s.scopeStack.getLast? = some scope)
    (hcur : s.currentBlock = some k) (hb : s.blockStore[k]? = some b)
    (hd : MIRBuilder.fieldsOf (MIRBuilder.classVarDecls d.members) = .ok fields) :
    (∃ s1, MIRBuilder.lowerClassDecl d members s0 = members s1
        ∧ (s1.structTypes.lookup d.name).map (fun info => info.hasDestructor)
            = some (MIRBuilder.declaresDestructor d.name d.members))
      ∧ ∃ slots s', MIRBuilder.popScope s = .ok ((), s')
        ∧ slots.length = (MIRBuilder.destroyed s.structTypes scope).length
        ∧ s'.blockStore[k]? = some (appended
            (List.zipWith MIRBuilder.destructorCall (MIRBuilder.destroyed s.structTypes scope)
              slots) b)
        ∧ (∀ j, j ≠ k → s'.blockStore[j]? = s.blockStore[j]?)
        ∧ s'.currentBlock = some k
        ∧ s'.scopeStack = s.scopeStack.dropLast
        ∧ ((scope.vars.map fun v => v.name).Nodup →
            slots = (MIRBuilder.destroyed s.structTypes scope).map
              fun v => (s.varMap.lookup v.name).getD "") := by
  constructor
  · have h1 : ∃ s1, MIRBuilder.lowerClassDecl d members s0 = members s1
        ∧ s1.structTypes = stdMapSet d.name
            { name := d.name, type := some (.struct d.name fields [] false 0)
              fieldNames := (MIRBuilder.classVarDecls d.members).map fun member => member.name
              hasDestructor := MIRBuilder.declaresDestructor d.name d.members } s0.structTypes := by
      unfold MIRBuilder.lowerClassDecl
      rw [hd]
      exact ⟨_, build_bind_ok (build_modify _ s0), rfl⟩
    obtain ⟨s1, h1, h2⟩ := h1
    refine ⟨s1, h1, ?_⟩
    rw [h2, MIRBuilder.lookup_stdMapSet, if_pos rfl]
    rfl
  · obtain ⟨slots, s', h, hlen, q, hsc, hnd⟩ := MIRBuilder.popScope_run s scope k b hscope hcur hb
    refine ⟨slots, s', h, hlen, ?_, ?_, ?_, hsc, hnd⟩
    · rw [q.blockStore, MIRBuilder.appendTo_get_same, hb]
      rfl
    · intro j hj
      rw [q.blockStore, MIRBuilder.appendTo_get_ne _ _ _ _ (Ne.symm hj)]
    · rw [q.currentBlock, MIRBuilder.appendTo_currentBlock]
      exact hcur

/-- The scope of `f2` in `fn main(): void { let f = Foo(); { let f2 = Foo(); } return; }` is
popped: the call `Foo_~Foo(%f2)` is appended to the entry block, and the declaration of
`Foo` is registered with its destructor. -/
theorem popScope_witness :
    (∃ s1, MIRBuilder.lowerClassDecl fooDecl (pure ()) {} = .ok ((), s1)
        ∧ (s1.structTypes.lookup "Foo").map (fun info => info.hasDestructor) = some true)
      ∧ ∃ s', MIRBuilder.popScope beforeInnerPop = .ok ((), s')
        ∧ s'.blockStore[0]? = some ⟨"entry.0", [.Alloca "%f" (some fooType),
            .Alloca "%f2" (some fooType), .Call "" "Foo_~Foo" ["%f2"]]⟩
        ∧ s'.scopeStack = [{ vars := [⟨"f", fooType⟩] }] :=
  let ⟨hclass, slots, s', h, _, hblock, _, _, hsc, hnd⟩ :=
    popScope_destroys_class_locals beforeInnerPop { vars := [⟨"f2", fooType⟩] } 0
      ⟨"entry.0", [.Alloca "%f" (some fooType), .Alloca "%f2" (some fooType)]⟩
      fooDecl [] (pure ()) {} rfl rfl rfl rfl
  ⟨hclass, s', h, by rw [hblock, hnd (by decide)]; rfl, hsc⟩

/-- C11, the claimed order fails.  In
`fn main(): void { let f = Foo(); { let f2 = Foo(); } return; }` the call that destroys `f2`
precedes the call that destroys `f`: both are in the entry block.  In
`fn main(c: bool): void { let f = Foo(); if (c) { if (c) { let f2 = Foo(); } } }` the
variable `f2` is declared in a scope nested in the scope of `f`, and in the instruction
order of the function the call that destroys `f`, in the block `if.merge.2`, precedes the
call that destroys `f2`, in the block `if.then.3`. -/
theorem destructor_order_counterexample :
    loweredText [.classDecl fooDecl, .functionDecl ownershipFunction] = some [
      ("Foo_~Foo", [("entry", ["ret "])]),
      ("main", [
        ("entry.0", ["%t0 = alloca Foo", "%t1 = call Foo_Foo(%t0)", "%t2 = load %t0",
          "%f = alloca Foo", "store %t2, %f", "%t3 = alloca Foo", "%t4 = call Foo_Foo(%t3)",
          "%t5 = load %t3", "%f2 = alloca Foo", "store %t5, %f2", " = call Foo_~Foo(%f2)",
          " = call Foo_~Foo(%f)", "ret "])])]
    ∧ loweredText [.classDecl fooDecl, .functionDecl nestedIfFunction] = some [
      ("Foo_~Foo", [("entry", ["ret "])]),
      ("main", [
        ("entry.0", ["%c.addr = alloca bool", "store %c, %c.addr", "%t0 = alloca Foo",
          "%t1 = call Foo_Foo(%t0)", "%t2 = load %t0", "%f = alloca Foo", "store %t2, %f",
          "%t3 = load %c.addr", "br %t3, if.then.1, if.merge.2"]),
        ("if.then.1", ["%t4 = load %c.addr", "br %t4, if.then.3, if.merge.4"]),
        ("if.merge.2", [" = call Foo_~Foo(%f)", "ret "]),
        ("if.then.3", ["%t5 = alloca Foo", "%t6 = call Foo_Foo(%t5)", "%t7 = load %t5",
          "%f2 = alloca Foo", "store %t7, %f2", " = call Foo_~Foo(%f2)", "br if.merge.4"]),
        ("if.merge.4", ["br if.merge.2"])])] := by
  refine ⟨?_, ?_⟩ <;> decide!

/-! ## Type equality and copy types -/

theorem PrimKind.toKind_injective (k l : PrimKind) : k.toKind = l.toKind ↔ k = l := by
  cases k <;> cases l <;> simp [PrimKind.toKind]

theorem Ty.equalsList_iff (ps qs : List Ty) (hlen : ps.length = qs.length) :
    Ty.equalsList ps qs = true ↔
      ∀ i (hi : i < ps.length) (hj : i < qs.length),
        (ps.get ⟨i, hi⟩).equals (qs.get ⟨i, hj⟩) = true := by
  induction ps generalizing qs with
  | nil =>
    cases qs with
    | nil => simp [Ty.equalsList]
    | cons q qs => simp at hlen
  | cons p ps ih =>
    cases qs with
    | nil => simp at hlen
    | cons q qs =>
      have hl : ps.length = qs.length := by simpa using hlen
      rw [Ty.equalsList]
      constructor
      · intro h i hi hj
        cases hpq : Ty.equals p q with
        | false => simp [hpq] at h
        | true =>
          simp only [hpq, Bool.not_true, Bool.false_eq_true, if_false] at h
          cases i with
          | zero => simpa using hpq
          | succ i =>
            simpa using (ih qs hl).1 h i (by simpa using hi) (by simpa using hj)
      · intro h
        have h0 := h 0 (by simp) (by simp)
        simp only [List.get_eq_getElem, List.getElem_cons_zero] at h0
        simp only [h0, Bool.not_true, Bool.false_eq_true, if_false]
        refine (ih qs hl).2 ?_
        intro i hi hj
        simpa using h (i + 1) (by simpa using hi) (by simpa using hj)

/-- C17 (counterexample): two struct types called `S` whose field `x` has the types `i32`
and `f64` are equal for `Type::equals`, although `i32` and `f64` are not, and two enum types
called `E` with different payloads of the variant `A` are equal as well. -/
theorem equals_ignores_fields_counterexample :
    (Ty.struct "S" [Field.mk "x" Ty.i32 true] [] false 1).equals
        (Ty.struct "S" [Field.mk "x" Ty.f64 true] [] false 2) = true ∧
      Ty.i32.equals Ty.f64 = false ∧
      (Ty.enum "E" [Variant.mk "A" .Tuple [Ty.i32] []]).equals
        (Ty.enum "E" [Variant.mk "A" .Tuple [Ty.f64, Ty.bool] []]) = true := by
  refine ⟨?_, ?_, ?_⟩ <;> decide

/-- C17 (amended): `Type::equals(a, b)` is true exactly when `a` and `b` have the same kind
and: pointers have equal bases; arrays have the same size and equal element types; functions
have the same variadic flag, the same number of parameters, equal return types and pairwise
equal parameters; struct, class, enum and type-parameter types have the same name (their
fields, methods, variants and constraints are not compared). -/
theorem equals_compares_children_and_names (a b : Ty) :
    (a.equals b = true → a.getKind = b.getKind) ∧
    (a.equals b = true ↔
      match a, b with
      | .primitive k, .primitive l => k = l
      | .pointer x, .pointer y => x.equals y = true
      | .array x n, .array y m => n = m ∧ x.equals y = true
      | .function ps r v, .function qs s w =>
          v = w ∧ ps.length = qs.length ∧ r.equals s = true ∧
            ∀ i (hi : i < ps.length) (hj : i < qs.length),
              (ps.get ⟨i, hi⟩).equals (qs.get ⟨i, hj⟩) = true
      | .struct n _ _ _ _, .struct m _ _ _ _ => n = m
      | .enum n _, .enum m _ => n = m
      | .typeParameter n _, .typeParameter m _ => n = m
      | _, _ => False) := by
  have key : a.equals b = true ↔
      match a, b with
      | .primitive k, .primitive l => k = l
      | .pointer x, .pointer y => x.equals y = true
      | .array x n, .array y m => n = m ∧ x.equals y = true
      | .function ps r v, .function qs s w =>
          v = w ∧ ps.length = qs.length ∧ r.equals s = true ∧
            ∀ i (hi : i < ps.length) (hj : i < qs.length),
              (ps.get ⟨i, hi⟩).equals (qs.get ⟨i, hj⟩) = true
      | .struct n _ _ _ _, .struct m _ _ _ _ => n = m
      | .enum n _, .enum m _ => n = m
      | .typeParameter n _, .typeParameter m _ => n = m
      | _, _ => False := by
    cases a with
    | primitive k =>
      cases b with
      | primitive l =>
        rw [Ty.equals]
        constructor
        · intro h
          simp only [Bool.and_eq_true, beq_iff_eq, Ty.getKind] at h
          exact (PrimKind.toKind_injective k l).1 h.1
        · intro h
          subst h
          simp [Ty.toString]
      | _ => cases k <;> simp [Ty.equals, Ty.getKind, PrimKind.toKind]
    | pointer x => cases b <;> simp [Ty.equals]
    | array x n => cases b <;> simp [Ty.equals]
    | function ps r v =>
      cases b with
      | function qs s w =>
        rw [Ty.equals]
        by_cases hv : v = w
        · by_cases hlen : ps.length = qs.length
          · cases hr : Ty.equals r s with
            | false => simp [hv, hlen, hr]
            | true => simp [hv, hlen, hr, Ty.equalsList_iff ps qs hlen]
          · simp [hv, hlen]
        · simp [hv]
      | _ => simp [Ty.equals]
    | struct n fs ms c ad =>
      cases b <;> simp [Ty.equals, Ty.getKind, Ty.toString]
      rename_i l
      cases l <;> simp [PrimKind.toKind]
    | enum n vs =>
      cases b <;> simp [Ty.equals, Ty.getKind, Ty.toString]
      rename_i l
      cases l <;> simp [PrimKind.toKind]
    | typeParameter n c =>
      cases b <;> simp [Ty.equals, Ty.getKind, Ty.toString]
      rename_i l
      cases l <;> simp [PrimKind.toKind]
  refine ⟨?_, key⟩
  intro h
  have h2 := key.1 h
  cases a <;> cases b <;> simp_all [Ty.getKind]

/-- C18 (counterexample): `void` is a primitive type and `isCopyType` is false for it. -/
theorem void_is_not_copy_counterexample :
    Ty.isCopyType (Ty.primitive PrimKind.Void) = false := by
  decide

/-- C18 (amended): `isCopyType` is true exactly for the primitive types other than `void`
(every integer width, `f32`, `f64`, `bool`) and for every pointer type; it is false for
`void` and for every struct, class and enum type (and for array, function and
type-parameter types). -/
theorem isCopyType_iff (t : Ty) :
    (t.isCopyType = true ↔
      (∃ k, t = Ty.primitive k ∧ k ≠ PrimKind.Void) ∨ ∃ b, t = Ty.pointer b) ∧
    (t.isStruct = true ∨ t.isClass = true ∨ t.isEnum = true → t.isCopyType = false) := by
  cases t with
  | primitive k => cases k <;> simp [Ty.isCopyType, Ty.getKind, PrimKind.toKind, Ty.isStruct, Ty.isClass, Ty.isEnum]
  | pointer b => simp [Ty.isCopyType, Ty.getKind, Ty.isStruct, Ty.isClass, Ty.isEnum]
  | array b n => simp [Ty.isCopyType, Ty.getKind, Ty.isStruct, Ty.isClass, Ty.isEnum]
  | function ps r v => simp [Ty.isCopyType, Ty.getKind, Ty.isStruct, Ty.isClass, Ty.isEnum]
  | struct n fs ms c ad => simp [Ty.isCopyType, Ty.getKind, Ty.isStruct, Ty.isClass, Ty.isEnum]
  | enum n vs => simp [Ty.isCopyType, Ty.getKind, Ty.isStruct, Ty.isClass, Ty.isEnum]
  | typeParameter n c => simp [Ty.isCopyType, Ty.getKind, Ty.isStruct, Ty.isClass, Ty.isEnum]

/-- C18 (witness): the class type `Foo` is not a copy type. -/
theorem isCopyType_witness :
    fooType.isClass = true ∧ fooType.isCopyType = false :=
  ⟨by decide, (isCopyType_iff fooType).2 (Or.inr (Or.inl (by decide)))⟩

/-! ## Scoped insertion and lookup -/

theorem SymbolTable.Op.apply_scopes (sc : Scope) (rest : List Scope) (op : SymbolTable.Op) :
    ∃ sc1, op.apply ⟨sc :: rest⟩ = ⟨sc1 :: rest⟩ := by
  cases op with
  | insert name type isMutable isPublic decl =>
    simp only [SymbolTable.Op.apply, SymbolTable.insert]
    split
    · exact ⟨sc, rfl⟩
    · exact ⟨_, rfl⟩
  | insertType name type isPublic decl =>
    simp only [SymbolTable.Op.apply, SymbolTable.insertType]
    split
    · exact ⟨sc, rfl⟩
    · exact ⟨_, rfl⟩

theorem SymbolTable.applyOps_scopes (ops : List SymbolTable.Op) (sc : Scope)
    (rest : List Scope) :
    ∃ sc1, SymbolTable.applyOps ⟨sc :: rest⟩ ops = ⟨sc1 :: rest⟩ := by
  induction ops generalizing sc with
  | nil => exact ⟨sc, rfl⟩
  | cons op ops ih =>
    obtain ⟨sc1, h1⟩ := SymbolTable.Op.apply_scopes sc rest op
    obtain ⟨sc2, h2⟩ := ih sc1
    refine ⟨sc2, ?_⟩
    simp only [SymbolTable.applyOps, List.foldl_cons] at h2 ⊢
    rw [h1, h2]

theorem findSome?_eq_some_iff_index {α β : Type} (f : α → Option β) (l : List α) (b : β) :
    l.findSome? f = some b ↔
      ∃ i, ∃ h : i < l.length, f (l.get ⟨i, h⟩) = some b ∧
        ∀ j, ∀ hj : j < l.length, j < i → f (l.get ⟨j, hj⟩) = none := by
  induction l with
  | nil => simp
  | cons a l ih =>
    cases ha : f a with
    | some x =>
      simp only [List.findSome?, ha]
      constructor
      · intro h
        refine ⟨0, by simp, by simpa [ha] using h, ?_⟩
        intro j _ hj
        omega
      · rintro ⟨i, hi, h1, h2⟩
        cases i with
        | zero => simpa [ha] using h1
        | succ i =>
          have := h2 0 (by simp) (by omega)
          simp [ha] at this
    | none =>
      simp only [List.findSome?, ha]
      rw [ih]
      constructor
      · rintro ⟨i, hi, h1, h2⟩
        refine ⟨i + 1, by simpa using hi, by simpa using h1, ?_⟩
        intro j hj hlt
        cases j with
        | zero => simpa using ha
        | succ j => simpa using h2 j (by simpa using hj) (by omega)
      · rintro ⟨i, hi, h1, h2⟩
        cases i with
        | zero => simp [ha] at h1
        | succ i =>
          refine ⟨i, by simpa using hi, by simpa using h1, ?_⟩
          intro j hj hlt
          simpa using h2 (j + 1) (by simpa using hj) (by omega)

/-- C19: on a table whose current (innermost) scope is `sc`, `SymbolTable::insert` returns
false and leaves the table unchanged when `name` is bound in `sc`; otherwise it returns true,
binds `name` in the current scope to a symbol that is not moved, keeps every other binding of
the current scope and every outer scope; the outer scopes `rest` play no part in the
decision. -/
theorem insert_rejects_duplicates_of_current_scope_only (sc : Scope) (rest : List Scope)
    (name : String) (type : Option Ty) (isMutable isPublic : Bool) (decl : Option Stmt) :
    ((sc.symbols.lookup name).isSome = true →
      (SymbolTable.mk (sc :: rest)).insert name type isMutable isPublic decl
        = (false, ⟨sc :: rest⟩)) ∧
    ((sc.symbols.lookup name).isSome = false →
      ∃ sc1, (SymbolTable.mk (sc :: rest)).insert name type isMutable isPublic decl
          = (true, ⟨sc1 :: rest⟩) ∧
        sc1.symbols.lookup name = some ⟨name, type, isMutable, false, isPublic, decl⟩ ∧
        (∀ b, b ≠ name → sc1.symbols.lookup b = sc.symbols.lookup b) ∧
        sc1.types = sc.types ∧ sc1.typeDecls = sc.typeDecls ∧
        sc1.typeVisibility = sc.typeVisibility ∧
        (SymbolTable.mk (sc1 :: rest)).lookup name
          = some ⟨name, type, isMutable, false, isPublic, decl⟩) := by
  constructor
  · intro h
    simp [SymbolTable.insert, SymbolTable.lookupCurrentScope, h]
  · intro h
    refine ⟨{ sc with symbols := mapSet name (Symbol.mk name type isMutable false isPublic decl) sc.symbols },
      ?_, ?_, ?_, rfl, rfl, rfl, ?_⟩
    · simp [SymbolTable.insert, SymbolTable.lookupCurrentScope, h]
    · simp [lookup_mapSet]
    · intro b hb
      simp [lookup_mapSet, hb]
    · simp [SymbolTable.lookup, List.findSome?, lookup_mapSet]

/-- C19 (witness): `x` is bound in the module scope and not in the current scope; `insert`
of `x` succeeds, and a second `insert` of `x` is rejected. -/
theorem insert_witness :
    (∃ sc1, (SymbolTable.mk [{}, outerX]).insert "x" (some Ty.bool) true false none
        = (true, ⟨[sc1, outerX]⟩) ∧
      (SymbolTable.mk [sc1, outerX]).insert "x" (some Ty.i32) true false none
        = (false, ⟨[sc1, outerX]⟩)) := by
  obtain ⟨sc1, h1, h2, _⟩ :=
    (insert_rejects_duplicates_of_current_scope_only {} [outerX] "x" (some Ty.bool) true
      false none).2 rfl
  refine ⟨sc1, h1, ?_⟩
  exact (insert_rejects_duplicates_of_current_scope_only sc1 [outerX] "x" (some Ty.i32) true
    false none).1 (by rw [h2]; rfl)

/-- C20: `SymbolTable::lookup` returns the binding of `name` in the innermost scope that
binds it (the scope list is innermost first), and null exactly when no scope binds it; and
on a table with at least one scope, `pushScope`, any sequence of `insert` and `insertType`
calls and `popScope` give back the table, so every `lookup` and `lookupType` returns what it
returned before. -/
theorem lookup_is_innermost_and_scopes_are_balanced (t : SymbolTable)
    (hne : t.scopes ≠ []) (ops : List SymbolTable.Op) (name : String) :
    (∀ sym, t.lookup name = some sym ↔
      ∃ i, ∃ h : i < t.scopes.length,
        (t.scopes.get ⟨i, h⟩).symbols.lookup name = some sym ∧
        ∀ j, ∀ hj : j < t.scopes.length, j < i →
          (t.scopes.get ⟨j, hj⟩).symbols.lookup name = none) ∧
    (t.lookup name = none ↔ ∀ sc ∈ t.scopes, sc.symbols.lookup name = none) ∧
    (SymbolTable.applyOps t.pushScope ops).popScope = t ∧
    (SymbolTable.applyOps t.pushScope ops).popScope.lookup name = t.lookup name ∧
    (SymbolTable.applyOps t.pushScope ops).popScope.lookupType name = t.lookupType name := by
  have hbal : (SymbolTable.applyOps t.pushScope ops).popScope = t := by
    obtain ⟨sc1, h1⟩ := SymbolTable.applyOps_scopes ops {} t.scopes
    have hp : t.pushScope = ⟨{} :: t.scopes⟩ := rfl
    rw [hp, h1]
    cases t with
    | mk scopes =>
      cases scopes with
      | nil => exact absurd rfl hne
      | cons s ss => simp [SymbolTable.popScope]
  refine ⟨?_, ?_, hbal, by rw [hbal], by rw [hbal]⟩
  · intro sym
    exact findSome?_eq_some_iff_index _ _ _
  · simp [SymbolTable.lookup]

/-- C20 (witness): the module scope binds `x` to `i32`; an inner scope shadows it with a
`bool` binding, where `lookup` finds the inner symbol; after `popScope` the table is the
one before `pushScope`. -/
theorem scopes_witness :
    ((SymbolTable.applyOps (SymbolTable.mk [outerX]).pushScope
        [.insert "x" (some Ty.bool) true false none]).lookup "x").map (fun s => s.type)
      = some (some Ty.bool) ∧
    (SymbolTable.applyOps (SymbolTable.mk [outerX]).pushScope
        [.insert "x" (some Ty.bool) true false none,
         .insertType "T" (some Ty.i32) false none]).popScope = ⟨[outerX]⟩ :=
  ⟨rfl, (lookup_is_innermost_and_scopes_are_balanced ⟨[outerX]⟩ (by simp)
    [.insert "x" (some Ty.bool) true false none, .insertType "T" (some Ty.i32) false none]
    "x").2.2.1⟩

/-! ## The parser monad: how a parser function runs on a state -/

section ParseM

variable {α β : Type}

theorem parse_pure (a : α) (p : Parser) : (pure a : ParseM α) p = .ok (a, p) := rfl

theorem parse_throw (e : String) (p : Parser) : (throw e : ParseM α) p = .error e := rfl

theorem parse_bind (x : ParseM α) (f : α → ParseM β) (p : Parser) :
    (x >>= f) p = match x p with
      | .ok r => f r.1 r.2
      | .error e => .error e := by
  show (x p >>= fun r => f r.1 r.2) = _
  cases x p <;> rfl

theorem parse_bind_ok {x : ParseM α} {f : α → ParseM β} {p p1 : Parser} {a : α}
    (hx : x p = .ok (a, p1)) : (x >>= f) p = f a p1 := by
  rw [parse_bind, hx]

theorem parse_bind_error {x : ParseM α} {f : α → ParseM β} {p : Parser} {e : String}
    (hx : x p = .error e) : (x >>= f) p = .error e := by
  rw [parse_bind, hx]

end ParseM

namespace Parser

theorem peek_bind {β : Type} (f : Token → ParseM β) (p : Parser) :
    (peek >>= f) p = f p.m_currentToken p := rfl

theorem advance_bind {β : Type} (f : Token → ParseM β) (p : Parser) :
    (advance >>= f) p = f p.m_currentToken p.next := rfl

theorem matchToken_bind_of_ne {β : Type} (f : Bool → ParseM β) (p : Parser) (type : TokenType)
    (h : p.m_currentToken.type ≠ type) : (matchToken type >>= f) p = f false p := by
  rw [parse_bind]
  simp [matchToken, h]

theorem matchToken_bind_of_eq {β : Type} (f : Bool → ParseM β) (p : Parser) (type : TokenType)
    (h : p.m_currentToken.type = type) : (matchToken type >>= f) p = f true p.next := by
  rw [parse_bind]
  simp [matchToken, h]

theorem consume_bind_of_eq {β : Type} (f : Token → ParseM β) (p : Parser) (type : TokenType)
    (message : String) (h : p.m_currentToken.type = type) :
    (consume type message >>= f) p = f p.m_currentToken p.next := by
  rw [parse_bind]
  simp [consume, h]

theorem skip_next (n : Nat) (p : Parser) : (p.skip n).next = p.skip (n + 1) := by
  induction n generalizing p with
  | zero => rfl
  | succ n ih => exact ih p.next

theorem skip_skip (m n : Nat) (p : Parser) : (p.skip m).skip n = p.skip (m + n) := by
  induction m generalizing p with
  | zero => simp [skip]
  | succ m ih =>
    rw [skip, ih, Nat.succ_add]
    rfl

theorem tokenAt_skip (m n : Nat) (p : Parser) : (p.skip m).tokenAt n = p.tokenAt (m + n) := by
  unfold tokenAt
  rw [skip_skip]

theorem tokenAt_zero (p : Parser) : p.tokenAt 0 = p.m_currentToken := rfl

theorem tokenAt_next (n : Nat) (p : Parser) : p.next.tokenAt n = p.tokenAt (n + 1) := rfl

theorem endsOperand_of_precedence (type : TokenType) (h : 0 ≤ getPrecedence type) :
    endsOperand type = true := by
  revert h
  cases type <;> decide

/-- An identifier that no postfix form follows is an operand by itself. -/
theorem parseUnary_identifier (fuel : Nat) (p : Parser)
    (hid : p.m_currentToken.type = .Identifier)
    (hnext : endsOperand (p.tokenAt 1).type = true) :
    parseUnary (hooks (fuel + 1)) p = .ok (.identifier none p.m_currentToken.value, p.next) := by
  have hn : endsOperand p.next.m_currentToken.type = true := hnext
  unfold parseUnary
  rw [peek_bind]
  simp only [hid, reduceCtorEq, decide_False, Bool.or_self, Bool.false_eq_true, if_false]
  unfold parsePostfix parsePrimary
  rw [bind_assoc, matchToken_bind_of_ne _ _ _ (by rw [hid]; decide)]
  simp only [Bool.false_eq_true, if_false]
  rw [bind_assoc, peek_bind]
  unfold parseAtom
  simp only [hid, reduceCtorEq, if_false, intrinsicKindOf, decide_True, decide_False,
    Bool.or_false, Bool.true_or, if_true]
  unfold parseIdentifier
  rw [bind_assoc, peek_bind, bind_assoc, advance_bind, bind_assoc,
    matchToken_bind_of_ne _ _ _ (by intro h; rw [h] at hn; exact absurd hn (by decide))]
  simp only [Bool.false_eq_true, if_false, pure_bind]
  show parsePostfixLoop (hooks (fuel + 1)) (fuel + 1) _ p.next = _
  unfold parsePostfixLoop
  rw [peek_bind]
  generalize p.next.m_currentToken.type = ty at hn
  cases ty <;> first | (exact absurd hn (by decide)) | rfl

theorem parseBinaryLoop_stop (h : ParserHooks) (minPrec : Int) (n : Nat) (left : Expr)
    (p : Parser) (hp : getPrecedence p.m_currentToken.type < minPrec) :
    parseBinaryLoop h minPrec (n + 1) left p = .ok (left, p) := by
  unfold parseBinaryLoop
  rw [peek_bind]
  simp only [hp, if_true]
  rfl

theorem parseBinaryLoop_step (h : ParserHooks) (minPrec : Int) (n : Nat) (left : Expr)
    (p : Parser) (hp : ¬ getPrecedence p.m_currentToken.type < minPrec) :
    parseBinaryLoop h minPrec (n + 1) left p
      = (h.parseExpression (getPrecedence p.m_currentToken.type + 1) >>= fun right =>
          parseBinaryLoop h minPrec n (.binary none left p.m_currentToken.type right)) p.next := by
  conv => lhs; unfold parseBinaryLoop
  rw [peek_bind]
  simp only [hp, if_false]
  rw [advance_bind]

theorem hooks_parseExpression (fuel : Nat) (minPrec : Int) :
    (hooks (fuel + 1)).parseExpression minPrec = parseExpression (hooks fuel) minPrec := rfl

theorem hooks_parseUnary (fuel : Nat) :
    (hooks (fuel + 1)).parseUnary = parseUnary (hooks fuel) := rfl

theorem hooks_loops (fuel : Nat) : (hooks (fuel + 1)).loops = fuel + 1 := rfl

/-- The step `parseUnary_identifier` at the state behind `k` tokens. -/
theorem parseUnary_identifier_at (fuel : Nat) (p : Parser) (k : Nat)
    (hid : (p.tokenAt k).type = .Identifier)
    (hnext : endsOperand (p.tokenAt (k + 1)).type = true) :
    parseUnary (hooks (fuel + 1)) (p.skip k)
      = .ok (.identifier none (p.tokenAt k).value, p.skip (k + 1)) := by
  have h := parseUnary_identifier fuel (p.skip k) hid (by rw [tokenAt_skip]; exact hnext)
  rw [skip_next] at h
  exact h

theorem parseBinaryLoop_stop_at (h : ParserHooks) (minPrec : Int) (n : Nat) (left : Expr)
    (p : Parser) (k : Nat) (hp : getPrecedence (p.tokenAt k).type < minPrec) :
    parseBinaryLoop h minPrec (n + 1) left (p.skip k) = .ok (left, p.skip k) :=
  parseBinaryLoop_stop h minPrec n left (p.skip k) hp

theorem parseBinaryLoop_step_at (h : ParserHooks) (minPrec : Int) (n : Nat) (left : Expr)
    (p : Parser) (k : Nat) (hp : ¬ getPrecedence (p.tokenAt k).type < minPrec) :
    parseBinaryLoop h minPrec (n + 1) left (p.skip k)
      = (h.parseExpression (getPrecedence (p.tokenAt k).type + 1) >>= fun right =>
          parseBinaryLoop h minPrec n (.binary none left (p.tokenAt k).type right))
        (p.skip (k + 1)) := by
  have h1 := parseBinaryLoop_step h minPrec n left (p.skip k) hp
  rw [skip_next] at h1
  exact h1

/-- An identifier followed by a token that neither continues the operand nor is an operator
of precedence `minPrec` or more is an expression by itself. -/
theorem parseExpression_identifier (fuel : Nat) (minPrec : Int) (p : Parser) (k : Nat)
    (hid : (p.tokenAt k).type = .Identifier)
    (hnext : endsOperand (p.tokenAt (k + 1)).type = true)
    (hprec : getPrecedence (p.tokenAt (k + 1)).type < minPrec) :
    parseExpression (hooks (fuel + 2)) minPrec (p.skip k)
      = .ok (.identifier none (p.tokenAt k).value, p.skip (k + 1)) := by
  unfold parseExpression
  rw [hooks_parseUnary, hooks_loops,
    parse_bind_ok (parseUnary_identifier_at fuel p k hid hnext)]
  exact parseBinaryLoop_stop_at _ _ _ _ p (k + 1) hprec

/-- Two binary operators between three identifiers: the second operator takes the middle
operand exactly when its precedence is higher than that of the first. -/
theorem parseExpression_two_operators (fuel : Nat) (p : Parser)
    (h0 : (p.tokenAt 0).type = .Identifier)
    (h1 : 0 ≤ getPrecedence (p.tokenAt 1).type)
    (h2 : (p.tokenAt 2).type = .Identifier)
    (h3 : 0 ≤ getPrecedence (p.tokenAt 3).type)
    (h4 : (p.tokenAt 4).type = .Identifier)
    (h5 : endsExpression (p.tokenAt 5).type = true) :
    (hooks (fuel + 5)).parseExpression 0 p
      = .ok (if getPrecedence (p.tokenAt 1).type < getPrecedence (p.tokenAt 3).type then
          .binary none (.identifier none (p.tokenAt 0).value) (p.tokenAt 1).type
            (.binary none (.identifier none (p.tokenAt 2).value) (p.tokenAt 3).type
              (.identifier none (p.tokenAt 4).value))
        else
          .binary none
            (.binary none (.identifier none (p.tokenAt 0).value) (p.tokenAt 1).type
              (.identifier none (p.tokenAt 2).value))
            (p.tokenAt 3).type (.identifier none (p.tokenAt 4).value),
        p.skip 5) := by
  have e5 : endsOperand (p.tokenAt 5).type = true ∧ getPrecedence (p.tokenAt 5).type < 0 := by
    simpa [endsExpression] using h5
  have o1 := endsOperand_of_precedence _ h1
  have o3 := endsOperand_of_precedence _ h3
  have n1 : ¬ getPrecedence (p.tokenAt 1).type < 0 := by omega
  have n3 : ¬ getPrecedence (p.tokenAt 3).type < 0 := by omega
  have s53 : getPrecedence (p.tokenAt 5).type < getPrecedence (p.tokenAt 3).type + 1 := by
    omega
  have s51 : getPrecedence (p.tokenAt 5).type < getPrecedence (p.tokenAt 1).type + 1 := by
    omega
  have hp : p = p.skip 0 := rfl
  rw [hooks_parseExpression]
  conv => lhs; rw [hp]
  unfold parseExpression
  rw [hooks_parseUnary, hooks_loops,
    parse_bind_ok (parseUnary_identifier_at (fuel + 2) p 0 h0 o1),
    parseBinaryLoop_step_at (hooks (fuel + 3 + 1)) 0 (fuel + 3) _ p 1 n1]
  by_cases hlt : getPrecedence (p.tokenAt 1).type < getPrecedence (p.tokenAt 3).type
  · rw [if_pos hlt]
    have n31 : ¬ getPrecedence (p.tokenAt 3).type < getPrecedence (p.tokenAt 1).type + 1 := by
      omega
    have inner : (hooks (fuel + 3 + 1)).parseExpression
        (getPrecedence (p.tokenAt 1).type + 1) (p.skip 2)
        = .ok (.binary none (.identifier none (p.tokenAt 2).value) (p.tokenAt 3).type
            (.identifier none (p.tokenAt 4).value), p.skip 5) := by
      rw [hooks_parseExpression]
      unfold parseExpression
      rw [hooks_parseUnary, hooks_loops,
        parse_bind_ok (parseUnary_identifier_at (fuel + 1) p 2 h2 o3),
        parseBinaryLoop_step_at (hooks (fuel + 2 + 1)) _ (fuel + 2) _ p 3 n31,
        hooks_parseExpression,
        parse_bind_ok (parseExpression_identifier fuel _ p 4 h4 e5.1 s53)]
      exact parseBinaryLoop_stop_at (hooks (fuel + 2 + 1)) _ (fuel + 1) _ p 5 s51
    rw [parse_bind_ok inner]
    exact parseBinaryLoop_stop_at (hooks (fuel + 3 + 1)) 0 (fuel + 2) _ p 5 e5.2
  · rw [if_neg hlt]
    have s31 : getPrecedence (p.tokenAt 3).type < getPrecedence (p.tokenAt 1).type + 1 := by
      omega
    rw [hooks_parseExpression,
      parse_bind_ok (parseExpression_identifier (fuel + 1) _ p 2 h2 o3 s31),
      parseBinaryLoop_step_at (hooks (fuel + 3 + 1)) 0 (fuel + 2) _ p 3 n3,
      hooks_parseExpression,
      parse_bind_ok (parseExpression_identifier (fuel + 1) _ p 4 h4 e5.1 s53)]
    exact parseBinaryLoop_stop_at (hooks (fuel + 3 + 1)) 0 (fuel + 1) _ p 5 e5.2

end Parser

/-! ## The bracket of a postfix chain -/

theorem Lexer.peekToken_fst (l : Lexer) : l.peekToken.1 = l.nextToken.1 := rfl

theorem Lexer.peekToken_snd (l : Lexer) : l.peekToken.2 = l := by
  have hsrc : l.nextToken.2.m_source = l.m_source := by
    rcases Lexer.nextToken_cases l with h | h
    · exact h.2.2
    · exact h.2.2
  unfold Lexer.peekToken
  generalize l.nextToken = r at hsrc
  obtain ⟨tok, l1⟩ := r
  cases l
  cases l1
  simp_all

namespace Parser

theorem isGenericContext_run (p : Parser) :
    isGenericContext p = .ok (startsType (p.tokenAt 1).type, p) := by
  unfold isGenericContext
  simp only [Lexer.peekToken_fst, Lexer.peekToken_snd]
  rfl

theorem isGenericContext_bind {β : Type} (f : Bool → ParseM β) (p : Parser) :
    (isGenericContext >>= f) p = f (startsType (p.tokenAt 1).type) p :=
  parse_bind_ok (isGenericContext_run p)

theorem parse_bind_eq_ok {α β : Type} {x : ParseM α} {f : α → ParseM β} {p p2 : Parser}
    {b : β} :
    (x >>= f) p = .ok (b, p2) ↔ ∃ a p1, x p = .ok (a, p1) ∧ f a p1 = .ok (b, p2) := by
  rw [parse_bind]
  cases hx : x p with
  | error e => simp
  | ok r =>
    obtain ⟨a, p1⟩ := r
    constructor
    · intro h
      exact ⟨a, p1, rfl, h⟩
    · rintro ⟨a1, p11, h1, h2⟩
      cases h1
      exact h2

theorem extends_trans {a b c : Expr} (h1 : Expr.Extends a b) (h2 : Expr.Extends b c) :
    Expr.Extends a c := by
  induction h2 with
  | refl => exact h1
  | step hb _ ih => exact .step hb ih

theorem extends_of_base {a e : Expr} (h : e.postfixBase = some a) : Expr.Extends a e :=
  .step h .refl

theorem parseStructLiteral_extends (h : ParserHooks) (base e : Expr) (p p1 : Parser)
    (hr : parseStructLiteral h base p = .ok (e, p1)) : Expr.Extends base e := by
  unfold parseStructLiteral at hr
  obtain ⟨fields, p2, _, h2⟩ := parse_bind_eq_ok.1 hr
  cases h2
  exact extends_of_base rfl

theorem parseMember_extends (h : ParserHooks) (left e : Expr) (isStatic : Bool)
    (p p1 : Parser) (hr : parseMember h left isStatic p = .ok (e, p1)) :
    Expr.Extends left e := by
  unfold parseMember at hr
  obtain ⟨_, p2, _, h2⟩ := parse_bind_eq_ok.1 hr
  obtain ⟨tok, p3, _, h3⟩ := parse_bind_eq_ok.1 h2
  obtain ⟨brace, p4, _, h4⟩ := parse_bind_eq_ok.1 h3
  cases brace with
  | true =>
    simp only [if_true] at h4
    exact extends_trans (extends_of_base (e := .memberAccess none left tok.value isStatic) rfl)
      (parseStructLiteral_extends _ _ _ _ _ h4)
  | false =>
    simp only [Bool.false_eq_true, if_false] at h4
    cases h4
    exact extends_of_base rfl

theorem parseSpecialization_result (h : ParserHooks) (left e : Expr) (p p1 : Parser)
    (hr : parseSpecialization h left p = .ok (e, p1)) :
    ∃ typeArgs, e = .specialization none left typeArgs "" := by
  unfold parseSpecialization at hr
  obtain ⟨_, p2, _, h2⟩ := parse_bind_eq_ok.1 hr
  obtain ⟨typeArgs, p3, _, h3⟩ := parse_bind_eq_ok.1 h2
  cases h3
  exact ⟨typeArgs, rfl⟩

theorem parseIndexing_result (h : ParserHooks) (left e : Expr) (p p1 : Parser)
    (hr : parseIndexing h left p = .ok (e, p1)) :
    ∃ index, e = .indexing none left index := by
  unfold parseIndexing at hr
  obtain ⟨_, p2, _, h2⟩ := parse_bind_eq_ok.1 hr
  obtain ⟨index, p3, _, h3⟩ := parse_bind_eq_ok.1 h2
  obtain ⟨_, p4, _, h4⟩ := parse_bind_eq_ok.1 h3
  cases h4
  exact ⟨index, rfl⟩

theorem parseBracket_extends (h : ParserHooks) (left e : Expr) (p p1 : Parser)
    (hr : parseBracket h left p = .ok (e, p1)) : Expr.Extends left e := by
  unfold parseBracket at hr
  rw [isGenericContext_bind] at hr
  cases hg : startsType (p.tokenAt 1).type with
  | true =>
    simp only [hg, if_true] at hr
    obtain ⟨typeArgs, he⟩ := parseSpecialization_result _ _ _ _ _ hr
    rw [he]
    exact extends_of_base rfl
  | false =>
    simp only [hg, Bool.false_eq_true, if_false] at hr
    obtain ⟨index, he⟩ := parseIndexing_result _ _ _ _ _ hr
    rw [he]
    exact extends_of_base rfl

/-- Whatever the loop of `parsePostfix` returns is its argument with postfix forms applied. -/
theorem parsePostfixLoop_extends (h : ParserHooks) (n : Nat) :
    ∀ (left e : Expr) (p p1 : Parser), parsePostfixLoop h n left p = .ok (e, p1) →
      Expr.Extends left e := by
  induction n with
  | zero =>
    intro left e p p1 hr
    cases hr
  | succ n ih =>
    intro left e p p1 hr
    unfold parsePostfixLoop at hr
    rw [peek_bind] at hr
    split at hr
    · obtain ⟨e1, p2, h1, h2⟩ := parse_bind_eq_ok.1 hr
      exact extends_trans (parseMember_extends _ _ _ _ _ _ h1) (ih _ _ _ _ h2)
    · split at hr
      · obtain ⟨_, p2, _, h2⟩ := parse_bind_eq_ok.1 hr
        obtain ⟨args, p3, _, h3⟩ := parse_bind_eq_ok.1 h2
        exact extends_trans (extends_of_base (e := .call none left args) rfl) (ih _ _ _ _ h3)
      · split at hr
        · obtain ⟨e1, p2, h1, h2⟩ := parse_bind_eq_ok.1 hr
          exact extends_trans (parseBracket_extends _ _ _ _ _ h1) (ih _ _ _ _ h2)
        · split at hr
          · obtain ⟨_, p2, _, h2⟩ := parse_bind_eq_ok.1 hr
            exact extends_trans (extends_of_base (e := .question none left) rfl)
              (ih _ _ _ _ h2)
          · split at hr
            · split at hr
              · obtain ⟨_, p2, _, h2⟩ := parse_bind_eq_ok.1 hr
                obtain ⟨e1, p3, h3, h4⟩ := parse_bind_eq_ok.1 h2
                exact extends_trans (parseStructLiteral_extends _ _ _ _ _ h3) (ih _ _ _ _ h4)
              · cases hr
                exact .refl
            · cases hr
              exact .refl

/-- The round of the loop of `parsePostfix` at a `[`. -/
theorem parsePostfixLoop_bracket (h : ParserHooks) (n : Nat) (left : Expr) (p : Parser)
    (hcur : (p.tokenAt 0).type = .LBracket) :
    parsePostfixLoop h (n + 1) left p
      = if startsType (p.tokenAt 1).type = true then
          (closedList .RBracket "Expected ']' after generic arguments" (parseType h) h.loops
            >>= fun typeArgs =>
              parsePostfixLoop h n (.specialization none left typeArgs "")) (p.skip 1)
        else
          (h.parseExpression 0 >>= fun index =>
            consume .RBracket "Expected ']' after index" >>= fun _ =>
              parsePostfixLoop h n (.indexing none left index)) (p.skip 1) := by
  have hc : p.m_currentToken.type = .LBracket := hcur
  conv => lhs; unfold parsePostfixLoop
  rw [peek_bind]
  simp only [hc, reduceCtorEq, decide_False, Bool.or_self, Bool.false_eq_true, if_false,
    if_true]
  unfold parseBracket
  rw [bind_assoc, isGenericContext_bind]
  cases hg : startsType (p.tokenAt 1).type with
  | true =>
    simp only [if_true]
    unfold parseSpecialization
    rw [bind_assoc, matchToken_bind_of_eq _ _ _ hc]
    simp only [bind_assoc, pure_bind]
    rfl
  | false =>
    simp only [Bool.false_eq_true, if_false]
    unfold parseIndexing
    rw [bind_assoc, matchToken_bind_of_eq _ _ _ hc]
    simp only [bind_assoc, pure_bind]
    rfl

end Parser

/-- C12: in the loop of `parsePostfix`, at a `[` behind the expression `left`, the parser
reads generic type arguments and goes on with a `SpecializationExpr` of `left` exactly when
the token behind the `[` is a primitive type keyword, `*`, `&` or an identifier, and
otherwise reads an index expression and `]` and goes on with an `IndexingExpr` of `left`;
every result of the loop is that node with further postfix forms applied.  `a[0] = 1;` is an
assignment whose target is the `IndexingExpr` of `a` and `0`, and `add[i32](1, 2)` is a call
whose callee is the `SpecializationExpr` of `add` with the one type argument `i32`. -/
theorem bracket_is_generic_iff_type_follows (h : ParserHooks) (n : Nat) (left : Expr)
    (p : Parser) (hcur : (p.tokenAt 0).type = .LBracket) :
    (∀ type, Parser.startsType type = true ↔
      (Parser.primitiveOf type).isSome = true ∨ type = .Star ∨ type = .Ampersand
        ∨ type = .Identifier) ∧
    (Parser.startsType (p.tokenAt 1).type = true →
      Parser.parsePostfixLoop h (n + 1) left p
        = (Parser.closedList .RBracket "Expected ']' after generic arguments"
            (Parser.parseType h) h.loops >>= fun typeArgs =>
              Parser.parsePostfixLoop h n (.specialization none left typeArgs "")) (p.skip 1) ∧
      ∀ e p1, Parser.parsePostfixLoop h (n + 1) left p = .ok (e, p1) →
        ∃ typeArgs, Expr.Extends (.specialization none left typeArgs "") e) ∧
    (Parser.startsType (p.tokenAt 1).type = false →
      Parser.parsePostfixLoop h (n + 1) left p
        = (h.parseExpression 0 >>= fun index =>
            Parser.consume .RBracket "Expected ']' after index" >>= fun _ =>
              Parser.parsePostfixLoop h n (.indexing none left index)) (p.skip 1) ∧
      ∀ e p1, Parser.parsePostfixLoop h (n + 1) left p = .ok (e, p1) →
        ∃ index, Expr.Extends (.indexing none left index) e) ∧
    parseStatementOf "a[0] = 1;"
      = .ok (.exprStmt (.binary none
          (.indexing none (.identifier none "a") (.literal { value := .int 0 })) .Equal
          (.literal { value := .int 1 }))) ∧
    parseExpressionOf "add[i32](1, 2)"
      = .ok (.call none (.specialization none (.identifier none "add") [Ty.i32] "")
          [.literal { value := .int 1 }, .literal { value := .int 2 }]) := by
  have hstep := Parser.parsePostfixLoop_bracket h n left p hcur
  refine ⟨?_, ?_, ?_, rfl, rfl⟩
  · intro type
    cases type <;> simp [Parser.startsType, Parser.primitiveOf]
  · intro hg
    rw [hg, if_pos rfl] at hstep
    refine ⟨hstep, ?_⟩
    intro e p1 hr
    rw [hstep] at hr
    obtain ⟨typeArgs, p2, _, h2⟩ := Parser.parse_bind_eq_ok.1 hr
    exact ⟨typeArgs, Parser.parsePostfixLoop_extends _ _ _ _ _ _ h2⟩
  · intro hg
    rw [hg, if_neg (by decide)] at hstep
    refine ⟨hstep, ?_⟩
    intro e p1 hr
    rw [hstep] at hr
    obtain ⟨index, p2, _, h2⟩ := Parser.parse_bind_eq_ok.1 hr
    obtain ⟨_, p3, _, h3⟩ := Parser.parse_bind_eq_ok.1 h2
    exact ⟨index, Parser.parsePostfixLoop_extends _ _ _ _ _ _ h3⟩

/-- C12 (witness): behind `add` in `add[i32](1, 2)` the current token is `[` and the type
keyword `i32` follows, so the loop reads type arguments for a `SpecializationExpr`. -/
theorem bracket_witness :
    (behindAdd.tokenAt 0).type = .LBracket ∧
    Parser.startsType (behindAdd.tokenAt 1).type = true ∧
    Parser.parsePostfixLoop (Parser.hooks 8) (7 + 1) (.identifier none "add") behindAdd
      = (Parser.closedList .RBracket "Expected ']' after generic arguments"
          (Parser.parseType (Parser.hooks 8)) (Parser.hooks 8).loops >>= fun typeArgs =>
            Parser.parsePostfixLoop (Parser.hooks 8) 7
              (.specialization none (.identifier none "add") typeArgs "")) (behindAdd.skip 1) :=
  ⟨rfl, rfl,
    ((bracket_is_generic_iff_type_follows (Parser.hooks 8) 7 (.identifier none "add")
      behindAdd rfl).2.1 rfl).1⟩

/-! ## Precedence and associativity of binary operators -/

/-- C13: `getPrecedence` orders the binary operators, from lowest to highest: assignment,
`||`, `&&`, `|`, `^`, `&`, equality, relational, shift, additive, multiplicative; for
identifiers `a`, `b`, `c` and binary operators of which the first has the lower precedence,
`a p b q c` (the state `p`) parses as `a p (b q c)`, and when the first has the higher
precedence (the state `r`) `a q b p c` parses as `(a q b) p c`, for every bound from 5 on;
`1 + 2 * 3` parses as `(1 + (2 * 3))` and `1 * 2 + 3` as `((1 * 2) + 3)`. -/
theorem parseExpression_respects_precedence (fuel : Nat) (p r : Parser)
    (hp0 : (p.tokenAt 0).type = .Identifier)
    (hp1 : 0 ≤ Parser.getPrecedence (p.tokenAt 1).type)
    (hp2 : (p.tokenAt 2).type = .Identifier)
    (hp13 : Parser.getPrecedence (p.tokenAt 1).type < Parser.getPrecedence (p.tokenAt 3).type)
    (hp4 : (p.tokenAt 4).type = .Identifier)
    (hp5 : Parser.endsExpression (p.tokenAt 5).type = true)
    (hr0 : (r.tokenAt 0).type = .Identifier)
    (hr3 : 0 ≤ Parser.getPrecedence (r.tokenAt 3).type)
    (hr2 : (r.tokenAt 2).type = .Identifier)
    (hr31 : Parser.getPrecedence (r.tokenAt 3).type < Parser.getPrecedence (r.tokenAt 1).type)
    (hr4 : (r.tokenAt 4).type = .Identifier)
    (hr5 : Parser.endsExpression (r.tokenAt 5).type = true) :
    (0 ≤ Parser.getPrecedence .Equal ∧
      Parser.getPrecedence .Equal < Parser.getPrecedence .OrOr ∧
      Parser.getPrecedence .OrOr < Parser.getPrecedence .AndAnd ∧
      Parser.getPrecedence .AndAnd < Parser.getPrecedence .Pipe ∧
      Parser.getPrecedence .Pipe < Parser.getPrecedence .Caret ∧
      Parser.getPrecedence .Caret < Parser.getPrecedence .Ampersand ∧
      Parser.getPrecedence .Ampersand < Parser.getPrecedence .EqualEqual ∧
      Parser.getPrecedence .EqualEqual = Parser.getPrecedence .NotEqual ∧
      Parser.getPrecedence .EqualEqual < Parser.getPrecedence .Less ∧
      Parser.getPrecedence .Less = Parser.getPrecedence .LessEqual ∧
      Parser.getPrecedence .Less = Parser.getPrecedence .Greater ∧
      Parser.getPrecedence .Less = Parser.getPrecedence .GreaterEqual ∧
      Parser.getPrecedence .Less < Parser.getPrecedence .ShiftLeft ∧
      Parser.getPrecedence .ShiftLeft = Parser.getPrecedence .ShiftRight ∧
      Parser.getPrecedence .ShiftLeft < Parser.getPrecedence .Plus ∧
      Parser.getPrecedence .Plus = Parser.getPrecedence .Minus ∧
      Parser.getPrecedence .Plus < Parser.getPrecedence .Star ∧
      Parser.getPrecedence .Star = Parser.getPrecedence .Slash ∧
      Parser.getPrecedence .Star = Parser.getPrecedence .Percent) ∧
    (Parser.hooks (fuel + 5)).parseExpression 0 p
      = .ok (.binary none (.identifier none (p.tokenAt 0).value) (p.tokenAt 1).type
          (.binary none (.identifier none (p.tokenAt 2).value) (p.tokenAt 3).type
            (.identifier none (p.tokenAt 4).value)), p.skip 5) ∧
    (Parser.hooks (fuel + 5)).parseExpression 0 r
      = .ok (.binary none
          (.binary none (.identifier none (r.tokenAt 0).value) (r.tokenAt 1).type
            (.identifier none (r.tokenAt 2).value))
          (r.tokenAt 3).type (.identifier none (r.tokenAt 4).value), r.skip 5) ∧
    parseExpressionOf "1 + 2 * 3"
      = .ok (.binary none (.literal { value := .int 1 }) .Plus
          (.binary none (.literal { value := .int 2 }) .Star (.literal { value := .int 3 }))) ∧
    parseExpressionOf "1 * 2 + 3"
      = .ok (.binary none
          (.binary none (.literal { value := .int 1 }) .Star (.literal { value := .int 2 }))
          .Plus (.literal { value := .int 3 })) ∧
    (parseExpressionOf "1 + 2 * 3").map Expr.toString = .ok "(1 + (2 * 3))" ∧
    (parseExpressionOf "1 * 2 + 3").map Expr.toString = .ok "((1 * 2) + 3)" := by
  refine ⟨by decide, ?_, ?_, rfl, rfl, rfl, rfl⟩
  · have h := Parser.parseExpression_two_operators fuel p hp0 hp1 hp2 (by omega) hp4 hp5
    rw [if_pos hp13] at h
    exact h
  · have h := Parser.parseExpression_two_operators fuel r hr0 (by omega) hr2 hr3 hr4 hr5
    rw [if_neg (by omega)] at h
    exact h

/-- C13 (witness): `a || b == c` parses as `a || (b == c)` and `a << b & c` as
`(a << b) & c`. -/
theorem precedence_witness :
    (Parser.hooks 5).parseExpression 0 (Parser.new "a || b == c")
      = .ok (.binary none (.identifier none "a") .OrOr
          (.binary none (.identifier none "b") .EqualEqual (.identifier none "c")),
        (Parser.new "a || b == c").skip 5) ∧
    (Parser.hooks 5).parseExpression 0 (Parser.new "a << b & c")
      = .ok (.binary none
          (.binary none (.identifier none "a") .ShiftLeft (.identifier none "b"))
          .Ampersand (.identifier none "c"),
        (Parser.new "a << b & c").skip 5) :=
  ⟨(parseExpression_respects_precedence 0 (Parser.new "a || b == c")
      (Parser.new "a << b & c") rfl (by decide) rfl (by decide) rfl rfl rfl (by decide) rfl
      (by decide) rfl rfl).2.1,
    (parseExpression_respects_precedence 0 (Parser.new "a || b == c")
      (Parser.new "a << b & c") rfl (by decide) rfl (by decide) rfl rfl rfl (by decide) rfl
      (by decide) rfl rfl).2.2.1⟩

/-- C14 fails in the code: `a = b = c` parses as the assignment to `(a = b)` of `c`, not as
the assignment to `a` of `(b = c)`. The analyzer accepts the statement `a = b = c;`, and
the builder lowers it to one store of the value of `c` with the empty destination, so that
neither `a` nor `b` is written; written `a = (b = c);` the statement lowers to the store
into `b` and the store of the same value into `a`. -/
theorem assignment_chain_groups_to_the_left :
    parseExpressionOf "a = b = c"
      = .ok (.binary none
          (.binary none (.identifier none "a") .Equal (.identifier none "b"))
          .Equal (.identifier none "c")) ∧
    parseExpressionOf "a = b = c"
      ≠ .ok (.binary none (.identifier none "a") .Equal
          (.binary none (.identifier none "b") .Equal (.identifier none "c"))) ∧
    compiledText 12 assignmentChainSource
      = some [("f", [("entry.0",
          ["%a.addr = alloca i32", "store %a, %a.addr", "%b.addr = alloca i32",
           "store %b, %b.addr", "%c.addr = alloca i32", "store %c, %c.addr",
           "%t0 = load %c.addr", "store %t0, ", "%t1 = load %a.addr", "ret %t1"])])] ∧
    compiledText 12 assignmentNestedSource
      = some [("f", [("entry.0",
          ["%a.addr = alloca i32", "store %a, %a.addr", "%b.addr = alloca i32",
           "store %b, %b.addr", "%c.addr = alloca i32", "store %c, %c.addr",
           "%t0 = load %c.addr", "store %t0, %b.addr", "store %t0, %a.addr",
           "%t1 = load %a.addr", "ret %t1"])])] := by
  have h : parseExpressionOf "a = b = c"
      = .ok (.binary none
          (.binary none (.identifier none "a") .Equal (.identifier none "b"))
          .Equal (.identifier none "c")) := rfl
  refine ⟨h, ?_, ?_, ?_⟩
  · rw [h]
    intro hc
    simp at hc
  · decide!
  · decide!

/-- The parse of an assignment chain for every parser state: for identifiers `a`, `b`,
`c` followed by a token that ends the expression, `a = b = c` parses as
`BinaryExpr(=, BinaryExpr(=, a, b), c)`, for every bound from 5 on. -/
theorem assignment_is_left_associative (fuel : Nat) (p : Parser)
    (h0 : (p.tokenAt 0).type = .Identifier)
    (h1 : (p.tokenAt 1).type = .Equal)
    (h2 : (p.tokenAt 2).type = .Identifier)
    (h3 : (p.tokenAt 3).type = .Equal)
    (h4 : (p.tokenAt 4).type = .Identifier)
    (h5 : Parser.endsExpression (p.tokenAt 5).type = true) :
    (Parser.hooks (fuel + 5)).parseExpression 0 p
      = .ok (.binary none
          (.binary none (.identifier none (p.tokenAt 0).value) .Equal
            (.identifier none (p.tokenAt 2).value))
          .Equal (.identifier none (p.tokenAt 4).value), p.skip 5) := by
  have h := Parser.parseExpression_two_operators fuel p h0 (by rw [h1]; decide) h2
    (by rw [h3]; decide) h4 h5
  rw [h1, h3, if_neg (by decide)] at h
  exact h

/-- The parse of the statement `a = b = c;`. -/
theorem assignment_witness :
    (Parser.hooks 5).parseExpression 0 (Parser.new "a = b = c;")
      = .ok (.binary none
          (.binary none (.identifier none "a") .Equal (.identifier none "b"))
          .Equal (.identifier none "c"), (Parser.new "a = b = c;").skip 5) :=
  assignment_is_left_associative 0 (Parser.new "a = b = c;") rfl rfl rfl rfl rfl rfl

/-! ## Suffixed literals and field lists -/

/-- C15 (failing inputs): the lexer scans `42i64`, `1_000_i64` and `1.5f32` as one token
each, suffix included, and `parsePrimary` builds literals without explicit type from them
(the second with the value 1); only the forms `42_i64` and `1.5_f32`, with one `_` and it
before the suffix, get the explicit type. -/
theorem suffix_needs_the_only_underscore :
    (Lexer.new "42i64").nextToken.1 = ⟨.Integer, "42i64", 1, 1⟩ ∧
    parseExpressionOf "42i64" = .ok (.literal { value := .int 42, explicitType := none }) ∧
    (Lexer.new "1_000_i64").nextToken.1 = ⟨.Integer, "1_000_i64", 1, 1⟩ ∧
    parseExpressionOf "1_000_i64" = .ok (.literal { value := .int 1, explicitType := none }) ∧
    (Lexer.new "1.5f32").nextToken.1 = ⟨.Float, "1.5f32", 1, 1⟩ ∧
    parseExpressionOf "1.5f32"
      = .ok (.literal { value := .double "1.5", explicitType := none }) ∧
    parseExpressionOf "42_i64"
      = .ok (.literal { value := .int 42, explicitType := some (.primitive .I64) }) ∧
    parseExpressionOf "1.5_f32"
      = .ok (.literal { value := .double "1.5", explicitType := some (.primitive .F32) }) :=
  ⟨rfl, rfl, rfl, rfl, rfl, rfl, rfl, rfl⟩

/-- C16 (failing inputs): the parser rejects `struct Point[T] { x: T, y: T }` and an enum
with the variant `ChangeColor { r: i32, g: i32, b: i32 }` with the error of
`parseStructField`, which demands `let`; with `let` before each field, and `;` or nothing
between the fields, both parse. -/
theorem fields_without_let_are_rejected :
    parseProgramOf "struct Point[T] { x: T, y: T }"
      = .error "Expected 'let' in struct field at line 1" ∧
    parseProgramOf
        "enum Message { Quit, Move(i32, i32), Write(string), ChangeColor { r: i32, g: i32, b: i32 } }"
      = .error "Expected 'let' in struct field at line 1" ∧
    parseProgramOf "struct Point[T] { let x: T, let y: T }"
      = .error "Expected 'let' in struct field at line 1" ∧
    parseProgramOf "struct Point[T] { let x: T; let y: T }"
      = .ok [.stmt (.structDecl
          { name := "Point",
            members := [{ name := "x", type := some (.typeParameter "T" ""), isPublic := true },
              { name := "y", type := some (.typeParameter "T" ""), isPublic := true }],
            genericParams := [{ name := "T" }] })] ∧
    parseProgramOf "enum Message { Quit, ChangeColor { let r: i32 let g: i32 let b: i32 } }"
      = .ok [.stmt (.enumDecl
          { name := "Message",
            variants := [{ name := "Quit", variantKind := .Unit },
              { name := "ChangeColor", variantKind := .Struct,
                structFields := [{ name := "r", type := some Ty.i32, isPublic := true },
                  { name := "g", type := some Ty.i32, isPublic := true },
                  { name := "b", type := some Ty.i32, isPublic := true }] }] })] :=
  ⟨rfl, rfl, rfl, rfl, rfl⟩

/-! ## Terminators: the invariant and the primitive steps of the builder -/

namespace MIRBuilder

theorem all_of_dropLast_of_last (p : MIRInstruction → Bool) (l : List MIRInstruction)
    (h1 : l.dropLast.all p = true) (h2 : ∀ a, l.getLast? = some a → p a = true) :
    l.all p = true := by
  rcases List.eq_nil_or_concat l with hnil | ⟨m, last, hl⟩
  · rw [hnil]
    rfl
  · rw [List.concat_eq_append] at hl
    subst hl
    rw [List.dropLast_concat] at h1
    rw [List.all_append, h1, Bool.true_and, List.all_cons, List.all_nil, Bool.and_true]
    exact h2 last (List.getLast?_concat m)

/-- The instructions of a block that does not end in a terminator and has its terminators
in last position only are no terminators. -/
theorem no_terminator_of_open (b : BasicBlock) (hwf : b.terminatorsOnlyLast = true)
    (hopen : b.hasTerminator = false) :
    b.instructions.all (fun inst => !inst.isTerminator) = true := by
  apply all_of_dropLast_of_last _ _ hwf
  intro a ha
  unfold BasicBlock.hasTerminator at hopen
  rw [ha] at hopen
  have hopen2 : a.isTerminator = false := hopen
  show (!a.isTerminator) = true
  rw [hopen2]
  rfl

theorem terminatorsOnlyLast_appended (b : BasicBlock) (l : List MIRInstruction)
    (hwf : b.terminatorsOnlyLast = true) (hopen : b.hasTerminator = false)
    (hl : l.dropLast.all (fun inst => !inst.isTerminator) = true) :
    (appended l b).terminatorsOnlyLast = true := by
  show ((b.instructions ++ l).dropLast.all fun inst => !inst.isTerminator) = true
  by_cases hnil : l = []
  · subst hnil
    rw [List.append_nil]
    exact hwf
  · rw [List.dropLast_append_of_ne_nil _ hnil, List.all_append,
      no_terminator_of_open b hwf hopen, hl]
    rfl

theorem hasTerminator_appended (b : BasicBlock) (l : List MIRInstruction)
    (hopen : b.hasTerminator = false)
    (hl : l.all (fun inst => !inst.isTerminator) = true) :
    (appended l b).hasTerminator = false := by
  show (match (b.instructions ++ l).getLast? with
    | none => false
    | some inst => inst.isTerminator) = false
  by_cases hnil : l = []
  · subst hnil
    rw [List.append_nil]
    exact hopen
  · rw [List.getLast?_append_of_ne_nil _ hnil]
    cases hlast : l.getLast? with
    | none => rfl
    | some a =>
      have hmem : a ∈ l := List.mem_of_getLast?_eq_some hlast
      have := List.all_eq_true.1 hl a hmem
      simpa using this

theorem terminatorCount_le_one (b : BasicBlock) (hwf : b.terminatorsOnlyLast = true) :
    b.terminatorCount ≤ 1 := by
  unfold BasicBlock.terminatorsOnlyLast at hwf
  unfold BasicBlock.terminatorCount
  rcases List.eq_nil_or_concat b.instructions with hnil | ⟨l, last, hl⟩
  · rw [hnil]
    simp
  · rw [List.concat_eq_append] at hl
    rw [hl] at hwf ⊢
    rw [List.dropLast_concat] at hwf
    have hl0 : l.filter MIRInstruction.isTerminator = [] := by
      rw [List.filter_eq_nil_iff]
      intro a ha
      have := List.all_eq_true.1 hwf a ha
      simpa using this
    rw [List.filter_append, hl0, List.nil_append]
    exact (List.length_filter_le _ _).trans (by simp)

theorem Frame.same (s : MIRBuilder) : Frame s s :=
  ⟨Nat.le_refl _, fun _ _ _ => rfl, fun _ h => Or.inl h⟩

theorem Frame.chain {s s1 s2 : MIRBuilder} (h1 : Frame s s1) (h2 : Frame s1 s2) :
    Frame s s2 := by
  refine ⟨Nat.le_trans h1.length h2.length, ?_, ?_⟩
  · intro j hj hc
    rw [h2.others j (Nat.lt_of_lt_of_le hj h1.length) ?_, h1.others j hj hc]
    intro hc1
    rcases h1.current j hc1 with h | h
    · exact hc h
    · omega
  · intro k hk
    rcases h2.current k hk with h | h
    · exact h1.current k h
    · exact Or.inr (Nat.le_trans h1.length h)

theorem Idle.kept {s s' : MIRBuilder} {n : Nat} (hi : Idle s n) (hf : Frame s s') :
    Idle s' n := by
  obtain ⟨⟨b, hb, he⟩, hc⟩ := hi
  have hn : n < s.blockStore.length := getElem?_lt_length hb
  refine ⟨⟨b, ?_, he⟩, ?_⟩
  · rw [hf.others n hn hc, hb]
  · intro hc'
    rcases hf.current n hc' with h | h
    · exact hc h
    · omega

theorem Open.index_lt {s : MIRBuilder} (ho : Open s) :
    ∃ k, s.currentBlock = some k ∧ k < s.blockStore.length := by
  obtain ⟨k, b, hc, hb, _⟩ := ho
  exact ⟨k, hc, getElem?_lt_length hb⟩

/-- The state after instructions are appended to an open current block; only the last of
them may be a terminator. -/
theorem appendTo_step (s : MIRBuilder) (k : Nat) (b : BasicBlock) (l : List MIRInstruction)
    (hc : s.currentBlock = some k) (hb : s.blockStore[k]? = some b)
    (hopen : b.hasTerminator = false) (hinv : Inv s)
    (hl : l.dropLast.all (fun inst => !inst.isTerminator) = true) :
    Inv (s.appendTo k l) ∧ Frame s (s.appendTo k l) ∧
      (l.all (fun inst => !inst.isTerminator) = true → Open (s.appendTo k l)) := by
  refine ⟨⟨?_, ?_⟩, ⟨?_, ?_, ?_⟩, ?_⟩
  · intro j b1 hj
    rw [appendTo_get] at hj
    by_cases hkj : k = j
    · rw [if_pos hkj, hb] at hj
      cases hj
      exact terminatorsOnlyLast_appended b l (hinv.blocks k b hb) hopen hl
    · rw [if_neg hkj] at hj
      exact hinv.blocks j b1 hj
  · rw [appendTo_structTypes]
    exact hinv.noDestructors
  · rw [appendTo_length]
  · intro j _ hcj
    rw [appendTo_get_ne]
    intro e
    exact hcj (by rw [hc, e])
  · intro k1 hk1
    rw [appendTo_currentBlock] at hk1
    exact Or.inl hk1
  · intro hall
    refine ⟨k, appended l b, ?_, ?_, hasTerminator_appended b l hopen hall⟩
    · rw [appendTo_currentBlock, hc]
    · rw [appendTo_get_same, hb]
      rfl

/-- What `emit` does from an open block. -/
theorem emit_step (inst : MIRInstruction) (s s' : MIRBuilder) (a : Unit)
    (h : emit inst s = .ok (a, s')) (hinv : Inv s) (ho : Open s) :
    Inv s' ∧ Frame s s' ∧ (inst.isTerminator = false → Open s') := by
  obtain ⟨k, b, hc, hb, hopen⟩ := ho
  rw [emit_run inst s k b hc hb] at h
  cases h
  obtain ⟨h1, h2, h3⟩ := appendTo_step s k b [inst] hc hb hopen hinv rfl
  refine ⟨h1, h2, fun hnt => h3 ?_⟩
  simp [hnt]

theorem ESpec.emitE (inst : MIRInstruction) (hnt : inst.isTerminator = false) :
    ESpec (emit inst) := by
  intro s a s' h hinv ho
  obtain ⟨h1, h2, h3⟩ := emit_step inst s s' a h hinv ho
  exact ⟨h1, h2, h3 hnt⟩

theorem SSpec.emitS (inst : MIRInstruction) : SSpec (emit inst) := by
  intro s a s' h hinv ho
  obtain ⟨h1, h2, _⟩ := emit_step inst s s' a h hinv ho
  exact ⟨h1, h2⟩

theorem ESpec.toS {α : Type} {x : BuildM α} (h : ESpec x) : SSpec x :=
  fun s a s' hr hinv ho => ⟨(h s a s' hr hinv ho).1, (h s a s' hr hinv ho).2.1⟩

theorem DSpec.asS {α : Type} {x : BuildM α} (h : DSpec x) : SSpec x :=
  fun s a s' hr hinv _ => h s a s' hr hinv

theorem KSpec.keepsInv {α : Type} {x : BuildM α} (h : KSpec x) {s s' : MIRBuilder} {a : α}
    (hr : x s = .ok (a, s')) (hinv : Inv s) : Inv s' := by
  obtain ⟨h1, _, h3⟩ := h s a s' hr hinv
  exact ⟨fun j b hj => hinv.blocks j b (by rw [← h1]; exact hj), h3⟩

theorem KSpec.keepsFrame {α : Type} {x : BuildM α} (h : KSpec x) {s s' : MIRBuilder} {a : α}
    (hr : x s = .ok (a, s')) (hinv : Inv s) : Frame s s' := by
  obtain ⟨h1, h2, _⟩ := h s a s' hr hinv
  refine ⟨by rw [h1], fun j _ _ => by rw [h1], fun k hk => Or.inl (by rw [← h2]; exact hk)⟩

theorem KSpec.keepsOpen {α : Type} {x : BuildM α} (h : KSpec x) {s s' : MIRBuilder} {a : α}
    (hr : x s = .ok (a, s')) (hinv : Inv s) (ho : Open s) : Open s' := by
  obtain ⟨h1, h2, _⟩ := h s a s' hr hinv
  obtain ⟨k, b, hc, hb, hopen⟩ := ho
  exact ⟨k, b, by rw [h2, hc], by rw [h1, hb], hopen⟩

theorem KSpec.toE {α : Type} {x : BuildM α} (h : KSpec x) : ESpec x :=
  fun _ _ _ hr hinv ho => ⟨h.keepsInv hr hinv, h.keepsFrame hr hinv, h.keepsOpen hr hinv ho⟩

theorem KSpec.toD {α : Type} {x : BuildM α} (h : KSpec x) : DSpec x :=
  fun _ _ _ hr hinv => ⟨h.keepsInv hr hinv, h.keepsFrame hr hinv⟩

theorem KSpec.pureK {α : Type} (a : α) : KSpec (pure a : BuildM α) := by
  intro s a' s' h hinv
  cases h
  exact ⟨rfl, rfl, hinv.noDestructors⟩

theorem KSpec.throwK {α : Type} (e : String) : KSpec (throw e : BuildM α) := by
  intro s a' s' h
  cases h

theorem KSpec.getK : KSpec (get : BuildM MIRBuilder) := by
  intro s a' s' h hinv
  cases h
  exact ⟨rfl, rfl, hinv.noDestructors⟩

theorem KSpec.modifyK (f : MIRBuilder → MIRBuilder)
    (h1 : ∀ s, (f s).blockStore = s.blockStore)
    (h2 : ∀ s, (f s).currentBlock = s.currentBlock)
    (h3 : ∀ s, (f s).structTypes = s.structTypes) :
    KSpec (modify f : BuildM PUnit) := by
  intro s a' s' h hinv
  cases h
  exact ⟨h1 s, h2 s, by rw [h3 s]; exact hinv.noDestructors⟩

theorem KSpec.bindK {α β : Type} {x : BuildM α} {f : α → BuildM β} (hx : KSpec x)
    (hf : ∀ a, KSpec (f a)) : KSpec (x >>= f) := by
  intro s b s' h hinv
  obtain ⟨a, s1, h1, h2⟩ := build_bind_eq_ok.1 h
  obtain ⟨e1, e2, _⟩ := hx s a s1 h1 hinv
  obtain ⟨e3, e4, e5⟩ := hf a s1 b s' h2 (hx.keepsInv h1 hinv)
  exact ⟨by rw [e3, e1], by rw [e4, e2], e5⟩

theorem ESpec.bindE {α β : Type} {x : BuildM α} {f : α → BuildM β} (hx : ESpec x)
    (hf : ∀ a, ESpec (f a)) : ESpec (x >>= f) := by
  intro s b s' h hinv ho
  obtain ⟨a, s1, h1, h2⟩ := build_bind_eq_ok.1 h
  obtain ⟨i1, f1, o1⟩ := hx s a s1 h1 hinv ho
  obtain ⟨i2, f2, o2⟩ := hf a s1 b s' h2 i1 o1
  exact ⟨i2, f1.chain f2, o2⟩

theorem SSpec.bindS {α β : Type} {x : BuildM α} {f : α → BuildM β} (hx : ESpec x)
    (hf : ∀ a, SSpec (f a)) : SSpec (x >>= f) := by
  intro s b s' h hinv ho
  obtain ⟨a, s1, h1, h2⟩ := build_bind_eq_ok.1 h
  obtain ⟨i1, f1, o1⟩ := hx s a s1 h1 hinv ho
  obtain ⟨i2, f2⟩ := hf a s1 b s' h2 i1 o1
  exact ⟨i2, f1.chain f2⟩

theorem SSpec.thenD {α β : Type} {x : BuildM α} {f : α → BuildM β} (hx : SSpec x)
    (hf : ∀ a, DSpec (f a)) : SSpec (x >>= f) := by
  intro s b s' h hinv ho
  obtain ⟨a, s1, h1, h2⟩ := build_bind_eq_ok.1 h
  obtain ⟨i1, f1⟩ := hx s a s1 h1 hinv ho
  obtain ⟨i2, f2⟩ := hf a s1 b s' h2 i1
  exact ⟨i2, f1.chain f2⟩

theorem DSpec.bindD {α β : Type} {x : BuildM α} {f : α → BuildM β} (hx : DSpec x)
    (hf : ∀ a, DSpec (f a)) : DSpec (x >>= f) := by
  intro s b s' h hinv
  obtain ⟨a, s1, h1, h2⟩ := build_bind_eq_ok.1 h
  obtain ⟨i1, f1⟩ := hx s a s1 h1 hinv
  obtain ⟨i2, f2⟩ := hf a s1 b s' h2 i1
  exact ⟨i2, f1.chain f2⟩

theorem ESpec.pureE {α : Type} (a : α) : ESpec (pure a : BuildM α) := (KSpec.pureK a).toE

theorem ESpec.throwE {α : Type} (e : String) : ESpec (throw e : BuildM α) := (KSpec.throwK e).toE

theorem ESpec.getE : ESpec (get : BuildM MIRBuilder) := KSpec.getK.toE

theorem KSpec.newTemp : KSpec newTemp := by
  intro s a s' h hinv
  cases h
  exact ⟨rfl, rfl, hinv.noDestructors⟩

theorem KSpec.varMapIndex (k : String) : KSpec (varMapIndex k) := by
  intro s a s' h hinv
  cases h
  exact ⟨rfl, rfl, hinv.noDestructors⟩

theorem KSpec.ptrTypeMapIndex (k : String) : KSpec (ptrTypeMapIndex k) := by
  intro s a s' h hinv
  cases h
  exact ⟨rfl, rfl, hinv.noDestructors⟩

theorem KSpec.setPtrType (k v : String) : KSpec (setPtrType k v) :=
  KSpec.modifyK _ (fun _ => rfl) (fun _ => rfl) (fun _ => rfl)

theorem KSpec.setVar (k v : String) : KSpec (setVar k v) :=
  KSpec.modifyK _ (fun _ => rfl) (fun _ => rfl) (fun _ => rfl)

theorem KSpec.pushScope : KSpec pushScope :=
  KSpec.modifyK _ (fun _ => rfl) (fun _ => rfl) (fun _ => rfl)

theorem ESpec.forEachE {α : Type} (body : α → BuildM Unit) (l : List α)
    (h : ∀ a ∈ l, ESpec (body a)) : ESpec (forEach body l) := by
  induction l with
  | nil => exact ESpec.pureE ()
  | cons a l ih =>
    unfold MIRBuilder.forEach
    exact ESpec.bindE (h a (List.mem_cons_self a l))
      (fun _ => ih (fun b hb => h b (List.mem_cons_of_mem a hb)))

theorem KSpec.forEachK {α : Type} (body : α → BuildM Unit) (l : List α)
    (h : ∀ a ∈ l, KSpec (body a)) : KSpec (forEach body l) := by
  induction l with
  | nil => exact KSpec.pureK ()
  | cons a l ih =>
    unfold MIRBuilder.forEach
    exact KSpec.bindK (h a (List.mem_cons_self a l))
      (fun _ => ih (fun b hb => h b (List.mem_cons_of_mem a hb)))

theorem DSpec.forEachD {α : Type} (body : α → BuildM Unit) (l : List α)
    (h : ∀ a ∈ l, DSpec (body a)) : DSpec (forEach body l) := by
  induction l with
  | nil => exact (KSpec.pureK ()).toD
  | cons a l ih =>
    unfold MIRBuilder.forEach
    exact DSpec.bindD (h a (List.mem_cons_self a l))
      (fun _ => ih (fun b hb => h b (List.mem_cons_of_mem a hb)))

end MIRBuilder

/-! ## Terminators: lowering an expression keeps the current block open -/

set_option linter.unusedTactic false
set_option linter.unreachableTactic false

namespace MIRBuilder

theorem finishCall_spec (calleeName : String) (args : List String) :
    ESpec (finishCall calleeName args) := by
  unfold finishCall
  repeat' first
    | assumption
    | with_reducible exact ESpec.pureE _
    | with_reducible exact ESpec.throwE _
    | with_reducible exact ESpec.getE
    | with_reducible exact KSpec.newTemp.toE
    | with_reducible apply ESpec.emitE
    | rfl
    | with_reducible apply ESpec.bindE
    | dsimp only
    | split
    | intro _

theorem emitVariant_spec (enumTy : Ty) (tag : Int) (args : BuildM (List String))
    (hargs : ESpec args) : ESpec (emitVariant enumTy tag args) := by
  unfold emitVariant
  repeat' first
    | assumption
    | with_reducible exact ESpec.pureE _
    | with_reducible exact ESpec.throwE _
    | with_reducible exact ESpec.getE
    | with_reducible exact KSpec.newTemp.toE
    | with_reducible apply ESpec.emitE
    | rfl
    | with_reducible apply ESpec.bindE
    | dsimp only
    | split
    | intro _

theorem lowerLiteralExpr_spec (expr : LiteralExpr) : ESpec (lowerLiteralExpr expr) := by
  unfold lowerLiteralExpr
  refine ESpec.bindE KSpec.newTemp.toE (fun temp => ESpec.bindE (ESpec.emitE _ ?_)
    (fun _ => ESpec.pureE _))
  cases expr.value <;> rfl

theorem lowerBinaryExpr_spec (op : TokenType) (leftAddr left right : BuildM String)
    (h1 : ESpec leftAddr) (h2 : ESpec left) (h3 : ESpec right) :
    ESpec (lowerBinaryExpr op leftAddr left right) := by
  unfold lowerBinaryExpr
  repeat' first
    | assumption
    | with_reducible exact ESpec.pureE _
    | with_reducible exact ESpec.throwE _
    | with_reducible exact ESpec.getE
    | with_reducible exact KSpec.newTemp.toE
    | with_reducible apply ESpec.emitE
    | rfl
    | with_reducible apply ESpec.bindE
    | dsimp only
    | split
    | intro _

theorem lowerUnaryExpr_spec (op : TokenType) (operand : BuildM String) (h : ESpec operand) :
    ESpec (lowerUnaryExpr op operand) := by
  unfold lowerUnaryExpr
  repeat' first
    | assumption
    | with_reducible exact ESpec.pureE _
    | with_reducible exact ESpec.throwE _
    | with_reducible exact ESpec.getE
    | with_reducible exact KSpec.newTemp.toE
    | with_reducible apply ESpec.emitE
    | rfl
    | with_reducible apply ESpec.bindE
    | dsimp only
    | split
    | intro _

theorem lowerIdentifierExpr_spec (name : String) : ESpec (lowerIdentifierExpr name) := by
  unfold lowerIdentifierExpr
  repeat' first
    | assumption
    | with_reducible exact ESpec.pureE _
    | with_reducible exact ESpec.throwE _
    | with_reducible exact ESpec.getE
    | with_reducible exact KSpec.newTemp.toE
    | with_reducible apply ESpec.emitE
    | rfl
    | with_reducible exact emitVariant_spec _ _ _ (ESpec.pureE _)
    | with_reducible apply ESpec.bindE
    | dsimp only
    | split
    | intro _

theorem lowerMemberCall_spec (base : Expr) (memberName : String)
    (args : BuildM (List String)) (hargs : ESpec args) :
    ESpec (lowerMemberCall base memberName args) := by
  unfold lowerMemberCall
  repeat' first
    | assumption
    | with_reducible exact ESpec.pureE _
    | with_reducible exact ESpec.throwE _
    | with_reducible exact ESpec.getE
    | with_reducible exact KSpec.newTemp.toE
    | with_reducible apply ESpec.emitE
    | rfl
    | with_reducible exact emitVariant_spec _ _ _ hargs
    | with_reducible exact finishCall_spec _ _
    | with_reducible apply ESpec.bindE
    | dsimp only
    | split
    | intro _

theorem lowerCallExpr_spec (callee : Expr) (selfAddr : BuildM String)
    (args : BuildM (List String)) (hself : ESpec selfAddr) (hargs : ESpec args) :
    ESpec (lowerCallExpr callee selfAddr args) := by
  unfold lowerCallExpr
  repeat' first
    | assumption
    | with_reducible exact ESpec.pureE _
    | with_reducible exact ESpec.throwE _
    | with_reducible exact ESpec.getE
    | with_reducible exact KSpec.newTemp.toE
    | with_reducible exact (KSpec.setPtrType _ _).toE
    | with_reducible apply ESpec.emitE
    | rfl
    | with_reducible exact emitVariant_spec _ _ _ hargs
    | with_reducible exact finishCall_spec _ _
    | with_reducible exact lowerMemberCall_spec _ _ _ hargs
    | with_reducible apply ESpec.bindE
    | dsimp only
    | split
    | intro _

theorem lowerMemberAccessExpr_spec (base : Expr) (memberName : String)
    (baseAddr : BuildM String) (h : ESpec baseAddr) :
    ESpec (lowerMemberAccessExpr base memberName baseAddr) := by
  unfold lowerMemberAccessExpr
  repeat' first
    | assumption
    | with_reducible exact ESpec.pureE _
    | with_reducible exact ESpec.throwE _
    | with_reducible exact ESpec.getE
    | with_reducible exact KSpec.newTemp.toE
    | with_reducible exact (KSpec.ptrTypeMapIndex _).toE
    | with_reducible apply ESpec.emitE
    | rfl
    | with_reducible exact emitVariant_spec _ _ _ (ESpec.pureE _)
    | with_reducible apply ESpec.bindE
    | dsimp only
    | split
    | intro _

theorem lowerVariantArgs_spec (inits : List (String × BuildM String))
    (h : ∀ init ∈ inits, ESpec init.2) (fields : List Field) :
    ESpec (lowerVariantArgs inits fields) := by
  induction fields with
  | nil => exact ESpec.pureE _
  | cons f fs ih =>
    unfold lowerVariantArgs
    split
    · rename_i init hfind
      exact ESpec.bindE (h init (List.mem_of_find?_eq_some hfind))
        (fun _ => ESpec.bindE ih (fun _ => ESpec.pureE _))
    · exact ih

theorem storeFields_spec (structPtr name : String) (inits : List (String × BuildM String))
    (h : ∀ init ∈ inits, ESpec init.2) : ESpec (storeFields structPtr name inits) := by
  induction inits with
  | nil => exact ESpec.pureE _
  | cons init rest ih =>
    unfold storeFields
    exact ESpec.bindE (h init (List.mem_cons_self _ _))
      (fun _ => ESpec.bindE KSpec.newTemp.toE
        (fun _ => ESpec.bindE (ESpec.emitE _ rfl)
          (fun _ => ESpec.bindE (ESpec.emitE _ rfl)
            (fun _ => ih (fun i hi => h i (List.mem_cons_of_mem _ hi))))))

theorem lowerVariantLiteral_spec (name : String) (inits : List (String × BuildM String))
    (h : ∀ init ∈ inits, ESpec init.2) : ESpec (lowerVariantLiteral name inits) := by
  unfold lowerVariantLiteral
  repeat' first
    | assumption
    | with_reducible exact ESpec.pureE _
    | with_reducible exact ESpec.throwE _
    | with_reducible exact ESpec.getE
    | with_reducible exact KSpec.newTemp.toE
    | with_reducible exact (KSpec.setPtrType _ _).toE
    | with_reducible apply ESpec.emitE
    | rfl
    | with_reducible exact lowerVariantArgs_spec _ h _
    | with_reducible apply ESpec.bindE
    | dsimp only
    | split
    | intro _

theorem lowerStructLiteralExpr_spec (base : Expr) (inits : List (String × BuildM String))
    (h : ∀ init ∈ inits, ESpec init.2) : ESpec (lowerStructLiteralExpr base inits) := by
  unfold lowerStructLiteralExpr
  repeat' first
    | assumption
    | with_reducible exact ESpec.pureE _
    | with_reducible exact ESpec.throwE _
    | with_reducible exact ESpec.getE
    | with_reducible exact KSpec.newTemp.toE
    | with_reducible exact (KSpec.setPtrType _ _).toE
    | with_reducible apply ESpec.emitE
    | rfl
    | with_reducible exact lowerVariantLiteral_spec _ _ h
    | with_reducible exact storeFields_spec _ _ _ h
    | with_reducible apply ESpec.bindE
    | dsimp only
    | split
    | intro _

theorem storeElements_spec (arrayPtr : String) (elements : List (BuildM String))
    (h : ∀ element ∈ elements, ESpec element) (i : Nat) :
    ESpec (storeElements arrayPtr i elements) := by
  induction elements generalizing i with
  | nil => exact ESpec.pureE _
  | cons element rest ih =>
    unfold storeElements
    exact ESpec.bindE (h element (List.mem_cons_self _ _))
      (fun _ => ESpec.bindE KSpec.newTemp.toE
        (fun _ => ESpec.bindE (ESpec.emitE _ rfl)
          (fun _ => ESpec.bindE KSpec.newTemp.toE
            (fun _ => ESpec.bindE (ESpec.emitE _ rfl)
              (fun _ => ESpec.bindE (ESpec.emitE _ rfl)
                (fun _ => ih (fun e he => h e (List.mem_cons_of_mem _ he)) (i + 1)))))))

theorem lowerArrayLiteralExpr_spec (elements : List (BuildM String))
    (h : ∀ element ∈ elements, ESpec element) : ESpec (lowerArrayLiteralExpr elements) := by
  unfold lowerArrayLiteralExpr
  repeat' first
    | assumption
    | with_reducible exact ESpec.pureE _
    | with_reducible exact KSpec.newTemp.toE
    | with_reducible apply ESpec.emitE
    | rfl
    | with_reducible exact storeElements_spec _ _ h _
    | with_reducible apply ESpec.bindE
    | intro _

theorem lowerIndexingAddr_spec (baseType : Option Ty) (baseAddr index : BuildM String)
    (h1 : ESpec baseAddr) (h2 : ESpec index) :
    ESpec (lowerIndexingAddr baseType baseAddr index) := by
  unfold lowerIndexingAddr
  repeat' first
    | assumption
    | with_reducible exact ESpec.pureE _
    | with_reducible exact ESpec.throwE _
    | with_reducible exact KSpec.newTemp.toE
    | with_reducible apply ESpec.emitE
    | rfl
    | with_reducible apply ESpec.bindE
    | dsimp only
    | split
    | intro _

theorem lowerMemberAddr_spec (memberName : String) (baseAddr : BuildM String)
    (h : ESpec baseAddr) : ESpec (lowerMemberAddr memberName baseAddr) := by
  unfold lowerMemberAddr
  repeat' first
    | assumption
    | with_reducible exact ESpec.pureE _
    | with_reducible exact KSpec.newTemp.toE
    | with_reducible exact (KSpec.ptrTypeMapIndex _).toE
    | with_reducible apply ESpec.emitE
    | rfl
    | with_reducible apply ESpec.bindE
    | intro _

theorem lowerIdentifierAddr_spec (name : String) : ESpec (lowerIdentifierAddr name) := by
  unfold lowerIdentifierAddr
  repeat' first
    | with_reducible exact ESpec.pureE _
    | with_reducible exact ESpec.throwE _
    | with_reducible exact ESpec.getE
    | with_reducible apply ESpec.bindE
    | dsimp only
    | split
    | intro _

theorem lowerIndexingExpr_spec (elementAddr : BuildM String) (h : ESpec elementAddr) :
    ESpec (lowerIndexingExpr elementAddr) := by
  unfold lowerIndexingExpr
  repeat' first
    | assumption
    | with_reducible exact ESpec.pureE _
    | with_reducible exact KSpec.newTemp.toE
    | with_reducible apply ESpec.emitE
    | rfl
    | with_reducible apply ESpec.bindE
    | intro _

theorem lowerDereferenceExpr_spec (operand : BuildM String) (h : ESpec operand) :
    ESpec (lowerDereferenceExpr operand) := by
  unfold lowerDereferenceExpr
  repeat' first
    | assumption
    | with_reducible exact ESpec.pureE _
    | with_reducible exact KSpec.newTemp.toE
    | with_reducible apply ESpec.emitE
    | rfl
    | with_reducible apply ESpec.bindE
    | intro _

theorem firstArg_spec {α : Type} (arg0 : Option α) : ESpec (firstArg arg0) := by
  unfold firstArg
  split
  · exact ESpec.pureE _
  · exact ESpec.throwE _

theorem lowerIntrinsicExpr_spec (kind : IntrinsicKind) (typeArg : Option Ty)
    (arg0Text : Option String) (arg0 : Option (BuildM String))
    (h : ∀ x, arg0 = some x → ESpec x) :
    ESpec (lowerIntrinsicExpr kind typeArg arg0Text arg0) := by
  unfold lowerIntrinsicExpr
  refine ESpec.bindE KSpec.newTemp.toE (fun result => ?_)
  cases kind with
  | Sizeof => exact ESpec.bindE (ESpec.emitE (.Sizeof result typeArg) rfl) (fun _ => ESpec.pureE _)
  | Alignof =>
    exact ESpec.bindE (ESpec.emitE (.Alignof result typeArg) rfl) (fun _ => ESpec.pureE _)
  | Alloca => exact ESpec.bindE (ESpec.emitE (.Alloca result typeArg) rfl) (fun _ => ESpec.pureE _)
  | Offsetof =>
    exact ESpec.bindE (firstArg_spec _)
      (fun memberName => ESpec.bindE (ESpec.emitE (.Offsetof result typeArg memberName) rfl)
        (fun _ => ESpec.pureE _))
  | Malloc =>
    cases arg0 with
    | none =>
      exact ESpec.bindE
        (ESpec.bindE KSpec.newTemp.toE
          (fun sizeTemp => ESpec.bindE (ESpec.emitE (.Sizeof sizeTemp typeArg) rfl)
            (fun _ => ESpec.pureE _)))
        (fun sizeVal => ESpec.bindE (ESpec.emitE (.Call result "malloc" [sizeVal]) rfl)
          (fun _ => ESpec.pureE _))
    | some x =>
      exact ESpec.bindE (h x rfl)
        (fun sizeVal => ESpec.bindE (ESpec.emitE (.Call result "malloc" [sizeVal]) rfl)
          (fun _ => ESpec.pureE _))
  | Free =>
    cases arg0 with
    | none =>
      intro s a s' hr
      cases hr
    | some x =>
      show ESpec (x >>= fun ptrVal => emit (.Call "" "free" [ptrVal]) >>= fun _ => pure result)
      exact ESpec.bindE (h x rfl)
        (fun ptrVal => ESpec.bindE (ESpec.emitE (.Call "" "free" [ptrVal]) rfl)
          (fun _ => ESpec.pureE _))

end MIRBuilder

/-! ## Terminators: the steps of the statements -/

set_option linter.unusedTactic false
set_option linter.unreachableTactic false

namespace MIRBuilder

theorem needsDestructor_false (structTypes : List (String × StructInfo)) (type : Ty)
    (h : NoDestructors structTypes) : needsDestructor structTypes type = false := by
  unfold needsDestructor
  cases hl : structTypes.lookup type.getName with
  | none => simp
  | some info => simp [h _ info hl]

theorem isTerminator_of_isCall (i : MIRInstruction) (h : i.isCall = true) :
    i.isTerminator = false := by
  cases i <;> first | rfl | cases h

theorem emitAllDestructors_spec : ESpec emitAllDestructors := by
  intro s a s' h hinv ho
  obtain ⟨k, b, hc, hb, hopen⟩ := ho
  rw [emitAllDestructors_run s k b hc hb] at h
  cases h
  have hall : (pendingDestructors s).all (fun inst => !inst.isTerminator) = true := by
    rw [List.all_eq_true]
    intro i hi
    rw [isTerminator_of_isCall i (pendingDestructors_isCall s i hi)]
    rfl
  have hdrop : (pendingDestructors s).dropLast.all (fun inst => !inst.isTerminator) = true := by
    rw [List.all_eq_true]
    intro i hi
    exact List.all_eq_true.1 hall i (List.mem_of_mem_dropLast hi)
  obtain ⟨h1, h2, h3⟩ := appendTo_step s k b _ hc hb hopen hinv hdrop
  exact ⟨h1, h2, h3 hall⟩

theorem hasTerminator_run (s s' : MIRBuilder) (t : Bool)
    (h : hasTerminator s = .ok (t, s')) : s' = s ∧ (t = false → Open s) := by
  unfold hasTerminator at h
  cases hc : s.currentBlock with
  | none =>
    rw [hc] at h
    cases h
  | some k =>
    rw [hc] at h
    cases hb : s.blockStore[k]? with
    | none =>
      simp only [hb] at h
      cases h
    | some b =>
      simp only [hb] at h
      cases h
      exact ⟨rfl, fun ht => ⟨k, b, hc, hb, ht⟩⟩

/-- A computation that runs only when the current block is not terminated. -/
theorem DSpec.unlessTerminated {x : BuildM Unit} (hx : SSpec x) :
    DSpec (hasTerminator >>= fun terminated => if terminated then pure () else x) := by
  intro s a s' h hinv
  obtain ⟨t, s1, h1, h2⟩ := build_bind_eq_ok.1 h
  obtain ⟨e, ho⟩ := hasTerminator_run s s1 t h1
  subst e
  cases t with
  | true =>
    cases h2
    exact ⟨hinv, Frame.same _⟩
  | false => exact hx _ a s' h2 hinv (ho rfl)

theorem emitUnlessTerminated_spec (inst : MIRInstruction) :
    DSpec (emitUnlessTerminated inst) :=
  DSpec.unlessTerminated (SSpec.emitS inst)

theorem lowerNext_spec (stmt rest : BuildM Unit) (h1 : SSpec stmt) (h2 : DSpec rest) :
    DSpec (lowerNext stmt rest) :=
  DSpec.unlessTerminated (SSpec.thenD h1 (fun _ => h2))

theorem destroyVariable_spec (v : LocalVar) : KSpec (destroyVariable v) := by
  intro s a s' h hinv
  unfold destroyVariable at h
  rw [build_bind_ok (build_get s), needsDestructor_false _ _ hinv.noDestructors] at h
  cases h
  exact ⟨rfl, rfl, hinv.noDestructors⟩

theorem forgetVariable_spec (shadowed : List ShadowedVar) (v : LocalVar) :
    KSpec (forgetVariable shadowed v) := by
  unfold forgetVariable
  split
  · exact KSpec.pureK _
  · exact KSpec.bindK (KSpec.varMapIndex _)
      (fun _ => KSpec.modifyK _ (fun _ => rfl) (fun _ => rfl) (fun _ => rfl))

theorem restoreShadowed_spec (sh : ShadowedVar) : KSpec (restoreShadowed sh) := by
  unfold restoreShadowed
  refine KSpec.bindK (KSpec.setVar _ _) (fun _ => ?_)
  split
  · exact KSpec.pureK _
  · exact KSpec.setPtrType _ _

theorem popScope_spec : KSpec popScope := by
  unfold popScope
  refine KSpec.bindK KSpec.getK (fun s0 => ?_)
  split
  · exact KSpec.pureK _
  · exact KSpec.bindK
      (KSpec.forEachK _ _ (fun v _ =>
        KSpec.bindK (destroyVariable_spec v) (fun _ => forgetVariable_spec _ v)))
      (fun _ => KSpec.bindK (KSpec.forEachK _ _ (fun sh _ => restoreShadowed_spec sh))
        (fun _ => KSpec.modifyK _ (fun _ => rfl) (fun _ => rfl) (fun _ => rfl)))

theorem lowerBlock_spec (statements : BuildM Unit) (shouldPushScope : Bool)
    (h : DSpec statements) : DSpec (lowerBlock statements shouldPushScope) := by
  unfold lowerBlock
  cases shouldPushScope with
  | true =>
    exact DSpec.bindD KSpec.pushScope.toD
      (fun _ => DSpec.bindD h (fun _ => popScope_spec.toD))
  | false =>
    exact DSpec.bindD (KSpec.pureK _).toD
      (fun _ => DSpec.bindD h (fun _ => (KSpec.pureK _).toD))

theorem lowerBody_spec (body : Option (BuildM Unit)) (h : ∀ x, body = some x → DSpec x) :
    DSpec (lowerBody body) := by
  unfold lowerBody
  cases body with
  | none => exact (KSpec.throwK _).toD
  | some x => exact h x rfl

theorem pushVariable_spec (v : LocalVar) : KSpec (pushVariable v) := by
  unfold pushVariable
  refine KSpec.modifyK _ ?_ ?_ ?_ <;> intro s <;> cases s.scopeStack.getLast? <;> rfl

theorem pushShadowed_spec (name : String) : KSpec (pushShadowed name) := by
  unfold pushShadowed
  refine KSpec.modifyK _ ?_ ?_ ?_ <;> intro s <;> cases s.scopeStack.getLast? <;>
    cases s.varMap.lookup name <;> rfl

theorem registerParamType_spec (stackName : String) (type : Ty) :
    KSpec (registerParamType stackName type) := by
  unfold registerParamType
  repeat' first
    | with_reducible exact KSpec.pureK _
    | with_reducible exact KSpec.setPtrType _ _
    | split

theorem lowerVarDecl_tail (decl : VarDecl) (initVal : String) :
    ESpec (get >>= fun s : MIRBuilder =>
      let type := varDeclType s.structTypes decl
      let mirName := "%" ++ decl.name
      emit (MIRInstruction.Alloca mirName (some type)) >>= fun _ =>
      pushVariable { name := decl.name, type := type } >>= fun _ =>
      pushShadowed decl.name >>= fun _ =>
      setVar decl.name mirName >>= fun _ =>
      (if type.isStruct = true then setPtrType mirName type.getName else pure ()) >>= fun _ =>
      if initVal.isEmpty = true then pure () else emit (MIRInstruction.Store initVal mirName)) := by
  refine ESpec.bindE ESpec.getE (fun s => ?_)
  dsimp only
  repeat' first
    | with_reducible exact ESpec.pureE _
    | with_reducible exact (KSpec.setPtrType _ _).toE
    | with_reducible exact (KSpec.setVar _ _).toE
    | with_reducible exact (pushVariable_spec _).toE
    | with_reducible exact (pushShadowed_spec _).toE
    | with_reducible apply ESpec.emitE
    | with_reducible apply ESpec.bindE
    | rfl
    | split
    | intro _

theorem lowerVarDecl_spec (decl : VarDecl) (init : Option (BuildM String))
    (h : ∀ x, init = some x → ESpec x) : ESpec (lowerVarDecl decl init) := by
  unfold lowerVarDecl
  refine ESpec.bindE ESpec.getE (fun s0 => ?_)
  split
  · exact ESpec.throwE _
  · cases init with
    | none => exact ESpec.bindE (ESpec.pureE _) (fun initVal => lowerVarDecl_tail decl initVal)
    | some x => exact ESpec.bindE (h x rfl) (fun initVal => lowerVarDecl_tail decl initVal)

theorem lowerFunctionParam_spec (param : Param) : ESpec (lowerFunctionParam param) := by
  unfold lowerFunctionParam
  repeat' first
    | with_reducible exact (KSpec.setVar _ _).toE
    | with_reducible exact (pushVariable_spec _).toE
    | with_reducible exact (registerParamType_spec _ _).toE
    | with_reducible apply ESpec.emitE
    | with_reducible apply ESpec.bindE
    | rfl
    | dsimp only
    | intro _

theorem lowerMethodParam_spec (param : Param) : ESpec (lowerMethodParam param) := by
  unfold lowerMethodParam
  repeat' first
    | with_reducible exact (KSpec.setVar _ _).toE
    | with_reducible exact (registerParamType_spec _ _).toE
    | with_reducible apply ESpec.emitE
    | with_reducible apply ESpec.bindE
    | rfl
    | dsimp only
    | intro _

theorem implicitReturn_spec (returnType : Ty) : SSpec (implicitReturn returnType) := by
  unfold implicitReturn
  refine SSpec.bindS popScope_spec.toE (fun _ => ?_)
  split
  · exact SSpec.emitS _
  · split
    · exact SSpec.bindS KSpec.newTemp.toE
        (fun temp => SSpec.bindS (ESpec.emitE (.ConstInt temp 0) rfl) (fun _ => SSpec.emitS _))
    · exact (ESpec.pureE _).toS

theorem lowerReturnStmt_spec (expression : Option (BuildM String))
    (h : ∀ x, expression = some x → ESpec x) : SSpec (lowerReturnStmt expression) := by
  unfold lowerReturnStmt
  cases expression with
  | none =>
    exact SSpec.bindS (ESpec.pureE _)
      (fun val => SSpec.bindS emitAllDestructors_spec (fun _ => SSpec.emitS (.Ret val)))
  | some x =>
    exact SSpec.bindS (h x rfl)
      (fun val => SSpec.bindS emitAllDestructors_spec (fun _ => SSpec.emitS (.Ret val)))

theorem lowerBreakStmt_spec : SSpec lowerBreakStmt := by
  unfold lowerBreakStmt
  refine SSpec.bindS ESpec.getE (fun s => ?_)
  split
  · exact (ESpec.throwE _).toS
  · exact SSpec.emitS _

theorem lowerContinueStmt_spec : SSpec lowerContinueStmt := by
  unfold lowerContinueStmt
  refine SSpec.bindS ESpec.getE (fun s => ?_)
  split
  · exact (ESpec.throwE _).toS
  · split
    · exact (ESpec.throwE _).toS
    · exact SSpec.emitS _

theorem lowerExprStmt_spec (expression : BuildM String) (h : ESpec expression) :
    ESpec (lowerExprStmt expression) :=
  ESpec.bindE h (fun _ => ESpec.pureE _)

theorem lookup_noDestructors (structTypes : List (String × StructInfo)) (name : String)
    (info : StructInfo) (h : NoDestructors structTypes) (hinfo : info.hasDestructor = false) :
    NoDestructors (stdMapSet name info structTypes) := by
  intro n i hl
  rw [lookup_stdMapSet] at hl
  split at hl
  · cases hl
    exact hinfo
  · exact h n i hl

theorem lowerStructDecl_spec (decl : StructDecl) : KSpec (lowerStructDecl decl) := by
  unfold lowerStructDecl
  split
  · exact KSpec.throwK _
  · intro s a s' h hinv
    cases h
    exact ⟨rfl, rfl, lookup_noDestructors _ _ _ hinv.noDestructors rfl⟩

theorem lowerEnumDecl_spec (decl : EnumDecl) : KSpec (lowerEnumDecl decl) := by
  unfold lowerEnumDecl
  split
  · split
    · exact KSpec.modifyK _ (fun _ => rfl) (fun _ => rfl) (fun _ => rfl)
    · exact KSpec.pureK _
  · exact KSpec.pureK _

theorem lowerClassDecl_spec (decl : ClassDecl) (members : BuildM Unit)
    (hd : declaresDestructor decl.name decl.members = false) (h : DSpec members) :
    DSpec (lowerClassDecl decl members) := by
  unfold lowerClassDecl
  split
  · exact (KSpec.throwK _).toD
  · refine DSpec.bindD (KSpec.toD ?_) (fun _ => h)
    intro s a s' hr hinv
    cases hr
    exact ⟨rfl, rfl, lookup_noDestructors _ _ _ hinv.noDestructors hd⟩

end MIRBuilder

/-! ## Terminators: the blocks that a control statement makes -/

set_option linter.unusedTactic false
set_option linter.unreachableTactic false

namespace MIRBuilder

theorem Triple.seq {α β : Type} {P : MIRBuilder → Prop} {x : BuildM α}
    {Q : α → MIRBuilder → Prop} {f : α → BuildM β} {R : β → MIRBuilder → Prop}
    (hx : Triple P x Q) (hf : ∀ a, Triple (Q a) (f a) R) : Triple P (x >>= f) R := by
  intro s b s' h hp
  obtain ⟨a, s1, h1, h2⟩ := build_bind_eq_ok.1 h
  exact hf a s1 b s' h2 (hx s a s1 h1 hp)

theorem Triple.throws {α : Type} (P : MIRBuilder → Prop) (e : String)
    (Q : α → MIRBuilder → Prop) : Triple P (throw e : BuildM α) Q := by
  intro s a s' h
  cases h

theorem Triple.done {α : Type} (P : MIRBuilder → Prop) (a : α) :
    Triple P (pure a : BuildM α) (fun _ => P) := by
  intro s b s' h hp
  cases h
  exact hp

theorem Triple.relax {α : Type} {P : MIRBuilder → Prop} {x : BuildM α} {s0 : MIRBuilder}
    {idle : List Nat} (h : Triple P x (fun _ => Stage s0 idle true)) :
    Triple P x (fun _ => Stage s0 idle false) := by
  intro s a s' hr hp
  refine ⟨(h s a s' hr hp).1, ?_⟩
  intro e
  cases e

theorem Track.start (s : MIRBuilder) (hinv : Inv s) : Track s [] s :=
  ⟨hinv, Frame.same s, List.nodup_nil, fun _ h => nomatch h⟩

theorem Track.step {s0 s s' : MIRBuilder} {idle : List Nat} (ht : Track s0 idle s)
    (hinv : Inv s') (hf : Frame s s') : Track s0 idle s' :=
  ⟨hinv, ht.frame.chain hf, ht.nodup, fun n hn => ⟨(ht.idle n hn).1.kept hf, (ht.idle n hn).2⟩⟩

theorem SSpec.ofOpenStage {α : Type} {x : BuildM α} {o : Bool}
    (h : ∀ s0, Triple (Stage s0 [] true) x (fun _ => Stage s0 [] o)) : SSpec x := by
  intro s a s' hr hinv ho
  have := h s s a s' hr ⟨Track.start s hinv, fun _ => ho⟩
  exact ⟨this.1.inv, this.1.frame⟩

theorem ESpec.ofStage {α : Type} {x : BuildM α}
    (h : ∀ s0, Triple (Stage s0 [] true) x (fun _ => Stage s0 [] true)) : ESpec x := by
  intro s a s' hr hinv ho
  have := h s s a s' hr ⟨Track.start s hinv, fun _ => ho⟩
  exact ⟨this.1.inv, this.1.frame, this.2 rfl⟩

theorem DSpec.ofAnyStage {α : Type} {x : BuildM α} {o : Bool}
    (h : ∀ s0, Triple (Stage s0 [] false) x (fun _ => Stage s0 [] o)) : DSpec x := by
  intro s a s' hr hinv
  have := h s s a s' hr ⟨Track.start s hinv, fun e => nomatch e⟩
  exact ⟨this.1.inv, this.1.frame⟩

theorem stage_E {α : Type} {x : BuildM α} (hx : ESpec x) (s0 : MIRBuilder)
    (idle : List Nat) : Triple (Stage s0 idle true) x (fun _ => Stage s0 idle true) := by
  intro s a s' hr hp
  obtain ⟨h1, h2, h3⟩ := hx s a s' hr hp.1.inv (hp.2 rfl)
  exact ⟨hp.1.step h1 h2, fun _ => h3⟩

theorem stage_S {α : Type} {x : BuildM α} (hx : SSpec x) (s0 : MIRBuilder)
    (idle : List Nat) : Triple (Stage s0 idle true) x (fun _ => Stage s0 idle false) := by
  intro s a s' hr hp
  obtain ⟨h1, h2⟩ := hx s a s' hr hp.1.inv (hp.2 rfl)
  exact ⟨hp.1.step h1 h2, fun e => nomatch e⟩

theorem stage_D {α : Type} {x : BuildM α} (hx : DSpec x) (s0 : MIRBuilder)
    (idle : List Nat) (o : Bool) :
    Triple (Stage s0 idle o) x (fun _ => Stage s0 idle false) := by
  intro s a s' hr hp
  obtain ⟨h1, h2⟩ := hx s a s' hr hp.1.inv
  exact ⟨hp.1.step h1 h2, fun e => nomatch e⟩

theorem stage_K {α : Type} {x : BuildM α} (hx : KSpec x) (s0 : MIRBuilder)
    (idle : List Nat) (o : Bool) :
    Triple (Stage s0 idle o) x (fun _ => Stage s0 idle o) := by
  intro s a s' hr hp
  exact ⟨hp.1.step (hx.keepsInv hr hp.1.inv) (hx.keepsFrame hr hp.1.inv),
    fun e => hx.keepsOpen hr hp.1.inv (hp.2 e)⟩

theorem stage_modify {f : MIRBuilder → MIRBuilder} {s0 : MIRBuilder} {idle : List Nat}
    {o : Bool} (h1 : ∀ s, (f s).blockStore = s.blockStore)
    (h2 : ∀ s, (f s).currentBlock = s.currentBlock)
    (h3 : ∀ s, (f s).structTypes = s.structTypes) :
    Triple (Stage s0 idle o) (modify f : BuildM PUnit) (fun _ => Stage s0 idle o) :=
  stage_K (KSpec.modifyK f h1 h2 h3) s0 idle o

/-- The guard `if (!currentBlock->hasTerminator())` before a computation, and what
follows it. -/
theorem stage_guard {β : Type} {x : BuildM Unit} {f : Unit → BuildM β}
    {R : β → MIRBuilder → Prop} {s0 : MIRBuilder} {idle : List Nat} {o : Bool}
    (hx : SSpec x) (hf : Triple (Stage s0 idle false) (f ()) R) :
    Triple (Stage s0 idle o)
      (hasTerminator >>= fun terminated => (if terminated = true then pure () else x) >>= f)
      R := by
  intro s b s' h hp
  obtain ⟨t, s1, h1, h2⟩ := build_bind_eq_ok.1 h
  obtain ⟨e, ho⟩ := hasTerminator_run s s1 t h1
  subst e
  obtain ⟨u, s2, h3, h4⟩ := build_bind_eq_ok.1 h2
  cases t with
  | true =>
    rw [if_pos rfl] at h3
    cases h3
    exact hf _ b s' h4 ⟨hp.1, fun e => nomatch e⟩
  | false =>
    rw [if_neg (by decide)] at h3
    obtain ⟨i, f2⟩ := hx _ u s2 h3 hp.1.inv (ho rfl)
    exact hf s2 b s' h4 ⟨hp.1.step i f2, fun e => nomatch e⟩

theorem stage_emitE {inst : MIRInstruction} {s0 : MIRBuilder} {idle : List Nat}
    (hnt : inst.isTerminator = false) :
    Triple (Stage s0 idle true) (emit inst) (fun _ => Stage s0 idle true) :=
  stage_E (ESpec.emitE inst hnt) s0 idle

theorem stage_emitS (inst : MIRInstruction) (s0 : MIRBuilder) (idle : List Nat) :
    Triple (Stage s0 idle true) (emit inst) (fun _ => Stage s0 idle false) :=
  stage_S (SSpec.emitS inst) s0 idle

theorem newBlock_grows (name : String) (s s' : MIRBuilder) (bp : BlockPtr)
    (h : newBlock name s = .ok (bp, s')) :
    bp.index = s.blockStore.length ∧ s'.blockStore = s.blockStore ++ [{ name := bp.name }]
      ∧ s'.currentBlock = s.currentBlock ∧ s'.structTypes = s.structTypes := by
  unfold newBlock at h
  cases hf : s.currentFunction with
  | none =>
    rw [hf] at h
    cases h
  | some f =>
    rw [hf] at h
    cases hg : s.functionStore[f]? with
    | none =>
      simp only [hg] at h
      cases h
    | some func =>
      simp only [hg] at h
      cases h
      exact ⟨rfl, rfl, rfl, rfl⟩

theorem terminatorsOnlyLast_of_empty (b : BasicBlock) (h : b.instructions = []) :
    b.terminatorsOnlyLast = true := by
  unfold BasicBlock.terminatorsOnlyLast
  rw [h]
  rfl

theorem hasTerminator_of_empty (b : BasicBlock) (h : b.instructions = []) :
    b.hasTerminator = false := by
  unfold BasicBlock.hasTerminator
  rw [h]
  rfl

/-- The store with one new empty block at its end. -/
theorem grown_store (s s' : MIRBuilder) (b : BasicBlock) (hb : b.instructions = [])
    (hs : s'.blockStore = s.blockStore ++ [b]) (ht : s'.structTypes = s.structTypes)
    (hinv : Inv s) :
    Inv s' ∧ (∀ j, j < s.blockStore.length → s'.blockStore[j]? = s.blockStore[j]?)
      ∧ s'.blockStore[s.blockStore.length]? = some b
      ∧ s'.blockStore.length = s.blockStore.length + 1 := by
  refine ⟨⟨?_, ?_⟩, ?_, ?_, ?_⟩
  · intro j b1 hj
    rw [hs] at hj
    by_cases hlt : j < s.blockStore.length
    · rw [List.getElem?_append_left hlt] at hj
      exact hinv.blocks j b1 hj
    · rw [List.getElem?_append_right (Nat.le_of_not_lt hlt)] at hj
      cases hk : j - s.blockStore.length with
      | zero =>
        rw [hk] at hj
        cases hj
        exact terminatorsOnlyLast_of_empty _ hb
      | succ k =>
        rw [hk] at hj
        cases hj
  · rw [ht]
    exact hinv.noDestructors
  · intro j hj
    rw [hs, List.getElem?_append_left hj]
  · rw [hs, List.getElem?_append_right (Nat.le_refl _), Nat.sub_self]
    rfl
  · rw [hs, List.length_append]
    rfl

theorem stage_newBlock (name : String) (s0 : MIRBuilder) (idle : List Nat) :
    Triple (Stage s0 idle true) (newBlock name)
      (fun bp => Stage s0 (bp.index :: idle) true) := by
  intro s bp s' hr hp
  obtain ⟨hi, hs, hc, ht⟩ := newBlock_grows name s s' bp hr
  obtain ⟨hinv, hold, hnew, hlen⟩ := grown_store s s' _ rfl hs ht hp.1.inv
  obtain ⟨k, hk, hklt⟩ := (hp.2 rfl).index_lt
  have hf : Frame s s' := by
    refine ⟨by omega, fun j hj _ => hold j hj, ?_⟩
    intro k1 hk1
    rw [hc] at hk1
    exact Or.inl hk1
  have hidx : ∀ n ∈ idle, n < s.blockStore.length := by
    intro n hn
    obtain ⟨⟨b, hb, _⟩, _⟩ := (hp.1.idle n hn).1
    exact getElem?_lt_length hb
  refine ⟨⟨hinv, hp.1.frame.chain hf, ?_, ?_⟩, ?_⟩
  · refine List.nodup_cons.2 ⟨?_, hp.1.nodup⟩
    intro hmem
    have := hidx _ hmem
    omega
  · intro n hn
    rcases List.mem_cons.1 hn with e | hmem
    · subst e
      refine ⟨⟨⟨{ name := bp.name }, ?_, rfl⟩, ?_⟩, ?_⟩
      · rw [hi]
        exact hnew
      · rw [hc, hk, hi]
        intro e
        cases e
        omega
      · rw [hi]
        exact hp.1.frame.length
    · exact ⟨(hp.1.idle n hmem).1.kept hf, (hp.1.idle n hmem).2⟩
  · intro _
    obtain ⟨k1, b, hc1, hb, hopen⟩ := hp.2 rfl
    refine ⟨k1, b, by rw [hc, hc1], ?_, hopen⟩
    rw [hold k1 (getElem?_lt_length hb), hb]

theorem stage_enter (bp : BlockPtr) (s0 : MIRBuilder) (l1 l2 : List Nat) (o : Bool) :
    Triple (Stage s0 (l1 ++ bp.index :: l2) o) (setCurrentBlock bp)
      (fun _ => Stage s0 (l1 ++ l2) true) := by
  intro s a s' hr hp
  cases hr
  have hnd := hp.1.nodup
  have hsub : ∀ n ∈ l1 ++ l2, n ∈ l1 ++ bp.index :: l2 ∧ n ≠ bp.index := by
    intro n hn
    rw [List.nodup_append] at hnd
    obtain ⟨_, h2, h3⟩ := hnd
    rcases List.mem_append.1 hn with h | h
    · refine ⟨List.mem_append_left _ h, ?_⟩
      intro e
      subst e
      exact h3 h (List.mem_cons_self _ _)
    · refine ⟨List.mem_append_right _ (List.mem_cons_of_mem _ h), ?_⟩
      intro e
      subst e
      exact (List.nodup_cons.1 h2).1 h
  obtain ⟨⟨⟨b, hb, he⟩, _⟩, hge⟩ := hp.1.idle bp.index (by simp)
  refine ⟨⟨⟨hp.1.inv.blocks, hp.1.inv.noDestructors⟩, ⟨hp.1.frame.length, hp.1.frame.others, ?_⟩,
    ?_, ?_⟩, ?_⟩
  · intro k hk
    cases hk
    exact Or.inr hge
  · rw [List.nodup_append] at hnd ⊢
    obtain ⟨h1, h2, h3⟩ := hnd
    exact ⟨h1, (List.nodup_cons.1 h2).2, fun _ hx hy => h3 hx (List.mem_cons_of_mem _ hy)⟩
  · intro n hn
    obtain ⟨hmem, hne⟩ := hsub n hn
    obtain ⟨⟨hex, _⟩, hn0⟩ := hp.1.idle n hmem
    refine ⟨⟨hex, ?_⟩, hn0⟩
    intro e
    cases e
    exact hne rfl
  · intro _
    exact ⟨bp.index, b, rfl, hb, hasTerminator_of_empty b he⟩

theorem stage_enter0 (bp : BlockPtr) (s0 : MIRBuilder) (l : List Nat) (o : Bool) :
    Triple (Stage s0 (bp.index :: l) o) (setCurrentBlock bp) (fun _ => Stage s0 l true) :=
  stage_enter bp s0 [] l o

theorem stage_enter1 (bp : BlockPtr) (s0 : MIRBuilder) (a : Nat) (l : List Nat) (o : Bool) :
    Triple (Stage s0 (a :: bp.index :: l) o) (setCurrentBlock bp)
      (fun _ => Stage s0 (a :: l) true) :=
  stage_enter bp s0 [a] l o

theorem stage_enter2 (bp : BlockPtr) (s0 : MIRBuilder) (a b : Nat) (l : List Nat) (o : Bool) :
    Triple (Stage s0 (a :: b :: bp.index :: l) o) (setCurrentBlock bp)
      (fun _ => Stage s0 (a :: b :: l) true) :=
  stage_enter bp s0 [a, b] l o

theorem stage_enter3 (bp : BlockPtr) (s0 : MIRBuilder) (a b c : Nat) (l : List Nat)
    (o : Bool) :
    Triple (Stage s0 (a :: b :: c :: bp.index :: l) o) (setCurrentBlock bp)
      (fun _ => Stage s0 (a :: b :: c :: l) true) :=
  stage_enter bp s0 [a, b, c] l o

theorem enterFunction_grows (func : Nat) (entryName : String) (s s' : MIRBuilder) (a : Unit)
    (h : enterFunction func entryName s = .ok (a, s')) :
    s'.blockStore = s.blockStore ++ [{ name := entryName }]
      ∧ s'.currentBlock = some s.blockStore.length ∧ s'.structTypes = s.structTypes := by
  unfold enterFunction at h
  cases hg : s.functionStore[func]? with
  | none =>
    simp only [hg] at h
    cases h
  | some f =>
    simp only [hg] at h
    cases h
    exact ⟨rfl, rfl, rfl⟩

theorem stage_enterFunction (func : Nat) (entryName : String) (s0 : MIRBuilder) (o : Bool) :
    Triple (Stage s0 [] o) (enterFunction func entryName) (fun _ => Stage s0 [] true) := by
  intro s a s' hr hp
  obtain ⟨hs, hc, ht⟩ := enterFunction_grows func entryName s s' a hr
  obtain ⟨hinv, hold, hnew, hlen⟩ := grown_store s s' { name := entryName } rfl hs ht hp.1.inv
  have hf : Frame s0 s' := by
    refine ⟨?_, fun j hj hc => ?_, ?_⟩
    · rw [hlen]
      exact Nat.le_succ_of_le hp.1.frame.length
    · rw [hold j (Nat.lt_of_lt_of_le hj hp.1.frame.length)]
      exact hp.1.frame.others j hj hc
    · intro k hk
      rw [hc] at hk
      cases hk
      exact Or.inr hp.1.frame.length
  exact ⟨⟨hinv, hf, List.nodup_nil, fun _ h => nomatch h⟩,
    fun _ => ⟨_, _, hc, hnew, rfl⟩⟩

theorem stage_leaveFunction (func : Nat) (s0 : MIRBuilder) (o : Bool) :
    Triple (Stage s0 [] o) (leaveFunction func) (fun _ => Stage s0 [] false) := by
  intro s a s' hr hp
  cases hr
  refine ⟨⟨⟨hp.1.inv.blocks, hp.1.inv.noDestructors⟩,
    ⟨hp.1.frame.length, hp.1.frame.others, ?_⟩, List.nodup_nil, fun _ h => nomatch h⟩,
    fun e => nomatch e⟩
  intro k hk
  cases hk

theorem pushLoop_spec (ctx : LoopContext) : KSpec (pushLoop ctx) :=
  KSpec.modifyK _ (fun _ => rfl) (fun _ => rfl) (fun _ => rfl)

theorem popLoop_spec : KSpec popLoop :=
  KSpec.modifyK _ (fun _ => rfl) (fun _ => rfl) (fun _ => rfl)

theorem newFunction_spec (func : MIRFunction) : KSpec (newFunction func) := by
  intro s a s' h hinv
  cases h
  exact ⟨rfl, rfl, hinv.noDestructors⟩

theorem deref_spec {α : Type} (o : Option α) (what : String) : KSpec (deref o what) := by
  unfold deref
  cases o with
  | none => exact KSpec.throwK _
  | some a => exact KSpec.pureK _

end MIRBuilder

/-! ## Terminators: the control statements and the declarations of functions -/

set_option linter.unusedTactic false
set_option linter.unreachableTactic false

namespace MIRBuilder

theorem methodReturn_spec (returnType : Ty) :
    SSpec (if returnType.isVoid then emit (.Ret "") else pure () : BuildM Unit) := by
  split
  · exact SSpec.emitS _
  · exact (ESpec.pureE _).toS

theorem lowerQuestionExpr_spec (operandType : Option Ty) (operand : BuildM String)
    (h : ESpec operand) : ESpec (lowerQuestionExpr operandType operand) := by
  refine ESpec.ofStage (fun s0 => ?_)
  unfold lowerQuestionExpr
  repeat' first
    | assumption
    | with_reducible exact Triple.done _ _
    | with_reducible exact Triple.throws _ _ _
    | with_reducible exact stage_newBlock _ _ _
    | with_reducible exact stage_enter0 _ _ _ _
    | with_reducible exact stage_enter1 _ _ _ _ _
    | with_reducible exact stage_enter2 _ _ _ _ _ _
    | with_reducible exact stage_enter3 _ _ _ _ _ _ _
    | with_reducible exact stage_enterFunction _ _ _ _
    | with_reducible exact stage_leaveFunction _ _ _
    | with_reducible exact stage_K KSpec.newTemp _ _ _
    | with_reducible exact stage_K (pushLoop_spec _) _ _ _
    | with_reducible exact stage_K popLoop_spec _ _ _
    | with_reducible exact stage_K (deref_spec _ _) _ _ _
    | with_reducible exact stage_K (KSpec.setVar _ _) _ _ _
    | with_reducible exact stage_K (KSpec.setPtrType _ _) _ _ _
    | with_reducible exact stage_K KSpec.pushScope _ _ _
    | with_reducible exact stage_K KSpec.getK _ _ _
    | with_reducible exact stage_K (newFunction_spec _) _ _ _
    | with_reducible exact stage_E emitAllDestructors_spec _ _
    | with_reducible exact stage_E (lowerLiteralExpr_spec _) _ _
    | with_reducible exact stage_E (ESpec.forEachE _ _ (fun p _ => lowerFunctionParam_spec p)) _ _
    | with_reducible exact stage_E (ESpec.forEachE _ _ (fun p _ => lowerMethodParam_spec p)) _ _
    | with_reducible exact stage_D (emitUnlessTerminated_spec _) _ _ _
    | with_reducible apply stage_guard (implicitReturn_spec _)
    | with_reducible apply stage_guard (methodReturn_spec _)
    | with_reducible exact stage_D (lowerBody_spec _ (by assumption)) _ _ _
    | ((with_reducible apply stage_emitE); rfl)
    | with_reducible exact stage_emitS _ _ _
    | with_reducible exact stage_E (by assumption) _ _
    | with_reducible exact stage_D (by assumption) _ _ _
    | (apply stage_modify <;> (intro _; rfl))
    | with_reducible apply Triple.seq
    | with_reducible intro _
    | dsimp only
    | split
    | with_reducible apply Triple.relax

theorem lowerIfStmt_spec (condition : BuildM String) (thenBlock : BuildM Unit)
    (elseBlock : Option (BuildM Unit)) (hc : ESpec condition) (ht : DSpec thenBlock)
    (he : ∀ x, elseBlock = some x → DSpec x) :
    SSpec (lowerIfStmt condition thenBlock elseBlock) := by
  refine SSpec.ofOpenStage (o := true) (fun s0 => ?_)
  unfold lowerIfStmt
  cases elseBlock with
  | none =>
    repeat' first
      | assumption
      | with_reducible exact Triple.done _ _
      | with_reducible exact Triple.throws _ _ _
      | with_reducible exact stage_newBlock _ _ _
      | with_reducible exact stage_enter0 _ _ _ _
      | with_reducible exact stage_enter1 _ _ _ _ _
      | with_reducible exact stage_enter2 _ _ _ _ _ _
      | with_reducible exact stage_enter3 _ _ _ _ _ _ _
      | with_reducible exact stage_enterFunction _ _ _ _
      | with_reducible exact stage_leaveFunction _ _ _
      | with_reducible exact stage_K KSpec.newTemp _ _ _
      | with_reducible exact stage_K (pushLoop_spec _) _ _ _
      | with_reducible exact stage_K popLoop_spec _ _ _
      | with_reducible exact stage_K (deref_spec _ _) _ _ _
      | with_reducible exact stage_K (KSpec.setVar _ _) _ _ _
      | with_reducible exact stage_K (KSpec.setPtrType _ _) _ _ _
      | with_reducible exact stage_K KSpec.pushScope _ _ _
      | with_reducible exact stage_K KSpec.getK _ _ _
      | with_reducible exact stage_K (newFunction_spec _) _ _ _
      | with_reducible exact stage_E emitAllDestructors_spec _ _
      | with_reducible exact stage_E (lowerLiteralExpr_spec _) _ _
      | with_reducible exact stage_E (ESpec.forEachE _ _ (fun p _ => lowerFunctionParam_spec p)) _ _
      | with_reducible exact stage_E (ESpec.forEachE _ _ (fun p _ => lowerMethodParam_spec p)) _ _
      | with_reducible exact stage_D (emitUnlessTerminated_spec _) _ _ _
      | with_reducible apply stage_guard (implicitReturn_spec _)
      | with_reducible apply stage_guard (methodReturn_spec _)
      | with_reducible exact stage_D (lowerBody_spec _ (by assumption)) _ _ _
      | ((with_reducible apply stage_emitE); rfl)
      | with_reducible exact stage_emitS _ _ _
      | with_reducible exact stage_E (by assumption) _ _
      | with_reducible exact stage_D (by assumption) _ _ _
      | (apply stage_modify <;> (intro _; rfl))
      | with_reducible apply Triple.seq
      | with_reducible intro _
      | dsimp only
      | split
      | with_reducible apply Triple.relax
  | some lowerElse =>
    have hl : DSpec lowerElse := he lowerElse rfl
    simp only [bind_assoc, pure_bind]
    repeat' first
      | assumption
      | with_reducible exact Triple.done _ _
      | with_reducible exact Triple.throws _ _ _
      | with_reducible exact stage_newBlock _ _ _
      | with_reducible exact stage_enter0 _ _ _ _
      | with_reducible exact stage_enter1 _ _ _ _ _
      | with_reducible exact stage_enter2 _ _ _ _ _ _
      | with_reducible exact stage_enter3 _ _ _ _ _ _ _
      | with_reducible exact stage_enterFunction _ _ _ _
      | with_reducible exact stage_leaveFunction _ _ _
      | with_reducible exact stage_K KSpec.newTemp _ _ _
      | with_reducible exact stage_K (pushLoop_spec _) _ _ _
      | with_reducible exact stage_K popLoop_spec _ _ _
      | with_reducible exact stage_K (deref_spec _ _) _ _ _
      | with_reducible exact stage_K (KSpec.setVar _ _) _ _ _
      | with_reducible exact stage_K (KSpec.setPtrType _ _) _ _ _
      | with_reducible exact stage_K KSpec.pushScope _ _ _
      | with_reducible exact stage_K KSpec.getK _ _ _
      | with_reducible exact stage_K (newFunction_spec _) _ _ _
      | with_reducible exact stage_E emitAllDestructors_spec _ _
      | with_reducible exact stage_E (lowerLiteralExpr_spec _) _ _
      | with_reducible exact stage_E (ESpec.forEachE _ _ (fun p _ => lowerFunctionParam_spec p)) _ _
      | with_reducible exact stage_E (ESpec.forEachE _ _ (fun p _ => lowerMethodParam_spec p)) _ _
      | with_reducible exact stage_D (emitUnlessTerminated_spec _) _ _ _
      | with_reducible apply stage_guard (implicitReturn_spec _)
      | with_reducible apply stage_guard (methodReturn_spec _)
      | with_reducible exact stage_D (lowerBody_spec _ (by assumption)) _ _ _
      | ((with_reducible apply stage_emitE); rfl)
      | with_reducible exact stage_emitS _ _ _
      | with_reducible exact stage_E (by assumption) _ _
      | with_reducible exact stage_D (by assumption) _ _ _
      | (apply stage_modify <;> (intro _; rfl))
      | with_reducible apply Triple.seq
      | with_reducible intro _
      | dsimp only
      | split
      | with_reducible apply Triple.relax

theorem lowerWhileStmt_spec (condition : BuildM String) (body : BuildM Unit)
    (hc : ESpec condition) (hb : DSpec body) : SSpec (lowerWhileStmt condition body) := by
  refine SSpec.ofOpenStage (o := true) (fun s0 => ?_)
  unfold lowerWhileStmt
  repeat' first
    | assumption
    | with_reducible exact Triple.done _ _
    | with_reducible exact Triple.throws _ _ _
    | with_reducible exact stage_newBlock _ _ _
    | with_reducible exact stage_enter0 _ _ _ _
    | with_reducible exact stage_enter1 _ _ _ _ _
    | with_reducible exact stage_enter2 _ _ _ _ _ _
    | with_reducible exact stage_enter3 _ _ _ _ _ _ _
    | with_reducible exact stage_enterFunction _ _ _ _
    | with_reducible exact stage_leaveFunction _ _ _
    | with_reducible exact stage_K KSpec.newTemp _ _ _
    | with_reducible exact stage_K (pushLoop_spec _) _ _ _
    | with_reducible exact stage_K popLoop_spec _ _ _
    | with_reducible exact stage_K (deref_spec _ _) _ _ _
    | with_reducible exact stage_K (KSpec.setVar _ _) _ _ _
    | with_reducible exact stage_K (KSpec.setPtrType _ _) _ _ _
    | with_reducible exact stage_K KSpec.pushScope _ _ _
    | with_reducible exact stage_K KSpec.getK _ _ _
    | with_reducible exact stage_K (newFunction_spec _) _ _ _
    | with_reducible exact stage_E emitAllDestructors_spec _ _
    | with_reducible exact stage_E (lowerLiteralExpr_spec _) _ _
    | with_reducible exact stage_E (ESpec.forEachE _ _ (fun p _ => lowerFunctionParam_spec p)) _ _
    | with_reducible exact stage_E (ESpec.forEachE _ _ (fun p _ => lowerMethodParam_spec p)) _ _
    | with_reducible exact stage_D (emitUnlessTerminated_spec _) _ _ _
    | with_reducible apply stage_guard (implicitReturn_spec _)
    | with_reducible apply stage_guard (methodReturn_spec _)
    | with_reducible exact stage_D (lowerBody_spec _ (by assumption)) _ _ _
    | ((with_reducible apply stage_emitE); rfl)
    | with_reducible exact stage_emitS _ _ _
    | with_reducible exact stage_E (by assumption) _ _
    | with_reducible exact stage_D (by assumption) _ _ _
    | (apply stage_modify <;> (intro _; rfl))
    | with_reducible apply Triple.seq
    | with_reducible intro _
    | dsimp only
    | split
    | with_reducible apply Triple.relax

theorem lowerDoWhileStmt_spec (body : BuildM Unit) (condition : BuildM String)
    (hb : DSpec body) (hc : ESpec condition) : SSpec (lowerDoWhileStmt body condition) := by
  refine SSpec.ofOpenStage (o := true) (fun s0 => ?_)
  unfold lowerDoWhileStmt
  repeat' first
    | assumption
    | with_reducible exact Triple.done _ _
    | with_reducible exact Triple.throws _ _ _
    | with_reducible exact stage_newBlock _ _ _
    | with_reducible exact stage_enter0 _ _ _ _
    | with_reducible exact stage_enter1 _ _ _ _ _
    | with_reducible exact stage_enter2 _ _ _ _ _ _
    | with_reducible exact stage_enter3 _ _ _ _ _ _ _
    | with_reducible exact stage_enterFunction _ _ _ _
    | with_reducible exact stage_leaveFunction _ _ _
    | with_reducible exact stage_K KSpec.newTemp _ _ _
    | with_reducible exact stage_K (pushLoop_spec _) _ _ _
    | with_reducible exact stage_K popLoop_spec _ _ _
    | with_reducible exact stage_K (deref_spec _ _) _ _ _
    | with_reducible exact stage_K (KSpec.setVar _ _) _ _ _
    | with_reducible exact stage_K (KSpec.setPtrType _ _) _ _ _
    | with_reducible exact stage_K KSpec.pushScope _ _ _
    | with_reducible exact stage_K KSpec.getK _ _ _
    | with_reducible exact stage_K (newFunction_spec _) _ _ _
    | with_reducible exact stage_E emitAllDestructors_spec _ _
    | with_reducible exact stage_E (lowerLiteralExpr_spec _) _ _
    | with_reducible exact stage_E (ESpec.forEachE _ _ (fun p _ => lowerFunctionParam_spec p)) _ _
    | with_reducible exact stage_E (ESpec.forEachE _ _ (fun p _ => lowerMethodParam_spec p)) _ _
    | with_reducible exact stage_D (emitUnlessTerminated_spec _) _ _ _
    | with_reducible apply stage_guard (implicitReturn_spec _)
    | with_reducible apply stage_guard (methodReturn_spec _)
    | with_reducible exact stage_D (lowerBody_spec _ (by assumption)) _ _ _
    | ((with_reducible apply stage_emitE); rfl)
    | with_reducible exact stage_emitS _ _ _
    | with_reducible exact stage_E (by assumption) _ _
    | with_reducible exact stage_D (by assumption) _ _ _
    | (apply stage_modify <;> (intro _; rfl))
    | with_reducible apply Triple.seq
    | with_reducible intro _
    | dsimp only
    | split
    | with_reducible apply Triple.relax

theorem lowerForStmt_spec (init : Option (BuildM Unit)) (condition step : Option (BuildM String))
    (body : BuildM Unit) (hi : ∀ x, init = some x → ESpec x)
    (hc : ∀ x, condition = some x → ESpec x) (hs : ∀ x, step = some x → ESpec x)
    (hb : DSpec body) : SSpec (lowerForStmt init condition step body) := by
  refine SSpec.ofOpenStage (o := true) (fun s0 => ?_)
  unfold lowerForStmt
  have hi1 : ∀ x, init = some x → ESpec x := hi
  have hc1 : ∀ x, condition = some x → ESpec x := hc
  have hs1 : ∀ x, step = some x → ESpec x := hs
  cases init with
  | none =>
    cases condition with
    | none =>
      cases step with
      | none =>
        repeat' first
          | assumption
          | with_reducible exact Triple.done _ _
          | with_reducible exact Triple.throws _ _ _
          | with_reducible exact stage_newBlock _ _ _
          | with_reducible exact stage_enter0 _ _ _ _
          | with_reducible exact stage_enter1 _ _ _ _ _
          | with_reducible exact stage_enter2 _ _ _ _ _ _
          | with_reducible exact stage_enter3 _ _ _ _ _ _ _
          | with_reducible exact stage_enterFunction _ _ _ _
          | with_reducible exact stage_leaveFunction _ _ _
          | with_reducible exact stage_K KSpec.newTemp _ _ _
          | with_reducible exact stage_K (pushLoop_spec _) _ _ _
          | with_reducible exact stage_K popLoop_spec _ _ _
          | with_reducible exact stage_K (deref_spec _ _) _ _ _
          | with_reducible exact stage_K (KSpec.setVar _ _) _ _ _
          | with_reducible exact stage_K (KSpec.setPtrType _ _) _ _ _
          | with_reducible exact stage_K KSpec.pushScope _ _ _
          | with_reducible exact stage_K KSpec.getK _ _ _
          | with_reducible exact stage_K (newFunction_spec _) _ _ _
          | with_reducible exact stage_E emitAllDestructors_spec _ _
          | with_reducible exact stage_E (lowerLiteralExpr_spec _) _ _
          | with_reducible exact stage_E (ESpec.forEachE _ _ (fun p _ => lowerFunctionParam_spec p)) _ _
          | with_reducible exact stage_E (ESpec.forEachE _ _ (fun p _ => lowerMethodParam_spec p)) _ _
          | with_reducible exact stage_D (emitUnlessTerminated_spec _) _ _ _
          | with_reducible apply stage_guard (implicitReturn_spec _)
          | with_reducible apply stage_guard (methodReturn_spec _)
          | with_reducible exact stage_D (lowerBody_spec _ (by assumption)) _ _ _
          | ((with_reducible apply stage_emitE); rfl)
          | with_reducible exact stage_emitS _ _ _
          | with_reducible exact stage_E (by assumption) _ _
          | with_reducible exact stage_D (by assumption) _ _ _
          | (apply stage_modify <;> (intro _; rfl))
          | with_reducible apply Triple.seq
          | with_reducible intro _
          | dsimp only
          | split
          | with_reducible apply Triple.relax
      | some lowerStep =>
        have hs2 : ESpec lowerStep := hs1 lowerStep rfl
        repeat' first
          | assumption
          | with_reducible exact Triple.done _ _
          | with_reducible exact Triple.throws _ _ _
          | with_reducible exact stage_newBlock _ _ _
          | with_reducible exact stage_enter0 _ _ _ _
          | with_reducible exact stage_enter1 _ _ _ _ _
          | with_reducible exact stage_enter2 _ _ _ _ _ _
          | with_reducible exact stage_enter3 _ _ _ _ _ _ _
          | with_reducible exact stage_enterFunction _ _ _ _
          | with_reducible exact stage_leaveFunction _ _ _
          | with_reducible exact stage_K KSpec.newTemp _ _ _
          | with_reducible exact stage_K (pushLoop_spec _) _ _ _
          | with_reducible exact stage_K popLoop_spec _ _ _
          | with_reducible exact stage_K (deref_spec _ _) _ _ _
          | with_reducible exact stage_K (KSpec.setVar _ _) _ _ _
          | with_reducible exact stage_K (KSpec.setPtrType _ _) _ _ _
          | with_reducible exact stage_K KSpec.pushScope _ _ _
          | with_reducible exact stage_K KSpec.getK _ _ _
          | with_reducible exact stage_K (newFunction_spec _) _ _ _
          | with_reducible exact stage_E emitAllDestructors_spec _ _
          | with_reducible exact stage_E (lowerLiteralExpr_spec _) _ _
          | with_reducible exact stage_E (ESpec.forEachE _ _ (fun p _ => lowerFunctionParam_spec p)) _ _
          | with_reducible exact stage_E (ESpec.forEachE _ _ (fun p _ => lowerMethodParam_spec p)) _ _
          | with_reducible exact stage_D (emitUnlessTerminated_spec _) _ _ _
          | with_reducible apply stage_guard (implicitReturn_spec _)
          | with_reducible apply stage_guard (methodReturn_spec _)
          | with_reducible exact stage_D (lowerBody_spec _ (by assumption)) _ _ _
          | ((with_reducible apply stage_emitE); rfl)
          | with_reducible exact stage_emitS _ _ _
          | with_reducible exact stage_E (by assumption) _ _
          | with_reducible exact stage_D (by assumption) _ _ _
          | (apply stage_modify <;> (intro _; rfl))
          | with_reducible apply Triple.seq
          | with_reducible intro _
          | dsimp only
          | split
          | with_reducible apply Triple.relax
    | some lowerCond =>
      have hc2 : ESpec lowerCond := hc1 lowerCond rfl
      cases step with
      | none =>
        repeat' first
          | assumption
          | with_reducible exact Triple.done _ _
          | with_reducible exact Triple.throws _ _ _
          | with_reducible exact stage_newBlock _ _ _
          | with_reducible exact stage_enter0 _ _ _ _
          | with_reducible exact stage_enter1 _ _ _ _ _
          | with_reducible exact stage_enter2 _ _ _ _ _ _
          | with_reducible exact stage_enter3 _ _ _ _ _ _ _
          | with_reducible exact stage_enterFunction _ _ _ _
          | with_reducible exact stage_leaveFunction _ _ _
          | with_reducible exact stage_K KSpec.newTemp _ _ _
          | with_reducible exact stage_K (pushLoop_spec _) _ _ _
          | with_reducible exact stage_K popLoop_spec _ _ _
          | with_reducible exact stage_K (deref_spec _ _) _ _ _
          | with_reducible exact stage_K (KSpec.setVar _ _) _ _ _
          | with_reducible exact stage_K (KSpec.setPtrType _ _) _ _ _
          | with_reducible exact stage_K KSpec.pushScope _ _ _
          | with_reducible exact stage_K KSpec.getK _ _ _
          | with_reducible exact stage_K (newFunction_spec _) _ _ _
          | with_reducible exact stage_E emitAllDestructors_spec _ _
          | with_reducible exact stage_E (lowerLiteralExpr_spec _) _ _
          | with_reducible exact stage_E (ESpec.forEachE _ _ (fun p _ => lowerFunctionParam_spec p)) _ _
          | with_reducible exact stage_E (ESpec.forEachE _ _ (fun p _ => lowerMethodParam_spec p)) _ _
          | with_reducible exact stage_D (emitUnlessTerminated_spec _) _ _ _
          | with_reducible apply stage_guard (implicitReturn_spec _)
          | with_reducible apply stage_guard (methodReturn_spec _)
          | with_reducible exact stage_D (lowerBody_spec _ (by assumption)) _ _ _
          | ((with_reducible apply stage_emitE); rfl)
          | with_reducible exact stage_emitS _ _ _
          | with_reducible exact stage_E (by assumption) _ _
          | with_reducible exact stage_D (by assumption) _ _ _
          | (apply stage_modify <;> (intro _; rfl))
          | with_reducible apply Triple.seq
          | with_reducible intro _
          | dsimp only
          | split
          | with_reducible apply Triple.relax
      | some lowerStep =>
        have hs2 : ESpec lowerStep := hs1 lowerStep rfl
        repeat' first
          | assumption
          | with_reducible exact Triple.done _ _
          | with_reducible exact Triple.throws _ _ _
          | with_reducible exact stage_newBlock _ _ _
          | with_reducible exact stage_enter0 _ _ _ _
          | with_reducible exact stage_enter1 _ _ _ _ _
          | with_reducible exact stage_enter2 _ _ _ _ _ _
          | with_reducible exact stage_enter3 _ _ _ _ _ _ _
          | with_reducible exact stage_enterFunction _ _ _ _
          | with_reducible exact stage_leaveFunction _ _ _
          | with_reducible exact stage_K KSpec.newTemp _ _ _
          | with_reducible exact stage_K (pushLoop_spec _) _ _ _
          | with_reducible exact stage_K popLoop_spec _ _ _
          | with_reducible exact stage_K (deref_spec _ _) _ _ _
          | with_reducible exact stage_K (KSpec.setVar _ _) _ _ _
          | with_reducible exact stage_K (KSpec.setPtrType _ _) _ _ _
          | with_reducible exact stage_K KSpec.pushScope _ _ _
          | with_reducible exact stage_K KSpec.getK _ _ _
          | with_reducible exact stage_K (newFunction_spec _) _ _ _
          | with_reducible exact stage_E emitAllDestructors_spec _ _
          | with_reducible exact stage_E (lowerLiteralExpr_spec _) _ _
          | with_reducible exact stage_E (ESpec.forEachE _ _ (fun p _ => lowerFunctionParam_spec p)) _ _
          | with_reducible exact stage_E (ESpec.forEachE _ _ (fun p _ => lowerMethodParam_spec p)) _ _
          | with_reducible exact stage_D (emitUnlessTerminated_spec _) _ _ _
          | with_reducible apply stage_guard (implicitReturn_spec _)
          | with_reducible apply stage_guard (methodReturn_spec _)
          | with_reducible exact stage_D (lowerBody_spec _ (by assumption)) _ _ _
          | ((with_reducible apply stage_emitE); rfl)
          | with_reducible exact stage_emitS _ _ _
          | with_reducible exact stage_E (by assumption) _ _
          | with_reducible exact stage_D (by assumption) _ _ _
          | (apply stage_modify <;> (intro _; rfl))
          | with_reducible apply Triple.seq
          | with_reducible intro _
          | dsimp only
          | split
          | with_reducible apply Triple.relax
  | some lowerInit =>
    have hi2 : ESpec lowerInit := hi1 lowerInit rfl
    cases condition with
    | none =>
      cases step with
      | none =>
        repeat' first
          | assumption
          | with_reducible exact Triple.done _ _
          | with_reducible exact Triple.throws _ _ _
          | with_reducible exact stage_newBlock _ _ _
          | with_reducible exact stage_enter0 _ _ _ _
          | with_reducible exact stage_enter1 _ _ _ _ _
          | with_reducible exact stage_enter2 _ _ _ _ _ _
          | with_reducible exact stage_enter3 _ _ _ _ _ _ _
          | with_reducible exact stage_enterFunction _ _ _ _
          | with_reducible exact stage_leaveFunction _ _ _
          | with_reducible exact stage_K KSpec.newTemp _ _ _
          | with_reducible exact stage_K (pushLoop_spec _) _ _ _
          | with_reducible exact stage_K popLoop_spec _ _ _
          | with_reducible exact stage_K (deref_spec _ _) _ _ _
          | with_reducible exact stage_K (KSpec.setVar _ _) _ _ _
          | with_reducible exact stage_K (KSpec.setPtrType _ _) _ _ _
          | with_reducible exact stage_K KSpec.pushScope _ _ _
          | with_reducible exact stage_K KSpec.getK _ _ _
          | with_reducible exact stage_K (newFunction_spec _) _ _ _
          | with_reducible exact stage_E emitAllDestructors_spec _ _
          | with_reducible exact stage_E (lowerLiteralExpr_spec _) _ _
          | with_reducible exact stage_E (ESpec.forEachE _ _ (fun p _ => lowerFunctionParam_spec p)) _ _
          | with_reducible exact stage_E (ESpec.forEachE _ _ (fun p _ => lowerMethodParam_spec p)) _ _
          | with_reducible exact stage_D (emitUnlessTerminated_spec _) _ _ _
          | with_reducible apply stage_guard (implicitReturn_spec _)
          | with_reducible apply stage_guard (methodReturn_spec _)
          | with_reducible exact stage_D (lowerBody_spec _ (by assumption)) _ _ _
          | ((with_reducible apply stage_emitE); rfl)
          | with_reducible exact stage_emitS _ _ _
          | with_reducible exact stage_E (by assumption) _ _
          | with_reducible exact stage_D (by assumption) _ _ _
          | (apply stage_modify <;> (intro _; rfl))
          | with_reducible apply Triple.seq
          | with_reducible intro _
          | dsimp only
          | split
          | with_reducible apply Triple.relax
      | some lowerStep =>
        have hs2 : ESpec lowerStep := hs1 lowerStep rfl
        repeat' first
          | assumption
          | with_reducible exact Triple.done _ _
          | with_reducible exact Triple.throws _ _ _
          | with_reducible exact stage_newBlock _ _ _
          | with_reducible exact stage_enter0 _ _ _ _
          | with_reducible exact stage_enter1 _ _ _ _ _
          | with_reducible exact stage_enter2 _ _ _ _ _ _
          | with_reducible exact stage_enter3 _ _ _ _ _ _ _
          | with_reducible exact stage_enterFunction _ _ _ _
          | with_reducible exact stage_leaveFunction _ _ _
          | with_reducible exact stage_K KSpec.newTemp _ _ _
          | with_reducible exact stage_K (pushLoop_spec _) _ _ _
          | with_reducible exact stage_K popLoop_spec _ _ _
          | with_reducible exact stage_K (deref_spec _ _) _ _ _
          | with_reducible exact stage_K (KSpec.setVar _ _) _ _ _
          | with_reducible exact stage_K (KSpec.setPtrType _ _) _ _ _
          | with_reducible exact stage_K KSpec.pushScope _ _ _
          | with_reducible exact stage_K KSpec.getK _ _ _
          | with_reducible exact stage_K (newFunction_spec _) _ _ _
          | with_reducible exact stage_E emitAllDestructors_spec _ _
          | with_reducible exact stage_E (lowerLiteralExpr_spec _) _ _
          | with_reducible exact stage_E (ESpec.forEachE _ _ (fun p _ => lowerFunctionParam_spec p)) _ _
          | with_reducible exact stage_E (ESpec.forEachE _ _ (fun p _ => lowerMethodParam_spec p)) _ _
          | with_reducible exact stage_D (emitUnlessTerminated_spec _) _ _ _
          | with_reducible apply stage_guard (implicitReturn_spec _)
          | with_reducible apply stage_guard (methodReturn_spec _)
          | with_reducible exact stage_D (lowerBody_spec _ (by assumption)) _ _ _
          | ((with_reducible apply stage_emitE); rfl)
          | with_reducible exact stage_emitS _ _ _
          | with_reducible exact stage_E (by assumption) _ _
          | with_reducible exact stage_D (by assumption) _ _ _
          | (apply stage_modify <;> (intro _; rfl))
          | with_reducible apply Triple.seq
          | with_reducible intro _
          | dsimp only
          | split
          | with_reducible apply Triple.relax
    | some lowerCond =>
      have hc2 : ESpec lowerCond := hc1 lowerCond rfl
      cases step with
      | none =>
        repeat' first
          | assumption
          | with_reducible exact Triple.done _ _
          | with_reducible exact Triple.throws _ _ _
          | with_reducible exact stage_newBlock _ _ _
          | with_reducible exact stage_enter0 _ _ _ _
          | with_reducible exact stage_enter1 _ _ _ _ _
          | with_reducible exact stage_enter2 _ _ _ _ _ _
          | with_reducible exact stage_enter3 _ _ _ _ _ _ _
          | with_reducible exact stage_enterFunction _ _ _ _
          | with_reducible exact stage_leaveFunction _ _ _
          | with_reducible exact stage_K KSpec.newTemp _ _ _
          | with_reducible exact stage_K (pushLoop_spec _) _ _ _
          | with_reducible exact stage_K popLoop_spec _ _ _
          | with_reducible exact stage_K (deref_spec _ _) _ _ _
          | with_reducible exact stage_K (KSpec.setVar _ _) _ _ _
          | with_reducible exact stage_K (KSpec.setPtrType _ _) _ _ _
          | with_reducible exact stage_K KSpec.pushScope _ _ _
          | with_reducible exact stage_K KSpec.getK _ _ _
          | with_reducible exact stage_K (newFunction_spec _) _ _ _
          | with_reducible exact stage_E emitAllDestructors_spec _ _
          | with_reducible exact stage_E (lowerLiteralExpr_spec _) _ _
          | with_reducible exact stage_E (ESpec.forEachE _ _ (fun p _ => lowerFunctionParam_spec p)) _ _
          | with_reducible exact stage_E (ESpec.forEachE _ _ (fun p _ => lowerMethodParam_spec p)) _ _
          | with_reducible exact stage_D (emitUnlessTerminated_spec _) _ _ _
          | with_reducible apply stage_guard (implicitReturn_spec _)
          | with_reducible apply stage_guard (methodReturn_spec _)
          | with_reducible exact stage_D (lowerBody_spec _ (by assumption)) _ _ _
          | ((with_reducible apply stage_emitE); rfl)
          | with_reducible exact stage_emitS _ _ _
          | with_reducible exact stage_E (by assumption) _ _
          | with_reducible exact stage_D (by assumption) _ _ _
          | (apply stage_modify <;> (intro _; rfl))
          | with_reducible apply Triple.seq
          | with_reducible intro _
          | dsimp only
          | split
          | with_reducible apply Triple.relax
      | some lowerStep =>
        have hs2 : ESpec lowerStep := hs1 lowerStep rfl
        repeat' first
          | assumption
          | with_reducible exact Triple.done _ _
          | with_reducible exact Triple.throws _ _ _
          | with_reducible exact stage_newBlock _ _ _
          | with_reducible exact stage_enter0 _ _ _ _
          | with_reducible exact stage_enter1 _ _ _ _ _
          | with_reducible exact stage_enter2 _ _ _ _ _ _
          | with_reducible exact stage_enter3 _ _ _ _ _ _ _
          | with_reducible exact stage_enterFunction _ _ _ _
          | with_reducible exact stage_leaveFunction _ _ _
          | with_reducible exact stage_K KSpec.newTemp _ _ _
          | with_reducible exact stage_K (pushLoop_spec _) _ _ _
          | with_reducible exact stage_K popLoop_spec _ _ _
          | with_reducible exact stage_K (deref_spec _ _) _ _ _
          | with_reducible exact stage_K (KSpec.setVar _ _) _ _ _
          | with_reducible exact stage_K (KSpec.setPtrType _ _) _ _ _
          | with_reducible exact stage_K KSpec.pushScope _ _ _
          | with_reducible exact stage_K KSpec.getK _ _ _
          | with_reducible exact stage_K (newFunction_spec _) _ _ _
          | with_reducible exact stage_E emitAllDestructors_spec _ _
          | with_reducible exact stage_E (lowerLiteralExpr_spec _) _ _
          | with_reducible exact stage_E (ESpec.forEachE _ _ (fun p _ => lowerFunctionParam_spec p)) _ _
          | with_reducible exact stage_E (ESpec.forEachE _ _ (fun p _ => lowerMethodParam_spec p)) _ _
          | with_reducible exact stage_D (emitUnlessTerminated_spec _) _ _ _
          | with_reducible apply stage_guard (implicitReturn_spec _)
          | with_reducible apply stage_guard (methodReturn_spec _)
          | with_reducible exact stage_D (lowerBody_spec _ (by assumption)) _ _ _
          | ((with_reducible apply stage_emitE); rfl)
          | with_reducible exact stage_emitS _ _ _
          | with_reducible exact stage_E (by assumption) _ _
          | with_reducible exact stage_D (by assumption) _ _ _
          | (apply stage_modify <;> (intro _; rfl))
          | with_reducible apply Triple.seq
          | with_reducible intro _
          | dsimp only
          | split
          | with_reducible apply Triple.relax

theorem lowerCaseTest_spec (condAddr : String) (condType : Option Ty) (pattern : Option Pattern)
    (isDefault : Bool) (bodyLabel nextCaseLabel : String) :
    SSpec (lowerCaseTest condAddr condType pattern isDefault bodyLabel nextCaseLabel) := by
  refine SSpec.ofOpenStage (o := false) (fun s0 => ?_)
  unfold lowerCaseTest
  repeat' first
    | assumption
    | with_reducible exact Triple.done _ _
    | with_reducible exact Triple.throws _ _ _
    | with_reducible exact stage_newBlock _ _ _
    | with_reducible exact stage_enter0 _ _ _ _
    | with_reducible exact stage_enter1 _ _ _ _ _
    | with_reducible exact stage_enter2 _ _ _ _ _ _
    | with_reducible exact stage_enter3 _ _ _ _ _ _ _
    | with_reducible exact stage_enterFunction _ _ _ _
    | with_reducible exact stage_leaveFunction _ _ _
    | with_reducible exact stage_K KSpec.newTemp _ _ _
    | with_reducible exact stage_K (pushLoop_spec _) _ _ _
    | with_reducible exact stage_K popLoop_spec _ _ _
    | with_reducible exact stage_K (deref_spec _ _) _ _ _
    | with_reducible exact stage_K (KSpec.setVar _ _) _ _ _
    | with_reducible exact stage_K (KSpec.setPtrType _ _) _ _ _
    | with_reducible exact stage_K KSpec.pushScope _ _ _
    | with_reducible exact stage_K KSpec.getK _ _ _
    | with_reducible exact stage_K (newFunction_spec _) _ _ _
    | with_reducible exact stage_E emitAllDestructors_spec _ _
    | with_reducible exact stage_E (lowerLiteralExpr_spec _) _ _
    | with_reducible exact stage_E (ESpec.forEachE _ _ (fun p _ => lowerFunctionParam_spec p)) _ _
    | with_reducible exact stage_E (ESpec.forEachE _ _ (fun p _ => lowerMethodParam_spec p)) _ _
    | with_reducible exact stage_D (emitUnlessTerminated_spec _) _ _ _
    | with_reducible apply stage_guard (implicitReturn_spec _)
    | with_reducible apply stage_guard (methodReturn_spec _)
    | with_reducible exact stage_D (lowerBody_spec _ (by assumption)) _ _ _
    | ((with_reducible apply stage_emitE); rfl)
    | with_reducible exact stage_emitS _ _ _
    | with_reducible exact stage_E (by assumption) _ _
    | with_reducible exact stage_D (by assumption) _ _ _
    | (apply stage_modify <;> (intro _; rfl))
    | with_reducible apply Triple.seq
    | with_reducible intro _
    | dsimp only
    | split
    | with_reducible apply Triple.relax

theorem bindSubPatterns_spec (condAddr : String) (enumTy : Ty) (variant : Option Variant)
    (patterns : List Pattern) :
    ∀ j, ESpec (bindSubPatterns condAddr enumTy variant j patterns) := by
  induction patterns with
  | nil =>
    intro j
    exact ESpec.pureE _
  | cons p rest ih =>
    intro j
    cases p with
    | identifier name =>
      rw [bindSubPatterns]
      have hrest : ESpec (bindSubPatterns condAddr enumTy variant (j + 1) rest) := ih (j + 1)
      refine ESpec.ofStage (fun s0 => ?_)
      repeat' first
        | assumption
        | with_reducible exact Triple.done _ _
        | with_reducible exact Triple.throws _ _ _
        | with_reducible exact stage_newBlock _ _ _
        | with_reducible exact stage_enter0 _ _ _ _
        | with_reducible exact stage_enter1 _ _ _ _ _
        | with_reducible exact stage_enter2 _ _ _ _ _ _
        | with_reducible exact stage_enter3 _ _ _ _ _ _ _
        | with_reducible exact stage_enterFunction _ _ _ _
        | with_reducible exact stage_leaveFunction _ _ _
        | with_reducible exact stage_K KSpec.newTemp _ _ _
        | with_reducible exact stage_K (pushLoop_spec _) _ _ _
        | with_reducible exact stage_K popLoop_spec _ _ _
        | with_reducible exact stage_K (deref_spec _ _) _ _ _
        | with_reducible exact stage_K (KSpec.setVar _ _) _ _ _
        | with_reducible exact stage_K (KSpec.setPtrType _ _) _ _ _
        | with_reducible exact stage_K KSpec.pushScope _ _ _
        | with_reducible exact stage_K KSpec.getK _ _ _
        | with_reducible exact stage_K (newFunction_spec _) _ _ _
        | with_reducible exact stage_E emitAllDestructors_spec _ _
        | with_reducible exact stage_E (lowerLiteralExpr_spec _) _ _
        | with_reducible exact stage_E (ESpec.forEachE _ _ (fun p _ => lowerFunctionParam_spec p)) _ _
        | with_reducible exact stage_E (ESpec.forEachE _ _ (fun p _ => lowerMethodParam_spec p)) _ _
        | with_reducible exact stage_D (emitUnlessTerminated_spec _) _ _ _
        | with_reducible apply stage_guard (implicitReturn_spec _)
        | with_reducible apply stage_guard (methodReturn_spec _)
        | with_reducible exact stage_D (lowerBody_spec _ (by assumption)) _ _ _
        | ((with_reducible apply stage_emitE); rfl)
        | with_reducible exact stage_emitS _ _ _
        | with_reducible exact stage_E (by assumption) _ _
        | with_reducible exact stage_D (by assumption) _ _ _
        | (apply stage_modify <;> (intro _; rfl))
        | with_reducible apply Triple.seq
        | with_reducible intro _
        | dsimp only
        | split
        | with_reducible apply Triple.relax
    | wildcard =>
      rw [bindSubPatterns]
      · exact ih (j + 1)
      · intro name h
        cases h
    | literal lit =>
      rw [bindSubPatterns]
      · exact ih (j + 1)
      · intro name h
        cases h
    | variant e v subs =>
      rw [bindSubPatterns]
      · exact ih (j + 1)
      · intro name h
        cases h

theorem lowerCaseBindings_spec (condAddr : String) (condType : Option Ty)
    (pattern : Option Pattern) (isDefault : Bool) :
    ESpec (lowerCaseBindings condAddr condType pattern isDefault) := by
  unfold lowerCaseBindings
  repeat' first
    | with_reducible exact ESpec.pureE _
    | with_reducible exact (deref_spec _ _).toE
    | with_reducible exact bindSubPatterns_spec _ _ _ _ _
    | with_reducible apply ESpec.bindE
    | dsimp only
    | split
    | intro _

theorem lowerCases_spec (condAddr : String) (condType : Option Ty) (endBB : BlockPtr)
    (cases : List LoweredCase) (hb : ∀ c ∈ cases, DSpec c.body) :
    ∀ s0, Triple (Stage s0 [endBB.index] true) (lowerCases condAddr condType endBB cases)
      (fun _ => Stage s0 [endBB.index] false) := by
  induction cases with
  | nil =>
    intro s0
    rw [lowerCases]
    exact Triple.relax (Triple.done _ _)
  | cons c rest ih =>
    intro s0
    have hbody : DSpec c.body := hb c (List.mem_cons_self _ _)
    have htest : ∀ a b, SSpec (lowerCaseTest condAddr condType c.pattern c.isDefault a b) :=
      fun a b => lowerCaseTest_spec _ _ _ _ _ _
    have hbind : ESpec (lowerCaseBindings condAddr condType c.pattern c.isDefault) :=
      lowerCaseBindings_spec _ _ _ _
    have hrest : Triple (Stage s0 [endBB.index] true)
        (lowerCases condAddr condType endBB rest) (fun _ => Stage s0 [endBB.index] false) :=
      ih (fun c1 h1 => hb c1 (List.mem_cons_of_mem _ h1)) s0
    rw [lowerCases]
    cases rest with
    | nil =>
      have hnil : Triple (Stage s0 [endBB.index] false)
          (lowerCases condAddr condType endBB []) (fun _ => Stage s0 [endBB.index] false) := by
        rw [lowerCases]
        exact Triple.done _ _
      simp only [bind_assoc, pure_bind]
      repeat' first
        | assumption
        | with_reducible exact Triple.done _ _
        | with_reducible exact stage_newBlock _ _ _
        | with_reducible exact stage_enter0 _ _ _ _
        | with_reducible exact stage_S (htest _ _) _ _
        | with_reducible exact stage_E hbind _ _
        | with_reducible exact stage_D hbody _ _ _
        | with_reducible exact stage_D (emitUnlessTerminated_spec _) _ _ _
        | (apply stage_modify <;> (intro _; rfl))
        | with_reducible apply Triple.seq
        | with_reducible intro _
        | dsimp only
    | cons c2 rest2 =>
      simp only [bind_assoc, pure_bind]
      repeat' first
        | assumption
        | with_reducible exact Triple.done _ _
        | with_reducible exact stage_newBlock _ _ _
        | with_reducible exact stage_enter0 _ _ _ _
        | with_reducible exact stage_enter1 _ _ _ _ _
        | with_reducible exact stage_S (htest _ _) _ _
        | with_reducible exact stage_E hbind _ _
        | with_reducible exact stage_D hbody _ _ _
        | with_reducible exact stage_D (emitUnlessTerminated_spec _) _ _ _
        | (apply stage_modify <;> (intro _; rfl))
        | with_reducible apply Triple.seq
        | with_reducible intro _
        | dsimp only

theorem lowerSwitchStmt_spec (condAddr : BuildM String) (condType : Option Ty)
    (cases : List LoweredCase) (ha : ESpec condAddr) (hb : ∀ c ∈ cases, DSpec c.body) :
    SSpec (lowerSwitchStmt condAddr condType cases) := by
  refine SSpec.ofOpenStage (o := true) (fun s0 => ?_)
  unfold lowerSwitchStmt
  repeat' first
    | with_reducible exact stage_newBlock _ _ _
    | with_reducible exact stage_enter0 _ _ _ _
    | with_reducible exact stage_K (pushLoop_spec _) _ _ _
    | with_reducible exact stage_K popLoop_spec _ _ _
    | with_reducible exact stage_E ha _ _
    | with_reducible exact lowerCases_spec _ _ _ _ hb _
    | (apply stage_modify <;> (intro _; rfl))
    | with_reducible apply Triple.seq
    | with_reducible intro _
    | dsimp only

theorem lowerFunctionDecl_spec (decl : FunctionDecl) (body : Option (BuildM Unit))
    (h : ∀ x, body = some x → DSpec x) : DSpec (lowerFunctionDecl decl body) := by
  refine DSpec.ofAnyStage (o := false) (fun s0 => ?_)
  unfold lowerFunctionDecl
  repeat' first
    | assumption
    | with_reducible exact Triple.done _ _
    | with_reducible exact Triple.throws _ _ _
    | with_reducible exact stage_newBlock _ _ _
    | with_reducible exact stage_enter0 _ _ _ _
    | with_reducible exact stage_enter1 _ _ _ _ _
    | with_reducible exact stage_enter2 _ _ _ _ _ _
    | with_reducible exact stage_enter3 _ _ _ _ _ _ _
    | with_reducible exact stage_enterFunction _ _ _ _
    | with_reducible exact stage_leaveFunction _ _ _
    | with_reducible exact stage_K KSpec.newTemp _ _ _
    | with_reducible exact stage_K (pushLoop_spec _) _ _ _
    | with_reducible exact stage_K popLoop_spec _ _ _
    | with_reducible exact stage_K (deref_spec _ _) _ _ _
    | with_reducible exact stage_K (KSpec.setVar _ _) _ _ _
    | with_reducible exact stage_K (KSpec.setPtrType _ _) _ _ _
    | with_reducible exact stage_K KSpec.pushScope _ _ _
    | with_reducible exact stage_K KSpec.getK _ _ _
    | with_reducible exact stage_K (newFunction_spec _) _ _ _
    | with_reducible exact stage_E emitAllDestructors_spec _ _
    | with_reducible exact stage_E (lowerLiteralExpr_spec _) _ _
    | with_reducible exact stage_E (ESpec.forEachE _ _ (fun p _ => lowerFunctionParam_spec p)) _ _
    | with_reducible exact stage_E (ESpec.forEachE _ _ (fun p _ => lowerMethodParam_spec p)) _ _
    | with_reducible exact stage_D (emitUnlessTerminated_spec _) _ _ _
    | with_reducible apply stage_guard (implicitReturn_spec _)
    | with_reducible apply stage_guard (methodReturn_spec _)
    | with_reducible exact stage_D (lowerBody_spec _ (by assumption)) _ _ _
    | ((with_reducible apply stage_emitE); rfl)
    | with_reducible exact stage_emitS _ _ _
    | with_reducible exact stage_E (by assumption) _ _
    | with_reducible exact stage_D (by assumption) _ _ _
    | (apply stage_modify <;> (intro _; rfl))
    | with_reducible apply Triple.seq
    | with_reducible intro _
    | dsimp only
    | split
    | with_reducible apply Triple.relax

theorem lowerMethodDecl_spec (decl : MethodDecl) (className : String)
    (body : Option (BuildM Unit)) (h : ∀ x, body = some x → DSpec x) :
    DSpec (lowerMethodDecl decl className body) := by
  refine DSpec.ofAnyStage (o := false) (fun s0 => ?_)
  unfold lowerMethodDecl
  repeat' first
    | assumption
    | with_reducible exact Triple.done _ _
    | with_reducible exact Triple.throws _ _ _
    | with_reducible exact stage_newBlock _ _ _
    | with_reducible exact stage_enter0 _ _ _ _
    | with_reducible exact stage_enter1 _ _ _ _ _
    | with_reducible exact stage_enter2 _ _ _ _ _ _
    | with_reducible exact stage_enter3 _ _ _ _ _ _ _
    | with_reducible exact stage_enterFunction _ _ _ _
    | with_reducible exact stage_leaveFunction _ _ _
    | with_reducible exact stage_K KSpec.newTemp _ _ _
    | with_reducible exact stage_K (pushLoop_spec _) _ _ _
    | with_reducible exact stage_K popLoop_spec _ _ _
    | with_reducible exact stage_K (deref_spec _ _) _ _ _
    | with_reducible exact stage_K (KSpec.setVar _ _) _ _ _
    | with_reducible exact stage_K (KSpec.setPtrType _ _) _ _ _
    | with_reducible exact stage_K KSpec.pushScope _ _ _
    | with_reducible exact stage_K KSpec.getK _ _ _
    | with_reducible exact stage_K (newFunction_spec _) _ _ _
    | with_reducible exact stage_E emitAllDestructors_spec _ _
    | with_reducible exact stage_E (lowerLiteralExpr_spec _) _ _
    | with_reducible exact stage_E (ESpec.forEachE _ _ (fun p _ => lowerFunctionParam_spec p)) _ _
    | with_reducible exact stage_E (ESpec.forEachE _ _ (fun p _ => lowerMethodParam_spec p)) _ _
    | with_reducible exact stage_D (emitUnlessTerminated_spec _) _ _ _
    | with_reducible apply stage_guard (implicitReturn_spec _)
    | with_reducible apply stage_guard (methodReturn_spec _)
    | with_reducible exact stage_D (lowerBody_spec _ (by assumption)) _ _ _
    | ((with_reducible apply stage_emitE); rfl)
    | with_reducible exact stage_emitS _ _ _
    | with_reducible exact stage_E (by assumption) _ _
    | with_reducible exact stage_D (by assumption) _ _ _
    | (apply stage_modify <;> (intro _; rfl))
    | with_reducible apply Triple.seq
    | with_reducible intro _
    | dsimp only
    | split
    | with_reducible apply Triple.relax

theorem lowerConstructorDecl_spec (decl : ConstructorDecl) (className : String)
    (body : Option (BuildM Unit)) (h : ∀ x, body = some x → DSpec x) :
    DSpec (lowerConstructorDecl decl className body) := by
  refine DSpec.ofAnyStage (o := false) (fun s0 => ?_)
  unfold lowerConstructorDecl
  repeat' first
    | assumption
    | with_reducible exact Triple.done _ _
    | with_reducible exact Triple.throws _ _ _
    | with_reducible exact stage_newBlock _ _ _
    | with_reducible exact stage_enter0 _ _ _ _
    | with_reducible exact stage_enter1 _ _ _ _ _
    | with_reducible exact stage_enter2 _ _ _ _ _ _
    | with_reducible exact stage_enter3 _ _ _ _ _ _ _
    | with_reducible exact stage_enterFunction _ _ _ _
    | with_reducible exact stage_leaveFunction _ _ _
    | with_reducible exact stage_K KSpec.newTemp _ _ _
    | with_reducible exact stage_K (pushLoop_spec _) _ _ _
    | with_reducible exact stage_K popLoop_spec _ _ _
    | with_reducible exact stage_K (deref_spec _ _) _ _ _
    | with_reducible exact stage_K (KSpec.setVar _ _) _ _ _
    | with_reducible exact stage_K (KSpec.setPtrType _ _) _ _ _
    | with_reducible exact stage_K KSpec.pushScope _ _ _
    | with_reducible exact stage_K KSpec.getK _ _ _
    | with_reducible exact stage_K (newFunction_spec _) _ _ _
    | with_reducible exact stage_E emitAllDestructors_spec _ _
    | with_reducible exact stage_E (lowerLiteralExpr_spec _) _ _
    | with_reducible exact stage_E (ESpec.forEachE _ _ (fun p _ => lowerFunctionParam_spec p)) _ _
    | with_reducible exact stage_E (ESpec.forEachE _ _ (fun p _ => lowerMethodParam_spec p)) _ _
    | with_reducible exact stage_D (emitUnlessTerminated_spec _) _ _ _
    | with_reducible apply stage_guard (implicitReturn_spec _)
    | with_reducible apply stage_guard (methodReturn_spec _)
    | with_reducible exact stage_D (lowerBody_spec _ (by assumption)) _ _ _
    | ((with_reducible apply stage_emitE); rfl)
    | with_reducible exact stage_emitS _ _ _
    | with_reducible exact stage_E (by assumption) _ _
    | with_reducible exact stage_D (by assumption) _ _ _
    | (apply stage_modify <;> (intro _; rfl))
    | with_reducible apply Triple.seq
    | with_reducible intro _
    | dsimp only
    | split
    | with_reducible apply Triple.relax

end MIRBuilder

/-! ## Terminators: every expression, statement and declaration -/

namespace MIRBuilder

mutual
theorem lowerExpr_spec : ∀ e : Expr, ESpec (lowerExpr e)
  | .literal lit => by
    rw [lowerExpr]
    exact lowerLiteralExpr_spec lit
  | .identifier _ name => by
    rw [lowerExpr]
    exact lowerIdentifierExpr_spec name
  | .binary _ left op right => by
    rw [lowerExpr]
    exact lowerBinaryExpr_spec op _ _ _ (lowerAddr_spec left) (lowerExpr_spec left)
      (lowerExpr_spec right)
  | .unary _ op operand => by
    rw [lowerExpr]
    exact lowerUnaryExpr_spec op _ (lowerExpr_spec operand)
  | .call _ callee args => by
    rw [lowerExpr]
    exact lowerCallExpr_spec callee _ _ (lowerSelfAddr_spec callee) (lowerArgs_spec args)
  | .memberAccess _ base memberName _ => by
    rw [lowerExpr]
    exact lowerMemberAccessExpr_spec base memberName _ (lowerAddr_spec base)
  | .structLiteral _ base fields => by
    rw [lowerExpr]
    exact lowerStructLiteralExpr_spec base _ (lowerInits_spec fields)
  | .arrayLiteral _ elements => by
    rw [lowerExpr]
    exact lowerArrayLiteralExpr_spec _ (lowerElements_spec elements)
  | .indexing _ base index => by
    rw [lowerExpr]
    exact lowerIndexingExpr_spec _
      (lowerIndexingAddr_spec _ _ _ (lowerAddr_spec base) (lowerExpr_spec index))
  | .addressOf _ operand => by
    rw [lowerExpr]
    exact lowerAddr_spec operand
  | .dereference _ operand => by
    rw [lowerExpr]
    exact lowerDereferenceExpr_spec _ (lowerExpr_spec operand)
  | .question _ operand => by
    rw [lowerExpr]
    exact lowerQuestionExpr_spec _ _ (lowerExpr_spec operand)
  | .specialization _ _ _ _ => by
    rw [lowerExpr]
    exact ESpec.pureE _
  | .intrinsic _ kind typeArg args => by
    rw [lowerExpr]
    exact lowerIntrinsicExpr_spec kind typeArg _ _ (lowerFirst_spec args)
theorem lowerAddr_spec : ∀ e : Expr, ESpec (lowerAddr e)
  | .identifier _ name => by
    rw [lowerAddr]
    exact lowerIdentifierAddr_spec name
  | .memberAccess _ base memberName _ => by
    rw [lowerAddr]
    exact lowerMemberAddr_spec memberName _ (lowerAddr_spec base)
  | .indexing _ base index => by
    rw [lowerAddr]
    exact lowerIndexingAddr_spec _ _ _ (lowerAddr_spec base) (lowerExpr_spec index)
  | .dereference _ operand => by
    rw [lowerAddr]
    exact lowerExpr_spec operand
  | .literal _ => by
    rw [lowerAddr]
    · exact ESpec.pureE _
    all_goals intros; simp_all
  | .binary _ _ _ _ => by
    rw [lowerAddr]
    · exact ESpec.pureE _
    all_goals intros; simp_all
  | .unary _ _ _ => by
    rw [lowerAddr]
    · exact ESpec.pureE _
    all_goals intros; simp_all
  | .call _ _ _ => by
    rw [lowerAddr]
    · exact ESpec.pureE _
    all_goals intros; simp_all
  | .structLiteral _ _ _ => by
    rw [lowerAddr]
    · exact ESpec.pureE _
    all_goals intros; simp_all
  | .arrayLiteral _ _ => by
    rw [lowerAddr]
    · exact ESpec.pureE _
    all_goals intros; simp_all
  | .addressOf _ _ => by
    rw [lowerAddr]
    · exact ESpec.pureE _
    all_goals intros; simp_all
  | .question _ _ => by
    rw [lowerAddr]
    · exact ESpec.pureE _
    all_goals intros; simp_all
  | .specialization _ _ _ _ => by
    rw [lowerAddr]
    · exact ESpec.pureE _
    all_goals intros; simp_all
  | .intrinsic _ _ _ _ => by
    rw [lowerAddr]
    · exact ESpec.pureE _
    all_goals intros; simp_all
theorem lowerSelfAddr_spec : ∀ e : Expr, ESpec (lowerSelfAddr e)
  | .specialization _ (.memberAccess _ base _ _) _ _ => by
    rw [lowerSelfAddr]
    exact lowerAddr_spec base
  | .specialization _ (.literal _) _ _ => ESpec.pureE _
  | .specialization _ (.identifier _ _) _ _ => ESpec.pureE _
  | .specialization _ (.binary _ _ _ _) _ _ => ESpec.pureE _
  | .specialization _ (.unary _ _ _) _ _ => ESpec.pureE _
  | .specialization _ (.call _ _ _) _ _ => ESpec.pureE _
  | .specialization _ (.structLiteral _ _ _) _ _ => ESpec.pureE _
  | .specialization _ (.arrayLiteral _ _) _ _ => ESpec.pureE _
  | .specialization _ (.indexing _ _ _) _ _ => ESpec.pureE _
  | .specialization _ (.addressOf _ _) _ _ => ESpec.pureE _
  | .specialization _ (.dereference _ _) _ _ => ESpec.pureE _
  | .specialization _ (.question _ _) _ _ => ESpec.pureE _
  | .specialization _ (.specialization _ _ _ _) _ _ => ESpec.pureE _
  | .specialization _ (.intrinsic _ _ _ _) _ _ => ESpec.pureE _
  | .literal _ => ESpec.pureE _
  | .identifier _ _ => ESpec.pureE _
  | .binary _ _ _ _ => ESpec.pureE _
  | .unary _ _ _ => ESpec.pureE _
  | .call _ _ _ => ESpec.pureE _
  | .memberAccess _ _ _ _ => ESpec.pureE _
  | .structLiteral _ _ _ => ESpec.pureE _
  | .arrayLiteral _ _ => ESpec.pureE _
  | .indexing _ _ _ => ESpec.pureE _
  | .addressOf _ _ => ESpec.pureE _
  | .dereference _ _ => ESpec.pureE _
  | .question _ _ => ESpec.pureE _
  | .intrinsic _ _ _ _ => ESpec.pureE _
theorem lowerArgs_spec : ∀ es : List Expr, ESpec (lowerArgs es)
  | [] => by
    rw [lowerArgs]
    exact ESpec.pureE _
  | arg :: rest => by
    rw [lowerArgs]
    exact ESpec.bindE (lowerExpr_spec arg)
      (fun _ => ESpec.bindE (lowerArgs_spec rest) (fun _ => ESpec.pureE _))
theorem lowerInits_spec : ∀ fs : List (FieldInitOf Expr),
    ∀ init ∈ lowerInits fs, ESpec init.2
  | [] => by
    rw [lowerInits]
    intro init h
    cases h
  | ⟨name, value⟩ :: rest => by
    rw [lowerInits]
    intro init h
    rcases List.mem_cons.1 h with e | h1
    · subst e
      exact lowerExpr_spec value
    · exact lowerInits_spec rest init h1
theorem lowerElements_spec : ∀ es : List Expr, ∀ element ∈ lowerElements es, ESpec element
  | [] => by
    rw [lowerElements]
    intro element h
    cases h
  | element :: rest => by
    rw [lowerElements]
    intro x h
    rcases List.mem_cons.1 h with e | h1
    · subst e
      exact lowerExpr_spec element
    · exact lowerElements_spec rest x h1
theorem lowerFirst_spec : ∀ es : List Expr, ∀ x, lowerFirst es = some x → ESpec x
  | [] => by
    rw [lowerFirst]
    intro x h
    cases h
  | arg :: _ => by
    rw [lowerFirst]
    intro x h
    cases h
    exact lowerExpr_spec arg
end

theorem lowerOptExpr_spec (e : Option Expr) :
    ∀ x, e.map lowerExpr = some x → ESpec x := by
  intro x h
  cases e with
  | none => cases h
  | some e =>
    cases h
    exact lowerExpr_spec e

/-- The initializer of a `for`, in a form that the parser builds, leaves the current
block open. -/
theorem lowerOpt_spec (init : Option Stmt) (h : Stmt.plainInit init = true) :
    ∀ x, lowerOpt init = some x → ESpec x := by
  intro x hx
  cases init with
  | none =>
    rw [lowerOpt] at hx
    cases hx
  | some stmt =>
    rw [lowerOpt] at hx
    cases hx
    rw [Stmt.plainInit, Bool.and_eq_true] at h
    cases stmt with
    | varDecl d =>
      rw [lower]
      exact lowerVarDecl_spec d _ (lowerOptExpr_spec d.initializer)
    | exprStmt e =>
      rw [lower]
      exact lowerExprStmt_spec _ (lowerExpr_spec e)
    | _ => exact absurd h.1 (by simp [Stmt.isForInit])

mutual
theorem lower_spec : ∀ st : Stmt, Stmt.plain st = true →
    SSpec (lower st) ∧ (st.isDeclaration = true → DSpec (lower st))
  | .varDecl d, _ => by
    rw [lower]
    exact ⟨(lowerVarDecl_spec d _ (lowerOptExpr_spec d.initializer)).toS, fun h => nomatch h⟩
  | .structDecl d, _ => by
    rw [lower]
    have hd : DSpec (if d.genericParams.isEmpty then lowerStructDecl d else pure ()) := by
      split
      · exact (lowerStructDecl_spec d).toD
      · exact (KSpec.pureK _).toD
    exact ⟨hd.asS, fun _ => hd⟩
  | .enumDecl d, _ => by
    rw [lower]
    have hd : DSpec (if d.genericParams.isEmpty then lowerEnumDecl d else pure ()) := by
      split
      · exact (lowerEnumDecl_spec d).toD
      · exact (KSpec.pureK _).toD
    exact ⟨hd.asS, fun _ => hd⟩
  | .classDecl d, h => by
    rw [lower]
    have hd : DSpec (if d.genericParams.isEmpty then lowerClassDecl d (lowerClassMembers d)
        else pure ()) := by
      split
      · obtain ⟨name, members, a, b, c⟩ := d
        rw [Stmt.plain, Stmt.plainClass, Bool.and_eq_true] at h
        refine lowerClassDecl_spec _ _ ?_ (lowerClassMembers_spec _ h.2)
        simpa using h.1
      · exact (KSpec.pureK _).toD
    exact ⟨hd.asS, fun _ => hd⟩
  | .block statements, h => by
    rw [lower]
    rw [Stmt.plain] at h
    exact ⟨(lowerBlock_spec _ true (lowerStatements_spec statements h)).asS, fun h => nomatch h⟩
  | .functionDecl d, h => by
    rw [lower]
    rw [Stmt.plain] at h
    have hd : DSpec (if d.genericParams.isEmpty then lowerFunctionDecl d (lowerFunctionBody d)
        else pure ()) := by
      split
      · exact lowerFunctionDecl_spec d _ (lowerFunctionBody_spec d h)
      · exact (KSpec.pureK _).toD
    exact ⟨hd.asS, fun _ => hd⟩
  | .returnStmt expression, _ => by
    rw [lower]
    exact ⟨lowerReturnStmt_spec _ (lowerOptExpr_spec expression), fun h => nomatch h⟩
  | .ifStmt condition thenBlock elseBlock, h => by
    rw [lower]
    rw [Stmt.plain, Bool.and_eq_true] at h
    exact ⟨lowerIfStmt_spec _ _ _ (lowerExpr_spec condition)
      (lowerBlock_spec _ true (lowerStatements_spec thenBlock h.1))
      (lowerOptBlock_spec elseBlock h.2), fun h => nomatch h⟩
  | .whileStmt condition body, h => by
    rw [lower]
    rw [Stmt.plain] at h
    exact ⟨lowerWhileStmt_spec _ _ (lowerExpr_spec condition)
      (lowerBlock_spec _ true (lowerStatements_spec body h)), fun h => nomatch h⟩
  | .doWhileStmt body condition, h => by
    rw [lower]
    rw [Stmt.plain] at h
    exact ⟨lowerDoWhileStmt_spec _ _ (lowerBlock_spec _ true (lowerStatements_spec body h))
      (lowerExpr_spec condition), fun h => nomatch h⟩
  | .forStmt init condition step body, h => by
    rw [lower]
    rw [Stmt.plain, Bool.and_eq_true] at h
    exact ⟨lowerForStmt_spec _ _ _ _ (lowerOpt_spec init h.1) (lowerOptExpr_spec condition)
      (lowerOptExpr_spec step) (lowerBlock_spec _ true (lowerStatements_spec body h.2)),
      fun h => nomatch h⟩
  | .switchStmt condition cases, h => by
    rw [lower]
    rw [Stmt.plain] at h
    exact ⟨lowerSwitchStmt_spec _ _ _ (lowerAddr_spec condition)
      (lowerCaseBodies_spec cases h), fun h => nomatch h⟩
  | .breakStmt, _ => by
    rw [lower]
    exact ⟨lowerBreakStmt_spec, fun h => nomatch h⟩
  | .continueStmt, _ => by
    rw [lower]
    exact ⟨lowerContinueStmt_spec, fun h => nomatch h⟩
  | .exprStmt expression, _ => by
    rw [lower]
    exact ⟨(lowerExprStmt_spec _ (lowerExpr_spec expression)).toS, fun h => nomatch h⟩
  | .requestDecl _, _ => by
    rw [lower]
    exact ⟨(ESpec.pureE _).toS, fun _ => (KSpec.pureK _).toD⟩
theorem lowerStatements_spec : ∀ sts : List Stmt, Stmt.plainList sts = true →
    DSpec (lowerStatements sts)
  | [], _ => by
    rw [lowerStatements]
    exact (KSpec.pureK _).toD
  | stmt :: rest, h => by
    rw [lowerStatements]
    rw [Stmt.plainList, Bool.and_eq_true] at h
    exact lowerNext_spec _ _ (lower_spec stmt h.1).1 (lowerStatements_spec rest h.2)
theorem lowerOptBlock_spec : ∀ b : Option (List Stmt), Stmt.plainOptList b = true →
    ∀ x, lowerOptBlock b = some x → DSpec x
  | none, _ => by
    rw [lowerOptBlock]
    intro x hx
    cases hx
  | some statements, h => by
    rw [lowerOptBlock]
    rw [Stmt.plainOptList] at h
    intro x hx
    cases hx
    exact lowerBlock_spec _ true (lowerStatements_spec statements h)
theorem lowerCaseBodies_spec : ∀ cs : List CaseStmt, Stmt.plainCases cs = true →
    ∀ c ∈ lowerCaseBodies cs, DSpec c.body
  | [], _ => by
    rw [lowerCaseBodies]
    intro c hc
    cases hc
  | ⟨pattern, body, isDefault⟩ :: rest, h => by
    rw [lowerCaseBodies]
    rw [Stmt.plainCases, Bool.and_eq_true] at h
    intro c hc
    rcases List.mem_cons.1 hc with e | h1
    · subst e
      exact lowerBlock_spec _ true (lowerStatements_spec body h.1)
    · exact lowerCaseBodies_spec rest h.2 c h1
theorem lowerFunctionBody_spec : ∀ d : FunctionDecl, Stmt.plainFunction d = true →
    ∀ x, lowerFunctionBody d = some x → DSpec x
  | ⟨_, _, _, none, _, _, _, _⟩, _ => by
    rw [lowerFunctionBody]
    intro x hx
    cases hx
  | ⟨_, _, _, some statements, _, _, _, _⟩, h => by
    rw [lowerFunctionBody]
    rw [Stmt.plainFunction, Stmt.plainOptList] at h
    intro x hx
    cases hx
    exact lowerBlock_spec _ false (lowerStatements_spec statements h)
theorem lowerMembers_spec (className : String) : ∀ members : List ClassMember,
    Stmt.plainMembers members = true → DSpec (lowerMembers className members)
  | [], _ => by
    rw [lowerMembers]
    exact (KSpec.pureK _).toD
  | .field _ :: rest, h => by
    rw [lowerMembers]
    rw [Stmt.plainMembers] at h
    exact lowerMembers_spec className rest h
  | .method ⟨n, r, ps, body, a, b⟩ :: rest, h => by
    rw [lowerMembers]
    rw [Stmt.plainMembers, Bool.and_eq_true] at h
    refine DSpec.bindD (lowerMethodDecl_spec _ className _ ?_)
      (fun _ => lowerMembers_spec className rest h.2)
    rw [lowerMethodBody]
    exact lowerOptBlock_spec body h.1
  | .ctor ⟨n, ps, body, a⟩ :: rest, h => by
    rw [lowerMembers]
    rw [Stmt.plainMembers, Bool.and_eq_true] at h
    refine DSpec.bindD (lowerConstructorDecl_spec _ className _ ?_)
      (fun _ => lowerMembers_spec className rest h.2)
    rw [lowerConstructorBody]
    exact lowerOptBlock_spec body h.1
theorem lowerClassMembers_spec : ∀ d : ClassDecl, Stmt.plainMembers d.members = true →
    DSpec (lowerClassMembers d)
  | ⟨name, members, _, _, _⟩, h => by
    rw [lowerClassMembers]
    exact lowerMembers_spec name members h
end

theorem lowerNodes_spec (nodes : List Stmt) (hd : nodes.all Stmt.isDeclaration = true)
    (hp : nodes.all Stmt.plain = true) : DSpec (lowerNodes nodes) := by
  unfold lowerNodes
  refine DSpec.forEachD _ _ (fun st hst => ?_)
  exact (lower_spec st (List.all_eq_true.1 hp st hst)).2 (List.all_eq_true.1 hd st hst)

end MIRBuilder

/-! ## Terminators: the blocks of a lowered program -/

theorem inv_new : MIRBuilder.Inv ({} : MIRBuilder) := by
  refine ⟨?_, ?_⟩
  · intro j b h
    cases h
  · intro name info h
    cases h

theorem blocks_of_inv (s : MIRBuilder) (hinv : MIRBuilder.Inv s) :
    ∀ f ∈ s.getFunctions, ∀ b ∈ s.getBlocks f,
      b.terminatorsOnlyLast = true ∧ b.terminatorCount ≤ 1 := by
  intro f _ b hb
  unfold MIRBuilder.getBlocks at hb
  obtain ⟨j, _, hj⟩ := List.mem_filterMap.1 hb
  have h := hinv.blocks j b hj
  exact ⟨h, MIRBuilder.terminatorCount_le_one b h⟩

theorem lowerNodes_of_lowered (nodes : List Stmt) (h : (lowered nodes).isSome = true) :
    MIRBuilder.lowerNodes nodes {} = .ok ((), (lowered nodes).getD {}) := by
  unfold lowered at h ⊢
  cases hr : MIRBuilder.lowerNodes nodes {} with
  | error e =>
    rw [hr] at h
    cases h
  | ok r => rfl

/-- C3, counterexample: the analyzer accepts `fn f(): bool { }` and the builder lowers it
to one block without any instruction; for
`fn h(c: bool): bool { if (c) { return true; } else { return false; } }` the block
`if.merge` has no instruction either. These blocks contain no terminator. -/
theorem blocks_without_terminator_counterexample :
    ((Sema.analyze (Sema.hooks 6) (.functionDecl emptyBoolFunction) Sema.new).toOption.map
        Prod.fst = some (.functionDecl emptyBoolFunction))
      ∧ loweredText [.functionDecl emptyBoolFunction] = some [("f", [("entry.0", [])])]
      ∧ ((Sema.analyze (Sema.hooks 6) (.functionDecl bothReturnSource) Sema.new).toOption.map
        Prod.fst = some (.functionDecl bothReturnBool))
      ∧ loweredText [.functionDecl bothReturnBool] = some
        [("h",
          [("entry.0",
              ["%c.addr = alloca bool", "store %c, %c.addr", "%t0 = load %c.addr",
               "br %t0, if.then.1, if.else.2"]),
            ("if.then.1", ["%t1 = const 1", "ret %t1"]),
            ("if.else.2", ["%t2 = const 0", "ret %t2"]),
            ("if.merge.3", [])])] := by
  refine ⟨rfl, ?_, rfl, ?_⟩ <;> decide!

/-- C3, amended: when a new builder lowers declarations in which no class declares a
destructor and the initializer of every `for` is a variable declaration or an expression
statement, every basic block of every function of the module contains at most one
terminator, and no instruction before the last one of a block is a terminator. -/
theorem terminators_only_in_last_position (nodes : List Stmt) (s : MIRBuilder)
    (hd : nodes.all Stmt.isDeclaration = true) (hp : nodes.all Stmt.plain = true)
    (hr : MIRBuilder.lowerNodes nodes {} = .ok ((), s)) :
    ∀ f ∈ s.getFunctions, ∀ b ∈ s.getBlocks f,
      b.terminatorsOnlyLast = true ∧ b.terminatorCount ≤ 1 :=
  blocks_of_inv s ((MIRBuilder.lowerNodes_spec nodes hd hp) {} () s hr inv_new).1

/-- C3 at a concrete input: the lowering of
`fn h(c: bool): bool { if (c) { return true; } else { return false; } }` does not throw,
and the blocks of the function have their terminators in last position only. -/
theorem terminators_witness :
    (lowered [.functionDecl bothReturnBool]).isSome = true
      ∧ ∀ f ∈ ((lowered [.functionDecl bothReturnBool]).getD {}).getFunctions,
        ∀ b ∈ ((lowered [.functionDecl bothReturnBool]).getD {}).getBlocks f,
          b.terminatorsOnlyLast = true ∧ b.terminatorCount ≤ 1 :=
  ⟨by decide!, terminators_only_in_last_position [.functionDecl bothReturnBool] _
    (by decide) (by decide) (lowerNodes_of_lowered _ (by decide!))⟩

/-! ## The peek of the lexer -/

theorem Lexer.afterPeeks_eq (k : Nat) (l : Lexer) : Lexer.afterPeeks k l = l := by
  induction k with
  | zero => rfl
  | succ k ih => rw [Lexer.afterPeeks, Lexer.peekToken_snd, ih]

theorem Lexer.mem_peeks (k : Nat) (l : Lexer) : ∀ t ∈ Lexer.peeks k l, t = l.nextToken.1 := by
  induction k with
  | zero =>
    intro t h
    cases h
  | succ k ih =>
    intro t h
    rw [Lexer.peeks, Lexer.peekToken_snd] at h
    rcases List.mem_cons.1 h with e | h1
    · rw [e, Lexer.peekToken_fst]
    · exact ih t h1

/-- C30: `peekToken` returns the token that the next `nextToken` returns and gives back the
lexer unchanged (source, position, line, column, token start); so `k` peeks all return
that token, and the first `n` tokens produced after them are those produced without any
peek. -/
theorem peekToken_returns_next_token_and_keeps_state (l : Lexer) (k n : Nat) :
    l.peekToken.1 = l.nextToken.1
      ∧ l.peekToken.2 = l
      ∧ Lexer.afterPeeks k l = l
      ∧ (Lexer.peeks k l).length = k
      ∧ (∀ t ∈ Lexer.peeks k l, t = l.nextToken.1)
      ∧ Lexer.tokens n (Lexer.afterPeeks k l) = Lexer.tokens n l := by
  refine ⟨Lexer.peekToken_fst l, Lexer.peekToken_snd l, Lexer.afterPeeks_eq k l, ?_,
    Lexer.mem_peeks k l, by rw [Lexer.afterPeeks_eq]⟩
  induction k generalizing l with
  | zero => rfl
  | succ k ih => rw [Lexer.peeks, List.length_cons, ih]

/-! ## Binary expressions -/

theorem binaryResultType_eq (op : TokenType) (t : Ty) :
    Sema.binaryResultType op t = if op ∈ comparisonOperators then Ty.bool else t := by
  cases op <;> rfl

/-- C22: let the operator of a binary expression not be `=`, and let the checks of the two
operands return the types `tl` and `tr`. When the types are not equal, `checkBinaryExpr`
throws the type-mismatch error; when they are equal, the expression has the type `bool`
for `==`, `!=`, `>`, `>=`, `<`, `<=`, `&&` and `||`, and the operand type `tl` for every
other operator. -/
theorem checkBinaryExpr_needs_equal_operand_types (h : SemaHooks) (left right l1 r1 : Expr)
    (op : TokenType) (s s1 s2 : Sema) (tl tr : Ty) (ty : Option Ty)
    (hop : op ≠ .Equal)
    (hl : h.checkExpr left s = .ok ((tl, l1), s1))
    (hr : h.checkExpr right s1 = .ok ((tr, r1), s2)) :
    (tl.equals tr = false →
        Sema.checkBinaryExpr h left op right s = .error
            ("Type mismatch in binary expression: " ++ tl.toString ++ " and " ++ tr.toString)
          ∧ Sema.checkExpr h (.binary ty left op right) s = .error
            ("Type mismatch in binary expression: " ++ tl.toString ++ " and " ++ tr.toString))
      ∧ (tl.equals tr = true →
        Sema.checkBinaryExpr h left op right s
            = .ok ((if op ∈ comparisonOperators then Ty.bool else tl, l1, r1), s2)
          ∧ Sema.checkExpr h (.binary ty left op right) s
            = .ok ((if op ∈ comparisonOperators then Ty.bool else tl,
                .binary (some (if op ∈ comparisonOperators then Ty.bool else tl)) l1 op r1),
              s2)) := by
  have hb : Sema.checkBinaryExpr h left op right s
      = (if tl.equals tr then .ok ((Sema.binaryResultType op tl, l1, r1), s2)
         else .error ("Type mismatch in binary expression: " ++ tl.toString ++ " and "
           ++ tr.toString)) := by
    unfold Sema.checkBinaryExpr
    rw [if_neg hop, run_bind_ok hl, run_bind_ok hr, run_bind, run_failIf]
    cases tl.equals tr <;> rfl
  have hc : Sema.checkExpr h (.binary ty left op right) s
      = (Sema.checkBinaryExpr h left op right >>= fun res =>
          pure (res.1, .binary (some res.1) res.2.1 op res.2.2)) s := by
    rw [Sema.checkExpr]
  refine ⟨fun hne => ?_, fun heq => ?_⟩
  · rw [hne] at hb
    exact ⟨hb, by rw [hc, run_bind_error hb]⟩
  · rw [heq, binaryResultType_eq] at hb
    exact ⟨hb, by rw [hc, run_bind_ok hb]; rfl⟩

/-- C22 at `1 < 2`: both operands have the type `i32`, and the expression has the type
`bool`. -/
theorem binary_witness :
    Sema.checkExpr (Sema.hooks 1) (.binary none (intLiteral 1) .Less (intLiteral 2)) Sema.new
      = .ok ((Ty.bool, .binary (some Ty.bool)
          (.literal { value := .int 1, type := some Ty.i32 }) .Less
          (.literal { value := .int 2, type := some Ty.i32 })), Sema.new) :=
  ((checkBinaryExpr_needs_equal_operand_types (Sema.hooks 1) (intLiteral 1) (intLiteral 2)
    _ _ .Less Sema.new Sema.new Sema.new Ty.i32 Ty.i32 none (by decide) rfl rfl).2 rfl).2

/-! ## Access to the members of a module -/

/-- C21 at the failing input: the file `lib.cns` declares `pub fn add(a: i32, b: i32): i32`
and the program of `testModuleLoading` calls `lib::add(1, 2)`. The analyzer throws
`Undefined identifier: lib`, although `add` is the public symbol of the module and the
access `lib::add` that is not called is accepted; the access to a function without `pub`
is rejected with the message of the module. -/
theorem call_of_public_module_function_is_rejected :
    failureOf (Sema.analyzeProgramOf 8 libFiles moduleLoadingSource)
        = some "Undefined identifier: lib"
      ∧ (Sema.analyzeProgramOf 8 libFiles moduleAccessSource).toOption.bind
          (publicNamesOf "lib") = some ["add"]
      ∧ failureOf (Sema.analyzeProgramOf 8 libVisFiles privateAccessSource)
          = some "Module 'lib_vis' has no public member named 'private_add'" := by
  refine ⟨?_, ?_, ?_⟩ <;> decide!

/-! ## Calls -/

/-- C24 at the failing input: with `fn add(a: i32, b: i32): i32` analyzed, the check of
`add(1, 2.0)`, whose second argument has the type `f64`, throws nothing and returns the
type `i32`, as the check of `add(1, 2)` does. -/
theorem argument_type_mismatch_is_accepted :
    typeTextOf (checkAfter 8 addSource "2.0") = some "f64"
      ∧ typeTextOf (checkAfter 8 addSource "add(1, 2)") = some "i32"
      ∧ failureOf (checkAfter 8 addSource "add(1, 2.0)") = none
      ∧ typeTextOf (checkAfter 8 addSource "add(1, 2.0)") = some "i32" := by
  refine ⟨?_, ?_, ?_, ?_⟩ <;> decide!

/-- C23 fails in the code: the method `get` of the class `A` has the one parameter
`self`. The call `a.get(5)`, that is the receiver and one more argument for one parameter,
is accepted by the analyzer, because the receiver is counted only when the parameters are
one more than the arguments, and the program is lowered: the builder emits the call
`A_get(%a, %t3)` with two arguments for the function `A_get`, which has the one parameter
`self`. The call `a.get(5, 6)` is rejected. -/
theorem method_call_with_extra_argument_is_accepted :
    compiledFunctions 12 getterSource
        = some [("A_get", ["self"], [("entry",
            ["%self.addr = alloca A", "store %self, %self.addr", "%t0 = const 1",
             "ret %t0"])]),
          ("main", [], [("entry.0",
            ["%t0 = alloca A", "%t1 = call A_A(%t0)", "%t2 = load %t0", "%a = alloca A",
             "store %t2, %a", "%t3 = const 5", "%t4 = call A_get(%a, %t3)", "ret %t4"])])]
      ∧ failureOf (Sema.analyzeProgramOf 8 [] getterTwoSource)
          = some "Argument count mismatch: expected 1, got 2" := by
  refine ⟨?_, ?_⟩ <;> decide!

theorem count_check_passes (a p : Nat) (v : Bool) :
    (a != p && (!v || decide (a < p))) = false ↔ (a = p ∨ (v = true ∧ p < a)) := by
  cases v
  · simp
  · simp
    omega

/-- The count check of `checkCallExpr`: let the callee of a call be checked to a function
type with the parameter types `P`. The call is checked without the argument-count error only if the
number of arguments equals the number of parameters, or the callee is a member access and
the arguments are one fewer than the parameters (the receiver is the implicit `self`), or
the function is variadic and there are more arguments than parameters; otherwise
`checkCallExpr` throws the argument-count error. An accepted call has the return type of
the function. A callee that is an identifier, but neither the name of a type nor of a
variant of a registered enum, is checked that way. -/
theorem call_needs_matching_argument_count (h : SemaHooks) (callee c1 : Expr)
    (args : List Expr) (s s1 : Sema) (P : List Ty) (R : Ty) (v : Bool)
    (hc : h.checkExpr callee s = .ok ((.function P R v, c1), s1)) :
    ((¬ (args.length = P.length ∨ (Sema.isMemberAccess callee = true ∧ args.length + 1 = P.length)
          ∨ (v = true ∧ P.length < args.length)) →
        Sema.checkCallRest h callee args s = .error
          ("Argument count mismatch: expected " ++ toString P.length ++ ", got "
            ++ toString args.length))
      ∧ (∀ r s2, Sema.checkCallRest h callee args s = .ok (r, s2) →
          (args.length = P.length ∨ (Sema.isMemberAccess callee = true ∧ args.length + 1 = P.length)
            ∨ (v = true ∧ P.length < args.length)) ∧ r.1 = R))
      ∧ (∀ t name, callee = .identifier t name → s.symbolTable.lookupType name = none →
          (s.registeredEnums.find? fun enumTy => (enumTy.findVariant name).isSome) = none →
          Sema.checkCallExpr h callee args s = Sema.checkCallRest h callee args s) := by
  refine ⟨?main, ?ident⟩
  case ident =>
    intro t name hcallee hty hvar
    subst hcallee
    unfold Sema.checkCallExpr
    dsimp only
    rw [run_bind_ok (run_get s)]
    simp only [hty]
    unfold Sema.checkVariantCall
    rw [run_bind_ok (run_get s)]
    simp only [hvar]
  unfold Sema.checkCallRest
  rw [run_bind_ok hc]
  dsimp only
  cases hm : (Sema.isMemberAccess callee && P.length == args.length + 1)
  · have hnm : ¬ (Sema.isMemberAccess callee = true ∧ args.length + 1 = P.length) := by
      rintro ⟨h1, h2⟩
      rw [h1, ← h2] at hm
      simp at hm
    simp only [Bool.false_eq_true, if_false]
    rw [run_bind, run_failIf]
    cases hcond : (args.length != P.length && (!v || decide (args.length < P.length)))
    · have hgood := (count_check_passes args.length P.length v).1 hcond
      simp only [Bool.false_eq_true, if_false]
      refine ⟨fun hbad => absurd ?_ hbad, fun r s2 hok => ⟨?_, ?_⟩⟩
      · rcases hgood with e | e
        · exact Or.inl e
        · exact Or.inr (Or.inr e)
      · rcases hgood with e | e
        · exact Or.inl e
        · exact Or.inr (Or.inr e)
      · obtain ⟨c2, s4, _, hrest2⟩ := bind_eq_ok.1 hok
        obtain ⟨a1, s5, _, hrest3⟩ := bind_eq_ok.1 hrest2
        cases hrest3
        rfl
    · simp only [if_true]
      exact ⟨fun _ => trivial, fun r s2 hok => nomatch hok⟩
  · have hmeth : Sema.isMemberAccess callee = true ∧ args.length + 1 = P.length := by
      rw [Bool.and_eq_true, beq_iff_eq] at hm
      exact ⟨hm.1, hm.2.symm⟩
    have hcond : (args.length + 1 != P.length
        && (!v || decide (args.length + 1 < P.length))) = false := by
      rw [hmeth.2]
      simp
    simp only [if_true]
    rw [run_bind, run_failIf, hcond]
    simp only [Bool.false_eq_true, if_false]
    refine ⟨fun hbad => absurd (Or.inr (Or.inl hmeth)) hbad,
      fun r s2 hok => ⟨Or.inr (Or.inl hmeth), ?_⟩⟩
    obtain ⟨c2, s4, _, hrest2⟩ := bind_eq_ok.1 hok
    obtain ⟨a1, s5, _, hrest3⟩ := bind_eq_ok.1 hrest2
    cases hrest3
    rfl

/-- The call `add(1)` with `fn add(a: i32, b: i32): i32`: one argument for two parameters,
the argument-count error. -/
theorem call_witness :
    Sema.checkCallRest (Sema.hooks 1) (.identifier none "add") [intLiteral 1] addState
      = .error "Argument count mismatch: expected 2, got 1" :=
  (call_needs_matching_argument_count (Sema.hooks 1) (.identifier none "add") _
    [intLiteral 1] addState addState [Ty.i32, Ty.i32] Ty.i32 false rfl).1.1 (by decide)

/-! ## Member access and visibility -/

section StructLiteral

variable (h : SemaHooks) (typeOf : Expr → Option Ty) (I : Sema → Prop)

theorem find_of_mem_nodup (L : List FieldInit) (init : FieldInit) (n : String)
    (hnd : (L.map (·.name)).Nodup) (hm : init ∈ L) (hn : init.name = n) :
    L.find? (fun i => i.name = n) = some init := by
  induction L with
  | nil => cases hm
  | cons a rest ih =>
    rw [List.map_cons, List.nodup_cons] at hnd
    rcases List.mem_cons.1 hm with e | hmem
    · subst e
      rw [List.find?_cons, hn]
      simp
    · have hne : a.name ≠ n := by
        intro e
        apply hnd.1
        rw [e, ← hn]
        exact List.mem_map_of_mem _ hmem
      rw [List.find?_cons]
      simp only [hne, decide_False]
      exact ih hnd.2 hmem

/-- The checks of the initializers `L` in the states of `I`: an initializer with a type
is checked to that type and the check ends in a state of `I`; one without a type throws. -/
theorem checkInit_run (f : Field) (c1 c2 : String) : ∀ (L : List FieldInit) (s : Sema),
    I s →
    (∀ init ∈ L, init.name = f.name → ∀ t, typeOf init.value = some t → ∀ s0, I s0 →
        ∃ e1 s2, h.checkExpr init.value s0 = .ok ((t, e1), s2) ∧ I s2) →
    (∀ init ∈ L, init.name = f.name → typeOf init.value = none → ∀ s0, I s0 →
        ∃ e, h.checkExpr init.value s0 = .error e) →
    (∀ init t, L.find? (fun i => i.name = f.name) = some init → typeOf init.value = some t →
        t.equals f.type = true →
        ∃ L1 s2, Sema.checkInit h f c1 c2 L s = .ok (L1, s2) ∧ I s2
          ∧ L1.map (·.name) = L.map (·.name)
          ∧ (∀ x ∈ L1, x.name ≠ f.name → x ∈ L) ∧ (∀ x ∈ L, x.name ≠ f.name → x ∈ L1))
      ∧ (∀ L1 s1, Sema.checkInit h f c1 c2 L s = .ok (L1, s1) →
        ∃ init t, L.find? (fun i => i.name = f.name) = some init ∧ typeOf init.value = some t
          ∧ t.equals f.type = true) := by
  intro L
  induction L with
  | nil =>
    intro s _ _ _
    refine ⟨fun init r hf => ?_, fun L1 s1 hok => ?_⟩
    · cases hf
    · rw [Sema.checkInit] at hok
      cases hok
  | cons a rest ih =>
    intro s hs hP hQ
    by_cases hn : a.name = f.name
    · have hfind : (a :: rest).find? (fun i => i.name = f.name) = some a := by
        rw [List.find?_cons]
        simp [hn]
      refine ⟨fun init t hf hc heq => ?_, fun L1 s1 hok => ?_⟩
      · rw [hfind] at hf
        cases hf
        obtain ⟨e1, s2, hrun, hs2⟩ := hP a (List.mem_cons_self _ _) hn t hc s hs
        refine ⟨{ a with value := e1 } :: rest, s2, ?_, hs2, rfl, ?_, ?_⟩
        · rw [Sema.checkInit, if_pos hn]
          rw [run_bind_ok hrun, run_bind, run_failIf, heq]
          rfl
        · intro x hx hne
          rcases List.mem_cons.1 hx with e | hmem
          · exact absurd (by rw [e]; exact hn) hne
          · exact List.mem_cons_of_mem _ hmem
        · intro x hx hne
          rcases List.mem_cons.1 hx with e | hmem
          · exact absurd (by rw [e]; exact hn) hne
          · exact List.mem_cons_of_mem _ hmem
      · rw [Sema.checkInit, if_pos hn] at hok
        cases hc : typeOf a.value with
        | none =>
          obtain ⟨e, hrun⟩ := hQ a (List.mem_cons_self _ _) hn hc s hs
          rw [run_bind_error hrun] at hok
          cases hok
        | some t =>
          obtain ⟨e1, s2, hrun, _⟩ := hP a (List.mem_cons_self _ _) hn t hc s hs
          rw [run_bind_ok hrun, run_bind, run_failIf] at hok
          cases heq : t.equals f.type with
          | false =>
            rw [heq] at hok
            cases hok
          | true => exact ⟨a, t, hfind, hc, heq⟩
    · have hfind : (a :: rest).find? (fun i => i.name = f.name)
          = rest.find? (fun i => i.name = f.name) := by
        rw [List.find?_cons]
        simp [hn]
      obtain ⟨ih1, ih2⟩ := ih s hs (fun init hi => hP init (List.mem_cons_of_mem _ hi))
        (fun init hi => hQ init (List.mem_cons_of_mem _ hi))
      refine ⟨fun init t hf hc heq => ?_, fun L1 s1 hok => ?_⟩
      · rw [hfind] at hf
        obtain ⟨R1, s2, hr, hs2, hnames, hsub1, hsub2⟩ := ih1 init t hf hc heq
        refine ⟨a :: R1, s2, ?_, hs2, ?_, ?_, ?_⟩
        · rw [Sema.checkInit, if_neg hn, run_bind_ok hr]
          rfl
        · rw [List.map_cons, List.map_cons, hnames]
        · intro x hx hne
          rcases List.mem_cons.1 hx with e | hmem
          · rw [e]
            exact List.mem_cons_self _ _
          · exact List.mem_cons_of_mem _ (hsub1 x hmem hne)
        · intro x hx hne
          rcases List.mem_cons.1 hx with e | hmem
          · rw [e]
            exact List.mem_cons_self _ _
          · exact List.mem_cons_of_mem _ (hsub2 x hmem hne)
      · rw [Sema.checkInit, if_neg hn] at hok
        obtain ⟨R1, s2, hr, _⟩ := bind_eq_ok.1 hok
        rw [hfind]
        exact ih2 R1 s2 hr

/-- The outer loop succeeds when every field has an initializer of its name and type. -/
theorem checkInits_complete (c1 c2 : String) : ∀ (fs : List Field) (L : List FieldInit)
    (s : Sema), I s → (fs.map (·.name)).Nodup → (L.map (·.name)).Nodup →
    (∀ init ∈ L, (∃ f ∈ fs, f.name = init.name) → ∀ t, typeOf init.value = some t →
        ∀ s0, I s0 → ∃ e1 s2, h.checkExpr init.value s0 = .ok ((t, e1), s2) ∧ I s2) →
    (∀ init ∈ L, (∃ f ∈ fs, f.name = init.name) → typeOf init.value = none →
        ∀ s0, I s0 → ∃ e, h.checkExpr init.value s0 = .error e) →
    (∀ f ∈ fs, ∃ init ∈ L, init.name = f.name ∧ ∃ t, typeOf init.value = some t
        ∧ t.equals f.type = true) →
    ∃ L1 s2, Sema.checkInits h c1 c2 fs L s = .ok (L1, s2) ∧ I s2 := by
  intro fs
  induction fs with
  | nil =>
    intro L s hs _ _ _ _ _
    exact ⟨L, s, rfl, hs⟩
  | cons f rest ih =>
    intro L s hs hfs hL hP hQ hgood
    rw [List.map_cons, List.nodup_cons] at hfs
    obtain ⟨init, hmem, hname, t, hc, heq⟩ := hgood f (List.mem_cons_self _ _)
    have hfind := find_of_mem_nodup L init f.name hL hmem hname
    obtain ⟨L1, s1, hr, hs1, hnames, hsub1, hsub2⟩ :=
      (checkInit_run h typeOf I f c1 c2 L s hs
        (fun i hi hn => hP i hi ⟨f, List.mem_cons_self _ _, hn.symm⟩)
        (fun i hi hn => hQ i hi ⟨f, List.mem_cons_self _ _, hn.symm⟩)).1 init t hfind hc heq
    have hne : ∀ f1 ∈ rest, f1.name ≠ f.name := by
      intro f1 hf1 e
      apply hfs.1
      rw [← e]
      exact List.mem_map_of_mem _ hf1
    obtain ⟨L2, s2, hr2, hs2⟩ := ih L1 s1 hs1 hfs.2 (by rw [hnames]; exact hL)
      (fun i hi ⟨f1, hf1, hn1⟩ =>
        hP i (hsub1 i hi (by rw [← hn1]; exact hne f1 hf1))
          ⟨f1, List.mem_cons_of_mem _ hf1, hn1⟩)
      (fun i hi ⟨f1, hf1, hn1⟩ =>
        hQ i (hsub1 i hi (by rw [← hn1]; exact hne f1 hf1))
          ⟨f1, List.mem_cons_of_mem _ hf1, hn1⟩)
      (fun f1 hf1 => by
        obtain ⟨i1, hm1, hn1, hrest⟩ := hgood f1 (List.mem_cons_of_mem _ hf1)
        exact ⟨i1, hsub2 i1 hm1 (by rw [hn1]; exact hne f1 hf1), hn1, hrest⟩)
    refine ⟨L2, s2, ?_, hs2⟩
    rw [Sema.checkInits, run_bind_ok hr]
    exact hr2

/-- When the outer loop succeeds, every field has an initializer of its name and type. -/
theorem checkInits_sound (c1 c2 : String) : ∀ (fs : List Field) (L L2 : List FieldInit)
    (s s2 : Sema), I s → (fs.map (·.name)).Nodup →
    (∀ init ∈ L, (∃ f ∈ fs, f.name = init.name) → ∀ t, typeOf init.value = some t →
        ∀ s0, I s0 → ∃ e1 s2, h.checkExpr init.value s0 = .ok ((t, e1), s2) ∧ I s2) →
    (∀ init ∈ L, (∃ f ∈ fs, f.name = init.name) → typeOf init.value = none →
        ∀ s0, I s0 → ∃ e, h.checkExpr init.value s0 = .error e) →
    Sema.checkInits h c1 c2 fs L s = .ok (L2, s2) →
    ∀ f ∈ fs, ∃ init ∈ L, init.name = f.name ∧ ∃ t, typeOf init.value = some t
        ∧ t.equals f.type = true := by
  intro fs
  induction fs with
  | nil =>
    intro L L2 s s2 _ _ _ _ hok
    exact fun f hf => nomatch hf
  | cons f rest ih =>
    intro L L2 s s2 hs hfs hP hQ hok
    rw [List.map_cons, List.nodup_cons] at hfs
    rw [Sema.checkInits] at hok
    obtain ⟨L1, s1, hr, hrest⟩ := bind_eq_ok.1 hok
    have hrun := checkInit_run h typeOf I f c1 c2 L s hs
      (fun i hi hn => hP i hi ⟨f, List.mem_cons_self _ _, hn.symm⟩)
      (fun i hi hn => hQ i hi ⟨f, List.mem_cons_self _ _, hn.symm⟩)
    obtain ⟨init, t, hfind, hc, heq⟩ := hrun.2 L1 s1 hr
    obtain ⟨L1', s1', hr', hs1, _, hsub1, _⟩ := hrun.1 init t hfind hc heq
    rw [hr] at hr'
    cases hr'
    have hne : ∀ f1 ∈ rest, f1.name ≠ f.name := by
      intro f1 hf1 e
      apply hfs.1
      rw [← e]
      exact List.mem_map_of_mem _ hf1
    have hall := ih L1 L2 s1 s2 hs1 hfs.2
      (fun i hi ⟨f1, hf1, hn1⟩ =>
        hP i (hsub1 i hi (by rw [← hn1]; exact hne f1 hf1))
          ⟨f1, List.mem_cons_of_mem _ hf1, hn1⟩)
      (fun i hi ⟨f1, hf1, hn1⟩ =>
        hQ i (hsub1 i hi (by rw [← hn1]; exact hne f1 hf1))
          ⟨f1, List.mem_cons_of_mem _ hf1, hn1⟩) hrest
    intro f1 hf1
    rcases List.mem_cons.1 hf1 with e | hmem
    · subst e
      have hname : init.name = f1.name := by
        have := List.find?_some hfind
        simpa using this
      exact ⟨init, List.mem_of_find?_eq_some hfind, hname, t, hc, heq⟩
    · obtain ⟨i1, hm1, hn1, hrest1⟩ := hall f1 hmem
      exact ⟨i1, hsub1 i1 hm1 (by rw [hn1]; exact hne f1 hmem), hn1, hrest1⟩

end StructLiteral

theorem checkStructLiteral_run (h : SemaHooks) (base b1 : Expr) (inits : List FieldInit)
    (s s1 : Sema) (name : String) (fields methods : List Field) (isClass : Bool)
    (address : Nat)
    (hb : h.checkExpr base s = .ok ((.struct name fields methods isClass address, b1), s1)) :
    Sema.checkStructLiteral h base inits s
      = if inits.length ≠ fields.length then
          .error ("Field count mismatch for struct '" ++ name ++ "': expected "
            ++ toString fields.length ++ ", got " ++ toString inits.length)
        else
          (Sema.checkInits h (" in struct '" ++ name ++ "'")
              (" in initializer for struct '" ++ name ++ "'") fields inits >>= fun inits1 =>
            pure (Ty.struct name fields methods isClass address, b1, inits1)) s1 := by
  unfold Sema.checkStructLiteral
  rw [run_bind_ok hb]
  have he : (Ty.struct name fields methods isClass address).isEnum = false := rfl
  have hs : (Ty.struct name fields methods isClass address).isStruct = true := rfl
  simp only [he, hs, Bool.false_eq_true, if_false, Bool.not_true, Ty.getFields, Ty.getName]
  by_cases hlen : inits.length ≠ fields.length
  · rw [if_pos hlen, if_pos hlen]
    rfl
  · rw [if_neg hlen, if_neg hlen]

/-- C26: let the base of a struct literal be checked to a struct type with pairwise
distinct field names. Let `I` be a set of analyzer states that holds the state after the
check of the base and that the checks of the initializer values do not leave, and let
`typeOf` give the type to which the value of an initializer is checked in these states
(`none` when the check throws); for checks that leave the analyzer as it is, `I` is the
one state after the base. The literal is accepted, with the struct type as its type, when
the names of the initializers are a permutation of the names of the fields and the type of
every initializer equals the type of the field of its name; otherwise `checkStructLiteral`
throws. -/
theorem struct_literal_needs_every_field_once (h : SemaHooks) (typeOf : Expr → Option Ty)
    (I : Sema → Prop) (base b1 : Expr) (inits : List FieldInit)
    (s s1 : Sema) (name : String) (fields methods : List Field) (isClass : Bool)
    (address : Nat)
    (hb : h.checkExpr base s = .ok ((.struct name fields methods isClass address, b1), s1))
    (hnd : (fields.map (·.name)).Nodup)
    (hI : I s1)
    (htyped : ∀ init ∈ inits, ∀ t, typeOf init.value = some t → ∀ s0, I s0 →
      ∃ e1 s2, h.checkExpr init.value s0 = .ok ((t, e1), s2) ∧ I s2)
    (hthrows : ∀ init ∈ inits, typeOf init.value = none → ∀ s0, I s0 →
      ∃ e, h.checkExpr init.value s0 = .error e) :
    (((inits.map (·.name)).Perm (fields.map (·.name))
          ∧ ∀ init ∈ inits, ∀ f ∈ fields, f.name = init.name →
              ∃ t, typeOf init.value = some t ∧ t.equals f.type = true) →
        ∃ inits1 s2, Sema.checkStructLiteral h base inits s
          = .ok ((.struct name fields methods isClass address, b1, inits1), s2) ∧ I s2)
      ∧ (¬ ((inits.map (·.name)).Perm (fields.map (·.name))
          ∧ ∀ init ∈ inits, ∀ f ∈ fields, f.name = init.name →
              ∃ t, typeOf init.value = some t ∧ t.equals f.type = true) →
        ∃ e, Sema.checkStructLiteral h base inits s = .error e) := by
  have hrun := checkStructLiteral_run h base b1 inits s s1 name fields methods isClass address hb
  have hcomplete : ((inits.map (·.name)).Perm (fields.map (·.name))
      ∧ ∀ init ∈ inits, ∀ f ∈ fields, f.name = init.name →
          ∃ t, typeOf init.value = some t ∧ t.equals f.type = true) →
      ∃ inits1 s2, Sema.checkStructLiteral h base inits s
        = .ok ((.struct name fields methods isClass address, b1, inits1), s2) ∧ I s2 := by
    rintro ⟨hperm, hgood⟩
    have hlen : ¬ inits.length ≠ fields.length := by
      have := hperm.length_eq
      rw [List.length_map, List.length_map] at this
      exact fun hne => hne this
    obtain ⟨L1, s2, hr, hs2⟩ := checkInits_complete h typeOf I (" in struct '" ++ name ++ "'")
      (" in initializer for struct '" ++ name ++ "'") fields inits s1 hI hnd
      (hperm.nodup_iff.2 hnd) (fun init hi _ => htyped init hi)
      (fun init hi _ => hthrows init hi)
      (fun f hf => by
        have hmem : f.name ∈ inits.map (·.name) :=
          hperm.symm.subset (List.mem_map_of_mem _ hf)
        obtain ⟨init, hi, hn⟩ := List.mem_map.1 hmem
        exact ⟨init, hi, hn, hgood init hi f hf hn.symm⟩)
    refine ⟨L1, s2, ?_, hs2⟩
    rw [hrun, if_neg hlen, run_bind_ok hr]
    rfl
  have hsound : ∀ r s2, Sema.checkStructLiteral h base inits s = .ok (r, s2) →
      ((inits.map (·.name)).Perm (fields.map (·.name))
        ∧ ∀ init ∈ inits, ∀ f ∈ fields, f.name = init.name →
            ∃ t, typeOf init.value = some t ∧ t.equals f.type = true) := by
    intro r s2 hok
    rw [hrun] at hok
    by_cases hlen : inits.length ≠ fields.length
    · rw [if_pos hlen] at hok
      cases hok
    · rw [if_neg hlen] at hok
      obtain ⟨L2, s3, hr, _⟩ := bind_eq_ok.1 hok
      have hall := checkInits_sound h typeOf I _ _ fields inits L2 s1 s3 hI hnd
        (fun init hi _ => htyped init hi) (fun init hi _ => hthrows init hi) hr
      have hsubset : fields.map (·.name) ⊆ inits.map (·.name) := by
        intro n hn
        obtain ⟨f, hf, e⟩ := List.mem_map.1 hn
        obtain ⟨init, hi, hname, _⟩ := hall f hf
        rw [← e, ← hname]
        exact List.mem_map_of_mem _ hi
      have hperm : (fields.map (·.name)).Perm (inits.map (·.name)) := by
        refine (List.subperm_of_subset hnd hsubset).perm_of_length_le ?_
        rw [List.length_map, List.length_map]
        exact Nat.le_of_eq (Decidable.not_not.1 hlen)
      refine ⟨hperm.symm, fun init hi f hf hn => ?_⟩
      obtain ⟨init1, hi1, hname1, hgood⟩ := hall f hf
      have hinj := List.inj_on_of_nodup_map (hperm.nodup_iff.1 hnd) hi1 hi (hname1.trans hn)
      rw [← hinj]
      exact hgood
  refine ⟨hcomplete, fun hbad => ?_⟩
  cases hres : Sema.checkStructLiteral h base inits s with
  | error e => exact ⟨e, rfl⟩
  | ok r => exact absurd (hsound r.1 r.2 hres) hbad

/-- C26 at `Point { y: one(), x: v }` for `struct Point { let x: i32; let y: i32 }`, in an
analyzer in whose scope the variable `v` and the function `one` are declared: the types of
the initializers are those to which the analyzer checks the call and the variable in that
state, which the checks leave as it is. The names are a permutation of the field names and
both values have the type `i32`, so the literal is accepted. In the same analyzer a literal
with one initializer, with the field `x` twice, with a field `z`, with a value of the type
`f64` for `y` and with an undeclared variable is rejected; and the analyzer accepts the
program with the literal `Point { y: v + 1, x: v }`. -/
theorem struct_literal_witness :
    (∃ inits1 s2, Sema.checkStructLiteral (Sema.hooks 3) (.identifier none "Point")
          [⟨"y", .call none (.identifier none "one") []⟩, ⟨"x", .identifier none "v"⟩]
          literalState
        = .ok ((point2Type, .identifier (some point2Type) "Point", inits1), s2)
        ∧ s2 = literalState)
      ∧ literalFailure [⟨"x", .identifier none "v"⟩]
          = some "Field count mismatch for struct 'Point': expected 2, got 1"
      ∧ literalFailure [⟨"x", .identifier none "v"⟩,
            ⟨"x", .call none (.identifier none "one") []⟩]
          = some "Missing field 'y' in initializer for struct 'Point'"
      ∧ literalFailure [⟨"x", .identifier none "v"⟩,
            ⟨"z", .call none (.identifier none "one") []⟩]
          = some "Missing field 'y' in initializer for struct 'Point'"
      ∧ literalFailure [⟨"x", .identifier none "v"⟩,
            ⟨"y", .literal { value := .double "2.0" }⟩]
          = some "Type mismatch for field 'y' in struct 'Point': expected i32, got f64"
      ∧ literalFailure [⟨"x", .identifier none "v"⟩, ⟨"y", .identifier none "w"⟩]
          = some "Undefined identifier: w"
      ∧ failureOf (Sema.analyzeProgramOf 10 [] literalSource) = none := by
  refine ⟨(struct_literal_needs_every_field_once (Sema.hooks 3) (checkedType 3 literalState)
    (fun s => s = literalState) (.identifier none "Point") _
    [⟨"y", .call none (.identifier none "one") []⟩, ⟨"x", .identifier none "v"⟩]
    literalState literalState "Point" _ _ false 1 rfl (by decide) rfl ?_ ?_).1 ⟨by decide, ?_⟩,
    ?_, ?_, ?_, ?_, ?_, ?_⟩
  · intro init hi t ht s0 hs0
    subst hs0
    simp only [List.mem_cons, List.mem_singleton, List.not_mem_nil, or_false] at hi
    rcases hi with e | e <;> subst e
    · have e1 : t = Ty.i32 := (Option.some.inj ht).symm
      subst e1
      exact ⟨_, _, rfl, rfl⟩
    · have e1 : t = Ty.i32 := (Option.some.inj ht).symm
      subst e1
      exact ⟨_, _, rfl, rfl⟩
  · intro init hi ht s0 hs0
    simp only [List.mem_cons, List.mem_singleton, List.not_mem_nil, or_false] at hi
    rcases hi with e | e <;> subst e <;> cases ht
  · intro init hi f hf hn
    simp only [List.mem_cons, List.mem_singleton, List.not_mem_nil, or_false] at hi hf
    rcases hi with e | e <;> rcases hf with e1 | e1 <;> subst e <;> subst e1
      <;> exact ⟨_, rfl, rfl⟩
  all_goals decide!

/-! ## The operator `?` -/

theorem questionType_some_eq_ok (opType ret t : Ty) :
    Sema.questionType opType (some ret) = .ok t
      ↔ opType.isEnum = true ∧ "Result_".data.isPrefixOf opType.getName.data = true
        ∧ ret.isEnum = true ∧ "Result_".data.isPrefixOf ret.getName.data = true
        ∧ ∃ okV opErr retErr opE retE,
            opType.getVariants[0]? = some okV ∧ opType.getVariants[1]? = some opErr
            ∧ ret.getVariants[1]? = some retErr
            ∧ opErr.tupleTypes.head? = some opE ∧ retErr.tupleTypes.head? = some retE
            ∧ opE.equals retE = true ∧ okV.tupleTypes.head? = some t := by
  unfold Sema.questionType Sema.notResultName
  generalize "Result_".data = pre
  cases h1 : opType.isEnum
  · simp
  cases h2 : pre.isPrefixOf opType.getName.data
  · simp
  dsimp only
  cases h3 : ret.isEnum
  · simp
  cases h4 : pre.isPrefixOf ret.getName.data
  · simp
  generalize opType.getVariants = ov
  generalize ret.getVariants = rv
  rcases ov with _ | ⟨a, _ | ⟨b, ov⟩⟩
  · simp
  · simp
  rcases rv with _ | ⟨c, _ | ⟨d, rv⟩⟩
  · simp
  · simp
  generalize hbt : b.tupleTypes = bt
  generalize hdt : d.tupleTypes = dt
  generalize hat : a.tupleTypes = at1
  rcases bt with _ | ⟨opE, bt⟩
  · simp [hbt]
  rcases dt with _ | ⟨retE, dt⟩
  · simp [hbt, hdt]
  cases h5 : opE.equals retE
  · simp [hbt, hdt, h5]
  rcases at1 with _ | ⟨t0, at1⟩
  · simp [hbt, hdt, h5, hat]
  · simp [hbt, hdt, h5, hat]

theorem questionType_none (opType t : Ty) : Sema.questionType opType none ≠ .ok t := by
  unfold Sema.questionType
  cases opType.isEnum
  · simp
  cases Sema.notResultName opType.getName
  · simp
  · simp

theorem questionType_eq_ok (opType : Ty) (retTy : Option Ty) (t : Ty) :
    Sema.questionType opType retTy = .ok t
      ↔ opType.isEnum = true ∧ "Result_".data.isPrefixOf opType.getName.data = true
        ∧ ∃ ret, retTy = some ret ∧ ret.isEnum = true
          ∧ "Result_".data.isPrefixOf ret.getName.data = true
          ∧ ∃ okV opErr retErr opE retE,
              opType.getVariants[0]? = some okV ∧ opType.getVariants[1]? = some opErr
              ∧ ret.getVariants[1]? = some retErr
              ∧ opErr.tupleTypes.head? = some opE ∧ retErr.tupleTypes.head? = some retE
              ∧ opE.equals retE = true ∧ okV.tupleTypes.head? = some t := by
  cases retTy with
  | none =>
    constructor
    · intro hq
      exact absurd hq (questionType_none opType t)
    · rintro ⟨_, _, ret, hsome, _⟩
      cases hsome
  | some ret =>
    rw [questionType_some_eq_ok]
    constructor
    · rintro ⟨h1, h2, h3, h4, hrest⟩
      exact ⟨h1, h2, ret, rfl, h3, h4, hrest⟩
    · rintro ⟨h1, h2, ret1, hsome, h3, h4, hrest⟩
      cases hsome
      exact ⟨h1, h2, h3, h4, hrest⟩

/-- C27, counterexample: the program declares its own enum `Result_my { A(i32), B(bool) }`,
which is no instance of `Result`. In a function that returns it, `r?` on a value of that
enum is accepted; with the enum called `Other` it is rejected. -/
theorem question_on_declared_enum_counterexample :
    failureOf (Sema.analyzeProgramOf 8 [] ownResultSource) = none
      ∧ failureOf (Sema.analyzeProgramOf 8 [] otherEnumSource)
          = some "? operator can only be used on Result enum, got Other" := by
  refine ⟨?_, ?_⟩ <;> decide!

/-- C27, amended: let the operand of `e?` be checked to the type `opType`. The expression
is accepted with the type `t` exactly when `opType` is an enum whose name starts with
`Result_`, the current function (or, outside of a function, the current method) returns an
enum whose name starts with `Result_`, the first payload types of the second variants of
the two enums are equal, and `t` is the first payload type of the first variant of
`opType`. Outside of a function and of a method, and when the return type is no enum of
such a name, `checkQuestionExpr` throws. -/
theorem question_needs_result_named_enums (h : SemaHooks) (operand e1 : Expr) (s s1 : Sema)
    (opType : Ty)
    (hc : h.checkExpr operand s = .ok ((opType, e1), s1)) :
    (∀ t, Sema.checkQuestionExpr h operand s = .ok ((t, e1), s1)
        ↔ opType.isEnum = true ∧ "Result_".data.isPrefixOf opType.getName.data = true
          ∧ ∃ ret, Sema.currentReturnType s1 = some ret ∧ ret.isEnum = true
            ∧ "Result_".data.isPrefixOf ret.getName.data = true
            ∧ ∃ okV opErr retErr opE retE,
                opType.getVariants[0]? = some okV ∧ opType.getVariants[1]? = some opErr
                ∧ ret.getVariants[1]? = some retErr
                ∧ opErr.tupleTypes.head? = some opE ∧ retErr.tupleTypes.head? = some retE
                ∧ opE.equals retE = true ∧ okV.tupleTypes.head? = some t)
      ∧ (∀ r s2, Sema.checkQuestionExpr h operand s = .ok (r, s2) → r.2 = e1 ∧ s2 = s1)
      ∧ (s1.currentFunction = none → s1.currentMethod = none →
          ∃ e, Sema.checkQuestionExpr h operand s = .error e)
      ∧ (∀ ret, Sema.currentReturnType s1 = some ret →
          (ret.isEnum = false ∨ "Result_".data.isPrefixOf ret.getName.data = false) →
          ∃ e, Sema.checkQuestionExpr h operand s = .error e) := by
  have hrun : Sema.checkQuestionExpr h operand s
      = match Sema.questionType opType (Sema.currentReturnType s1) with
        | .ok t => .ok ((t, e1), s1)
        | .error e => .error e := by
    unfold Sema.checkQuestionExpr
    rw [run_bind_ok hc, run_bind_ok (run_get s1)]
    cases Sema.questionType opType (Sema.currentReturnType s1) <;> rfl
  have hiff : ∀ t, Sema.checkQuestionExpr h operand s = .ok ((t, e1), s1)
      ↔ Sema.questionType opType (Sema.currentReturnType s1) = .ok t := by
    intro t
    rw [hrun]
    cases Sema.questionType opType (Sema.currentReturnType s1) with
    | error e => simp
    | ok t1 => simp
  have hbad : ∀ ret, Sema.currentReturnType s1 = ret →
      (∀ t, Sema.questionType opType ret ≠ .ok t) →
      ∃ e, Sema.checkQuestionExpr h operand s = .error e := by
    intro ret hret hno
    rw [hrun, hret]
    cases hq : Sema.questionType opType ret with
    | error e => exact ⟨e, rfl⟩
    | ok t => exact absurd hq (hno t)
  refine ⟨fun t => ?_, fun r s2 hok => ?_, fun hf hm => ?_, fun ret hret hno => ?_⟩
  · rw [hiff, questionType_eq_ok]
  · rw [hrun] at hok
    cases hq : Sema.questionType opType (Sema.currentReturnType s1) with
    | error e =>
      rw [hq] at hok
      cases hok
    | ok t =>
      rw [hq] at hok
      cases hok
      exact ⟨rfl, rfl⟩
  · refine hbad none ?_ ?_
    · unfold Sema.currentReturnType
      rw [hf, hm]
    · intro t hq
      obtain ⟨_, _, ret, hsome, _⟩ := (questionType_eq_ok opType none t).1 hq
      cases hsome
  · refine hbad (some ret) hret ?_
    intro t hq
    obtain ⟨_, _, ret1, hsome, h3, h4, _⟩ := (questionType_eq_ok opType (some ret) t).1 hq
    cases hsome
    rcases hno with e | e
    · rw [e] at h3
      cases h3
    · rw [e] at h4
      cases h4

/-- C27 at `r?` for `r` of the type `Result_i32_bool` in a function that returns
`Result_i32_bool`: the expression has the type `i32`. -/
theorem question_check_witness :
    Sema.checkQuestionExpr (Sema.hooks 1) (.identifier none "r") questionState
      = .ok ((Ty.i32, .identifier (some resultI32Bool) "r"), questionState) :=
  ((question_needs_result_named_enums (Sema.hooks 1) (.identifier none "r") _ questionState
    questionState resultI32Bool rfl).1 Ty.i32).2
    ⟨rfl, by decide, resultI32Bool, rfl, rfl, by decide,
      _, _, _, _, _, rfl, rfl, rfl, rfl, rfl, rfl, rfl⟩

/-! ## Request constraints -/

theorem forEachCheck_eq_ok {α : Type} (f : α → Except String Unit) (l : List α) :
    forEachCheck f l = .ok () ↔ ∀ a ∈ l, f a = .ok () := by
  induction l with
  | nil => simp [forEachCheck]
  | cons a rest ih =>
    rw [forEachCheck]
    cases hfa : f a with
    | error e => simp [hfa]
    | ok u =>
      simp only [List.mem_cons, forall_eq_or_imp, hfa, true_and]
      exact ih

theorem forEachCheck_error {α : Type} (f : α → Except String Unit) (l : List α) (e : String)
    (h : forEachCheck f l = .error e) : ∃ a ∈ l, f a = .error e := by
  induction l with
  | nil => cases h
  | cons a rest ih =>
    rw [forEachCheck] at h
    cases hfa : f a with
    | error e1 =>
      rw [hfa] at h
      cases h
      exact ⟨a, List.mem_cons_self _ _, hfa⟩
    | ok u =>
      rw [hfa] at h
      obtain ⟨b, hb, hfb⟩ := ih h
      exact ⟨b, List.mem_cons_of_mem _ hb, hfb⟩

/-- C28: let `requestName` be registered as the request `request`. `checkConstraint`
succeeds for a candidate type exactly when, for every method prototype of the request,
the candidate is a struct or class type with a method of that name (the first one) whose
type equals the function type of the prototype after `Self`, and the first generic
parameter of the request when there is one, are substituted by the candidate. Otherwise
it throws an error that names a prototype whose method is missing or has another type. -/
theorem checkConstraint_succeeds_iff_methods_match (t : SymbolTable) (requestName : String)
    (type : Ty) (request : RequestDecl)
    (hreq : t.lookupTypeDecl requestName = some (.requestDecl request)) :
    (checkConstraint t requestName type = .ok ()
        ↔ ∀ member ∈ request.members, ∀ m, member.decl = .method m →
            ∃ actual, type.isStruct = true ∧ type.findMethod m.name = some actual
              ∧ actual.equals (expectedMethodType request type m) = true)
      ∧ (∀ e, checkConstraint t requestName type = .error e →
          ∃ member ∈ request.members, ∃ m, member.decl = .method m
            ∧ (e = "Type '" ++ type.toString ++ "' does not satisfy request '" ++ requestName
                  ++ "': missing method '" ++ m.name ++ "'"
              ∨ ∃ actual : Ty, e = "Type '" ++ type.toString ++ "' does not satisfy request '"
                  ++ requestName ++ "': method '" ++ m.name
                  ++ "' has incorrect signature. Expected "
                  ++ (expectedMethodType request type m).toString ++ ", got "
                  ++ actual.toString)) := by
  have hrun : checkConstraint t requestName type
      = forEachCheck (fun (member : RequestMember) =>
          match member.decl with
          | .method reqMethod =>
            match (if type.isStruct then type.findMethod reqMethod.name else none) with
            | none => .error ("Type '" ++ type.toString ++ "' does not satisfy request '"
                ++ requestName ++ "': missing method '" ++ reqMethod.name ++ "'")
            | some actual =>
              if !actual.equals (expectedMethodType request type reqMethod) then
                .error ("Type '" ++ type.toString ++ "' does not satisfy request '"
                  ++ requestName ++ "': method '" ++ reqMethod.name
                  ++ "' has incorrect signature. Expected "
                  ++ (expectedMethodType request type reqMethod).toString ++ ", got "
                  ++ actual.toString)
              else .ok ()
          | _ => .ok ()) request.members := by
    unfold checkConstraint
    simp only [hreq]
    unfold expectedMethodType requestMapping
    cases request.genericParams <;> rfl
  constructor
  · rw [hrun, forEachCheck_eq_ok]
    constructor
    · intro hall member hmem m hm
      have := hall member hmem
      simp only [hm] at this
      cases hs : type.isStruct with
      | false =>
        simp only [hs, Bool.false_eq_true, if_false] at this
        cases this
      | true =>
        simp only [hs, if_true] at this
        cases hf : type.findMethod m.name with
        | none =>
          simp only [hf] at this
          cases this
        | some actual =>
          simp only [hf] at this
          refine ⟨actual, rfl, rfl, ?_⟩
          cases heq : actual.equals (expectedMethodType request type m) with
          | true => rfl
          | false =>
            simp only [heq, Bool.not_false, if_true] at this
            cases this
    · intro hall member hmem
      cases hd : member.decl with
      | field d => rfl
      | variant v => rfl
      | method m =>
        obtain ⟨actual, hs, hf, heq⟩ := hall member hmem m hd
        simp only [hs, if_true, hf, heq, Bool.not_true, Bool.false_eq_true, if_false]
  · intro e herr
    rw [hrun] at herr
    obtain ⟨member, hmem, hf⟩ := forEachCheck_error _ _ e herr
    cases hd : member.decl with
    | field d =>
      simp only [hd] at hf
      cases hf
    | variant v =>
      simp only [hd] at hf
      cases hf
    | method m =>
      simp only [hd] at hf
      refine ⟨member, hmem, m, hd, ?_⟩
      cases hact : (if type.isStruct then type.findMethod m.name else none) with
      | none =>
        rw [hact] at hf
        cases hf
        exact Or.inl rfl
      | some actual =>
        rw [hact] at hf
        cases heq : actual.equals (expectedMethodType request type m) with
        | true =>
          simp only [heq, Bool.not_true, Bool.false_eq_true, if_false] at hf
          cases hf
        | false =>
          simp only [heq, Bool.not_false, if_true] at hf
          cases hf
          exact Or.inr ⟨actual, rfl⟩

/-- C28 at the request `Area` with the prototype `fn area(self: Self): f64` and the class
`Circle` with the method `area(self): f64`: the constraint holds. -/
theorem checkConstraint_witness :
    checkConstraint areaTable "Area" circleType = .ok () :=
  (checkConstraint_succeeds_iff_methods_match areaTable "Area" circleType areaRequest rfl).1.2
    (by
      intro member hmem m hm
      simp only [areaRequest, List.mem_singleton] at hmem
      subst hmem
      cases hm
      exact ⟨_, rfl, rfl, by decide⟩)
/-! ## Redefinitions -/

theorem declareVar_declared (decl : VarDecl) (type : Option Ty) (s : Sema)
    (hk : s.declaredHere decl.name = true) :
    Sema.declareVar decl type s = .error ("Redefinition of variable '" ++ decl.name ++ "'") := by
  unfold Sema.declareVar
  rw [run_bind_ok (run_get s)]
  have h1 : s.symbolTable.insert decl.name type decl.isMutable decl.isPublic
      = (false, s.symbolTable) := by
    unfold SymbolTable.insert
    exact if_pos hk
  rw [h1]
  rfl

theorem moveInitializer_run (type : Ty) (init : Expr) (name : String) (s : Sema) :
    ∃ s1, Sema.moveInitializer type init s = .ok ((), s1)
      ∧ s1.declaredHere name = s.declaredHere name := by
  unfold Sema.moveInitializer
  split
  · cases init <;> first
      | exact ⟨s, rfl, rfl⟩
      | exact ⟨_, rfl, lookupCurrentScope_setMovedIn true _ name s.symbolTable.scopes⟩
  · exact ⟨s, rfl, rfl⟩

theorem insertTypeGlobal_registered (s : Sema) (name : String) (type : Option Ty)
    (isPublic : Bool) (decl : Option Stmt) (hk : s.typeRegistered name = true) :
    s.symbolTable.insertTypeGlobal name type isPublic decl = (false, s.symbolTable) := by
  unfold Sema.typeRegistered at hk
  unfold SymbolTable.insertTypeGlobal
  cases hg : s.symbolTable.scopes.getLast? with
  | none => simp [hg] at hk
  | some g =>
    rw [hg] at hk
    exact if_pos hk

theorem insertGlobal_registered (s : Sema) (name : String) (type : Option Ty)
    (isMutable isPublic : Bool) (decl : Option Stmt) (hk : s.symbolRegistered name = true) :
    s.symbolTable.insertGlobal name type isMutable isPublic decl = (false, s.symbolTable) := by
  unfold Sema.symbolRegistered at hk
  unfold SymbolTable.insertGlobal
  cases hg : s.symbolTable.scopes.getLast? with
  | none => simp [hg] at hk
  | some g =>
    rw [hg] at hk
    exact if_pos hk

theorem registerFunction_registered (decl : FunctionDecl) (funcType ty : Ty) (s : Sema)
    (existing : Symbol) (hk : s.symbolRegistered decl.name = true)
    (hl : s.symbolTable.lookup decl.name = some existing) (ht : existing.type = some ty) :
    Sema.registerFunction decl funcType s
      = if ty.equals funcType = true then .ok ((), s)
        else .error ("Redefinition of function '" ++ decl.name ++ "'") := by
  unfold Sema.registerFunction
  rw [run_bind_ok (run_get s), insertGlobal_registered s _ _ _ _ _ hk]
  dsimp only
  rw [hl]
  dsimp only
  rw [ht]
  dsimp only
  rw [run_failIf]
  cases ty.equals funcType <;> rfl

/-- C29, counterexample: a second declaration of the function `f` with the same
parameter and return types is accepted, and so is a second declaration of the struct `P`
with another member; the second `enum Color` of the test is rejected, and so is a second
function `f` with another parameter list. -/
theorem function_declared_twice_counterexample :
    failureOf (Sema.analyzeProgramOf 8 [] functionTwiceSource) = none
      ∧ failureOf (Sema.analyzeProgramOf 8 [] structTwiceSource) = none
      ∧ failureOf (Sema.analyzeProgramOf 8 [] enumTwiceSource)
          = some "Redefinition of type 'Color'"
      ∧ failureOf (Sema.analyzeProgramOf 8 [] functionChangedSource)
          = some "Redefinition of function 'f'" := by
  refine ⟨?_, ?_, ?_, ?_⟩ <;> decide!

/-- C29 (amended): when the types of the declaration resolve (and the initializer of a
variable checks with a fitting type), a variable declaration whose name is a symbol of the
current scope raises `Redefinition of variable`, an enum or class declaration whose name
is a type of the module scope raises `Redefinition of type`, whatever the variants or
members are, and a function declaration whose name is a symbol of the module scope raises
`Redefinition of function` when the type found under the name does not equal the type of
the declaration; when it equals, the registration step passes and leaves the analyzer
unchanged. -/
theorem redeclaration_is_rejected (h : SemaHooks) (s s1 : Sema) :
    (∀ (decl : VarDecl) (declared : Option Ty), decl.initializer = none →
        Sema.resolveTypeOpt (Sema.resolveType h) decl.type s = .ok (declared, s1) →
        s1.declaredHere decl.name = true →
        Sema.analyzeVarDecl h decl s
          = .error ("Redefinition of variable '" ++ decl.name ++ "'"))
      ∧ (∀ (decl : VarDecl) (declared : Option Ty) (init : Expr) (r : Ty × Expr) (s2 : Sema)
          (type : Ty), decl.initializer = some init →
          Sema.resolveTypeOpt (Sema.resolveType h) decl.type s = .ok (declared, s1) →
          Sema.checkExpr h init s1 = .ok (r, s2) →
          Sema.initializedType declared r.1 = .ok type →
          s2.declaredHere decl.name = true →
          Sema.analyzeVarDecl h decl s
            = .error ("Redefinition of variable '" ++ decl.name ++ "'"))
      ∧ (∀ (decl : EnumDecl) (vs : List (EnumVariant × Variant)),
          mapMSema (Sema.analyzeEnumVariant h) decl.variants s = .ok (vs, s1) →
          s1.typeRegistered decl.name = true →
          Sema.analyzeEnumDecl h decl s
            = .error ("Redefinition of type '" ++ decl.name ++ "'"))
      ∧ (∀ (decl : ClassDecl) (members : List ClassMember),
          mapMSema (Sema.analyzeClassField h) decl.members s = .ok (members, s1) →
          s1.typeRegistered decl.name = true →
          Sema.analyzeClassDecl h decl s
            = .error ("Redefinition of type '" ++ decl.name ++ "'"))
      ∧ (∀ (decl : FunctionDecl) (params : List Param) (s0 : Sema) (ret ty : Ty)
          (existing : Symbol),
          mapMSema (Sema.resolveParam h) decl.params s = .ok (params, s0) →
          Sema.resolveType h decl.returnType s0 = .ok (ret, s1) →
          s1.symbolRegistered decl.name = true →
          s1.symbolTable.lookup decl.name = some existing → existing.type = some ty →
          (ty.equals (.function (params.map (·.type)) ret decl.isVarArg) = false →
            Sema.analyzeFunctionDecl h decl s
              = .error ("Redefinition of function '" ++ decl.name ++ "'"))
          ∧ (ty.equals (.function (params.map (·.type)) ret decl.isVarArg) = true →
            Sema.registerFunction { decl with params := params, returnType := ret }
              (.function (params.map (·.type)) ret decl.isVarArg) s1 = .ok ((), s1))) := by
  refine ⟨?_, ?_, ?_, ?_, ?_⟩
  · intro decl declared hinit hres hk
    unfold Sema.analyzeVarDecl
    rw [run_bind_ok hres, hinit]
    exact run_bind_error (declareVar_declared decl declared s1 hk)
  · intro decl declared init r s2 type hinit hres hchk hty hk
    unfold Sema.analyzeVarDecl
    rw [run_bind_ok hres, hinit]
    dsimp only
    rw [run_bind_ok hchk, hty, run_bind_ok (run_liftExcept_ok type s2)]
    obtain ⟨s3, hm, hk3⟩ := moveInitializer_run type init decl.name s2
    rw [run_bind_ok hm]
    exact run_bind_error (declareVar_declared decl (some type) s3 (hk3.trans hk))
  · intro decl vs hv hk
    unfold Sema.analyzeEnumDecl
    rw [run_bind_ok hv, run_bind_ok (run_modify _ s1), run_bind_ok (run_get _)]
    dsimp only
    rw [insertTypeGlobal_registered s1 _ _ _ _ hk]
    rfl
  · intro decl members hm hk
    unfold Sema.analyzeClassDecl
    rw [run_bind_ok hm, run_bind_ok (run_newStructType _ _ _ s1), run_bind_ok (run_get _)]
    dsimp only
    rw [insertTypeGlobal_registered s1 _ _ _ _ hk]
    rfl
  · intro decl params s0 ret ty existing hp hr hk hl ht
    have hreg := registerFunction_registered
      { decl with params := params, returnType := ret }
      (.function (params.map (·.type)) ret decl.isVarArg) ty s1 existing hk hl ht
    refine ⟨fun hne => ?_, fun heq => ?_⟩
    · unfold Sema.analyzeFunctionDecl
      rw [run_bind_ok hp, run_bind_ok hr]
      refine run_bind_error ?_
      rw [hreg, hne]
      rfl
    · rw [hreg, heq]
      rfl

/-- C29 at the declaration `enum Color { Blue }` for an analyzer in whose module scope
`enum Color { Red }` is registered: the declaration raises `Redefinition of type 'Color'`. -/
theorem redeclaration_witness :
    Sema.analyzeEnumDecl (Sema.hooks 1) colorBlueDecl colorState
      = .error "Redefinition of type 'Color'" :=
  (redeclaration_is_rejected (Sema.hooks 1) colorState colorState).2.2.1 colorBlueDecl
    [({ name := "Blue", variantKind := .Unit }, Variant.mk "Blue" .Unit [] [])] rfl rfl
/-! ## Names of the lowered functions -/

/-- C32 at the failing inputs: for a function whose nested block declares `x` again, the
entry block holds two instructions `%x = alloca i32`, and for a function with a local
`t0` the constant `%t0 = const 1` and the slot `%t0 = alloca i32` have the same
destination; both programs pass the analyzer. With distinct variable names that are no
names of temporaries no destination is repeated. -/
theorem shadowed_variable_repeats_destination :
    compiledText 8 shadowingSource
        = some [("main", [("entry.0",
            ["%t0 = const 1", "%x = alloca i32", "store %t0, %x",
             "%t1 = const 2", "%x = alloca i32", "store %t1, %x",
             "%t2 = load %x", "ret %t2"])])]
      ∧ (compileOf 8 shadowingSource).toOption.map repeatedNames = some [("main", ["%x"])]
      ∧ compiledText 8 temporaryNameSource
        = some [("main", [("entry.0",
            ["%t0 = const 1", "%t1 = const 2", "%t2 = binop + %t0, %t1",
             "%t0 = alloca i32", "store %t2, %t0", "%t3 = load %t0", "ret %t3"])])]
      ∧ (compileOf 8 temporaryNameSource).toOption.map repeatedNames
        = some [("main", ["%t0"])]
      ∧ (compileOf 8 distinctNamesSource).toOption.map repeatedNames = some [("main", [])] := by
  refine ⟨?_, ?_, ?_, ?_, ?_⟩ <;> decide!

/-- C33 at the failing input: the method `Bar_m`, lowered behind the function `main` that
returns while its local `f` of the class `Foo` is live, calls the destructor of `Foo` on
`%f` before its `ret`, and `%f` is no parameter of `Bar_m` and no destination of its
instructions. With the class `Bar` declared before `main` every operand is defined. -/
theorem method_destroys_slot_of_earlier_function :
    compiledText 8 staleScopeSource
        = some [("Foo_~Foo", [("entry", ["ret "])]),
                ("main", [("entry.0",
                  ["%t0 = alloca Foo", "%t1 = call Foo_Foo(%t0)", "%t2 = load %t0",
                   "%f = alloca Foo", "store %t2, %f", " = call Foo_~Foo(%f)", "ret "])]),
                ("Bar_m", [("entry",
                  ["%self.addr = alloca Bar", "store %self, %self.addr",
                   " = call Foo_~Foo(%f)", "ret "])])]
      ∧ (compileOf 8 staleScopeSource).toOption.map undefinedOperands
        = some [("Foo_~Foo", []), ("main", []), ("Bar_m", ["%f"])]
      ∧ (compileOf 8 methodFirstSource).toOption.map undefinedOperands
        = some [("Foo_~Foo", []), ("Bar_m", []), ("main", [])] := by
  refine ⟨?_, ?_, ?_⟩ <;> decide!

/-- C38 at the failing input: for a function that returns from a nested block in which
the local `f` of the class `Foo` is live, the entry block holds the destructor call on
`%f` twice, once before the `ret` and once behind it. When the block is left at its end
the call stands once. -/
theorem return_in_block_destroys_twice :
    compiledText 8 returnInBlockSource
        = some [("Foo_~Foo", [("entry", ["ret "])]),
                ("main", [("entry.0",
                  ["%t0 = alloca Foo", "%t1 = call Foo_Foo(%t0)", "%t2 = load %t0",
                   "%f = alloca Foo", "store %t2, %f", " = call Foo_~Foo(%f)", "ret ",
                   " = call Foo_~Foo(%f)", "ret "])])]
      ∧ compiledText 8 blockEndSource
        = some [("Foo_~Foo", [("entry", ["ret "])]),
                ("main", [("entry.0",
                  ["%t0 = alloca Foo", "%t1 = call Foo_Foo(%t0)", "%t2 = load %t0",
                   "%f = alloca Foo", "store %t2, %f", " = call Foo_~Foo(%f)", "ret "])])] := by
  refine ⟨?_, ?_⟩ <;> decide!

/-- C39 at the failing input: for `let a = [1.5, 2.5]` the literal allocates `i32[2]` and
its element pointers have the element type `i32`, while the variable `a` has the type
`f64[2]` of the analyzer and the element pointer of `a[0]` the element type `f64`. For
`[1, 2]` the types agree. -/
theorem float_array_literal_allocates_i32 :
    compiledText 8 floatArraySource
        = some [("main", [("entry.0",
            ["%t0 = alloca i32[2]", "%t1 = const double 1.5", "%t2 = const 0",
             "%t3 = array_gep %t0, %t2 (i32)", "store %t1, %t3",
             "%t4 = const double 2.5", "%t5 = const 1",
             "%t6 = array_gep %t0, %t5 (i32)", "store %t4, %t6", "%t7 = load %t0",
             "%a = alloca f64[2]", "store %t7, %a", "%t8 = const 0",
             "%t9 = array_gep %a, %t8 (f64)", "%t10 = load %t9",
             "%b = alloca f64", "store %t10, %b", "ret "])])]
      ∧ compiledText 8 intArraySource
        = some [("main", [("entry.0",
            ["%t0 = alloca i32[2]", "%t1 = const 1", "%t2 = const 0",
             "%t3 = array_gep %t0, %t2 (i32)", "store %t1, %t3",
             "%t4 = const 2", "%t5 = const 1",
             "%t6 = array_gep %t0, %t5 (i32)", "store %t4, %t6", "%t7 = load %t0",
             "%a = alloca i32[2]", "store %t7, %a", "%t8 = const 0",
             "%t9 = array_gep %a, %t8 (i32)", "%t10 = load %t9",
             "%b = alloca i32", "store %t10, %b", "ret "])])] := by
  refine ⟨?_, ?_⟩ <;> decide!

/-- C37 at the failing inputs: the lexer makes one integer token of `1_000` and of `0xFF`,
and `parsePrimary` builds the literals with the values 1 and 0; the digits `1000` give
the value 1000. -/
theorem separator_and_hex_literals_lose_value :
    firstTokenOf "1_000" = (.Integer, "1_000")
      ∧ intLiteralOf (parseExpressionOf "1_000") = some (1, none)
      ∧ firstTokenOf "0xFF" = (.Integer, "0xFF")
      ∧ intLiteralOf (parseExpressionOf "0xFF") = some (0, none)
      ∧ intLiteralOf (parseExpressionOf "1000") = some (1000, none) := by
  refine ⟨?_, ?_, ?_, ?_, ?_⟩ <;> decide!
/-! ## The scope stack is never empty -/

theorem lookup_none_of_not_has {α : Type} (m : List (String × α)) (k : String)
    (h : ¬ mapHas k m = true) : m.lookup k = none := by
  unfold mapHas at h
  cases hl : m.lookup k with
  | none => rfl
  | some v =>
    rw [hl] at h
    exact absurd rfl h

theorem keeps_same (g : Scope) : Scope.Keeps g g :=
  ⟨fun _ sym h => ⟨sym, h, rfl, rfl, rfl, rfl⟩, fun _ _ h => h⟩

theorem keeps_addSymbol (g : Scope) (name : String) (sym : Symbol)
    (hfresh : g.symbols.lookup name = none) :
    Scope.Keeps g { g with symbols := mapSet name sym g.symbols } := by
  refine ⟨fun n s h => ⟨s, ?_, rfl, rfl, rfl, rfl⟩, fun _ _ h => h⟩
  show (mapSet name sym g.symbols).lookup n = some s
  rw [lookup_mapSet]
  by_cases hn : n = name
  · subst hn
    rw [hfresh] at h
    cases h
  · rw [if_neg hn]
    exact h

theorem keeps_addType (g : Scope) (name : String) (type : Option Ty) (isPublic : Bool)
    (decl : Option Stmt) (hfresh : g.types.lookup name = none) :
    Scope.Keeps g (SymbolTable.addType name type isPublic decl g) := by
  refine ⟨fun n s h => ⟨s, h, rfl, rfl, rfl, rfl⟩, fun n ty h => ?_⟩
  show (mapSet name type g.types).lookup n = some ty
  rw [lookup_mapSet]
  by_cases hn : n = name
  · subst hn
    rw [hfresh] at h
    cases h
  · rw [if_neg hn]
    exact h

theorem keeps_setMoved (g : Scope) (flag : Bool) (name : String) (sym : Symbol)
    (hsym : g.symbols.lookup name = some sym) :
    Scope.Keeps g { g with symbols := mapSet name { sym with isMoved := flag } g.symbols } := by
  refine ⟨fun n s h => ?_, fun _ _ h => h⟩
  by_cases hn : n = name
  · subst hn
    rw [hsym] at h
    cases h
    exact ⟨{ sym with isMoved := flag }, by
      show (mapSet n _ g.symbols).lookup n = _
      rw [lookup_mapSet, if_pos rfl], rfl, rfl, rfl, rfl⟩
  · refine ⟨s, ?_, rfl, rfl, rfl, rfl⟩
    show (mapSet name _ g.symbols).lookup n = some s
    rw [lookup_mapSet, if_neg hn]
    exact h

theorem getLast_setMovedIn (flag : Bool) (name : String) :
    ∀ (scopes : List Scope) (g : Scope), scopes.getLast? = some g →
      ∃ g1, (setMovedIn flag name scopes).getLast? = some g1 ∧ Scope.Keeps g g1 := by
  intro scopes
  induction scopes with
  | nil =>
    intro g h
    cases h
  | cons sc rest ih =>
    intro g h
    unfold setMovedIn
    cases hs : sc.symbols.lookup name with
    | some sym =>
      cases rest with
      | nil =>
        cases h
        exact ⟨_, rfl, keeps_setMoved _ flag name sym hs⟩
      | cons t rest2 =>
        rw [List.getLast?_cons_cons] at h
        exact ⟨g, by
          show List.getLast? (_ :: t :: rest2) = some g
          rw [List.getLast?_cons_cons]
          exact h, keeps_same g⟩
    | none =>
      cases rest with
      | nil =>
        cases h
        exact ⟨_, rfl, keeps_same _⟩
      | cons t rest2 =>
        rw [List.getLast?_cons_cons] at h
        obtain ⟨g1, hg1, hk⟩ := ih g h
        refine ⟨g1, ?_, hk⟩
        show List.getLast? (sc :: setMovedIn flag name (t :: rest2)) = some g1
        cases hm : setMovedIn flag name (t :: rest2) with
        | nil =>
          rw [hm] at hg1
          cases hg1
        | cons a b =>
          rw [List.getLast?_cons_cons, ← hm]
          exact hg1

theorem setMovedIn_ne_nil (flag : Bool) (name : String) :
    ∀ scopes : List Scope, scopes ≠ [] → setMovedIn flag name scopes ≠ [] := by
  intro scopes h
  cases scopes with
  | nil => exact absurd rfl h
  | cons sc rest =>
    unfold setMovedIn
    cases sc.symbols.lookup name <;> simp

theorem modifyGlobal_ne_nil (f : Scope → Scope) :
    ∀ scopes : List Scope, scopes ≠ [] → modifyGlobal f scopes ≠ [] := by
  intro scopes h
  cases scopes with
  | nil => exact absurd rfl h
  | cons sc rest =>
    cases rest <;> simp [modifyGlobal]

theorem call_keeps_scopes (t : SymbolTable) (call : SymbolTable.Call) (h : t.scopes ≠ []) :
    (call.apply t).scopes ≠ [] := by
  obtain ⟨scopes⟩ := t
  cases scopes with
  | nil => exact absurd rfl h
  | cons sc rest =>
    cases call with
    | pushScope => simp [SymbolTable.Call.apply, SymbolTable.pushScope]
    | popScope =>
      cases rest with
      | nil => simp [SymbolTable.Call.apply, SymbolTable.popScope]
      | cons a b => simp [SymbolTable.Call.apply, SymbolTable.popScope]
    | insert name type isMutable isPublic decl =>
      simp only [SymbolTable.Call.apply, SymbolTable.insert]
      split <;> simp
    | insertGlobal name type isMutable isPublic decl =>
      simp only [SymbolTable.Call.apply, SymbolTable.insertGlobal]
      split
      · simp
      · split
        · simp
        · exact modifyGlobal_ne_nil _ _ (by simp)
    | insertType name type isPublic decl =>
      simp only [SymbolTable.Call.apply, SymbolTable.insertType]
      split <;> simp
    | insertTypeGlobal name type isPublic decl =>
      simp only [SymbolTable.Call.apply, SymbolTable.insertTypeGlobal]
      split
      · simp
      · split
        · simp
        · exact modifyGlobal_ne_nil _ _ (by simp)
    | markMoved name => exact setMovedIn_ne_nil true name _ (by simp)
    | markAccessed name => exact setMovedIn_ne_nil false name _ (by simp)

theorem keeps_chain {g g1 g2 : Scope} (h1 : Scope.Keeps g g1) (h2 : Scope.Keeps g1 g2) :
    Scope.Keeps g g2 := by
  refine ⟨fun n s h => ?_, fun n ty h => h2.2 n ty (h1.2 n ty h)⟩
  obtain ⟨s1, hs1, a1, b1, c1, d1⟩ := h1.1 n s h
  obtain ⟨s2, hs2, a2, b2, c2, d2⟩ := h2.1 n s1 hs1
  exact ⟨s2, hs2, a2.trans a1, b2.trans b1, c2.trans c1, d2.trans d1⟩

theorem call_keeps_module (t : SymbolTable) (call : SymbolTable.Call) (g : Scope)
    (hg : t.scopes.getLast? = some g) :
    ∃ g1, (call.apply t).scopes.getLast? = some g1 ∧ Scope.Keeps g g1 := by
  obtain ⟨scopes⟩ := t
  cases scopes with
  | nil => cases hg
  | cons sc rest =>
    cases call with
    | pushScope =>
      refine ⟨g, ?_, keeps_same g⟩
      show List.getLast? (_ :: sc :: rest) = some g
      rw [List.getLast?_cons_cons]
      exact hg
    | popScope =>
      cases rest with
      | nil => exact ⟨g, hg, keeps_same g⟩
      | cons a b =>
        refine ⟨g, ?_, keeps_same g⟩
        rw [List.getLast?_cons_cons] at hg
        simpa [SymbolTable.Call.apply, SymbolTable.popScope] using hg
    | insert name type isMutable isPublic decl =>
      simp only [SymbolTable.Call.apply, SymbolTable.insert]
      split
      · exact ⟨g, hg, keeps_same g⟩
      · rename_i hno
        cases rest with
        | nil =>
          cases hg
          refine ⟨_, rfl, keeps_addSymbol _ name _ ?_⟩
          exact lookup_none_of_not_has _ _ hno
        | cons a b =>
          refine ⟨g, ?_, keeps_same g⟩
          rw [List.getLast?_cons_cons] at hg
          show List.getLast? (_ :: a :: b) = some g
          rw [List.getLast?_cons_cons]
          exact hg
    | insertGlobal name type isMutable isPublic decl =>
      simp only [SymbolTable.Call.apply, SymbolTable.insertGlobal]
      rw [hg]
      dsimp only
      split
      · exact ⟨g, hg, keeps_same g⟩
      · rename_i hno
        refine ⟨_, ?_, keeps_addSymbol g name
          ⟨name, type, isMutable, false, isPublic, decl⟩ (lookup_none_of_not_has _ _ hno)⟩
        show (modifyGlobal _ (sc :: rest)).getLast? = _
        rw [getLast_modifyGlobal, hg]
        rfl
    | insertType name type isPublic decl =>
      simp only [SymbolTable.Call.apply, SymbolTable.insertType]
      split
      · exact ⟨g, hg, keeps_same g⟩
      · rename_i hno
        cases rest with
        | nil =>
          cases hg
          refine ⟨_, rfl, keeps_addType _ name type isPublic decl ?_⟩
          exact lookup_none_of_not_has _ _ hno
        | cons a b =>
          refine ⟨g, ?_, keeps_same g⟩
          rw [List.getLast?_cons_cons] at hg
          show List.getLast? (_ :: a :: b) = some g
          rw [List.getLast?_cons_cons]
          exact hg
    | insertTypeGlobal name type isPublic decl =>
      simp only [SymbolTable.Call.apply, SymbolTable.insertTypeGlobal]
      rw [hg]
      dsimp only
      split
      · exact ⟨g, hg, keeps_same g⟩
      · rename_i hno
        refine ⟨_, ?_, keeps_addType g name type isPublic decl
          (lookup_none_of_not_has _ _ hno)⟩
        show (modifyGlobal _ (sc :: rest)).getLast? = _
        rw [getLast_modifyGlobal, hg]
        rfl
    | markMoved name => exact getLast_setMovedIn true name _ g hg
    | markAccessed name => exact getLast_setMovedIn false name _ g hg

theorem foldl_keeps_scopes (calls : List SymbolTable.Call) :
    ∀ t : SymbolTable, t.scopes ≠ [] → (calls.foldl SymbolTable.Call.apply t).scopes ≠ [] := by
  induction calls with
  | nil => exact fun _ h => h
  | cons c cs ih => exact fun t h => ih _ (call_keeps_scopes t c h)

theorem foldl_keeps_module (calls : List SymbolTable.Call) :
    ∀ (t : SymbolTable) (g : Scope), t.scopes.getLast? = some g →
      ∃ g1, (calls.foldl SymbolTable.Call.apply t).scopes.getLast? = some g1
        ∧ Scope.Keeps g g1 := by
  induction calls with
  | nil => exact fun t g h => ⟨g, h, keeps_same g⟩
  | cons c cs ih =>
    intro t g h
    obtain ⟨g1, h1, k1⟩ := call_keeps_module t c g h
    obtain ⟨g2, h2, k2⟩ := ih _ g1 h1
    exact ⟨g2, h2, keeps_chain k1 k2⟩

/-- C40: the table that any sequence of calls of `pushScope`, `popScope`, `insert`,
`insertGlobal`, `insertType`, `insertTypeGlobal`, `markMoved` and `markAccessed` makes of
a new table has at least one scope; `popScope` on a table with the module scope alone
changes nothing; and after any further calls the module scope still has every symbol,
with its type, and every type that it had. -/
theorem scope_stack_is_never_empty (calls : List SymbolTable.Call) :
    (SymbolTable.afterCalls calls).scopes ≠ []
      ∧ (∀ sc : Scope, SymbolTable.popScope ⟨[sc]⟩ = ⟨[sc]⟩)
      ∧ ∀ more : List SymbolTable.Call, ∃ g g1,
          (SymbolTable.afterCalls calls).scopes.getLast? = some g
            ∧ (SymbolTable.afterCalls (calls ++ more)).scopes.getLast? = some g1
            ∧ Scope.Keeps g g1 := by
  have hne : (SymbolTable.afterCalls calls).scopes ≠ [] :=
    foldl_keeps_scopes calls SymbolTable.new (by simp [SymbolTable.new])
  refine ⟨hne, fun _ => rfl, fun more => ?_⟩
  cases hg : (SymbolTable.afterCalls calls).scopes.getLast? with
  | none => exact absurd (List.getLast?_eq_none_iff.mp hg) hne
  | some g =>
    obtain ⟨g1, h1, k1⟩ := foldl_keeps_module more _ g hg
    refine ⟨g, g1, rfl, ?_, k1⟩
    unfold SymbolTable.afterCalls
    rw [List.foldl_append]
    exact h1
/-! ## Injectivity of the mangled names -/

theorem split_at_underscore : ∀ (x x1 y y1 : List Char), '_' ∉ x → '_' ∉ x1 →
    x ++ '_' :: y = x1 ++ '_' :: y1 → x = x1 ∧ y = y1 := by
  intro x
  induction x with
  | nil =>
    intro x1 y y1 _ h1 h
    cases x1 with
    | nil =>
      simp only [List.nil_append, List.cons.injEq, true_and] at h
      exact ⟨rfl, h⟩
    | cons c cs =>
      simp only [List.nil_append, List.cons_append, List.cons.injEq] at h
      exact absurd (h.1 ▸ List.mem_cons_self _ _) h1
  | cons a as ih =>
    intro x1 y y1 h0 h1 h
    cases x1 with
    | nil =>
      simp only [List.nil_append, List.cons_append, List.cons.injEq] at h
      exact absurd (h.1 ▸ List.mem_cons_self _ _) h0
    | cons c cs =>
      simp only [List.cons_append, List.cons.injEq] at h
      obtain ⟨hx, hy⟩ := ih cs y y1 (fun hm => h0 (List.mem_cons_of_mem _ hm))
        (fun hm => h1 (List.mem_cons_of_mem _ hm)) h.2
      exact ⟨by rw [h.1, hx], hy⟩

theorem intercalate_cons_cons (a c : String) (cs : List String) :
    "_".intercalate (a :: c :: cs) = a ++ "_" ++ "_".intercalate (c :: cs) := by
  simp only [String.intercalate, String.intercalate.go]
  rw [intercalate_go_append]

theorem intercalate_injective : ∀ (l1 l2 : List String),
    (∀ s ∈ l1, s ≠ "" ∧ '_' ∉ s.data) → (∀ s ∈ l2, s ≠ "" ∧ '_' ∉ s.data) →
    "_".intercalate l1 = "_".intercalate l2 → l1 = l2 := by
  have hne : ∀ (a : String) (rest : List String), a ≠ "" →
      "_".intercalate (a :: rest) ≠ "" := by
    intro a rest ha h
    cases rest with
    | nil => exact ha (by simpa [String.intercalate, String.intercalate.go] using h)
    | cons c cs =>
      rw [intercalate_cons_cons] at h
      have hd := congrArg String.data h
      simp only [String.data_append] at hd
      have : a.data = [] := by
        cases had : a.data with
        | nil => rfl
        | cons x xs =>
          rw [had] at hd
          cases hd
      exact ha (String.ext this)
  have hmem : ∀ (a b c : String) (cs : List String), '_' ∉ a.data →
      a ≠ b ++ "_" ++ "_".intercalate (c :: cs) := by
    intro a b c cs ha h
    apply ha
    rw [h]
    simp [String.data_append]
  intro l1
  induction l1 with
  | nil =>
    intro l2 _ h2 h
    cases l2 with
    | nil => rfl
    | cons b rest => exact absurd h.symm (hne b rest (h2 b (List.mem_cons_self _ _)).1)
  | cons a r1 ih =>
    intro l2 h1 h2 h
    cases l2 with
    | nil => exact absurd h (hne a r1 (h1 a (List.mem_cons_self _ _)).1)
    | cons b r2 =>
      have ha := h1 a (List.mem_cons_self _ _)
      have hb := h2 b (List.mem_cons_self _ _)
      cases r1 with
      | nil =>
        cases r2 with
        | nil =>
          have : a = b := by simpa [String.intercalate, String.intercalate.go] using h
          rw [this]
        | cons d ds =>
          rw [intercalate_cons_cons] at h
          have ha1 : "_".intercalate [a] = a := by
            simp [String.intercalate, String.intercalate.go]
          rw [ha1] at h
          exact absurd h (hmem a b d ds ha.2)
      | cons c cs =>
        cases r2 with
        | nil =>
          rw [intercalate_cons_cons] at h
          have hb1 : "_".intercalate [b] = b := by
            simp [String.intercalate, String.intercalate.go]
          rw [hb1] at h
          exact absurd h.symm (hmem b a c cs hb.2)
        | cons d ds =>
          rw [intercalate_cons_cons, intercalate_cons_cons] at h
          have hd := congrArg String.data h
          simp only [String.data_append] at hd
          simp only [List.append_assoc, List.singleton_append] at hd
          obtain ⟨hab, hrest⟩ := split_at_underscore _ _ _ _ ha.2 hb.2 hd
          have hrec := ih (d :: ds) (fun s hs => h1 s (List.mem_cons_of_mem _ hs))
            (fun s hs => h2 s (List.mem_cons_of_mem _ hs)) (String.ext hrest)
          rw [String.ext hab, hrec]

theorem sanitizeSpec_plain (s : String) (h : ∀ c ∈ s.data, c ∉ mangleForbidden) :
    sanitizeSpec s = s := by
  unfold sanitizeSpec
  apply String.ext
  have key : ∀ l : List Char, (∀ c ∈ l, c ∉ mangleForbidden) →
      (l.flatMap fun c =>
        if c = '*' then [ 'P', 't', 'r' ]
        else if c = '[' ∨ c = ']' ∨ c = ',' ∨ c = ' ' ∨ c = '(' ∨ c = ')' ∨ c = ':' then [ '_' ]
        else [c]) = l := by
    intro l
    induction l with
    | nil => intro _; rfl
    | cons x xs ih =>
      intro hl
      have hx := hl x (List.mem_cons_self _ _)
      simp only [mangleForbidden, List.mem_cons, List.mem_singleton, List.not_mem_nil,
        or_false, not_or] at hx
      rw [List.flatMap_cons, ih (fun c hc => hl c (List.mem_cons_of_mem _ hc))]
      rw [if_neg hx.1, if_neg (by tauto)]
      rfl
  exact key s.data h

/-- C36 fails in the code: the pairs (`Pair`, [i32, bool]) and (`Pair_i32`, [bool]) have
the same mangled name, and so have (`id`, [`i32*`]) and (`id`, [struct `i32Ptr`]), whose
argument types have different textual forms. A program that calls `id[i32*]` and then
`id[i32Ptr]` is rejected, because the second call finds the specialization for `i32*` in
the cache; without the first call the program is accepted. -/
theorem mangled_names_collide :
    mangleGenericName "Pair" [some Ty.i32, some Ty.bool] = .ok "Pair_i32_bool"
      ∧ mangleGenericName "Pair_i32" [some Ty.bool] = .ok "Pair_i32_bool"
      ∧ mangleGenericName "id" [some (.pointer Ty.i32)] = .ok "id_i32Ptr"
      ∧ mangleGenericName "id" [some i32PtrStruct] = .ok "id_i32Ptr"
      ∧ (Ty.pointer Ty.i32).toString ≠ i32PtrStruct.toString
      ∧ failureOf (Sema.analyzeProgramOf 8 [] sharedNameSource)
          = some "Type mismatch in variable declaration: expected i32Ptr, got i32*"
      ∧ failureOf (Sema.analyzeProgramOf 8 [] singleUseSource) = none := by
  refine ⟨rfl, rfl, rfl, rfl, by decide, ?_, ?_⟩ <;> decide!

/-- The mangling on plain names: for base names without `_` and argument types whose
textual forms are not empty and hold no `_` and none of the characters `* [ ] , space ( ) :`, two pairs with
the same mangled name have the same base name and the same textual forms of the
arguments. -/
theorem mangleGenericName_injective_on_plain_names (base1 base2 : String)
    (args1 args2 : List Ty) (hb1 : '_' ∉ base1.data) (hb2 : '_' ∉ base2.data)
    (h1 : ∀ t ∈ args1, PlainName t.toString) (h2 : ∀ t ∈ args2, PlainName t.toString)
    (h : mangleGenericName base1 (args1.map some) = mangleGenericName base2 (args2.map some)) :
    base1 = base2 ∧ args1.map Ty.toString = args2.map Ty.toString := by
  rw [mangleGenericName_eq, mangleGenericName_eq] at h
  have hplain : ∀ (args : List Ty), (∀ t ∈ args, PlainName t.toString) →
      (args.map fun t => sanitizeSpec t.toString) = args.map Ty.toString := by
    intro args ha
    apply List.map_congr_left
    intro t ht
    exact sanitizeSpec_plain _ (fun c hc => ((ha t ht).2 c hc).2)
  rw [hplain args1 h1, hplain args2 h2] at h
  have hs := Except.ok.inj h
  have hd := congrArg String.data hs
  simp only [String.data_append, List.append_assoc, List.singleton_append] at hd
  obtain ⟨hb, hrest⟩ := split_at_underscore _ _ _ _ hb1 hb2 hd
  refine ⟨String.ext hb, intercalate_injective _ _ ?_ ?_ (String.ext hrest)⟩
  · intro s hs1
    obtain ⟨t, ht, rfl⟩ := List.mem_map.mp hs1
    exact ⟨(h1 t ht).1, fun hc => ((h1 t ht).2 _ hc).1 rfl⟩
  · intro s hs2
    obtain ⟨t, ht, rfl⟩ := List.mem_map.mp hs2
    exact ⟨(h2 t ht).1, fun hc => ((h2 t ht).2 _ hc).1 rfl⟩

/-- The pairs (`Point`, [f64]) and (`Point`, [a struct named `f64`]): the mangled names are
equal, and so are the base names and the textual forms. -/
theorem mangle_injective_witness :
    ("Point" : String) = "Point"
      ∧ [Ty.f64].map Ty.toString = [Ty.struct "f64" [] [] false 1].map Ty.toString :=
  mangleGenericName_injective_on_plain_names "Point" "Point" [Ty.f64]
    [Ty.struct "f64" [] [] false 1] (by decide) (by decide)
    (fun t ht => by
      rw [List.mem_singleton] at ht
      subst ht
      exact ⟨by decide, by decide⟩)
    (fun t ht => by
      rw [List.mem_singleton] at ht
      subst ht
      exact ⟨by decide, by decide⟩)
    rfl
/-! ## Nested block comments -/

namespace Lexer

theorem isAtEnd_of_rest_nil (l : Lexer) (h : l.m_source.drop l.m_pos = []) :
    l.isAtEnd = true := by
  unfold isAtEnd
  exact decide_eq_true (List.drop_eq_nil_iff.mp h)

theorem rest_cons (l : Lexer) (c : Char) (cs : List Char)
    (h : l.m_source.drop l.m_pos = c :: cs) :
    l.isAtEnd = false ∧ l.peek = c ∧ l.peek 1 = cs.headD (Char.ofNat 0)
      ∧ l.advance.m_source = l.m_source ∧ l.advance.m_pos = l.m_pos + 1
      ∧ l.advance.m_source.drop l.advance.m_pos = cs := by
  have hlt : l.m_pos < l.m_source.length := by
    by_contra hge
    rw [List.drop_eq_nil_iff.mpr (Nat.le_of_not_lt hge)] at h
    cases h
  have hend : l.isAtEnd = false := by
    unfold isAtEnd
    exact decide_eq_false (Nat.not_le_of_lt hlt)
  have hget : l.m_source[l.m_pos]? = some c := by
    have := congrArg List.head? h
    rw [List.head?_drop] at this
    exact this
  have htail : l.m_source.drop (l.m_pos + 1) = cs := by
    have := congrArg List.tail h
    rw [List.tail_drop] at this
    exact this
  have hadv : l.advance.m_source = l.m_source ∧ l.advance.m_pos = l.m_pos + 1 := by
    unfold advance
    rw [if_neg (by rw [hend]; exact Bool.false_ne_true)]
    dsimp only
    split <;> exact ⟨rfl, rfl⟩
  refine ⟨hend, ?_, ?_, hadv.1, hadv.2, ?_⟩
  · unfold peek
    rw [if_neg (by simpa using hlt)]
    simp [List.getD, hget]
  · unfold peek
    cases cs with
    | nil =>
      have hlen : l.m_source.length ≤ l.m_pos + 1 := List.drop_eq_nil_iff.mp htail
      rw [if_pos (by simpa using hlen)]
      rfl
    | cons c2 cs2 =>
      have hlt2 : l.m_pos + 1 < l.m_source.length := by
        by_contra hge
        rw [List.drop_eq_nil_iff.mpr (Nat.le_of_not_lt hge)] at htail
        cases htail
      have hget2 : l.m_source[l.m_pos + 1]? = some c2 := by
        have := congrArg List.head? htail
        rw [List.head?_drop] at this
        exact this
      rw [if_neg (by simpa using hlt2)]
      simp [List.getD, hget2]
  · rw [hadv.1, hadv.2]
    exact htail

theorem advanceBy_succ (k : Nat) (l : Lexer) :
    l.advanceBy (k + 1) = l.advance.advanceBy k := rfl

theorem advanceBy_rest (k : Nat) : ∀ l : Lexer,
    (l.advanceBy k).m_source = l.m_source
      ∧ (l.advanceBy k).m_source.drop (l.advanceBy k).m_pos
          = (l.m_source.drop l.m_pos).drop k := by
  induction k with
  | zero => exact fun l => ⟨rfl, rfl⟩
  | succ n ih =>
    intro l
    rw [advanceBy_succ]
    obtain ⟨hs, hd⟩ := ih l.advance
    cases hr : l.m_source.drop l.m_pos with
    | nil =>
      have hadv : l.advance = l := by
        unfold advance
        rw [if_pos (isAtEnd_of_rest_nil l hr)]
      rw [hadv] at hs hd ⊢
      exact ⟨hs, by rw [hd, hr]; simp⟩
    | cons c cs =>
      obtain ⟨-, -, -, h4, -, h6⟩ := rest_cons l c cs hr
      exact ⟨hs.trans h4, by rw [hd, h6]; rfl⟩

theorem getD_map_add (o : Option Nat) (n m : Nat) :
    (o.map (· + m)).getD (n + m) = o.getD n + m := by
  cases o <;> rfl

theorem advanceBy_two (o : Option Nat) (n : Nat) (l : Lexer) :
    l.advance.advance.advanceBy (o.getD n) = l.advanceBy ((o.map (· + 2)).getD (n + 2)) := by
  cases o <;> rfl

theorem advanceBy_one (o : Option Nat) (n : Nat) (l : Lexer) :
    l.advance.advanceBy (o.getD n) = l.advanceBy ((o.map (· + 1)).getD (n + 1)) := by
  cases o <;> rfl

theorem blockCommentLoop_eq : ∀ (fuel nesting : Nat) (l : Lexer),
    (l.m_source.drop l.m_pos).length ≤ fuel →
    blockCommentLoop fuel nesting l
      = l.advanceBy ((commentBodyLength nesting (l.m_source.drop l.m_pos)).getD
          (l.m_source.drop l.m_pos).length) := by
  intro fuel
  induction fuel with
  | zero =>
    intro nesting l h
    have hr : l.m_source.drop l.m_pos = [] := List.length_eq_zero.mp (Nat.le_zero.mp h)
    rw [hr]
    cases nesting <;> rfl
  | succ f ih =>
    intro nesting l h
    unfold blockCommentLoop
    cases nesting with
    | zero =>
      rw [if_neg (by simp)]
      cases l.m_source.drop l.m_pos <;> rfl
    | succ d =>
      cases hr : l.m_source.drop l.m_pos with
      | nil =>
        rw [isAtEnd_of_rest_nil l hr]
        rw [if_neg (by simp)]
        rfl
      | cons c cs =>
        obtain ⟨h1, h2, h3, h4, h5, h6⟩ := rest_cons l c cs hr
        rw [hr] at h
        rw [h1, h2, h3, if_pos (by simp)]
        cases cs with
        | nil =>
          have hno1 : ¬ ((decide (c = '/') && decide (([] : List Char).headD (Char.ofNat 0) = '*'))
              = true) := by
            simp only [List.headD_nil, Bool.and_eq_true, decide_eq_true_eq, not_and]
            intro _
            decide
          have hno2 : ¬ ((decide (c = '*') && decide (([] : List Char).headD (Char.ofNat 0) = '/'))
              = true) := by
            simp only [List.headD_nil, Bool.and_eq_true, decide_eq_true_eq, not_and]
            intro _
            decide
          rw [if_neg hno1, if_neg hno2, ih (d + 1) l.advance (by rw [h6]; exact Nat.zero_le _),
            h6]
          rfl
        | cons c2 cs2 =>
          simp only [List.length_cons] at h
          have hlen2 : cs2.length ≤ f := by omega
          have hadv2 : l.advance.advance.m_source.drop l.advance.advance.m_pos = cs2 :=
            (rest_cons l.advance c2 cs2 h6).2.2.2.2.2
          simp only [List.headD_cons, commentBodyLength]
          by_cases hc1 : c = '/' ∧ c2 = '*'
          · rw [if_pos (by simp [hc1.1, hc1.2]), if_pos hc1,
              ih (d + 1 + 1) l.advance.advance (by rw [hadv2]; exact hlen2), hadv2]
            exact advanceBy_two _ _ l
          · rw [if_neg (by simpa using hc1), if_neg hc1]
            by_cases hc2 : c = '*' ∧ c2 = '/'
            · rw [if_pos (by simp [hc2.1, hc2.2]), if_pos hc2, Nat.add_sub_cancel,
                ih d l.advance.advance (by rw [hadv2]; exact hlen2), hadv2]
              exact advanceBy_two _ _ l
            · rw [if_neg (by simpa using hc2), if_neg hc2,
                ih (d + 1) l.advance (by rw [h6]; simp only [List.length_cons]; omega), h6]
              exact advanceBy_one _ _ l

theorem rest_le_of_follows {a b : Lexer} (h : Follows a b) :
    (b.m_source.drop b.m_pos).length ≤ (a.m_source.drop a.m_pos).length := by
  rw [List.length_drop, List.length_drop, h.1]
  have := h.2
  omega

theorem skipWhitespaceLoop_fuel : ∀ (f1 f2 : Nat) (l : Lexer),
    (l.m_source.drop l.m_pos).length ≤ f1 → (l.m_source.drop l.m_pos).length ≤ f2 →
    skipWhitespaceLoop f1 l = skipWhitespaceLoop f2 l := by
  intro f1
  induction f1 with
  | zero =>
    intro f2 l h1 _
    have hend := isAtEnd_of_rest_nil l (List.length_eq_zero.mp (Nat.le_zero.mp h1))
    rw [skipWhitespaceLoop_atEnd _ l hend, skipWhitespaceLoop_atEnd _ l hend]
  | succ f ih =>
    intro f2 l h1 h2
    cases f2 with
    | zero =>
      have hend := isAtEnd_of_rest_nil l (List.length_eq_zero.mp (Nat.le_zero.mp h2))
      rw [skipWhitespaceLoop_atEnd _ l hend, skipWhitespaceLoop_atEnd _ l hend]
    | succ g =>
      cases hr : l.m_source.drop l.m_pos with
      | nil =>
        have hend := isAtEnd_of_rest_nil l hr
        rw [skipWhitespaceLoop_atEnd _ l hend, skipWhitespaceLoop_atEnd _ l hend]
      | cons c cs =>
        obtain ⟨e1, e2, -, -, -, e6⟩ := rest_cons l c cs hr
        rw [hr] at h1 h2
        simp only [List.length_cons] at h1 h2
        have hstep : ∀ l2 : Lexer, Follows l.advance l2 →
            skipWhitespaceLoop f l2 = skipWhitespaceLoop g l2 := by
          intro l2 hf
          have hle := rest_le_of_follows hf
          rw [e6] at hle
          exact ih g l2 (by omega) (by omega)
        have hlen : l.m_source.length = (l.m_source.length - 1) + 1 := by
          have := congrArg List.length hr
          rw [List.length_drop] at this
          simp only [List.length_cons] at this
          omega
        simp only [skipWhitespaceLoop, e1, Bool.false_eq_true, if_false]
        split
        · exact hstep _ (Follows.refl _)
        · split
          · split
            · rename_i hc _
              apply hstep
              rw [hlen]
              unfold advanceWhile
              rw [if_pos (by
                rw [e1, e2, e2.symm.trans hc]
                decide)]
              exact follows_advanceWhile _ _ _
            · split
              · apply hstep
                exact (follows_advance _).trans (follows_blockCommentLoop _ _ _)
              · rfl
          · rfl

/-- C31: at a block comment, when the text behind the opening `/*` closes the comment
after `k` characters, counted with nesting, the next token is the one that follows the
comment: `nextToken` gives what it gives after `k + 2` calls of `advance`. When the text
ends before the comment is closed, the next token is `EndOfFile` and the lexer is at the
end of the input. -/
theorem block_comments_nest (l : Lexer) (h0 : l.peek = '/') (h1 : l.peek 1 = '*') :
    (∀ k, commentBodyLength 1 (l.m_source.drop (l.m_pos + 2)) = some k →
        l.nextToken = (l.advanceBy (k + 2)).nextToken)
      ∧ (commentBodyLength 1 (l.m_source.drop (l.m_pos + 2)) = none →
        l.nextToken.1.type = .EndOfFile ∧ l.nextToken.2.isAtEnd = true) := by
  cases hr : l.m_source.drop l.m_pos with
  | nil =>
    have : l.peek = Char.ofNat 0 := by
      unfold peek
      rw [if_pos (by simpa using List.drop_eq_nil_iff.mp hr)]
    rw [this] at h0
    exact absurd h0 (by decide)
  | cons c cs =>
    obtain ⟨e1, e2, e3, e4, e5, e6⟩ := rest_cons l c cs hr
    cases cs with
    | nil =>
      rw [e3] at h1
      exact absurd h1 (by decide)
    | cons c2 cs2 =>
      obtain ⟨-, -, -, d4, d5, d6⟩ := rest_cons l.advance c2 cs2 e6
      have hdrop : l.m_source.drop (l.m_pos + 2) = cs2 := by
        rw [← d6, d4, e4, d5, e5]
      have hc : c = '/' := e2.symm.trans h0
      subst hc
      have hc2 : c2 = '*' := by
        rw [e3] at h1
        exact h1
      subst hc2
      obtain ⟨n, hn⟩ : ∃ n, l.m_source.length = n + 1 := by
        have := congrArg List.length hr
        rw [List.length_drop] at this
        simp only [List.length_cons] at this
        exact ⟨l.m_source.length - 1, by omega⟩
      have hrest : cs2.length + 2 + l.m_pos = n + 1 := by
        have := congrArg List.length hr
        rw [List.length_drop] at this
        simp only [List.length_cons] at this
        omega
      have hskip : l.skipWhitespace
          = skipWhitespaceLoop n
              (l.advance.advance.advanceBy ((commentBodyLength 1 cs2).getD cs2.length)) := by
        unfold skipWhitespace
        rw [hn]
        simp only [skipWhitespaceLoop, e1, Bool.false_eq_true, if_false]
        rw [e2, if_neg (by decide), if_pos rfl, h1, if_neg (by decide), if_pos rfl]
        rw [blockCommentLoop_eq _ 1 l.advance.advance (by rw [d6]; omega), d6]
      rw [hdrop]
      refine ⟨fun k hk => ?_, fun hk => ?_⟩
      · have hsame : l.advance.advance.advanceBy k = l.advanceBy (k + 2) := rfl
        rw [hk, Option.getD_some, hsame] at hskip
        have hfuel : skipWhitespaceLoop n (l.advanceBy (k + 2))
            = (l.advanceBy (k + 2)).skipWhitespace := by
          unfold skipWhitespace
          have hr2 := (advanceBy_rest (k + 2) l).2
          apply skipWhitespaceLoop_fuel
          · rw [hr2, hr, List.length_drop]
            simp only [List.length_cons]
            omega
          · rw [List.length_drop]
            omega
        unfold nextToken
        rw [hskip, hfuel]
      · rw [hk, Option.getD_none] at hskip
        have hr2 := (advanceBy_rest cs2.length l.advance.advance).2
        rw [d6, List.drop_length] at hr2
        have hend := isAtEnd_of_rest_nil _ hr2
        rw [skipWhitespaceLoop_atEnd _ _ hend] at hskip
        have hend2 : ∀ x : Lexer, x.isAtEnd = true →
            ({ x with start_pos := x.m_pos } : Lexer).isAtEnd = true := fun _ hx => hx
        unfold nextToken
        rw [hskip]
        simp only [hend2 _ hend, if_true]
        exact ⟨rfl, trivial⟩

end Lexer

/-- C31 at `/* a /* b */ c */ x`: the text behind the opening closes the comment after 15
characters, and the first token is the identifier `x` in column 19. -/
theorem nested_comment_witness :
    (Lexer.new nestedCommentSource).nextToken
        = ((Lexer.new nestedCommentSource).advanceBy 17).nextToken
      ∧ (Lexer.new nestedCommentSource).nextToken.1
        = { type := .Identifier, value := "x", line := 1, column := 19 } :=
  ⟨(Lexer.block_comments_nest (Lexer.new nestedCommentSource) (by decide) (by decide)).1 15
    (by decide), by decide⟩
/-! ## The tests of a switch -/

namespace MIRBuilder

end MIRBuilder

set_option linter.unusedTactic false
set_option linter.unreachableTactic false

namespace MIRBuilder

theorem keeps_pure {α : Type} (a : α) : KeepsLoops (pure a : BuildM α) := by
  intro s b s1 h
  cases h
  rfl

theorem keeps_throw {α : Type} (e : String) : KeepsLoops (throw e : BuildM α) := by
  intro s b s1 h
  cases h

theorem keeps_get : KeepsLoops (get : BuildM MIRBuilder) := by
  intro s b s1 h
  cases h
  rfl

theorem keeps_modify (f : MIRBuilder → MIRBuilder) (hf : ∀ s, (f s).loopStack = s.loopStack) :
    KeepsLoops (modify f : BuildM PUnit) := by
  intro s b s1 h
  cases h
  exact hf s

theorem keeps_bind {α β : Type} {x : BuildM α} {f : α → BuildM β} (hx : KeepsLoops x)
    (hf : ∀ a, KeepsLoops (f a)) : KeepsLoops (x >>= f) := by
  intro s b s2 h
  obtain ⟨a, s1, h1, h2⟩ := build_bind_eq_ok.mp h
  exact (hf a s1 b s2 h2).trans (hx s a s1 h1)

theorem keeps_newTemp : KeepsLoops newTemp := by
  intro s b s1 h
  cases h
  rfl

theorem keeps_emit (inst : MIRInstruction) : KeepsLoops (emit inst) := by
  intro s b s1 h
  unfold emit at h
  split at h
  · cases h
  · split at h
    · cases h
    · cases h
      rfl

theorem keeps_newBlock (name : String) : KeepsLoops (newBlock name) := by
  intro s b s1 h
  unfold newBlock at h
  split at h
  · cases h
  · split at h
    · cases h
    · cases h
      rfl

theorem keeps_setCurrentBlock (block : BlockPtr) : KeepsLoops (setCurrentBlock block) := by
  intro s b s1 h
  cases h
  rfl

theorem keeps_hasTerminator : KeepsLoops hasTerminator := by
  intro s b s1 h
  unfold hasTerminator at h
  split at h
  · cases h
  · split at h
    · cases h
    · cases h
      rfl

theorem keeps_varMapIndex (k : String) : KeepsLoops (varMapIndex k) := by
  intro s b s1 h
  cases h
  rfl

theorem keeps_ptrTypeMapIndex (k : String) : KeepsLoops (ptrTypeMapIndex k) := by
  intro s b s1 h
  cases h
  rfl

theorem keeps_deref {α : Type} (o : Option α) (what : String) : KeepsLoops (deref o what) := by
  unfold deref
  split
  · exact keeps_pure _
  · exact keeps_throw _

theorem keeps_firstArg {α : Type} (arg0 : Option α) : KeepsLoops (firstArg arg0) := by
  unfold firstArg
  split
  · exact keeps_pure _
  · exact keeps_throw _

theorem keeps_forEach {α : Type} (body : α → BuildM Unit) (h : ∀ a, KeepsLoops (body a)) :
    ∀ l : List α, KeepsLoops (forEach body l)
  | [] => keeps_pure _
  | x :: xs => keeps_bind (h x) (fun _ => keeps_forEach body h xs)


theorem pushScope_keeps :
    KeepsLoops (pushScope) := by
  unfold pushScope
  repeat' first
    | assumption
    | with_reducible exact keeps_pure _
    | with_reducible exact keeps_throw _
    | with_reducible exact keeps_get
    | with_reducible exact keeps_newTemp
    | with_reducible exact keeps_emit _
    | with_reducible exact keeps_newBlock _
    | with_reducible exact keeps_setCurrentBlock _
    | with_reducible exact keeps_hasTerminator
    | with_reducible exact keeps_varMapIndex _
    | with_reducible exact keeps_ptrTypeMapIndex _
    | with_reducible exact keeps_deref _ _
    | with_reducible exact keeps_firstArg _
    | with_reducible exact keeps_modify _ (fun _ => rfl)
    | with_reducible apply keeps_bind
    | dsimp only
    | split
    | intro _

theorem setPtrType_keeps (k v : String) :
    KeepsLoops (setPtrType k v) := by
  unfold setPtrType
  repeat' first
    | assumption
    | with_reducible exact keeps_pure _
    | with_reducible exact keeps_throw _
    | with_reducible exact keeps_get
    | with_reducible exact keeps_newTemp
    | with_reducible exact keeps_emit _
    | with_reducible exact keeps_newBlock _
    | with_reducible exact keeps_setCurrentBlock _
    | with_reducible exact keeps_hasTerminator
    | with_reducible exact keeps_varMapIndex _
    | with_reducible exact keeps_ptrTypeMapIndex _
    | with_reducible exact keeps_deref _ _
    | with_reducible exact keeps_firstArg _
    | with_reducible exact keeps_modify _ (fun _ => rfl)
    | with_reducible apply pushScope_keeps
    | with_reducible apply keeps_bind
    | dsimp only
    | split
    | intro _

theorem setVar_keeps (k v : String) :
    KeepsLoops (setVar k v) := by
  unfold setVar
  repeat' first
    | assumption
    | with_reducible exact keeps_pure _
    | with_reducible exact keeps_throw _
    | with_reducible exact keeps_get
    | with_reducible exact keeps_newTemp
    | with_reducible exact keeps_emit _
    | with_reducible exact keeps_newBlock _
    | with_reducible exact keeps_setCurrentBlock _
    | with_reducible exact keeps_hasTerminator
    | with_reducible exact keeps_varMapIndex _
    | with_reducible exact keeps_ptrTypeMapIndex _
    | with_reducible exact keeps_deref _ _
    | with_reducible exact keeps_firstArg _
    | with_reducible exact keeps_modify _ (fun _ => rfl)
    | with_reducible apply pushScope_keeps
    | with_reducible apply setPtrType_keeps
    | with_reducible apply keeps_bind
    | dsimp only
    | split
    | intro _

theorem emitUnlessTerminated_keeps (inst : MIRInstruction) :
    KeepsLoops (emitUnlessTerminated inst) := by
  unfold emitUnlessTerminated
  repeat' first
    | assumption
    | with_reducible exact keeps_pure _
    | with_reducible exact keeps_throw _
    | with_reducible exact keeps_get
    | with_reducible exact keeps_newTemp
    | with_reducible exact keeps_emit _
    | with_reducible exact keeps_newBlock _
    | with_reducible exact keeps_setCurrentBlock _
    | with_reducible exact keeps_hasTerminator
    | with_reducible exact keeps_varMapIndex _
    | with_reducible exact keeps_ptrTypeMapIndex _
    | with_reducible exact keeps_deref _ _
    | with_reducible exact keeps_firstArg _
    | with_reducible exact keeps_modify _ (fun _ => rfl)
    | with_reducible apply pushScope_keeps
    | with_reducible apply setPtrType_keeps
    | with_reducible apply setVar_keeps
    | with_reducible apply keeps_bind
    | dsimp only
    | split
    | intro _

theorem destroyVariable_keeps (v : LocalVar) :
    KeepsLoops (destroyVariable v) := by
  unfold destroyVariable
  repeat' first
    | assumption
    | with_reducible exact keeps_pure _
    | with_reducible exact keeps_throw _
    | with_reducible exact keeps_get
    | with_reducible exact keeps_newTemp
    | with_reducible exact keeps_emit _
    | with_reducible exact keeps_newBlock _
    | with_reducible exact keeps_setCurrentBlock _
    | with_reducible exact keeps_hasTerminator
    | with_reducible exact keeps_varMapIndex _
    | with_reducible exact keeps_ptrTypeMapIndex _
    | with_reducible exact keeps_deref _ _
    | with_reducible exact keeps_firstArg _
    | with_reducible exact keeps_modify _ (fun _ => rfl)
    | with_reducible apply pushScope_keeps
    | with_reducible apply setPtrType_keeps
    | with_reducible apply setVar_keeps
    | with_reducible apply emitUnlessTerminated_keeps
    | with_reducible apply keeps_bind
    | dsimp only
    | split
    | intro _

theorem forgetVariable_keeps (shadowed : List ShadowedVar) (v : LocalVar) :
    KeepsLoops (forgetVariable shadowed v) := by
  unfold forgetVariable
  repeat' first
    | assumption
    | with_reducible exact keeps_pure _
    | with_reducible exact keeps_throw _
    | with_reducible exact keeps_get
    | with_reducible exact keeps_newTemp
    | with_reducible exact keeps_emit _
    | with_reducible exact keeps_newBlock _
    | with_reducible exact keeps_setCurrentBlock _
    | with_reducible exact keeps_hasTerminator
    | with_reducible exact keeps_varMapIndex _
    | with_reducible exact keeps_ptrTypeMapIndex _
    | with_reducible exact keeps_deref _ _
    | with_reducible exact keeps_firstArg _
    | with_reducible exact keeps_modify _ (fun _ => rfl)
    | with_reducible apply pushScope_keeps
    | with_reducible apply setPtrType_keeps
    | with_reducible apply setVar_keeps
    | with_reducible apply emitUnlessTerminated_keeps
    | with_reducible apply destroyVariable_keeps
    | with_reducible apply keeps_bind
    | dsimp only
    | split
    | intro _

theorem popVariable_keeps (shadowed : List ShadowedVar) (v : LocalVar) :
    KeepsLoops (popVariable shadowed v) := by
  unfold popVariable
  repeat' first
    | assumption
    | with_reducible exact keeps_pure _
    | with_reducible exact keeps_throw _
    | with_reducible exact keeps_get
    | with_reducible exact keeps_newTemp
    | with_reducible exact keeps_emit _
    | with_reducible exact keeps_newBlock _
    | with_reducible exact keeps_setCurrentBlock _
    | with_reducible exact keeps_hasTerminator
    | with_reducible exact keeps_varMapIndex _
    | with_reducible exact keeps_ptrTypeMapIndex _
    | with_reducible exact keeps_deref _ _
    | with_reducible exact keeps_firstArg _
    | with_reducible exact keeps_modify _ (fun _ => rfl)
    | with_reducible apply pushScope_keeps
    | with_reducible apply setPtrType_keeps
    | with_reducible apply setVar_keeps
    | with_reducible apply emitUnlessTerminated_keeps
    | with_reducible apply destroyVariable_keeps
    | with_reducible apply forgetVariable_keeps
    | with_reducible apply keeps_bind
    | dsimp only
    | split
    | intro _

theorem restoreShadowed_keeps (sh : ShadowedVar) :
    KeepsLoops (restoreShadowed sh) := by
  unfold restoreShadowed
  repeat' first
    | assumption
    | with_reducible exact keeps_pure _
    | with_reducible exact keeps_throw _
    | with_reducible exact keeps_get
    | with_reducible exact keeps_newTemp
    | with_reducible exact keeps_emit _
    | with_reducible exact keeps_newBlock _
    | with_reducible exact keeps_setCurrentBlock _
    | with_reducible exact keeps_hasTerminator
    | with_reducible exact keeps_varMapIndex _
    | with_reducible exact keeps_ptrTypeMapIndex _
    | with_reducible exact keeps_deref _ _
    | with_reducible exact keeps_firstArg _
    | with_reducible exact keeps_modify _ (fun _ => rfl)
    | with_reducible apply pushScope_keeps
    | with_reducible apply setPtrType_keeps
    | with_reducible apply setVar_keeps
    | with_reducible apply emitUnlessTerminated_keeps
    | with_reducible apply destroyVariable_keeps
    | with_reducible apply forgetVariable_keeps
    | with_reducible apply popVariable_keeps
    | with_reducible apply keeps_bind
    | dsimp only
    | split
    | intro _

theorem popScope_keeps : KeepsLoops popScope := by
  unfold popScope
  refine keeps_bind keeps_get (fun s => ?_)
  split
  · exact keeps_pure _
  · exact keeps_bind (keeps_forEach _ (fun v => popVariable_keeps _ v) _)
      (fun _ => keeps_bind (keeps_forEach _ restoreShadowed_keeps _)
        (fun _ => keeps_modify _ (fun _ => rfl)))


theorem emitDestructor_keeps (v : LocalVar) :
    KeepsLoops (emitDestructor v) := by
  unfold emitDestructor
  repeat' first
    | assumption
    | with_reducible exact keeps_pure _
    | with_reducible exact keeps_throw _
    | with_reducible exact keeps_get
    | with_reducible exact keeps_newTemp
    | with_reducible exact keeps_emit _
    | with_reducible exact keeps_newBlock _
    | with_reducible exact keeps_setCurrentBlock _
    | with_reducible exact keeps_hasTerminator
    | with_reducible exact keeps_varMapIndex _
    | with_reducible exact keeps_ptrTypeMapIndex _
    | with_reducible exact keeps_deref _ _
    | with_reducible exact keeps_firstArg _
    | with_reducible exact keeps_modify _ (fun _ => rfl)
    | with_reducible apply pushScope_keeps
    | with_reducible apply setPtrType_keeps
    | with_reducible apply setVar_keeps
    | with_reducible apply emitUnlessTerminated_keeps
    | with_reducible apply destroyVariable_keeps
    | with_reducible apply forgetVariable_keeps
    | with_reducible apply popVariable_keeps
    | with_reducible apply restoreShadowed_keeps
    | with_reducible apply popScope_keeps
    | with_reducible apply keeps_bind
    | dsimp only
    | split
    | intro _

theorem emitAllDestructors_keeps : KeepsLoops emitAllDestructors := by
  unfold emitAllDestructors
  exact keeps_bind keeps_get (fun s => keeps_forEach _
    (fun scope => keeps_forEach _ emitDestructor_keeps _) _)


theorem emitVariant_keeps (enumTy : Ty) (tag : Int) (args : BuildM (List String))
    (hargs : KeepsLoops args) :
    KeepsLoops (emitVariant enumTy tag args) := by
  unfold emitVariant
  repeat' first
    | assumption
    | with_reducible exact keeps_pure _
    | with_reducible exact keeps_throw _
    | with_reducible exact keeps_get
    | with_reducible exact keeps_newTemp
    | with_reducible exact keeps_emit _
    | with_reducible exact keeps_newBlock _
    | with_reducible exact keeps_setCurrentBlock _
    | with_reducible exact keeps_hasTerminator
    | with_reducible exact keeps_varMapIndex _
    | with_reducible exact keeps_ptrTypeMapIndex _
    | with_reducible exact keeps_deref _ _
    | with_reducible exact keeps_firstArg _
    | with_reducible exact keeps_modify _ (fun _ => rfl)
    | with_reducible apply pushScope_keeps
    | with_reducible apply setPtrType_keeps
    | with_reducible apply setVar_keeps
    | with_reducible apply emitUnlessTerminated_keeps
    | with_reducible apply destroyVariable_keeps
    | with_reducible apply forgetVariable_keeps
    | with_reducible apply popVariable_keeps
    | with_reducible apply restoreShadowed_keeps
    | with_reducible apply popScope_keeps
    | with_reducible apply emitDestructor_keeps
    | with_reducible apply emitAllDestructors_keeps
    | with_reducible apply keeps_bind
    | dsimp only
    | split
    | intro _

theorem finishCall_keeps (calleeName : String) (args : List String) :
    KeepsLoops (finishCall calleeName args) := by
  unfold finishCall
  repeat' first
    | assumption
    | with_reducible exact keeps_pure _
    | with_reducible exact keeps_throw _
    | with_reducible exact keeps_get
    | with_reducible exact keeps_newTemp
    | with_reducible exact keeps_emit _
    | with_reducible exact keeps_newBlock _
    | with_reducible exact keeps_setCurrentBlock _
    | with_reducible exact keeps_hasTerminator
    | with_reducible exact keeps_varMapIndex _
    | with_reducible exact keeps_ptrTypeMapIndex _
    | with_reducible exact keeps_deref _ _
    | with_reducible exact keeps_firstArg _
    | with_reducible exact keeps_modify _ (fun _ => rfl)
    | with_reducible apply pushScope_keeps
    | with_reducible apply setPtrType_keeps
    | with_reducible apply setVar_keeps
    | with_reducible apply emitUnlessTerminated_keeps
    | with_reducible apply destroyVariable_keeps
    | with_reducible apply forgetVariable_keeps
    | with_reducible apply popVariable_keeps
    | with_reducible apply restoreShadowed_keeps
    | with_reducible apply popScope_keeps
    | with_reducible apply emitDestructor_keeps
    | with_reducible apply emitAllDestructors_keeps
    | with_reducible apply emitVariant_keeps
    | with_reducible apply keeps_bind
    | dsimp only
    | split
    | intro _

theorem lowerLiteralExpr_keeps (expr : LiteralExpr) :
    KeepsLoops (lowerLiteralExpr expr) := by
  unfold lowerLiteralExpr
  repeat' first
    | assumption
    | with_reducible exact keeps_pure _
    | with_reducible exact keeps_throw _
    | with_reducible exact keeps_get
    | with_reducible exact keeps_newTemp
    | with_reducible exact keeps_emit _
    | with_reducible exact keeps_newBlock _
    | with_reducible exact keeps_setCurrentBlock _
    | with_reducible exact keeps_hasTerminator
    | with_reducible exact keeps_varMapIndex _
    | with_reducible exact keeps_ptrTypeMapIndex _
    | with_reducible exact keeps_deref _ _
    | with_reducible exact keeps_firstArg _
    | with_reducible exact keeps_modify _ (fun _ => rfl)
    | with_reducible apply pushScope_keeps
    | with_reducible apply setPtrType_keeps
    | with_reducible apply setVar_keeps
    | with_reducible apply emitUnlessTerminated_keeps
    | with_reducible apply destroyVariable_keeps
    | with_reducible apply forgetVariable_keeps
    | with_reducible apply popVariable_keeps
    | with_reducible apply restoreShadowed_keeps
    | with_reducible apply popScope_keeps
    | with_reducible apply emitDestructor_keeps
    | with_reducible apply emitAllDestructors_keeps
    | with_reducible apply emitVariant_keeps
    | with_reducible apply finishCall_keeps
    | with_reducible apply keeps_bind
    | dsimp only
    | split
    | intro _

theorem lowerBinaryExpr_keeps (op : TokenType) (leftAddr left right : BuildM String)
    (h1 : KeepsLoops leftAddr) (h2 : KeepsLoops left) (h3 : KeepsLoops right) :
    KeepsLoops (lowerBinaryExpr op leftAddr left right) := by
  unfold lowerBinaryExpr
  repeat' first
    | assumption
    | with_reducible exact keeps_pure _
    | with_reducible exact keeps_throw _
    | with_reducible exact keeps_get
    | with_reducible exact keeps_newTemp
    | with_reducible exact keeps_emit _
    | with_reducible exact keeps_newBlock _
    | with_reducible exact keeps_setCurrentBlock _
    | with_reducible exact keeps_hasTerminator
    | with_reducible exact keeps_varMapIndex _
    | with_reducible exact keeps_ptrTypeMapIndex _
    | with_reducible exact keeps_deref _ _
    | with_reducible exact keeps_firstArg _
    | with_reducible exact keeps_modify _ (fun _ => rfl)
    | with_reducible apply pushScope_keeps
    | with_reducible apply setPtrType_keeps
    | with_reducible apply setVar_keeps
    | with_reducible apply emitUnlessTerminated_keeps
    | with_reducible apply destroyVariable_keeps
    | with_reducible apply forgetVariable_keeps
    | with_reducible apply popVariable_keeps
    | with_reducible apply restoreShadowed_keeps
    | with_reducible apply popScope_keeps
    | with_reducible apply emitDestructor_keeps
    | with_reducible apply emitAllDestructors_keeps
    | with_reducible apply emitVariant_keeps
    | with_reducible apply finishCall_keeps
    | with_reducible apply lowerLiteralExpr_keeps
    | with_reducible apply keeps_bind
    | dsimp only
    | split
    | intro _

theorem lowerUnaryExpr_keeps (op : TokenType) (operand : BuildM String) (h : KeepsLoops operand) :
    KeepsLoops (lowerUnaryExpr op operand) := by
  unfold lowerUnaryExpr
  repeat' first
    | assumption
    | with_reducible exact keeps_pure _
    | with_reducible exact keeps_throw _
    | with_reducible exact keeps_get
    | with_reducible exact keeps_newTemp
    | with_reducible exact keeps_emit _
    | with_reducible exact keeps_newBlock _
    | with_reducible exact keeps_setCurrentBlock _
    | with_reducible exact keeps_hasTerminator
    | with_reducible exact keeps_varMapIndex _
    | with_reducible exact keeps_ptrTypeMapIndex _
    | with_reducible exact keeps_deref _ _
    | with_reducible exact keeps_firstArg _
    | with_reducible exact keeps_modify _ (fun _ => rfl)
    | with_reducible apply pushScope_keeps
    | with_reducible apply setPtrType_keeps
    | with_reducible apply setVar_keeps
    | with_reducible apply emitUnlessTerminated_keeps
    | with_reducible apply destroyVariable_keeps
    | with_reducible apply forgetVariable_keeps
    | with_reducible apply popVariable_keeps
    | with_reducible apply restoreShadowed_keeps
    | with_reducible apply popScope_keeps
    | with_reducible apply emitDestructor_keeps
    | with_reducible apply emitAllDestructors_keeps
    | with_reducible apply emitVariant_keeps
    | with_reducible apply finishCall_keeps
    | with_reducible apply lowerLiteralExpr_keeps
    | with_reducible apply lowerBinaryExpr_keeps
    | with_reducible apply keeps_bind
    | dsimp only
    | split
    | intro _

theorem lowerIdentifierExpr_keeps (name : String) :
    KeepsLoops (lowerIdentifierExpr name) := by
  unfold lowerIdentifierExpr
  repeat' first
    | assumption
    | with_reducible exact keeps_pure _
    | with_reducible exact keeps_throw _
    | with_reducible exact keeps_get
    | with_reducible exact keeps_newTemp
    | with_reducible exact keeps_emit _
    | with_reducible exact keeps_newBlock _
    | with_reducible exact keeps_setCurrentBlock _
    | with_reducible exact keeps_hasTerminator
    | with_reducible exact keeps_varMapIndex _
    | with_reducible exact keeps_ptrTypeMapIndex _
    | with_reducible exact keeps_deref _ _
    | with_reducible exact keeps_firstArg _
    | with_reducible exact keeps_modify _ (fun _ => rfl)
    | with_reducible apply pushScope_keeps
    | with_reducible apply setPtrType_keeps
    | with_reducible apply setVar_keeps
    | with_reducible apply emitUnlessTerminated_keeps
    | with_reducible apply destroyVariable_keeps
    | with_reducible apply forgetVariable_keeps
    | with_reducible apply popVariable_keeps
    | with_reducible apply restoreShadowed_keeps
    | with_reducible apply popScope_keeps
    | with_reducible apply emitDestructor_keeps
    | with_reducible apply emitAllDestructors_keeps
    | with_reducible apply emitVariant_keeps
    | with_reducible apply finishCall_keeps
    | with_reducible apply lowerLiteralExpr_keeps
    | with_reducible apply lowerBinaryExpr_keeps
    | with_reducible apply lowerUnaryExpr_keeps
    | with_reducible apply keeps_bind
    | dsimp only
    | split
    | intro _

theorem lowerMemberCall_keeps (base : Expr) (memberName : String)
    (args : BuildM (List String)) (hargs : KeepsLoops args) :
    KeepsLoops (lowerMemberCall base memberName args) := by
  unfold lowerMemberCall
  repeat' first
    | assumption
    | with_reducible exact keeps_pure _
    | with_reducible exact keeps_throw _
    | with_reducible exact keeps_get
    | with_reducible exact keeps_newTemp
    | with_reducible exact keeps_emit _
    | with_reducible exact keeps_newBlock _
    | with_reducible exact keeps_setCurrentBlock _
    | with_reducible exact keeps_hasTerminator
    | with_reducible exact keeps_varMapIndex _
    | with_reducible exact keeps_ptrTypeMapIndex _
    | with_reducible exact keeps_deref _ _
    | with_reducible exact keeps_firstArg _
    | with_reducible exact keeps_modify _ (fun _ => rfl)
    | with_reducible apply pushScope_keeps
    | with_reducible apply setPtrType_keeps
    | with_reducible apply setVar_keeps
    | with_reducible apply emitUnlessTerminated_keeps
    | with_reducible apply destroyVariable_keeps
    | with_reducible apply forgetVariable_keeps
    | with_reducible apply popVariable_keeps
    | with_reducible apply restoreShadowed_keeps
    | with_reducible apply popScope_keeps
    | with_reducible apply emitDestructor_keeps
    | with_reducible apply emitAllDestructors_keeps
    | with_reducible apply emitVariant_keeps
    | with_reducible apply finishCall_keeps
    | with_reducible apply lowerLiteralExpr_keeps
    | with_reducible apply lowerBinaryExpr_keeps
    | with_reducible apply lowerUnaryExpr_keeps
    | with_reducible apply lowerIdentifierExpr_keeps
    | with_reducible apply keeps_bind
    | dsimp only
    | split
    | intro _

theorem lowerCallExpr_keeps (callee : Expr) (selfAddr : BuildM String)
    (args : BuildM (List String)) (hself : KeepsLoops selfAddr) (hargs : KeepsLoops args) :
    KeepsLoops (lowerCallExpr callee selfAddr args) := by
  unfold lowerCallExpr
  repeat' first
    | assumption
    | with_reducible exact keeps_pure _
    | with_reducible exact keeps_throw _
    | with_reducible exact keeps_get
    | with_reducible exact keeps_newTemp
    | with_reducible exact keeps_emit _
    | with_reducible exact keeps_newBlock _
    | with_reducible exact keeps_setCurrentBlock _
    | with_reducible exact keeps_hasTerminator
    | with_reducible exact keeps_varMapIndex _
    | with_reducible exact keeps_ptrTypeMapIndex _
    | with_reducible exact keeps_deref _ _
    | with_reducible exact keeps_firstArg _
    | with_reducible exact keeps_modify _ (fun _ => rfl)
    | with_reducible apply pushScope_keeps
    | with_reducible apply setPtrType_keeps
    | with_reducible apply setVar_keeps
    | with_reducible apply emitUnlessTerminated_keeps
    | with_reducible apply destroyVariable_keeps
    | with_reducible apply forgetVariable_keeps
    | with_reducible apply popVariable_keeps
    | with_reducible apply restoreShadowed_keeps
    | with_reducible apply popScope_keeps
    | with_reducible apply emitDestructor_keeps
    | with_reducible apply emitAllDestructors_keeps
    | with_reducible apply emitVariant_keeps
    | with_reducible apply finishCall_keeps
    | with_reducible apply lowerLiteralExpr_keeps
    | with_reducible apply lowerBinaryExpr_keeps
    | with_reducible apply lowerUnaryExpr_keeps
    | with_reducible apply lowerIdentifierExpr_keeps
    | with_reducible apply lowerMemberCall_keeps
    | with_reducible apply keeps_bind
    | dsimp only
    | split
    | intro _

theorem lowerMemberAccessExpr_keeps (base : Expr) (memberName : String)
    (baseAddr : BuildM String) (h : KeepsLoops baseAddr) :
    KeepsLoops (lowerMemberAccessExpr base memberName baseAddr) := by
  unfold lowerMemberAccessExpr
  repeat' first
    | assumption
    | with_reducible exact keeps_pure _
    | with_reducible exact keeps_throw _
    | with_reducible exact keeps_get
    | with_reducible exact keeps_newTemp
    | with_reducible exact keeps_emit _
    | with_reducible exact keeps_newBlock _
    | with_reducible exact keeps_setCurrentBlock _
    | with_reducible exact keeps_hasTerminator
    | with_reducible exact keeps_varMapIndex _
    | with_reducible exact keeps_ptrTypeMapIndex _
    | with_reducible exact keeps_deref _ _
    | with_reducible exact keeps_firstArg _
    | with_reducible exact keeps_modify _ (fun _ => rfl)
    | with_reducible apply pushScope_keeps
    | with_reducible apply setPtrType_keeps
    | with_reducible apply setVar_keeps
    | with_reducible apply emitUnlessTerminated_keeps
    | with_reducible apply destroyVariable_keeps
    | with_reducible apply forgetVariable_keeps
    | with_reducible apply popVariable_keeps
    | with_reducible apply restoreShadowed_keeps
    | with_reducible apply popScope_keeps
    | with_reducible apply emitDestructor_keeps
    | with_reducible apply emitAllDestructors_keeps
    | with_reducible apply emitVariant_keeps
    | with_reducible apply finishCall_keeps
    | with_reducible apply lowerLiteralExpr_keeps
    | with_reducible apply lowerBinaryExpr_keeps
    | with_reducible apply lowerUnaryExpr_keeps
    | with_reducible apply lowerIdentifierExpr_keeps
    | with_reducible apply lowerMemberCall_keeps
    | with_reducible apply lowerCallExpr_keeps
    | with_reducible apply keeps_bind
    | dsimp only
    | split
    | intro _

theorem lowerVariantArgs_keeps (inits : List (String × BuildM String))
    (h : ∀ init ∈ inits, KeepsLoops init.2) (fields : List Field) :
    KeepsLoops (lowerVariantArgs inits fields) := by
  induction fields with
  | nil => exact keeps_pure _
  | cons f fs ih =>
    unfold lowerVariantArgs
    split
    · rename_i init hfind
      exact keeps_bind (h init (List.mem_of_find?_eq_some hfind))
        (fun _ => keeps_bind ih (fun _ => keeps_pure _))
    · exact ih

theorem storeFields_keeps (structPtr name : String) (inits : List (String × BuildM String))
    (h : ∀ init ∈ inits, KeepsLoops init.2) : KeepsLoops (storeFields structPtr name inits) := by
  induction inits with
  | nil => exact keeps_pure _
  | cons init rest ih =>
    unfold storeFields
    exact keeps_bind (h init (List.mem_cons_self _ _))
      (fun _ => keeps_bind keeps_newTemp
        (fun _ => keeps_bind (keeps_emit _)
          (fun _ => keeps_bind (keeps_emit _)
            (fun _ => ih (fun i hi => h i (List.mem_cons_of_mem _ hi))))))

theorem storeElements_keeps (arrayPtr : String) (elements : List (BuildM String))
    (h : ∀ element ∈ elements, KeepsLoops element) (i : Nat) :
    KeepsLoops (storeElements arrayPtr i elements) := by
  induction elements generalizing i with
  | nil => exact keeps_pure _
  | cons element rest ih =>
    unfold storeElements
    exact keeps_bind (h element (List.mem_cons_self _ _))
      (fun _ => keeps_bind keeps_newTemp
        (fun _ => keeps_bind (keeps_emit _)
          (fun _ => keeps_bind keeps_newTemp
            (fun _ => keeps_bind (keeps_emit _)
              (fun _ => keeps_bind (keeps_emit _)
                (fun _ => ih (fun e he => h e (List.mem_cons_of_mem _ he)) _))))))


theorem lowerVariantLiteral_keeps (name : String) (inits : List (String × BuildM String))
    (h : ∀ init ∈ inits, KeepsLoops init.2) :
    KeepsLoops (lowerVariantLiteral name inits) := by
  unfold lowerVariantLiteral
  repeat' first
    | assumption
    | with_reducible exact lowerVariantArgs_keeps _ h _
    | with_reducible exact keeps_pure _
    | with_reducible exact keeps_throw _
    | with_reducible exact keeps_get
    | with_reducible exact keeps_newTemp
    | with_reducible exact keeps_emit _
    | with_reducible exact keeps_newBlock _
    | with_reducible exact keeps_setCurrentBlock _
    | with_reducible exact keeps_hasTerminator
    | with_reducible exact keeps_varMapIndex _
    | with_reducible exact keeps_ptrTypeMapIndex _
    | with_reducible exact keeps_deref _ _
    | with_reducible exact keeps_firstArg _
    | with_reducible exact keeps_modify _ (fun _ => rfl)
    | with_reducible apply pushScope_keeps
    | with_reducible apply setPtrType_keeps
    | with_reducible apply setVar_keeps
    | with_reducible apply emitUnlessTerminated_keeps
    | with_reducible apply destroyVariable_keeps
    | with_reducible apply forgetVariable_keeps
    | with_reducible apply popVariable_keeps
    | with_reducible apply restoreShadowed_keeps
    | with_reducible apply popScope_keeps
    | with_reducible apply emitDestructor_keeps
    | with_reducible apply emitAllDestructors_keeps
    | with_reducible apply emitVariant_keeps
    | with_reducible apply finishCall_keeps
    | with_reducible apply lowerLiteralExpr_keeps
    | with_reducible apply lowerBinaryExpr_keeps
    | with_reducible apply lowerUnaryExpr_keeps
    | with_reducible apply lowerIdentifierExpr_keeps
    | with_reducible apply lowerMemberCall_keeps
    | with_reducible apply lowerCallExpr_keeps
    | with_reducible apply lowerMemberAccessExpr_keeps
    | with_reducible apply keeps_bind
    | dsimp only
    | split
    | intro _

theorem lowerStructLiteralExpr_keeps (base : Expr) (inits : List (String × BuildM String))
    (h : ∀ init ∈ inits, KeepsLoops init.2) :
    KeepsLoops (lowerStructLiteralExpr base inits) := by
  unfold lowerStructLiteralExpr
  repeat' first
    | assumption
    | with_reducible exact lowerVariantLiteral_keeps _ _ h
    | with_reducible exact storeFields_keeps _ _ _ h
    | with_reducible exact keeps_pure _
    | with_reducible exact keeps_throw _
    | with_reducible exact keeps_get
    | with_reducible exact keeps_newTemp
    | with_reducible exact keeps_emit _
    | with_reducible exact keeps_newBlock _
    | with_reducible exact keeps_setCurrentBlock _
    | with_reducible exact keeps_hasTerminator
    | with_reducible exact keeps_varMapIndex _
    | with_reducible exact keeps_ptrTypeMapIndex _
    | with_reducible exact keeps_deref _ _
    | with_reducible exact keeps_firstArg _
    | with_reducible exact keeps_modify _ (fun _ => rfl)
    | with_reducible apply pushScope_keeps
    | with_reducible apply setPtrType_keeps
    | with_reducible apply setVar_keeps
    | with_reducible apply emitUnlessTerminated_keeps
    | with_reducible apply destroyVariable_keeps
    | with_reducible apply forgetVariable_keeps
    | with_reducible apply popVariable_keeps
    | with_reducible apply restoreShadowed_keeps
    | with_reducible apply popScope_keeps
    | with_reducible apply emitDestructor_keeps
    | with_reducible apply emitAllDestructors_keeps
    | with_reducible apply emitVariant_keeps
    | with_reducible apply finishCall_keeps
    | with_reducible apply lowerLiteralExpr_keeps
    | with_reducible apply lowerBinaryExpr_keeps
    | with_reducible apply lowerUnaryExpr_keeps
    | with_reducible apply lowerIdentifierExpr_keeps
    | with_reducible apply lowerMemberCall_keeps
    | with_reducible apply lowerCallExpr_keeps
    | with_reducible apply lowerMemberAccessExpr_keeps
    | with_reducible apply lowerVariantLiteral_keeps
    | with_reducible apply keeps_bind
    | dsimp only
    | split
    | intro _

theorem lowerArrayLiteralExpr_keeps (elements : List (BuildM String))
    (h : ∀ element ∈ elements, KeepsLoops element) :
    KeepsLoops (lowerArrayLiteralExpr elements) := by
  unfold lowerArrayLiteralExpr
  repeat' first
    | assumption
    | with_reducible exact storeElements_keeps _ _ h _
    | with_reducible exact keeps_pure _
    | with_reducible exact keeps_throw _
    | with_reducible exact keeps_get
    | with_reducible exact keeps_newTemp
    | with_reducible exact keeps_emit _
    | with_reducible exact keeps_newBlock _
    | with_reducible exact keeps_setCurrentBlock _
    | with_reducible exact keeps_hasTerminator
    | with_reducible exact keeps_varMapIndex _
    | with_reducible exact keeps_ptrTypeMapIndex _
    | with_reducible exact keeps_deref _ _
    | with_reducible exact keeps_firstArg _
    | with_reducible exact keeps_modify _ (fun _ => rfl)
    | with_reducible apply pushScope_keeps
    | with_reducible apply setPtrType_keeps
    | with_reducible apply setVar_keeps
    | with_reducible apply emitUnlessTerminated_keeps
    | with_reducible apply destroyVariable_keeps
    | with_reducible apply forgetVariable_keeps
    | with_reducible apply popVariable_keeps
    | with_reducible apply restoreShadowed_keeps
    | with_reducible apply popScope_keeps
    | with_reducible apply emitDestructor_keeps
    | with_reducible apply emitAllDestructors_keeps
    | with_reducible apply emitVariant_keeps
    | with_reducible apply finishCall_keeps
    | with_reducible apply lowerLiteralExpr_keeps
    | with_reducible apply lowerBinaryExpr_keeps
    | with_reducible apply lowerUnaryExpr_keeps
    | with_reducible apply lowerIdentifierExpr_keeps
    | with_reducible apply lowerMemberCall_keeps
    | with_reducible apply lowerCallExpr_keeps
    | with_reducible apply lowerMemberAccessExpr_keeps
    | with_reducible apply lowerVariantLiteral_keeps
    | with_reducible apply lowerStructLiteralExpr_keeps
    | with_reducible apply keeps_bind
    | dsimp only
    | split
    | intro _

theorem lowerIndexingAddr_keeps (baseType : Option Ty) (baseAddr index : BuildM String)
    (h1 : KeepsLoops baseAddr) (h2 : KeepsLoops index) :
    KeepsLoops (lowerIndexingAddr baseType baseAddr index) := by
  unfold lowerIndexingAddr
  repeat' first
    | assumption
    | with_reducible exact keeps_pure _
    | with_reducible exact keeps_throw _
    | with_reducible exact keeps_get
    | with_reducible exact keeps_newTemp
    | with_reducible exact keeps_emit _
    | with_reducible exact keeps_newBlock _
    | with_reducible exact keeps_setCurrentBlock _
    | with_reducible exact keeps_hasTerminator
    | with_reducible exact keeps_varMapIndex _
    | with_reducible exact keeps_ptrTypeMapIndex _
    | with_reducible exact keeps_deref _ _
    | with_reducible exact keeps_firstArg _
    | with_reducible exact keeps_modify _ (fun _ => rfl)
    | with_reducible apply pushScope_keeps
    | with_reducible apply setPtrType_keeps
    | with_reducible apply setVar_keeps
    | with_reducible apply emitUnlessTerminated_keeps
    | with_reducible apply destroyVariable_keeps
    | with_reducible apply forgetVariable_keeps
    | with_reducible apply popVariable_keeps
    | with_reducible apply restoreShadowed_keeps
    | with_reducible apply popScope_keeps
    | with_reducible apply emitDestructor_keeps
    | with_reducible apply emitAllDestructors_keeps
    | with_reducible apply emitVariant_keeps
    | with_reducible apply finishCall_keeps
    | with_reducible apply lowerLiteralExpr_keeps
    | with_reducible apply lowerBinaryExpr_keeps
    | with_reducible apply lowerUnaryExpr_keeps
    | with_reducible apply lowerIdentifierExpr_keeps
    | with_reducible apply lowerMemberCall_keeps
    | with_reducible apply lowerCallExpr_keeps
    | with_reducible apply lowerMemberAccessExpr_keeps
    | with_reducible apply lowerVariantLiteral_keeps
    | with_reducible apply lowerStructLiteralExpr_keeps
    | with_reducible apply lowerArrayLiteralExpr_keeps
    | with_reducible apply keeps_bind
    | dsimp only
    | split
    | intro _

theorem lowerMemberAddr_keeps (memberName : String) (baseAddr : BuildM String)
    (h : KeepsLoops baseAddr) :
    KeepsLoops (lowerMemberAddr memberName baseAddr) := by
  unfold lowerMemberAddr
  repeat' first
    | assumption
    | with_reducible exact keeps_pure _
    | with_reducible exact keeps_throw _
    | with_reducible exact keeps_get
    | with_reducible exact keeps_newTemp
    | with_reducible exact keeps_emit _
    | with_reducible exact keeps_newBlock _
    | with_reducible exact keeps_setCurrentBlock _
    | with_reducible exact keeps_hasTerminator
    | with_reducible exact keeps_varMapIndex _
    | with_reducible exact keeps_ptrTypeMapIndex _
    | with_reducible exact keeps_deref _ _
    | with_reducible exact keeps_firstArg _
    | with_reducible exact keeps_modify _ (fun _ => rfl)
    | with_reducible apply pushScope_keeps
    | with_reducible apply setPtrType_keeps
    | with_reducible apply setVar_keeps
    | with_reducible apply emitUnlessTerminated_keeps
    | with_reducible apply destroyVariable_keeps
    | with_reducible apply forgetVariable_keeps
    | with_reducible apply popVariable_keeps
    | with_reducible apply restoreShadowed_keeps
    | with_reducible apply popScope_keeps
    | with_reducible apply emitDestructor_keeps
    | with_reducible apply emitAllDestructors_keeps
    | with_reducible apply emitVariant_keeps
    | with_reducible apply finishCall_keeps
    | with_reducible apply lowerLiteralExpr_keeps
    | with_reducible apply lowerBinaryExpr_keeps
    | with_reducible apply lowerUnaryExpr_keeps
    | with_reducible apply lowerIdentifierExpr_keeps
    | with_reducible apply lowerMemberCall_keeps
    | with_reducible apply lowerCallExpr_keeps
    | with_reducible apply lowerMemberAccessExpr_keeps
    | with_reducible apply lowerVariantLiteral_keeps
    | with_reducible apply lowerStructLiteralExpr_keeps
    | with_reducible apply lowerArrayLiteralExpr_keeps
    | with_reducible apply lowerIndexingAddr_keeps
    | with_reducible apply keeps_bind
    | dsimp only
    | split
    | intro _

theorem lowerIdentifierAddr_keeps (name : String) :
    KeepsLoops (lowerIdentifierAddr name) := by
  unfold lowerIdentifierAddr
  repeat' first
    | assumption
    | with_reducible exact keeps_pure _
    | with_reducible exact keeps_throw _
    | with_reducible exact keeps_get
    | with_reducible exact keeps_newTemp
    | with_reducible exact keeps_emit _
    | with_reducible exact keeps_newBlock _
    | with_reducible exact keeps_setCurrentBlock _
    | with_reducible exact keeps_hasTerminator
    | with_reducible exact keeps_varMapIndex _
    | with_reducible exact keeps_ptrTypeMapIndex _
    | with_reducible exact keeps_deref _ _
    | with_reducible exact keeps_firstArg _
    | with_reducible exact keeps_modify _ (fun _ => rfl)
    | with_reducible apply pushScope_keeps
    | with_reducible apply setPtrType_keeps
    | with_reducible apply setVar_keeps
    | with_reducible apply emitUnlessTerminated_keeps
    | with_reducible apply destroyVariable_keeps
    | with_reducible apply forgetVariable_keeps
    | with_reducible apply popVariable_keeps
    | with_reducible apply restoreShadowed_keeps
    | with_reducible apply popScope_keeps
    | with_reducible apply emitDestructor_keeps
    | with_reducible apply emitAllDestructors_keeps
    | with_reducible apply emitVariant_keeps
    | with_reducible apply finishCall_keeps
    | with_reducible apply lowerLiteralExpr_keeps
    | with_reducible apply lowerBinaryExpr_keeps
    | with_reducible apply lowerUnaryExpr_keeps
    | with_reducible apply lowerIdentifierExpr_keeps
    | with_reducible apply lowerMemberCall_keeps
    | with_reducible apply lowerCallExpr_keeps
    | with_reducible apply lowerMemberAccessExpr_keeps
    | with_reducible apply lowerVariantLiteral_keeps
    | with_reducible apply lowerStructLiteralExpr_keeps
    | with_reducible apply lowerArrayLiteralExpr_keeps
    | with_reducible apply lowerIndexingAddr_keeps
    | with_reducible apply lowerMemberAddr_keeps
    | with_reducible apply keeps_bind
    | dsimp only
    | split
    | intro _

theorem lowerIndexingExpr_keeps (elementAddr : BuildM String) (h : KeepsLoops elementAddr) :
    KeepsLoops (lowerIndexingExpr elementAddr) := by
  unfold lowerIndexingExpr
  repeat' first
    | assumption
    | with_reducible exact keeps_pure _
    | with_reducible exact keeps_throw _
    | with_reducible exact keeps_get
    | with_reducible exact keeps_newTemp
    | with_reducible exact keeps_emit _
    | with_reducible exact keeps_newBlock _
    | with_reducible exact keeps_setCurrentBlock _
    | with_reducible exact keeps_hasTerminator
    | with_reducible exact keeps_varMapIndex _
    | with_reducible exact keeps_ptrTypeMapIndex _
    | with_reducible exact keeps_deref _ _
    | with_reducible exact keeps_firstArg _
    | with_reducible exact keeps_modify _ (fun _ => rfl)
    | with_reducible apply pushScope_keeps
    | with_reducible apply setPtrType_keeps
    | with_reducible apply setVar_keeps
    | with_reducible apply emitUnlessTerminated_keeps
    | with_reducible apply destroyVariable_keeps
    | with_reducible apply forgetVariable_keeps
    | with_reducible apply popVariable_keeps
    | with_reducible apply restoreShadowed_keeps
    | with_reducible apply popScope_keeps
    | with_reducible apply emitDestructor_keeps
    | with_reducible apply emitAllDestructors_keeps
    | with_reducible apply emitVariant_keeps
    | with_reducible apply finishCall_keeps
    | with_reducible apply lowerLiteralExpr_keeps
    | with_reducible apply lowerBinaryExpr_keeps
    | with_reducible apply lowerUnaryExpr_keeps
    | with_reducible apply lowerIdentifierExpr_keeps
    | with_reducible apply lowerMemberCall_keeps
    | with_reducible apply lowerCallExpr_keeps
    | with_reducible apply lowerMemberAccessExpr_keeps
    | with_reducible apply lowerVariantLiteral_keeps
    | with_reducible apply lowerStructLiteralExpr_keeps
    | with_reducible apply lowerArrayLiteralExpr_keeps
    | with_reducible apply lowerIndexingAddr_keeps
    | with_reducible apply lowerMemberAddr_keeps
    | with_reducible apply lowerIdentifierAddr_keeps
    | with_reducible apply keeps_bind
    | dsimp only
    | split
    | intro _

theorem lowerDereferenceExpr_keeps (operand : BuildM String) (h : KeepsLoops operand) :
    KeepsLoops (lowerDereferenceExpr operand) := by
  unfold lowerDereferenceExpr
  repeat' first
    | assumption
    | with_reducible exact keeps_pure _
    | with_reducible exact keeps_throw _
    | with_reducible exact keeps_get
    | with_reducible exact keeps_newTemp
    | with_reducible exact keeps_emit _
    | with_reducible exact keeps_newBlock _
    | with_reducible exact keeps_setCurrentBlock _
    | with_reducible exact keeps_hasTerminator
    | with_reducible exact keeps_varMapIndex _
    | with_reducible exact keeps_ptrTypeMapIndex _
    | with_reducible exact keeps_deref _ _
    | with_reducible exact keeps_firstArg _
    | with_reducible exact keeps_modify _ (fun _ => rfl)
    | with_reducible apply pushScope_keeps
    | with_reducible apply setPtrType_keeps
    | with_reducible apply setVar_keeps
    | with_reducible apply emitUnlessTerminated_keeps
    | with_reducible apply destroyVariable_keeps
    | with_reducible apply forgetVariable_keeps
    | with_reducible apply popVariable_keeps
    | with_reducible apply restoreShadowed_keeps
    | with_reducible apply popScope_keeps
    | with_reducible apply emitDestructor_keeps
    | with_reducible apply emitAllDestructors_keeps
    | with_reducible apply emitVariant_keeps
    | with_reducible apply finishCall_keeps
    | with_reducible apply lowerLiteralExpr_keeps
    | with_reducible apply lowerBinaryExpr_keeps
    | with_reducible apply lowerUnaryExpr_keeps
    | with_reducible apply lowerIdentifierExpr_keeps
    | with_reducible apply lowerMemberCall_keeps
    | with_reducible apply lowerCallExpr_keeps
    | with_reducible apply lowerMemberAccessExpr_keeps
    | with_reducible apply lowerVariantLiteral_keeps
    | with_reducible apply lowerStructLiteralExpr_keeps
    | with_reducible apply lowerArrayLiteralExpr_keeps
    | with_reducible apply lowerIndexingAddr_keeps
    | with_reducible apply lowerMemberAddr_keeps
    | with_reducible apply lowerIdentifierAddr_keeps
    | with_reducible apply lowerIndexingExpr_keeps
    | with_reducible apply keeps_bind
    | dsimp only
    | split
    | intro _

theorem lowerQuestionExpr_keeps (operandType : Option Ty) (operand : BuildM String)
    (h : KeepsLoops operand) :
    KeepsLoops (lowerQuestionExpr operandType operand) := by
  unfold lowerQuestionExpr
  repeat' first
    | assumption
    | with_reducible exact keeps_pure _
    | with_reducible exact keeps_throw _
    | with_reducible exact keeps_get
    | with_reducible exact keeps_newTemp
    | with_reducible exact keeps_emit _
    | with_reducible exact keeps_newBlock _
    | with_reducible exact keeps_setCurrentBlock _
    | with_reducible exact keeps_hasTerminator
    | with_reducible exact keeps_varMapIndex _
    | with_reducible exact keeps_ptrTypeMapIndex _
    | with_reducible exact keeps_deref _ _
    | with_reducible exact keeps_firstArg _
    | with_reducible exact keeps_modify _ (fun _ => rfl)
    | with_reducible apply pushScope_keeps
    | with_reducible apply setPtrType_keeps
    | with_reducible apply setVar_keeps
    | with_reducible apply emitUnlessTerminated_keeps
    | with_reducible apply destroyVariable_keeps
    | with_reducible apply forgetVariable_keeps
    | with_reducible apply popVariable_keeps
    | with_reducible apply restoreShadowed_keeps
    | with_reducible apply popScope_keeps
    | with_reducible apply emitDestructor_keeps
    | with_reducible apply emitAllDestructors_keeps
    | with_reducible apply emitVariant_keeps
    | with_reducible apply finishCall_keeps
    | with_reducible apply lowerLiteralExpr_keeps
    | with_reducible apply lowerBinaryExpr_keeps
    | with_reducible apply lowerUnaryExpr_keeps
    | with_reducible apply lowerIdentifierExpr_keeps
    | with_reducible apply lowerMemberCall_keeps
    | with_reducible apply lowerCallExpr_keeps
    | with_reducible apply lowerMemberAccessExpr_keeps
    | with_reducible apply lowerVariantLiteral_keeps
    | with_reducible apply lowerStructLiteralExpr_keeps
    | with_reducible apply lowerArrayLiteralExpr_keeps
    | with_reducible apply lowerIndexingAddr_keeps
    | with_reducible apply lowerMemberAddr_keeps
    | with_reducible apply lowerIdentifierAddr_keeps
    | with_reducible apply lowerIndexingExpr_keeps
    | with_reducible apply lowerDereferenceExpr_keeps
    | with_reducible apply keeps_bind
    | dsimp only
    | split
    | intro _

theorem lowerIntrinsicExpr_keeps (kind : IntrinsicKind) (typeArg : Option Ty)
    (arg0Text : Option String) (arg0 : Option (BuildM String))
    (h : ∀ x, arg0 = some x → KeepsLoops x) :
    KeepsLoops (lowerIntrinsicExpr kind typeArg arg0Text arg0) := by
  unfold lowerIntrinsicExpr
  refine keeps_bind keeps_newTemp (fun result => ?_)
  cases kind with
  | Sizeof => exact keeps_bind (keeps_emit _) (fun _ => keeps_pure _)
  | Alignof => exact keeps_bind (keeps_emit _) (fun _ => keeps_pure _)
  | Alloca => exact keeps_bind (keeps_emit _) (fun _ => keeps_pure _)
  | Offsetof =>
    exact keeps_bind (keeps_firstArg _)
      (fun memberName => keeps_bind (keeps_emit _) (fun _ => keeps_pure _))
  | Malloc =>
    cases arg0 with
    | none =>
      exact keeps_bind
        (keeps_bind keeps_newTemp
          (fun sizeTemp => keeps_bind (keeps_emit _) (fun _ => keeps_pure _)))
        (fun sizeVal => keeps_bind (keeps_emit _) (fun _ => keeps_pure _))
    | some x =>
      exact keeps_bind (h x rfl)
        (fun sizeVal => keeps_bind (keeps_emit _) (fun _ => keeps_pure _))
  | Free =>
    cases arg0 with
    | none =>
      intro s a s1 hr
      cases hr
    | some x =>
      show KeepsLoops (x >>= fun ptrVal => emit (.Call "" "free" [ptrVal]) >>= fun _ => pure result)
      exact keeps_bind (h x rfl)
        (fun ptrVal => keeps_bind (keeps_emit _) (fun _ => keeps_pure _))


mutual
theorem lowerExpr_keeps : ∀ e : Expr, KeepsLoops (lowerExpr e)
  | .literal lit => by
    rw [lowerExpr]
    exact lowerLiteralExpr_keeps lit
  | .identifier _ name => by
    rw [lowerExpr]
    exact lowerIdentifierExpr_keeps name
  | .binary _ left op right => by
    rw [lowerExpr]
    exact lowerBinaryExpr_keeps op _ _ _ (lowerAddr_keeps left) (lowerExpr_keeps left)
      (lowerExpr_keeps right)
  | .unary _ op operand => by
    rw [lowerExpr]
    exact lowerUnaryExpr_keeps op _ (lowerExpr_keeps operand)
  | .call _ callee args => by
    rw [lowerExpr]
    exact lowerCallExpr_keeps callee _ _ (lowerSelfAddr_keeps callee) (lowerArgs_keeps args)
  | .memberAccess _ base memberName _ => by
    rw [lowerExpr]
    exact lowerMemberAccessExpr_keeps base memberName _ (lowerAddr_keeps base)
  | .structLiteral _ base fields => by
    rw [lowerExpr]
    exact lowerStructLiteralExpr_keeps base _ (lowerInits_keeps fields)
  | .arrayLiteral _ elements => by
    rw [lowerExpr]
    exact lowerArrayLiteralExpr_keeps _ (lowerElements_keeps elements)
  | .indexing _ base index => by
    rw [lowerExpr]
    exact lowerIndexingExpr_keeps _
      (lowerIndexingAddr_keeps _ _ _ (lowerAddr_keeps base) (lowerExpr_keeps index))
  | .addressOf _ operand => by
    rw [lowerExpr]
    exact lowerAddr_keeps operand
  | .dereference _ operand => by
    rw [lowerExpr]
    exact lowerDereferenceExpr_keeps _ (lowerExpr_keeps operand)
  | .question _ operand => by
    rw [lowerExpr]
    exact lowerQuestionExpr_keeps _ _ (lowerExpr_keeps operand)
  | .specialization _ _ _ _ => by
    rw [lowerExpr]
    exact keeps_pure _
  | .intrinsic _ kind typeArg args => by
    rw [lowerExpr]
    exact lowerIntrinsicExpr_keeps kind typeArg _ _ (lowerFirst_keeps args)
theorem lowerAddr_keeps : ∀ e : Expr, KeepsLoops (lowerAddr e)
  | .identifier _ name => by
    rw [lowerAddr]
    exact lowerIdentifierAddr_keeps name
  | .memberAccess _ base memberName _ => by
    rw [lowerAddr]
    exact lowerMemberAddr_keeps memberName _ (lowerAddr_keeps base)
  | .indexing _ base index => by
    rw [lowerAddr]
    exact lowerIndexingAddr_keeps _ _ _ (lowerAddr_keeps base) (lowerExpr_keeps index)
  | .dereference _ operand => by
    rw [lowerAddr]
    exact lowerExpr_keeps operand
  | .literal _ => by
    rw [lowerAddr]
    · exact keeps_pure _
    all_goals intros; simp_all
  | .binary _ _ _ _ => by
    rw [lowerAddr]
    · exact keeps_pure _
    all_goals intros; simp_all
  | .unary _ _ _ => by
    rw [lowerAddr]
    · exact keeps_pure _
    all_goals intros; simp_all
  | .call _ _ _ => by
    rw [lowerAddr]
    · exact keeps_pure _
    all_goals intros; simp_all
  | .structLiteral _ _ _ => by
    rw [lowerAddr]
    · exact keeps_pure _
    all_goals intros; simp_all
  | .arrayLiteral _ _ => by
    rw [lowerAddr]
    · exact keeps_pure _
    all_goals intros; simp_all
  | .addressOf _ _ => by
    rw [lowerAddr]
    · exact keeps_pure _
    all_goals intros; simp_all
  | .question _ _ => by
    rw [lowerAddr]
    · exact keeps_pure _
    all_goals intros; simp_all
  | .specialization _ _ _ _ => by
    rw [lowerAddr]
    · exact keeps_pure _
    all_goals intros; simp_all
  | .intrinsic _ _ _ _ => by
    rw [lowerAddr]
    · exact keeps_pure _
    all_goals intros; simp_all
theorem lowerSelfAddr_keeps : ∀ e : Expr, KeepsLoops (lowerSelfAddr e)
  | .specialization _ (.memberAccess _ base _ _) _ _ => by
    rw [lowerSelfAddr]
    exact lowerAddr_keeps base
  | .specialization _ (.literal _) _ _ => keeps_pure _
  | .specialization _ (.identifier _ _) _ _ => keeps_pure _
  | .specialization _ (.binary _ _ _ _) _ _ => keeps_pure _
  | .specialization _ (.unary _ _ _) _ _ => keeps_pure _
  | .specialization _ (.call _ _ _) _ _ => keeps_pure _
  | .specialization _ (.structLiteral _ _ _) _ _ => keeps_pure _
  | .specialization _ (.arrayLiteral _ _) _ _ => keeps_pure _
  | .specialization _ (.indexing _ _ _) _ _ => keeps_pure _
  | .specialization _ (.addressOf _ _) _ _ => keeps_pure _
  | .specialization _ (.dereference _ _) _ _ => keeps_pure _
  | .specialization _ (.question _ _) _ _ => keeps_pure _
  | .specialization _ (.specialization _ _ _ _) _ _ => keeps_pure _
  | .specialization _ (.intrinsic _ _ _ _) _ _ => keeps_pure _
  | .literal _ => keeps_pure _
  | .identifier _ _ => keeps_pure _
  | .binary _ _ _ _ => keeps_pure _
  | .unary _ _ _ => keeps_pure _
  | .call _ _ _ => keeps_pure _
  | .memberAccess _ _ _ _ => keeps_pure _
  | .structLiteral _ _ _ => keeps_pure _
  | .arrayLiteral _ _ => keeps_pure _
  | .indexing _ _ _ => keeps_pure _
  | .addressOf _ _ => keeps_pure _
  | .dereference _ _ => keeps_pure _
  | .question _ _ => keeps_pure _
  | .intrinsic _ _ _ _ => keeps_pure _
theorem lowerArgs_keeps : ∀ es : List Expr, KeepsLoops (lowerArgs es)
  | [] => by
    rw [lowerArgs]
    exact keeps_pure _
  | arg :: rest => by
    rw [lowerArgs]
    exact keeps_bind (lowerExpr_keeps arg)
      (fun _ => keeps_bind (lowerArgs_keeps rest) (fun _ => keeps_pure _))
theorem lowerInits_keeps : ∀ fs : List (FieldInitOf Expr),
    ∀ init ∈ lowerInits fs, KeepsLoops init.2
  | [] => by
    rw [lowerInits]
    intro init h
    cases h
  | ⟨name, value⟩ :: rest => by
    rw [lowerInits]
    intro init h
    rcases List.mem_cons.1 h with e | h1
    · subst e
      exact lowerExpr_keeps value
    · exact lowerInits_keeps rest init h1
theorem lowerElements_keeps : ∀ es : List Expr, ∀ element ∈ lowerElements es,
    KeepsLoops element
  | [] => by
    rw [lowerElements]
    intro element h
    cases h
  | element :: rest => by
    rw [lowerElements]
    intro x h
    rcases List.mem_cons.1 h with e | h1
    · subst e
      exact lowerExpr_keeps element
    · exact lowerElements_keeps rest x h1
theorem lowerFirst_keeps : ∀ es : List Expr, ∀ x, lowerFirst es = some x → KeepsLoops x
  | [] => by
    rw [lowerFirst]
    intro x h
    cases h
  | arg :: _ => by
    rw [lowerFirst]
    intro x h
    cases h
    exact lowerExpr_keeps arg
end


theorem newFunction_keeps (func : MIRFunction) : KeepsLoops (newFunction func) := by
  intro s b s1 h
  cases h
  rfl

theorem enterFunction_keeps (func : Nat) (entryName : String) :
    KeepsLoops (enterFunction func entryName) := by
  intro s b s1 h
  unfold enterFunction at h
  split at h
  · cases h
  · cases h
    rfl

theorem pushVariable_keeps (v : LocalVar) : KeepsLoops (pushVariable v) := by
  unfold pushVariable
  exact keeps_modify _ (fun s => by
    split <;> rfl)

theorem pushShadowed_keeps (name : String) : KeepsLoops (pushShadowed name) := by
  unfold pushShadowed
  exact keeps_modify _ (fun s => by
    split <;> rfl)


theorem leaveFunction_keeps (func : Nat) :
    KeepsLoops (leaveFunction func) := by
  unfold leaveFunction
  repeat' first
    | assumption
    | with_reducible exact keeps_pure _
    | with_reducible exact keeps_throw _
    | with_reducible exact keeps_get
    | with_reducible exact keeps_newTemp
    | with_reducible exact keeps_emit _
    | with_reducible exact keeps_newBlock _
    | with_reducible exact keeps_setCurrentBlock _
    | with_reducible exact keeps_hasTerminator
    | with_reducible exact keeps_varMapIndex _
    | with_reducible exact keeps_ptrTypeMapIndex _
    | with_reducible exact keeps_deref _ _
    | with_reducible exact keeps_firstArg _
    | with_reducible exact keeps_modify _ (fun _ => rfl)
    | with_reducible apply pushScope_keeps
    | with_reducible apply setPtrType_keeps
    | with_reducible apply setVar_keeps
    | with_reducible apply emitUnlessTerminated_keeps
    | with_reducible apply destroyVariable_keeps
    | with_reducible apply forgetVariable_keeps
    | with_reducible apply popVariable_keeps
    | with_reducible apply restoreShadowed_keeps
    | with_reducible apply popScope_keeps
    | with_reducible apply emitDestructor_keeps
    | with_reducible apply emitAllDestructors_keeps
    | with_reducible apply emitVariant_keeps
    | with_reducible apply finishCall_keeps
    | with_reducible apply lowerLiteralExpr_keeps
    | with_reducible apply lowerBinaryExpr_keeps
    | with_reducible apply lowerUnaryExpr_keeps
    | with_reducible apply lowerIdentifierExpr_keeps
    | with_reducible apply lowerMemberCall_keeps
    | with_reducible apply lowerCallExpr_keeps
    | with_reducible apply lowerMemberAccessExpr_keeps
    | with_reducible apply lowerVariantLiteral_keeps
    | with_reducible apply lowerStructLiteralExpr_keeps
    | with_reducible apply lowerArrayLiteralExpr_keeps
    | with_reducible apply lowerIndexingAddr_keeps
    | with_reducible apply lowerMemberAddr_keeps
    | with_reducible apply lowerIdentifierAddr_keeps
    | with_reducible apply lowerIndexingExpr_keeps
    | with_reducible apply lowerDereferenceExpr_keeps
    | with_reducible apply lowerQuestionExpr_keeps
    | with_reducible apply lowerIntrinsicExpr_keeps
    | with_reducible apply newFunction_keeps
    | with_reducible apply enterFunction_keeps
    | with_reducible apply pushVariable_keeps
    | with_reducible apply pushShadowed_keeps
    | with_reducible apply keeps_bind
    | dsimp only
    | split
    | intro _

theorem registerParamType_keeps (stackName : String) (type : Ty) :
    KeepsLoops (registerParamType stackName type) := by
  unfold registerParamType
  repeat' first
    | assumption
    | with_reducible exact keeps_pure _
    | with_reducible exact keeps_throw _
    | with_reducible exact keeps_get
    | with_reducible exact keeps_newTemp
    | with_reducible exact keeps_emit _
    | with_reducible exact keeps_newBlock _
    | with_reducible exact keeps_setCurrentBlock _
    | with_reducible exact keeps_hasTerminator
    | with_reducible exact keeps_varMapIndex _
    | with_reducible exact keeps_ptrTypeMapIndex _
    | with_reducible exact keeps_deref _ _
    | with_reducible exact keeps_firstArg _
    | with_reducible exact keeps_modify _ (fun _ => rfl)
    | with_reducible apply pushScope_keeps
    | with_reducible apply setPtrType_keeps
    | with_reducible apply setVar_keeps
    | with_reducible apply emitUnlessTerminated_keeps
    | with_reducible apply destroyVariable_keeps
    | with_reducible apply forgetVariable_keeps
    | with_reducible apply popVariable_keeps
    | with_reducible apply restoreShadowed_keeps
    | with_reducible apply popScope_keeps
    | with_reducible apply emitDestructor_keeps
    | with_reducible apply emitAllDestructors_keeps
    | with_reducible apply emitVariant_keeps
    | with_reducible apply finishCall_keeps
    | with_reducible apply lowerLiteralExpr_keeps
    | with_reducible apply lowerBinaryExpr_keeps
    | with_reducible apply lowerUnaryExpr_keeps
    | with_reducible apply lowerIdentifierExpr_keeps
    | with_reducible apply lowerMemberCall_keeps
    | with_reducible apply lowerCallExpr_keeps
    | with_reducible apply lowerMemberAccessExpr_keeps
    | with_reducible apply lowerVariantLiteral_keeps
    | with_reducible apply lowerStructLiteralExpr_keeps
    | with_reducible apply lowerArrayLiteralExpr_keeps
    | with_reducible apply lowerIndexingAddr_keeps
    | with_reducible apply lowerMemberAddr_keeps
    | with_reducible apply lowerIdentifierAddr_keeps
    | with_reducible apply lowerIndexingExpr_keeps
    | with_reducible apply lowerDereferenceExpr_keeps
    | with_reducible apply lowerQuestionExpr_keeps
    | with_reducible apply lowerIntrinsicExpr_keeps
    | with_reducible apply newFunction_keeps
    | with_reducible apply enterFunction_keeps
    | with_reducible apply pushVariable_keeps
    | with_reducible apply pushShadowed_keeps
    | with_reducible apply leaveFunction_keeps
    | with_reducible apply keeps_bind
    | dsimp only
    | split
    | intro _

theorem lowerVarDecl_keeps (decl : VarDecl) (init : Option (BuildM String))
    (h : ∀ x, init = some x → KeepsLoops x) :
    KeepsLoops (lowerVarDecl decl init) := by
  unfold lowerVarDecl
  cases init with
  | none =>
    repeat' first
      | assumption
      | with_reducible exact keeps_pure _
      | with_reducible exact keeps_throw _
      | with_reducible exact keeps_get
      | with_reducible exact keeps_newTemp
      | with_reducible exact keeps_emit _
      | with_reducible exact keeps_newBlock _
      | with_reducible exact keeps_setCurrentBlock _
      | with_reducible exact keeps_hasTerminator
      | with_reducible exact keeps_varMapIndex _
      | with_reducible exact keeps_ptrTypeMapIndex _
      | with_reducible exact keeps_deref _ _
      | with_reducible exact keeps_firstArg _
      | with_reducible exact keeps_modify _ (fun _ => rfl)
      | with_reducible apply pushScope_keeps
      | with_reducible apply setPtrType_keeps
      | with_reducible apply setVar_keeps
      | with_reducible apply emitUnlessTerminated_keeps
      | with_reducible apply destroyVariable_keeps
      | with_reducible apply forgetVariable_keeps
      | with_reducible apply popVariable_keeps
      | with_reducible apply restoreShadowed_keeps
      | with_reducible apply popScope_keeps
      | with_reducible apply emitDestructor_keeps
      | with_reducible apply emitAllDestructors_keeps
      | with_reducible apply emitVariant_keeps
      | with_reducible apply finishCall_keeps
      | with_reducible apply lowerLiteralExpr_keeps
      | with_reducible apply lowerBinaryExpr_keeps
      | with_reducible apply lowerUnaryExpr_keeps
      | with_reducible apply lowerIdentifierExpr_keeps
      | with_reducible apply lowerMemberCall_keeps
      | with_reducible apply lowerCallExpr_keeps
      | with_reducible apply lowerMemberAccessExpr_keeps
      | with_reducible apply lowerVariantLiteral_keeps
      | with_reducible apply lowerStructLiteralExpr_keeps
      | with_reducible apply lowerArrayLiteralExpr_keeps
      | with_reducible apply lowerIndexingAddr_keeps
      | with_reducible apply lowerMemberAddr_keeps
      | with_reducible apply lowerIdentifierAddr_keeps
      | with_reducible apply lowerIndexingExpr_keeps
      | with_reducible apply lowerDereferenceExpr_keeps
      | with_reducible apply lowerQuestionExpr_keeps
      | with_reducible apply lowerIntrinsicExpr_keeps
      | with_reducible apply newFunction_keeps
      | with_reducible apply enterFunction_keeps
      | with_reducible apply pushVariable_keeps
      | with_reducible apply pushShadowed_keeps
      | with_reducible apply leaveFunction_keeps
      | with_reducible apply registerParamType_keeps
      | with_reducible apply keeps_bind
      | dsimp only
      | split
      | intro _
  | some x =>
    have hx := h x rfl
    repeat' first
      | assumption
      | with_reducible exact keeps_pure _
      | with_reducible exact keeps_throw _
      | with_reducible exact keeps_get
      | with_reducible exact keeps_newTemp
      | with_reducible exact keeps_emit _
      | with_reducible exact keeps_newBlock _
      | with_reducible exact keeps_setCurrentBlock _
      | with_reducible exact keeps_hasTerminator
      | with_reducible exact keeps_varMapIndex _
      | with_reducible exact keeps_ptrTypeMapIndex _
      | with_reducible exact keeps_deref _ _
      | with_reducible exact keeps_firstArg _
      | with_reducible exact keeps_modify _ (fun _ => rfl)
      | with_reducible apply pushScope_keeps
      | with_reducible apply setPtrType_keeps
      | with_reducible apply setVar_keeps
      | with_reducible apply emitUnlessTerminated_keeps
      | with_reducible apply destroyVariable_keeps
      | with_reducible apply forgetVariable_keeps
      | with_reducible apply popVariable_keeps
      | with_reducible apply restoreShadowed_keeps
      | with_reducible apply popScope_keeps
      | with_reducible apply emitDestructor_keeps
      | with_reducible apply emitAllDestructors_keeps
      | with_reducible apply emitVariant_keeps
      | with_reducible apply finishCall_keeps
      | with_reducible apply lowerLiteralExpr_keeps
      | with_reducible apply lowerBinaryExpr_keeps
      | with_reducible apply lowerUnaryExpr_keeps
      | with_reducible apply lowerIdentifierExpr_keeps
      | with_reducible apply lowerMemberCall_keeps
      | with_reducible apply lowerCallExpr_keeps
      | with_reducible apply lowerMemberAccessExpr_keeps
      | with_reducible apply lowerVariantLiteral_keeps
      | with_reducible apply lowerStructLiteralExpr_keeps
      | with_reducible apply lowerArrayLiteralExpr_keeps
      | with_reducible apply lowerIndexingAddr_keeps
      | with_reducible apply lowerMemberAddr_keeps
      | with_reducible apply lowerIdentifierAddr_keeps
      | with_reducible apply lowerIndexingExpr_keeps
      | with_reducible apply lowerDereferenceExpr_keeps
      | with_reducible apply lowerQuestionExpr_keeps
      | with_reducible apply lowerIntrinsicExpr_keeps
      | with_reducible apply newFunction_keeps
      | with_reducible apply enterFunction_keeps
      | with_reducible apply pushVariable_keeps
      | with_reducible apply pushShadowed_keeps
      | with_reducible apply leaveFunction_keeps
      | with_reducible apply registerParamType_keeps
      | with_reducible apply keeps_bind
      | dsimp only
      | split
      | intro _

theorem lowerNext_keeps (stmt rest : BuildM Unit) (h1 : KeepsLoops stmt) (h2 : KeepsLoops rest) :
    KeepsLoops (lowerNext stmt rest) := by
  unfold lowerNext
  repeat' first
    | assumption
    | with_reducible exact keeps_pure _
    | with_reducible exact keeps_throw _
    | with_reducible exact keeps_get
    | with_reducible exact keeps_newTemp
    | with_reducible exact keeps_emit _
    | with_reducible exact keeps_newBlock _
    | with_reducible exact keeps_setCurrentBlock _
    | with_reducible exact keeps_hasTerminator
    | with_reducible exact keeps_varMapIndex _
    | with_reducible exact keeps_ptrTypeMapIndex _
    | with_reducible exact keeps_deref _ _
    | with_reducible exact keeps_firstArg _
    | with_reducible exact keeps_modify _ (fun _ => rfl)
    | with_reducible apply pushScope_keeps
    | with_reducible apply setPtrType_keeps
    | with_reducible apply setVar_keeps
    | with_reducible apply emitUnlessTerminated_keeps
    | with_reducible apply destroyVariable_keeps
    | with_reducible apply forgetVariable_keeps
    | with_reducible apply popVariable_keeps
    | with_reducible apply restoreShadowed_keeps
    | with_reducible apply popScope_keeps
    | with_reducible apply emitDestructor_keeps
    | with_reducible apply emitAllDestructors_keeps
    | with_reducible apply emitVariant_keeps
    | with_reducible apply finishCall_keeps
    | with_reducible apply lowerLiteralExpr_keeps
    | with_reducible apply lowerBinaryExpr_keeps
    | with_reducible apply lowerUnaryExpr_keeps
    | with_reducible apply lowerIdentifierExpr_keeps
    | with_reducible apply lowerMemberCall_keeps
    | with_reducible apply lowerCallExpr_keeps
    | with_reducible apply lowerMemberAccessExpr_keeps
    | with_reducible apply lowerVariantLiteral_keeps
    | with_reducible apply lowerStructLiteralExpr_keeps
    | with_reducible apply lowerArrayLiteralExpr_keeps
    | with_reducible apply lowerIndexingAddr_keeps
    | with_reducible apply lowerMemberAddr_keeps
    | with_reducible apply lowerIdentifierAddr_keeps
    | with_reducible apply lowerIndexingExpr_keeps
    | with_reducible apply lowerDereferenceExpr_keeps
    | with_reducible apply lowerQuestionExpr_keeps
    | with_reducible apply lowerIntrinsicExpr_keeps
    | with_reducible apply newFunction_keeps
    | with_reducible apply enterFunction_keeps
    | with_reducible apply pushVariable_keeps
    | with_reducible apply pushShadowed_keeps
    | with_reducible apply leaveFunction_keeps
    | with_reducible apply registerParamType_keeps
    | with_reducible apply lowerVarDecl_keeps
    | with_reducible apply keeps_bind
    | dsimp only
    | split
    | intro _

theorem lowerBlock_keeps (statements : BuildM Unit) (shouldPushScope : Bool)
    (h : KeepsLoops statements) :
    KeepsLoops (lowerBlock statements shouldPushScope) := by
  unfold lowerBlock
  repeat' first
    | assumption
    | with_reducible exact keeps_pure _
    | with_reducible exact keeps_throw _
    | with_reducible exact keeps_get
    | with_reducible exact keeps_newTemp
    | with_reducible exact keeps_emit _
    | with_reducible exact keeps_newBlock _
    | with_reducible exact keeps_setCurrentBlock _
    | with_reducible exact keeps_hasTerminator
    | with_reducible exact keeps_varMapIndex _
    | with_reducible exact keeps_ptrTypeMapIndex _
    | with_reducible exact keeps_deref _ _
    | with_reducible exact keeps_firstArg _
    | with_reducible exact keeps_modify _ (fun _ => rfl)
    | with_reducible apply pushScope_keeps
    | with_reducible apply setPtrType_keeps
    | with_reducible apply setVar_keeps
    | with_reducible apply emitUnlessTerminated_keeps
    | with_reducible apply destroyVariable_keeps
    | with_reducible apply forgetVariable_keeps
    | with_reducible apply popVariable_keeps
    | with_reducible apply restoreShadowed_keeps
    | with_reducible apply popScope_keeps
    | with_reducible apply emitDestructor_keeps
    | with_reducible apply emitAllDestructors_keeps
    | with_reducible apply emitVariant_keeps
    | with_reducible apply finishCall_keeps
    | with_reducible apply lowerLiteralExpr_keeps
    | with_reducible apply lowerBinaryExpr_keeps
    | with_reducible apply lowerUnaryExpr_keeps
    | with_reducible apply lowerIdentifierExpr_keeps
    | with_reducible apply lowerMemberCall_keeps
    | with_reducible apply lowerCallExpr_keeps
    | with_reducible apply lowerMemberAccessExpr_keeps
    | with_reducible apply lowerVariantLiteral_keeps
    | with_reducible apply lowerStructLiteralExpr_keeps
    | with_reducible apply lowerArrayLiteralExpr_keeps
    | with_reducible apply lowerIndexingAddr_keeps
    | with_reducible apply lowerMemberAddr_keeps
    | with_reducible apply lowerIdentifierAddr_keeps
    | with_reducible apply lowerIndexingExpr_keeps
    | with_reducible apply lowerDereferenceExpr_keeps
    | with_reducible apply lowerQuestionExpr_keeps
    | with_reducible apply lowerIntrinsicExpr_keeps
    | with_reducible apply newFunction_keeps
    | with_reducible apply enterFunction_keeps
    | with_reducible apply pushVariable_keeps
    | with_reducible apply pushShadowed_keeps
    | with_reducible apply leaveFunction_keeps
    | with_reducible apply registerParamType_keeps
    | with_reducible apply lowerVarDecl_keeps
    | with_reducible apply lowerNext_keeps
    | with_reducible apply keeps_bind
    | dsimp only
    | split
    | intro _

theorem lowerBody_keeps (body : Option (BuildM Unit)) (h : ∀ x, body = some x → KeepsLoops x) :
    KeepsLoops (lowerBody body) := by
  unfold lowerBody
  cases body with
  | none =>
    repeat' first
      | assumption
      | with_reducible exact keeps_pure _
      | with_reducible exact keeps_throw _
      | with_reducible exact keeps_get
      | with_reducible exact keeps_newTemp
      | with_reducible exact keeps_emit _
      | with_reducible exact keeps_newBlock _
      | with_reducible exact keeps_setCurrentBlock _
      | with_reducible exact keeps_hasTerminator
      | with_reducible exact keeps_varMapIndex _
      | with_reducible exact keeps_ptrTypeMapIndex _
      | with_reducible exact keeps_deref _ _
      | with_reducible exact keeps_firstArg _
      | with_reducible exact keeps_modify _ (fun _ => rfl)
      | with_reducible apply pushScope_keeps
      | with_reducible apply setPtrType_keeps
      | with_reducible apply setVar_keeps
      | with_reducible apply emitUnlessTerminated_keeps
      | with_reducible apply destroyVariable_keeps
      | with_reducible apply forgetVariable_keeps
      | with_reducible apply popVariable_keeps
      | with_reducible apply restoreShadowed_keeps
      | with_reducible apply popScope_keeps
      | with_reducible apply emitDestructor_keeps
      | with_reducible apply emitAllDestructors_keeps
      | with_reducible apply emitVariant_keeps
      | with_reducible apply finishCall_keeps
      | with_reducible apply lowerLiteralExpr_keeps
      | with_reducible apply lowerBinaryExpr_keeps
      | with_reducible apply lowerUnaryExpr_keeps
      | with_reducible apply lowerIdentifierExpr_keeps
      | with_reducible apply lowerMemberCall_keeps
      | with_reducible apply lowerCallExpr_keeps
      | with_reducible apply lowerMemberAccessExpr_keeps
      | with_reducible apply lowerVariantLiteral_keeps
      | with_reducible apply lowerStructLiteralExpr_keeps
      | with_reducible apply lowerArrayLiteralExpr_keeps
      | with_reducible apply lowerIndexingAddr_keeps
      | with_reducible apply lowerMemberAddr_keeps
      | with_reducible apply lowerIdentifierAddr_keeps
      | with_reducible apply lowerIndexingExpr_keeps
      | with_reducible apply lowerDereferenceExpr_keeps
      | with_reducible apply lowerQuestionExpr_keeps
      | with_reducible apply lowerIntrinsicExpr_keeps
      | with_reducible apply newFunction_keeps
      | with_reducible apply enterFunction_keeps
      | with_reducible apply pushVariable_keeps
      | with_reducible apply pushShadowed_keeps
      | with_reducible apply leaveFunction_keeps
      | with_reducible apply registerParamType_keeps
      | with_reducible apply lowerVarDecl_keeps
      | with_reducible apply lowerNext_keeps
      | with_reducible apply lowerBlock_keeps
      | with_reducible apply keeps_bind
      | dsimp only
      | split
      | intro _
  | some x =>
    have hx := h x rfl
    repeat' first
      | assumption
      | with_reducible exact keeps_pure _
      | with_reducible exact keeps_throw _
      | with_reducible exact keeps_get
      | with_reducible exact keeps_newTemp
      | with_reducible exact keeps_emit _
      | with_reducible exact keeps_newBlock _
      | with_reducible exact keeps_setCurrentBlock _
      | with_reducible exact keeps_hasTerminator
      | with_reducible exact keeps_varMapIndex _
      | with_reducible exact keeps_ptrTypeMapIndex _
      | with_reducible exact keeps_deref _ _
      | with_reducible exact keeps_firstArg _
      | with_reducible exact keeps_modify _ (fun _ => rfl)
      | with_reducible apply pushScope_keeps
      | with_reducible apply setPtrType_keeps
      | with_reducible apply setVar_keeps
      | with_reducible apply emitUnlessTerminated_keeps
      | with_reducible apply destroyVariable_keeps
      | with_reducible apply forgetVariable_keeps
      | with_reducible apply popVariable_keeps
      | with_reducible apply restoreShadowed_keeps
      | with_reducible apply popScope_keeps
      | with_reducible apply emitDestructor_keeps
      | with_reducible apply emitAllDestructors_keeps
      | with_reducible apply emitVariant_keeps
      | with_reducible apply finishCall_keeps
      | with_reducible apply lowerLiteralExpr_keeps
      | with_reducible apply lowerBinaryExpr_keeps
      | with_reducible apply lowerUnaryExpr_keeps
      | with_reducible apply lowerIdentifierExpr_keeps
      | with_reducible apply lowerMemberCall_keeps
      | with_reducible apply lowerCallExpr_keeps
      | with_reducible apply lowerMemberAccessExpr_keeps
      | with_reducible apply lowerVariantLiteral_keeps
      | with_reducible apply lowerStructLiteralExpr_keeps
      | with_reducible apply lowerArrayLiteralExpr_keeps
      | with_reducible apply lowerIndexingAddr_keeps
      | with_reducible apply lowerMemberAddr_keeps
      | with_reducible apply lowerIdentifierAddr_keeps
      | with_reducible apply lowerIndexingExpr_keeps
      | with_reducible apply lowerDereferenceExpr_keeps
      | with_reducible apply lowerQuestionExpr_keeps
      | with_reducible apply lowerIntrinsicExpr_keeps
      | with_reducible apply newFunction_keeps
      | with_reducible apply enterFunction_keeps
      | with_reducible apply pushVariable_keeps
      | with_reducible apply pushShadowed_keeps
      | with_reducible apply leaveFunction_keeps
      | with_reducible apply registerParamType_keeps
      | with_reducible apply lowerVarDecl_keeps
      | with_reducible apply lowerNext_keeps
      | with_reducible apply lowerBlock_keeps
      | with_reducible apply keeps_bind
      | dsimp only
      | split
      | intro _

theorem lowerFunctionParam_keeps (param : Param) :
    KeepsLoops (lowerFunctionParam param) := by
  unfold lowerFunctionParam
  repeat' first
    | assumption
    | with_reducible exact keeps_pure _
    | with_reducible exact keeps_throw _
    | with_reducible exact keeps_get
    | with_reducible exact keeps_newTemp
    | with_reducible exact keeps_emit _
    | with_reducible exact keeps_newBlock _
    | with_reducible exact keeps_setCurrentBlock _
    | with_reducible exact keeps_hasTerminator
    | with_reducible exact keeps_varMapIndex _
    | with_reducible exact keeps_ptrTypeMapIndex _
    | with_reducible exact keeps_deref _ _
    | with_reducible exact keeps_firstArg _
    | with_reducible exact keeps_modify _ (fun _ => rfl)
    | with_reducible apply pushScope_keeps
    | with_reducible apply setPtrType_keeps
    | with_reducible apply setVar_keeps
    | with_reducible apply emitUnlessTerminated_keeps
    | with_reducible apply destroyVariable_keeps
    | with_reducible apply forgetVariable_keeps
    | with_reducible apply popVariable_keeps
    | with_reducible apply restoreShadowed_keeps
    | with_reducible apply popScope_keeps
    | with_reducible apply emitDestructor_keeps
    | with_reducible apply emitAllDestructors_keeps
    | with_reducible apply emitVariant_keeps
    | with_reducible apply finishCall_keeps
    | with_reducible apply lowerLiteralExpr_keeps
    | with_reducible apply lowerBinaryExpr_keeps
    | with_reducible apply lowerUnaryExpr_keeps
    | with_reducible apply lowerIdentifierExpr_keeps
    | with_reducible apply lowerMemberCall_keeps
    | with_reducible apply lowerCallExpr_keeps
    | with_reducible apply lowerMemberAccessExpr_keeps
    | with_reducible apply lowerVariantLiteral_keeps
    | with_reducible apply lowerStructLiteralExpr_keeps
    | with_reducible apply lowerArrayLiteralExpr_keeps
    | with_reducible apply lowerIndexingAddr_keeps
    | with_reducible apply lowerMemberAddr_keeps
    | with_reducible apply lowerIdentifierAddr_keeps
    | with_reducible apply lowerIndexingExpr_keeps
    | with_reducible apply lowerDereferenceExpr_keeps
    | with_reducible apply lowerQuestionExpr_keeps
    | with_reducible apply lowerIntrinsicExpr_keeps
    | with_reducible apply newFunction_keeps
    | with_reducible apply enterFunction_keeps
    | with_reducible apply pushVariable_keeps
    | with_reducible apply pushShadowed_keeps
    | with_reducible apply leaveFunction_keeps
    | with_reducible apply registerParamType_keeps
    | with_reducible apply lowerVarDecl_keeps
    | with_reducible apply lowerNext_keeps
    | with_reducible apply lowerBlock_keeps
    | with_reducible apply lowerBody_keeps
    | with_reducible apply keeps_bind
    | dsimp only
    | split
    | intro _

theorem implicitReturn_keeps (returnType : Ty) :
    KeepsLoops (implicitReturn returnType) := by
  unfold implicitReturn
  repeat' first
    | assumption
    | with_reducible exact keeps_pure _
    | with_reducible exact keeps_throw _
    | with_reducible exact keeps_get
    | with_reducible exact keeps_newTemp
    | with_reducible exact keeps_emit _
    | with_reducible exact keeps_newBlock _
    | with_reducible exact keeps_setCurrentBlock _
    | with_reducible exact keeps_hasTerminator
    | with_reducible exact keeps_varMapIndex _
    | with_reducible exact keeps_ptrTypeMapIndex _
    | with_reducible exact keeps_deref _ _
    | with_reducible exact keeps_firstArg _
    | with_reducible exact keeps_modify _ (fun _ => rfl)
    | with_reducible apply pushScope_keeps
    | with_reducible apply setPtrType_keeps
    | with_reducible apply setVar_keeps
    | with_reducible apply emitUnlessTerminated_keeps
    | with_reducible apply destroyVariable_keeps
    | with_reducible apply forgetVariable_keeps
    | with_reducible apply popVariable_keeps
    | with_reducible apply restoreShadowed_keeps
    | with_reducible apply popScope_keeps
    | with_reducible apply emitDestructor_keeps
    | with_reducible apply emitAllDestructors_keeps
    | with_reducible apply emitVariant_keeps
    | with_reducible apply finishCall_keeps
    | with_reducible apply lowerLiteralExpr_keeps
    | with_reducible apply lowerBinaryExpr_keeps
    | with_reducible apply lowerUnaryExpr_keeps
    | with_reducible apply lowerIdentifierExpr_keeps
    | with_reducible apply lowerMemberCall_keeps
    | with_reducible apply lowerCallExpr_keeps
    | with_reducible apply lowerMemberAccessExpr_keeps
    | with_reducible apply lowerVariantLiteral_keeps
    | with_reducible apply lowerStructLiteralExpr_keeps
    | with_reducible apply lowerArrayLiteralExpr_keeps
    | with_reducible apply lowerIndexingAddr_keeps
    | with_reducible apply lowerMemberAddr_keeps
    | with_reducible apply lowerIdentifierAddr_keeps
    | with_reducible apply lowerIndexingExpr_keeps
    | with_reducible apply lowerDereferenceExpr_keeps
    | with_reducible apply lowerQuestionExpr_keeps
    | with_reducible apply lowerIntrinsicExpr_keeps
    | with_reducible apply newFunction_keeps
    | with_reducible apply enterFunction_keeps
    | with_reducible apply pushVariable_keeps
    | with_reducible apply pushShadowed_keeps
    | with_reducible apply leaveFunction_keeps
    | with_reducible apply registerParamType_keeps
    | with_reducible apply lowerVarDecl_keeps
    | with_reducible apply lowerNext_keeps
    | with_reducible apply lowerBlock_keeps
    | with_reducible apply lowerBody_keeps
    | with_reducible apply lowerFunctionParam_keeps
    | with_reducible apply keeps_bind
    | dsimp only
    | split
    | intro _

theorem lowerMethodParam_keeps (param : Param) :
    KeepsLoops (lowerMethodParam param) := by
  unfold lowerMethodParam
  repeat' first
    | assumption
    | with_reducible exact keeps_pure _
    | with_reducible exact keeps_throw _
    | with_reducible exact keeps_get
    | with_reducible exact keeps_newTemp
    | with_reducible exact keeps_emit _
    | with_reducible exact keeps_newBlock _
    | with_reducible exact keeps_setCurrentBlock _
    | with_reducible exact keeps_hasTerminator
    | with_reducible exact keeps_varMapIndex _
    | with_reducible exact keeps_ptrTypeMapIndex _
    | with_reducible exact keeps_deref _ _
    | with_reducible exact keeps_firstArg _
    | with_reducible exact keeps_modify _ (fun _ => rfl)
    | with_reducible apply pushScope_keeps
    | with_reducible apply setPtrType_keeps
    | with_reducible apply setVar_keeps
    | with_reducible apply emitUnlessTerminated_keeps
    | with_reducible apply destroyVariable_keeps
    | with_reducible apply forgetVariable_keeps
    | with_reducible apply popVariable_keeps
    | with_reducible apply restoreShadowed_keeps
    | with_reducible apply popScope_keeps
    | with_reducible apply emitDestructor_keeps
    | with_reducible apply emitAllDestructors_keeps
    | with_reducible apply emitVariant_keeps
    | with_reducible apply finishCall_keeps
    | with_reducible apply lowerLiteralExpr_keeps
    | with_reducible apply lowerBinaryExpr_keeps
    | with_reducible apply lowerUnaryExpr_keeps
    | with_reducible apply lowerIdentifierExpr_keeps
    | with_reducible apply lowerMemberCall_keeps
    | with_reducible apply lowerCallExpr_keeps
    | with_reducible apply lowerMemberAccessExpr_keeps
    | with_reducible apply lowerVariantLiteral_keeps
    | with_reducible apply lowerStructLiteralExpr_keeps
    | with_reducible apply lowerArrayLiteralExpr_keeps
    | with_reducible apply lowerIndexingAddr_keeps
    | with_reducible apply lowerMemberAddr_keeps
    | with_reducible apply lowerIdentifierAddr_keeps
    | with_reducible apply lowerIndexingExpr_keeps
    | with_reducible apply lowerDereferenceExpr_keeps
    | with_reducible apply lowerQuestionExpr_keeps
    | with_reducible apply lowerIntrinsicExpr_keeps
    | with_reducible apply newFunction_keeps
    | with_reducible apply enterFunction_keeps
    | with_reducible apply pushVariable_keeps
    | with_reducible apply pushShadowed_keeps
    | with_reducible apply leaveFunction_keeps
    | with_reducible apply registerParamType_keeps
    | with_reducible apply lowerVarDecl_keeps
    | with_reducible apply lowerNext_keeps
    | with_reducible apply lowerBlock_keeps
    | with_reducible apply lowerBody_keeps
    | with_reducible apply lowerFunctionParam_keeps
    | with_reducible apply implicitReturn_keeps
    | with_reducible apply keeps_bind
    | dsimp only
    | split
    | intro _

theorem lowerFunctionDecl_keeps (decl : FunctionDecl) (body : Option (BuildM Unit)) (h : ∀ x, body = some x → KeepsLoops x) :
    KeepsLoops (lowerFunctionDecl decl body) := by
  unfold lowerFunctionDecl
  repeat' first
    | assumption
    | with_reducible exact keeps_forEach _ lowerFunctionParam_keeps _
    | with_reducible exact keeps_forEach _ lowerMethodParam_keeps _
    | with_reducible exact lowerBody_keeps _ h
    | with_reducible exact keeps_pure _
    | with_reducible exact keeps_throw _
    | with_reducible exact keeps_get
    | with_reducible exact keeps_newTemp
    | with_reducible exact keeps_emit _
    | with_reducible exact keeps_newBlock _
    | with_reducible exact keeps_setCurrentBlock _
    | with_reducible exact keeps_hasTerminator
    | with_reducible exact keeps_varMapIndex _
    | with_reducible exact keeps_ptrTypeMapIndex _
    | with_reducible exact keeps_deref _ _
    | with_reducible exact keeps_firstArg _
    | with_reducible exact keeps_modify _ (fun _ => rfl)
    | with_reducible apply pushScope_keeps
    | with_reducible apply setPtrType_keeps
    | with_reducible apply setVar_keeps
    | with_reducible apply emitUnlessTerminated_keeps
    | with_reducible apply destroyVariable_keeps
    | with_reducible apply forgetVariable_keeps
    | with_reducible apply popVariable_keeps
    | with_reducible apply restoreShadowed_keeps
    | with_reducible apply popScope_keeps
    | with_reducible apply emitDestructor_keeps
    | with_reducible apply emitAllDestructors_keeps
    | with_reducible apply emitVariant_keeps
    | with_reducible apply finishCall_keeps
    | with_reducible apply lowerLiteralExpr_keeps
    | with_reducible apply lowerBinaryExpr_keeps
    | with_reducible apply lowerUnaryExpr_keeps
    | with_reducible apply lowerIdentifierExpr_keeps
    | with_reducible apply lowerMemberCall_keeps
    | with_reducible apply lowerCallExpr_keeps
    | with_reducible apply lowerMemberAccessExpr_keeps
    | with_reducible apply lowerVariantLiteral_keeps
    | with_reducible apply lowerStructLiteralExpr_keeps
    | with_reducible apply lowerArrayLiteralExpr_keeps
    | with_reducible apply lowerIndexingAddr_keeps
    | with_reducible apply lowerMemberAddr_keeps
    | with_reducible apply lowerIdentifierAddr_keeps
    | with_reducible apply lowerIndexingExpr_keeps
    | with_reducible apply lowerDereferenceExpr_keeps
    | with_reducible apply lowerQuestionExpr_keeps
    | with_reducible apply lowerIntrinsicExpr_keeps
    | with_reducible apply newFunction_keeps
    | with_reducible apply enterFunction_keeps
    | with_reducible apply pushVariable_keeps
    | with_reducible apply pushShadowed_keeps
    | with_reducible apply leaveFunction_keeps
    | with_reducible apply registerParamType_keeps
    | with_reducible apply lowerVarDecl_keeps
    | with_reducible apply lowerNext_keeps
    | with_reducible apply lowerBlock_keeps
    | with_reducible apply lowerBody_keeps
    | with_reducible apply lowerFunctionParam_keeps
    | with_reducible apply implicitReturn_keeps
    | with_reducible apply lowerMethodParam_keeps
    | with_reducible apply keeps_bind
    | dsimp only
    | split
    | intro _

theorem lowerMethodDecl_keeps (decl : MethodDecl) (className : String)
    (body : Option (BuildM Unit)) (h : ∀ x, body = some x → KeepsLoops x) :
    KeepsLoops (lowerMethodDecl decl className body) := by
  unfold lowerMethodDecl
  repeat' first
    | assumption
    | with_reducible exact keeps_forEach _ lowerFunctionParam_keeps _
    | with_reducible exact keeps_forEach _ lowerMethodParam_keeps _
    | with_reducible exact lowerBody_keeps _ h
    | with_reducible exact keeps_pure _
    | with_reducible exact keeps_throw _
    | with_reducible exact keeps_get
    | with_reducible exact keeps_newTemp
    | with_reducible exact keeps_emit _
    | with_reducible exact keeps_newBlock _
    | with_reducible exact keeps_setCurrentBlock _
    | with_reducible exact keeps_hasTerminator
    | with_reducible exact keeps_varMapIndex _
    | with_reducible exact keeps_ptrTypeMapIndex _
    | with_reducible exact keeps_deref _ _
    | with_reducible exact keeps_firstArg _
    | with_reducible exact keeps_modify _ (fun _ => rfl)
    | with_reducible apply pushScope_keeps
    | with_reducible apply setPtrType_keeps
    | with_reducible apply setVar_keeps
    | with_reducible apply emitUnlessTerminated_keeps
    | with_reducible apply destroyVariable_keeps
    | with_reducible apply forgetVariable_keeps
    | with_reducible apply popVariable_keeps
    | with_reducible apply restoreShadowed_keeps
    | with_reducible apply popScope_keeps
    | with_reducible apply emitDestructor_keeps
    | with_reducible apply emitAllDestructors_keeps
    | with_reducible apply emitVariant_keeps
    | with_reducible apply finishCall_keeps
    | with_reducible apply lowerLiteralExpr_keeps
    | with_reducible apply lowerBinaryExpr_keeps
    | with_reducible apply lowerUnaryExpr_keeps
    | with_reducible apply lowerIdentifierExpr_keeps
    | with_reducible apply lowerMemberCall_keeps
    | with_reducible apply lowerCallExpr_keeps
    | with_reducible apply lowerMemberAccessExpr_keeps
    | with_reducible apply lowerVariantLiteral_keeps
    | with_reducible apply lowerStructLiteralExpr_keeps
    | with_reducible apply lowerArrayLiteralExpr_keeps
    | with_reducible apply lowerIndexingAddr_keeps
    | with_reducible apply lowerMemberAddr_keeps
    | with_reducible apply lowerIdentifierAddr_keeps
    | with_reducible apply lowerIndexingExpr_keeps
    | with_reducible apply lowerDereferenceExpr_keeps
    | with_reducible apply lowerQuestionExpr_keeps
    | with_reducible apply lowerIntrinsicExpr_keeps
    | with_reducible apply newFunction_keeps
    | with_reducible apply enterFunction_keeps
    | with_reducible apply pushVariable_keeps
    | with_reducible apply pushShadowed_keeps
    | with_reducible apply leaveFunction_keeps
    | with_reducible apply registerParamType_keeps
    | with_reducible apply lowerVarDecl_keeps
    | with_reducible apply lowerNext_keeps
    | with_reducible apply lowerBlock_keeps
    | with_reducible apply lowerBody_keeps
    | with_reducible apply lowerFunctionParam_keeps
    | with_reducible apply implicitReturn_keeps
    | with_reducible apply lowerMethodParam_keeps
    | with_reducible apply lowerFunctionDecl_keeps
    | with_reducible apply keeps_bind
    | dsimp only
    | split
    | intro _

theorem lowerConstructorDecl_keeps (decl : ConstructorDecl) (className : String)
    (body : Option (BuildM Unit)) (h : ∀ x, body = some x → KeepsLoops x) :
    KeepsLoops (lowerConstructorDecl decl className body) := by
  unfold lowerConstructorDecl
  repeat' first
    | assumption
    | with_reducible exact keeps_forEach _ lowerFunctionParam_keeps _
    | with_reducible exact keeps_forEach _ lowerMethodParam_keeps _
    | with_reducible exact lowerBody_keeps _ h
    | with_reducible exact keeps_pure _
    | with_reducible exact keeps_throw _
    | with_reducible exact keeps_get
    | with_reducible exact keeps_newTemp
    | with_reducible exact keeps_emit _
    | with_reducible exact keeps_newBlock _
    | with_reducible exact keeps_setCurrentBlock _
    | with_reducible exact keeps_hasTerminator
    | with_reducible exact keeps_varMapIndex _
    | with_reducible exact keeps_ptrTypeMapIndex _
    | with_reducible exact keeps_deref _ _
    | with_reducible exact keeps_firstArg _
    | with_reducible exact keeps_modify _ (fun _ => rfl)
    | with_reducible apply pushScope_keeps
    | with_reducible apply setPtrType_keeps
    | with_reducible apply setVar_keeps
    | with_reducible apply emitUnlessTerminated_keeps
    | with_reducible apply destroyVariable_keeps
    | with_reducible apply forgetVariable_keeps
    | with_reducible apply popVariable_keeps
    | with_reducible apply restoreShadowed_keeps
    | with_reducible apply popScope_keeps
    | with_reducible apply emitDestructor_keeps
    | with_reducible apply emitAllDestructors_keeps
    | with_reducible apply emitVariant_keeps
    | with_reducible apply finishCall_keeps
    | with_reducible apply lowerLiteralExpr_keeps
    | with_reducible apply lowerBinaryExpr_keeps
    | with_reducible apply lowerUnaryExpr_keeps
    | with_reducible apply lowerIdentifierExpr_keeps
    | with_reducible apply lowerMemberCall_keeps
    | with_reducible apply lowerCallExpr_keeps
    | with_reducible apply lowerMemberAccessExpr_keeps
    | with_reducible apply lowerVariantLiteral_keeps
    | with_reducible apply lowerStructLiteralExpr_keeps
    | with_reducible apply lowerArrayLiteralExpr_keeps
    | with_reducible apply lowerIndexingAddr_keeps
    | with_reducible apply lowerMemberAddr_keeps
    | with_reducible apply lowerIdentifierAddr_keeps
    | with_reducible apply lowerIndexingExpr_keeps
    | with_reducible apply lowerDereferenceExpr_keeps
    | with_reducible apply lowerQuestionExpr_keeps
    | with_reducible apply lowerIntrinsicExpr_keeps
    | with_reducible apply newFunction_keeps
    | with_reducible apply enterFunction_keeps
    | with_reducible apply pushVariable_keeps
    | with_reducible apply pushShadowed_keeps
    | with_reducible apply leaveFunction_keeps
    | with_reducible apply registerParamType_keeps
    | with_reducible apply lowerVarDecl_keeps
    | with_reducible apply lowerNext_keeps
    | with_reducible apply lowerBlock_keeps
    | with_reducible apply lowerBody_keeps
    | with_reducible apply lowerFunctionParam_keeps
    | with_reducible apply implicitReturn_keeps
    | with_reducible apply lowerMethodParam_keeps
    | with_reducible apply lowerFunctionDecl_keeps
    | with_reducible apply lowerMethodDecl_keeps
    | with_reducible apply keeps_bind
    | dsimp only
    | split
    | intro _

theorem lowerStructDecl_keeps (decl : StructDecl) :
    KeepsLoops (lowerStructDecl decl) := by
  unfold lowerStructDecl
  repeat' first
    | assumption
    | with_reducible exact keeps_pure _
    | with_reducible exact keeps_throw _
    | with_reducible exact keeps_get
    | with_reducible exact keeps_newTemp
    | with_reducible exact keeps_emit _
    | with_reducible exact keeps_newBlock _
    | with_reducible exact keeps_setCurrentBlock _
    | with_reducible exact keeps_hasTerminator
    | with_reducible exact keeps_varMapIndex _
    | with_reducible exact keeps_ptrTypeMapIndex _
    | with_reducible exact keeps_deref _ _
    | with_reducible exact keeps_firstArg _
    | with_reducible exact keeps_modify _ (fun _ => rfl)
    | with_reducible apply pushScope_keeps
    | with_reducible apply setPtrType_keeps
    | with_reducible apply setVar_keeps
    | with_reducible apply emitUnlessTerminated_keeps
    | with_reducible apply destroyVariable_keeps
    | with_reducible apply forgetVariable_keeps
    | with_reducible apply popVariable_keeps
    | with_reducible apply restoreShadowed_keeps
    | with_reducible apply popScope_keeps
    | with_reducible apply emitDestructor_keeps
    | with_reducible apply emitAllDestructors_keeps
    | with_reducible apply emitVariant_keeps
    | with_reducible apply finishCall_keeps
    | with_reducible apply lowerLiteralExpr_keeps
    | with_reducible apply lowerBinaryExpr_keeps
    | with_reducible apply lowerUnaryExpr_keeps
    | with_reducible apply lowerIdentifierExpr_keeps
    | with_reducible apply lowerMemberCall_keeps
    | with_reducible apply lowerCallExpr_keeps
    | with_reducible apply lowerMemberAccessExpr_keeps
    | with_reducible apply lowerVariantLiteral_keeps
    | with_reducible apply lowerStructLiteralExpr_keeps
    | with_reducible apply lowerArrayLiteralExpr_keeps
    | with_reducible apply lowerIndexingAddr_keeps
    | with_reducible apply lowerMemberAddr_keeps
    | with_reducible apply lowerIdentifierAddr_keeps
    | with_reducible apply lowerIndexingExpr_keeps
    | with_reducible apply lowerDereferenceExpr_keeps
    | with_reducible apply lowerQuestionExpr_keeps
    | with_reducible apply lowerIntrinsicExpr_keeps
    | with_reducible apply newFunction_keeps
    | with_reducible apply enterFunction_keeps
    | with_reducible apply pushVariable_keeps
    | with_reducible apply pushShadowed_keeps
    | with_reducible apply leaveFunction_keeps
    | with_reducible apply registerParamType_keeps
    | with_reducible apply lowerVarDecl_keeps
    | with_reducible apply lowerNext_keeps
    | with_reducible apply lowerBlock_keeps
    | with_reducible apply lowerBody_keeps
    | with_reducible apply lowerFunctionParam_keeps
    | with_reducible apply implicitReturn_keeps
    | with_reducible apply lowerMethodParam_keeps
    | with_reducible apply lowerFunctionDecl_keeps
    | with_reducible apply lowerMethodDecl_keeps
    | with_reducible apply lowerConstructorDecl_keeps
    | with_reducible apply keeps_bind
    | dsimp only
    | split
    | intro _

theorem lowerEnumDecl_keeps (decl : EnumDecl) :
    KeepsLoops (lowerEnumDecl decl) := by
  unfold lowerEnumDecl
  repeat' first
    | assumption
    | with_reducible exact keeps_pure _
    | with_reducible exact keeps_throw _
    | with_reducible exact keeps_get
    | with_reducible exact keeps_newTemp
    | with_reducible exact keeps_emit _
    | with_reducible exact keeps_newBlock _
    | with_reducible exact keeps_setCurrentBlock _
    | with_reducible exact keeps_hasTerminator
    | with_reducible exact keeps_varMapIndex _
    | with_reducible exact keeps_ptrTypeMapIndex _
    | with_reducible exact keeps_deref _ _
    | with_reducible exact keeps_firstArg _
    | with_reducible exact keeps_modify _ (fun _ => rfl)
    | with_reducible apply pushScope_keeps
    | with_reducible apply setPtrType_keeps
    | with_reducible apply setVar_keeps
    | with_reducible apply emitUnlessTerminated_keeps
    | with_reducible apply destroyVariable_keeps
    | with_reducible apply forgetVariable_keeps
    | with_reducible apply popVariable_keeps
    | with_reducible apply restoreShadowed_keeps
    | with_reducible apply popScope_keeps
    | with_reducible apply emitDestructor_keeps
    | with_reducible apply emitAllDestructors_keeps
    | with_reducible apply emitVariant_keeps
    | with_reducible apply finishCall_keeps
    | with_reducible apply lowerLiteralExpr_keeps
    | with_reducible apply lowerBinaryExpr_keeps
    | with_reducible apply lowerUnaryExpr_keeps
    | with_reducible apply lowerIdentifierExpr_keeps
    | with_reducible apply lowerMemberCall_keeps
    | with_reducible apply lowerCallExpr_keeps
    | with_reducible apply lowerMemberAccessExpr_keeps
    | with_reducible apply lowerVariantLiteral_keeps
    | with_reducible apply lowerStructLiteralExpr_keeps
    | with_reducible apply lowerArrayLiteralExpr_keeps
    | with_reducible apply lowerIndexingAddr_keeps
    | with_reducible apply lowerMemberAddr_keeps
    | with_reducible apply lowerIdentifierAddr_keeps
    | with_reducible apply lowerIndexingExpr_keeps
    | with_reducible apply lowerDereferenceExpr_keeps
    | with_reducible apply lowerQuestionExpr_keeps
    | with_reducible apply lowerIntrinsicExpr_keeps
    | with_reducible apply newFunction_keeps
    | with_reducible apply enterFunction_keeps
    | with_reducible apply pushVariable_keeps
    | with_reducible apply pushShadowed_keeps
    | with_reducible apply leaveFunction_keeps
    | with_reducible apply registerParamType_keeps
    | with_reducible apply lowerVarDecl_keeps
    | with_reducible apply lowerNext_keeps
    | with_reducible apply lowerBlock_keeps
    | with_reducible apply lowerBody_keeps
    | with_reducible apply lowerFunctionParam_keeps
    | with_reducible apply implicitReturn_keeps
    | with_reducible apply lowerMethodParam_keeps
    | with_reducible apply lowerFunctionDecl_keeps
    | with_reducible apply lowerMethodDecl_keeps
    | with_reducible apply lowerConstructorDecl_keeps
    | with_reducible apply lowerStructDecl_keeps
    | with_reducible apply keeps_bind
    | dsimp only
    | split
    | intro _

theorem lowerClassDecl_keeps (decl : ClassDecl) (members : BuildM Unit) (h : KeepsLoops members) :
    KeepsLoops (lowerClassDecl decl members) := by
  unfold lowerClassDecl
  repeat' first
    | assumption
    | with_reducible exact keeps_pure _
    | with_reducible exact keeps_throw _
    | with_reducible exact keeps_get
    | with_reducible exact keeps_newTemp
    | with_reducible exact keeps_emit _
    | with_reducible exact keeps_newBlock _
    | with_reducible exact keeps_setCurrentBlock _
    | with_reducible exact keeps_hasTerminator
    | with_reducible exact keeps_varMapIndex _
    | with_reducible exact keeps_ptrTypeMapIndex _
    | with_reducible exact keeps_deref _ _
    | with_reducible exact keeps_firstArg _
    | with_reducible exact keeps_modify _ (fun _ => rfl)
    | with_reducible apply pushScope_keeps
    | with_reducible apply setPtrType_keeps
    | with_reducible apply setVar_keeps
    | with_reducible apply emitUnlessTerminated_keeps
    | with_reducible apply destroyVariable_keeps
    | with_reducible apply forgetVariable_keeps
    | with_reducible apply popVariable_keeps
    | with_reducible apply restoreShadowed_keeps
    | with_reducible apply popScope_keeps
    | with_reducible apply emitDestructor_keeps
    | with_reducible apply emitAllDestructors_keeps
    | with_reducible apply emitVariant_keeps
    | with_reducible apply finishCall_keeps
    | with_reducible apply lowerLiteralExpr_keeps
    | with_reducible apply lowerBinaryExpr_keeps
    | with_reducible apply lowerUnaryExpr_keeps
    | with_reducible apply lowerIdentifierExpr_keeps
    | with_reducible apply lowerMemberCall_keeps
    | with_reducible apply lowerCallExpr_keeps
    | with_reducible apply lowerMemberAccessExpr_keeps
    | with_reducible apply lowerVariantLiteral_keeps
    | with_reducible apply lowerStructLiteralExpr_keeps
    | with_reducible apply lowerArrayLiteralExpr_keeps
    | with_reducible apply lowerIndexingAddr_keeps
    | with_reducible apply lowerMemberAddr_keeps
    | with_reducible apply lowerIdentifierAddr_keeps
    | with_reducible apply lowerIndexingExpr_keeps
    | with_reducible apply lowerDereferenceExpr_keeps
    | with_reducible apply lowerQuestionExpr_keeps
    | with_reducible apply lowerIntrinsicExpr_keeps
    | with_reducible apply newFunction_keeps
    | with_reducible apply enterFunction_keeps
    | with_reducible apply pushVariable_keeps
    | with_reducible apply pushShadowed_keeps
    | with_reducible apply leaveFunction_keeps
    | with_reducible apply registerParamType_keeps
    | with_reducible apply lowerVarDecl_keeps
    | with_reducible apply lowerNext_keeps
    | with_reducible apply lowerBlock_keeps
    | with_reducible apply lowerBody_keeps
    | with_reducible apply lowerFunctionParam_keeps
    | with_reducible apply implicitReturn_keeps
    | with_reducible apply lowerMethodParam_keeps
    | with_reducible apply lowerFunctionDecl_keeps
    | with_reducible apply lowerMethodDecl_keeps
    | with_reducible apply lowerConstructorDecl_keeps
    | with_reducible apply lowerStructDecl_keeps
    | with_reducible apply lowerEnumDecl_keeps
    | with_reducible apply keeps_bind
    | dsimp only
    | split
    | intro _

theorem lowerReturnStmt_keeps (expression : Option (BuildM String))
    (h : ∀ x, expression = some x → KeepsLoops x) :
    KeepsLoops (lowerReturnStmt expression) := by
  unfold lowerReturnStmt
  cases expression with
  | none =>
    repeat' first
      | assumption
      | with_reducible exact keeps_pure _
      | with_reducible exact keeps_throw _
      | with_reducible exact keeps_get
      | with_reducible exact keeps_newTemp
      | with_reducible exact keeps_emit _
      | with_reducible exact keeps_newBlock _
      | with_reducible exact keeps_setCurrentBlock _
      | with_reducible exact keeps_hasTerminator
      | with_reducible exact keeps_varMapIndex _
      | with_reducible exact keeps_ptrTypeMapIndex _
      | with_reducible exact keeps_deref _ _
      | with_reducible exact keeps_firstArg _
      | with_reducible exact keeps_modify _ (fun _ => rfl)
      | with_reducible apply pushScope_keeps
      | with_reducible apply setPtrType_keeps
      | with_reducible apply setVar_keeps
      | with_reducible apply emitUnlessTerminated_keeps
      | with_reducible apply destroyVariable_keeps
      | with_reducible apply forgetVariable_keeps
      | with_reducible apply popVariable_keeps
      | with_reducible apply restoreShadowed_keeps
      | with_reducible apply popScope_keeps
      | with_reducible apply emitDestructor_keeps
      | with_reducible apply emitAllDestructors_keeps
      | with_reducible apply emitVariant_keeps
      | with_reducible apply finishCall_keeps
      | with_reducible apply lowerLiteralExpr_keeps
      | with_reducible apply lowerBinaryExpr_keeps
      | with_reducible apply lowerUnaryExpr_keeps
      | with_reducible apply lowerIdentifierExpr_keeps
      | with_reducible apply lowerMemberCall_keeps
      | with_reducible apply lowerCallExpr_keeps
      | with_reducible apply lowerMemberAccessExpr_keeps
      | with_reducible apply lowerVariantLiteral_keeps
      | with_reducible apply lowerStructLiteralExpr_keeps
      | with_reducible apply lowerArrayLiteralExpr_keeps
      | with_reducible apply lowerIndexingAddr_keeps
      | with_reducible apply lowerMemberAddr_keeps
      | with_reducible apply lowerIdentifierAddr_keeps
      | with_reducible apply lowerIndexingExpr_keeps
      | with_reducible apply lowerDereferenceExpr_keeps
      | with_reducible apply lowerQuestionExpr_keeps
      | with_reducible apply lowerIntrinsicExpr_keeps
      | with_reducible apply newFunction_keeps
      | with_reducible apply enterFunction_keeps
      | with_reducible apply pushVariable_keeps
      | with_reducible apply pushShadowed_keeps
      | with_reducible apply leaveFunction_keeps
      | with_reducible apply registerParamType_keeps
      | with_reducible apply lowerVarDecl_keeps
      | with_reducible apply lowerNext_keeps
      | with_reducible apply lowerBlock_keeps
      | with_reducible apply lowerBody_keeps
      | with_reducible apply lowerFunctionParam_keeps
      | with_reducible apply implicitReturn_keeps
      | with_reducible apply lowerMethodParam_keeps
      | with_reducible apply lowerFunctionDecl_keeps
      | with_reducible apply lowerMethodDecl_keeps
      | with_reducible apply lowerConstructorDecl_keeps
      | with_reducible apply lowerStructDecl_keeps
      | with_reducible apply lowerEnumDecl_keeps
      | with_reducible apply lowerClassDecl_keeps
      | with_reducible apply keeps_bind
      | dsimp only
      | split
      | intro _
  | some x =>
    have hx := h x rfl
    repeat' first
      | assumption
      | with_reducible exact keeps_pure _
      | with_reducible exact keeps_throw _
      | with_reducible exact keeps_get
      | with_reducible exact keeps_newTemp
      | with_reducible exact keeps_emit _
      | with_reducible exact keeps_newBlock _
      | with_reducible exact keeps_setCurrentBlock _
      | with_reducible exact keeps_hasTerminator
      | with_reducible exact keeps_varMapIndex _
      | with_reducible exact keeps_ptrTypeMapIndex _
      | with_reducible exact keeps_deref _ _
      | with_reducible exact keeps_firstArg _
      | with_reducible exact keeps_modify _ (fun _ => rfl)
      | with_reducible apply pushScope_keeps
      | with_reducible apply setPtrType_keeps
      | with_reducible apply setVar_keeps
      | with_reducible apply emitUnlessTerminated_keeps
      | with_reducible apply destroyVariable_keeps
      | with_reducible apply forgetVariable_keeps
      | with_reducible apply popVariable_keeps
      | with_reducible apply restoreShadowed_keeps
      | with_reducible apply popScope_keeps
      | with_reducible apply emitDestructor_keeps
      | with_reducible apply emitAllDestructors_keeps
      | with_reducible apply emitVariant_keeps
      | with_reducible apply finishCall_keeps
      | with_reducible apply lowerLiteralExpr_keeps
      | with_reducible apply lowerBinaryExpr_keeps
      | with_reducible apply lowerUnaryExpr_keeps
      | with_reducible apply lowerIdentifierExpr_keeps
      | with_reducible apply lowerMemberCall_keeps
      | with_reducible apply lowerCallExpr_keeps
      | with_reducible apply lowerMemberAccessExpr_keeps
      | with_reducible apply lowerVariantLiteral_keeps
      | with_reducible apply lowerStructLiteralExpr_keeps
      | with_reducible apply lowerArrayLiteralExpr_keeps
      | with_reducible apply lowerIndexingAddr_keeps
      | with_reducible apply lowerMemberAddr_keeps
      | with_reducible apply lowerIdentifierAddr_keeps
      | with_reducible apply lowerIndexingExpr_keeps
      | with_reducible apply lowerDereferenceExpr_keeps
      | with_reducible apply lowerQuestionExpr_keeps
      | with_reducible apply lowerIntrinsicExpr_keeps
      | with_reducible apply newFunction_keeps
      | with_reducible apply enterFunction_keeps
      | with_reducible apply pushVariable_keeps
      | with_reducible apply pushShadowed_keeps
      | with_reducible apply leaveFunction_keeps
      | with_reducible apply registerParamType_keeps
      | with_reducible apply lowerVarDecl_keeps
      | with_reducible apply lowerNext_keeps
      | with_reducible apply lowerBlock_keeps
      | with_reducible apply lowerBody_keeps
      | with_reducible apply lowerFunctionParam_keeps
      | with_reducible apply implicitReturn_keeps
      | with_reducible apply lowerMethodParam_keeps
      | with_reducible apply lowerFunctionDecl_keeps
      | with_reducible apply lowerMethodDecl_keeps
      | with_reducible apply lowerConstructorDecl_keeps
      | with_reducible apply lowerStructDecl_keeps
      | with_reducible apply lowerEnumDecl_keeps
      | with_reducible apply lowerClassDecl_keeps
      | with_reducible apply keeps_bind
      | dsimp only
      | split
      | intro _

theorem lowerIfStmt_keeps (condition : BuildM String) (thenBlock : BuildM Unit)
    (elseBlock : Option (BuildM Unit)) (hc : KeepsLoops condition) (ht : KeepsLoops thenBlock)
    (he : ∀ x, elseBlock = some x → KeepsLoops x) :
    KeepsLoops (lowerIfStmt condition thenBlock elseBlock) := by
  unfold lowerIfStmt
  cases elseBlock with
  | none =>
    repeat' first
      | assumption
      | with_reducible exact keeps_pure _
      | with_reducible exact keeps_throw _
      | with_reducible exact keeps_get
      | with_reducible exact keeps_newTemp
      | with_reducible exact keeps_emit _
      | with_reducible exact keeps_newBlock _
      | with_reducible exact keeps_setCurrentBlock _
      | with_reducible exact keeps_hasTerminator
      | with_reducible exact keeps_varMapIndex _
      | with_reducible exact keeps_ptrTypeMapIndex _
      | with_reducible exact keeps_deref _ _
      | with_reducible exact keeps_firstArg _
      | with_reducible exact keeps_modify _ (fun _ => rfl)
      | with_reducible apply pushScope_keeps
      | with_reducible apply setPtrType_keeps
      | with_reducible apply setVar_keeps
      | with_reducible apply emitUnlessTerminated_keeps
      | with_reducible apply destroyVariable_keeps
      | with_reducible apply forgetVariable_keeps
      | with_reducible apply popVariable_keeps
      | with_reducible apply restoreShadowed_keeps
      | with_reducible apply popScope_keeps
      | with_reducible apply emitDestructor_keeps
      | with_reducible apply emitAllDestructors_keeps
      | with_reducible apply emitVariant_keeps
      | with_reducible apply finishCall_keeps
      | with_reducible apply lowerLiteralExpr_keeps
      | with_reducible apply lowerBinaryExpr_keeps
      | with_reducible apply lowerUnaryExpr_keeps
      | with_reducible apply lowerIdentifierExpr_keeps
      | with_reducible apply lowerMemberCall_keeps
      | with_reducible apply lowerCallExpr_keeps
      | with_reducible apply lowerMemberAccessExpr_keeps
      | with_reducible apply lowerVariantLiteral_keeps
      | with_reducible apply lowerStructLiteralExpr_keeps
      | with_reducible apply lowerArrayLiteralExpr_keeps
      | with_reducible apply lowerIndexingAddr_keeps
      | with_reducible apply lowerMemberAddr_keeps
      | with_reducible apply lowerIdentifierAddr_keeps
      | with_reducible apply lowerIndexingExpr_keeps
      | with_reducible apply lowerDereferenceExpr_keeps
      | with_reducible apply lowerQuestionExpr_keeps
      | with_reducible apply lowerIntrinsicExpr_keeps
      | with_reducible apply newFunction_keeps
      | with_reducible apply enterFunction_keeps
      | with_reducible apply pushVariable_keeps
      | with_reducible apply pushShadowed_keeps
      | with_reducible apply leaveFunction_keeps
      | with_reducible apply registerParamType_keeps
      | with_reducible apply lowerVarDecl_keeps
      | with_reducible apply lowerNext_keeps
      | with_reducible apply lowerBlock_keeps
      | with_reducible apply lowerBody_keeps
      | with_reducible apply lowerFunctionParam_keeps
      | with_reducible apply implicitReturn_keeps
      | with_reducible apply lowerMethodParam_keeps
      | with_reducible apply lowerFunctionDecl_keeps
      | with_reducible apply lowerMethodDecl_keeps
      | with_reducible apply lowerConstructorDecl_keeps
      | with_reducible apply lowerStructDecl_keeps
      | with_reducible apply lowerEnumDecl_keeps
      | with_reducible apply lowerClassDecl_keeps
      | with_reducible apply lowerReturnStmt_keeps
      | with_reducible apply keeps_bind
      | dsimp only
      | split
      | intro _
  | some x =>
    have hx := he x rfl
    repeat' first
      | assumption
      | with_reducible exact keeps_pure _
      | with_reducible exact keeps_throw _
      | with_reducible exact keeps_get
      | with_reducible exact keeps_newTemp
      | with_reducible exact keeps_emit _
      | with_reducible exact keeps_newBlock _
      | with_reducible exact keeps_setCurrentBlock _
      | with_reducible exact keeps_hasTerminator
      | with_reducible exact keeps_varMapIndex _
      | with_reducible exact keeps_ptrTypeMapIndex _
      | with_reducible exact keeps_deref _ _
      | with_reducible exact keeps_firstArg _
      | with_reducible exact keeps_modify _ (fun _ => rfl)
      | with_reducible apply pushScope_keeps
      | with_reducible apply setPtrType_keeps
      | with_reducible apply setVar_keeps
      | with_reducible apply emitUnlessTerminated_keeps
      | with_reducible apply destroyVariable_keeps
      | with_reducible apply forgetVariable_keeps
      | with_reducible apply popVariable_keeps
      | with_reducible apply restoreShadowed_keeps
      | with_reducible apply popScope_keeps
      | with_reducible apply emitDestructor_keeps
      | with_reducible apply emitAllDestructors_keeps
      | with_reducible apply emitVariant_keeps
      | with_reducible apply finishCall_keeps
      | with_reducible apply lowerLiteralExpr_keeps
      | with_reducible apply lowerBinaryExpr_keeps
      | with_reducible apply lowerUnaryExpr_keeps
      | with_reducible apply lowerIdentifierExpr_keeps
      | with_reducible apply lowerMemberCall_keeps
      | with_reducible apply lowerCallExpr_keeps
      | with_reducible apply lowerMemberAccessExpr_keeps
      | with_reducible apply lowerVariantLiteral_keeps
      | with_reducible apply lowerStructLiteralExpr_keeps
      | with_reducible apply lowerArrayLiteralExpr_keeps
      | with_reducible apply lowerIndexingAddr_keeps
      | with_reducible apply lowerMemberAddr_keeps
      | with_reducible apply lowerIdentifierAddr_keeps
      | with_reducible apply lowerIndexingExpr_keeps
      | with_reducible apply lowerDereferenceExpr_keeps
      | with_reducible apply lowerQuestionExpr_keeps
      | with_reducible apply lowerIntrinsicExpr_keeps
      | with_reducible apply newFunction_keeps
      | with_reducible apply enterFunction_keeps
      | with_reducible apply pushVariable_keeps
      | with_reducible apply pushShadowed_keeps
      | with_reducible apply leaveFunction_keeps
      | with_reducible apply registerParamType_keeps
      | with_reducible apply lowerVarDecl_keeps
      | with_reducible apply lowerNext_keeps
      | with_reducible apply lowerBlock_keeps
      | with_reducible apply lowerBody_keeps
      | with_reducible apply lowerFunctionParam_keeps
      | with_reducible apply implicitReturn_keeps
      | with_reducible apply lowerMethodParam_keeps
      | with_reducible apply lowerFunctionDecl_keeps
      | with_reducible apply lowerMethodDecl_keeps
      | with_reducible apply lowerConstructorDecl_keeps
      | with_reducible apply lowerStructDecl_keeps
      | with_reducible apply lowerEnumDecl_keeps
      | with_reducible apply lowerClassDecl_keeps
      | with_reducible apply lowerReturnStmt_keeps
      | with_reducible apply keeps_bind
      | dsimp only
      | split
      | intro _

theorem lowerCaseTest_keeps (condAddr : String) (condType : Option Ty) (pattern : Option Pattern)
    (isDefault : Bool) (bodyLabel nextCaseLabel : String) :
    KeepsLoops (lowerCaseTest condAddr condType pattern isDefault bodyLabel nextCaseLabel) := by
  unfold lowerCaseTest
  repeat' first
    | assumption
    | with_reducible exact keeps_pure _
    | with_reducible exact keeps_throw _
    | with_reducible exact keeps_get
    | with_reducible exact keeps_newTemp
    | with_reducible exact keeps_emit _
    | with_reducible exact keeps_newBlock _
    | with_reducible exact keeps_setCurrentBlock _
    | with_reducible exact keeps_hasTerminator
    | with_reducible exact keeps_varMapIndex _
    | with_reducible exact keeps_ptrTypeMapIndex _
    | with_reducible exact keeps_deref _ _
    | with_reducible exact keeps_firstArg _
    | with_reducible exact keeps_modify _ (fun _ => rfl)
    | with_reducible apply pushScope_keeps
    | with_reducible apply setPtrType_keeps
    | with_reducible apply setVar_keeps
    | with_reducible apply emitUnlessTerminated_keeps
    | with_reducible apply destroyVariable_keeps
    | with_reducible apply forgetVariable_keeps
    | with_reducible apply popVariable_keeps
    | with_reducible apply restoreShadowed_keeps
    | with_reducible apply popScope_keeps
    | with_reducible apply emitDestructor_keeps
    | with_reducible apply emitAllDestructors_keeps
    | with_reducible apply emitVariant_keeps
    | with_reducible apply finishCall_keeps
    | with_reducible apply lowerLiteralExpr_keeps
    | with_reducible apply lowerBinaryExpr_keeps
    | with_reducible apply lowerUnaryExpr_keeps
    | with_reducible apply lowerIdentifierExpr_keeps
    | with_reducible apply lowerMemberCall_keeps
    | with_reducible apply lowerCallExpr_keeps
    | with_reducible apply lowerMemberAccessExpr_keeps
    | with_reducible apply lowerVariantLiteral_keeps
    | with_reducible apply lowerStructLiteralExpr_keeps
    | with_reducible apply lowerArrayLiteralExpr_keeps
    | with_reducible apply lowerIndexingAddr_keeps
    | with_reducible apply lowerMemberAddr_keeps
    | with_reducible apply lowerIdentifierAddr_keeps
    | with_reducible apply lowerIndexingExpr_keeps
    | with_reducible apply lowerDereferenceExpr_keeps
    | with_reducible apply lowerQuestionExpr_keeps
    | with_reducible apply lowerIntrinsicExpr_keeps
    | with_reducible apply newFunction_keeps
    | with_reducible apply enterFunction_keeps
    | with_reducible apply pushVariable_keeps
    | with_reducible apply pushShadowed_keeps
    | with_reducible apply leaveFunction_keeps
    | with_reducible apply registerParamType_keeps
    | with_reducible apply lowerVarDecl_keeps
    | with_reducible apply lowerNext_keeps
    | with_reducible apply lowerBlock_keeps
    | with_reducible apply lowerBody_keeps
    | with_reducible apply lowerFunctionParam_keeps
    | with_reducible apply implicitReturn_keeps
    | with_reducible apply lowerMethodParam_keeps
    | with_reducible apply lowerFunctionDecl_keeps
    | with_reducible apply lowerMethodDecl_keeps
    | with_reducible apply lowerConstructorDecl_keeps
    | with_reducible apply lowerStructDecl_keeps
    | with_reducible apply lowerEnumDecl_keeps
    | with_reducible apply lowerClassDecl_keeps
    | with_reducible apply lowerReturnStmt_keeps
    | with_reducible apply lowerIfStmt_keeps
    | with_reducible apply keeps_bind
    | dsimp only
    | split
    | intro _

theorem lowerExprStmt_keeps (expression : BuildM String) (h : KeepsLoops expression) :
    KeepsLoops (lowerExprStmt expression) := by
  unfold lowerExprStmt
  repeat' first
    | assumption
    | with_reducible exact keeps_pure _
    | with_reducible exact keeps_throw _
    | with_reducible exact keeps_get
    | with_reducible exact keeps_newTemp
    | with_reducible exact keeps_emit _
    | with_reducible exact keeps_newBlock _
    | with_reducible exact keeps_setCurrentBlock _
    | with_reducible exact keeps_hasTerminator
    | with_reducible exact keeps_varMapIndex _
    | with_reducible exact keeps_ptrTypeMapIndex _
    | with_reducible exact keeps_deref _ _
    | with_reducible exact keeps_firstArg _
    | with_reducible exact keeps_modify _ (fun _ => rfl)
    | with_reducible apply pushScope_keeps
    | with_reducible apply setPtrType_keeps
    | with_reducible apply setVar_keeps
    | with_reducible apply emitUnlessTerminated_keeps
    | with_reducible apply destroyVariable_keeps
    | with_reducible apply forgetVariable_keeps
    | with_reducible apply popVariable_keeps
    | with_reducible apply restoreShadowed_keeps
    | with_reducible apply popScope_keeps
    | with_reducible apply emitDestructor_keeps
    | with_reducible apply emitAllDestructors_keeps
    | with_reducible apply emitVariant_keeps
    | with_reducible apply finishCall_keeps
    | with_reducible apply lowerLiteralExpr_keeps
    | with_reducible apply lowerBinaryExpr_keeps
    | with_reducible apply lowerUnaryExpr_keeps
    | with_reducible apply lowerIdentifierExpr_keeps
    | with_reducible apply lowerMemberCall_keeps
    | with_reducible apply lowerCallExpr_keeps
    | with_reducible apply lowerMemberAccessExpr_keeps
    | with_reducible apply lowerVariantLiteral_keeps
    | with_reducible apply lowerStructLiteralExpr_keeps
    | with_reducible apply lowerArrayLiteralExpr_keeps
    | with_reducible apply lowerIndexingAddr_keeps
    | with_reducible apply lowerMemberAddr_keeps
    | with_reducible apply lowerIdentifierAddr_keeps
    | with_reducible apply lowerIndexingExpr_keeps
    | with_reducible apply lowerDereferenceExpr_keeps
    | with_reducible apply lowerQuestionExpr_keeps
    | with_reducible apply lowerIntrinsicExpr_keeps
    | with_reducible apply newFunction_keeps
    | with_reducible apply enterFunction_keeps
    | with_reducible apply pushVariable_keeps
    | with_reducible apply pushShadowed_keeps
    | with_reducible apply leaveFunction_keeps
    | with_reducible apply registerParamType_keeps
    | with_reducible apply lowerVarDecl_keeps
    | with_reducible apply lowerNext_keeps
    | with_reducible apply lowerBlock_keeps
    | with_reducible apply lowerBody_keeps
    | with_reducible apply lowerFunctionParam_keeps
    | with_reducible apply implicitReturn_keeps
    | with_reducible apply lowerMethodParam_keeps
    | with_reducible apply lowerFunctionDecl_keeps
    | with_reducible apply lowerMethodDecl_keeps
    | with_reducible apply lowerConstructorDecl_keeps
    | with_reducible apply lowerStructDecl_keeps
    | with_reducible apply lowerEnumDecl_keeps
    | with_reducible apply lowerClassDecl_keeps
    | with_reducible apply lowerReturnStmt_keeps
    | with_reducible apply lowerIfStmt_keeps
    | with_reducible apply lowerCaseTest_keeps
    | with_reducible apply keeps_bind
    | dsimp only
    | split
    | intro _

end MIRBuilder
/-! ## The loop stack in loops and switches -/

set_option linter.unusedTactic false
set_option linter.unreachableTactic false

namespace MIRBuilder

theorem stacks_of_keeps {α : Type} {x : BuildM α} (h : KeepsLoops x) (ls : List LoopContext) :
    Stacks ls x ls :=
  fun s a s1 hx hs => (h s a s1 hx).trans hs

theorem stacks_bind {α β : Type} {x : BuildM α} {f : α → BuildM β} {a b c : List LoopContext}
    (hx : Stacks a x b) (hf : ∀ v, Stacks b (f v) c) : Stacks a (x >>= f) c := by
  intro s r s2 h hs
  obtain ⟨v, s1, h1, h2⟩ := build_bind_eq_ok.mp h
  exact hf v s1 r s2 h2 (hx s v s1 h1 hs)

theorem stacks_pushLoop (ls : List LoopContext) (ctx : LoopContext) :
    Stacks ls (pushLoop ctx) (ls ++ [ctx]) := by
  intro s a s1 h hs
  cases h
  show s.loopStack ++ [ctx] = ls ++ [ctx]
  rw [hs]

theorem stacks_popLoop (ls : List LoopContext) (ctx : LoopContext) :
    Stacks (ls ++ [ctx]) popLoop ls := by
  intro s a s1 h hs
  cases h
  show s.loopStack.dropLast = ls
  rw [hs, List.dropLast_concat]

theorem keeps_of_stacks {α : Type} {x : BuildM α} (h : ∀ ls, Stacks ls x ls) : KeepsLoops x :=
  fun s a s1 hx => h _ s a s1 hx rfl

theorem bindSubPatterns_keeps (condAddr : String) (enumTy : Ty) (variant : Option Variant)
    (patterns : List Pattern) :
    ∀ j, KeepsLoops (bindSubPatterns condAddr enumTy variant j patterns) := by
  induction patterns with
  | nil =>
    intro j
    exact keeps_pure _
  | cons p rest ih =>
    intro j
    have hrest := ih (j + 1)
    cases p with
    | identifier name =>
      rw [bindSubPatterns]
      repeat' first
        | assumption
        | with_reducible exact keeps_pure _
        | with_reducible exact keeps_throw _
        | with_reducible exact keeps_get
        | with_reducible exact keeps_newTemp
        | with_reducible exact keeps_emit _
        | with_reducible exact keeps_newBlock _
        | with_reducible exact keeps_setCurrentBlock _
        | with_reducible exact keeps_hasTerminator
        | with_reducible exact keeps_deref _ _
        | with_reducible exact setVar_keeps _ _
        | with_reducible exact emitUnlessTerminated_keeps _
        | with_reducible exact lowerCaseTest_keeps _ _ _ _ _ _
        | with_reducible exact lowerCaseBindings_keeps _ _ _ _
        | with_reducible apply keeps_bind
        | dsimp only
        | split
        | intro _
    | wildcard =>
      rw [bindSubPatterns]
      · exact hrest
      · intro name h
        cases h
    | literal lit =>
      rw [bindSubPatterns]
      · exact hrest
      · intro name h
        cases h
    | variant e v subs =>
      rw [bindSubPatterns]
      · exact hrest
      · intro name h
        cases h

theorem lowerCaseBindings_keeps (condAddr : String) (condType : Option Ty)
    (pattern : Option Pattern) (isDefault : Bool) :
    KeepsLoops (lowerCaseBindings condAddr condType pattern isDefault) := by
  unfold lowerCaseBindings
  repeat' first
    | assumption
    | with_reducible exact keeps_pure _
    | with_reducible exact keeps_throw _
    | with_reducible exact keeps_get
    | with_reducible exact keeps_newTemp
    | with_reducible exact keeps_emit _
    | with_reducible exact keeps_newBlock _
    | with_reducible exact keeps_setCurrentBlock _
    | with_reducible exact keeps_hasTerminator
    | with_reducible exact keeps_deref _ _
    | with_reducible exact setVar_keeps _ _
    | with_reducible exact emitUnlessTerminated_keeps _
    | with_reducible exact lowerCaseTest_keeps _ _ _ _ _ _
      | with_reducible exact bindSubPatterns_keeps _ _ _ _ _
    | with_reducible apply keeps_bind
    | dsimp only
    | split
    | intro _

theorem lowerCases_keeps (condAddr : String) (condType : Option Ty) (endBB : BlockPtr)
    (cases : List LoweredCase) (hb : ∀ c ∈ cases, KeepsLoops c.body) :
    KeepsLoops (lowerCases condAddr condType endBB cases) := by
  induction cases with
  | nil =>
    rw [lowerCases]
    exact keeps_pure _
  | cons c rest ih =>
    have hbody : KeepsLoops c.body := hb c (List.mem_cons_self _ _)
    have hrest := ih (fun c1 h1 => hb c1 (List.mem_cons_of_mem _ h1))
    rw [lowerCases]
    repeat' first
      | assumption
      | with_reducible exact keeps_pure _
      | with_reducible exact keeps_throw _
      | with_reducible exact keeps_get
      | with_reducible exact keeps_newTemp
      | with_reducible exact keeps_emit _
      | with_reducible exact keeps_newBlock _
      | with_reducible exact keeps_setCurrentBlock _
      | with_reducible exact keeps_hasTerminator
      | with_reducible exact keeps_deref _ _
      | with_reducible exact setVar_keeps _ _
      | with_reducible exact emitUnlessTerminated_keeps _
      | with_reducible exact lowerCaseTest_keeps _ _ _ _ _ _
      | with_reducible exact lowerCaseBindings_keeps _ _ _ _
      | with_reducible apply keeps_bind
      | dsimp only
      | split
      | intro _

theorem lowerWhileStmt_keeps (condition : BuildM String) (body : BuildM Unit)
    (hc : KeepsLoops condition) (hb : KeepsLoops body) :
    KeepsLoops (lowerWhileStmt condition body) := by
  refine keeps_of_stacks (fun ls => ?_)
  unfold lowerWhileStmt
  repeat' first
    | with_reducible exact stacks_pushLoop _ _
    | with_reducible exact stacks_popLoop _ _
    | with_reducible exact stacks_of_keeps hc _
    | with_reducible exact stacks_of_keeps hb _
    | with_reducible exact stacks_of_keeps (keeps_pure _) _
    | with_reducible exact stacks_of_keeps (keeps_newBlock _) _
    | with_reducible exact stacks_of_keeps (keeps_emit _) _
    | with_reducible exact stacks_of_keeps (keeps_setCurrentBlock _) _
    | with_reducible exact stacks_of_keeps (emitUnlessTerminated_keeps _) _
    | with_reducible apply stacks_bind
    | dsimp only
    | intro _

theorem lowerDoWhileStmt_keeps (body : BuildM Unit) (condition : BuildM String)
    (hb : KeepsLoops body) (hc : KeepsLoops condition) :
    KeepsLoops (lowerDoWhileStmt body condition) := by
  refine keeps_of_stacks (fun ls => ?_)
  unfold lowerDoWhileStmt
  repeat' first
    | with_reducible exact stacks_pushLoop _ _
    | with_reducible exact stacks_popLoop _ _
    | with_reducible exact stacks_of_keeps hc _
    | with_reducible exact stacks_of_keeps hb _
    | with_reducible exact stacks_of_keeps (keeps_pure _) _
    | with_reducible exact stacks_of_keeps (keeps_newBlock _) _
    | with_reducible exact stacks_of_keeps (keeps_emit _) _
    | with_reducible exact stacks_of_keeps (keeps_setCurrentBlock _) _
    | with_reducible exact stacks_of_keeps (emitUnlessTerminated_keeps _) _
    | with_reducible apply stacks_bind
    | dsimp only
    | intro _

theorem lowerForStmt_keeps (init : Option (BuildM Unit)) (condition step : Option (BuildM String))
    (body : BuildM Unit) (hi : ∀ x, init = some x → KeepsLoops x)
    (hc : ∀ x, condition = some x → KeepsLoops x) (hs : ∀ x, step = some x → KeepsLoops x)
    (hb : KeepsLoops body) : KeepsLoops (lowerForStmt init condition step body) := by
  refine keeps_of_stacks (fun ls => ?_)
  unfold lowerForStmt
  cases init <;> cases condition <;> cases step <;>
    repeat' first
      | with_reducible exact stacks_pushLoop _ _
      | with_reducible exact stacks_popLoop _ _
      | with_reducible exact stacks_of_keeps (hi _ rfl) _
      | with_reducible exact stacks_of_keeps (hc _ rfl) _
      | with_reducible exact stacks_of_keeps (hs _ rfl) _
      | with_reducible exact stacks_of_keeps hb _
      | with_reducible exact stacks_of_keeps (keeps_pure _) _
      | with_reducible exact stacks_of_keeps (keeps_newBlock _) _
      | with_reducible exact stacks_of_keeps (keeps_emit _) _
      | with_reducible exact stacks_of_keeps (keeps_setCurrentBlock _) _
      | with_reducible exact stacks_of_keeps (emitUnlessTerminated_keeps _) _
      | with_reducible apply stacks_bind
      | dsimp only
      | intro _

theorem lowerSwitchStmt_keeps (condAddr : BuildM String) (condType : Option Ty)
    (cases : List LoweredCase) (ha : KeepsLoops condAddr)
    (hb : ∀ c ∈ cases, KeepsLoops c.body) :
    KeepsLoops (lowerSwitchStmt condAddr condType cases) := by
  refine keeps_of_stacks (fun ls => ?_)
  unfold lowerSwitchStmt
  repeat' first
    | with_reducible exact stacks_pushLoop _ _
    | with_reducible exact stacks_popLoop _ _
    | with_reducible exact stacks_of_keeps ha _
    | with_reducible exact stacks_of_keeps (lowerCases_keeps _ _ _ _ hb) _
    | with_reducible exact stacks_of_keeps (keeps_pure _) _
    | with_reducible exact stacks_of_keeps (keeps_newBlock _) _
    | with_reducible exact stacks_of_keeps (keeps_emit _) _
    | with_reducible exact stacks_of_keeps (keeps_setCurrentBlock _) _
    | with_reducible exact stacks_of_keeps (emitUnlessTerminated_keeps _) _
    | with_reducible apply stacks_bind
    | dsimp only
    | intro _

theorem lowerBreakStmt_keeps : KeepsLoops lowerBreakStmt := by
  unfold lowerBreakStmt
  repeat' first
    | assumption
    | with_reducible exact keeps_pure _
    | with_reducible exact keeps_throw _
    | with_reducible exact keeps_get
    | with_reducible exact keeps_newTemp
    | with_reducible exact keeps_emit _
    | with_reducible exact keeps_newBlock _
    | with_reducible exact keeps_setCurrentBlock _
    | with_reducible exact keeps_hasTerminator
    | with_reducible exact keeps_deref _ _
    | with_reducible exact setVar_keeps _ _
    | with_reducible exact emitUnlessTerminated_keeps _
    | with_reducible exact lowerCaseTest_keeps _ _ _ _ _ _
    | with_reducible exact lowerCaseBindings_keeps _ _ _ _
    | with_reducible apply keeps_bind
    | dsimp only
    | split
    | intro _

theorem lowerContinueStmt_keeps : KeepsLoops lowerContinueStmt := by
  unfold lowerContinueStmt
  repeat' first
    | assumption
    | with_reducible exact keeps_pure _
    | with_reducible exact keeps_throw _
    | with_reducible exact keeps_get
    | with_reducible exact keeps_newTemp
    | with_reducible exact keeps_emit _
    | with_reducible exact keeps_newBlock _
    | with_reducible exact keeps_setCurrentBlock _
    | with_reducible exact keeps_hasTerminator
    | with_reducible exact keeps_deref _ _
    | with_reducible exact setVar_keeps _ _
    | with_reducible exact emitUnlessTerminated_keeps _
    | with_reducible exact lowerCaseTest_keeps _ _ _ _ _ _
    | with_reducible exact lowerCaseBindings_keeps _ _ _ _
    | with_reducible apply keeps_bind
    | dsimp only
    | split
    | intro _

theorem keeps_map {α : Type} (f : α → BuildM String) (h : ∀ a, KeepsLoops (f a))
    (o : Option α) : ∀ x, o.map f = some x → KeepsLoops x := by
  intro x hx
  cases o with
  | none => cases hx
  | some a =>
    cases hx
    exact h a

mutual
theorem lower_keeps : ∀ st : Stmt, KeepsLoops (lower st)
  | .varDecl d => by
    rw [lower]
    exact lowerVarDecl_keeps d _ (keeps_map _ lowerExpr_keeps _)
  | .structDecl d => by
    rw [lower]
    split
    · exact lowerStructDecl_keeps d
    · exact keeps_pure _
  | .enumDecl d => by
    rw [lower]
    split
    · exact lowerEnumDecl_keeps d
    · exact keeps_pure _
  | .classDecl d => by
    rw [lower]
    split
    · exact lowerClassDecl_keeps d _ (lowerClassMembers_keeps d)
    · exact keeps_pure _
  | .block statements => by
    rw [lower]
    exact lowerBlock_keeps _ true (lowerStatements_keeps statements)
  | .functionDecl d => by
    rw [lower]
    split
    · exact lowerFunctionDecl_keeps d _ (lowerFunctionBody_keeps d)
    · exact keeps_pure _
  | .returnStmt expression => by
    rw [lower]
    exact lowerReturnStmt_keeps _ (keeps_map _ lowerExpr_keeps _)
  | .ifStmt condition thenBlock elseBlock => by
    rw [lower]
    exact lowerIfStmt_keeps _ _ _ (lowerExpr_keeps condition)
      (lowerBlock_keeps _ true (lowerStatements_keeps thenBlock)) (lowerOptBlock_keeps elseBlock)
  | .whileStmt condition body => by
    rw [lower]
    exact lowerWhileStmt_keeps _ _ (lowerExpr_keeps condition)
      (lowerBlock_keeps _ true (lowerStatements_keeps body))
  | .doWhileStmt body condition => by
    rw [lower]
    exact lowerDoWhileStmt_keeps _ _ (lowerBlock_keeps _ true (lowerStatements_keeps body))
      (lowerExpr_keeps condition)
  | .forStmt init condition step body => by
    rw [lower]
    exact lowerForStmt_keeps _ _ _ _ (lowerOpt_keeps init) (keeps_map _ lowerExpr_keeps _)
      (keeps_map _ lowerExpr_keeps _) (lowerBlock_keeps _ true (lowerStatements_keeps body))
  | .switchStmt condition cases => by
    rw [lower]
    exact lowerSwitchStmt_keeps _ _ _ (lowerAddr_keeps condition) (lowerCaseBodies_keeps cases)
  | .breakStmt => by
    rw [lower]
    exact lowerBreakStmt_keeps
  | .continueStmt => by
    rw [lower]
    exact lowerContinueStmt_keeps
  | .exprStmt expression => by
    rw [lower]
    exact lowerExprStmt_keeps _ (lowerExpr_keeps expression)
  | .requestDecl _ => by
    rw [lower]
    exact keeps_pure _
theorem lowerStatements_keeps : ∀ sts : List Stmt, KeepsLoops (lowerStatements sts)
  | [] => by
    rw [lowerStatements]
    exact keeps_pure _
  | stmt :: rest => by
    rw [lowerStatements]
    exact lowerNext_keeps _ _ (lower_keeps stmt) (lowerStatements_keeps rest)
theorem lowerOptBlock_keeps : ∀ b : Option (List Stmt),
    ∀ x, lowerOptBlock b = some x → KeepsLoops x
  | none => by
    rw [lowerOptBlock]
    intro x hx
    cases hx
  | some statements => by
    rw [lowerOptBlock]
    intro x hx
    cases hx
    exact lowerBlock_keeps _ true (lowerStatements_keeps statements)
theorem lowerOpt_keeps : ∀ st : Option Stmt, ∀ x, lowerOpt st = some x → KeepsLoops x
  | none => by
    rw [lowerOpt]
    intro x hx
    cases hx
  | some stmt => by
    rw [lowerOpt]
    intro x hx
    cases hx
    exact lower_keeps stmt
theorem lowerCaseBodies_keeps : ∀ cs : List CaseStmt,
    ∀ c ∈ lowerCaseBodies cs, KeepsLoops c.body
  | [] => by
    rw [lowerCaseBodies]
    intro c hc
    cases hc
  | ⟨pattern, body, isDefault⟩ :: rest => by
    rw [lowerCaseBodies]
    intro c hc
    rcases List.mem_cons.1 hc with e | h1
    · subst e
      exact lowerBlock_keeps _ true (lowerStatements_keeps body)
    · exact lowerCaseBodies_keeps rest c h1
theorem lowerFunctionBody_keeps : ∀ d : FunctionDecl,
    ∀ x, lowerFunctionBody d = some x → KeepsLoops x
  | ⟨_, _, _, none, _, _, _, _⟩ => by
    rw [lowerFunctionBody]
    intro x hx
    cases hx
  | ⟨_, _, _, some statements, _, _, _, _⟩ => by
    rw [lowerFunctionBody]
    intro x hx
    cases hx
    exact lowerBlock_keeps _ false (lowerStatements_keeps statements)
theorem lowerMembers_keeps (className : String) : ∀ members : List ClassMember,
    KeepsLoops (lowerMembers className members)
  | [] => by
    rw [lowerMembers]
    exact keeps_pure _
  | .field _ :: rest => by
    rw [lowerMembers]
    exact lowerMembers_keeps className rest
  | .method ⟨n, r, ps, body, a, b⟩ :: rest => by
    rw [lowerMembers]
    refine keeps_bind (lowerMethodDecl_keeps _ className _ ?_)
      (fun _ => lowerMembers_keeps className rest)
    rw [lowerMethodBody]
    exact lowerOptBlock_keeps body
  | .ctor ⟨n, ps, body, a⟩ :: rest => by
    rw [lowerMembers]
    refine keeps_bind (lowerConstructorDecl_keeps _ className _ ?_)
      (fun _ => lowerMembers_keeps className rest)
    rw [lowerConstructorBody]
    exact lowerOptBlock_keeps body
theorem lowerClassMembers_keeps : ∀ d : ClassDecl, KeepsLoops (lowerClassMembers d)
  | ⟨name, members, _, _, _⟩ => by
    rw [lowerClassMembers]
    exact lowerMembers_keeps name members
end

end MIRBuilder
/-! ## The targets of `break` and `continue` -/

namespace MIRBuilder

theorem peelKeeps {α β : Type} {x : BuildM α} {f : α → BuildM β} {s s2 : MIRBuilder} {b : β}
    {ls : List LoopContext} (h : (x >>= f) s = .ok (b, s2)) (hs : s.loopStack = ls)
    (hk : KeepsLoops x) :
    ∃ a s1, x s = .ok (a, s1) ∧ s1.loopStack = ls ∧ f a s1 = .ok (b, s2) := by
  obtain ⟨a, s1, h1, h2⟩ := build_bind_eq_ok.mp h
  exact ⟨a, s1, h1, (hk s a s1 h1).trans hs, h2⟩

theorem peelPush {β : Type} {ctx : LoopContext} {f : Unit → BuildM β} {s s2 : MIRBuilder}
    {b : β} {ls : List LoopContext} (h : (pushLoop ctx >>= f) s = .ok (b, s2))
    (hs : s.loopStack = ls) :
    ∃ s1, s1.loopStack = ls ++ [ctx] ∧ f () s1 = .ok (b, s2) := by
  obtain ⟨a, s1, h1, h2⟩ := build_bind_eq_ok.mp h
  exact ⟨s1, stacks_pushLoop ls ctx s a s1 h1 hs, h2⟩

theorem setCurrentBlock_current (p : BlockPtr) (s s1 : MIRBuilder)
    (h : setCurrentBlock p s = .ok ((), s1)) : s1.currentBlock = some p.index := by
  cases h
  rfl

theorem keeps_optional (init : Option (BuildM Unit)) (h : ∀ x, init = some x → KeepsLoops x) :
    KeepsLoops (match init with
      | some lowerInit => lowerInit
      | none => pure ()) := by
  cases init with
  | none => exact keeps_pure _
  | some x => exact h x rfl

theorem lowerBreakStmt_back (s : MIRBuilder) (ctx : LoopContext)
    (h : s.loopStack.getLast? = some ctx) : lowerBreakStmt s = emit (.Br ctx.breakLabel) s := by
  unfold lowerBreakStmt
  rw [build_bind_ok (show (get : BuildM MIRBuilder) s = .ok (s, s) from rfl)]
  simp only [h]

theorem lowerContinueStmt_back (s : MIRBuilder) (ctx : LoopContext)
    (h : s.loopStack.getLast? = some ctx) :
    lowerContinueStmt s =
      if ctx.continueLabel.isEmpty then .error "Continue outside of loop context"
      else emit (.Br ctx.continueLabel) s := by
  unfold lowerContinueStmt
  rw [build_bind_ok (show (get : BuildM MIRBuilder) s = .ok (s, s) from rfl)]
  simp only [h]
  split <;> rfl

theorem lowerWhileStmt_body (condition : BuildM String) (body : BuildM Unit)
    (hc : KeepsLoops condition) (s s1 : MIRBuilder)
    (h : lowerWhileStmt condition body s = .ok ((), s1)) :
    ∃ condBB bodyBB mergeBB sa sb sc, newBlock "while.cond" s = .ok (condBB, sa)
      ∧ newBlock "while.body" sa = .ok (bodyBB, sb)
      ∧ newBlock "while.merge" sb = .ok (mergeBB, sc)
      ∧ ∃ s0 v s01 s2 s3, condition s0 = .ok (v, s01)
        ∧ s0.currentBlock = some condBB.index
        ∧ body s2 = .ok ((), s3)
        ∧ s2.loopStack = s.loopStack ++ [⟨mergeBB.name, condBB.name⟩]
        ∧ s1.currentBlock = some mergeBB.index := by
  unfold lowerWhileStmt at h
  have hs : s.loopStack = s.loopStack := rfl
  obtain ⟨condBB, sa, h1, hs, h⟩ := peelKeeps h hs (keeps_newBlock _)
  obtain ⟨bodyBB, sb, h2, hs, h⟩ := peelKeeps h hs (keeps_newBlock _)
  obtain ⟨mergeBB, sc, h3, hs, h⟩ := peelKeeps h hs (keeps_newBlock _)
  obtain ⟨_, sd, _, hs, h⟩ := peelKeeps h hs (keeps_emit _)
  obtain ⟨se, hs, h⟩ := peelPush h hs
  obtain ⟨_, s0, h6, hs, h⟩ := peelKeeps h hs (keeps_setCurrentBlock _)
  obtain ⟨v, s01, h7, hs, h⟩ := peelKeeps h hs hc
  obtain ⟨_, sf, _, hs, h⟩ := peelKeeps h hs (keeps_emit _)
  obtain ⟨_, s2, _, hs, h⟩ := peelKeeps h hs (keeps_setCurrentBlock _)
  obtain ⟨_, s3, h10, h⟩ := build_bind_eq_ok.mp h
  obtain ⟨_, sg, _, h⟩ := build_bind_eq_ok.mp h
  obtain ⟨_, sh, _, h⟩ := build_bind_eq_ok.mp h
  exact ⟨condBB, bodyBB, mergeBB, sa, sb, sc, h1, h2, h3, s0, v, s01, s2, s3, h7,
    setCurrentBlock_current _ _ _ h6, h10, hs, setCurrentBlock_current _ _ _ h⟩

theorem lowerDoWhileStmt_body (body : BuildM Unit) (condition : BuildM String)
    (s s1 : MIRBuilder) (h : lowerDoWhileStmt body condition s = .ok ((), s1)) :
    ∃ bodyBB condBB mergeBB sa sb sc, newBlock "do.body" s = .ok (bodyBB, sa)
      ∧ newBlock "do.cond" sa = .ok (condBB, sb)
      ∧ newBlock "do.merge" sb = .ok (mergeBB, sc)
      ∧ ∃ s0 v s01 s2 s3, condition s0 = .ok (v, s01)
        ∧ s0.currentBlock = some condBB.index
        ∧ body s2 = .ok ((), s3)
        ∧ s2.loopStack = s.loopStack ++ [⟨mergeBB.name, condBB.name⟩]
        ∧ s1.currentBlock = some mergeBB.index := by
  unfold lowerDoWhileStmt at h
  have hs : s.loopStack = s.loopStack := rfl
  obtain ⟨bodyBB, sa, h1, hs, h⟩ := peelKeeps h hs (keeps_newBlock _)
  obtain ⟨condBB, sb, h2, hs, h⟩ := peelKeeps h hs (keeps_newBlock _)
  obtain ⟨mergeBB, sc, h3, hs, h⟩ := peelKeeps h hs (keeps_newBlock _)
  obtain ⟨_, sd, _, hs, h⟩ := peelKeeps h hs (keeps_emit _)
  obtain ⟨se, hs, h⟩ := peelPush h hs
  obtain ⟨_, s2, _, hs, h⟩ := peelKeeps h hs (keeps_setCurrentBlock _)
  obtain ⟨_, s3, h10, h⟩ := build_bind_eq_ok.mp h
  obtain ⟨_, sg, _, h⟩ := build_bind_eq_ok.mp h
  obtain ⟨_, s0, h6, h⟩ := build_bind_eq_ok.mp h
  obtain ⟨v, s01, h7, h⟩ := build_bind_eq_ok.mp h
  obtain ⟨_, sf, _, h⟩ := build_bind_eq_ok.mp h
  obtain ⟨_, sh, _, h⟩ := build_bind_eq_ok.mp h
  exact ⟨bodyBB, condBB, mergeBB, sa, sb, sc, h1, h2, h3, s0, v, s01, s2, s3, h7,
    setCurrentBlock_current _ _ _ h6, h10, hs, setCurrentBlock_current _ _ _ h⟩

theorem lowerForStmt_body (init : Option (BuildM Unit)) (condition step : Option (BuildM String))
    (body : BuildM Unit) (hi : ∀ x, init = some x → KeepsLoops x)
    (hc : ∀ x, condition = some x → KeepsLoops x) (s s1 : MIRBuilder)
    (h : lowerForStmt init condition step body s = .ok ((), s1)) :
    ∃ condBB bodyBB stepBB mergeBB sa sb sc sd, newBlock "for.cond" s = .ok (condBB, sa)
      ∧ newBlock "for.body" sa = .ok (bodyBB, sb)
      ∧ newBlock "for.step" sb = .ok (stepBB, sc)
      ∧ newBlock "for.merge" sc = .ok (mergeBB, sd)
      ∧ (∀ lowerStep, step = some lowerStep →
          ∃ s0 v s01, lowerStep s0 = .ok (v, s01) ∧ s0.currentBlock = some stepBB.index)
      ∧ ∃ s2 s3, body s2 = .ok ((), s3)
        ∧ s2.loopStack = s.loopStack ++ [⟨mergeBB.name, stepBB.name⟩]
        ∧ s1.currentBlock = some mergeBB.index := by
  unfold lowerForStmt at h
  have hs : s.loopStack = s.loopStack := rfl
  obtain ⟨condBB, sa, h1, hs, h⟩ := peelKeeps h hs (keeps_newBlock _)
  obtain ⟨bodyBB, sb, h2, hs, h⟩ := peelKeeps h hs (keeps_newBlock _)
  obtain ⟨stepBB, sc, h3, hs, h⟩ := peelKeeps h hs (keeps_newBlock _)
  obtain ⟨mergeBB, sd, h4, hs, h⟩ := peelKeeps h hs (keeps_newBlock _)
  obtain ⟨_, se, _, hs, h⟩ := peelKeeps h hs (keeps_optional init hi)
  obtain ⟨_, sf, _, hs, h⟩ := peelKeeps h hs (keeps_emit _)
  obtain ⟨sg, hs, h⟩ := peelPush h hs
  obtain ⟨_, sh, _, hs, h⟩ := peelKeeps h hs (keeps_setCurrentBlock _)
  obtain ⟨_, si, _, hs, h⟩ := peelKeeps h hs (by
    cases condition with
    | none => exact keeps_emit _
    | some x => exact keeps_bind (hc x rfl) (fun _ => keeps_emit _))
  obtain ⟨_, s2, _, hs, h⟩ := peelKeeps h hs (keeps_setCurrentBlock _)
  obtain ⟨_, s3, h10, h⟩ := build_bind_eq_ok.mp h
  obtain ⟨_, sj, _, h⟩ := build_bind_eq_ok.mp h
  obtain ⟨_, s0, h6, h⟩ := build_bind_eq_ok.mp h
  obtain ⟨_, sk, h7, h⟩ := build_bind_eq_ok.mp h
  obtain ⟨_, sl, _, h⟩ := build_bind_eq_ok.mp h
  obtain ⟨_, sm, _, h⟩ := build_bind_eq_ok.mp h
  refine ⟨condBB, bodyBB, stepBB, mergeBB, sa, sb, sc, sd, h1, h2, h3, h4, ?_, s2, s3, h10, hs,
    setCurrentBlock_current _ _ _ h⟩
  intro lowerStep hstep
  subst hstep
  obtain ⟨v, s01, h8, _⟩ := build_bind_eq_ok.mp h7
  exact ⟨s0, v, s01, h8, setCurrentBlock_current _ _ _ h6⟩

theorem lowerCases_step (condAddr : String) (condType : Option Ty) (endBB : BlockPtr)
    (c : LoweredCase) (rest : List LoweredCase) (s s1 : MIRBuilder)
    (h : lowerCases condAddr condType endBB (c :: rest) s = .ok ((), s1)) :
    ∃ s2 s3 s4, c.body s2 = .ok ((), s3) ∧ s2.loopStack = s.loopStack
      ∧ s4.loopStack = s3.loopStack
      ∧ lowerCases condAddr condType endBB rest s4 = .ok ((), s1) := by
  have hs : s.loopStack = s.loopStack := rfl
  cases rest with
  | nil =>
    unfold lowerCases at h
    simp only [pure_bind] at h
    obtain ⟨bodyBB, sa, _, hs, h⟩ := peelKeeps h hs (keeps_newBlock _)
    obtain ⟨_, sc, _, hs, h⟩ := peelKeeps h hs (lowerCaseTest_keeps _ _ _ _ _ _)
    obtain ⟨_, sd, _, hs, h⟩ := peelKeeps h hs (keeps_setCurrentBlock _)
    obtain ⟨_, s2, _, hs, h⟩ := peelKeeps h hs (lowerCaseBindings_keeps _ _ _ _)
    obtain ⟨_, s3, h10, h⟩ := build_bind_eq_ok.mp h
    obtain ⟨_, sg, h11, h⟩ := build_bind_eq_ok.mp h
    exact ⟨s2, s3, sg, h10, hs, emitUnlessTerminated_keeps _ _ _ _ h11, h⟩
  | cons c2 rest2 =>
    unfold lowerCases at h
    simp only [bind_assoc, pure_bind] at h
    obtain ⟨bodyBB, sa, _, hs, h⟩ := peelKeeps h hs (keeps_newBlock _)
    obtain ⟨nextBB, sb, _, hs, h⟩ := peelKeeps h hs (keeps_newBlock _)
    obtain ⟨_, sc, _, hs, h⟩ := peelKeeps h hs (lowerCaseTest_keeps _ _ _ _ _ _)
    obtain ⟨_, sd, _, hs, h⟩ := peelKeeps h hs (keeps_setCurrentBlock _)
    obtain ⟨_, s2, _, hs, h⟩ := peelKeeps h hs (lowerCaseBindings_keeps _ _ _ _)
    obtain ⟨_, s3, h10, h⟩ := build_bind_eq_ok.mp h
    obtain ⟨_, sg, h11, h⟩ := build_bind_eq_ok.mp h
    obtain ⟨_, sh, h12, h⟩ := build_bind_eq_ok.mp h
    exact ⟨s2, s3, sh, h10, hs,
      (keeps_setCurrentBlock _ _ _ _ h12).trans (emitUnlessTerminated_keeps _ _ _ _ h11), h⟩

theorem lowerCases_body (condAddr : String) (condType : Option Ty) (endBB : BlockPtr)
    (c : LoweredCase) (post : List LoweredCase) :
    ∀ (pre : List LoweredCase) (s s1 : MIRBuilder), (∀ p ∈ pre, KeepsLoops p.body) →
      lowerCases condAddr condType endBB (pre ++ c :: post) s = .ok ((), s1) →
      ∃ s2 s3, c.body s2 = .ok ((), s3) ∧ s2.loopStack = s.loopStack
  | [], s, s1, _, h => by
    rw [List.nil_append] at h
    obtain ⟨s2, s3, _, hb, hs, _, _⟩ := lowerCases_step _ _ _ _ _ _ _ h
    exact ⟨s2, s3, hb, hs⟩
  | p :: pre, s, s1, hp, h => by
    rw [List.cons_append] at h
    obtain ⟨s2, s3, s4, hb, hs, hs4, h4⟩ := lowerCases_step _ _ _ _ _ _ _ h
    obtain ⟨s5, s6, hb5, e⟩ := lowerCases_body condAddr condType endBB c post pre s4 s1
      (fun q hq => hp q (List.mem_cons_of_mem _ hq)) h4
    exact ⟨s5, s6, hb5, e.trans (hs4.trans ((hp p (List.mem_cons_self _ _) _ _ _ hb).trans hs))⟩

theorem lowerSwitchStmt_body (condAddr : BuildM String) (condType : Option Ty)
    (pre : List LoweredCase) (c : LoweredCase) (post : List LoweredCase)
    (ha : KeepsLoops condAddr) (hp : ∀ p ∈ pre, KeepsLoops p.body) (s s1 : MIRBuilder)
    (h : lowerSwitchStmt condAddr condType (pre ++ c :: post) s = .ok ((), s1)) :
    ∃ addr sa endBB sb, condAddr s = .ok (addr, sa)
      ∧ newBlock "switch.end" sa = .ok (endBB, sb)
      ∧ ∃ s2 s3, c.body s2 = .ok ((), s3)
        ∧ s2.loopStack = s.loopStack ++ [⟨endBB.name, ""⟩]
        ∧ s1.currentBlock = some endBB.index := by
  unfold lowerSwitchStmt at h
  have hs : s.loopStack = s.loopStack := rfl
  obtain ⟨addr, sa, h1, hs, h⟩ := peelKeeps h hs ha
  obtain ⟨endBB, sb, h2, hs, h⟩ := peelKeeps h hs (keeps_newBlock _)
  obtain ⟨sc, hs, h⟩ := peelPush h hs
  obtain ⟨_, sd, h3, h⟩ := build_bind_eq_ok.mp h
  obtain ⟨_, se, h4, h⟩ := build_bind_eq_ok.mp h
  obtain ⟨s2, s3, hb, e⟩ := lowerCases_body addr condType endBB c post pre sc sd hp h3
  have hcur : se.currentBlock = some endBB.index := setCurrentBlock_current endBB sd se h4
  refine ⟨addr, sa, endBB, sb, h1, h2, s2, s3, hb, e.trans hs, ?_⟩
  cases h
  exact hcur

/-- C34: `break` and `continue` are lowered from the record at the back of the loop stack:
with a current block, `break` appends a branch to the break label of that record, and
`continue` appends a branch to its continue label, or throws when that label is empty.
The lowering of every statement leaves the loop stack as it found it, so the record at the
back while a body is lowered is the one of the innermost construct around it. A `while`
and a `do`-`while` loop lower the body under a new record of the names of the merge block
and of the condition block, a `for` loop under a record of the names of the merge block and
of the step block, and a switch lowers the body of each case under a record of the name of
its end block and the empty continue label. The condition (the step) is lowered with the
condition block (the step block) current, and the merge block (the end block) is current
after the construct. -/
theorem exits_use_record_of_innermost_construct :
    (∀ (s : MIRBuilder) (ctx : LoopContext) (k : Nat) (b : BasicBlock),
      s.loopStack.getLast? = some ctx → s.currentBlock = some k → s.blockStore[k]? = some b →
      lower .breakStmt s = .ok ((), s.appendTo k [.Br ctx.breakLabel])
        ∧ lower .continueStmt s =
          if ctx.continueLabel.isEmpty then .error "Continue outside of loop context"
          else .ok ((), s.appendTo k [.Br ctx.continueLabel]))
    ∧ (∀ st : Stmt, KeepsLoops (lower st))
    ∧ (∀ (condition : Expr) (statements : List Stmt) (body : BuildM Unit) (s s1 : MIRBuilder),
        lower (.whileStmt condition statements)
            = lowerWhileStmt (lowerExpr condition) (lowerBlock (lowerStatements statements) true)
          ∧ (lowerWhileStmt (lowerExpr condition) body s = .ok ((), s1) →
            ∃ condBB bodyBB mergeBB sa sb sc, newBlock "while.cond" s = .ok (condBB, sa)
              ∧ newBlock "while.body" sa = .ok (bodyBB, sb)
              ∧ newBlock "while.merge" sb = .ok (mergeBB, sc)
              ∧ ∃ s0 v s01 s2 s3, lowerExpr condition s0 = .ok (v, s01)
                ∧ s0.currentBlock = some condBB.index
                ∧ body s2 = .ok ((), s3)
                ∧ s2.loopStack = s.loopStack ++ [⟨mergeBB.name, condBB.name⟩]
                ∧ s1.currentBlock = some mergeBB.index))
    ∧ (∀ (statements : List Stmt) (condition : Expr) (body : BuildM Unit) (s s1 : MIRBuilder),
        lower (.doWhileStmt statements condition)
            = lowerDoWhileStmt (lowerBlock (lowerStatements statements) true)
              (lowerExpr condition)
          ∧ (lowerDoWhileStmt body (lowerExpr condition) s = .ok ((), s1) →
            ∃ bodyBB condBB mergeBB sa sb sc, newBlock "do.body" s = .ok (bodyBB, sa)
              ∧ newBlock "do.cond" sa = .ok (condBB, sb)
              ∧ newBlock "do.merge" sb = .ok (mergeBB, sc)
              ∧ ∃ s0 v s01 s2 s3, lowerExpr condition s0 = .ok (v, s01)
                ∧ s0.currentBlock = some condBB.index
                ∧ body s2 = .ok ((), s3)
                ∧ s2.loopStack = s.loopStack ++ [⟨mergeBB.name, condBB.name⟩]
                ∧ s1.currentBlock = some mergeBB.index))
    ∧ (∀ (init : Option Stmt) (condition step : Option Expr) (statements : List Stmt)
        (body : BuildM Unit) (s s1 : MIRBuilder),
        lower (.forStmt init condition step statements)
            = lowerForStmt (lowerOpt init) (condition.map lowerExpr) (step.map lowerExpr)
              (lowerBlock (lowerStatements statements) true)
          ∧ (lowerForStmt (lowerOpt init) (condition.map lowerExpr) (step.map lowerExpr) body s
              = .ok ((), s1) →
            ∃ condBB bodyBB stepBB mergeBB sa sb sc sd, newBlock "for.cond" s = .ok (condBB, sa)
              ∧ newBlock "for.body" sa = .ok (bodyBB, sb)
              ∧ newBlock "for.step" sb = .ok (stepBB, sc)
              ∧ newBlock "for.merge" sc = .ok (mergeBB, sd)
              ∧ (∀ e, step = some e →
                  ∃ s0 v s01, lowerExpr e s0 = .ok (v, s01)
                    ∧ s0.currentBlock = some stepBB.index)
              ∧ ∃ s2 s3, body s2 = .ok ((), s3)
                ∧ s2.loopStack = s.loopStack ++ [⟨mergeBB.name, stepBB.name⟩]
                ∧ s1.currentBlock = some mergeBB.index))
    ∧ (∀ (condition : Expr) (cases pre : List CaseStmt) (c : LoweredCase)
        (post : List LoweredCase) (s s1 : MIRBuilder),
        lower (.switchStmt condition cases)
            = lowerSwitchStmt (lowerAddr condition) condition.getType (lowerCaseBodies cases)
          ∧ (lowerSwitchStmt (lowerAddr condition) condition.getType
              (lowerCaseBodies pre ++ c :: post) s = .ok ((), s1) →
            ∃ addr sa endBB sb, lowerAddr condition s = .ok (addr, sa)
              ∧ newBlock "switch.end" sa = .ok (endBB, sb)
              ∧ ∃ s2 s3, c.body s2 = .ok ((), s3)
                ∧ s2.loopStack = s.loopStack ++ [⟨endBB.name, ""⟩]
                ∧ s1.currentBlock = some endBB.index)) := by
  refine ⟨?_, lower_keeps, ?_, ?_, ?_, ?_⟩
  · intro s ctx k b hctx hcur hb
    have e1 : lower .breakStmt = lowerBreakStmt := by rw [lower]
    have e2 : lower .continueStmt = lowerContinueStmt := by rw [lower]
    rw [e1, e2, lowerBreakStmt_back s ctx hctx, lowerContinueStmt_back s ctx hctx,
      emit_run _ s k b hcur hb, emit_run _ s k b hcur hb]
    exact ⟨rfl, rfl⟩
  · intro condition statements body s s1
    refine ⟨by rw [lower], fun h => ?_⟩
    exact lowerWhileStmt_body _ _ (lowerExpr_keeps condition) s s1 h
  · intro statements condition body s s1
    refine ⟨by rw [lower], fun h => ?_⟩
    exact lowerDoWhileStmt_body _ _ s s1 h
  · intro init condition step statements body s s1
    refine ⟨by rw [lower], fun h => ?_⟩
    obtain ⟨condBB, bodyBB, stepBB, mergeBB, sa, sb, sc, sd, h1, h2, h3, h4, hstep, hbody⟩ :=
      lowerForStmt_body _ _ _ _ (lowerOpt_keeps init) (keeps_map _ lowerExpr_keeps _) s s1 h
    refine ⟨condBB, bodyBB, stepBB, mergeBB, sa, sb, sc, sd, h1, h2, h3, h4, ?_, hbody⟩
    intro e he
    subst he
    exact hstep _ rfl
  · intro condition cases pre c post s s1
    refine ⟨by rw [lower], fun h => ?_⟩
    exact lowerSwitchStmt_body _ _ _ _ _ (lowerAddr_keeps condition) (lowerCaseBodies_keeps pre)
      s s1 h

end MIRBuilder

/-- C34 at concrete builders and programs: below a switch that is in a loop `break` names
the end block of the switch and `continue` throws; below a `for` loop that is in a switch
they name the merge block and the step block of the loop; and the compiled programs hold
the branches to `switch.end`, `for.step`, `for.merge`, `while.cond`, `while.merge`,
`do.cond` and `do.merge`. -/
theorem exits_witness :
    (MIRBuilder.lower .breakStmt inSwitchInLoop
          = .ok ((), inSwitchInLoop.appendTo 0 [.Br "switch.end.4"])
        ∧ MIRBuilder.lower .continueStmt inSwitchInLoop
          = .error "Continue outside of loop context")
      ∧ (MIRBuilder.lower .breakStmt inLoopInSwitch
          = .ok ((), inLoopInSwitch.appendTo 0 [.Br "for.merge.5"])
        ∧ MIRBuilder.lower .continueStmt inLoopInSwitch
          = .ok ((), inLoopInSwitch.appendTo 0 [.Br "for.step.4"]))
      ∧ compiledText 10 nestedExitsSource
        = some [("main",
            [("entry.0", ["%x.addr = alloca i32", "store %x, %x.addr", "br for.cond.1"]),
             ("for.cond.1", ["br for.body.2"]),
             ("for.body.2", ["%t0 = const 1", "%t1 = load %x.addr", "%t2 = binop == %t1, %t0",
               "br %t2, case.body.6, switch.end.5"]),
             ("for.step.3", ["br for.cond.1"]),
             ("for.merge.4", ["ret "]),
             ("switch.end.5", ["%t6 = load %x.addr", "%t7 = const 1", "%t8 = binop < %t6, %t7",
               "br %t8, if.then.9, if.merge.10"]),
             ("case.body.6", ["%t3 = load %x.addr", "%t4 = const 2", "%t5 = binop < %t3, %t4",
               "br %t5, if.then.7, if.merge.8"]),
             ("if.then.7", ["br switch.end.5"]),
             ("if.merge.8", ["br switch.end.5"]),
             ("if.then.9", ["br for.step.3"]),
             ("if.merge.10", ["br for.merge.4"])])]
      ∧ compiledText 10 whileExitsSource
        = some [("main",
            [("entry.0", ["%x.addr = alloca i32", "store %x, %x.addr", "br while.cond.1"]),
             ("while.cond.1", ["%t0 = load %x.addr", "%t1 = const 3", "%t2 = binop < %t0, %t1",
               "br %t2, while.body.2, while.merge.3"]),
             ("while.body.2", ["%t3 = load %x.addr", "%t4 = const 1", "%t5 = binop < %t3, %t4",
               "br %t5, if.then.4, if.merge.5"]),
             ("while.merge.3", ["ret "]),
             ("if.then.4", ["br while.cond.1"]),
             ("if.merge.5", ["br while.merge.3"])])]
      ∧ compiledText 10 doWhileExitsSource
        = some [("main",
            [("entry.0", ["%x.addr = alloca i32", "store %x, %x.addr", "br do.body.1"]),
             ("do.body.1", ["%t0 = load %x.addr", "%t1 = const 1", "%t2 = binop < %t0, %t1",
               "br %t2, if.then.4, if.merge.5"]),
             ("do.cond.2", ["%t3 = load %x.addr", "%t4 = const 3", "%t5 = binop < %t3, %t4",
               "br %t5, do.body.1, do.merge.3"]),
             ("do.merge.3", ["ret "]),
             ("if.then.4", ["br do.cond.2"]),
             ("if.merge.5", ["br do.merge.3"])])]
      ∧ failureOf (compileOf 10 continueInSwitchSource)
        = some "Continue outside of loop context" := by
  have h1 := MIRBuilder.exits_use_record_of_innermost_construct.1 inSwitchInLoop
    ⟨"switch.end.4", ""⟩ 0 ⟨"entry.0", []⟩ rfl rfl rfl
  have h2 := MIRBuilder.exits_use_record_of_innermost_construct.1 inLoopInSwitch
    ⟨"for.merge.5", "for.step.4"⟩ 0 ⟨"entry.0", []⟩ rfl rfl rfl
  refine ⟨⟨h1.1, h1.2.trans (if_pos rfl)⟩, ⟨h2.1, h2.2.trans (if_neg (by decide))⟩,
    ?_, ?_, ?_, ?_⟩ <;> decide!

end Chtholly
